import Mathlib

/-!
# MeshProjector: half-edge topology, vertex splitting, colouring, the two vertex solvers
and the topology of a refinement round

A shallow embedding of `src/MeshProjector.cc`.

* The face matrix `out_F_` (one row of three vertex ids per face) is a flat list read row by
  row, so `out_F_(i, j)` is the entry at position `i * 3 + j`.
* Vertex ids are natural numbers.  Directed-edge ids stored in `V2E_` and `E2E_` are integers,
  because the source uses `-1` as the "absent" sentinel and computes
  `deid / 3 * 3 + (deid + 2) % 3` on whatever it reads back (C++ division truncates).
* A read outside an array is undefined behaviour in the source; the embedding returns `none`.
* `do ... while` loops may spin forever; they carry an explicit step budget and return `none`
  when it is used up.
-/

namespace MeshProjector

/-! ## Data model -/

/-- Entry `out_F_(i, j)` of the face matrix stored row by row. -/
def faceAt (F : List Nat) (i j : Nat) : Nat := F.getD (i * 3 + j) 0

/-- Source vertex of the directed edge `d = 3 f + k`, that is `out_F_(d / 3, d % 3)`. -/
def src (F : List Nat) (d : Nat) : Nat := faceAt F (d / 3) (d % 3)

/-- Destination vertex of the directed edge `d`, that is `out_F_(d / 3, (d + 1) % 3)`. -/
def dst (F : List Nat) (d : Nat) : Nat := faceAt F (d / 3) ((d + 1) % 3)

/-- The fields of the C++ class that the topology layer reads and writes.  `P` is the type of a
row of `out_V_`. -/
structure Mesh (P : Type) where
  num_V_ : Nat
  num_F_ : Nat
  out_V_ : List P
  out_F_ : List Nat
  V2E_ : List Int
  E2E_ : List Int

/-! ## ComputeHalfEdge -/

/-- Loop state of `ComputeHalfEdge`: the two arrays and the local `std::map` called `dedges`,
which the function uses only through `find` and `operator[]`. -/
structure HalfEdgeState where
  V2E : List Int
  E2E : List Int
  dedges : Nat × Nat → Option Nat

/-- Body of the inner loop of `ComputeHalfEdge` for face `i` and corner `j`. -/
def halfEdgeStep (F : List Nat) (s : HalfEdgeState) (i j : Nat) : HalfEdgeState :=
  let v0 := faceAt F i j
  let v1 := faceAt F i ((j + 1) % 3)
  let V2E := s.V2E.set v0 ((i * 3 + j : Nat) : Int)
  match s.dedges (v1, v0) with
  | none =>
    { V2E := V2E, E2E := s.E2E,
      dedges := Function.update s.dedges (v0, v1) (some (i * 3 + j)) }
  | some rid =>
    { V2E := V2E,
      E2E := (s.E2E.set (i * 3 + j) ((rid : Nat) : Int)).set rid ((i * 3 + j : Nat) : Int),
      dedges := s.dedges }

/-- State of `ComputeHalfEdge` before its double loop: both arrays filled with `-1`. -/
def halfEdgeInit (num_V num_F : Nat) : HalfEdgeState :=
  { V2E := List.replicate num_V (-1), E2E := List.replicate (num_F * 3) (-1),
    dedges := fun _ => none }

/-- The double loop of `ComputeHalfEdge`. -/
def halfEdgeLoop (num_V num_F : Nat) (F : List Nat) : HalfEdgeState :=
  (List.range num_F).foldl
    (fun s i => (List.range 3).foldl (fun s j => halfEdgeStep F s i j) s)
    (halfEdgeInit num_V num_F)

/-- `MeshProjector::ComputeHalfEdge` (release build: the `DEBUG_` checks are compiled out). -/
def ComputeHalfEdge {P : Type} (m : Mesh P) : Mesh P :=
  let s := halfEdgeLoop m.num_V_ m.num_F_ m.out_F_
  { m with V2E_ := s.V2E, E2E_ := s.E2E }


/-! ## Hypotheses on the input face array -/

/-- Directed edge `d2` runs from the destination of `d1` back to its source. -/
def Reversed (F : List Nat) (d1 d2 : Nat) : Prop :=
  src F d2 = dst F d1 ∧ dst F d2 = src F d1

instance (F : List Nat) (d1 d2 : Nat) : Decidable (Reversed F d1 d2) := by
  unfold Reversed; infer_instance

/-- Every ordered pair occurring as a directed edge occurs exactly once. -/
def EdgesUnique (F : List Nat) (n : Nat) : Prop :=
  ∀ d1, d1 < n → ∀ d2, d2 < n → src F d1 = src F d2 → dst F d1 = dst F d2 → d1 = d2

/-- The reverse of every directed edge occurs as a directed edge. -/
def ReversePresent (F : List Nat) (n : Nat) : Prop :=
  ∀ d1, d1 < n → ∃ d2, d2 < n ∧ Reversed F d1 d2

/-- No directed edge runs from a vertex to itself (no face repeats a vertex). -/
def NoLoopEdge (F : List Nat) (n : Nat) : Prop :=
  ∀ d, d < n → src F d ≠ dst F d

instance (F : List Nat) (n : Nat) : Decidable (EdgesUnique F n) := by
  unfold EdgesUnique; infer_instance

instance (F : List Nat) (n : Nat) : Decidable (ReversePresent F n) := by
  unfold ReversePresent; infer_instance

instance (F : List Nat) (n : Nat) : Decidable (NoLoopEdge F n) := by
  unfold NoLoopEdge; infer_instance


/-! ## One-ring rotation -/

/-- Read `a[k]` for an `int` index `k`; a read outside the array is undefined in the source. -/
def getI (a : List Int) (k : Int) : Option Int :=
  if 0 ≤ k then a[k.toNat]? else none

/-- The index `deid / 3 * 3 + (deid + 2) % 3`; C++ `int` division truncates towards zero. -/
def prevIdx (deid : Int) : Int := Int.tdiv deid 3 * 3 + Int.tmod (deid + 2) 3

/-- The rotation step `E2E_[deid / 3 * 3 + (deid + 2) % 3]`. -/
def next_out (E2E : List Int) (deid : Int) : Option Int := getI E2E (prevIdx deid)

/-- The loop `do { s = body(s, deid); deid = E2E_[deid / 3 * 3 + (deid + 2) % 3]; }
while (deid0 != deid);` with a budget of `fuel` passes through the body. -/
def ringFold {σ : Type} (E2E : List Int) (deid0 : Int) (body : σ → Int → σ) :
    Nat → Int → σ → Option σ
  | 0, _, _ => none
  | fuel + 1, deid, s =>
    match next_out E2E deid with
    | none => none
    | some nxt =>
      if deid0 ≠ nxt then ringFold E2E deid0 body fuel nxt (body s deid)
      else some (body s deid)

/-- The directed edges visited by the ring loop started at `deid0`, in order. -/
def ringList (E2E : List Int) (fuel : Nat) (deid0 : Int) : Option (List Int) :=
  ringFold E2E deid0 (fun (l : List Int) p => l ++ [p]) fuel deid0 []

/-- The counting loop of `SplitVertices` (source lines 81-87). -/
def ringCount (E2E : List Int) (fuel : Nat) (deid0 : Int) : Option Nat :=
  ringFold E2E deid0 (fun (c : Nat) _ => c + 1) fuel deid0 0

/-! ## SplitVertices -/

/-- `s.insert(d)` on a `std::unordered_set<int>`, kept as a duplicate-free list. -/
def setInsert (s : List Int) (d : Int) : List Int := if d ∈ s then s else s ++ [d]

/-- First double loop of `SplitVertices`: `vlinks[v]` collects the corners of `v`. -/
def buildVlinks (num_V num_F : Nat) (F : List Nat) : List (List Int) :=
  (List.range num_F).foldl
    (fun vl i => (List.range 3).foldl
      (fun vl j =>
        let v0 := faceAt F i j
        vl.set v0 (setInsert (vl.getD v0 []) ((i * 3 + j : Nat) : Int)))
      vl)
    (List.replicate num_V [])

/-- The part of the state that the main loop of `SplitVertices` updates. -/
structure SplitState where
  out_F : List Nat
  num_vertices : Nat
  insert_vertex_info : List (Nat × Nat)

/-- The loop `for (auto& p : dedges) out_F_(p / 3, p % 3) = num_vertices;`.  For `p ≥ 0` the
entry `(p / 3, p % 3)` is position `p` of the flat array. -/
def rewriteCorners (F : List Nat) (dedges : List Int) (nv : Nat) : Option (List Nat) :=
  dedges.foldlM
    (fun F p => if 0 ≤ p ∧ p.toNat < F.length then some (F.set p.toNat nv) else none) F

/-- The loop `while (!vlinks[i].empty())` of `SplitVertices` for vertex `i`.  `pick` stands for
`*vlinks[i].begin()`, whose choice among the elements of an unordered set is unspecified;
`links` is `vlinks[i]`; the first argument bounds the number of passes. -/
def splitFans (pick : List Int → Int) (E2E : List Int) (i fuel : Nat) :
    Nat → List Int → Nat → SplitState → Option SplitState
  | 0, _, _, _ => none
  | w + 1, links, group_id, st =>
    if links = [] then some st
    else
      match ringList E2E fuel (pick links) with
      | none => none
      | some dedges =>
        let links1 := dedges.foldl (fun l p => l.erase p) links
        if group_id ≠ 0 then
          match rewriteCorners st.out_F dedges st.num_vertices with
          | none => none
          | some F1 =>
            splitFans pick E2E i fuel w links1 (group_id + 1)
              { out_F := F1, num_vertices := st.num_vertices + 1,
                insert_vertex_info := st.insert_vertex_info ++ [(st.num_vertices, i)] }
        else splitFans pick E2E i fuel w links1 (group_id + 1) st

/-- Body of the main loop of `SplitVertices` for vertex `i`. -/
def splitVertex (pick : List Int → Int) (V2E E2E : List Int) (vlinks : List (List Int))
    (fuel : Nat) (st : SplitState) (i : Nat) : Option SplitState :=
  match V2E[i]? with
  | none => none
  | some deid =>
    match ringCount E2E fuel deid with
    | none => none
    | some vertex_count =>
      if vertex_count ≠ (vlinks.getD i []).length then
        splitFans pick E2E i fuel fuel (vlinks.getD i []) 0 st
      else some st

/-- `out_V_.conservativeResize(rows, 3)`: keep the leading rows, new rows are uninitialised. -/
def conservativeResize {P : Type} [Inhabited P] (V : List P) (rows : Nat) : List P :=
  (V ++ List.replicate (rows - V.length) default).take rows

/-- `MeshProjector::SplitVertices`. -/
def SplitVertices {P : Type} [Inhabited P] (pick : List Int → Int) (fuel : Nat) (m : Mesh P) :
    Option (Mesh P) :=
  let vlinks := buildVlinks m.num_V_ m.num_F_ m.out_F_
  match (List.range m.num_V_).foldlM (splitVertex pick m.V2E_ m.E2E_ vlinks fuel)
      { out_F := m.out_F_, num_vertices := m.num_V_, insert_vertex_info := [] } with
  | none => none
  | some st =>
    let V := st.insert_vertex_info.foldl (fun V p => V.set p.1 (V.getD p.2 default))
      (conservativeResize m.out_V_ st.num_vertices)
    some { m with out_V_ := V, out_F_ := st.out_F, num_V_ := st.num_vertices }

/-! ## Auxiliary definitions used by the proofs -/

/-- State of `ComputeHalfEdge` after the first `k` directed edges were processed. -/
def halfEdgeAfter (num_V num_F : Nat) (F : List Nat) (k : Nat) : HalfEdgeState :=
  (List.range k).foldl (fun s d => halfEdgeStep F s (d / 3) (d % 3)) (halfEdgeInit num_V num_F)

/-- Invariant of the pairing loop after `k` directed edges. -/
structure HalfEdgeInv (F : List Nat) (n k : Nat) (s : HalfEdgeState) : Prop where
  len : s.E2E.length = n
  paired : ∀ d1 d2, d1 < k → d2 < k → Reversed F d1 d2 → s.E2E[d1]? = some (d2 : Int)
  unpaired : ∀ d, d < n → (k ≤ d ∨ ∀ d2, d2 < k → ¬ Reversed F d d2) →
    s.E2E[d]? = some (-1)
  map_sound : ∀ a b r, s.dedges (a, b) = some r → r < k ∧ src F r = a ∧ dst F r = b
  map_complete : ∀ r, r < k → (∀ d2, d2 < r → ¬ Reversed F r d2) →
    s.dedges (src F r, dst F r) = some r

/-- Invariant of `V2E_` after `k` directed edges: the last corner of each vertex wins. -/
structure V2EInv (F : List Nat) (num_V k : Nat) (V2E : List Int) : Prop where
  len : V2E.length = num_V
  absent : ∀ v, v < num_V → (∀ d, d < k → src F d ≠ v) → V2E[v]? = some (-1)
  last : ∀ d, d < k → src F d < num_V → (∀ d2, d2 < k → d < d2 → src F d2 ≠ src F d) →
    V2E[src F d]? = some (d : Int)

/-! ## Concrete meshes -/

/-- A tetrahedron: four faces on the vertices `0, 1, 2, 3`, consistently oriented. -/
def tetra : Mesh Unit :=
  { num_V_ := 4, num_F_ := 4, out_V_ := [(), (), (), ()],
    out_F_ := [0, 1, 2, 0, 3, 1, 0, 2, 3, 1, 3, 2], V2E_ := [], E2E_ := [] }

/-- A single face `(0, 0, 1)` that repeats a vertex: its directed edges are `(0,0)`, `(0,1)`
and `(1,0)`, each occurring once and each with its reverse present. -/
def loopFace : Mesh Unit :=
  { num_V_ := 2, num_F_ := 1, out_V_ := [(), ()],
    out_F_ := [0, 0, 1], V2E_ := [], E2E_ := [] }

/-! ## Natural-number view of the rotation, and validity of the half-edge arrays -/

/-- The entry `E2E_[d]` read as a natural number. -/
def e2eN (E2E : List Int) (d : Nat) : Nat := (E2E.getD d 0).toNat

/-- The index `d / 3 * 3 + (d + 2) % 3` for a non-negative directed edge id. -/
def prevN (d : Nat) : Nat := d / 3 * 3 + (d + 2) % 3

/-- The rotation step on non-negative directed edge ids. -/
def nextN (E2E : List Int) (d : Nat) : Nat := e2eN E2E (prevN d)

/-- `E2E` is an involution on `[0, n)` with the opposite-edge property with respect to `F`. -/
structure ValidE2E (F : List Nat) (n : Nat) (E2E : List Int) : Prop where
  three : 3 ∣ n
  opp : ∀ d, d < n → ∃ e, e < n ∧ E2E[d]? = some (e : Int) ∧ E2E[e]? = some (d : Int) ∧
    Reversed F d e

/-- Directed edge `d2` is reached from `d1` by rotating around the source vertex. -/
def SameFan (E2E : List Int) (d1 d2 : Nat) : Prop := ∃ k, (nextN E2E)^[k] d1 = d2

/-- The corners `d = 3 f + k` with `out_F_(f, k) = v`, in increasing order. -/
def corners (F : List Nat) (n v : Nat) : List Nat :=
  (List.range n).filter (fun d => src F d = v)

/-- The number of corners `(f, k)` with `out_F_(f, k) = v`. -/
def cornerCount (F : List Nat) (n v : Nat) : Nat := (corners F n v).length

/-- State of the first double loop of `SplitVertices` after `k` corners. -/
def vlinksAfter (num_V : Nat) (F : List Nat) (k : Nat) : List (List Int) :=
  (List.range k).foldl
    (fun vl d => vl.set (src F d) (setInsert (vl.getD (src F d) []) (d : Int)))
    (List.replicate num_V [])

/-- Directed edge `d` is the smallest directed edge of its fan. -/
def isFanMin (E2E : List Int) (n d : Nat) : Prop := ∀ k, k < n → d ≤ (nextN E2E)^[k] d

instance (E2E : List Int) (n d : Nat) : Decidable (isFanMin E2E n d) := by
  unfold isFanMin; infer_instance

/-- The number of distinct `next_out` cycles among the corners of `v`: each cycle is counted at
its smallest directed edge. -/
def numCycles (F : List Nat) (n : Nat) (E2E : List Int) (v : Nat) : Nat :=
  ((corners F n v).filter (fun d => isFanMin E2E n d)).length

/-- The number of fans all of whose directed edges are still in `links`. -/
def fansIn (E2E : List Int) (n : Nat) (links : List Int) : Nat :=
  ((List.range n).filter (fun (d : Nat) => ((d : Nat) : Int) ∈ links ∧ isFanMin E2E n d)).length

/-- Invariant of the loop `while (!vlinks[i].empty())` for vertex `i`; `st0` is the state on
entry, `links` the current `vlinks[i]` and `g` the current `group_id`. -/
structure FanInv (F : List Nat) (n : Nat) (E2E : List Int) (i : Nat) (st0 : SplitState)
    (links : List Int) (g : Nat) (st : SplitState) : Prop where
  nodup : links.Nodup
  links_sub : ∀ x ∈ links, ∃ d, d < n ∧ x = (d : Int) ∧ src F d = i
  closed : ∀ d d2, d < n → (d : Int) ∈ links → SameFan E2E d d2 → (d2 : Int) ∈ links
  len : st.out_F.length = n
  frame : ∀ d, d < n → (src F d ≠ i ∨ (d : Int) ∈ links) → src st.out_F d = src st0.out_F d
  ids : ∀ d, d < n → src F d = i → (d : Int) ∉ links →
    (src st.out_F d = i ∨
      (st0.num_vertices ≤ src st.out_F d ∧ src st.out_F d < st.num_vertices))
  same : ∀ d d2, d < n → d2 < n → src F d = i → src F d2 = i → (d : Int) ∉ links →
    (d2 : Int) ∉ links → (src st.out_F d = src st.out_F d2 ↔ SameFan E2E d d2)
  fresh_used : ∀ w, st0.num_vertices ≤ w → w < st.num_vertices →
    ∃ d, d < n ∧ src F d = i ∧ (d : Int) ∉ links ∧ src st.out_F d = w
  first : 0 < g → ∃ d, d < n ∧ src F d = i ∧ (d : Int) ∉ links ∧ src st.out_F d = i
  zero : g = 0 → st = st0 ∧ ∀ d, d < n → src F d = i → (d : Int) ∈ links
  count : st.num_vertices = st0.num_vertices + (g - 1)
  cycles : g + fansIn E2E n links = numCycles F n E2E i

/-- The number of fresh vertex ids that splitting the vertices below `i` needs: one for every
fan but the first of each vertex. -/
def extraVertices (F : List Nat) (n : Nat) (E2E : List Int) (i : Nat) : Nat :=
  ((List.range i).map (fun v => numCycles F n E2E v - 1)).sum

/-- Invariant of the main loop of `SplitVertices` before vertex `i` is processed. -/
structure SplitInv (F : List Nat) (n num_V : Nat) (E2E : List Int) (i : Nat)
    (st : SplitState) : Prop where
  len : st.out_F.length = n
  untouched : ∀ d, d < n → i ≤ src F d → src st.out_F d = src F d
  ids : ∀ d, d < n → src F d < i →
    (src st.out_F d = src F d ∨ (num_V ≤ src st.out_F d ∧ src st.out_F d < st.num_vertices))
  same : ∀ d d2, d < n → d2 < n → src F d < i → src F d2 < i →
    (src st.out_F d = src st.out_F d2 ↔ SameFan E2E d d2)
  fresh_used : ∀ w, num_V ≤ w → w < st.num_vertices →
    ∃ d, d < n ∧ src F d < i ∧ src st.out_F d = w
  first : ∀ v, v < i → ∃ d, d < n ∧ src F d = v ∧ src st.out_F d = v
  count : st.num_vertices = num_V + extraVertices F n E2E i

/-- What `SplitVertices` needs from the half-edge arrays it is given. -/
structure SplitInput (F : List Nat) (n num_V : Nat) (V2E E2E : List Int) : Prop where
  valid : ValidE2E F n E2E
  len : F.length = n
  src_lt : ∀ d, d < n → src F d < num_V
  v2e : ∀ v, v < num_V → ∃ d, d < n ∧ V2E[v]? = some (d : Int) ∧ src F d = v

/-- The index of the next directed edge in the same face, `d / 3 * 3 + (d + 1) % 3`. -/
def nxtN (d : Nat) : Nat := d / 3 * 3 + (d + 1) % 3

/-- A closed edge-manifold input without loop edges: every directed edge is unique, its reverse
is present, no directed edge runs from a vertex to itself, all vertex ids are below `num_V`,
and every vertex id below `num_V` is used by some face. -/
structure ClosedInput (F : List Nat) (n num_V : Nat) : Prop where
  three : 3 ∣ n
  len : F.length = n
  src_lt : ∀ d, d < n → src F d < num_V
  used : ∀ v, v < num_V → ∃ d, d < n ∧ src F d = v
  unique : EdgesUnique F n
  reverse : ReversePresent F n
  noloop : NoLoopEdge F n

/-- The repair step of `Project` (source lines 169-170): `SplitVertices(); ComputeHalfEdge();`. -/
def repair {P : Type} [Inhabited P] (pick : List Int → Int) (fuel : Nat) (m : Mesh P) :
    Option (Mesh P) :=
  (SplitVertices pick fuel m).map ComputeHalfEdge

/-- One admissible choice for `*vlinks[i].begin()`: the element inserted first. -/
def pickHead (l : List Int) : Int := l.headD 0

/-- Two tetrahedra `0 1 2 3` and `0 4 5 6` that share only the vertex `0` (a bowtie). -/
def bowtie : Mesh Unit :=
  { num_V_ := 7, num_F_ := 8, out_V_ := [(), (), (), (), (), (), ()],
    out_F_ := [0, 1, 2, 0, 3, 1, 0, 2, 3, 1, 3, 2, 0, 4, 5, 0, 6, 4, 0, 5, 6, 4, 6, 5],
    V2E_ := [], E2E_ := [] }

/-- A single face `(0, 1, 0)` that repeats a vertex. -/
def loopFace2 : Mesh Unit :=
  { num_V_ := 2, num_F_ := 1, out_V_ := [(), ()],
    out_F_ := [0, 1, 0], V2E_ := [], E2E_ := [] }

/-- A single face `(1, 0, 0)` that repeats a vertex. -/
def loopFace3 : Mesh Unit :=
  { num_V_ := 2, num_F_ := 1, out_V_ := [(), ()],
    out_F_ := [1, 0, 0], V2E_ := [], E2E_ := [] }

/-! ## ComputeIndependentSet -/

/-- Read `out_F_(deid / 3, (deid + 1) % 3)` for an `int` directed edge id. -/
def dstI (F : List Nat) (deid : Int) : Option Nat :=
  if 0 ≤ deid then F[nxtN deid.toNat]? else none

/-- The locals of `ComputeIndependentSet` together with the member `vertex_groups_`. -/
structure ColorState where
  marked_vertices : Nat
  group_id : Nat
  vertex_colors : List Int
  vertex_groups_ : List (List Nat)

/-- The conflict test of `ComputeIndependentSet` (source lines 134-141): the ring loop that
leaves with `conflict = true` as soon as a neighbour already has the colour `group_id`. -/
def conflictLoop (F : List Nat) (E2E : List Int) (vertex_colors : List Int) (group_id : Nat)
    (deid0 : Int) : Nat → Int → Option Bool
  | 0, _ => none
  | fuel + 1, deid =>
    match dstI F deid with
    | none => none
    | some next_v =>
      match vertex_colors[next_v]? with
      | none => none
      | some c =>
        if c = (group_id : Int) then some true
        else
          match next_out E2E deid with
          | none => none
          | some nxt =>
            if deid0 ≠ nxt then conflictLoop F E2E vertex_colors group_id deid0 fuel nxt
            else some false

/-- Body of the `for` loop of `ComputeIndependentSet` for vertex `i`.  A new empty group is
pushed for every `i`; `random_shuffle` stands for `std::random_shuffle` on that group. -/
def colorVertex (random_shuffle : List Nat → List Nat) (F : List Nat) (V2E E2E : List Int)
    (fuel : Nat) (s : ColorState) (i : Nat) : Option ColorState :=
  match s.vertex_colors[i]? with
  | none => none
  | some c =>
    if c ≠ -1 then some { s with vertex_groups_ := s.vertex_groups_ ++ [[]] }
    else
      match V2E[i]? with
      | none => none
      | some deid =>
        match conflictLoop F E2E s.vertex_colors s.group_id deid fuel deid with
        | none => none
        | some conflict =>
          if conflict = false then
            some { marked_vertices := s.marked_vertices + 1, group_id := s.group_id,
                   vertex_colors := s.vertex_colors.set i (s.group_id : Int),
                   vertex_groups_ := s.vertex_groups_ ++ [random_shuffle [i]] }
          else some { s with vertex_groups_ := s.vertex_groups_ ++ [random_shuffle []] }

/-- The loop `while (marked_vertices < num_V_)` of `ComputeIndependentSet`; the first argument
bounds the number of rounds. -/
def colorRounds (random_shuffle : List Nat → List Nat) (num_V : Nat) (F : List Nat)
    (V2E E2E : List Int) (fuel : Nat) : Nat → ColorState → Option ColorState
  | 0, _ => none
  | r + 1, s =>
    if s.marked_vertices < num_V then
      match (List.range s.vertex_colors.length).foldlM
          (colorVertex random_shuffle F V2E E2E fuel) s with
      | none => none
      | some s1 =>
        colorRounds random_shuffle num_V F V2E E2E fuel r { s1 with group_id := s1.group_id + 1 }
    else some s

/-- `MeshProjector::ComputeIndependentSet`, called on a projector whose `vertex_groups_` is
still empty.  The result holds the final `vertex_colors` and `vertex_groups_`. -/
def ComputeIndependentSet {P : Type} (random_shuffle : List Nat → List Nat) (fuel : Nat)
    (m : Mesh P) : Option ColorState :=
  colorRounds random_shuffle m.num_V_ m.out_F_ m.V2E_ m.E2E_ fuel fuel
    { marked_vertices := 0, group_id := 0, vertex_colors := List.replicate m.num_V_ (-1),
      vertex_groups_ := [] }

/-- An octahedron: the vertices `0` and `5`, `1` and `3`, `2` and `4` are opposite. -/
def octa : Mesh Unit :=
  { num_V_ := 6, num_F_ := 8, out_V_ := [(), (), (), (), (), ()],
    out_F_ := [0, 1, 2, 0, 2, 3, 0, 3, 4, 0, 4, 1, 5, 2, 1, 5, 3, 2, 5, 4, 3, 5, 1, 4],
    V2E_ := [], E2E_ := [] }

/-- A closed manifold mesh with valid `V2E_`/`E2E_`: `E2E` is an involution with the
opposite-edge property, and `V2E[v]` is an outgoing directed edge of `v` from which the rotation
reaches every corner of `v`. -/
structure ManifoldMesh (F : List Nat) (n num_V : Nat) (V2E E2E : List Int) : Prop where
  valid : ValidE2E F n E2E
  len : F.length = n
  src_lt : ∀ d, d < n → src F d < num_V
  ring : ∀ v, v < num_V → ∃ d, d < n ∧ V2E[v]? = some (d : Int) ∧ src F d = v ∧
    ∀ x, x < n → src F x = v → ∃ k, k < n ∧ (nextN E2E)^[k] d = x

/-- The colour of vertex `v`, `-1` when it has none. -/
def colorOf (vertex_colors : List Int) (v : Nat) : Int := vertex_colors.getD v (-1)

/-- Invariant of the colouring: colours in use are below `bound`, no edge joins two vertices
of the same colour, and `marked` counts the coloured vertices. -/
structure ColorInv (F : List Nat) (n num_V bound : Nat) (cols : List Int) (marked : Nat) :
    Prop where
  len : cols.length = num_V
  range : ∀ v, v < num_V → colorOf cols v = -1 ∨ (0 ≤ colorOf cols v ∧ colorOf cols v < bound)
  proper : ∀ d, d < n → src F d ≠ dst F d → colorOf cols (src F d) ≠ -1 →
    colorOf cols (src F d) ≠ colorOf cols (dst F d)
  marked : marked = (cols.filter (fun c => c ≠ -1)).length

/-- Invariant of one round of colouring with colour `g`, before vertex `i` is scanned; `cols0`
and `marked0` are the values at the start of the round. -/
structure RoundInv (F : List Nat) (n num_V g : Nat) (cols0 : List Int) (marked0 i : Nat)
    (s : ColorState) : Prop where
  inv : ColorInv F n num_V (g + 1) s.vertex_colors s.marked_vertices
  gid : s.group_id = g
  later : ∀ v, i ≤ v → colorOf s.vertex_colors v = colorOf cols0 v
  same : (∀ v, v < i → colorOf cols0 v ≠ -1) →
    s.vertex_colors = cols0 ∧ s.marked_vertices = marked0
  more : (∃ v, v < i ∧ colorOf cols0 v = -1) → marked0 < s.marked_vertices
  mono : marked0 ≤ s.marked_vertices
  groups : ∀ grp ∈ s.vertex_groups_, grp.length ≤ 1

/-- The octahedron together with the half-edge arrays that `ComputeHalfEdge` builds for it. -/
def octaHE : Mesh Unit :=
  { num_V_ := 6, num_F_ := 8, out_V_ := [(), (), (), (), (), ()],
    out_F_ := [0, 1, 2, 0, 2, 3, 0, 3, 4, 0, 4, 1, 5, 2, 1, 5, 3, 2, 5, 4, 3, 5, 1, 4],
    V2E_ := [9, 22, 17, 20, 23, 21],
    E2E_ := [11, 13, 3, 2, 16, 6, 5, 19, 9, 8, 22, 0, 17, 1, 21, 20, 4, 12, 23, 7, 15, 14,
      10, 18] }

/-! ## Vectors and the normal solver

The solvers are modelled in exact arithmetic over an arbitrary linearly ordered field `K`. -/

/-- A row of `out_V_`, `out_N_` or `out_FN_`. -/
abbrev Vector3 (K : Type) := K × K × K

/-- The constant `ZERO_THRES`, that is `1e-9`. -/
def ZERO_THRES (K : Type) [LinearOrderedField K] : K := 1 / 1000000000

/-- The Eigen product `a.dot(b)`. -/
def dot {K : Type} [LinearOrderedField K] (a b : Vector3 K) : K :=
  a.1 * b.1 + a.2.1 * b.2.1 + a.2.2 * b.2.2

/-- The vector `a - b`. -/
def vsub {K : Type} [LinearOrderedField K] (a b : Vector3 K) : Vector3 K :=
  (a.1 - b.1, a.2.1 - b.2.1, a.2.2 - b.2.2)

/-- The vector `a + b`. -/
def vadd {K : Type} [LinearOrderedField K] (a b : Vector3 K) : Vector3 K :=
  (a.1 + b.1, a.2.1 + b.2.1, a.2.2 + b.2.2)

/-- The vector `c * a`. -/
def vscale {K : Type} [LinearOrderedField K] (c : K) (a : Vector3 K) : Vector3 K :=
  (c * a.1, c * a.2.1, c * a.2.2)

/-- The row `out_FN_.row(deid / 3)` for an `int` directed edge id. -/
def faceNormal {K : Type} [LinearOrderedField K] (out_FN : List (Vector3 K)) (deid : Int) :
    Vector3 K :=
  out_FN.getD (Int.tdiv deid 3).toNat (0, 0, 0)

/-- Body of the ring loop of `OptimizeNormal` (source lines 863-870). -/
def normalStep {K : Type} [LinearOrderedField K] (out_FN : List (Vector3 K))
    (vn d : Vector3 K) (max_step : K) (deid : Int) : K :=
  let fn := faceNormal out_FN deid
  let denominator := dot d fn
  if denominator < -ZERO_THRES K then
    let step := -dot fn vn / denominator
    if step < max_step then step else max_step
  else max_step

/-- The fields of the C++ class used by the normal solver: the topology and the arrays
`out_N_` and `out_FN_`. -/
structure Projector (K : Type) extends Mesh (Vector3 K) where
  out_N_ : List (Vector3 K)
  out_FN_ : List (Vector3 K)

/-- `MeshProjector::OptimizeNormal`; the result is the array `out_N_` after the call. -/
def OptimizeNormal {K : Type} [LinearOrderedField K] (fuel : Nat) (m : Projector K) (i : Nat)
    (vn target_vn : Vector3 K) : Option (List (Vector3 K)) :=
  let d := vsub target_vn vn
  match m.V2E_[i]? with
  | none => none
  | some deid =>
    match ringFold m.E2E_ deid (normalStep m.out_FN_ vn d) fuel deid 1 with
    | none => none
    | some max_step =>
      let max_step := if max_step < 0 then 0 else max_step
      some (m.out_N_.set i (vadd vn (vscale max_step d)))

/-- The tetrahedron with the half-edge arrays built by `ComputeHalfEdge`, rational positions,
vertex normals and the face normals `(0,0,1)`, `(1,0,0)`, `(0,1,0)`, `(1,1,1)`. -/
def tetraQ : Projector ℚ :=
  { num_V_ := 4, num_F_ := 4,
    out_V_ := [(0, 0, 0), (1, 0, 0), (0, 1, 0), (0, 0, 1)],
    out_F_ := [0, 1, 2, 0, 3, 1, 0, 2, 3, 1, 3, 2],
    V2E_ := [6, 9, 11, 10],
    E2E_ := [5, 11, 6, 8, 9, 0, 2, 10, 3, 4, 7, 1],
    out_N_ := [(1, 1, 0), (0, 0, 0), (0, 0, 0), (0, 0, 0)],
    out_FN_ := [(0, 0, 1), (1, 0, 0), (0, 1, 0), (1, 1, 1)] }

/-! ## The position solver

`sqrt` stands for the square root of the scalar type; the definitions do not depend on how it
is computed. -/

/-- The Eigen product `a.cross(b)`. -/
def cross {K : Type} [LinearOrderedField K] (a b : Vector3 K) : Vector3 K :=
  (a.2.1 * b.2.2 - a.2.2 * b.2.1, a.2.2 * b.1 - a.1 * b.2.2, a.1 * b.2.1 - a.2.1 * b.1)

/-- The vector `a / s`. -/
def vdiv {K : Type} [LinearOrderedField K] (a : Vector3 K) (s : K) : Vector3 K :=
  (a.1 / s, a.2.1 / s, a.2.2 / s)

/-- The vector `-a`. -/
def vneg {K : Type} [LinearOrderedField K] (a : Vector3 K) : Vector3 K :=
  (-a.1, -a.2.1, -a.2.2)

/-- The Eigen call `a.norm()`. -/
def norm {K : Type} [LinearOrderedField K] (sqrt : K → K) (a : Vector3 K) : K :=
  sqrt (dot a a)

/-- The Eigen call `a.normalized()`: a vector of squared norm zero is returned unchanged. -/
def normalized {K : Type} [LinearOrderedField K] (sqrt : K → K) (a : Vector3 K) : Vector3 K :=
  if 0 < dot a a then vdiv a (sqrt (dot a a)) else a

/-- The entry `out_F_(deid / 3, (deid + k) % 3)` for an `int` directed edge id. -/
def faceI (F : List Nat) (deid : Int) (k : Nat) : Nat :=
  F.getD ((Int.tdiv deid 3).toNat * 3 + (Int.tmod (deid + (k : Int)) 3).toNat) 0

/-- The constraint `(d, b)` of `OptimizePosition` (source lines 681-683) for the corner
`(v0, v1, v2)` and the vertex normal `vn`. -/
def constraintOf {K : Type} [LinearOrderedField K] (sqrt : K → K) (out_V : List (Vector3 K))
    (v0 v1 v2 : Nat) (vn : Vector3 K) : Vector3 K × K :=
  let d := normalized sqrt
    (cross (vsub (out_V.getD v2 (0, 0, 0)) (out_V.getD v1 (0, 0, 0))) vn)
  (d, dot d (vsub (out_V.getD v1 (0, 0, 0)) (out_V.getD v0 (0, 0, 0))))

/-- Body of the first ring loop of `OptimizePosition`: three constraints are appended to the
vectors `A` and `B`, kept together as a list of pairs. -/
def constraintStep {K : Type} [LinearOrderedField K] (sqrt : K → K) (F : List Nat)
    (out_V out_N : List (Vector3 K)) (AB : List (Vector3 K × K)) (deid : Int) :
    List (Vector3 K × K) :=
  let v0 := faceI F deid 0
  let v1 := faceI F deid 1
  let v2 := faceI F deid 2
  AB ++ [constraintOf sqrt out_V v0 v1 v2 (out_N.getD v0 (0, 0, 0)),
         constraintOf sqrt out_V v0 v1 v2 (out_N.getD v1 (0, 0, 0)),
         constraintOf sqrt out_V v0 v1 v2 (out_N.getD v2 (0, 0, 0))]

/-- The locals of the main loop of `OptimizePosition`, the row `out_V_.row(v)` (`pos`), and a
log `steps` of the applied steps `(tar_dir, max_step)`, which the source does not keep. -/
structure PosState (K : Type) where
  pos : Vector3 K
  B : List K
  attached_dimensions : List Nat
  constraints : List (Vector3 K)
  steps : List (Vector3 K × K)

/-- How a pass through the main loop ends: by `return` or by going on to the next pass. -/
inductive Flow (σ : Type) where
  | ret : σ → Flow σ
  | next : σ → Flow σ

/-- The constraints `c` of the list with `c.dot(temp_dir) > -1e-3`. -/
def boundaryOf {K : Type} [LinearOrderedField K] (constraints : List (Vector3 K))
    (temp_dir : Vector3 K) : List (Vector3 K) :=
  constraints.filter (fun c => -(1 / 1000 : K) < dot c temp_dir)

/-- The block `if (constraints.size() > 0) { ... }` of the default build (source lines
729-789).  The result is `none` when the block leaves the function by `return`, and otherwise
the new values of `constraints`, `tar_dir` and `tar_step`. -/
def projectStep {K : Type} [LinearOrderedField K] (sqrt : K → K)
    (constraints : List (Vector3 K)) (tar_dir : Vector3 K) (tar_step : K) :
    Option (List (Vector3 K) × Vector3 K × K) :=
  match constraints.getLast? with
  | none => some (constraints, tar_dir, tar_step)
  | some c =>
    let temp_dir := vsub tar_dir (vscale (dot tar_dir c) c)
    let n := norm sqrt temp_dir
    if n < ZERO_THRES K then none
    else
      let temp_dir := vdiv temp_dir n
      let temp_boundary := boundaryOf constraints temp_dir
      if temp_boundary.length = 3 then none
      else
        let second : Option (Vector3 K) :=
          if temp_boundary.length = 2 then
            let t := cross (temp_boundary.getD 0 (0, 0, 0)) (temp_boundary.getD 1 (0, 0, 0))
            let t := if dot t tar_dir < 0 then vneg t else t
            let n2 := norm sqrt t
            if n2 < ZERO_THRES K then none
            else
              let t := vdiv t n2
              if (boundaryOf constraints t).length = 3 then none else some t
          else some temp_dir
        match second with
        | none => none
        | some temp_dir =>
          let kept := boundaryOf constraints temp_dir
          if kept.length = 3 then none
          else if kept.length = 2 then
            let dir := normalized sqrt
              (cross (kept.getD 0 (0, 0, 0)) (kept.getD 1 (0, 0, 0)))
            let temp_dir := vscale (dot tar_dir dir) dir
            let n := norm sqrt temp_dir
            if n < ZERO_THRES K then none
            else some (kept, vdiv temp_dir n, tar_step * n)
          else some (kept, temp_dir, tar_step * n)

/-- The loop that limits the step (source lines 796-807). -/
def limitStep {K : Type} [LinearOrderedField K] (A : List (Vector3 K)) (B : List K)
    (attached : List Nat) (tar_dir : Vector3 K) (tar_step : K) : K :=
  (List.range A.length).foldl
    (fun max_step j =>
      if attached.getD j 0 ≠ 0 then max_step
      else
        let denominator := dot (A.getD j (0, 0, 0)) tar_dir
        if denominator < ZERO_THRES K then max_step
        else
          let step := B.getD j 0 / denominator
          if step < max_step then step else max_step)
    tar_step

/-- The locals updated by the last loop of a pass (source lines 825-852). -/
structure AttachState (K : Type) where
  B : List K
  attached_dimensions : List Nat
  constraints : List (Vector3 K)
  new_element : Nat

/-- Body of the last loop of a pass for the constraint `j`. -/
def attachStep {K : Type} [LinearOrderedField K] (sqrt : K → K) (A : List (Vector3 K))
    (tar_dir : Vector3 K) (max_step : K) (constraint_size : Nat) (s : AttachState K) (j : Nat) :
    AttachState K :=
  if s.attached_dimensions.getD j 0 ≠ 0 then s
  else
    let a := A.getD j (0, 0, 0)
    let denominator := dot a tar_dir
    let b := s.B.getD j 0 - denominator * max_step
    let s1 : AttachState K := { s with B := s.B.set j b }
    if b < ZERO_THRES K ∧ ZERO_THRES K ≤ denominator then
      let dep1 : Bool := constraint_size = 1 ∧
        norm sqrt (cross (s.constraints.getD 0 (0, 0, 0)) a) < ZERO_THRES K
      let dep2 : Bool := constraint_size = 2 ∧
        |dot (normalized sqrt (cross (s.constraints.getD 0 (0, 0, 0))
          (s.constraints.getD 1 (0, 0, 0)))) a| < ZERO_THRES K
      if dep1 = false ∧ dep2 = false then
        if s.new_element = 0 then
          { B := s1.B, attached_dimensions := s.attached_dimensions.set j 1,
            constraints := s.constraints ++ [a], new_element := 1 }
        else s1
      else { s1 with attached_dimensions := s.attached_dimensions.set j 1 }
    else s1

/-- One pass through the main loop of `OptimizePosition` (source lines 699-852). -/
def positionPass {K : Type} [LinearOrderedField K] (sqrt : K → K) (A : List (Vector3 K))
    (p : Vector3 K) (s : PosState K) : Flow (PosState K) :=
  let offset := vsub p s.pos
  let tar_step := norm sqrt offset
  if tar_step < ZERO_THRES K then Flow.ret s
  else
    let tar_dir := vdiv offset tar_step
    match projectStep sqrt s.constraints tar_dir tar_step with
    | none => Flow.ret s
    | some (constraints, tar_dir, tar_step) =>
      let max_step := limitStep A s.B s.attached_dimensions tar_dir tar_step
      let max_step := if max_step < 1 / 1000000 then 0 else max_step
      let pos := vadd s.pos (vscale max_step tar_dir)
      let steps := s.steps ++ [(tar_dir, max_step)]
      if max_step = tar_step then
        Flow.ret { s with pos := pos, constraints := constraints, steps := steps }
      else
        let t := (List.range A.length).foldl
          (attachStep sqrt A tar_dir max_step constraints.length)
          { B := s.B, attached_dimensions := s.attached_dimensions,
            constraints := constraints, new_element := 0 }
        Flow.next { pos := pos, B := t.B, attached_dimensions := t.attached_dimensions,
                    constraints := t.constraints, steps := steps }

/-- The loop `for (int i = 0; i < A.size(); ++i)`: at most `count` passes. -/
def positionLoop {K : Type} [LinearOrderedField K] (sqrt : K → K) (A : List (Vector3 K))
    (p : Vector3 K) : Nat → PosState K → PosState K
  | 0, s => s
  | count + 1, s =>
    match positionPass sqrt A p s with
    | Flow.ret s1 => s1
    | Flow.next s1 => positionLoop sqrt A p count s1

/-- The constraints `(A[j], B[j])` that `OptimizePosition` generates on entry. -/
def positionConstraints {K : Type} [LinearOrderedField K] (sqrt : K → K) (fuel : Nat)
    (m : Projector K) (v : Nat) : Option (List (Vector3 K × K)) :=
  match m.V2E_[v]? with
  | none => none
  | some deid => ringFold m.E2E_ deid (constraintStep sqrt m.out_F_ m.out_V_ m.out_N_) fuel deid []

/-- `MeshProjector::OptimizePosition` in the default build (no `PROJ_THREE_TIMES`, no debug
output).  The result is the final state of the main loop; `pos` is the new `out_V_.row(v)`. -/
def OptimizePosition {K : Type} [LinearOrderedField K] (sqrt : K → K) (fuel : Nat)
    (m : Projector K) (v : Nat) (p : Vector3 K) : Option (PosState K) :=
  match positionConstraints sqrt fuel m v with
  | none => none
  | some AB =>
    some (positionLoop sqrt (AB.map Prod.fst) p AB.length
      { pos := m.out_V_.getD v (0, 0, 0), B := AB.map Prod.snd,
        attached_dimensions := List.replicate AB.length 0, constraints := [], steps := [] })

/-- The sum of the applied steps `max_step * tar_dir` of a log. -/
def pathSum {K : Type} [LinearOrderedField K] (steps : List (Vector3 K × K)) : Vector3 K :=
  steps.foldl (fun acc st => vadd acc (vscale st.2 st.1)) (0, 0, 0)

/-- The total length `max_step` of the applied steps of a log. -/
def pathLength {K : Type} [LinearOrderedField K] (steps : List (Vector3 K × K)) : K :=
  (steps.map Prod.snd).sum

/-- The constraint direction `a` is never met at a slope strictly between `0` and
`ZERO_THRES` by a step direction of the log. -/
def NoSmallSlope {K : Type} [LinearOrderedField K] (a : Vector3 K)
    (steps : List (Vector3 K × K)) : Prop :=
  ∀ st ∈ steps, ¬ (0 < dot a st.1 ∧ dot a st.1 < ZERO_THRES K)

/-- What holds when `OptimizePosition` returns: the displacement is the sum of the logged
steps, and a constraint with `b_j ≥ 0` that is not attached is violated by at most
`ZERO_THRES` times the path length, and not at all when no step met it at a small slope. -/
structure PosFinal {K : Type} [LinearOrderedField K] (A : List (Vector3 K)) (B0 : List K)
    (pos0 : Vector3 K) (s : PosState K) : Prop where
  disp : vsub s.pos pos0 = pathSum s.steps
  nonneg : ∀ st ∈ s.steps, 0 ≤ st.2
  slack : ∀ j, j < A.length → s.attached_dimensions.getD j 0 = 0 → 0 ≤ B0.getD j 0 →
    dot (A.getD j (0, 0, 0)) (vsub s.pos pos0)
      ≤ B0.getD j 0 + ZERO_THRES K * pathLength s.steps
  exact : ∀ j, j < A.length → s.attached_dimensions.getD j 0 = 0 → 0 ≤ B0.getD j 0 →
    NoSmallSlope (A.getD j (0, 0, 0)) s.steps →
    dot (A.getD j (0, 0, 0)) (vsub s.pos pos0) ≤ B0.getD j 0

/-- Invariant of the main loop of `OptimizePosition` at the start of a pass: the final
property, and for constraints that are not attached `B[j]` is the initial `b_j` minus what the
displacement has used up. -/
structure PosInv {K : Type} [LinearOrderedField K] (A : List (Vector3 K)) (B0 : List K)
    (pos0 : Vector3 K) (s : PosState K) : Prop where
  fin : PosFinal A B0 pos0 s
  lenB : s.B.length = A.length
  lenAtt : s.attached_dimensions.length = A.length
  book : ∀ j, j < A.length → s.attached_dimensions.getD j 0 = 0 →
    s.B.getD j 0 = B0.getD j 0 - dot (A.getD j (0, 0, 0)) (vsub s.pos pos0)

/-- The square root of `x` looked up among the listed non-negative candidates; it is exact on
the squares of the candidates. -/
def sqrtAmong (roots : List ℚ) (x : ℚ) : ℚ := (roots.find? (fun r => r * r = x)).getD 0

/-- A flat tetrahedron: the triangle `(0,0,0)`, `(4,0,0)`, `(0,3,0)` with the vertex `0` at
`(1, 1e-12, 0)` inside it, just above the edge from vertex `1` to vertex `2`; all vertex
normals are `(0,0,1)`. -/
def flatQ : Projector ℚ :=
  { num_V_ := 4, num_F_ := 4,
    out_V_ := [(1, 1 / 1000000000000, 0), (0, 0, 0), (4, 0, 0), (0, 3, 0)],
    out_F_ := [0, 1, 2, 0, 3, 1, 0, 2, 3, 1, 3, 2],
    V2E_ := [6, 9, 11, 10],
    E2E_ := [5, 11, 6, 8, 9, 0, 2, 10, 3, 4, 7, 1],
    out_N_ := [(0, 0, 1), (0, 0, 1), (0, 0, 1), (0, 0, 1)],
    out_FN_ := [(0, 0, 1), (0, 0, 1), (0, 0, 1), (0, 0, 1)] }

/-- The target `out_V_[0] + (0, -2e-10, 1 - 1e-20)`; the offset has length `1 + 1e-20`. -/
def flatTarget : Vector3 ℚ :=
  (1, 1 / 1000000000000 - 2 / 10000000000, 1 - 1 / 100000000000000000000)

/-- The square root on the four radicands `9`, `16`, `25`, `(1 + 1e-20)^2` that occur when
`OptimizePosition` runs on `flatQ` with target `flatTarget`. -/
def flatSqrt : ℚ → ℚ := sqrtAmong [3, 4, 5, 1 + 1 / 100000000000000000000]

/-! ## AdaptiveRefine: the topology of one refinement round

The geometry that a round computes (midpoints, nearest points, normals) does not influence the
index arrays, so the embedding below keeps only `num_V_`, `num_F_`, `out_F_`, `V2E_` and
`E2E_`, and takes the list `candidates` as it stands after the distance filter (source line
500). -/

/-- `a.conservativeResize(size)` on an Eigen array kept as a list: the leading entries are
kept, and a new entry at position `i` holds an uninitialised value, here `junk i`. -/
def resizeWith {α : Type} (junk : Nat → α) (a : List α) (size : Nat) : List α :=
  (List.range size).map (fun i => (a[i]?).getD (junk i))

/-- `m[k] = v` on a `std::map`, kept as the list of its entries in increasing key order. -/
def mapSet {κ ν : Type} [LinearOrder κ] : List (κ × ν) → κ → ν → List (κ × ν)
  | [], k, v => [(k, v)]
  | (k1, v1) :: rest, k, v =>
    if k < k1 then (k, v) :: (k1, v1) :: rest
    else if k = k1 then (k, v) :: rest
    else (k1, v1) :: mapSet rest k v

/-- `m.find(k)` on a `std::map` kept as a list of entries. -/
def mapFind {κ ν : Type} [DecidableEq κ] : List (κ × ν) → κ → Option ν
  | [], _ => none
  | (k1, v1) :: rest, k => if k = k1 then some v1 else mapFind rest k

/-- The fields of the class that the topology of a refinement round reads and writes. -/
structure Topology where
  num_V_ : Nat
  num_F_ : Nat
  out_F_ : List Nat
  V2E_ : List Int
  E2E_ : List Int

/-- One pass of the loop `for (int j = 0; j < 2; ++j)` (source lines 510-518): the entry
`deid % 3` of `face_splits[deid / 3]` becomes `num_V`, the face getting the vector
`(-1, -1, -1)` first when it has no entry yet. -/
def markSplit (face_splits : List (Nat × List Int)) (deid num_V : Nat) :
    List (Nat × List Int) :=
  match mapFind face_splits (deid / 3) with
  | none => mapSet face_splits (deid / 3) (([-1, -1, -1] : List Int).set (deid % 3) num_V)
  | some v => mapSet face_splits (deid / 3) (v.set (deid % 3) num_V)

/-- The locals and members updated by the loop that inserts vertices. -/
structure VertexState where
  num_V_ : Nat
  face_splits : List (Nat × List Int)

/-- Body of the loop that inserts vertices (source lines 507-524) for the candidate `deid`.
Both sides of the edge are marked with the new vertex id, then `AddVertex` increments
`num_V_`.  A negative directed edge id read back from `E2E_` makes the source index a vector
at `-1`. -/
def insertVertex (E2E : List Int) (s : VertexState) (deid : Nat) : Option VertexState :=
  let fs1 := markSplit s.face_splits deid s.num_V_
  match E2E[deid]? with
  | none => none
  | some d1 =>
    if d1 < 0 then none
    else
      let fs2 := markSplit fs1 d1.toNat s.num_V_
      match E2E[d1.toNat]? with
      | none => none
      | some d2 =>
        if d2 < 0 then none
        else some { num_V_ := s.num_V_ + 1, face_splits := fs2 }

/-- The locals and members updated by the loop that inserts faces. -/
structure FaceState where
  num_F_ : Nat
  out_F_ : List Nat
  dedges : List (Lex (Nat × Nat) × Int)

/-- The assignment `out_F_.row(f) = Vector3i(a, b, c)`. -/
def setRow (F : List Nat) (f a b c : Nat) : List Nat :=
  ((F.set (f * 3) a).set (f * 3 + 1) b).set (f * 3 + 2) c

/-- The lambda `AddFace` (source lines 460-468) without the face normal: the matrix doubles
its rows when it is full, and the face is written to row `num_F_`. -/
def AddFace (junk : Nat → Nat) (s : FaceState) (a b c : Nat) : FaceState :=
  let F := if s.out_F_.length / 3 ≤ s.num_F_
    then resizeWith junk s.out_F_ (s.out_F_.length / 3 * 2 * 3) else s.out_F_
  { s with out_F_ := setRow F s.num_F_ a b c, num_F_ := s.num_F_ + 1 }

/-- Body of the loop that inserts faces (source lines 528-585) for the entry `info` of
`face_splits`. -/
def splitFace (junk : Nat → Nat) (E2E : List Int) (s : FaceState) (info : Nat × List Int) :
    Option FaceState :=
  let f := info.1
  let splits := info.2
  let count := ((List.range 3).filter (fun j => 0 ≤ splits.getD j 0)).length
  if count = 3 then
    let v0 := faceAt s.out_F_ f 0
    let v1 := faceAt s.out_F_ f 1
    let v2 := faceAt s.out_F_ f 2
    let nv0 := (splits.getD 0 0).toNat
    let nv1 := (splits.getD 1 0).toNat
    let nv2 := (splits.getD 2 0).toNat
    let s1 := { s with out_F_ := setRow s.out_F_ f v0 nv0 nv2 }
    some (AddFace junk (AddFace junk (AddFace junk s1 nv0 nv1 nv2) nv0 v1 nv1) nv2 nv1 v2)
  else if count = 2 then
    let j := splits.findIdx (fun x => x = -1)
    let v0 := faceAt s.out_F_ f j
    let v1 := faceAt s.out_F_ f ((j + 1) % 3)
    let v2 := faceAt s.out_F_ f ((j + 2) % 3)
    let nv0 := (splits.getD ((j + 1) % 3) 0).toNat
    let nv1 := (splits.getD ((j + 2) % 3) 0).toNat
    match E2E[f * 3 + j]? with
    | none => none
    | some e =>
      let s1 := { s with dedges := mapSet s.dedges (toLex (v1, v0)) e,
                         out_F_ := setRow s.out_F_ f v0 v1 nv0 }
      some (AddFace junk (AddFace junk s1 v0 nv0 nv1) nv1 nv0 v2)
  else if count = 1 then
    let j := splits.findIdx (fun x => x ≠ -1)
    let v0 := faceAt s.out_F_ f j
    let v1 := faceAt s.out_F_ f ((j + 1) % 3)
    let v2 := faceAt s.out_F_ f ((j + 2) % 3)
    match E2E[f * 3 + (j + 1) % 3]?, E2E[f * 3 + (j + 2) % 3]? with
    | some e1, some e2 =>
      let nv0 := (splits.getD j 0).toNat
      let s1 := { s with dedges := mapSet (mapSet s.dedges (toLex (v2, v1)) e1) (toLex (v0, v2)) e2,
                         out_F_ := setRow s.out_F_ f v0 nv0 v2 }
      some (AddFace junk s1 nv0 v1 v2)
    | _, _ => none
  else some s

/-- The loop `while (a.size() < target) a.conservativeResize(a.size() * 2);` on the size of
the array, with a budget of `fuel` doublings. -/
def growSize : Nat → Nat → Nat → Option Nat
  | 0, size, target => if size < target then none else some size
  | fuel + 1, size, target =>
    if size < target then growSize fuel (size * 2) target else some size

/-- The arrays updated by the two loops that re-register the touched faces. -/
structure RebuildState where
  V2E : List Int
  dedges : List (Lex (Nat × Nat) × Int)

/-- Body of the inner loops at source lines 600-608 and 613-621 for corner `i` of face `f`. -/
def touchEdge (F : List Nat) (s : RebuildState) (f i : Nat) : RebuildState :=
  let v0 := faceAt F f i
  let v1 := faceAt F f ((i + 1) % 3)
  { V2E := s.V2E.set v0 ((f * 3 + i : Nat) : Int),
    dedges := mapSet s.dedges (toLex (v0, v1)) ((f * 3 + i : Nat) : Int) }

/-- The three corners of the face `f` are registered again. -/
def touchFace (F : List Nat) (s : RebuildState) (f : Nat) : RebuildState :=
  (List.range 3).foldl (fun s i => touchEdge F s f i) s

/-- The write `a[k] = v` for an `int` index `k`; a write outside the array is undefined in the
source. -/
def setI (a : List Int) (k v : Int) : Option (List Int) :=
  if 0 ≤ k ∧ k.toNat < a.length then some (a.set k.toNat v) else none

/-- The loop `for (auto& info : dedges)` (source lines 623-629).  `pos` is the position of the
iterator in the map; `dedges[key]` inserts the value `0` when the key is absent, which moves
the current entry by one place when the new key sorts before it. -/
def pairLoop : Nat → List (Lex (Nat × Nat) × Int) → Nat → List Int → Option (List Int)
  | 0, _, _, _ => none
  | fuel + 1, dedges, pos, E2E =>
    match dedges[pos]? with
    | none => some E2E
    | some (k, deid) =>
      let key : Lex (Nat × Nat) := toLex ((ofLex k).2, (ofLex k).1)
      match mapFind dedges key with
      | some rdeid =>
        match setI E2E deid rdeid with
        | none => none
        | some E1 =>
          match setI E1 rdeid deid with
          | none => none
          | some E2 => pairLoop fuel dedges (pos + 1) E2
      | none =>
        match setI E2E deid 0 with
        | none => none
        | some E1 =>
          match setI E1 0 deid with
          | none => none
          | some E2 =>
            pairLoop fuel (mapSet dedges key 0) (if key < k then pos + 2 else pos + 1) E2

/-- The topology of one round of `AdaptiveRefine` from the insertion of the vertices to the
rebuild of `V2E_` and `E2E_` (source lines 502-629), for the list `candidates` of the directed
edges to split. -/
def refineTopology (junkF : Nat → Nat) (junkV junkE : Nat → Int) (t : Topology)
    (candidates : List Nat) : Option Topology :=
  match candidates.foldlM (insertVertex t.E2E_)
      { num_V_ := t.num_V_, face_splits := [] } with
  | none => none
  | some vs =>
    match vs.face_splits.foldlM (splitFace junkF t.E2E_)
        { num_F_ := t.num_F_, out_F_ := t.out_F_, dedges := [] } with
    | none => none
    | some fs =>
      match growSize vs.num_V_ t.V2E_.length vs.num_V_,
          growSize (fs.num_F_ * 3) t.E2E_.length (fs.num_F_ * 3) with
      | some sizeV, some sizeE =>
        let rb := (vs.face_splits.map Prod.fst
            ++ List.range' t.num_F_ (fs.num_F_ - t.num_F_)).foldl (touchFace fs.out_F_)
          { V2E := resizeWith junkV t.V2E_ sizeV, dedges := fs.dedges }
        match pairLoop (2 * rb.dedges.length + 1) rb.dedges 0
            (resizeWith junkE t.E2E_ sizeE) with
        | none => none
        | some E2E => some { num_V_ := vs.num_V_, num_F_ := fs.num_F_, out_F_ := fs.out_F_,
                             V2E_ := rb.V2E, E2E_ := E2E }
      | _, _ => none

/-- The "pillow": two faces `(0,1,2)` and `(0,2,1)` glued along all three edges, with the
half-edge arrays built by `ComputeHalfEdge`. -/
def pillow : Topology :=
  { num_V_ := 3, num_F_ := 2, out_F_ := [0, 1, 2, 0, 2, 1],
    V2E_ := [3, 5, 4], E2E_ := [5, 4, 3, 2, 1, 0] }

/-- The tetrahedron with the half-edge arrays built by `ComputeHalfEdge`. -/
def tetraT : Topology :=
  { num_V_ := 4, num_F_ := 4, out_F_ := [0, 1, 2, 0, 3, 1, 0, 2, 3, 1, 3, 2],
    V2E_ := [6, 9, 11, 10], E2E_ := [5, 11, 6, 8, 9, 0, 2, 10, 3, 4, 7, 1] }

/-! ## Auxiliary definitions for the refinement round -/

/-- The keys of the list are strictly increasing. -/
def MapSorted {κ ν : Type} [LinearOrder κ] (m : List (κ × ν)) : Prop :=
  m.Pairwise (fun e1 e2 => e1.1 < e2.1)

/-- The smaller of the directed edge `d` and its opposite `E2E_[d]`. -/
def edgeRep (E2E : List Int) (d : Nat) : Nat := if d < e2eN E2E d then d else e2eN E2E d

/-- The mark that `face_splits` holds for the directed edge `d` once the candidates `cs` are
processed: the id of the vertex inserted on the edge, or `-1` when the edge is not split. -/
def midOf (E2E : List Int) (num_V : Nat) (cs : List Nat) (d : Nat) : Int :=
  if edgeRep E2E d ∈ cs then ((num_V + cs.indexOf (edgeRep E2E d) : Nat) : Int) else -1

/-- The vector of the three marks of the face `f`. -/
def marksOf (μ : Nat → Int) (f : Nat) : List Int := [μ (f * 3), μ (f * 3 + 1), μ (f * 3 + 2)]

/-- The face `f` has a marked edge. -/
def IsSplit (μ : Nat → Int) (f : Nat) : Prop :=
  0 ≤ μ (f * 3) ∨ 0 ≤ μ (f * 3 + 1) ∨ 0 ≤ μ (f * 3 + 2)

instance (μ : Nat → Int) (f : Nat) : Decidable (IsSplit μ f) := by
  unfold IsSplit; infer_instance

/-- The map `face_splits` holds exactly the faces with a marked edge, each with its marks. -/
structure SplitsInv (num_F : Nat) (μ : Nat → Int) (fs : List (Nat × List Int)) : Prop where
  sorted : MapSorted fs
  keys_lt : ∀ e ∈ fs, e.1 < num_F
  find : ∀ f, f < num_F → mapFind fs f = if IsSplit μ f then some (marksOf μ f) else none

/-- Row `g` of the face matrix. -/
def rowOf (F : List Nat) (g : Nat) : Nat × Nat × Nat := (faceAt F g 0, faceAt F g 1, faceAt F g 2)

/-- The rows of the face matrix below `num_F`. -/
def tris (F : List Nat) (num_F : Nat) : List (Nat × Nat × Nat) :=
  (List.range num_F).map (rowOf F)

/-- The triangles that the loop at source lines 528-585 makes of the face `t` whose marks are
`splits`: the first one overwrites the row of the face, the others are appended by `AddFace`
in this order. -/
def kidsOf (t : Nat × Nat × Nat) (splits : List Int) : List (Nat × Nat × Nat) :=
  let v : List Nat := [t.1, t.2.1, t.2.2]
  let count := ((List.range 3).filter (fun j => 0 ≤ splits.getD j 0)).length
  if count = 3 then
    let nv0 := (splits.getD 0 0).toNat
    let nv1 := (splits.getD 1 0).toNat
    let nv2 := (splits.getD 2 0).toNat
    [(t.1, nv0, nv2), (nv0, nv1, nv2), (nv0, t.2.1, nv1), (nv2, nv1, t.2.2)]
  else if count = 2 then
    let j := splits.findIdx (fun x => x = -1)
    let v0 := v.getD j 0
    let v1 := v.getD ((j + 1) % 3) 0
    let v2 := v.getD ((j + 2) % 3) 0
    let nv0 := (splits.getD ((j + 1) % 3) 0).toNat
    let nv1 := (splits.getD ((j + 2) % 3) 0).toNat
    [(v0, v1, nv0), (v0, nv0, nv1), (nv1, nv0, v2)]
  else if count = 1 then
    let j := splits.findIdx (fun x => x ≠ -1)
    let v0 := v.getD j 0
    let v1 := v.getD ((j + 1) % 3) 0
    let v2 := v.getD ((j + 2) % 3) 0
    let nv0 := (splits.getD j 0).toNat
    [(v0, nv0, v2), (nv0, v1, v2)]
  else [t]

/-- The entries that the loop at source lines 528-585 writes to `dedges` for the face `f`
with row `t` and marks `splits`, in the order of the writes. -/
def stubsOf (E2E : List Int) (f : Nat) (t : Nat × Nat × Nat) (splits : List Int) :
    List (Lex (Nat × Nat) × Int) :=
  let v : List Nat := [t.1, t.2.1, t.2.2]
  let count := ((List.range 3).filter (fun j => 0 ≤ splits.getD j 0)).length
  if count = 2 then
    let j := splits.findIdx (fun x => x = -1)
    [(toLex (v.getD ((j + 1) % 3) 0, v.getD j 0), E2E.getD (f * 3 + j) 0)]
  else if count = 1 then
    let j := splits.findIdx (fun x => x ≠ -1)
    [(toLex (v.getD ((j + 2) % 3) 0, v.getD ((j + 1) % 3) 0), E2E.getD (f * 3 + (j + 1) % 3) 0),
     (toLex (v.getD j 0, v.getD ((j + 2) % 3) 0), E2E.getD (f * 3 + (j + 2) % 3) 0)]
  else []

/-- The three directed edges of a triangle as vertex pairs. -/
def triKeys (t : Nat × Nat × Nat) : List (Nat × Nat) := [(t.1, t.2.1), (t.2.1, t.2.2), (t.2.2, t.1)]

/-- The calls of `AddFace` for a list of triangles, in order. -/
def addFaces (junk : Nat → Nat) (s : FaceState) (l : List (Nat × Nat × Nat)) : FaceState :=
  l.foldl (fun s t => AddFace junk s t.1 t.2.1 t.2.2) s

/-- The directed edges of the triangles made of the face `t` with marks `splits`. -/
def kidKeys (t : Nat × Nat × Nat) (splits : List Int) : List (Nat × Nat) :=
  (kidsOf t splits).flatMap triKeys

/-- The pair `x` is an edge of the face `t` that carries no mark. -/
def roleU (t : Nat × Nat × Nat) (s0 s1 s2 : Int) (x : Nat × Nat) : Prop :=
  (s0 = -1 ∧ x = (t.1, t.2.1)) ∨ (s1 = -1 ∧ x = (t.2.1, t.2.2)) ∨ (s2 = -1 ∧ x = (t.2.2, t.1))

/-- The pair `x` is one half of a marked edge of the face `t`. -/
def roleH (t : Nat × Nat × Nat) (s0 s1 s2 : Int) (x : Nat × Nat) : Prop :=
  (0 ≤ s0 ∧ (x = (t.1, s0.toNat) ∨ x = (s0.toNat, t.2.1))) ∨
  (0 ≤ s1 ∧ (x = (t.2.1, s1.toNat) ∨ x = (s1.toNat, t.2.2))) ∨
  (0 ≤ s2 ∧ (x = (t.2.2, s2.toNat) ∨ x = (s2.toNat, t.1)))

/-- The pair `x` joins the new vertex of a marked edge of `t` and the vertex opposite to that
edge, in either direction. -/
def roleIA (t : Nat × Nat × Nat) (s0 s1 s2 : Int) (x : Nat × Nat) : Prop :=
  (0 ≤ s0 ∧ (x = (s0.toNat, t.2.2) ∨ x = (t.2.2, s0.toNat))) ∨
  (0 ≤ s1 ∧ (x = (s1.toNat, t.1) ∨ x = (t.1, s1.toNat))) ∨
  (0 ≤ s2 ∧ (x = (s2.toNat, t.2.1) ∨ x = (t.2.1, s2.toNat)))

/-- The pair `x` joins the new vertices of two marked edges of `t`. -/
def roleIM (s0 s1 s2 : Int) (x : Nat × Nat) : Prop :=
  (0 ≤ s0 ∧ 0 ≤ s1 ∧ (x = (s0.toNat, s1.toNat) ∨ x = (s1.toNat, s0.toNat))) ∨
  (0 ≤ s1 ∧ 0 ≤ s2 ∧ (x = (s1.toNat, s2.toNat) ∨ x = (s2.toNat, s1.toNat))) ∨
  (0 ≤ s2 ∧ 0 ≤ s0 ∧ (x = (s2.toNat, s0.toNat) ∨ x = (s0.toNat, s2.toNat)))


/-- Invariant of the loop that inserts faces, `done` being the faces already handled: their
rows hold the first triangle made of them and the other triangles were appended in order,
while `dedges` holds entries written for faces of `done` and a key for each such entry. -/
structure FaceInv (F : List Nat) (num_F : Nat) (E2E : List Int) (μ : Nat → Int)
    (done : List Nat) (s : FaceState) : Prop where
  cap : s.num_F_ * 3 ≤ s.out_F_.length
  ge : num_F ≤ s.num_F_
  rows : tris s.out_F_ s.num_F_
    = (List.range num_F).map
        (fun g => if g ∈ done then (kidsOf (rowOf F g) (marksOf μ g)).headD (0, 0, 0)
          else rowOf F g)
      ++ done.flatMap (fun g => (kidsOf (rowOf F g) (marksOf μ g)).tail)
  sorted : MapSorted s.dedges
  sound : ∀ e ∈ s.dedges, ∃ g ∈ done, e ∈ stubsOf E2E g (rowOf F g) (marksOf μ g)
  keys : ∀ g ∈ done, ∀ e ∈ stubsOf E2E g (rowOf F g) (marksOf μ g), ∃ v, (e.1, v) ∈ s.dedges

/-- The directed edges, as vertex pairs, of the triangles made of the face `g`. -/
def faceKeys (F : List Nat) (μ : Nat → Int) (g : Nat) : List (Nat × Nat) :=
  kidKeys (rowOf F g) (marksOf μ g)

/-- The vertex of the face of `d` that is opposite to the directed edge `d`. -/
def apexOf (F : List Nat) (d : Nat) : Nat := src F (prevN d)

/-- The pair `x` is a directed edge of the face `g` that carries no mark. -/
def RoleU (F : List Nat) (μ : Nat → Int) (g : Nat) (x : Nat × Nat) : Prop :=
  ∃ d, d / 3 = g ∧ μ d = -1 ∧ x = (src F d, dst F d)

/-- The pair `x` runs from the source of a marked edge of `g` to its new vertex. -/
def RoleH1 (F : List Nat) (μ : Nat → Int) (g : Nat) (x : Nat × Nat) : Prop :=
  ∃ d, d / 3 = g ∧ 0 ≤ μ d ∧ x = (src F d, (μ d).toNat)

/-- The pair `x` runs from the new vertex of a marked edge of `g` to its destination. -/
def RoleH2 (F : List Nat) (μ : Nat → Int) (g : Nat) (x : Nat × Nat) : Prop :=
  ∃ d, d / 3 = g ∧ 0 ≤ μ d ∧ x = ((μ d).toNat, dst F d)

/-- The pair `x` ends at the new vertex of a marked edge of `g` and starts at the source of
that edge or at the vertex opposite to it. -/
def RoleON (F : List Nat) (μ : Nat → Int) (g : Nat) (x : Nat × Nat) : Prop :=
  ∃ d, d / 3 = g ∧ 0 ≤ μ d ∧ x.2 = (μ d).toNat ∧ (x.1 = src F d ∨ x.1 = apexOf F d)

/-- The pair `x` starts at the new vertex of a marked edge of `g` and ends at the destination
of that edge or at the vertex opposite to it. -/
def RoleNO (F : List Nat) (μ : Nat → Int) (g : Nat) (x : Nat × Nat) : Prop :=
  ∃ d, d / 3 = g ∧ 0 ≤ μ d ∧ x.1 = (μ d).toNat ∧ (x.2 = dst F d ∨ x.2 = apexOf F d)

/-- The pair `x` joins the new vertices of two different marked edges of `g`. -/
def RoleNN (μ : Nat → Int) (g : Nat) (x : Nat × Nat) : Prop :=
  ∃ d d2, d / 3 = g ∧ d2 / 3 = g ∧ d ≠ d2 ∧ 0 ≤ μ d ∧ 0 ≤ μ d2 ∧
    x = ((μ d).toNat, (μ d2).toNat)

/-- What a refinement round needs from the mesh and from the list of the directed edges to
split: valid half-edge arrays, vertex ids below `num_V_`, no face that repeats a vertex, no
ordered vertex pair that occurs twice as a directed edge, candidates that are the smaller
directed edge of their pair and are listed once, and different opposite vertices in the two
faces on either side of every candidate. -/
structure RefineInput (t : Topology) (candidates : List Nat) : Prop where
  valid : ValidE2E t.out_F_ (t.num_F_ * 3) t.E2E_
  cap : t.num_F_ * 3 ≤ t.out_F_.length
  src_lt : ∀ d, d < t.num_F_ * 3 → src t.out_F_ d < t.num_V_
  v2e : ∀ v, v < t.num_V_ → ∃ d, d < t.num_F_ * 3 ∧ t.V2E_[v]? = some (d : Int) ∧
    src t.out_F_ d = v
  unique : EdgesUnique t.out_F_ (t.num_F_ * 3)
  noloop : NoLoopEdge t.out_F_ (t.num_F_ * 3)
  cand_lt : ∀ c ∈ candidates, c < t.num_F_ * 3 ∧ c < e2eN t.E2E_ c
  cand_nodup : candidates.Nodup
  apex : ∀ c ∈ candidates,
    apexOf t.out_F_ c ≠ apexOf t.out_F_ (e2eN t.E2E_ c)

/-- The marks of a refinement round: `face_splits` after the loop that inserts vertices. -/
def marks (t : Topology) (candidates : List Nat) : Nat → Int :=
  midOf t.E2E_ t.num_V_ candidates


/-- The directed edges `0 .. n-1` of the face matrix as vertex pairs. -/
def keysList (F : List Nat) (n : Nat) : List (Nat × Nat) :=
  (List.range n).map (fun d => (src F d, dst F d))

/-- The state after the loop that inserts faces: `L` lists the faces of `face_splits`. -/
structure Refined (t : Topology) (candidates : List Nat) (L : List Nat) (s : FaceState) :
    Prop where
  inp : RefineInput t candidates
  inv : FaceInv t.out_F_ t.num_F_ t.E2E_ (marks t candidates) L s
  nodup : L.Nodup
  split : ∀ g, g < t.num_F_ → (g ∈ L ↔ IsSplit (marks t candidates) g)
  lt : ∀ g ∈ L, g < t.num_F_

/-- The directed edge `d` lies in a face that the round rewrites or appends. -/
def Touched (num_F : Nat) (L : List Nat) (d : Nat) : Prop := d / 3 ∈ L ∨ num_F ≤ d / 3

instance (num_F : Nat) (L : List Nat) (d : Nat) : Decidable (Touched num_F L d) := by
  unfold Touched; infer_instance

/-- The map `m` holds `a` under some key and `b` under the reversed key. -/
def PairIn (m : List (Lex (Nat × Nat) × Int)) (a b : Int) : Prop :=
  ∃ k, (k, a) ∈ m ∧ (toLex ((ofLex k).2, (ofLex k).1), b) ∈ m

/-- Invariant of the loop over `dedges` that writes `E2E_`: every entry of the array is still
the initial one or was written from a pair of the map, and the entries at the values of the
first `pos` map entries were written. -/
structure PairInv (m : List (Lex (Nat × Nat) × Int)) (E0 : List Int) (pos : Nat)
    (E : List Int) : Prop where
  len : E.length = E0.length
  frame : ∀ x, x < E.length → E[x]? = E0[x]? ∨ ∃ b, E[x]? = some b ∧ PairIn m (x : Int) b
  written : ∀ i, i < pos → ∀ e, m[i]? = some e → ∃ b, E[e.2.toNat]? = some b ∧ PairIn m e.2 b

/-- Body of the loops that re-register the touched faces, for the directed edge `d`. -/
def touchD (F : List Nat) (s : RebuildState) (d : Nat) : RebuildState :=
  { V2E := s.V2E.set (src F d) (d : Int),
    dedges := mapSet s.dedges (toLex (src F d, dst F d)) (d : Int) }

/-- The directed edges of a list of faces, in order. -/
def edgesOfFaces (faces : List Nat) : List Nat :=
  faces.flatMap (fun f => [f * 3, f * 3 + 1, f * 3 + 2])

/-- The map `dedges` after the loops that re-register the touched faces. -/
def finalMap (t : Topology) (L : List Nat) (s : FaceState) : List (Lex (Nat × Nat) × Int) :=
  ((L ++ List.range' t.num_F_ (s.num_F_ - t.num_F_)).foldl (touchFace s.out_F_)
    { V2E := [], dedges := s.dedges }).dedges

/-- Invariant of the pairing loop after `k` directed edges that needs no hypothesis on loop
edges: entries not yet visited hold `-1`, every other entry is `-1` or one half of a mutual
pair, and a directed edge found in the map is still unpaired unless its reverse key has
already been looked up. -/
structure PairedInv (F : List Nat) (n k : Nat) (s : HalfEdgeState) : Prop where
  len : s.E2E.length = n
  fresh : ∀ d, k ≤ d → d < n → s.E2E[d]? = some (-1)
  pairs : ∀ d, d < n → s.E2E[d]? = some (-1) ∨
    ∃ e, e < n ∧ s.E2E[d]? = some (e : Int) ∧ s.E2E[e]? = some (d : Int)
  map_sound : ∀ a b r, s.dedges (a, b) = some r → r < k ∧ src F r = a ∧ dst F r = b ∧
    (s.E2E[r]? = some (-1) ∨ ∃ k2, k2 < k ∧ src F k2 = b ∧ dst F k2 = a)

/-- Three faces on the vertices `0, 1, 2`: the face `(0, 1, 2)` and the face `(0, 2, 1)` twice,
so every directed edge of the first face has its reverse present twice. -/
def book : Mesh Unit :=
  { num_V_ := 3, num_F_ := 3, out_V_ := [(), (), ()],
    out_F_ := [0, 1, 2, 0, 2, 1, 0, 2, 1], V2E_ := [], E2E_ := [] }

/-- Bookkeeping of `vertex_groups_`: over all groups together a vertex occurs once when it is
coloured and not at all otherwise. -/
def GroupCount (s : ColorState) : Prop :=
  ∀ v, s.vertex_groups_.flatten.count v = if colorOf s.vertex_colors v = -1 then 0 else 1

/-- The number of marked edges of a face, the local `count` of source lines 532-536. -/
def splitCount (splits : List Int) : Nat :=
  ((List.range 3).filter (fun j => 0 ≤ splits.getD j 0)).length

/-- Corner `k mod 3` of the triangle `t`. -/
def cornerOf (t : Nat × Nat × Nat) (k : Nat) : Nat := [t.1, t.2.1, t.2.2].getD (k % 3) 0

/-- The new vertex recorded for the edge `k mod 3` of a face, the entry `splits[k % 3]`. -/
def midAt (splits : List Int) (k : Nat) : Nat := (splits.getD (k % 3) 0).toNat

/-- The directed edges along the boundary of the face `t` once its marked edges are split: an
edge without mark stays, a marked edge from `a` to `b` with new vertex `m` gives the two halves
from `a` to `m` and from `m` to `b`. -/
def sideEdges (t : Nat × Nat × Nat) (splits : List Int) : List (Nat × Nat) :=
  (List.range 3).flatMap (fun j =>
    if 0 ≤ splits.getD j 0 then
      [(cornerOf t j, midAt splits j), (midAt splits j, cornerOf t (j + 1))]
    else [(cornerOf t j, cornerOf t (j + 1))])

/-- The square root on the radicands `9`, `16`, `25`, `4` and `(1 / 2000000)^2`. -/
def stepSqrt : ℚ → ℚ := sqrtAmong [3, 4, 5, 2, 1 / 2000000]

/-- The target `out_V_[0] + (-2, 0, 0)` for vertex `0` of `flatQ`. -/
def sideTarget : Vector3 ℚ := (-1, 1 / 1000000000000, 0)

/-- The state of the main loop of `OptimizePosition` on entry, for vertex `0` of `flatQ`. -/
def flatStart : PosState ℚ :=
  { pos := (1, 1 / 1000000000000, 0),
    B := [2249999999999 / 1250000000000, 2249999999999 / 1250000000000,
      2249999999999 / 1250000000000, 1, 1, 1, 1 / 1000000000000, 1 / 1000000000000,
      1 / 1000000000000],
    attached_dimensions := [0, 0, 0, 0, 0, 0, 0, 0, 0], constraints := [], steps := [] }

/-- The constraint directions `A` of `OptimizePosition` for vertex `0` of `flatQ`. -/
def flatA : List (Vector3 ℚ) :=
  [(3 / 5, 4 / 5, 0), (3 / 5, 4 / 5, 0), (3 / 5, 4 / 5, 0), (-1, 0, 0), (-1, 0, 0), (-1, 0, 0),
   (0, -1, 0), (0, -1, 0), (0, -1, 0)]

/-! ## The normals of a vertex and of its faces -/

/-- The product `d0.cross(d1)` of the two normalised edge vectors at the corner `deid` (source
lines 196-204 and 217-225).  `normalize()` leaves a vector of squared norm zero unchanged. -/
def cornerCross {K : Type} [LinearOrderedField K] (sqrt : K → K) (F : List Nat)
    (out_V : List (Vector3 K)) (deid : Int) : Vector3 K :=
  let v0 := faceI F deid 0
  let v1 := faceI F deid 1
  let v2 := faceI F deid 2
  let d0 := normalized sqrt (vsub (out_V.getD v1 (0, 0, 0)) (out_V.getD v0 (0, 0, 0)))
  let d1 := normalized sqrt (vsub (out_V.getD v2 (0, 0, 0)) (out_V.getD v0 (0, 0, 0)))
  cross d0 d1

/-- Body of the loop of `UpdateFaceNormal` (source lines 196-208): the row `deid / 3` of
`out_FN_` is overwritten. -/
def faceNormalStep {K : Type} [LinearOrderedField K] (sqrt : K → K) (F : List Nat)
    (out_V out_FN : List (Vector3 K)) (deid : Int) : List (Vector3 K) :=
  let vn := cornerCross sqrt F out_V deid
  let l := norm sqrt vn
  let vn := if 0 < l then vdiv vn l else vn
  out_FN.set (Int.tdiv deid 3).toNat vn

/-- The loop `do { ... } while (deid0 != deid);` of `UpdateFaceNormal` (source lines 195-209).
Its body does not assign `deid`, so the variable is handed on as it is. -/
def faceNormalLoop {K : Type} [LinearOrderedField K] (sqrt : K → K) (F : List Nat)
    (out_V : List (Vector3 K)) (deid0 : Int) :
    Nat → Int → List (Vector3 K) → Option (List (Vector3 K))
  | 0, _, _ => none
  | fuel + 1, deid, out_FN =>
    let out_FN1 := faceNormalStep sqrt F out_V out_FN deid
    if deid0 ≠ deid then faceNormalLoop sqrt F out_V deid0 fuel deid out_FN1
    else some out_FN1

/-- `MeshProjector::UpdateFaceNormal`; the result is the array `out_FN_` after the call. -/
def UpdateFaceNormal {K : Type} [LinearOrderedField K] (sqrt : K → K) (fuel : Nat)
    (m : Projector K) (i : Nat) : Option (List (Vector3 K)) :=
  match m.V2E_[i]? with
  | none => none
  | some deid => faceNormalLoop sqrt m.out_F_ m.out_V_ deid fuel deid m.out_FN_

/-- Body of the first loop of `UpdateVertexNormal` (source lines 217-228); `asin` stands for
the library function of that name. -/
def vertexNormalStep {K : Type} [LinearOrderedField K] (sqrt asin : K → K) (F : List Nat)
    (out_V : List (Vector3 K)) (n : Vector3 K) (deid : Int) : Vector3 K :=
  let vn := cornerCross sqrt F out_V deid
  let l := norm sqrt vn
  vadd n (vscale (asin l / l) vn)

/-- Body of the second loop of `UpdateVertexNormal` (source lines 234-243), run when
`conservative` is not zero. -/
def conservativeStep {K : Type} [LinearOrderedField K] (sqrt : K → K) (F : List Nat)
    (out_V : List (Vector3 K)) (n : Vector3 K) (deid : Int) : Vector3 K :=
  let v0 := faceI F deid 0
  let v1 := faceI F deid 1
  let v2 := faceI F deid 2
  let d0 := vsub (out_V.getD v1 (0, 0, 0)) (out_V.getD v0 (0, 0, 0))
  let d1 := vsub (out_V.getD v2 (0, 0, 0)) (out_V.getD v0 (0, 0, 0))
  let vn := normalized sqrt (cross d0 d1)
  if dot n vn < 0 then vsub n (vscale (dot n vn) vn) else n

/-- `MeshProjector::UpdateVertexNormal`; the result is the array `out_N_` after the call. -/
def UpdateVertexNormal {K : Type} [LinearOrderedField K] (sqrt asin : K → K) (fuel : Nat)
    (m : Projector K) (i : Nat) (conservative : Bool) : Option (List (Vector3 K)) :=
  match m.V2E_[i]? with
  | none => none
  | some deid =>
    match ringFold m.E2E_ deid (vertexNormalStep sqrt asin m.out_F_ m.out_V_) fuel deid
        (0, 0, 0) with
    | none => none
    | some n =>
      if conservative then
        match ringFold m.E2E_ deid (conservativeStep sqrt m.out_F_ m.out_V_) fuel deid n with
        | none => none
        | some n2 => some (m.out_N_.set i (normalized sqrt n2))
      else some (m.out_N_.set i (normalized sqrt n))

/-! ## The active-set loop of IterativeOptimize -/

/-- The members of the C++ class used by the active-set loop, on top of those of the
solvers. -/
structure Solver (K : Type) extends Projector K where
  target_V_ : List (Vector3 K)
  sqrD_ : List K
  I_ : List Int
  indices_ : List (K × Nat)
  active_vertices_ : List Nat
  active_vertices_temp_ : List Nat
  num_active_ : Nat

/-- The members and the locals `changed` and `num_active_temp` during a sweep. -/
structure SweepState (K : Type) where
  m : Solver K
  changed : Bool
  num_active_temp : Nat

/-- Body of the sweep of `IterativeOptimize` (source lines 321-341) for the vertex `vid`.
The local `vn` of source line 328 is declared `auto` and initialised with `out_N_.row(vid)`,
which makes it a view of that row and not a copy: what the two later uses of `vn` read is the
row as it is then. -/
def sweepVertex {K : Type} [LinearOrderedField K] (sqrt asin : K → K) (fuel : Nat)
    (s : SweepState K) (vid : Nat) : Option (SweepState K) :=
  let target := s.m.target_V_.getD vid (0, 0, 0)
  let d0 := norm sqrt (vsub (s.m.out_V_.getD vid (0, 0, 0)) target)
  match OptimizePosition sqrt fuel s.m.toProjector vid target with
  | none => none
  | some ps =>
    let m1 : Solver K := { s.m with out_V_ := s.m.out_V_.set vid ps.pos }
    let d1 := norm sqrt (vsub (m1.out_V_.getD vid (0, 0, 0)) target)
    match UpdateFaceNormal sqrt fuel m1.toProjector vid with
    | none => none
    | some out_FN =>
      let m2 : Solver K := { m1 with out_FN_ := out_FN }
      let vn : List (Vector3 K) → Vector3 K := fun out_N => out_N.getD vid (0, 0, 0)
      match UpdateVertexNormal sqrt asin fuel m2.toProjector vid false with
      | none => none
      | some out_N =>
        let m3 : Solver K := { m2 with out_N_ := out_N }
        match OptimizeNormal fuel m3.toProjector vid (vn m3.out_N_)
            (m3.out_N_.getD vid (0, 0, 0)) with
        | none => none
        | some out_N2 =>
          let m4 : Solver K := { m3 with out_N_ := out_N2 }
          if ZERO_THRES K < |d1 - d0| ∨
              dot (vn m4.out_N_) (m4.out_N_.getD vid (0, 0, 0)) < 1 - ZERO_THRES K then
            some { m := { m4 with active_vertices_temp_ :=
                            m4.active_vertices_temp_.set s.num_active_temp vid },
                   changed := s.changed || decide (1 / 1000000 < |d1 - d0|),
                   num_active_temp := s.num_active_temp + 1 }
          else some { m := m4, changed := s.changed, num_active_temp := s.num_active_temp }

/-- `s.insert(v)` on a `std::unordered_set<int>` of vertex ids, kept as a duplicate-free
list. -/
def setInsertN (s : List Nat) (v : Nat) : List Nat := if v ∈ s then s else s ++ [v]

/-- The order `<=` of `std::pair<double, int>`, by which `std::sort` arranges `indices_`. -/
def pairLe {K : Type} [LinearOrderedField K] (a b : K × Nat) : Prop :=
  a.1 < b.1 ∨ (a.1 = b.1 ∧ a.2 ≤ b.2)

instance {K : Type} [LinearOrderedField K] : DecidableRel (pairLe (K := K)) := by
  intro a b; unfold pairLe; infer_instance

/-- One pass through the loop `while (true)` of `IterativeOptimize` (source lines 311-383);
the result holds the members and the local `changed`.  `query` stands for the nearest-point
oracle `tree_.squared_distance` on one point (squared distance, face index, nearest point), and
`order` for the order in which the `std::unordered_set` called `novel_activate` is
traversed. -/
def optimizePass {K : Type} [LinearOrderedField K] (sqrt asin : K → K)
    (query : Vector3 K → K × Int × Vector3 K) (order : List Nat → List Nat) (fuel : Nat)
    (m : Solver K) : Option (Solver K × Bool) :=
  let indices := (List.range m.num_active_).foldl
    (fun ind i =>
      let vid := m.active_vertices_.getD i 0
      ind.set i (m.sqrD_.getD vid 0, vid))
    m.indices_
  let indices := (indices.take m.num_active_).insertionSort pairLe
    ++ indices.drop m.num_active_
  match (List.range m.num_active_).reverse.foldlM
      (fun s i => sweepVertex sqrt asin fuel s (indices.getD i (0, 0)).2)
      { m := { m with indices_ := indices }, changed := false, num_active_temp := 0 } with
  | none => none
  | some s =>
    let m1 := s.m
    let m2 : Solver K :=
      if m1.out_V_.length / 2 < s.num_active_temp then
        let res := m1.out_V_.map query
        { m1 with sqrD_ := res.map (fun r => r.1), I_ := res.map (fun r => r.2.1),
                  target_V_ := res.map (fun r => r.2.2) }
      else
        (List.range s.num_active_temp).foldl
          (fun m i =>
            let v := m1.active_vertices_temp_.getD i 0
            let r := query (m1.out_V_.getD v (0, 0, 0))
            { m with target_V_ := m.target_V_.set v r.2.2, sqrD_ := m.sqrD_.set v r.1,
                     I_ := m.I_.set v r.2.1 })
          m1
    match (List.range s.num_active_temp).foldlM
        (fun (novel_activate : List Nat) i =>
          let p := m2.active_vertices_temp_.getD i 0
          match m2.V2E_[p]? with
          | none => none
          | some deid =>
            ringFold m2.E2E_ deid (fun nov d => setInsertN nov (faceI m2.out_F_ d 1)) fuel deid
              (setInsertN novel_activate p))
        [] with
    | none => none
    | some novel_activate =>
      let l := order novel_activate
      some ({ m2 with
              active_vertices_ := (List.range l.length).foldl
                (fun a k => a.set k (l.getD k 0)) m2.active_vertices_,
              num_active_ := l.length }, s.changed)

/-- The loop `while (true)` of `IterativeOptimize`, that is the call
`IterativeOptimize(len, true)`; the first argument bounds the number of passes. -/
def optimizeLoop {K : Type} [LinearOrderedField K] (sqrt asin : K → K)
    (query : Vector3 K → K × Int × Vector3 K) (order : List Nat → List Nat) (fuel : Nat) :
    Nat → Solver K → Option (Solver K)
  | 0, _ => none
  | passes + 1, m =>
    match optimizePass sqrt asin query order fuel m with
    | none => none
    | some (m1, changed) =>
      if changed then optimizeLoop sqrt asin query order fuel passes m1 else some m1

/-! ## One round of AdaptiveRefine with its geometry -/

/-- What the rows added by `conservativeResize` and `resize` hold, array by array. -/
structure Junk (K : Type) where
  out_V : Nat → Vector3 K
  out_N : Nat → Vector3 K
  target_V : Nat → Vector3 K
  out_FN : Nat → Vector3 K
  sqrD : Nat → K
  I : Nat → Int
  indices : Nat → K × Nat
  active : Nat → Nat
  active_temp : Nat → Nat
  out_F : Nat → Nat
  V2E : Nat → Int
  E2E : Nat → Int

/-- The lambda `AddVertex` (source lines 440-458). -/
def AddVertex {K : Type} [LinearOrderedField K] (J : Junk K) (m : Solver K)
    (p n tar_p : Vector3 K) (sqr_dis : K) (face_index : Int) : Solver K :=
  let m1 : Solver K :=
    if m.out_V_.length ≤ m.num_V_ then
      { m with out_V_ := resizeWith J.out_V m.out_V_ (m.out_V_.length * 2),
               out_N_ := resizeWith J.out_N m.out_N_ (m.out_N_.length * 2),
               target_V_ := resizeWith J.target_V m.target_V_ (m.target_V_.length * 2),
               sqrD_ := resizeWith J.sqrD m.sqrD_ (m.sqrD_.length * 2),
               I_ := resizeWith J.I m.I_ (m.I_.length * 2),
               indices_ := resizeWith J.indices m.indices_ (m.indices_.length * 2),
               active_vertices_ :=
                 resizeWith J.active m.active_vertices_ (m.active_vertices_.length * 2),
               active_vertices_temp_ := resizeWith J.active_temp m.active_vertices_temp_
                 (m.active_vertices_temp_.length * 2) }
    else m
  { m1 with out_V_ := m1.out_V_.set m.num_V_ p, out_N_ := m1.out_N_.set m.num_V_ n,
            target_V_ := m1.target_V_.set m.num_V_ tar_p,
            sqrD_ := m1.sqrD_.set m.num_V_ sqr_dis, I_ := m1.I_.set m.num_V_ face_index,
            num_V_ := m.num_V_ + 1 }

/-- The face count, the number of rows of `out_F_` and the array `out_FN_` during the loop
that inserts faces. -/
structure NormalState (K : Type) where
  num_F_ : Nat
  rows : Nat
  out_FN_ : List (Vector3 K)

/-- What the lambda `AddFace` (source lines 460-468) does with the face normal `n`. -/
def AddFaceNormal {K : Type} (junk : Nat → Vector3 K) (s : NormalState K) (n : Vector3 K) :
    NormalState K :=
  let s1 : NormalState K :=
    if s.rows ≤ s.num_F_ then
      { s with rows := s.rows * 2, out_FN_ := resizeWith junk s.out_FN_ (s.out_FN_.length * 2) }
    else s
  { s1 with out_FN_ := s1.out_FN_.set s.num_F_ n, num_F_ := s.num_F_ + 1 }

/-- What the body of the loop that inserts faces (source lines 528-585) does to `out_FN_`: every
new face gets the normal `fn` of the face it is cut from. -/
def splitFaceNormal {K : Type} [LinearOrderedField K] (junk : Nat → Vector3 K)
    (s : NormalState K) (info : Nat × List Int) : NormalState K :=
  let fn := s.out_FN_.getD info.1 (0, 0, 0)
  let count := ((List.range 3).filter (fun j => 0 ≤ info.2.getD j 0)).length
  if count = 3 then AddFaceNormal junk (AddFaceNormal junk (AddFaceNormal junk s fn) fn) fn
  else if count = 2 then AddFaceNormal junk (AddFaceNormal junk s fn) fn
  else if count = 1 then AddFaceNormal junk s fn
  else s

/-- The members and the local `candidates` of `AdaptiveRefine` between two rounds. -/
structure RefineState (K : Type) where
  m : Solver K
  candidates : List Nat

/-- The midpoint `(out_V_.row(v0) + out_V_.row(v1)) * 0.5` of the directed edge `deid` (source
lines 476-480). -/
def midpoint {K : Type} [LinearOrderedField K] (m : Solver K) (deid : Nat) : Vector3 K :=
  vscale (1 / 2) (vadd (m.out_V_.getD (src m.out_F_ deid) (0, 0, 0))
    (m.out_V_.getD (dst m.out_F_ deid) (0, 0, 0)))

/-- One pass through the loop `for (int iter = 0; iter < 4; ++iter)` of `AdaptiveRefine`
(source lines 471-664); `passes` bounds the passes of the loop of `IterativeOptimize`. -/
def refineRound {K : Type} [LinearOrderedField K] (sqrt asin : K → K)
    (query : Vector3 K → K × Int × Vector3 K) (order : List Nat → List Nat) (J : Junk K)
    (len ratio : K) (fuel passes : Nat) (s : RefineState K) : Option (RefineState K) :=
  let m := s.m
  let P := s.candidates.map (midpoint m)
  let res := P.map query
  let kept := (s.candidates.zip (P.zip res)).filter (fun r => len * ratio < sqrt r.2.2.1)
  let candidates := kept.map Prod.fst
  match refineTopology J.out_F J.V2E J.E2E
      { num_V_ := m.num_V_, num_F_ := m.num_F_, out_F_ := m.out_F_, V2E_ := m.V2E_,
        E2E_ := m.E2E_ } candidates,
    candidates.foldlM (insertVertex m.E2E_) { num_V_ := m.num_V_, face_splits := [] } with
  | some t2, some vs =>
    let g := kept.foldl
      (fun g r =>
        let deid := m.E2E_.getD (m.E2E_.getD r.1 0).toNat 0
        let v0 := faceI m.out_F_ deid 0
        AddVertex J g r.2.1 (g.out_N_.getD v0 (0, 0, 0)) r.2.2.2.2 r.2.2.1 r.2.2.2.1)
      m
    let normals := vs.face_splits.foldl (splitFaceNormal J.out_FN)
      { num_F_ := m.num_F_, rows := m.out_F_.length / 3, out_FN_ := g.out_FN_ }
    let faces := vs.face_splits.map Prod.fst ++ List.range' m.num_F_ (t2.num_F_ - m.num_F_)
    let candidates2 := faces.flatMap (fun f =>
      ((List.range 3).filter (fun i =>
        (m.num_V_ ≤ faceAt t2.out_F_ f i ∨ m.num_V_ ≤ faceAt t2.out_F_ f ((i + 1) % 3)) ∧
        ((f * 3 + i : Nat) : Int) < t2.E2E_.getD (f * 3 + i) 0)).map (fun i => f * 3 + i))
    let active := (List.range (t2.num_V_ - m.num_V_)).foldl
      (fun a k => a.set k (m.num_V_ + k)) g.active_vertices_
    let m3 : Solver K :=
      { g with num_V_ := t2.num_V_, num_F_ := t2.num_F_, out_F_ := t2.out_F_, V2E_ := t2.V2E_,
               E2E_ := t2.E2E_, out_FN_ := normals.out_FN_, active_vertices_ := active,
               num_active_ := t2.num_V_ - m.num_V_ }
    match optimizeLoop sqrt asin query order fuel passes m3 with
    | none => none
    | some m4 => some { m := m4, candidates := candidates2 }
  | _, _ => none

/-- The candidates collected on entry of `AdaptiveRefine` (source lines 426-431) and its four
rounds. -/
def AdaptiveRefine {K : Type} [LinearOrderedField K] (sqrt asin : K → K)
    (query : Vector3 K → K × Int × Vector3 K) (order : List Nat → List Nat) (J : Junk K)
    (len ratio : K) (fuel passes : Nat) (m : Solver K) : Option (Solver K) :=
  let candidates := (List.range (m.num_F_ * 3)).filter
    (fun (i : Nat) => ((i : Nat) : Int) < m.E2E_.getD i 0)
  ((List.range 4).foldlM
    (fun s _ => refineRound sqrt asin query order J len ratio fuel passes s)
    { m := m, candidates := candidates }).map (fun s => s.m)

/-- The square root on the radicands `1` and `16`. -/
def unitSqrt : ℚ → ℚ := sqrtAmong [1, 4]

/-- An octahedron whose vertex `0` lies in the plane of its four neighbours `1`, `2`, `3`, `4`
(the faces `0` to `3` around it have the normal `(0, 0, 1)`), with the half-edge arrays built
by `ComputeHalfEdge`.  The stored normal of vertex `0` is `(1, 0, 0)`, the stored normal of
face `0` is `(1, 0, -1)`, and the target of every vertex is its position. -/
def flatOcta : Solver ℚ :=
  { num_V_ := 6, num_F_ := 8,
    out_V_ := [(0, 0, 0), (1, 0, 0), (0, 1, 0), (-1, 0, 0), (0, -1, 0), (0, 0, -1)],
    out_F_ := [0, 1, 2, 0, 2, 3, 0, 3, 4, 0, 4, 1, 5, 2, 1, 5, 3, 2, 5, 4, 3, 5, 1, 4],
    V2E_ := [9, 22, 17, 20, 23, 21],
    E2E_ := [11, 13, 3, 2, 16, 6, 5, 19, 9, 8, 22, 0, 17, 1, 21, 20, 4, 12, 23, 7, 15, 14,
      10, 18],
    out_N_ := [(1, 0, 0), (0, 0, 1), (0, 0, 1), (0, 0, 1), (0, 0, 1), (0, 0, -1)],
    out_FN_ := [(1, 0, -1), (0, 0, 1), (0, 0, 1), (0, 0, 1), (0, 0, -1), (0, 0, -1),
      (0, 0, -1), (0, 0, -1)],
    target_V_ := [(0, 0, 0), (1, 0, 0), (0, 1, 0), (-1, 0, 0), (0, -1, 0), (0, 0, -1)],
    sqrD_ := [0, 0, 0, 0, 0, 0], I_ := [0, 0, 0, 0, 0, 0],
    indices_ := [(0, 0), (0, 0), (0, 0), (0, 0), (0, 0), (0, 0)],
    active_vertices_ := [0, 0, 0, 0, 0, 0], active_vertices_temp_ := [0, 0, 0, 0, 0, 0],
    num_active_ := 1 }

/-- The projector `flatOcta` after `UpdateFaceNormal(0)` and `UpdateVertexNormal(0, 0)`: the
row of face `3` and the normal of vertex `0` are `(0, 0, 1)`. -/
def flatOcta3 : Projector ℚ :=
  { flatOcta.toProjector with
    out_N_ := [(0, 0, 1), (0, 0, 1), (0, 0, 1), (0, 0, 1), (0, 0, 1), (0, 0, -1)],
    out_FN_ := [(1, 0, -1), (0, 0, 1), (0, 0, 1), (0, 0, 1), (0, 0, -1), (0, 0, -1),
      (0, 0, -1), (0, 0, -1)] }

/-- An oracle for a target surface that contains every query point: squared distance `0`, face
`0`, and the point itself as nearest point. -/
def onSurface : Vector3 ℚ → ℚ × Int × Vector3 ℚ := fun p => (0, 0, p)

/-- New rows that hold zeros. -/
def zeroJunk : Junk ℚ :=
  { out_V := fun _ => (0, 0, 0), out_N := fun _ => (0, 0, 0), target_V := fun _ => (0, 0, 0),
    out_FN := fun _ => (0, 0, 0), sqrD := fun _ => 0, I := fun _ => 0,
    indices := fun _ => (0, 0), active := fun _ => 0, active_temp := fun _ => 0,
    out_F := fun _ => 0, V2E := fun _ => 0, E2E := fun _ => 0 }

/-! ## The step of the position solver in the words of the specification -/

/-- The quotients `B[j] / (A[j] . tar_dir)` of the constraints `j` that are not attached and
have `A[j] . tar_dir >= ZERO_THRES`, in the order of `j`. -/
def feasibleSteps {K : Type} [LinearOrderedField K] (A : List (Vector3 K)) (B : List K)
    (attached : List Nat) (tar_dir : Vector3 K) : List K :=
  ((List.range A.length).filter
    (fun j => decide (attached.getD j 0 = 0 ∧ ZERO_THRES K ≤ dot (A.getD j (0, 0, 0)) tar_dir))).map
    (fun j => B.getD j 0 / dot (A.getD j (0, 0, 0)) tar_dir)

/-- The value `min(tar_step, min feasibleSteps)`, replaced by `0` when it is below `1e-6`. -/
def maxFeasibleStep {K : Type} [LinearOrderedField K] (A : List (Vector3 K)) (B : List K)
    (attached : List Nat) (tar_dir : Vector3 K) (tar_step : K) : K :=
  if (feasibleSteps A B attached tar_dir).foldl min tar_step < 1 / 1000000 then 0
  else (feasibleSteps A B attached tar_dir).foldl min tar_step

/-- The square root on the single radicand `(5e-10)^2`. -/
def tinySqrt : ℚ → ℚ := sqrtAmong [1 / 2000000000]

/-- A target `5e-10` above the vertex `0` of `tetraQ`. -/
def closeTarget : Vector3 ℚ := (0, 0, 1 / 2000000000)

/-- Invariant of the main loop of `SplitVertices` on `insert_vertex_info`, with respect to the
face array `F` on entry: the recorded fresh ids are `num_V, num_V + 1, ...` in this order, the
recorded originals are old vertex ids, and a corner either keeps its vertex or holds a fresh
id recorded together with the vertex it held on entry. -/
structure InfoInv (F : List Nat) (n num_V : Nat) (st : SplitState) : Prop where
  firsts : st.insert_vertex_info.map Prod.fst = List.range' num_V st.insert_vertex_info.length
  count : st.num_vertices = num_V + st.insert_vertex_info.length
  seconds : ∀ e ∈ st.insert_vertex_info, e.2 < num_V
  corner : ∀ d, d < n →
    src st.out_F d = src F d ∨ (src st.out_F d, src F d) ∈ st.insert_vertex_info

/-- The bowtie with positions: the shared vertex `0` sits at the origin. -/
def bowtieQ : Mesh (Vector3 ℚ) :=
  { num_V_ := 7, num_F_ := 8,
    out_V_ := [(0, 0, 0), (1, 0, 0), (0, 1, 0), (0, 0, 1), (-1, 0, 0), (0, -1, 0), (0, 0, -1)],
    out_F_ := [0, 1, 2, 0, 3, 1, 0, 2, 3, 1, 3, 2, 0, 4, 5, 0, 6, 4, 0, 5, 6, 4, 6, 5],
    V2E_ := [], E2E_ := [] }

/-! ## Auxiliary definitions for the bound on the colours -/

/-- The distinct one-ring neighbours of `v`: the end points of the directed edges that start
at `v`. -/
def neighbours (F : List Nat) (n v : Nat) : List Nat := ((corners F n v).map (dst F)).dedup

/-- The largest number of distinct one-ring neighbours of a vertex below `num_V`. -/
def maxDegree (F : List Nat) (n num_V : Nat) : Nat :=
  ((List.range num_V).map (fun v => (neighbours F n v).length)).foldl max 0

/-- Every colour below `k` occurs at the end of a directed edge that starts at `v`. -/
def Witnessed (F : List Nat) (n : Nat) (cols : List Int) (v k : Nat) : Prop :=
  ∀ c, c < k → ∃ d, d < n ∧ src F d = v ∧ colorOf cols (dst F d) = ((c : Nat) : Int)

/-- Invariant of the greedy choice during the round with colour `g`, before vertex `i` is
scanned; `cols0` holds the colours at the start of the round. -/
structure GreedyInv (F : List Nat) (n num_V g i : Nat) (cols0 cols : List Int) : Prop where
  colored : ∀ v c, v < num_V → colorOf cols v = ((c : Nat) : Int) → Witnessed F n cols v c
  free : ∀ v, v < num_V → colorOf cols v = -1 → Witnessed F n cols v g
  blocked : ∀ v, v < i → v < num_V → colorOf cols v = -1 →
    ∃ d, d < n ∧ src F d = v ∧ colorOf cols (dst F d) = ((g : Nat) : Int)
  first : ∀ v, v < i → colorOf cols0 v = -1 → (∀ u, u < v → colorOf cols0 u ≠ -1) →
    colorOf cols v = ((g : Nat) : Int)
  keep : ∀ v, colorOf cols0 v ≠ -1 → colorOf cols v = colorOf cols0 v

/-- Invariant of the greedy choice between two rounds. -/
structure RoundsInv (F : List Nat) (n num_V : Nat) (s : ColorState) : Prop where
  colored : ∀ v c, v < num_V → colorOf s.vertex_colors v = ((c : Nat) : Int) →
    Witnessed F n s.vertex_colors v c
  free : ∀ v, v < num_V → colorOf s.vertex_colors v = -1 →
    Witnessed F n s.vertex_colors v s.group_id
  rounds : s.group_id ≤ maxDegree F n num_V + 1
  firsts : ∀ g, g < s.group_id → ∃ v, v < num_V ∧
    colorOf s.vertex_colors v = ((g : Nat) : Int) ∧
    ∀ u, u < v → 0 ≤ colorOf s.vertex_colors u ∧ colorOf s.vertex_colors u < ((g : Nat) : Int)

/-- Invariant of the main loop of `OptimizePosition` for the distance to the target: the
sizes are kept, at most three constraints are held, every held constraint and every logged step
direction is a unit vector, and every logged step length is non-negative. -/
structure UnitInv {K : Type} [LinearOrderedField K] (A : List (Vector3 K)) (s : PosState K) :
    Prop where
  lenB : s.B.length = A.length
  lenAtt : s.attached_dimensions.length = A.length
  few : s.constraints.length ≤ 3
  unit : ∀ c ∈ s.constraints, dot c c = 1
  steps : ∀ st ∈ s.steps, dot st.1 st.1 = 1 ∧ 0 ≤ st.2

/-- A generic copy of `tetraQ` over any ordered field: the tetrahedron with the vertices
`(0,0,0)`, `(1,0,0)`, `(0,1,0)`, `(0,0,1)` and the vertex normals `(1,1,1)`. -/
def tetraK (K : Type) [LinearOrderedField K] : Projector K :=
  { num_V_ := 4, num_F_ := 4,
    out_V_ := [(0, 0, 0), (1, 0, 0), (0, 1, 0), (0, 0, 1)],
    out_F_ := [0, 1, 2, 0, 3, 1, 0, 2, 3, 1, 3, 2],
    V2E_ := [6, 9, 11, 10],
    E2E_ := [5, 11, 6, 8, 9, 0, 2, 10, 3, 4, 7, 1],
    out_N_ := [(1, 1, 1), (1, 1, 1), (1, 1, 1), (1, 1, 1)],
    out_FN_ := [(0, 0, 1), (1, 0, 0), (0, 1, 0), (1, 1, 1)] }

/-! ## The step of the position solver in binary64 arithmetic

The scalar type `FT` of the source is `double`.  The definitions of this section repeat the
loop that limits the step, the clamp and the update of `B[j]` (source lines 792-829) with a
rounding `rnd` applied to the result of every arithmetic operation and to the decimal
constants; with the identity for `rnd` they are the exact ones. -/

/-- The integer nearest to `q`, the even one of the two when `q` lies half-way between two
integers. -/
def roundHalfEven (q : ℚ) : Int :=
  if q - ⌊q⌋ < 1 / 2 then ⌊q⌋
  else if 1 / 2 < q - ⌊q⌋ then ⌊q⌋ + 1
  else if ⌊q⌋ % 2 = 0 then ⌊q⌋ else ⌊q⌋ + 1

/-- The `double` nearest to `x` (IEEE 754 binary64, round to nearest, ties to even): `x` is
rounded to 53 significant bits.  Overflow and subnormal numbers are not modelled. -/
def roundDouble (x : ℚ) : ℚ :=
  if x = 0 then 0
  else roundHalfEven (x / 2 ^ (Int.log 2 |x| - 52)) * 2 ^ (Int.log 2 |x| - 52)

/-- The product `a.dot(b)` with every operation rounded. -/
def dotRounded {K : Type} [LinearOrderedField K] (rnd : K → K) (a b : Vector3 K) : K :=
  rnd (rnd (rnd (a.1 * b.1) + rnd (a.2.1 * b.2.1)) + rnd (a.2.2 * b.2.2))

/-- The loop that limits the step (source lines 796-807) with rounded operations. -/
def limitStepRounded {K : Type} [LinearOrderedField K] (rnd : K → K) (A : List (Vector3 K))
    (B : List K) (attached : List Nat) (tar_dir : Vector3 K) (tar_step : K) : K :=
  (List.range A.length).foldl
    (fun max_step j =>
      if attached.getD j 0 ≠ 0 then max_step
      else
        let denominator := dotRounded rnd (A.getD j (0, 0, 0)) tar_dir
        if denominator < rnd (ZERO_THRES K) then max_step
        else
          let step := rnd (B.getD j 0 / denominator)
          if step < max_step then step else max_step)
    tar_step

/-- The step `max_step` that a pass applies (source lines 792-816) with rounded operations. -/
def maxStepRounded {K : Type} [LinearOrderedField K] (rnd : K → K) (A : List (Vector3 K))
    (B : List K) (attached : List Nat) (tar_dir : Vector3 K) (tar_step : K) : K :=
  let max_step := limitStepRounded rnd A B attached tar_dir tar_step
  if max_step < rnd (1 / 1000000) then 0 else max_step

/-- The value that source line 829 stores in `B[j]`, with rounded operations. -/
def storedRounded {K : Type} [LinearOrderedField K] (rnd : K → K) (A : List (Vector3 K))
    (B : List K) (tar_dir : Vector3 K) (max_step : K) (j : Nat) : K :=
  rnd (B.getD j 0 - rnd (dotRounded rnd (A.getD j (0, 0, 0)) tar_dir * max_step))

/-! ## One round of AdaptiveRefine before the call of IterativeOptimize -/

/-- The candidates of a round that survive the midpoint test (source lines 472-501): the
directed edges `deid` of the list whose midpoint lies farther than `len * ratio` from the
target surface. -/
def survivors {K : Type} [LinearOrderedField K] (sqrt : K → K)
    (query : Vector3 K → K × Int × Vector3 K) (len ratio : K) (s : RefineState K) : List Nat :=
  let P := s.candidates.map (midpoint s.m)
  let res := P.map query
  ((s.candidates.zip (P.zip res)).filter (fun r => len * ratio < sqrt r.2.2.1)).map Prod.fst

/-- One pass through the loop `for (int iter = 0; iter < 4; ++iter)` of `AdaptiveRefine` up to
the call of `IterativeOptimize` (source lines 471-662): the members before that call and the
candidates of the next round. -/
def refineSplit {K : Type} [LinearOrderedField K] (sqrt : K → K)
    (query : Vector3 K → K × Int × Vector3 K) (J : Junk K) (len ratio : K)
    (s : RefineState K) : Option (RefineState K) :=
  let m := s.m
  let P := s.candidates.map (midpoint m)
  let res := P.map query
  let kept := (s.candidates.zip (P.zip res)).filter (fun r => len * ratio < sqrt r.2.2.1)
  let candidates := kept.map Prod.fst
  match refineTopology J.out_F J.V2E J.E2E
      { num_V_ := m.num_V_, num_F_ := m.num_F_, out_F_ := m.out_F_, V2E_ := m.V2E_,
        E2E_ := m.E2E_ } candidates,
    candidates.foldlM (insertVertex m.E2E_) { num_V_ := m.num_V_, face_splits := [] } with
  | some t2, some vs =>
    let g := kept.foldl
      (fun g r =>
        let deid := m.E2E_.getD (m.E2E_.getD r.1 0).toNat 0
        let v0 := faceI m.out_F_ deid 0
        AddVertex J g r.2.1 (g.out_N_.getD v0 (0, 0, 0)) r.2.2.2.2 r.2.2.1 r.2.2.2.1)
      m
    let normals := vs.face_splits.foldl (splitFaceNormal J.out_FN)
      { num_F_ := m.num_F_, rows := m.out_F_.length / 3, out_FN_ := g.out_FN_ }
    let faces := vs.face_splits.map Prod.fst ++ List.range' m.num_F_ (t2.num_F_ - m.num_F_)
    let candidates2 := faces.flatMap (fun f =>
      ((List.range 3).filter (fun i =>
        (m.num_V_ ≤ faceAt t2.out_F_ f i ∨ m.num_V_ ≤ faceAt t2.out_F_ f ((i + 1) % 3)) ∧
        ((f * 3 + i : Nat) : Int) < t2.E2E_.getD (f * 3 + i) 0)).map (fun i => f * 3 + i))
    let active := (List.range (t2.num_V_ - m.num_V_)).foldl
      (fun a k => a.set k (m.num_V_ + k)) g.active_vertices_
    let m3 : Solver K :=
      { g with num_V_ := t2.num_V_, num_F_ := t2.num_F_, out_F_ := t2.out_F_, V2E_ := t2.V2E_,
               E2E_ := t2.E2E_, out_FN_ := normals.out_FN_, active_vertices_ := active,
               num_active_ := t2.num_V_ - m.num_V_ }
    some { m := m3, candidates := candidates2 }
  | _, _ => none

/-- An oracle for a target surface at distance `4` from every query point. -/
def farSurface : Vector3 ℚ → ℚ × Int × Vector3 ℚ := fun p => (16, 0, p)

/-! ## A vertex inside an oblique prism -/

/-- The square root of a non-negative rational number, exact on the squares of rational
numbers: the integer square roots of the numerator and of the denominator. -/
def ratSqrt (x : ℚ) : ℚ := (Nat.sqrt x.num.toNat : ℚ) / (Nat.sqrt x.den : ℚ)

/-- A tetrahedron with the half-edge arrays built by `ComputeHalfEdge`.  The vertices `0`, `1`
and `3` carry the same unit normal, the vertex `2` another normal, not of unit length:
`OptimizePosition` reads a vertex normal only through `d.cross(vn).normalized()`.  The face
normals are not read by `OptimizePosition` and are left at zero. -/
def skewQ : Projector ℚ :=
  { num_V_ := 4, num_F_ := 4,
    out_V_ := [(-(182657 / 51076), -(3913 / 38307), -(159 / 113)), (-(6029 / 2640), 919 / 220,
      -(1185 / 308)), (-(2552 / 207), 367 / 276, -1), (-(1172 / 759), -(29 / 253), -1)],
    out_F_ := [0, 1, 2, 0, 3, 1, 0, 2, 3, 1, 3, 2],
    V2E_ := [6, 9, 11, 10],
    E2E_ := [5, 11, 6, 8, 9, 0, 2, 10, 3, 4, 7, 1],
    out_N_ := [(-(4 / 5), 3 / 5, 0), (-(4 / 5), 3 / 5, 0), (-(5189209 / 3284433),
      414821 / 1094811, 80684 / 364937), (-(4 / 5), 3 / 5, 0)],
    out_FN_ := [(0, 0, 0), (0, 0, 0), (0, 0, 0), (0, 0, 0)] }

/-- The target of vertex `0` of `skewQ`. -/
def skewTarget : Vector3 ℚ := (0, 0, 0)

/-- The directions of the nine constraints that `OptimizePosition` generates for vertex `0` of
`skewQ`. -/
def skewA : List (Vector3 ℚ) :=
  [(0, 0, 1), (-(12 / 113), -(448 / 565), 3 / 5), (0, 0, 1), (12 / 29, 16 / 29, 21 / 29),
   (12 / 29, 16 / 29, 21 / 29), (12 / 29, 16 / 29, 21 / 29), (-(36 / 185), -(48 / 185),
   -(35 / 37)), (-(36 / 185), -(48 / 185), -(35 / 37)), (-(36 / 185), -(48 / 185), -(35 / 37))]

/-- The offsets of the nine constraints that `OptimizePosition` generates for vertex `0` of
`skewQ`. -/
def skewB : List ℚ :=
  [46 / 113, 13 / 339, 46 / 113, 13793177 / 12219933, 13793177 / 12219933, 13793177 / 12219933,
   2236049 / 2362265, 2236049 / 2362265, 2236049 / 2362265]

/-! # Proofs -/

/-! ## ComputeHalfEdge: the pairing invariant -/

theorem halfEdgeAfter_succ (num_V num_F : Nat) (F : List Nat) (k : Nat) :
    halfEdgeAfter num_V num_F F (k + 1)
      = halfEdgeStep F (halfEdgeAfter num_V num_F F k) (k / 3) (k % 3) := by
  simp [halfEdgeAfter, List.range_succ, List.foldl_append]

theorem range3_foldl {σ : Type} (g : σ → Nat → σ) (s : σ) :
    (List.range 3).foldl g s = g (g (g s 0) 1) 2 := by
  simp [List.range_succ]

theorem halfEdgeLoop_eq_after (num_V num_F : Nat) (F : List Nat) :
    halfEdgeLoop num_V num_F F = halfEdgeAfter num_V num_F F (num_F * 3) := by
  have key : ∀ m : Nat, ∀ s : HalfEdgeState,
      (List.range m).foldl
        (fun s i => halfEdgeStep F (halfEdgeStep F (halfEdgeStep F s i 0) i 1) i 2) s
      = (List.range (m * 3)).foldl (fun s d => halfEdgeStep F s (d / 3) (d % 3)) s := by
    intro m
    induction m with
    | zero => intro s; simp
    | succ m ih =>
      intro s
      have h3 : (m + 1) * 3 = ((m * 3 + 1) + 1) + 1 := by ring
      rw [List.range_succ, List.foldl_append, ih, h3, List.range_succ, List.range_succ,
        List.range_succ]
      simp only [List.foldl_append, List.foldl_cons, List.foldl_nil]
      have e0 : (m * 3) / 3 = m := by omega
      have e1 : (m * 3 + 1) / 3 = m := by omega
      have e2 : (m * 3 + 1 + 1) / 3 = m := by omega
      have r0 : (m * 3) % 3 = 0 := by omega
      have r1 : (m * 3 + 1) % 3 = 1 := by omega
      have r2 : (m * 3 + 1 + 1) % 3 = 2 := by omega
      rw [e0, e1, e2, r0, r1, r2]
  unfold halfEdgeLoop halfEdgeAfter
  simp only [range3_foldl]
  exact key num_F _

theorem faceAt_div_mod (F : List Nat) (k : Nat) : faceAt F (k / 3) (k % 3) = src F k := rfl

theorem faceAt_div_mod_succ (F : List Nat) (k : Nat) :
    faceAt F (k / 3) ((k % 3 + 1) % 3) = dst F k := by
  unfold dst
  congr 1
  omega

theorem div_mul_add_mod3 (k : Nat) : k / 3 * 3 + k % 3 = k := by omega

/-- What the step does, written with `src` and `dst` of the directed edge `k`. -/
theorem halfEdgeStep_at (F : List Nat) (s : HalfEdgeState) (k : Nat) :
    halfEdgeStep F s (k / 3) (k % 3) =
      match s.dedges (dst F k, src F k) with
      | none =>
        { V2E := s.V2E.set (src F k) (k : Int), E2E := s.E2E,
          dedges := Function.update s.dedges (src F k, dst F k) (some k) }
      | some rid =>
        { V2E := s.V2E.set (src F k) (k : Int),
          E2E := (s.E2E.set k (rid : Int)).set rid (k : Int),
          dedges := s.dedges } := by
  unfold halfEdgeStep
  simp only [faceAt_div_mod, faceAt_div_mod_succ, div_mul_add_mod3]

theorem Reversed_symm {F : List Nat} {d1 d2 : Nat} (h : Reversed F d1 d2) : Reversed F d2 d1 :=
  ⟨h.2.symm, h.1.symm⟩

theorem Reversed_unique {F : List Nat} {n d d1 d2 : Nat} (hu : EdgesUnique F n)
    (h1 : Reversed F d d1) (h2 : Reversed F d d2) (l1 : d1 < n) (l2 : d2 < n) : d1 = d2 :=
  hu d1 l1 d2 l2 (h1.1.trans h2.1.symm) (h1.2.trans h2.2.symm)

theorem Reversed_ne {F : List Nat} {n d1 d2 : Nat} (hl : NoLoopEdge F n) (l1 : d1 < n)
    (h : Reversed F d1 d2) : d1 ≠ d2 := by
  rintro rfl
  exact hl d1 l1 h.2.symm


theorem HalfEdgeInv_init (F : List Nat) (num_V num_F : Nat) :
    HalfEdgeInv F (num_F * 3) 0 (halfEdgeInit num_V num_F) where
  len := by simp [halfEdgeInit]
  paired := by intro d1 d2 h1; omega
  unpaired := by
    intro d hd _
    simp [halfEdgeInit, List.getElem?_replicate, hd]
  map_sound := by intro a b r h; simp [halfEdgeInit] at h
  map_complete := by intro r hr; omega

theorem HalfEdgeInv_step {F : List Nat} {n k : Nat} {s : HalfEdgeState}
    (hu : EdgesUnique F n) (hl : NoLoopEdge F n) (hk : k < n) (h : HalfEdgeInv F n k s) :
    HalfEdgeInv F n (k + 1) (halfEdgeStep F s (k / 3) (k % 3)) := by
  rw [halfEdgeStep_at]
  cases hfind : s.dedges (dst F k, src F k) with
  | none =>
    -- no earlier directed edge is the reverse of `k`
    have hno : ∀ d2, d2 < k → ¬ Reversed F k d2 := by
      intro d2 h2 hr
      have hc := h.map_complete d2 h2 (by
        intro d3 h3 hr3
        have := Reversed_unique hu hr3 (Reversed_symm hr) (by omega) hk
        omega)
      rw [hr.1, hr.2, hfind] at hc
      exact Option.noConfusion hc
    refine ⟨h.len, ?_, ?_, ?_, ?_⟩
    · intro d1 d2 h1 h2 hr
      have hne := Reversed_ne hl (by omega : d1 < n) hr
      rcases Nat.lt_succ_iff_lt_or_eq.mp h1 with h1 | h1
      · rcases Nat.lt_succ_iff_lt_or_eq.mp h2 with h2 | h2
        · exact h.paired d1 d2 h1 h2 hr
        · subst h2; exact absurd (Reversed_symm hr) (hno d1 h1)
      · subst h1
        have h2 : d2 < d1 := by omega
        exact absurd hr (hno d2 h2)
    · intro d hd hc
      apply h.unpaired d hd
      rcases hc with hc | hc
      · left; omega
      · right; intro d2 h2; exact hc d2 (by omega)
    · intro a b r hr
      simp only [Function.update_apply] at hr
      split at hr
      · rename_i hab
        have hrk : k = r := Option.some.inj hr
        subst hrk
        have h1 := congrArg Prod.fst hab
        have h2 := congrArg Prod.snd hab
        simp only at h1 h2
        exact ⟨by omega, h1.symm, h2.symm⟩
      · have := h.map_sound a b r hr
        exact ⟨by omega, this.2.1, this.2.2⟩
    · intro r hr hc
      simp only [Function.update_apply]
      rcases Nat.lt_succ_iff_lt_or_eq.mp hr with hr | hr
      · have hne : (src F r, dst F r) ≠ (src F k, dst F k) := by
          intro hab
          have h1 := congrArg Prod.fst hab
          have h2 := congrArg Prod.snd hab
          simp only at h1 h2
          have := hu r (by omega) k hk h1 h2
          omega
        rw [if_neg hne]
        exact h.map_complete r hr hc
      · subst hr; simp
  | some rid =>
    obtain ⟨hrid, hs, hd⟩ := h.map_sound _ _ _ hfind
    have hrev : Reversed F k rid := ⟨hs, hd⟩
    have hlen := h.len
    refine ⟨by simp [h.len], ?_, ?_, ?_, ?_⟩
    · intro d1 d2 h1 h2 hr
      simp only [List.getElem?_set, List.length_set]
      by_cases e1 : d1 = k
      · subst e1
        have : d2 = rid := Reversed_unique hu hr hrev (by omega) (by omega)
        subst this
        have hne : ¬ d2 = d1 := by omega
        simp [hne, hlen, hk]
      · by_cases e2 : d1 = rid
        · subst e2
          have : d2 = k := Reversed_unique hu hr (Reversed_symm hrev) (by omega) hk
          subst this
          simp [hlen]; omega
        · have hd2 : d2 ≠ k := by
            rintro rfl
            exact e2 (Reversed_unique hu (Reversed_symm hr) hrev (by omega) (by omega))
          have e1b : ¬ k = d1 := fun e => e1 e.symm
          have e2b : ¬ rid = d1 := fun e => e2 e.symm
          simp only [e1b, e2b, if_false]
          exact h.paired d1 d2 (by omega) (by omega) hr
    · intro d hdn hc
      have e1 : ¬ k = d := by
        rintro rfl
        rcases hc with hc | hc
        · omega
        · exact hc rid (by omega) hrev
      have e2 : ¬ rid = d := by
        rintro rfl
        rcases hc with hc | hc
        · omega
        · exact hc k (by omega) (Reversed_symm hrev)
      simp only [List.getElem?_set, e1, e2, if_false]
      apply h.unpaired d hdn
      rcases hc with hc | hc
      · left; omega
      · right; intro d2 h2; exact hc d2 (by omega)
    · intro a b r hr
      have := h.map_sound a b r hr
      exact ⟨by omega, this.2.1, this.2.2⟩
    · intro r hr hc
      rcases Nat.lt_succ_iff_lt_or_eq.mp hr with hr | hr
      · exact h.map_complete r hr hc
      · subst hr; exact absurd hrev (hc rid hrid)

theorem HalfEdgeInv_after {F : List Nat} (num_V : Nat) {num_F : Nat}
    (hu : EdgesUnique F (num_F * 3)) (hl : NoLoopEdge F (num_F * 3)) :
    ∀ k, k ≤ num_F * 3 → HalfEdgeInv F (num_F * 3) k (halfEdgeAfter num_V num_F F k) := by
  intro k
  induction k with
  | zero => intro _; exact HalfEdgeInv_init F num_V num_F
  | succ k ih =>
    intro hk
    rw [halfEdgeAfter_succ]
    exact HalfEdgeInv_step hu hl (by omega) (ih (by omega))

/-- On a closed, edge-manifold face array without loop edges the pairing loop stores at every
directed edge the id of its reverse. -/
theorem halfEdgeLoop_E2E {F : List Nat} (num_V : Nat) {num_F : Nat}
    (hu : EdgesUnique F (num_F * 3)) (hl : NoLoopEdge F (num_F * 3)) :
    (halfEdgeLoop num_V num_F F).E2E.length = num_F * 3 ∧
    ∀ d e, d < num_F * 3 → e < num_F * 3 → Reversed F d e →
      (halfEdgeLoop num_V num_F F).E2E[d]? = some (e : Int) := by
  rw [halfEdgeLoop_eq_after]
  have inv := HalfEdgeInv_after num_V hu hl (num_F * 3) (le_refl _)
  exact ⟨inv.len, fun d e hd he hre => inv.paired d e hd he hre⟩


/-! ## ComputeHalfEdge: the representative `V2E_` -/

theorem halfEdgeStep_V2E (F : List Nat) (s : HalfEdgeState) (k : Nat) :
    (halfEdgeStep F s (k / 3) (k % 3)).V2E = s.V2E.set (src F k) (k : Int) := by
  rw [halfEdgeStep_at]
  cases s.dedges (dst F k, src F k) <;> rfl

theorem V2EInv_after (F : List Nat) (num_V num_F : Nat) :
    ∀ k, V2EInv F num_V k (halfEdgeAfter num_V num_F F k).V2E := by
  intro k
  induction k with
  | zero =>
    refine ⟨by simp [halfEdgeAfter, halfEdgeInit], ?_, ?_⟩
    · intro v hv _
      simp [halfEdgeAfter, halfEdgeInit, List.getElem?_replicate, hv]
    · intro d hd; omega
  | succ k ih =>
    rw [halfEdgeAfter_succ, halfEdgeStep_V2E]
    refine ⟨by simp [ih.len], ?_, ?_⟩
    · intro v hv hc
      have hne : ¬ src F k = v := hc k (by omega)
      simp only [List.getElem?_set, hne, if_false]
      exact ih.absent v hv (fun d hd => hc d (by omega))
    · intro d hd hv hc
      simp only [List.getElem?_set]
      rcases Nat.lt_succ_iff_lt_or_eq.mp hd with hd | hd
      · have hne : ¬ src F k = src F d := hc k (by omega) hd
        simp only [hne, if_false]
        exact ih.last d hd hv (fun d2 h2 h3 => hc d2 (by omega) h3)
      · subst hd
        simp [ih.len, hv]

/-- Every vertex that is a corner of some face gets one of its corners as `V2E_` entry. -/
theorem halfEdgeLoop_V2E_used (F : List Nat) (num_V num_F : Nat) (v : Nat) (hv : v < num_V)
    (d : Nat) (hd : d < num_F * 3) (hsrc : src F d = v) :
    ∃ d2, d2 < num_F * 3 ∧ src F d2 = v ∧ (halfEdgeLoop num_V num_F F).V2E[v]? = some (d2 : Int) ∧
      ∀ d3, d3 < num_F * 3 → src F d3 = v → d3 ≤ d2 := by
  rw [halfEdgeLoop_eq_after]
  have inv := V2EInv_after F num_V num_F (num_F * 3)
  -- the largest corner of `v`
  have hex : ∃ j, j < num_F * 3 ∧ src F (num_F * 3 - 1 - j) = v := by
    refine ⟨num_F * 3 - 1 - d, by omega, ?_⟩
    have : num_F * 3 - 1 - (num_F * 3 - 1 - d) = d := by omega
    rw [this]; exact hsrc
  classical
  let j := Nat.find hex
  have hj := Nat.find_spec hex
  have hmin := fun i (hi : i < j) => Nat.find_min hex hi
  refine ⟨num_F * 3 - 1 - j, by omega, hj.2, ?_, ?_⟩
  · have := inv.last (num_F * 3 - 1 - j) (by omega) (by rw [hj.2]; exact hv) (by
      intro d2 h2 hlt heq
      apply hmin (num_F * 3 - 1 - d2) (by omega)
      refine ⟨by omega, ?_⟩
      have e : num_F * 3 - 1 - (num_F * 3 - 1 - d2) = d2 := by omega
      rw [e, heq]; exact hj.2)
    rw [hj.2] at this
    exact this
  · intro d3 h3 hs3
    by_contra hgt
    apply hmin (num_F * 3 - 1 - d3) (by omega)
    refine ⟨by omega, ?_⟩
    have e : num_F * 3 - 1 - (num_F * 3 - 1 - d3) = d3 := by omega
    rw [e]; exact hs3

/-! ## C1: the topology involution after ComputeHalfEdge -/

theorem getI_natCast (a : List Int) (d : Nat) : getI a (d : Int) = a[d]? := by
  simp [getI]

/-- C1 (amended): on a closed edge-manifold face array in which, in addition, no directed edge
runs from a vertex to itself, `ComputeHalfEdge` gives every directed edge `d` an opposite
`E2E[d]` that is not the sentinel `-1`, with `E2E[E2E[d]] = d`, the source of `E2E[d]` equal to
the destination of `d` and the destination of `E2E[d]` equal to the source of `d`. -/
theorem ComputeHalfEdge_involution {P : Type} (m : Mesh P)
    (_hlen : m.out_F_.length = m.num_F_ * 3)
    (_hV : ∀ d, d < m.num_F_ * 3 → src m.out_F_ d < m.num_V_)
    (hu : EdgesUnique m.out_F_ (m.num_F_ * 3))
    (hr : ReversePresent m.out_F_ (m.num_F_ * 3))
    (hl : NoLoopEdge m.out_F_ (m.num_F_ * 3)) :
    ∀ d, d < m.num_F_ * 3 → ∃ e, e < m.num_F_ * 3 ∧
      getI (ComputeHalfEdge m).E2E_ (d : Int) = some (e : Int) ∧ (e : Int) ≠ -1 ∧
      getI (ComputeHalfEdge m).E2E_ (e : Int) = some (d : Int) ∧
      src m.out_F_ e = dst m.out_F_ d ∧ dst m.out_F_ e = src m.out_F_ d := by
  intro d hd
  obtain ⟨e, he, hrev⟩ := hr d hd
  have h := (halfEdgeLoop_E2E m.num_V_ hu hl).2
  refine ⟨e, he, ?_, by omega, ?_, hrev.1, hrev.2⟩
  · rw [getI_natCast]; exact h d e hd he hrev
  · rw [getI_natCast]; exact h e d he hd (Reversed_symm hrev)

/-- The amended C1 statement applied to the tetrahedron. -/
theorem ComputeHalfEdge_involution_witness :
    tetra.out_F_.length = tetra.num_F_ * 3 ∧
    (∀ d, d < tetra.num_F_ * 3 → src tetra.out_F_ d < tetra.num_V_) ∧
    EdgesUnique tetra.out_F_ (tetra.num_F_ * 3) ∧
    ReversePresent tetra.out_F_ (tetra.num_F_ * 3) ∧
    NoLoopEdge tetra.out_F_ (tetra.num_F_ * 3) ∧
    ∀ d, d < tetra.num_F_ * 3 → ∃ e, e < tetra.num_F_ * 3 ∧
      getI (ComputeHalfEdge tetra).E2E_ (d : Int) = some (e : Int) ∧ (e : Int) ≠ -1 ∧
      getI (ComputeHalfEdge tetra).E2E_ (e : Int) = some (d : Int) ∧
      src tetra.out_F_ e = dst tetra.out_F_ d ∧ dst tetra.out_F_ e = src tetra.out_F_ d :=
  ⟨by decide, by decide, by decide, by decide, by decide,
    ComputeHalfEdge_involution tetra (by decide) (by decide) (by decide) (by decide)
      (by decide)⟩

/-- C1 as stated fails on the face `(0, 0, 1)`: every ordered pair occurring as a directed edge
occurs exactly once and its reverse occurs too, all vertex ids are below `num_V_`, and yet the
directed edge `0` is left with `E2E[0] = -1`. -/
theorem ComputeHalfEdge_loop_edge_unpaired :
    loopFace.out_F_.length = loopFace.num_F_ * 3 ∧
    (∀ d, d < loopFace.num_F_ * 3 → src loopFace.out_F_ d < loopFace.num_V_) ∧
    EdgesUnique loopFace.out_F_ (loopFace.num_F_ * 3) ∧
    ReversePresent loopFace.out_F_ (loopFace.num_F_ * 3) ∧
    getI (ComputeHalfEdge loopFace).E2E_ 0 = some (-1) := by
  decide

/-! ## The rotation is a permutation of the directed edges -/

theorem prevN_lt {n d : Nat} (h3 : 3 ∣ n) (hd : d < n) : prevN d < n := by
  unfold prevN; omega

theorem prevN_inj {d1 d2 : Nat} (h : prevN d1 = prevN d2) : d1 = d2 := by
  unfold prevN at h; omega

theorem dst_prevN (F : List Nat) (d : Nat) : dst F (prevN d) = src F d := by
  unfold dst src prevN
  congr 1 <;> omega

theorem src_prevN (F : List Nat) (d : Nat) :
    src F (prevN d) = faceAt F (d / 3) ((d + 2) % 3) := by
  unfold src prevN
  congr 1 <;> omega

theorem prevIdx_natCast (d : Nat) : prevIdx (d : Int) = (prevN d : Int) := by
  unfold prevIdx prevN
  rw [Int.tdiv_eq_ediv (by omega) (by omega), Int.tmod_eq_emod (by omega) (by omega)]
  push_cast
  rfl

theorem e2eN_of_get {E2E : List Int} {d e : Nat} (h : E2E[d]? = some (e : Int)) :
    e2eN E2E d = e := by
  simp [e2eN, List.getD_eq_getElem?_getD, h]

theorem ValidE2E_e2eN {F : List Nat} {n : Nat} {E2E : List Int} (hv : ValidE2E F n E2E)
    {d : Nat} (hd : d < n) :
    e2eN E2E d < n ∧ E2E[d]? = some (e2eN E2E d : Int) ∧
      E2E[e2eN E2E d]? = some (d : Int) ∧ Reversed F d (e2eN E2E d) := by
  obtain ⟨e, he, h1, h2, h3⟩ := hv.opp d hd
  rw [e2eN_of_get h1]
  exact ⟨he, h1, h2, h3⟩

theorem ValidE2E_e2eN_e2eN {F : List Nat} {n : Nat} {E2E : List Int} (hv : ValidE2E F n E2E)
    {d : Nat} (hd : d < n) : e2eN E2E (e2eN E2E d) = d :=
  e2eN_of_get (ValidE2E_e2eN hv hd).2.2.1

theorem nextN_lt {F : List Nat} {n : Nat} {E2E : List Int} (hv : ValidE2E F n E2E)
    {d : Nat} (hd : d < n) : nextN E2E d < n :=
  (ValidE2E_e2eN hv (prevN_lt hv.three hd)).1

theorem src_nextN {F : List Nat} {n : Nat} {E2E : List Int} (hv : ValidE2E F n E2E)
    {d : Nat} (hd : d < n) : src F (nextN E2E d) = src F d := by
  have h := (ValidE2E_e2eN hv (prevN_lt hv.three hd)).2.2.2
  unfold nextN
  rw [h.1, dst_prevN]

theorem nextN_inj {F : List Nat} {n : Nat} {E2E : List Int} (hv : ValidE2E F n E2E)
    {d1 d2 : Nat} (h1 : d1 < n) (h2 : d2 < n) (h : nextN E2E d1 = nextN E2E d2) : d1 = d2 := by
  apply prevN_inj
  have a1 := ValidE2E_e2eN_e2eN hv (prevN_lt hv.three h1)
  have a2 := ValidE2E_e2eN_e2eN hv (prevN_lt hv.three h2)
  unfold nextN at h
  rw [← a1, ← a2, h]

theorem next_out_natCast {F : List Nat} {n : Nat} {E2E : List Int} (hv : ValidE2E F n E2E)
    {d : Nat} (hd : d < n) : next_out E2E (d : Int) = some (nextN E2E d : Int) := by
  unfold next_out nextN
  rw [prevIdx_natCast, getI_natCast]
  exact (ValidE2E_e2eN hv (prevN_lt hv.three hd)).2.1

theorem iterate_nextN_lt {F : List Nat} {n : Nat} {E2E : List Int} (hv : ValidE2E F n E2E)
    {d : Nat} (hd : d < n) (k : Nat) : (nextN E2E)^[k] d < n := by
  induction k with
  | zero => exact hd
  | succ k ih => rw [Function.iterate_succ_apply']; exact nextN_lt hv ih

theorem src_iterate_nextN {F : List Nat} {n : Nat} {E2E : List Int} (hv : ValidE2E F n E2E)
    {d : Nat} (hd : d < n) (k : Nat) : src F ((nextN E2E)^[k] d) = src F d := by
  induction k with
  | zero => rfl
  | succ k ih =>
    rw [Function.iterate_succ_apply', src_nextN hv (iterate_nextN_lt hv hd k), ih]

theorem iterate_nextN_inj {F : List Nat} {n : Nat} {E2E : List Int} (hv : ValidE2E F n E2E)
    (k : Nat) : ∀ {d1 d2 : Nat}, d1 < n → d2 < n →
      (nextN E2E)^[k] d1 = (nextN E2E)^[k] d2 → d1 = d2 := by
  induction k with
  | zero => intro d1 d2 _ _ h; exact h
  | succ k ih =>
    intro d1 d2 h1 h2 h
    rw [Function.iterate_succ_apply, Function.iterate_succ_apply] at h
    exact nextN_inj hv h1 h2 (ih (nextN_lt hv h1) (nextN_lt hv h2) h)

/-- Every directed edge returns to itself under the rotation after at most `n` steps. -/
theorem exists_period {F : List Nat} {n : Nat} {E2E : List Int} (hv : ValidE2E F n E2E)
    {d : Nat} (hd : d < n) : ∃ p, 0 < p ∧ p ≤ n ∧ (nextN E2E)^[p] d = d := by
  have hcard : (Finset.range n).card < (Finset.range (n + 1)).card := by simp
  obtain ⟨i, hi, j, hj, hne, heq⟩ :=
    Finset.exists_ne_map_eq_of_card_lt_of_maps_to hcard
      (f := fun k => (nextN E2E)^[k] d)
      (fun k _ => Finset.mem_range.mpr (iterate_nextN_lt hv hd k))
  simp only [Finset.mem_range] at hi hj
  have key : ∀ a b, a < b → b < n + 1 → (nextN E2E)^[a] d = (nextN E2E)^[b] d →
      ∃ p, 0 < p ∧ p ≤ n ∧ (nextN E2E)^[p] d = d := by
    intro a b hab hb h
    refine ⟨b - a, by omega, by omega, ?_⟩
    have hb2 : b = a + (b - a) := by omega
    rw [hb2, Function.iterate_add_apply] at h
    exact (iterate_nextN_inj hv a hd (iterate_nextN_lt hv hd _) h).symm
  rcases Nat.lt_or_gt_of_ne hne with h | h
  · exact key i j h hj heq
  · exact key j i h hi heq.symm

/-! ## The ring loop visits one period of the rotation -/

theorem mem_periodicPts_nextN {F : List Nat} {n : Nat} {E2E : List Int} (hv : ValidE2E F n E2E)
    {d : Nat} (hd : d < n) : d ∈ Function.periodicPts (nextN E2E) := by
  obtain ⟨p, hp, _, h⟩ := exists_period hv hd
  exact Function.mk_mem_periodicPts hp h

theorem period_pos {F : List Nat} {n : Nat} {E2E : List Int} (hv : ValidE2E F n E2E)
    {d : Nat} (hd : d < n) : 0 < Function.minimalPeriod (nextN E2E) d :=
  Function.minimalPeriod_pos_of_mem_periodicPts (mem_periodicPts_nextN hv hd)

theorem period_le {F : List Nat} {n : Nat} {E2E : List Int} (hv : ValidE2E F n E2E)
    {d : Nat} (hd : d < n) : Function.minimalPeriod (nextN E2E) d ≤ n := by
  obtain ⟨p, hp, hpn, h⟩ := exists_period hv hd
  exact le_trans (Function.IsPeriodicPt.minimalPeriod_le hp h) hpn

theorem iterate_period (E2E : List Int) (d : Nat) :
    (nextN E2E)^[Function.minimalPeriod (nextN E2E) d] d = d :=
  Function.isPeriodicPt_minimalPeriod (nextN E2E) d

theorem iterate_ne_of_lt_period {E2E : List Int} {d k : Nat} (hk : 0 < k)
    (hlt : k < Function.minimalPeriod (nextN E2E) d) : (nextN E2E)^[k] d ≠ d := by
  intro h
  have := Function.IsPeriodicPt.minimalPeriod_le hk h
  omega

/-- The directed edges of the fan of `d`, in rotation order. -/
theorem ringFold_orbit {σ : Type} {F : List Nat} {n : Nat} {E2E : List Int}
    (hv : ValidE2E F n E2E) {d0 : Nat} (hd : d0 < n) (body : σ → Int → σ) :
    ∀ j k, 0 < j → k + j = Function.minimalPeriod (nextN E2E) d0 → ∀ fuel, j ≤ fuel → ∀ s,
      ringFold E2E (d0 : Int) body fuel (((nextN E2E)^[k] d0 : Nat) : Int) s
        = some (((List.range' k j).map (fun i => (((nextN E2E)^[i] d0 : Nat) : Int))).foldl
            body s) := by
  intro j
  induction j with
  | zero => intro k hj; omega
  | succ j ih =>
    intro k _ hk fuel hfuel s
    obtain ⟨fuel, rfl⟩ : ∃ f, fuel = f + 1 := ⟨fuel - 1, by omega⟩
    have hnext := next_out_natCast hv (iterate_nextN_lt hv hd k)
    rw [← Function.iterate_succ_apply' (nextN E2E) k d0] at hnext
    simp only [ringFold, hnext]
    by_cases hj0 : j = 0
    · subst hj0
      have : (nextN E2E)^[k + 1] d0 = d0 := by
        rw [hk]; exact iterate_period E2E d0
      simp [this, List.range']
    · have hne : (nextN E2E)^[k + 1] d0 ≠ d0 :=
        iterate_ne_of_lt_period (by omega) (by omega)
      have hne2 : (d0 : Int) ≠ (((nextN E2E)^[k + 1] d0 : Nat) : Int) := by
        intro h; exact hne (by exact_mod_cast h.symm)
      rw [if_pos hne2, ih (k + 1) (by omega) (by omega) fuel (by omega)]
      simp [List.range']

/-- The list of directed edges in the fan of `d`. -/
theorem ringFold_eq {σ : Type} {F : List Nat} {n : Nat} {E2E : List Int}
    (hv : ValidE2E F n E2E) {d0 : Nat} (hd : d0 < n) (body : σ → Int → σ) (fuel : Nat)
    (hfuel : n ≤ fuel) (s : σ) :
    ringFold E2E (d0 : Int) body fuel (d0 : Int) s
      = some (((List.range (Function.minimalPeriod (nextN E2E) d0)).map
          (fun i => (((nextN E2E)^[i] d0 : Nat) : Int))).foldl body s) := by
  have h := ringFold_orbit hv hd body (Function.minimalPeriod (nextN E2E) d0) 0
    (period_pos hv hd) (by omega) fuel (le_trans (period_le hv hd) hfuel) s
  rw [List.range_eq_range']
  exact h

theorem foldl_snoc_eq {α : Type} (l acc : List α) :
    l.foldl (fun (a : List α) p => a ++ [p]) acc = acc ++ l := by
  induction l generalizing acc with
  | nil => simp
  | cons x xs ih => simp [ih]

theorem foldl_count_eq {α : Type} (l : List α) (c : Nat) :
    l.foldl (fun (a : Nat) _ => a + 1) c = c + l.length := by
  induction l generalizing c with
  | nil => simp
  | cons x xs ih => simp [ih]; omega

theorem ringList_eq {F : List Nat} {n : Nat} {E2E : List Int}
    (hv : ValidE2E F n E2E) {d0 : Nat} (hd : d0 < n) (fuel : Nat) (hfuel : n ≤ fuel) :
    ringList E2E fuel (d0 : Int)
      = some ((List.range (Function.minimalPeriod (nextN E2E) d0)).map
          (fun i => (((nextN E2E)^[i] d0 : Nat) : Int))) := by
  unfold ringList
  rw [ringFold_eq hv hd _ fuel hfuel, foldl_snoc_eq]
  simp

theorem ringCount_eq {F : List Nat} {n : Nat} {E2E : List Int}
    (hv : ValidE2E F n E2E) {d0 : Nat} (hd : d0 < n) (fuel : Nat) (hfuel : n ≤ fuel) :
    ringCount E2E fuel (d0 : Int) = some (Function.minimalPeriod (nextN E2E) d0) := by
  unfold ringCount
  rw [ringFold_eq hv hd _ fuel hfuel, foldl_count_eq]
  simp

/-! ## Fans: the orbits of the rotation -/

theorem SameFan_refl (E2E : List Int) (d : Nat) : SameFan E2E d d := ⟨0, rfl⟩

theorem SameFan_trans {E2E : List Int} {d1 d2 d3 : Nat} (h1 : SameFan E2E d1 d2)
    (h2 : SameFan E2E d2 d3) : SameFan E2E d1 d3 := by
  obtain ⟨a, ha⟩ := h1
  obtain ⟨b, hb⟩ := h2
  refine ⟨b + a, ?_⟩
  rw [Function.iterate_add_apply, ha, hb]

theorem SameFan_lt {F : List Nat} {n : Nat} {E2E : List Int} (hv : ValidE2E F n E2E)
    {d1 d2 : Nat} (hd : d1 < n) (h : SameFan E2E d1 d2) : d2 < n := by
  obtain ⟨k, rfl⟩ := h
  exact iterate_nextN_lt hv hd k

theorem SameFan_src {F : List Nat} {n : Nat} {E2E : List Int} (hv : ValidE2E F n E2E)
    {d1 d2 : Nat} (hd : d1 < n) (h : SameFan E2E d1 d2) : src F d2 = src F d1 := by
  obtain ⟨k, rfl⟩ := h
  exact src_iterate_nextN hv hd k

theorem SameFan_symm {F : List Nat} {n : Nat} {E2E : List Int} (hv : ValidE2E F n E2E)
    {d1 d2 : Nat} (hd : d1 < n) (h : SameFan E2E d1 d2) : SameFan E2E d2 d1 := by
  obtain ⟨k, rfl⟩ := h
  -- go on for the rest of a multiple of the period
  let p := Function.minimalPeriod (nextN E2E) d1
  have hp : 0 < p := period_pos hv hd
  refine ⟨p * (k + 1) - k, ?_⟩
  rw [← Function.iterate_add_apply]
  have e : p * (k + 1) - k + k = p * (k + 1) := by
    have : k ≤ p * (k + 1) := by nlinarith
    omega
  rw [e]
  have := Function.IsPeriodicPt.mul_const (Function.isPeriodicPt_minimalPeriod (nextN E2E) d1)
    (k + 1)
  exact this

theorem SameFan_iff_lt_period {F : List Nat} {n : Nat} {E2E : List Int}
    (hv : ValidE2E F n E2E) {d1 d2 : Nat} (_hd : d1 < n) :
    SameFan E2E d1 d2 ↔
      ∃ k, k < Function.minimalPeriod (nextN E2E) d1 ∧ (nextN E2E)^[k] d1 = d2 := by
  constructor
  · rintro ⟨k, rfl⟩
    refine ⟨k % Function.minimalPeriod (nextN E2E) d1, Nat.mod_lt _ (period_pos hv _hd), ?_⟩
    exact Function.iterate_mod_minimalPeriod_eq
  · rintro ⟨k, _, h⟩
    exact ⟨k, h⟩

/-- The fan of `d` as a list of natural numbers. -/
theorem fan_nodup (E2E : List Int) (d : Nat) :
    ((List.range (Function.minimalPeriod (nextN E2E) d)).map
      (fun i => (nextN E2E)^[i] d)).Nodup := by
  rw [List.nodup_map_iff_inj_on (List.nodup_range _)]
  intro a ha b hb h
  rw [List.mem_range] at ha hb
  exact (Function.iterate_eq_iterate_iff_of_lt_minimalPeriod ha hb).mp h

theorem mem_fan_iff {F : List Nat} {n : Nat} {E2E : List Int}
    (hv : ValidE2E F n E2E) {d x : Nat} (hd : d < n) :
    x ∈ (List.range (Function.minimalPeriod (nextN E2E) d)).map
      (fun i => (nextN E2E)^[i] d) ↔ SameFan E2E d x := by
  rw [SameFan_iff_lt_period hv hd]
  simp only [List.mem_map, List.mem_range]

theorem fan_map_cast (E2E : List Int) (d : Nat) :
    (List.range (Function.minimalPeriod (nextN E2E) d)).map
      (fun i => (((nextN E2E)^[i] d : Nat) : Int))
    = ((List.range (Function.minimalPeriod (nextN E2E) d)).map
      (fun i => (nextN E2E)^[i] d)).map (fun (x : Nat) => (x : Int)) := by
  rw [List.map_map]; rfl

/-! ## SplitVertices: auxiliary facts about the containers -/

theorem src_eq_getD (F : List Nat) (d : Nat) : src F d = F.getD d 0 := by
  unfold src faceAt
  rw [div_mul_add_mod3]

theorem foldl_range_faces {σ : Type} (g : σ → Nat → Nat → σ) (m : Nat) (s : σ) :
    (List.range m).foldl (fun s i => (List.range 3).foldl (fun s j => g s i j) s) s
      = (List.range (m * 3)).foldl (fun s d => g s (d / 3) (d % 3)) s := by
  simp only [range3_foldl]
  induction m generalizing s with
  | zero => simp
  | succ m ih =>
    have h3 : (m + 1) * 3 = ((m * 3 + 1) + 1) + 1 := by ring
    rw [List.range_succ m, List.foldl_append, ih, h3, List.range_succ (m * 3 + 1 + 1),
      List.range_succ (m * 3 + 1), List.range_succ (m * 3)]
    simp only [List.foldl_append, List.foldl_cons, List.foldl_nil]
    have e0 : (m * 3) / 3 = m := by omega
    have e1 : (m * 3 + 1) / 3 = m := by omega
    have e2 : (m * 3 + 1 + 1) / 3 = m := by omega
    have r0 : (m * 3) % 3 = 0 := by omega
    have r1 : (m * 3 + 1) % 3 = 1 := by omega
    have r2 : (m * 3 + 1 + 1) % 3 = 2 := by omega
    rw [e0, e1, e2, r0, r1, r2]

theorem buildVlinks_eq_after (num_V num_F : Nat) (F : List Nat) :
    buildVlinks num_V num_F F = vlinksAfter num_V F (num_F * 3) := by
  unfold buildVlinks vlinksAfter
  have h := foldl_range_faces (fun (vl : List (List Int)) i j => vl.set (faceAt F i j)
    (setInsert (vl.getD (faceAt F i j) []) ((i * 3 + j : Nat) : Int))) num_F
    (List.replicate num_V [])
  simp only [faceAt_div_mod, div_mul_add_mod3] at h
  exact h

theorem vlinksAfter_spec (num_V : Nat) (F : List Nat) :
    ∀ k, (∀ d, d < k → src F d < num_V) →
      (vlinksAfter num_V F k).length = num_V ∧
      ∀ v, v < num_V → (vlinksAfter num_V F k).getD v []
        = (corners F k v).map (fun (x : Nat) => (x : Int)) := by
  intro k
  induction k with
  | zero =>
    intro _
    refine ⟨by simp [vlinksAfter], ?_⟩
    intro v hv
    simp [vlinksAfter, corners, List.getD_eq_getElem?_getD, List.getElem?_replicate, hv]
  | succ k ih =>
    intro hsrc
    obtain ⟨hlen, hget⟩ := ih (fun d hd => hsrc d (by omega))
    have hstep : vlinksAfter num_V F (k + 1)
        = (vlinksAfter num_V F k).set (src F k)
            (setInsert ((vlinksAfter num_V F k).getD (src F k) []) (k : Int)) := by
      simp [vlinksAfter, List.range_succ, List.foldl_append]
    rw [hstep]
    refine ⟨by simp [hlen], ?_⟩
    intro v hv
    have hk := hsrc k (by omega)
    have hcorn : corners F (k + 1) v
        = corners F k v ++ (if src F k = v then [k] else []) := by
      unfold corners
      rw [List.range_succ, List.filter_append]
      by_cases h : src F k = v <;> simp [h]
    rw [hcorn]
    by_cases h : src F k = v
    · subst h
      have hnot : (k : Int) ∉ (corners F k (src F k)).map (fun (x : Nat) => (x : Int)) := by
        simp only [List.mem_map, not_exists, not_and]
        intro x hx hxk
        have : x = k := by exact_mod_cast hxk
        subst this
        simp [corners] at hx
      rw [hget _ hk]
      simp only [List.getD_eq_getElem?_getD, List.getElem?_set, hlen, hk, if_true]
      simp [setInsert, hnot]
    · have h2 : ¬ src F k = v := h
      simp only [List.getD_eq_getElem?_getD, List.getElem?_set, h2, if_false]
      have := hget v hv
      simp only [List.getD_eq_getElem?_getD] at this
      rw [this]
      simp

theorem rewriteCorners_spec (nv : Nat) :
    ∀ (l : List Nat) (F : List Nat), (∀ x ∈ l, x < F.length) →
      ∃ F1, rewriteCorners F (l.map (fun (x : Nat) => (x : Int))) nv = some F1 ∧
        F1.length = F.length ∧
        ∀ x, F1.getD x 0 = if x ∈ l then nv else F.getD x 0 := by
  intro l
  induction l with
  | nil => intro F _; exact ⟨F, by simp [rewriteCorners], rfl, by simp⟩
  | cons a l ih =>
    intro F hF
    have ha : a < F.length := hF a (by simp)
    obtain ⟨F1, h1, h2, h3⟩ := ih (F.set a nv) (by
      intro x hx; simp; exact hF x (by simp [hx]))
    refine ⟨F1, ?_, by simpa using h2, ?_⟩
    · unfold rewriteCorners at h1 ⊢
      simp only [List.map_cons, List.foldlM_cons]
      have : (0 : Int) ≤ (a : Int) ∧ ((a : Int)).toNat < F.length := by
        constructor
        · omega
        · simpa using ha
      rw [if_pos this]
      simpa using h1
    · intro x
      rw [h3 x]
      by_cases hx : x ∈ l
      · simp [hx]
      · by_cases hxa : x = a
        · subst hxa
          simp [hx, List.getD_eq_getElem?_getD, List.getElem?_set, ha]
        · have : ¬ a = x := fun e => hxa e.symm
          simp [hx, hxa, List.getD_eq_getElem?_getD, List.getElem?_set, this]

theorem foldl_erase_spec {α : Type} [DecidableEq α] (l : List α) :
    ∀ (links : List α), links.Nodup →
      (l.foldl (fun a p => a.erase p) links).Nodup ∧
      ∀ x, x ∈ l.foldl (fun a p => a.erase p) links ↔ x ∈ links ∧ x ∉ l := by
  induction l with
  | nil => intro links h; exact ⟨h, by simp⟩
  | cons a l ih =>
    intro links h
    obtain ⟨h1, h2⟩ := ih (links.erase a) (h.erase a)
    refine ⟨h1, ?_⟩
    intro x
    simp only [List.foldl_cons]
    rw [h2 x, List.Nodup.mem_erase_iff h]
    simp only [List.mem_cons, not_or]
    tauto

/-! ## SplitVertices: one fan at a time -/

/-- The ring loop started at a valid directed edge returns its fan. -/
theorem ringList_fan {F : List Nat} {n : Nat} {E2E : List Int}
    (hv : ValidE2E F n E2E) {d : Nat} (hd : d < n) (fuel : Nat) (hfuel : n ≤ fuel) :
    ∃ fan : List Nat, ringList E2E fuel (d : Int) = some (fan.map (fun (x : Nat) => (x : Int))) ∧
      fan.Nodup ∧ ∀ x, x ∈ fan ↔ SameFan E2E d x := by
  refine ⟨_, ?_, fan_nodup E2E d, fun x => mem_fan_iff hv hd⟩
  rw [ringList_eq hv hd fuel hfuel, fan_map_cast]

theorem ringCount_fan {F : List Nat} {n : Nat} {E2E : List Int}
    (hv : ValidE2E F n E2E) {d : Nat} (hd : d < n) (fuel : Nat) (hfuel : n ≤ fuel) :
    ∃ fan : List Nat, ringCount E2E fuel (d : Int) = some fan.length ∧
      fan.Nodup ∧ ∀ x, x ∈ fan ↔ SameFan E2E d x := by
  refine ⟨_, ?_, fan_nodup E2E d, fun x => mem_fan_iff hv hd⟩
  rw [ringCount_eq hv hd fuel hfuel]
  simp

/-- Every fan has a smallest directed edge. -/
theorem exists_fanMin {F : List Nat} {n : Nat} {E2E : List Int}
    (hv : ValidE2E F n E2E) {d : Nat} (hd : d < n) :
    ∃ m, SameFan E2E d m ∧ isFanMin E2E n m ∧
      ∀ m2, SameFan E2E d m2 → isFanMin E2E n m2 → m2 = m := by
  classical
  have hex : ∃ x, SameFan E2E d x := ⟨d, SameFan_refl E2E d⟩
  have hspec := Nat.find_spec hex
  have hmin : ∀ y, SameFan E2E d y → Nat.find hex ≤ y := fun y hy => Nat.find_min' hex hy
  refine ⟨Nat.find hex, hspec, ?_, ?_⟩
  · intro k _
    exact hmin _ (SameFan_trans hspec ⟨k, rfl⟩)
  · intro m2 h2 hm2
    have hm2lt : m2 < n := SameFan_lt hv hd h2
    have h21 : SameFan E2E m2 (Nat.find hex) :=
      SameFan_trans (SameFan_symm hv hd h2) hspec
    obtain ⟨k, hk, hk2⟩ := (SameFan_iff_lt_period hv hm2lt).mp h21
    have := hm2 k (lt_of_lt_of_le hk (period_le hv hm2lt))
    rw [hk2] at this
    exact le_antisymm this (hmin m2 h2)

theorem length_filter_split {α : Type} (l : List α) (p q : α → Prop) [DecidablePred p]
    [DecidablePred q] :
    (l.filter (fun x => p x)).length
      = (l.filter (fun x => p x ∧ q x)).length + (l.filter (fun x => p x ∧ ¬ q x)).length := by
  induction l with
  | nil => simp
  | cons a l ih =>
    by_cases hp : p a <;> by_cases hq : q a <;> simp [List.filter_cons, hp, hq, ih] <;> omega

theorem length_filter_unique (n m : Nat) (p : Nat → Prop) [DecidablePred p] (hm : m < n)
    (hpm : p m) (huniq : ∀ x, x < n → p x → x = m) :
    ((List.range n).filter (fun x => p x)).length = 1 := by
  have hnd : ((List.range n).filter (fun x => p x)).Nodup := (List.nodup_range n).filter _
  have hset : ((List.range n).filter (fun x => p x)).toFinset = {m} := by
    ext x
    simp only [List.mem_toFinset, List.mem_filter, List.mem_range, decide_eq_true_eq,
      Finset.mem_singleton]
    constructor
    · rintro ⟨h1, h2⟩; exact huniq x h1 h2
    · rintro rfl; exact ⟨hm, hpm⟩
  rw [← List.toFinset_card_of_nodup hnd, hset]
  simp

theorem length_filter_congr {α : Type} (l : List α) (p q : α → Prop) [DecidablePred p]
    [DecidablePred q] (h : ∀ x ∈ l, (p x ↔ q x)) :
    (l.filter (fun x => p x)).length = (l.filter (fun x => q x)).length := by
  congr 1
  apply List.filter_congr
  intro x hx
  simp [h x hx]

/-- Taking one whole fan out of `links` lowers the number of fans in `links` by one. -/
theorem fansIn_remove {F : List Nat} {n : Nat} {E2E : List Int}
    (hv : ValidE2E F n E2E) {links links1 : List Int} {d : Nat} (hd : d < n)
    (hclosed : ∀ a b, a < n → (a : Int) ∈ links → SameFan E2E a b → (b : Int) ∈ links)
    (hmem : (d : Int) ∈ links)
    (h1 : ∀ x : Nat, (x : Int) ∈ links1 ↔ (x : Int) ∈ links ∧ ¬ SameFan E2E d x) :
    fansIn E2E n links = fansIn E2E n links1 + 1 := by
  classical
  unfold fansIn
  rw [length_filter_split (List.range n) (fun (x : Nat) => ((x : Nat) : Int) ∈ links ∧ isFanMin E2E n x)
    (fun x => ¬ SameFan E2E d x)]
  have e1 : ((List.range n).filter
        (fun (x : Nat) => (((x : Nat) : Int) ∈ links ∧ isFanMin E2E n x) ∧ ¬ SameFan E2E d x)).length
      = ((List.range n).filter (fun (x : Nat) => ((x : Nat) : Int) ∈ links1 ∧ isFanMin E2E n x)).length := by
    apply length_filter_congr
    intro x _
    rw [h1 x]; tauto
  obtain ⟨m, hm1, hm2, hm3⟩ := exists_fanMin hv hd
  have e2 : ((List.range n).filter
        (fun (x : Nat) => (((x : Nat) : Int) ∈ links ∧ isFanMin E2E n x) ∧ ¬ ¬ SameFan E2E d x)).length
      = 1 := by
    apply length_filter_unique n m _ (SameFan_lt hv hd hm1)
    · exact ⟨⟨hclosed d m hd hmem hm1, hm2⟩, not_not.mpr hm1⟩
    · intro x _ hx
      exact hm3 x (not_not.mp hx.2) hx.1.2
  rw [e1, e2]

theorem mem_map_natCast (l : List Nat) (y : Nat) :
    (y : Int) ∈ l.map (fun (x : Nat) => (x : Int)) ↔ y ∈ l := by
  simp only [List.mem_map]
  constructor
  · rintro ⟨a, ha, h⟩
    have : a = y := by exact_mod_cast h
    rwa [← this]
  · intro h; exact ⟨y, h, rfl⟩

/-- One pass through the `while` loop with `group_id = 0`: the first fan keeps the id `i`. -/
theorem FanInv_first {F : List Nat} {n : Nat} {E2E : List Int} {i : Nat} {st0 st : SplitState}
    {links links1 : List Int} (hv : ValidE2E F n E2E)
    (h0 : ∀ d, d < n → src F d = i → src st0.out_F d = i)
    (inv : FanInv F n E2E i st0 links 0 st) {d : Nat} (hd : d < n) (hmem : (d : Int) ∈ links)
    (hnd : links1.Nodup) (hsub : ∀ x, x ∈ links1 → x ∈ links)
    (h1 : ∀ y : Nat, (y : Int) ∈ links1 ↔ (y : Int) ∈ links ∧ ¬ SameFan E2E d y) :
    FanInv F n E2E i st0 links1 1 st := by
  obtain ⟨hst, hall⟩ := inv.zero rfl
  have hin : ∀ y, y < n → src F y = i → (y : Int) ∉ links1 → SameFan E2E d y := by
    intro y hy hs hnot
    by_contra hc
    exact hnot ((h1 y).mpr ⟨hall y hy hs, hc⟩)
  have hsrcd : src F d = i := by
    obtain ⟨d2, _, e, hs⟩ := inv.links_sub _ hmem
    have : d = d2 := by exact_mod_cast e
    rw [this]; exact hs
  refine ⟨hnd, fun x hx => inv.links_sub x (hsub x hx), ?_, inv.len, ?_, ?_, ?_, ?_, ?_, ?_,
    ?_, ?_⟩
  · intro a b ha hal hab
    rw [h1] at hal ⊢
    refine ⟨inv.closed a b ha hal.1 hab, fun hdb => hal.2 ?_⟩
    exact SameFan_trans hdb (SameFan_symm hv ha hab)
  · intro y hy hc
    apply inv.frame y hy
    rcases hc with hc | hc
    · exact Or.inl hc
    · exact Or.inr (hsub _ hc)
  · intro y hy hs _
    left
    rw [hst]; exact h0 y hy hs
  · intro y y2 hy hy2 hs hs2 hn hn2
    rw [hst, h0 y hy hs, h0 y2 hy2 hs2]
    simp only [true_iff]
    exact SameFan_trans (SameFan_symm hv hd (hin y hy hs hn)) (hin y2 hy2 hs2 hn2)
  · intro w hw1 hw2
    rw [hst] at hw2; omega
  · intro _
    refine ⟨d, hd, hsrcd, ?_, ?_⟩
    · rw [h1]; exact fun h => h.2 (SameFan_refl E2E d)
    · rw [hst]; exact h0 d hd hsrcd
  · intro h; omega
  · rw [hst]; rfl
  · have := inv.cycles
    rw [fansIn_remove hv hd inv.closed hmem h1] at this
    omega

/-- One pass through the `while` loop with `group_id != 0`: the fan gets the fresh id. -/
theorem FanInv_next {F : List Nat} {n : Nat} {E2E : List Int} {i g : Nat} {st0 st : SplitState}
    {links links1 : List Int} (hv : ValidE2E F n E2E) (hi : i < st0.num_vertices)
    (inv : FanInv F n E2E i st0 links g st) (hg : 0 < g)
    {d : Nat} (hd : d < n) (hmem : (d : Int) ∈ links)
    (hnd : links1.Nodup) (hsub : ∀ x, x ∈ links1 → x ∈ links)
    (h1 : ∀ y : Nat, (y : Int) ∈ links1 ↔ (y : Int) ∈ links ∧ ¬ SameFan E2E d y)
    {F1 : List Nat} (hlen : F1.length = n)
    (hF1a : ∀ y, SameFan E2E d y → src F1 y = st.num_vertices)
    (hF1b : ∀ y, ¬ SameFan E2E d y → src F1 y = src st.out_F y)
    (info : List (Nat × Nat)) :
    FanInv F n E2E i st0 links1 (g + 1)
      { out_F := F1, num_vertices := st.num_vertices + 1, insert_vertex_info := info } := by
  have hsrcd : src F d = i := by
    obtain ⟨d2, _, e, hs⟩ := inv.links_sub _ hmem
    have : d = d2 := by exact_mod_cast e
    rw [this]; exact hs
  have hcount := inv.count
  -- a corner outside `links1` is in the fan of `d` or was handled before
  have hcase : ∀ y : Nat, ((y : Nat) : Int) ∉ links1 → SameFan E2E d y ∨
      (¬ SameFan E2E d y ∧ ((y : Nat) : Int) ∉ links) := by
    intro y hy
    by_cases h : SameFan E2E d y
    · exact Or.inl h
    · exact Or.inr ⟨h, fun hl => hy ((h1 y).mpr ⟨hl, h⟩)⟩
  have hfanlinks : ∀ y : Nat, SameFan E2E d y → ((y : Nat) : Int) ∈ links :=
    fun y h => inv.closed d y hd hmem h
  have hold : ∀ y : Nat, y < n → src F y = i → ((y : Nat) : Int) ∉ links →
      src st.out_F y ≠ st.num_vertices := by
    intro y hy hs hn
    rcases inv.ids y hy hs hn with h | h <;> omega
  refine ⟨hnd, fun x hx => inv.links_sub x (hsub x hx), ?_, hlen, ?_, ?_, ?_, ?_, ?_, ?_,
    ?_, ?_⟩
  · intro a b ha hal hab
    rw [h1] at hal ⊢
    refine ⟨inv.closed a b ha hal.1 hab, fun hdb => hal.2 ?_⟩
    exact SameFan_trans hdb (SameFan_symm hv ha hab)
  · intro y hy hc
    have hnf : ¬ SameFan E2E d y := by
      intro hf
      rcases hc with hc | hc
      · exact hc ((SameFan_src hv hd hf).trans hsrcd)
      · exact ((h1 y).mp hc).2 hf
    simp only [hF1b y hnf]
    apply inv.frame y hy
    rcases hc with hc | hc
    · exact Or.inl hc
    · exact Or.inr (hsub _ hc)
  · intro y hy hs hn
    rcases hcase y hn with h | ⟨h, hl⟩
    · simp only [hF1a y h]; right; omega
    · simp only [hF1b y h]
      rcases inv.ids y hy hs hl with h2 | h2
      · exact Or.inl h2
      · right; omega
  · intro y y2 hy hy2 hs hs2 hn hn2
    rcases hcase y hn with h | ⟨h, hl⟩ <;> rcases hcase y2 hn2 with h2 | ⟨h2, hl2⟩
    · simp only [hF1a y h, hF1a y2 h2, true_iff]
      exact SameFan_trans (SameFan_symm hv hd h) h2
    · simp only [hF1a y h, hF1b y2 h2]
      constructor
      · intro e; exact absurd e.symm (hold y2 hy2 hs2 hl2)
      · intro hf; exact absurd (SameFan_trans h hf) h2
    · simp only [hF1b y h, hF1a y2 h2]
      constructor
      · intro e; exact absurd e (hold y hy hs hl)
      · intro hf; exact absurd (SameFan_trans h2 (SameFan_symm hv hy hf)) h
    · simp only [hF1b y h, hF1b y2 h2]
      exact inv.same y y2 hy hy2 hs hs2 hl hl2
  · intro w hw1 hw2
    by_cases hw : w = st.num_vertices
    · refine ⟨d, hd, hsrcd, ?_, ?_⟩
      · rw [h1]; exact fun h => h.2 (SameFan_refl E2E d)
      · simp only [hF1a d (SameFan_refl E2E d)]; exact hw.symm
    · obtain ⟨y, hy, hs, hn, hw3⟩ := inv.fresh_used w hw1 (by simp only at hw2; omega)
      refine ⟨y, hy, hs, fun h => hn (hsub _ h), ?_⟩
      have hnf : ¬ SameFan E2E d y := fun hf => hn (hfanlinks y hf)
      simp only [hF1b y hnf]; exact hw3
  · intro _
    obtain ⟨y, hy, hs, hn, hw3⟩ := inv.first hg
    refine ⟨y, hy, hs, fun h => hn (hsub _ h), ?_⟩
    have hnf : ¬ SameFan E2E d y := fun hf => hn (hfanlinks y hf)
    simp only [hF1b y hnf]; exact hw3
  · intro h; omega
  · simp only; omega
  · have := inv.cycles
    rw [fansIn_remove hv hd inv.closed hmem h1] at this
    omega

/-- The loop `while (!vlinks[i].empty())` ends, with the invariant for an empty `links`. -/
theorem splitFans_spec {F : List Nat} {n : Nat} {E2E : List Int} {i : Nat} {st0 : SplitState}
    (pick : List Int → Int) (hpick : ∀ l, l ≠ [] → pick l ∈ l)
    (hv : ValidE2E F n E2E) (fuel : Nat) (hfuel : n ≤ fuel)
    (h0 : ∀ d, d < n → src F d = i → src st0.out_F d = i) (hi : i < st0.num_vertices) :
    ∀ w links g st, links.length < w → FanInv F n E2E i st0 links g st →
      ∃ g2 st2, splitFans pick E2E i fuel w links g st = some st2 ∧
        FanInv F n E2E i st0 [] g2 st2 := by
  intro w
  induction w with
  | zero => intro links g st h; omega
  | succ w ih =>
    intro links g st hw inv
    unfold splitFans
    by_cases hnil : links = []
    · subst hnil
      exact ⟨g, st, by simp, inv⟩
    · rw [if_neg hnil]
      have hp := hpick links hnil
      obtain ⟨d, hd, hpd, hsd⟩ := inv.links_sub _ hp
      rw [hpd] at hp ⊢
      obtain ⟨fan, hring, hfnd, hfmem⟩ := ringList_fan hv hd fuel hfuel
      simp only [hring]
      obtain ⟨hnd1, hmem1⟩ := foldl_erase_spec (fan.map (fun (x : Nat) => (x : Int))) links
        inv.nodup
      have hsub : ∀ x, x ∈ (fan.map (fun (x : Nat) => (x : Int))).foldl
          (fun a p => a.erase p) links → x ∈ links := fun x hx => ((hmem1 x).mp hx).1
      have h1 : ∀ y : Nat, ((y : Nat) : Int) ∈ (fan.map (fun (x : Nat) => (x : Int))).foldl
          (fun a p => a.erase p) links ↔ ((y : Nat) : Int) ∈ links ∧ ¬ SameFan E2E d y := by
        intro y
        rw [hmem1, mem_map_natCast, hfmem]
      have hlt : ((fan.map (fun (x : Nat) => (x : Int))).foldl
          (fun a p => a.erase p) links).length < w := by
        have hs : (fan.map (fun (x : Nat) => (x : Int))).foldl (fun a p => a.erase p) links
            ⊆ links.erase (d : Int) := by
          intro x hx
          have hx2 := (hmem1 x).mp hx
          have hne : x ≠ (d : Int) := by
            rintro rfl
            exact hx2.2 ((mem_map_natCast fan d).mpr ((hfmem d).mpr (SameFan_refl E2E d)))
          exact (List.mem_erase_of_ne hne).mpr hx2.1
        have := (List.subperm_of_subset hnd1 hs).length_le
        rw [List.length_erase_of_mem hp] at this
        have hpos : 0 < links.length := List.length_pos_of_mem hp
        omega
      by_cases hg : g = 0
      · subst hg
        simp only [ne_eq, not_true_eq_false, if_false]
        exact ih _ 1 st hlt (FanInv_first hv h0 inv hd hp hnd1 hsub h1)
      · simp only [ne_eq, hg, not_false_eq_true, if_true]
        obtain ⟨F1, hrw, hlen1, hget1⟩ := rewriteCorners_spec st.num_vertices fan st.out_F (by
          intro x hx
          rw [inv.len]
          exact SameFan_lt hv hd ((hfmem x).mp hx))
        simp only [hrw]
        apply ih _ (g + 1) _ hlt
        apply FanInv_next hv hi inv (Nat.pos_of_ne_zero hg) hd hp hnd1 hsub h1
          (hlen1.trans inv.len)
        · intro y hy
          rw [src_eq_getD, hget1, if_pos ((hfmem y).mpr hy)]
        · intro y hy
          rw [src_eq_getD, hget1, if_neg (fun h => hy ((hfmem y).mp h)), ← src_eq_getD]

/-! ## SplitVertices: one vertex at a time -/

theorem mem_corners {F : List Nat} {n v d : Nat} : d ∈ corners F n v ↔ d < n ∧ src F d = v := by
  simp [corners]

theorem corners_nodup (F : List Nat) (n v : Nat) : (corners F n v).Nodup :=
  (List.nodup_range n).filter _

theorem numCycles_eq (F : List Nat) (n : Nat) (E2E : List Int) (v : Nat) :
    numCycles F n E2E v
      = ((List.range n).filter (fun d => src F d = v ∧ isFanMin E2E n d)).length := by
  unfold numCycles corners
  rw [List.filter_filter]
  congr 1
  apply List.filter_congr
  intro x _
  simp [and_comm]

theorem fansIn_corners (F : List Nat) (n : Nat) (E2E : List Int) (v : Nat) :
    fansIn E2E n ((corners F n v).map (fun (x : Nat) => (x : Int))) = numCycles F n E2E v := by
  rw [numCycles_eq]
  unfold fansIn
  apply length_filter_congr
  intro x hx
  rw [mem_map_natCast, mem_corners]
  have : x < n := List.mem_range.mp hx
  tauto

/-- A vertex whose corners all lie in one fan has exactly one cycle. -/
theorem numCycles_eq_one {F : List Nat} {n : Nat} {E2E : List Int} (hv : ValidE2E F n E2E)
    {v d : Nat} (hd : d < n) (hs : src F d = v)
    (hall : ∀ y, y < n → src F y = v → SameFan E2E d y) : numCycles F n E2E v = 1 := by
  rw [numCycles_eq]
  obtain ⟨m, hm1, hm2, hm3⟩ := exists_fanMin hv hd
  apply length_filter_unique n m _ (SameFan_lt hv hd hm1)
  · exact ⟨(SameFan_src hv hd hm1).trans hs, hm2⟩
  · intro x hx hp
    exact hm3 x (hall x hx hp.1) hp.2

theorem extraVertices_succ (F : List Nat) (n : Nat) (E2E : List Int) (i : Nat) :
    extraVertices F n E2E (i + 1) = extraVertices F n E2E i + (numCycles F n E2E i - 1) := by
  simp [extraVertices, List.range_succ]

theorem SplitInv_init {F : List Nat} {n num_V : Nat} (E2E : List Int) (hlen : F.length = n) :
    SplitInv F n num_V E2E 0 { out_F := F, num_vertices := num_V, insert_vertex_info := [] } :=
  { len := hlen
    untouched := fun _ _ _ => rfl
    ids := fun d _ h => absurd h (Nat.not_lt_zero _)
    same := fun d d2 _ _ h => absurd h (Nat.not_lt_zero _)
    fresh_used := fun w h1 h2 => by simp only at h2; omega
    first := fun v h => absurd h (Nat.not_lt_zero _)
    count := by simp [extraVertices] }

/-- The body of the main loop keeps the invariant. -/
theorem splitVertex_spec {F : List Nat} {n num_V : Nat} {V2E E2E : List Int}
    (pick : List Int → Int) (hpick : ∀ l, l ≠ [] → pick l ∈ l)
    (hin : SplitInput F n num_V V2E E2E) (fuel : Nat) (hfuel : n < fuel)
    {i : Nat} (hi : i < num_V) {st : SplitState} (inv : SplitInv F n num_V E2E i st) :
    ∃ st2, splitVertex pick V2E E2E (buildVlinks num_V (n / 3) F) fuel st i = some st2 ∧
      SplitInv F n num_V E2E (i + 1) st2 := by
  have hv := hin.valid
  obtain ⟨d, hd, hV2E, hsd⟩ := hin.v2e i hi
  have hn3 : n / 3 * 3 = n := Nat.div_mul_cancel hv.three
  have hlinks : (buildVlinks num_V (n / 3) F).getD i []
      = (corners F n i).map (fun (x : Nat) => (x : Int)) := by
    rw [buildVlinks_eq_after, hn3]
    exact (vlinksAfter_spec num_V F n hin.src_lt).2 i hi
  obtain ⟨fan, hcnt, hfnd, hfmem⟩ := ringCount_fan hv hd fuel (le_of_lt hfuel)
  have hnv : num_V ≤ st.num_vertices := by rw [inv.count]; omega
  have h0 : ∀ y, y < n → src F y = i → src st.out_F y = i := by
    intro y hy hs
    rw [inv.untouched y hy (by omega), hs]
  unfold splitVertex
  simp only [hV2E, hcnt, hlinks, List.length_map]
  by_cases hsplit : fan.length = (corners F n i).length
  · -- a single fan: nothing to do
    simp only [hsplit, ne_eq, not_true_eq_false, if_false]
    have hsubset : fan ⊆ corners F n i := by
      intro y hy
      have := (hfmem y).mp hy
      exact mem_corners.mpr ⟨SameFan_lt hv hd this, (SameFan_src hv hd this).trans hsd⟩
    have hperm := (List.subperm_of_subset hfnd hsubset).perm_of_length_le (le_of_eq hsplit.symm)
    have hall : ∀ y, y < n → src F y = i → SameFan E2E d y := by
      intro y hy hs
      exact (hfmem y).mp (hperm.symm.subset (mem_corners.mpr ⟨hy, hs⟩))
    have hone := numCycles_eq_one hv hd hsd hall
    refine ⟨st, rfl, inv.len, ?_, ?_, ?_, ?_, ?_, ?_⟩
    · intro y hy h; exact inv.untouched y hy (by omega)
    · intro y hy h
      rcases Nat.lt_succ_iff_lt_or_eq.mp h with h | h
      · exact inv.ids y hy h
      · left; exact inv.untouched y hy (by omega)
    · intro y y2 hy hy2 h h2
      rcases Nat.lt_succ_iff_lt_or_eq.mp h with h | h <;>
        rcases Nat.lt_succ_iff_lt_or_eq.mp h2 with h2 | h2
      · exact inv.same y y2 hy hy2 h h2
      · constructor
        · intro e
          rw [inv.untouched y2 hy2 (by omega)] at e
          rcases inv.ids y hy h with h3 | h3
          · omega
          · have := hin.src_lt y2 hy2; omega
        · intro hf
          have := SameFan_src hv hy hf; omega
      · constructor
        · intro e
          rw [inv.untouched y hy (by omega)] at e
          rcases inv.ids y2 hy2 h2 with h3 | h3
          · omega
          · have := hin.src_lt y hy; omega
        · intro hf
          have := SameFan_src hv hy hf; omega
      · rw [inv.untouched y hy (by omega), inv.untouched y2 hy2 (by omega), h, h2]
        simp only [true_iff]
        exact SameFan_trans (SameFan_symm hv hd (hall y hy h)) (hall y2 hy2 h2)
    · intro w h1 h2
      obtain ⟨y, hy, hs, hw⟩ := inv.fresh_used w h1 h2
      exact ⟨y, hy, by omega, hw⟩
    · intro v hvi
      rcases Nat.lt_succ_iff_lt_or_eq.mp hvi with h | h
      · exact inv.first v h
      · subst h; exact ⟨d, hd, hsd, h0 d hd hsd⟩
    · rw [extraVertices_succ, hone, inv.count]; rfl
  · -- several fans
    simp only [ne_eq, hsplit, not_false_eq_true, if_true]
    have init : FanInv F n E2E i st ((corners F n i).map (fun (x : Nat) => (x : Int))) 0 st := by
      refine ⟨?_, ?_, ?_, inv.len, fun _ _ _ => rfl, ?_, ?_, ?_, ?_, ?_, rfl, ?_⟩
      · exact (corners_nodup F n i).map (fun a b h => by exact_mod_cast h)
      · intro x hx
        obtain ⟨y, hy, rfl⟩ := List.mem_map.mp hx
        exact ⟨y, (mem_corners.mp hy).1, rfl, (mem_corners.mp hy).2⟩
      · intro a b ha hal hab
        rw [mem_map_natCast, mem_corners] at hal ⊢
        exact ⟨SameFan_lt hv ha hab, (SameFan_src hv ha hab).trans hal.2⟩
      · intro y hy hs hn
        exact absurd ((mem_map_natCast _ y).mpr (mem_corners.mpr ⟨hy, hs⟩)) hn
      · intro y y2 hy _ hs _ hn
        exact absurd ((mem_map_natCast _ y).mpr (mem_corners.mpr ⟨hy, hs⟩)) hn
      · intro w h1 h2; omega
      · intro h; omega
      · intro _
        exact ⟨rfl, fun y hy hs => (mem_map_natCast _ y).mpr (mem_corners.mpr ⟨hy, hs⟩)⟩
      · rw [fansIn_corners]; omega
    have hlen : ((corners F n i).map (fun (x : Nat) => (x : Int))).length < fuel := by
      rw [List.length_map]
      have : (corners F n i).length ≤ (List.range n).length := List.length_filter_le _ _
      rw [List.length_range] at this
      omega
    obtain ⟨g2, st2, hrun, fin⟩ := splitFans_spec pick hpick hv fuel (le_of_lt hfuel) h0
      (by omega) fuel _ 0 st hlen init
    have hg2 : 0 < g2 := by
      by_contra h
      have := (fin.zero (by omega)).2 d hd hsd
      simp at this
    have hfans : fansIn E2E n [] = 0 := by simp [fansIn]
    have hcyc := fin.cycles
    rw [hfans] at hcyc
    refine ⟨st2, hrun, fin.len, ?_, ?_, ?_, ?_, ?_, ?_⟩
    · intro y hy h
      rw [fin.frame y hy (Or.inl (by omega))]
      exact inv.untouched y hy (by omega)
    · intro y hy h
      rcases Nat.lt_succ_iff_lt_or_eq.mp h with h | h
      · rw [fin.frame y hy (Or.inl (by omega))]
        rcases inv.ids y hy h with h3 | h3
        · exact Or.inl h3
        · right; have := fin.count; omega
      · rcases fin.ids y hy h (by simp) with h3 | h3
        · left; omega
        · right; omega
    · intro y y2 hy hy2 h h2
      rcases Nat.lt_succ_iff_lt_or_eq.mp h with h | h <;>
        rcases Nat.lt_succ_iff_lt_or_eq.mp h2 with h2 | h2
      · rw [fin.frame y hy (Or.inl (by omega)), fin.frame y2 hy2 (Or.inl (by omega))]
        exact inv.same y y2 hy hy2 h h2
      · rw [fin.frame y hy (Or.inl (by omega))]
        constructor
        · intro e
          rcases inv.ids y hy h with h3 | h3 <;>
            rcases fin.ids y2 hy2 h2 (by simp) with h4 | h4 <;> omega
        · intro hf
          have := SameFan_src hv hy hf; omega
      · rw [fin.frame y2 hy2 (Or.inl (by omega))]
        constructor
        · intro e
          rcases inv.ids y2 hy2 h2 with h3 | h3 <;>
            rcases fin.ids y hy h (by simp) with h4 | h4 <;> omega
        · intro hf
          have := SameFan_src hv hy hf; omega
      · exact fin.same y y2 hy hy2 h h2 (by simp) (by simp)
    · intro w h1 h2
      by_cases hw : w < st.num_vertices
      · obtain ⟨y, hy, hs, hw2⟩ := inv.fresh_used w h1 hw
        refine ⟨y, hy, by omega, ?_⟩
        rw [fin.frame y hy (Or.inl (by omega))]; exact hw2
      · obtain ⟨y, hy, hs, _, hw2⟩ := fin.fresh_used w (by omega) h2
        exact ⟨y, hy, by omega, hw2⟩
    · intro v hvi
      rcases Nat.lt_succ_iff_lt_or_eq.mp hvi with h | h
      · obtain ⟨y, hy, hs, hw2⟩ := inv.first v h
        refine ⟨y, hy, hs, ?_⟩
        rw [fin.frame y hy (Or.inl (by omega))]; exact hw2
      · subst h
        obtain ⟨y, hy, hs, _, hw2⟩ := fin.first hg2
        exact ⟨y, hy, hs, hw2⟩
    · rw [extraVertices_succ, fin.count, inv.count]
      omega

/-! ## SplitVertices: the whole function -/

theorem splitLoop_spec {F : List Nat} {n num_V : Nat} {V2E E2E : List Int}
    (pick : List Int → Int) (hpick : ∀ l, l ≠ [] → pick l ∈ l)
    (hin : SplitInput F n num_V V2E E2E) (fuel : Nat) (hfuel : n < fuel) :
    ∀ i, i ≤ num_V → ∃ st,
      (List.range i).foldlM (splitVertex pick V2E E2E (buildVlinks num_V (n / 3) F) fuel)
        { out_F := F, num_vertices := num_V, insert_vertex_info := [] } = some st ∧
      SplitInv F n num_V E2E i st := by
  intro i
  induction i with
  | zero => intro _; exact ⟨_, rfl, SplitInv_init E2E hin.len⟩
  | succ i ih =>
    intro hi
    obtain ⟨st, hst, inv⟩ := ih (by omega)
    obtain ⟨st2, hst2, inv2⟩ := splitVertex_spec pick hpick hin fuel hfuel (by omega) inv
    refine ⟨st2, ?_, inv2⟩
    rw [List.range_succ, List.foldlM_append, hst]
    simp [hst2]

/-- `SplitVertices` returns, and its result satisfies the loop invariant at `num_V_`. -/
theorem SplitVertices_spec {P : Type} [Inhabited P] (m : Mesh P)
    (pick : List Int → Int) (hpick : ∀ l, l ≠ [] → pick l ∈ l)
    (hin : SplitInput m.out_F_ (m.num_F_ * 3) m.num_V_ m.V2E_ m.E2E_)
    (fuel : Nat) (hfuel : m.num_F_ * 3 < fuel) :
    ∃ m1, SplitVertices pick fuel m = some m1 ∧ m1.num_F_ = m.num_F_ ∧
      m1.V2E_ = m.V2E_ ∧ m1.E2E_ = m.E2E_ ∧ m1.out_V_.length = m1.num_V_ ∧
      ∃ info, SplitInv m.out_F_ (m.num_F_ * 3) m.num_V_ m.E2E_ m.num_V_
        { out_F := m1.out_F_, num_vertices := m1.num_V_, insert_vertex_info := info } := by
  obtain ⟨st, hst, inv⟩ := splitLoop_spec pick hpick hin fuel hfuel m.num_V_ (le_refl _)
  have e : m.num_F_ * 3 / 3 = m.num_F_ := by omega
  rw [e] at hst
  unfold SplitVertices
  simp only [hst]
  refine ⟨_, rfl, rfl, rfl, rfl, ?_, st.insert_vertex_info, inv⟩
  simp only
  have hfold : ∀ (l : List (Nat × Nat)) (V : List P),
      (l.foldl (fun V p => V.set p.1 (V.getD p.2 default)) V).length = V.length := by
    intro l
    induction l with
    | nil => intro V; rfl
    | cons a l ih => intro V; rw [List.foldl_cons, ih, List.length_set]
  rw [hfold]
  simp [conservativeResize]
  omega

/-! ## Manifoldness after the repair -/

theorem dst_eq_src_nxtN (F : List Nat) (d : Nat) : dst F d = src F (nxtN d) := by
  unfold dst src nxtN
  congr 1 <;> omega

theorem prevN_nxtN (d : Nat) : prevN (nxtN d) = d := by
  unfold prevN nxtN; omega

theorem nxtN_lt {n d : Nat} (h3 : 3 ∣ n) (hd : d < n) : nxtN d < n := by
  unfold nxtN; omega

theorem nextN_nxtN (E2E : List Int) (d : Nat) : nextN E2E (nxtN d) = e2eN E2E d := by
  unfold nextN; rw [prevN_nxtN]

/-- `ComputeHalfEdge` on a closed input without loop edges gives valid half-edge arrays. -/
theorem halfEdgeLoop_valid {F : List Nat} {num_V num_F : Nat}
    (h : ClosedInput F (num_F * 3) num_V) :
    ValidE2E F (num_F * 3) (halfEdgeLoop num_V num_F F).E2E where
  three := h.three
  opp := by
    intro d hd
    obtain ⟨e, he, hrev⟩ := h.reverse d hd
    have hE := (halfEdgeLoop_E2E num_V h.unique h.noloop).2
    exact ⟨e, he, hE d e hd he hrev, hE e d he hd (Reversed_symm hrev), hrev⟩

theorem halfEdgeLoop_SplitInput {F : List Nat} {num_V num_F : Nat}
    (h : ClosedInput F (num_F * 3) num_V) :
    SplitInput F (num_F * 3) num_V (halfEdgeLoop num_V num_F F).V2E
      (halfEdgeLoop num_V num_F F).E2E where
  valid := halfEdgeLoop_valid h
  len := h.len
  src_lt := h.src_lt
  v2e := by
    intro v hv
    obtain ⟨d, hd, hs⟩ := h.used v hv
    obtain ⟨d2, hd2, hs2, hget, _⟩ := halfEdgeLoop_V2E_used F num_V num_F v hv d hd hs
    exact ⟨d2, hd2, hget, hs2⟩

/-- After the main loop two corners carry the same vertex id exactly when they lie in the same
fan. -/
theorem SplitInv_same_iff {F : List Nat} {n num_V : Nat} {E2E : List Int} {st : SplitState}
    (hsrc : ∀ d, d < n → src F d < num_V) (inv : SplitInv F n num_V E2E num_V st)
    {d d2 : Nat} (hd : d < n) (hd2 : d2 < n) :
    src st.out_F d = src st.out_F d2 ↔ SameFan E2E d d2 :=
  inv.same d d2 hd hd2 (hsrc d hd) (hsrc d2 hd2)

/-- The face array written by `SplitVertices` is again a closed input without loop edges, and
the old `E2E` still pairs every directed edge with its reverse. -/
theorem SplitInv_closed {F : List Nat} {n num_V : Nat} {E2E : List Int} {st : SplitState}
    (h : ClosedInput F n num_V) (hv : ValidE2E F n E2E)
    (inv : SplitInv F n num_V E2E num_V st) :
    ClosedInput st.out_F n st.num_vertices ∧
      ∀ d, d < n → Reversed st.out_F d (e2eN E2E d) := by
  have hA := fun {d d2 : Nat} (hd : d < n) (hd2 : d2 < n) =>
    SplitInv_same_iff h.src_lt inv hd hd2
  have hnx := fun {d : Nat} (hd : d < n) => nxtN_lt h.three hd
  have hrev : ∀ d, d < n → Reversed st.out_F d (e2eN E2E d) := by
    intro d hd
    have he := (ValidE2E_e2eN hv hd).1
    constructor
    · rw [dst_eq_src_nxtN]
      apply (hA he (hnx hd)).mpr
      apply SameFan_symm hv (hnx hd)
      exact ⟨1, nextN_nxtN E2E d⟩
    · rw [dst_eq_src_nxtN]
      apply (hA (hnx he) hd).mpr
      refine ⟨1, ?_⟩
      show nextN E2E (nxtN (e2eN E2E d)) = d
      rw [nextN_nxtN, ValidE2E_e2eN_e2eN hv hd]
  refine ⟨⟨h.three, inv.len, ?_, ?_, ?_, ?_, ?_⟩, hrev⟩
  · intro d hd
    have hcount := inv.count
    rcases inv.ids d hd (h.src_lt d hd) with h1 | h1
    · have := h.src_lt d hd; omega
    · exact h1.2
  · intro v hvlt
    by_cases hvn : v < num_V
    · obtain ⟨d, hd, _, h2⟩ := inv.first v hvn
      exact ⟨d, hd, h2⟩
    · obtain ⟨d, hd, _, h2⟩ := inv.fresh_used v (by omega) hvlt
      exact ⟨d, hd, h2⟩
  · intro d1 hd1 d2 hd2 hs hdst
    rw [dst_eq_src_nxtN, dst_eq_src_nxtN] at hdst
    have f1 := (hA hd1 hd2).mp hs
    have f2 := (hA (hnx hd1) (hnx hd2)).mp hdst
    apply h.unique d1 hd1 d2 hd2
    · exact (SameFan_src hv hd1 f1).symm
    · rw [dst_eq_src_nxtN, dst_eq_src_nxtN]
      exact (SameFan_src hv (hnx hd1) f2).symm
  · intro d hd
    exact ⟨e2eN E2E d, (ValidE2E_e2eN hv hd).1, hrev d hd⟩
  · intro d hd hs
    rw [dst_eq_src_nxtN] at hs
    have f1 := (hA hd (hnx hd)).mp hs
    apply h.noloop d hd
    rw [dst_eq_src_nxtN]
    exact (SameFan_src hv hd f1).symm

theorem iterate_nextN_congr {F : List Nat} {n : Nat} {E2E E2 : List Int}
    (hv : ValidE2E F n E2E) (heq : ∀ d, d < n → e2eN E2 d = e2eN E2E d)
    {d : Nat} (hd : d < n) (k : Nat) : (nextN E2)^[k] d = (nextN E2E)^[k] d := by
  induction k with
  | zero => rfl
  | succ k ih =>
    rw [Function.iterate_succ_apply', Function.iterate_succ_apply', ih]
    unfold nextN
    exact heq _ (prevN_lt hv.three (iterate_nextN_lt hv hd k))

theorem SameFan_congr {F : List Nat} {n : Nat} {E2E E2 : List Int}
    (hv : ValidE2E F n E2E) (heq : ∀ d, d < n → e2eN E2 d = e2eN E2E d)
    {d : Nat} (hd : d < n) (x : Nat) : SameFan E2 d x ↔ SameFan E2E d x := by
  unfold SameFan
  constructor
  · rintro ⟨k, hk⟩; exact ⟨k, by rw [← iterate_nextN_congr hv heq hd k]; exact hk⟩
  · rintro ⟨k, hk⟩; exact ⟨k, by rw [iterate_nextN_congr hv heq hd k]; exact hk⟩

/-- If all corners of `v` lie in the fan of `d`, the counting loop started at `d` counts
exactly the corners of `v`. -/
theorem ringCount_eq_cornerCount {F : List Nat} {n : Nat} {E2E : List Int}
    (hv : ValidE2E F n E2E) {v d : Nat} (hd : d < n) (hs : src F d = v)
    (hall : ∀ x, x < n → src F x = v → SameFan E2E d x) (fuel : Nat) (hfuel : n ≤ fuel) :
    ringCount E2E fuel (d : Int) = some (cornerCount F n v) := by
  obtain ⟨fan, hcnt, hnd, hmem⟩ := ringCount_fan hv hd fuel hfuel
  rw [hcnt]
  congr 1
  unfold cornerCount
  apply List.Perm.length_eq
  rw [List.perm_ext_iff_of_nodup hnd (corners_nodup F n v)]
  intro x
  rw [hmem, mem_corners]
  constructor
  · intro hf; exact ⟨SameFan_lt hv hd hf, (SameFan_src hv hd hf).trans hs⟩
  · rintro ⟨hx, hsx⟩; exact hall x hx hsx

theorem pickHead_mem : ∀ l : List Int, l ≠ [] → pickHead l ∈ l := by
  intro l hl
  cases l with
  | nil => exact absurd rfl hl
  | cons a l => simp [pickHead]

/-- Everything the repair establishes: `SplitVertices` returns on the arrays built by
`ComputeHalfEdge`, its result is again a closed input, the rebuilt `E2E_` agrees with the old
one, and every vertex is manifold. -/
theorem repair_spec {P : Type} [Inhabited P] (m : Mesh P)
    (h : ClosedInput m.out_F_ (m.num_F_ * 3) m.num_V_)
    (pick : List Int → Int) (hpick : ∀ l, l ≠ [] → pick l ∈ l)
    (fuel : Nat) (hfuel : m.num_F_ * 3 < fuel) :
    ∃ m1, SplitVertices pick fuel (ComputeHalfEdge m) = some m1 ∧
      m1.num_F_ = m.num_F_ ∧ m1.out_V_.length = m1.num_V_ ∧
      (∃ info, SplitInv m.out_F_ (m.num_F_ * 3) m.num_V_ (ComputeHalfEdge m).E2E_ m.num_V_
        { out_F := m1.out_F_, num_vertices := m1.num_V_, insert_vertex_info := info }) ∧
      ClosedInput m1.out_F_ (m1.num_F_ * 3) m1.num_V_ ∧
      ValidE2E m1.out_F_ (m1.num_F_ * 3) (ComputeHalfEdge m1).E2E_ ∧
      ∀ v, v < m1.num_V_ → ∃ d, d < m1.num_F_ * 3 ∧
        (ComputeHalfEdge m1).V2E_[v]? = some (d : Int) ∧ src m1.out_F_ d = v ∧
        ∀ x, x < m1.num_F_ * 3 → src m1.out_F_ x = v → SameFan (ComputeHalfEdge m1).E2E_ d x := by
  have hin := halfEdgeLoop_SplitInput h
  have hv := hin.valid
  obtain ⟨m1, hrun, hF, _, hE, hVlen, info, inv⟩ :=
    SplitVertices_spec (ComputeHalfEdge m) pick hpick hin fuel hfuel
  have hF2 : m1.num_F_ = m.num_F_ := hF
  obtain ⟨hclosed, hrev⟩ := SplitInv_closed h hv inv
  simp only at hclosed hrev
  rw [← hF2] at hclosed
  have hv2 := halfEdgeLoop_valid hclosed
  have hE2 := (halfEdgeLoop_E2E m1.num_V_ hclosed.unique hclosed.noloop).2
  have heq : ∀ d, d < m.num_F_ * 3 →
      e2eN (halfEdgeLoop m1.num_V_ m1.num_F_ m1.out_F_).E2E d
        = e2eN (halfEdgeLoop m.num_V_ m.num_F_ m.out_F_).E2E d := by
    intro d hd
    apply e2eN_of_get
    exact hE2 d _ (by omega) (by rw [hF2]; exact (ValidE2E_e2eN hv hd).1) (hrev d hd)
  refine ⟨m1, hrun, hF2, hVlen, ⟨info, inv⟩, hclosed, hv2, ?_⟩
  intro v hvlt
  obtain ⟨d0, hd0, hs0⟩ := hclosed.used v hvlt
  obtain ⟨d, hd, hs, hget, _⟩ :=
    halfEdgeLoop_V2E_used m1.out_F_ m1.num_V_ m1.num_F_ v hvlt d0 hd0 hs0
  refine ⟨d, hd, hget, hs, ?_⟩
  intro x hx hsx
  rw [hF2] at hd hx
  show SameFan (halfEdgeLoop m1.num_V_ m1.num_F_ m1.out_F_).E2E d x
  rw [SameFan_congr hv heq hd x]
  exact (SplitInv_same_iff h.src_lt inv hd hx).mp (hs.trans hsx.symm)

/-! ## C2: manifoldness after repair -/

/-- C2 (amended): for every closed edge-manifold input without loop edges (every directed edge
unique with its reverse present and joining two distinct vertices, every vertex id below
`num_V_` used by some face), `ComputeHalfEdge; SplitVertices; ComputeHalfEdge` returns, and for
every vertex `v` below the new vertex count the `next_out` cycle started at `V2E[v]` visits
exactly as many directed edges as there are corners `(f, k)` with `out_F_(f, k) = v`. -/
theorem repair_manifold {P : Type} [Inhabited P] (m : Mesh P)
    (h : ClosedInput m.out_F_ (m.num_F_ * 3) m.num_V_)
    (pick : List Int → Int) (hpick : ∀ l, l ≠ [] → pick l ∈ l)
    (fuel : Nat) (hfuel : m.num_F_ * 3 < fuel) :
    ∃ m2, repair pick fuel (ComputeHalfEdge m) = some m2 ∧
      ∀ v, v < m2.num_V_ → ∃ deid, m2.V2E_[v]? = some deid ∧
        ringCount m2.E2E_ fuel deid = some (cornerCount m2.out_F_ (m2.num_F_ * 3) v) := by
  obtain ⟨m1, hrun, hF, _, _, hclosed, hv2, hman⟩ := repair_spec m h pick hpick fuel hfuel
  refine ⟨ComputeHalfEdge m1, by simp [repair, hrun], ?_⟩
  intro v hvlt
  obtain ⟨d, hd, hget, hs, hall⟩ := hman v hvlt
  refine ⟨(d : Int), hget, ?_⟩
  exact ringCount_eq_cornerCount hv2 hd hs hall fuel (by
    show m1.num_F_ * 3 ≤ fuel
    rw [hF]; omega)

/-- The amended C2 statement applied to the bowtie: two tetrahedra sharing one vertex. -/
theorem repair_manifold_witness :
    ClosedInput bowtie.out_F_ (bowtie.num_F_ * 3) bowtie.num_V_ ∧
    (∀ l, l ≠ [] → pickHead l ∈ l) ∧ bowtie.num_F_ * 3 < 25 ∧
    ∃ m2, repair pickHead 25 (ComputeHalfEdge bowtie) = some m2 ∧
      ∀ v, v < m2.num_V_ → ∃ deid, m2.V2E_[v]? = some deid ∧
        ringCount m2.E2E_ 25 deid = some (cornerCount m2.out_F_ (m2.num_F_ * 3) v) :=
  ⟨⟨by decide, by decide, by decide, by decide, by decide, by decide, by decide⟩,
    pickHead_mem, by decide,
    repair_manifold bowtie
      ⟨by decide, by decide, by decide, by decide, by decide, by decide, by decide⟩
      pickHead pickHead_mem 25 (by decide)⟩

/-! ### The loop edge of the face `(0, 0, 1)` traps the ring loop -/

theorem loopFace_E2E : (ComputeHalfEdge loopFace).E2E_ = [-1, 2, 1] := by decide

theorem loopFace_V2E : (ComputeHalfEdge loopFace).V2E_ = [1, 2] := by decide

theorem loopFace_stuck {σ : Type} (body : σ → Int → σ) :
    ∀ fuel s, ringFold [-1, 2, 1] 1 body fuel 2 s = none := by
  intro fuel
  induction fuel with
  | zero => intro s; rfl
  | succ fuel ih =>
    intro s
    have h : next_out [-1, 2, 1] 2 = some 2 := by decide
    simp only [ringFold, h]
    rw [if_pos (by decide)]
    exact ih _

theorem loopFace_ringCount (fuel : Nat) : ringCount [-1, 2, 1] fuel 1 = none := by
  unfold ringCount
  cases fuel with
  | zero => rfl
  | succ fuel =>
    have h1 : next_out [-1, 2, 1] 1 = some (-1) := by decide
    simp only [ringFold, h1]
    rw [if_pos (by decide)]
    cases fuel with
    | zero => rfl
    | succ fuel =>
      have h2 : next_out [-1, 2, 1] (-1) = some 2 := by decide
      simp only [ringFold, h2]
      rw [if_pos (by decide)]
      exact loopFace_stuck _ _ _

theorem loopFace_SplitVertices (pick : List Int → Int) (fuel : Nat) :
    SplitVertices pick fuel (ComputeHalfEdge loopFace) = none := by
  unfold SplitVertices
  have hV : (ComputeHalfEdge loopFace).num_V_ = 2 := rfl
  have h0 : ∀ vl st, splitVertex pick (ComputeHalfEdge loopFace).V2E_
      (ComputeHalfEdge loopFace).E2E_ vl fuel st 0 = none := by
    intro vl st
    unfold splitVertex
    rw [loopFace_V2E, loopFace_E2E]
    simp [loopFace_ringCount]
  rw [hV]
  simp only [List.range_succ, List.range_zero, List.nil_append, List.cons_append,
    List.foldlM_cons, h0]
  rfl

/-- C2 as stated fails on the face `(0, 0, 1)`: every directed edge is unique with its reverse
present and every vertex id below `num_V_ = 2` is used, but the counting loop of
`SplitVertices` for vertex `0` walks `1, -1, 2, 2, 2, ...` and never comes back to its start,
so the sequence produces no mesh whatever the step budget. -/
theorem repair_loopFace_no_result :
    loopFace.out_F_.length = loopFace.num_F_ * 3 ∧
    (∀ d, d < loopFace.num_F_ * 3 → src loopFace.out_F_ d < loopFace.num_V_) ∧
    (∀ v, v < loopFace.num_V_ → ∃ d, d < loopFace.num_F_ * 3 ∧ src loopFace.out_F_ d = v) ∧
    EdgesUnique loopFace.out_F_ (loopFace.num_F_ * 3) ∧
    ReversePresent loopFace.out_F_ (loopFace.num_F_ * 3) ∧
    ∀ (pick : List Int → Int) (fuel : Nat),
      repair pick fuel (ComputeHalfEdge loopFace) = none := by
  refine ⟨by decide, by decide, by decide, by decide, by decide, ?_⟩
  intro pick fuel
  simp [repair, loopFace_SplitVertices]

/-! ## C3: vertex-split idempotence -/

theorem foldlM_fixed {α σ : Type} (f : σ → α → Option σ) (s : σ) :
    ∀ l : List α, (∀ a ∈ l, f s a = some s) → l.foldlM f s = some s := by
  intro l
  induction l with
  | nil => intro _; rfl
  | cons a l ih =>
    intro h
    rw [List.foldlM_cons, h a (by simp)]
    exact ih (fun b hb => h b (by simp [hb]))

/-- On a mesh all of whose vertices are manifold `SplitVertices` changes nothing. -/
theorem SplitVertices_manifold {P : Type} [Inhabited P] (m : Mesh P)
    (pick : List Int → Int)
    (hin : SplitInput m.out_F_ (m.num_F_ * 3) m.num_V_ m.V2E_ m.E2E_)
    (hman : ∀ v, v < m.num_V_ → ∃ d, d < m.num_F_ * 3 ∧ m.V2E_[v]? = some (d : Int) ∧
      src m.out_F_ d = v ∧
      ∀ x, x < m.num_F_ * 3 → src m.out_F_ x = v → SameFan m.E2E_ d x)
    (hV : m.out_V_.length = m.num_V_) (fuel : Nat) (hfuel : m.num_F_ * 3 < fuel) :
    SplitVertices pick fuel m = some m := by
  unfold SplitVertices
  have hloop : (List.range m.num_V_).foldlM
      (splitVertex pick m.V2E_ m.E2E_ (buildVlinks m.num_V_ m.num_F_ m.out_F_) fuel)
      { out_F := m.out_F_, num_vertices := m.num_V_, insert_vertex_info := [] }
      = some { out_F := m.out_F_, num_vertices := m.num_V_, insert_vertex_info := [] } := by
    apply foldlM_fixed
    intro v hv
    rw [List.mem_range] at hv
    obtain ⟨d, hd, hget, hs, hall⟩ := hman v hv
    have hlinks : (buildVlinks m.num_V_ m.num_F_ m.out_F_).getD v []
        = (corners m.out_F_ (m.num_F_ * 3) v).map (fun (x : Nat) => (x : Int)) := by
      rw [buildVlinks_eq_after]
      exact (vlinksAfter_spec m.num_V_ m.out_F_ (m.num_F_ * 3) hin.src_lt).2 v hv
    unfold splitVertex
    simp only [hget, ringCount_eq_cornerCount hin.valid hd hs hall fuel (le_of_lt hfuel),
      hlinks, List.length_map]
    simp [cornerCount]
  simp only [hloop, List.foldl_nil]
  have hres : conservativeResize m.out_V_ m.num_V_ = m.out_V_ := by
    simp [conservativeResize, hV]
  rw [hres]

/-- C3 (amended): for every closed edge-manifold input without loop edges, the repair step
(`SplitVertices` followed by `ComputeHalfEdge`, on half-edge arrays built by
`ComputeHalfEdge`) returns, and applying it a second time to its result returns the same mesh:
`num_V_`, `out_V_` and `out_F_` are unchanged. -/
theorem repair_idempotent {P : Type} [Inhabited P] (m : Mesh P)
    (h : ClosedInput m.out_F_ (m.num_F_ * 3) m.num_V_)
    (pick pick2 : List Int → Int) (hpick : ∀ l, l ≠ [] → pick l ∈ l)
    (fuel : Nat) (hfuel : m.num_F_ * 3 < fuel) :
    ∃ m2, repair pick fuel (ComputeHalfEdge m) = some m2 ∧
      ∃ m4, repair pick2 fuel m2 = some m4 ∧
        m4.num_V_ = m2.num_V_ ∧ m4.out_V_ = m2.out_V_ ∧ m4.out_F_ = m2.out_F_ := by
  obtain ⟨m1, hrun, hF, hVlen, _, hclosed, hv2, hman⟩ := repair_spec m h pick hpick fuel hfuel
  refine ⟨ComputeHalfEdge m1, by simp [repair, hrun], ?_⟩
  have hin2 : SplitInput (ComputeHalfEdge m1).out_F_ ((ComputeHalfEdge m1).num_F_ * 3)
      (ComputeHalfEdge m1).num_V_ (ComputeHalfEdge m1).V2E_ (ComputeHalfEdge m1).E2E_ :=
    { valid := hv2
      len := hclosed.len
      src_lt := hclosed.src_lt
      v2e := fun v hv => by
        obtain ⟨d, hd, hget, hs, _⟩ := hman v hv
        exact ⟨d, hd, hget, hs⟩ }
  have hnoop := SplitVertices_manifold (ComputeHalfEdge m1) pick2 hin2 hman hVlen fuel (by
    show m1.num_F_ * 3 < fuel
    rw [hF]; exact hfuel)
  refine ⟨ComputeHalfEdge (ComputeHalfEdge m1), by simp [repair, hnoop], rfl, rfl, rfl⟩

/-- The amended C3 statement applied to the bowtie. -/
theorem repair_idempotent_witness :
    ClosedInput bowtie.out_F_ (bowtie.num_F_ * 3) bowtie.num_V_ ∧
    (∀ l, l ≠ [] → pickHead l ∈ l) ∧ bowtie.num_F_ * 3 < 25 ∧
    ∃ m2, repair pickHead 25 (ComputeHalfEdge bowtie) = some m2 ∧
      ∃ m4, repair pickHead 25 m2 = some m4 ∧
        m4.num_V_ = m2.num_V_ ∧ m4.out_V_ = m2.out_V_ ∧ m4.out_F_ = m2.out_F_ :=
  ⟨⟨by decide, by decide, by decide, by decide, by decide, by decide, by decide⟩,
    pickHead_mem, by decide,
    repair_idempotent bowtie
      ⟨by decide, by decide, by decide, by decide, by decide, by decide, by decide⟩
      pickHead pickHead pickHead_mem 25 (by decide)⟩

theorem loopFace2_stuck {σ : Type} (body : σ → Int → σ) :
    ∀ fuel s, ringFold [1, 0, -1] 2 body fuel 0 s = none ∧
      ringFold [1, 0, -1] 2 body fuel (-1) s = none := by
  intro fuel
  induction fuel with
  | zero => intro s; exact ⟨rfl, rfl⟩
  | succ fuel ih =>
    intro s
    have h0 : next_out [1, 0, -1] 0 = some (-1) := by decide
    have h1 : next_out [1, 0, -1] (-1) = some 0 := by decide
    constructor
    · simp only [ringFold, h0]
      rw [if_pos (by decide)]
      exact (ih _).2
    · simp only [ringFold, h1]
      rw [if_pos (by decide)]
      exact (ih _).1

theorem loopFace2_ringCount (fuel : Nat) : ringCount [1, 0, -1] fuel 2 = none := by
  unfold ringCount
  cases fuel with
  | zero => rfl
  | succ fuel =>
    have h1 : next_out [1, 0, -1] 2 = some 0 := by decide
    simp only [ringFold, h1]
    rw [if_pos (by decide)]
    exact (loopFace2_stuck _ _ _).1

/-- C3 as stated fails on the face `(0, 1, 0)`: every directed edge is unique with its reverse
present and every vertex id is used, but the first application of the repair step never
returns (the counting loop for vertex `0` walks `2, 0, -1, 0, -1, ...`), so there is no result
to which the step could be applied a second time. -/
theorem repair_loopFace2_no_result :
    loopFace2.out_F_.length = loopFace2.num_F_ * 3 ∧
    (∀ d, d < loopFace2.num_F_ * 3 → src loopFace2.out_F_ d < loopFace2.num_V_) ∧
    (∀ v, v < loopFace2.num_V_ → ∃ d, d < loopFace2.num_F_ * 3 ∧ src loopFace2.out_F_ d = v) ∧
    EdgesUnique loopFace2.out_F_ (loopFace2.num_F_ * 3) ∧
    ReversePresent loopFace2.out_F_ (loopFace2.num_F_ * 3) ∧
    ∀ (pick : List Int → Int) (fuel : Nat),
      repair pick fuel (ComputeHalfEdge loopFace2) = none := by
  refine ⟨by decide, by decide, by decide, by decide, by decide, ?_⟩
  intro pick fuel
  have hE : (ComputeHalfEdge loopFace2).E2E_ = [1, 0, -1] := by decide
  have hV2 : (ComputeHalfEdge loopFace2).V2E_ = [2, 1] := by decide
  have hV : (ComputeHalfEdge loopFace2).num_V_ = 2 := rfl
  have h0 : ∀ vl st, splitVertex pick (ComputeHalfEdge loopFace2).V2E_
      (ComputeHalfEdge loopFace2).E2E_ vl fuel st 0 = none := by
    intro vl st
    unfold splitVertex
    rw [hV2, hE]
    simp [loopFace2_ringCount]
  unfold repair SplitVertices
  rw [hV]
  simp only [List.range_succ, List.range_zero, List.nil_append, List.cons_append,
    List.foldlM_cons, h0]
  rfl

/-! ## C4: the vertex count after splitting -/

theorem extraVertices_single (F : List Nat) (n : Nat) (E2E : List Int) (num_V v0 : Nat)
    (h2 : numCycles F n E2E v0 = 2)
    (h1 : ∀ v, v < num_V → v ≠ v0 → numCycles F n E2E v = 1) :
    ∀ i, i ≤ num_V → extraVertices F n E2E i = if v0 < i then 1 else 0 := by
  intro i
  induction i with
  | zero => intro _; simp [extraVertices]
  | succ i ih =>
    intro hi
    rw [extraVertices_succ, ih (by omega)]
    by_cases hv : i = v0
    · subst hv; simp [h2]
    · rw [h1 i (by omega) hv]
      have : (v0 < i + 1) ↔ (v0 < i) := by omega
      simp [this]

/-- C4 (amended): for every closed edge-manifold input without loop edges, `SplitVertices`
(run on the arrays built by `ComputeHalfEdge`) returns and increases `num_V_` by exactly the
sum over the vertices `v` of the number of distinct `next_out` cycles among the corners of `v`
minus one; for each `v` exactly one of those cycles keeps the id `v`; every corner whose id
changed carries a fresh id, and two corners carry the same id exactly when they lie in the same
cycle; in particular, when exactly one vertex has two cycles and all others one, `num_V_`
increases by exactly one. -/
theorem SplitVertices_count {P : Type} [Inhabited P] (m : Mesh P)
    (h : ClosedInput m.out_F_ (m.num_F_ * 3) m.num_V_)
    (pick : List Int → Int) (hpick : ∀ l, l ≠ [] → pick l ∈ l)
    (fuel : Nat) (hfuel : m.num_F_ * 3 < fuel) :
    ∃ m1, SplitVertices pick fuel (ComputeHalfEdge m) = some m1 ∧
      m1.num_V_ = m.num_V_ +
        extraVertices m.out_F_ (m.num_F_ * 3) (ComputeHalfEdge m).E2E_ m.num_V_ ∧
      (∀ v, v < m.num_V_ → ∃ d, d < m.num_F_ * 3 ∧ src m.out_F_ d = v ∧ src m1.out_F_ d = v ∧
        ∀ x, x < m.num_F_ * 3 → src m.out_F_ x = v →
          (src m1.out_F_ x = v ↔ SameFan (ComputeHalfEdge m).E2E_ d x)) ∧
      (∀ x, x < m.num_F_ * 3 → src m1.out_F_ x ≠ src m.out_F_ x →
        m.num_V_ ≤ src m1.out_F_ x ∧ src m1.out_F_ x < m1.num_V_) ∧
      (∀ x y, x < m.num_F_ * 3 → y < m.num_F_ * 3 →
        (src m1.out_F_ x = src m1.out_F_ y ↔ SameFan (ComputeHalfEdge m).E2E_ x y)) ∧
      ((∃ v0, v0 < m.num_V_ ∧
          numCycles m.out_F_ (m.num_F_ * 3) (ComputeHalfEdge m).E2E_ v0 = 2 ∧
          ∀ v, v < m.num_V_ → v ≠ v0 →
            numCycles m.out_F_ (m.num_F_ * 3) (ComputeHalfEdge m).E2E_ v = 1) →
        m1.num_V_ = m.num_V_ + 1) := by
  obtain ⟨m1, hrun, _, _, ⟨info, inv⟩, _, _, _⟩ := repair_spec m h pick hpick fuel hfuel
  have hsame := fun {x y : Nat} (hx : x < m.num_F_ * 3) (hy : y < m.num_F_ * 3) =>
    SplitInv_same_iff h.src_lt inv hx hy
  have hcount := inv.count
  simp only at hsame hcount
  refine ⟨m1, hrun, hcount, ?_, ?_, ?_, ?_⟩
  · intro v hv
    obtain ⟨d, hd, hs, hs1⟩ := inv.first v hv
    refine ⟨d, hd, hs, hs1, ?_⟩
    intro x hx _
    rw [← hsame hd hx]
    simp only at hs1
    rw [hs1]
    exact eq_comm
  · intro x hx hne
    rcases inv.ids x hx (h.src_lt x hx) with h1 | h1
    · exact absurd h1 hne
    · exact h1
  · intro x y hx hy
    exact hsame hx hy
  · rintro ⟨v0, hv0, h2, h1⟩
    rw [hcount, extraVertices_single _ _ _ m.num_V_ v0 h2 h1 m.num_V_ (le_refl _), if_pos hv0]

/-- The amended C4 statement applied to the bowtie. -/
theorem SplitVertices_count_witness :
    ClosedInput bowtie.out_F_ (bowtie.num_F_ * 3) bowtie.num_V_ ∧
    (∀ l, l ≠ [] → pickHead l ∈ l) ∧ bowtie.num_F_ * 3 < 25 ∧
    ∃ m1, SplitVertices pickHead 25 (ComputeHalfEdge bowtie) = some m1 ∧
      m1.num_V_ = bowtie.num_V_ +
        extraVertices bowtie.out_F_ (bowtie.num_F_ * 3) (ComputeHalfEdge bowtie).E2E_
          bowtie.num_V_ ∧
      (∀ v, v < bowtie.num_V_ → ∃ d, d < bowtie.num_F_ * 3 ∧ src bowtie.out_F_ d = v ∧
        src m1.out_F_ d = v ∧
        ∀ x, x < bowtie.num_F_ * 3 → src bowtie.out_F_ x = v →
          (src m1.out_F_ x = v ↔ SameFan (ComputeHalfEdge bowtie).E2E_ d x)) ∧
      (∀ x, x < bowtie.num_F_ * 3 → src m1.out_F_ x ≠ src bowtie.out_F_ x →
        bowtie.num_V_ ≤ src m1.out_F_ x ∧ src m1.out_F_ x < m1.num_V_) ∧
      (∀ x y, x < bowtie.num_F_ * 3 → y < bowtie.num_F_ * 3 →
        (src m1.out_F_ x = src m1.out_F_ y ↔ SameFan (ComputeHalfEdge bowtie).E2E_ x y)) ∧
      ((∃ v0, v0 < bowtie.num_V_ ∧
          numCycles bowtie.out_F_ (bowtie.num_F_ * 3) (ComputeHalfEdge bowtie).E2E_ v0 = 2 ∧
          ∀ v, v < bowtie.num_V_ → v ≠ v0 →
            numCycles bowtie.out_F_ (bowtie.num_F_ * 3) (ComputeHalfEdge bowtie).E2E_ v = 1) →
        m1.num_V_ = bowtie.num_V_ + 1) :=
  ⟨⟨by decide, by decide, by decide, by decide, by decide, by decide, by decide⟩,
    pickHead_mem, by decide,
    SplitVertices_count bowtie
      ⟨by decide, by decide, by decide, by decide, by decide, by decide, by decide⟩
      pickHead pickHead_mem 25 (by decide)⟩

theorem loopFace3_stuck {σ : Type} (body : σ → Int → σ) :
    ∀ fuel s, ringFold [2, -1, 0] 2 body fuel (-1) s = none := by
  intro fuel
  induction fuel with
  | zero => intro s; rfl
  | succ fuel ih =>
    intro s
    have h1 : next_out [2, -1, 0] (-1) = some (-1) := by decide
    simp only [ringFold, h1]
    rw [if_pos (by decide)]
    exact ih _

theorem loopFace3_ringCount (fuel : Nat) : ringCount [2, -1, 0] fuel 2 = none := by
  unfold ringCount
  cases fuel with
  | zero => rfl
  | succ fuel =>
    have h1 : next_out [2, -1, 0] 2 = some (-1) := by decide
    simp only [ringFold, h1]
    rw [if_pos (by decide)]
    exact loopFace3_stuck _ _ _

/-- C4 as stated fails on the face `(1, 0, 0)`: every directed edge is unique with its reverse
present and every vertex id is used, but `SplitVertices` never returns (the counting loop for
vertex `0` walks `2, -1, -1, ...`), so `num_V_` is not increased by the stated amount, namely
zero: it is never written at all. -/
theorem SplitVertices_loopFace3_no_result :
    loopFace3.out_F_.length = loopFace3.num_F_ * 3 ∧
    (∀ d, d < loopFace3.num_F_ * 3 → src loopFace3.out_F_ d < loopFace3.num_V_) ∧
    (∀ v, v < loopFace3.num_V_ → ∃ d, d < loopFace3.num_F_ * 3 ∧ src loopFace3.out_F_ d = v) ∧
    EdgesUnique loopFace3.out_F_ (loopFace3.num_F_ * 3) ∧
    ReversePresent loopFace3.out_F_ (loopFace3.num_F_ * 3) ∧
    ∀ (pick : List Int → Int) (fuel : Nat),
      SplitVertices pick fuel (ComputeHalfEdge loopFace3) = none := by
  refine ⟨by decide, by decide, by decide, by decide, by decide, ?_⟩
  intro pick fuel
  have hE : (ComputeHalfEdge loopFace3).E2E_ = [2, -1, 0] := by decide
  have hV2 : (ComputeHalfEdge loopFace3).V2E_ = [2, 0] := by decide
  have hV : (ComputeHalfEdge loopFace3).num_V_ = 2 := rfl
  have h0 : ∀ vl st, splitVertex pick (ComputeHalfEdge loopFace3).V2E_
      (ComputeHalfEdge loopFace3).E2E_ vl fuel st 0 = none := by
    intro vl st
    unfold splitVertex
    rw [hV2, hE]
    simp [loopFace3_ringCount]
  unfold SplitVertices
  rw [hV]
  simp only [List.range_succ, List.range_zero, List.nil_append, List.cons_append,
    List.foldlM_cons, h0]
  rfl

/-! ## ComputeIndependentSet: the conflict test -/

theorem dstI_natCast {F : List Nat} {n : Nat} (h3 : 3 ∣ n) (hlen : F.length = n) {d : Nat}
    (hd : d < n) : dstI F (d : Int) = some (dst F d) := by
  have hlt : nxtN d < F.length := by rw [hlen]; exact nxtN_lt h3 hd
  simp only [dstI, Int.toNat_ofNat, Int.natCast_nonneg, if_true]
  rw [dst_eq_src_nxtN, src_eq_getD, List.getD_eq_getElem?_getD, List.getElem?_eq_getElem hlt]
  rfl

theorem colorOf_get {cols : List Int} {v : Nat} (hv : v < cols.length) :
    cols[v]? = some (colorOf cols v) := by
  simp [colorOf, List.getD_eq_getElem?_getD, List.getElem?_eq_getElem hv]

theorem dst_lt {F : List Nat} {n num_V : Nat} (h3 : 3 ∣ n)
    (hsrc : ∀ d, d < n → src F d < num_V) {d : Nat} (hd : d < n) : dst F d < num_V := by
  rw [dst_eq_src_nxtN]; exact hsrc _ (nxtN_lt h3 hd)

/-- The conflict test returns, and reports a conflict exactly when a directed edge of the fan
ends in a vertex of colour `g`. -/
theorem conflictLoop_orbit {F : List Nat} {n num_V : Nat} {E2E : List Int}
    (hv : ValidE2E F n E2E) (hlen : F.length = n) (hsrc : ∀ d, d < n → src F d < num_V)
    (cols : List Int) (hcols : cols.length = num_V) (g : Nat) {d0 : Nat} (hd : d0 < n) :
    ∀ j k, 0 < j → k + j = Function.minimalPeriod (nextN E2E) d0 → ∀ fuel, j ≤ fuel →
      ∃ b, conflictLoop F E2E cols g (d0 : Int) fuel (((nextN E2E)^[k] d0 : Nat) : Int) = some b ∧
        (b = true ↔ ∃ i, k ≤ i ∧ i < k + j ∧
          colorOf cols (dst F ((nextN E2E)^[i] d0)) = (g : Int)) := by
  intro j
  induction j with
  | zero => intro k hj; omega
  | succ j ih =>
    intro k _ hk fuel hfuel
    obtain ⟨fuel, rfl⟩ : ∃ f, fuel = f + 1 := ⟨fuel - 1, by omega⟩
    have hlt := iterate_nextN_lt hv hd k
    have hnext := next_out_natCast hv hlt
    rw [← Function.iterate_succ_apply' (nextN E2E) k d0] at hnext
    have hdst := dstI_natCast hv.three hlen hlt
    have hcol : cols[dst F ((nextN E2E)^[k] d0)]?
        = some (colorOf cols (dst F ((nextN E2E)^[k] d0))) :=
      colorOf_get (by rw [hcols]; exact dst_lt hv.three hsrc hlt)
    simp only [conflictLoop, hdst, hcol, hnext]
    by_cases hc : colorOf cols (dst F ((nextN E2E)^[k] d0)) = (g : Int)
    · rw [if_pos hc]
      exact ⟨true, rfl, by simp only [true_iff]; exact ⟨k, le_refl _, by omega, hc⟩⟩
    · rw [if_neg hc]
      by_cases hj0 : j = 0
      · subst hj0
        have hper : (nextN E2E)^[k + 1] d0 = d0 := by
          rw [hk]; exact iterate_period E2E d0
        rw [hper]
        simp only [ne_eq, not_true_eq_false, if_false]
        refine ⟨false, rfl, ?_⟩
        simp only [Bool.false_eq_true, false_iff, not_exists, not_and]
        intro i h1 h2
        have : i = k := by omega
        subst this; exact hc
      · have hne : (nextN E2E)^[k + 1] d0 ≠ d0 :=
          iterate_ne_of_lt_period (by omega) (by omega)
        have hne2 : (d0 : Int) ≠ (((nextN E2E)^[k + 1] d0 : Nat) : Int) := by
          intro h; exact hne (by exact_mod_cast h.symm)
        rw [if_pos hne2]
        obtain ⟨b, hb, hiff⟩ := ih (k + 1) (by omega) (by omega) fuel (by omega)
        refine ⟨b, hb, ?_⟩
        rw [hiff]
        constructor
        · rintro ⟨i, h1, h2, h3⟩; exact ⟨i, by omega, by omega, h3⟩
        · rintro ⟨i, h1, h2, h3⟩
          have hik : i ≠ k := by rintro rfl; exact hc h3
          exact ⟨i, by omega, by omega, h3⟩

/-- The conflict test started at `d0`, in terms of the fan of `d0`. -/
theorem conflictLoop_spec {F : List Nat} {n num_V : Nat} {E2E : List Int}
    (hv : ValidE2E F n E2E) (hlen : F.length = n) (hsrc : ∀ d, d < n → src F d < num_V)
    (cols : List Int) (hcols : cols.length = num_V) (g : Nat) {d0 : Nat} (hd : d0 < n)
    (fuel : Nat) (hfuel : n ≤ fuel) :
    ∃ b, conflictLoop F E2E cols g (d0 : Int) fuel (d0 : Int) = some b ∧
      (b = true ↔ ∃ x, SameFan E2E d0 x ∧ colorOf cols (dst F x) = (g : Int)) := by
  obtain ⟨b, hb, hiff⟩ := conflictLoop_orbit hv hlen hsrc cols hcols g hd
    (Function.minimalPeriod (nextN E2E) d0) 0 (period_pos hv hd) (by omega) fuel
    (le_trans (period_le hv hd) hfuel)
  refine ⟨b, hb, ?_⟩
  rw [hiff]
  constructor
  · rintro ⟨i, _, _, h3⟩; exact ⟨_, ⟨i, rfl⟩, h3⟩
  · rintro ⟨x, hx, h3⟩
    obtain ⟨i, hi, rfl⟩ := (SameFan_iff_lt_period hv hd).mp hx
    exact ⟨i, by omega, by omega, h3⟩

/-! ## ComputeIndependentSet: one vertex, one round, all rounds -/

theorem colorOf_set (cols : List Int) (i v : Nat) (c : Int) (hi : i < cols.length) :
    colorOf (cols.set i c) v = if v = i then c else colorOf cols v := by
  unfold colorOf
  simp only [List.getD_eq_getElem?_getD, List.getElem?_set]
  by_cases h : i = v
  · subst h; simp [hi]
  · have h2 : ¬ v = i := fun e => h e.symm
    simp [h, h2]

theorem colorOf_of_ge (cols : List Int) (v : Nat) (hv : cols.length ≤ v) :
    colorOf cols v = -1 := by
  simp [colorOf, List.getD_eq_getElem?_getD, List.getElem?_eq_none hv]

theorem marked_set (c : Int) (hc : c ≠ -1) :
    ∀ (cols : List Int) (i : Nat), i < cols.length → colorOf cols i = -1 →
      ((cols.set i c).filter (fun x => x ≠ -1)).length
        = (cols.filter (fun x => x ≠ -1)).length + 1 := by
  intro cols
  induction cols with
  | nil => intro i hi; simp at hi
  | cons a l ih =>
    intro i hi h1
    cases i with
    | zero =>
      have ha : a = -1 := by simpa [colorOf] using h1
      subst ha
      simp [List.filter_cons, hc]
    | succ i =>
      have h2 : colorOf l i = -1 := by simpa [colorOf] using h1
      have := ih i (by simpa using hi) h2
      by_cases ha : a = -1
      · simp [List.filter_cons, ha] at this ⊢; omega
      · simp [List.filter_cons, ha] at this ⊢; omega

theorem exists_uncolored (cols : List Int)
    (h : (cols.filter (fun x => x ≠ -1)).length < cols.length) :
    ∃ v, v < cols.length ∧ colorOf cols v = -1 := by
  by_contra hc
  have hall : ∀ a ∈ cols, (fun x => decide (x ≠ -1)) a = true := by
    intro a ha
    obtain ⟨v, hv, rfl⟩ := List.getElem_of_mem ha
    have : colorOf cols v ≠ -1 := fun e => hc ⟨v, hv, e⟩
    have e : colorOf cols v = cols[v] := by
      simp [colorOf, List.getD_eq_getElem?_getD, List.getElem?_eq_getElem hv]
    rw [e] at this
    simpa using this
  have := List.filter_length_eq_length.mpr hall
  omega

theorem all_colored (cols : List Int)
    (h : cols.length ≤ (cols.filter (fun x => x ≠ -1)).length) :
    ∀ v, v < cols.length → colorOf cols v ≠ -1 := by
  intro v hv
  have hle : (cols.filter (fun x => x ≠ -1)).length ≤ cols.length := List.length_filter_le _ _
  have hall := List.filter_length_eq_length.mp (le_antisymm hle h)
  have e : colorOf cols v = cols[v] := by
    simp [colorOf, List.getD_eq_getElem?_getD, List.getElem?_eq_getElem hv]
  rw [e]
  simpa using hall cols[v] (List.getElem_mem hv)

/-- The rotation started at `V2E[v]` reaches every corner of `v`. -/
theorem ManifoldMesh_ring {F : List Nat} {n num_V : Nat} {V2E E2E : List Int}
    (hm : ManifoldMesh F n num_V V2E E2E) {v : Nat} (hv : v < num_V) :
    ∃ d, d < n ∧ V2E[v]? = some (d : Int) ∧ src F d = v ∧
      ∀ x, x < n → src F x = v → SameFan E2E d x := by
  obtain ⟨d, hd, hget, hs, hall⟩ := hm.ring v hv
  refine ⟨d, hd, hget, hs, fun x hx hsx => ?_⟩
  obtain ⟨k, _, hk⟩ := hall x hx hsx
  exact ⟨k, hk⟩

/-- The body of the `for` loop keeps the round invariant. -/
theorem colorVertex_spec {F : List Nat} {n num_V : Nat} {V2E E2E : List Int}
    (hm : ManifoldMesh F n num_V V2E E2E) (random_shuffle : List Nat → List Nat)
    (hsh : ∀ l, (random_shuffle l).Perm l) (fuel : Nat) (hfuel : n ≤ fuel)
    {g marked0 i : Nat} {cols0 : List Int} (h0 : ∀ v, colorOf cols0 v ≠ (g : Int))
    (hi : i < num_V) {s : ColorState} (inv : RoundInv F n num_V g cols0 marked0 i s) :
    ∃ s2, colorVertex random_shuffle F V2E E2E fuel s i = some s2 ∧
      RoundInv F n num_V g cols0 marked0 (i + 1) s2 := by
  have hv := hm.valid
  have hlen := inv.inv.len
  have hil : i < s.vertex_colors.length := by rw [hlen]; exact hi
  unfold colorVertex
  rw [colorOf_get hil]
  simp only
  by_cases hc : colorOf s.vertex_colors i = -1
  · -- vertex `i` has no colour yet
    have hc0 : colorOf cols0 i = -1 := by rw [← inv.later i (le_refl _)]; exact hc
    obtain ⟨d0, hd0, hget, hs0, hall⟩ := ManifoldMesh_ring hm hi
    obtain ⟨b, hb, hiff⟩ := conflictLoop_spec hv hm.len hm.src_lt s.vertex_colors hlen g hd0
      fuel hfuel
    rw [inv.gid]
    simp only [hc, ne_eq, not_true_eq_false, if_false, hget, hb]
    cases b with
    | true =>
      simp only [Bool.true_eq_false, if_false]
      have hexg : ∃ x, SameFan E2E d0 x ∧ colorOf s.vertex_colors (dst F x) = (g : Int) :=
        hiff.mp rfl
      have hearlier : ∃ v, v < i ∧ colorOf cols0 v = -1 := by
        by_contra hno
        have hs := (inv.same (fun v hv h => hno ⟨v, hv, h⟩)).1
        obtain ⟨x, _, hx⟩ := hexg
        rw [hs] at hx
        exact h0 _ hx
      refine ⟨_, rfl, inv.inv, rfl, fun v hv => inv.later v (by omega), ?_, ?_, inv.mono,
        ?_⟩
      · intro hall2; exact absurd hc0 (hall2 i (by omega))
      · intro _; exact inv.more hearlier
      · intro grp hgrp
        simp only [List.mem_append, List.mem_singleton] at hgrp
        rcases hgrp with h | h
        · exact inv.groups grp h
        · rw [h, (hsh []).length_eq]; simp
    | false =>
      simp only [if_true]
      have hnc : ∀ x, SameFan E2E d0 x → colorOf s.vertex_colors (dst F x) ≠ (g : Int) := by
        intro x hx hcx
        have := hiff.mpr ⟨x, hx, hcx⟩
        exact Bool.noConfusion this
      have hg : ((g : Nat) : Int) ≠ -1 := by omega
      refine ⟨_, rfl, ⟨by simp [hlen], ?_, ?_, ?_⟩, rfl, ?_, ?_, ?_, ?_, ?_⟩
      · intro v hv2
        simp only [colorOf_set _ _ _ _ hil]
        by_cases hvi : v = i
        · simp only [hvi, if_true]; right; omega
        · simp only [hvi, if_false]; exact inv.inv.range v hv2
      · intro d hd hne hcol
        simp only [colorOf_set _ _ _ _ hil] at hcol ⊢
        by_cases hsi : src F d = i
        · have hdi : ¬ dst F d = i := fun e => hne (hsi.trans e.symm)
          simp only [hsi, hdi, if_true, if_false]
          exact fun e => hnc d (hall d hd hsi) e.symm
        · simp only [hsi, if_false] at hcol ⊢
          by_cases hdi : dst F d = i
          · simp only [hdi, if_true]
            have hrev := (ValidE2E_e2eN hv hd).2.2.2
            have he := (ValidE2E_e2eN hv hd).1
            have hsame := hall (e2eN E2E d) he (hrev.1.trans hdi)
            have := hnc _ hsame
            rw [hrev.2] at this
            exact this
          · simp only [hdi, if_false]
            exact inv.inv.proper d hd hne hcol
      · simp only
        rw [marked_set _ hg _ _ hil hc, inv.inv.marked]
      · intro v hv2
        simp only [colorOf_set _ _ _ _ hil]
        have hvi : ¬ v = i := by omega
        simp only [hvi, if_false]
        exact inv.later v (by omega)
      · intro hall2; exact absurd hc0 (hall2 i (by omega))
      · intro _
        have := inv.mono
        simp only; omega
      · have := inv.mono
        simp only; omega
      · intro grp hgrp
        simp only [List.mem_append, List.mem_singleton] at hgrp
        rcases hgrp with h | h
        · exact inv.groups grp h
        · rw [h, (hsh [i]).length_eq]; simp
  · -- vertex `i` is coloured already: `continue`
    have hc0 : colorOf cols0 i ≠ -1 := by rw [← inv.later i (le_refl _)]; exact hc
    simp only [ne_eq, hc, not_false_eq_true, if_true]
    refine ⟨_, rfl, inv.inv, inv.gid, fun v hv => inv.later v (by omega), ?_, ?_, inv.mono, ?_⟩
    · intro hall2; exact inv.same (fun v hv => hall2 v (by omega))
    · rintro ⟨v, hv2, hv3⟩
      have hvi : v ≠ i := by rintro rfl; exact hc0 hv3
      exact inv.more ⟨v, by omega, hv3⟩
    · intro grp hgrp
      simp only [List.mem_append, List.mem_singleton] at hgrp
      rcases hgrp with h | h
      · exact inv.groups grp h
      · rw [h]; simp

/-- One scan over all vertices keeps the round invariant. -/
theorem colorScan_spec {F : List Nat} {n num_V : Nat} {V2E E2E : List Int}
    (hm : ManifoldMesh F n num_V V2E E2E) (random_shuffle : List Nat → List Nat)
    (hsh : ∀ l, (random_shuffle l).Perm l) (fuel : Nat) (hfuel : n ≤ fuel)
    {g marked0 : Nat} {cols0 : List Int} (h0 : ∀ v, colorOf cols0 v ≠ (g : Int))
    {s : ColorState} (inv : RoundInv F n num_V g cols0 marked0 0 s) :
    ∀ i, i ≤ num_V → ∃ s2,
      (List.range i).foldlM (colorVertex random_shuffle F V2E E2E fuel) s = some s2 ∧
      RoundInv F n num_V g cols0 marked0 i s2 := by
  intro i
  induction i with
  | zero => intro _; exact ⟨s, rfl, inv⟩
  | succ i ih =>
    intro hi
    obtain ⟨s1, hs1, inv1⟩ := ih (by omega)
    obtain ⟨s2, hs2, inv2⟩ := colorVertex_spec hm random_shuffle hsh fuel hfuel h0 (by omega) inv1
    refine ⟨s2, ?_, inv2⟩
    rw [List.range_succ, List.foldlM_append, hs1]
    simp [hs2]

/-- The loop `while (marked_vertices < num_V_)` ends with every vertex coloured. -/
theorem colorRounds_spec {F : List Nat} {n num_V : Nat} {V2E E2E : List Int}
    (hm : ManifoldMesh F n num_V V2E E2E) (random_shuffle : List Nat → List Nat)
    (hsh : ∀ l, (random_shuffle l).Perm l) (fuel : Nat) (hfuel : n ≤ fuel) :
    ∀ r s, num_V < r + s.marked_vertices →
      ColorInv F n num_V s.group_id s.vertex_colors s.marked_vertices →
      (∀ grp ∈ s.vertex_groups_, grp.length ≤ 1) →
      ∃ s2, colorRounds random_shuffle num_V F V2E E2E fuel r s = some s2 ∧
        ColorInv F n num_V s2.group_id s2.vertex_colors s2.marked_vertices ∧
        num_V ≤ s2.marked_vertices ∧ (∀ grp ∈ s2.vertex_groups_, grp.length ≤ 1) := by
  intro r
  induction r with
  | zero =>
    intro s hr inv _
    have hle : s.marked_vertices ≤ num_V := by
      rw [inv.marked, ← inv.len]; exact List.length_filter_le _ _
    omega
  | succ r ih =>
    intro s hr inv hgrp
    unfold colorRounds
    by_cases hlt : s.marked_vertices < num_V
    · rw [if_pos hlt]
      have h0 : ∀ v, colorOf s.vertex_colors v ≠ (s.group_id : Int) := by
        intro v
        by_cases hv : v < num_V
        · rcases inv.range v hv with h | h <;> omega
        · rw [colorOf_of_ge _ _ (by rw [inv.len]; omega)]; omega
      have init : RoundInv F n num_V s.group_id s.vertex_colors s.marked_vertices 0 s :=
        { inv := ⟨inv.len, fun v hv => by
                    rcases inv.range v hv with h | h
                    · exact Or.inl h
                    · right; omega, inv.proper, inv.marked⟩
          gid := rfl
          later := fun _ _ => rfl
          same := fun _ => ⟨rfl, rfl⟩
          more := fun ⟨v, hv, _⟩ => absurd hv (Nat.not_lt_zero _)
          mono := le_refl _
          groups := hgrp }
      obtain ⟨s1, hs1, inv1⟩ := colorScan_spec hm random_shuffle hsh fuel hfuel h0 init num_V
        (le_refl _)
      rw [inv.len]
      simp only [hs1]
      have hun : ∃ v, v < num_V ∧ colorOf s.vertex_colors v = -1 := by
        have := exists_uncolored s.vertex_colors (by rw [← inv.marked, inv.len]; exact hlt)
        rw [inv.len] at this
        exact this
      have hmore := inv1.more hun
      apply ih
      · simp only; omega
      · simp only [inv1.gid]; exact inv1.inv
      · exact inv1.groups
    · rw [if_neg hlt]
      exact ⟨s, rfl, inv, by omega, hgrp⟩

/-! ## C5: the colouring is proper -/

/-- C5: on a closed manifold mesh with valid `V2E_`/`E2E_`, `ComputeIndependentSet` returns,
every vertex receives a colour, for every edge of `out_F_` joining distinct vertices the two
vertices receive different colours, and no two distinct vertices placed in the same group share
an edge of `out_F_`. -/
theorem ComputeIndependentSet_proper {P : Type} (m : Mesh P)
    (hm : ManifoldMesh m.out_F_ (m.num_F_ * 3) m.num_V_ m.V2E_ m.E2E_)
    (random_shuffle : List Nat → List Nat) (hsh : ∀ l, (random_shuffle l).Perm l)
    (fuel : Nat) (hfuel : m.num_F_ * 3 ≤ fuel) (hfuelV : m.num_V_ < fuel) :
    ∃ s, ComputeIndependentSet random_shuffle fuel m = some s ∧
      (∀ v, v < m.num_V_ → 0 ≤ colorOf s.vertex_colors v) ∧
      (∀ d, d < m.num_F_ * 3 → src m.out_F_ d ≠ dst m.out_F_ d →
        colorOf s.vertex_colors (src m.out_F_ d) ≠ colorOf s.vertex_colors (dst m.out_F_ d)) ∧
      (∀ grp ∈ s.vertex_groups_, ∀ d, d < m.num_F_ * 3 →
        src m.out_F_ d ∈ grp → dst m.out_F_ d ∈ grp → src m.out_F_ d = dst m.out_F_ d) := by
  have init : ColorInv m.out_F_ (m.num_F_ * 3) m.num_V_ 0 (List.replicate m.num_V_ (-1)) 0 := by
    have hcol : ∀ v, colorOf (List.replicate m.num_V_ (-1 : Int)) v = -1 := by
      intro v
      simp only [colorOf, List.getD_eq_getElem?_getD, List.getElem?_replicate]
      by_cases h : v < m.num_V_ <;> simp [h]
    refine ⟨by simp, fun v _ => Or.inl (hcol v), ?_, ?_⟩
    · intro d _ _ hc; exact absurd (hcol _) hc
    · simp
  obtain ⟨s, hs, inv, hall, hgrp⟩ := colorRounds_spec hm random_shuffle hsh fuel hfuel fuel
    { marked_vertices := 0, group_id := 0, vertex_colors := List.replicate m.num_V_ (-1),
      vertex_groups_ := [] }
    (by simp only; omega) init (by simp)
  have hcolored : ∀ v, v < m.num_V_ → colorOf s.vertex_colors v ≠ -1 := by
    have := all_colored s.vertex_colors (by rw [← inv.marked, inv.len]; exact hall)
    rw [inv.len] at this
    exact this
  refine ⟨s, hs, ?_, ?_, ?_⟩
  · intro v hv
    rcases inv.range v hv with h | h
    · exact absurd h (hcolored v hv)
    · exact h.1
  · intro d hd hne
    exact inv.proper d hd hne (hcolored _ (hm.src_lt d hd))
  · intro grp hg d _ h1 h2
    have hl := hgrp grp hg
    match grp, hl, h1, h2 with
    | [], _, h1, _ => simp at h1
    | [a], _, h1, h2 =>
      simp only [List.mem_singleton] at h1 h2
      rw [h1, h2]
    | _ :: _ :: _, hl, _, _ => simp at hl

theorem octaHE_eq : ComputeHalfEdge octa = octaHE := by rfl

/-- C5 applied to the octahedron. -/
theorem ComputeIndependentSet_proper_witness :
    ManifoldMesh octaHE.out_F_ (octaHE.num_F_ * 3) octaHE.num_V_ octaHE.V2E_ octaHE.E2E_ ∧
    (∀ l : List Nat, (id l).Perm l) ∧ octaHE.num_F_ * 3 ≤ 25 ∧ octaHE.num_V_ < 25 ∧
    ∃ s, ComputeIndependentSet id 25 octaHE = some s ∧
      (∀ v, v < octaHE.num_V_ → 0 ≤ colorOf s.vertex_colors v) ∧
      (∀ d, d < octaHE.num_F_ * 3 → src octaHE.out_F_ d ≠ dst octaHE.out_F_ d →
        colorOf s.vertex_colors (src octaHE.out_F_ d)
          ≠ colorOf s.vertex_colors (dst octaHE.out_F_ d)) ∧
      (∀ grp ∈ s.vertex_groups_, ∀ d, d < octaHE.num_F_ * 3 →
        src octaHE.out_F_ d ∈ grp → dst octaHE.out_F_ d ∈ grp →
        src octaHE.out_F_ d = dst octaHE.out_F_ d) :=
  ⟨⟨⟨by decide, by decide⟩, by decide, by decide, by decide⟩,
    fun l => List.Perm.refl l, by decide, by decide,
    ComputeIndependentSet_proper octaHE
      ⟨⟨by decide, by decide⟩, by decide, by decide, by decide⟩
      id (fun l => List.Perm.refl l) 25 (by decide) (by decide)⟩

/-! ## C6: the groups are not the colour classes -/

theorem colorVertex_shuffle (random_shuffle : List Nat → List Nat)
    (hsh : ∀ l, (random_shuffle l).Perm l) (F : List Nat) (V2E E2E : List Int) (fuel : Nat) :
    colorVertex random_shuffle F V2E E2E fuel = colorVertex id F V2E E2E fuel := by
  have h0 : random_shuffle [] = [] := List.Perm.eq_nil (hsh [])
  have h1 : ∀ i, random_shuffle [i] = [i] := fun i => List.perm_singleton.mp (hsh [i])
  funext s i
  unfold colorVertex
  simp only [h0, h1, id]

theorem colorRounds_shuffle (random_shuffle : List Nat → List Nat)
    (hsh : ∀ l, (random_shuffle l).Perm l) (num_V : Nat) (F : List Nat) (V2E E2E : List Int)
    (fuel : Nat) : ∀ r s, colorRounds random_shuffle num_V F V2E E2E fuel r s
      = colorRounds id num_V F V2E E2E fuel r s := by
  intro r
  induction r with
  | zero => intro s; rfl
  | succ r ih =>
    intro s
    unfold colorRounds
    rw [colorVertex_shuffle random_shuffle hsh]
    split
    · split
      · rfl
      · exact ih _
    · rfl

/-- C6 fails on the octahedron (code evaluated at the failing input): whatever permutation
`random_shuffle` applies, the colours assigned are `0, 1, 2, 1, 2, 0`, so three colours are
used and colour `0` is given to the vertices `0` and `5`; but `vertex_groups_` has eighteen
entries, `vertex_groups_[0]` is `[0]` alone and `vertex_groups_[1]`, `vertex_groups_[2]` are
empty, because a new group is pushed for every vertex of every round. -/
theorem ComputeIndependentSet_octa_groups (random_shuffle : List Nat → List Nat)
    (hsh : ∀ l, (random_shuffle l).Perm l) :
    (ComputeIndependentSet random_shuffle 25 octaHE).map
        (fun s => (s.vertex_colors, s.vertex_groups_))
      = some ([0, 1, 2, 1, 2, 0],
          [[0], [], [], [], [], [5], [], [1], [], [3], [], [], [], [], [2], [], [4], []]) := by
  unfold ComputeIndependentSet
  rw [colorRounds_shuffle random_shuffle hsh]
  decide

/-- The evaluation of C6 on the octahedron with the identity as `random_shuffle`. -/
theorem ComputeIndependentSet_octa_groups_witness :
    (∀ l : List Nat, (id l).Perm l) ∧
    (ComputeIndependentSet id 25 octaHE).map (fun s => (s.vertex_colors, s.vertex_groups_))
      = some ([0, 1, 2, 1, 2, 0],
          [[0], [], [], [], [], [5], [], [1], [], [3], [], [], [], [], [2], [], [4], []]) :=
  ⟨fun l => List.Perm.refl l, ComputeIndependentSet_octa_groups id (fun l => List.Perm.refl l)⟩

/-! ## The normal solver -/

theorem dot_vadd_vscale {K : Type} [LinearOrderedField K] (vn d fn : Vector3 K) (a : K) :
    dot fn (vadd vn (vscale a d)) = dot fn vn + a * dot d fn := by
  simp only [dot, vadd, vscale]; ring

theorem dot_comm {K : Type} [LinearOrderedField K] (a b : Vector3 K) : dot a b = dot b a := by
  simp only [dot]; ring

theorem ZERO_THRES_pos (K : Type) [LinearOrderedField K] : 0 < ZERO_THRES K := by
  unfold ZERO_THRES; positivity

theorem faceNormal_natCast {K : Type} [LinearOrderedField K] (out_FN : List (Vector3 K))
    (x : Nat) : faceNormal out_FN (x : Int) = out_FN.getD (x / 3) (0, 0, 0) := by
  unfold faceNormal
  rw [Int.tdiv_eq_ediv (by omega) (by omega)]
  congr 1

/-- What the ring loop of `OptimizeNormal` computes over a list of directed edges. -/
theorem normalStep_foldl {K : Type} [LinearOrderedField K] (out_FN : List (Vector3 K))
    (vn d : Vector3 K) :
    ∀ (l : List Int) (init : K),
      l.foldl (normalStep out_FN vn d) init ≤ init ∧
      (∀ x ∈ l, dot d (faceNormal out_FN x) < -ZERO_THRES K →
        l.foldl (normalStep out_FN vn d) init
          ≤ -dot (faceNormal out_FN x) vn / dot d (faceNormal out_FN x)) ∧
      (l.foldl (normalStep out_FN vn d) init = init ∨
        ∃ x ∈ l, dot d (faceNormal out_FN x) < -ZERO_THRES K ∧
          l.foldl (normalStep out_FN vn d) init
            = -dot (faceNormal out_FN x) vn / dot d (faceNormal out_FN x)) := by
  intro l
  induction l with
  | nil => intro init; simp
  | cons a l ih =>
    intro init
    obtain ⟨h1, h2, h3⟩ := ih (normalStep out_FN vn d init a)
    have hstep : normalStep out_FN vn d init a ≤ init := by
      unfold normalStep
      simp only
      split_ifs with ha hb
      · exact le_of_lt hb
      · exact le_refl _
      · exact le_refl _
    simp only [List.foldl_cons]
    refine ⟨le_trans h1 hstep, ?_, ?_⟩
    · intro x hx hden
      rcases List.mem_cons.mp hx with rfl | hx
      · refine le_trans h1 ?_
        unfold normalStep
        simp only [hden, if_true]
        split_ifs with hb
        · exact le_refl _
        · exact not_lt.mp hb
      · exact h2 x hx hden
    · rcases h3 with h3 | ⟨x, hx, hden, h3⟩
      · rw [h3]
        unfold normalStep
        simp only
        split_ifs with ha hb
        · right; exact ⟨a, by simp, ha, rfl⟩
        · left; rfl
        · left; rfl
      · right; exact ⟨x, by simp [hx], hden, h3⟩

/-- The value `r` of `max_step` after the ring loop of `OptimizeNormal`, and what the function
writes: `vn + alpha * (target_vn - vn)` with `alpha = r` clamped at `0`. -/
theorem OptimizeNormal_fold {K : Type} [LinearOrderedField K] (m : Projector K)
    (hm : ManifoldMesh m.out_F_ (m.num_F_ * 3) m.num_V_ m.V2E_ m.E2E_)
    (i : Nat) (hi : i < m.num_V_) (vn target_vn : Vector3 K)
    (fuel : Nat) (hfuel : m.num_F_ * 3 ≤ fuel) :
    ∃ r : K,
      OptimizeNormal fuel m i vn target_vn
        = some (m.out_N_.set i
            (vadd vn (vscale (if r < 0 then 0 else r) (vsub target_vn vn)))) ∧
      r ≤ 1 ∧
      (∀ x, x < m.num_F_ * 3 → src m.out_F_ x = i →
        dot (vsub target_vn vn) (faceNormal m.out_FN_ x) < -ZERO_THRES K →
        r ≤ -dot (faceNormal m.out_FN_ x) vn
          / dot (vsub target_vn vn) (faceNormal m.out_FN_ x)) ∧
      (r = 1 ∨ ∃ x, x < m.num_F_ * 3 ∧ src m.out_F_ x = i ∧
        dot (vsub target_vn vn) (faceNormal m.out_FN_ x) < -ZERO_THRES K ∧
        r = -dot (faceNormal m.out_FN_ x) vn
          / dot (vsub target_vn vn) (faceNormal m.out_FN_ x)) := by
  obtain ⟨d0, hd0, hget, hs0, hall⟩ := ManifoldMesh_ring hm hi
  obtain ⟨fan, hring, _, hmem⟩ := ringList_fan hm.valid hd0 fuel hfuel
  have hfold := ringFold_eq hm.valid hd0 (normalStep m.out_FN_ vn (vsub target_vn vn)) fuel
    hfuel (1 : K)
  have hlist : (List.range (Function.minimalPeriod (nextN m.E2E_) d0)).map
      (fun i => (((nextN m.E2E_)^[i] d0 : Nat) : Int)) = fan.map (fun (x : Nat) => (x : Int)) := by
    have h1 := ringList_eq hm.valid hd0 fuel hfuel
    rw [hring] at h1
    exact (Option.some.inj h1).symm
  rw [hlist] at hfold
  obtain ⟨h1, h2, h3⟩ := normalStep_foldl m.out_FN_ vn (vsub target_vn vn)
    (fan.map (fun (x : Nat) => (x : Int))) 1
  have hfanmem : ∀ x : Nat, ((x : Nat) : Int) ∈ fan.map (fun (x : Nat) => (x : Int)) ↔
      x < m.num_F_ * 3 ∧ src m.out_F_ x = i := by
    intro x
    rw [mem_map_natCast, hmem]
    constructor
    · intro hf; exact ⟨SameFan_lt hm.valid hd0 hf, (SameFan_src hm.valid hd0 hf).trans hs0⟩
    · rintro ⟨hx, hsx⟩; exact hall x hx hsx
  unfold OptimizeNormal
  simp only [hget, hfold]
  refine ⟨_, rfl, h1, ?_, ?_⟩
  · intro x hx hsx hden
    exact h2 _ ((hfanmem x).mpr ⟨hx, hsx⟩) hden
  · rcases h3 with h3 | ⟨y, hy, hden, h3⟩
    · exact Or.inl h3
    · obtain ⟨x, hx, rfl⟩ := List.mem_map.mp hy
      have := (hfanmem x).mp (List.mem_map.mpr ⟨x, hx, rfl⟩)
      exact Or.inr ⟨x, this.1, this.2, hden, h3⟩

/-! ## C8: the step of the normal solver -/

/-- C9: for every vertex `i` of a closed manifold mesh and every `vn`, `target_vn`, if every
face normal `fn` incident to `i` satisfies `fn . vn >= 0`, then `OptimizeNormal` returns and
afterwards every incident `fn` satisfies `out_N_[i] . fn >= -ZERO_THRES` (exact arithmetic). -/
theorem OptimizeNormal_orientation {K : Type} [LinearOrderedField K] (m : Projector K)
    (hm : ManifoldMesh m.out_F_ (m.num_F_ * 3) m.num_V_ m.V2E_ m.E2E_)
    (i : Nat) (hi : i < m.num_V_) (hN : m.out_N_.length = m.num_V_) (vn target_vn : Vector3 K)
    (hpos : ∀ x, x < m.num_F_ * 3 → src m.out_F_ x = i → 0 ≤ dot (faceNormal m.out_FN_ x) vn)
    (fuel : Nat) (hfuel : m.num_F_ * 3 ≤ fuel) :
    ∃ N, OptimizeNormal fuel m i vn target_vn = some N ∧
      ∀ x, x < m.num_F_ * 3 → src m.out_F_ x = i →
        -ZERO_THRES K ≤ dot (N.getD i (0, 0, 0)) (faceNormal m.out_FN_ x) := by
  obtain ⟨r, hrun, hr1, hr2, _⟩ := OptimizeNormal_fold m hm i hi vn target_vn fuel hfuel
  have heps := ZERO_THRES_pos K
  refine ⟨_, hrun, ?_⟩
  intro x hx hsx
  have hget : (m.out_N_.set i (vadd vn (vscale (if r < 0 then 0 else r) (vsub target_vn vn)))).getD
      i (0, 0, 0) = vadd vn (vscale (if r < 0 then 0 else r) (vsub target_vn vn)) := by
    simp [List.getD_eq_getElem?_getD, List.getElem?_set, hN, hi]
  rw [hget, dot_comm, dot_vadd_vscale]
  have h0 := hpos x hx hsx
  by_cases hden : dot (vsub target_vn vn) (faceNormal m.out_FN_ x) < -ZERO_THRES K
  · have hneg : dot (vsub target_vn vn) (faceNormal m.out_FN_ x) < 0 := by linarith
    split_ifs with h
    · simp only [zero_mul, add_zero]; linarith
    · have := hr2 x hx hsx hden
      rw [le_div_iff_of_neg hneg] at this
      linarith
  · have hden2 := not_lt.mp hden
    split_ifs with h
    · simp only [zero_mul, add_zero]; linarith
    · have hr0 : 0 ≤ r := not_lt.mp h
      nlinarith

theorem tetraQ_manifold :
    ManifoldMesh tetraQ.out_F_ (tetraQ.num_F_ * 3) tetraQ.num_V_ tetraQ.V2E_ tetraQ.E2E_ :=
  ⟨⟨by decide, by decide⟩, by decide, by decide, by decide⟩

theorem tetraQ_faceNormal_pos (vn : Vector3 ℚ) (h0 : 0 ≤ vn.1) (h1 : 0 ≤ vn.2.1)
    (h2 : 0 ≤ vn.2.2) :
    ∀ x, x < tetraQ.num_F_ * 3 → src tetraQ.out_F_ x = 0 →
      0 ≤ dot (faceNormal tetraQ.out_FN_ x) vn := by
  intro x hx hs
  have hx12 : x < 12 := hx
  have f6 : faceNormal tetraQ.out_FN_ ((6 : Nat) : Int) = (0, 1, 0) := by decide
  have f3 : faceNormal tetraQ.out_FN_ ((3 : Nat) : Int) = (1, 0, 0) := by decide
  have f0 : faceNormal tetraQ.out_FN_ ((0 : Nat) : Int) = (0, 0, 1) := by decide
  interval_cases x
  · rw [f0]; simp [dot, h2]
  · exact absurd hs (by decide)
  · exact absurd hs (by decide)
  · rw [f3]; simp [dot, h0]
  · exact absurd hs (by decide)
  · exact absurd hs (by decide)
  · rw [f6]; simp [dot, h1]
  · exact absurd hs (by decide)
  · exact absurd hs (by decide)
  · exact absurd hs (by decide)
  · exact absurd hs (by decide)
  · exact absurd hs (by decide)

/-- C9 applied to vertex `0` of the tetrahedron with `vn = (1, 1, 0)` and
`target_vn = (1, 1, -1)`. -/
theorem OptimizeNormal_orientation_witness :
    ManifoldMesh tetraQ.out_F_ (tetraQ.num_F_ * 3) tetraQ.num_V_ tetraQ.V2E_ tetraQ.E2E_ ∧
    0 < tetraQ.num_V_ ∧ tetraQ.out_N_.length = tetraQ.num_V_ ∧
    (∀ x, x < tetraQ.num_F_ * 3 → src tetraQ.out_F_ x = 0 →
      0 ≤ dot (faceNormal tetraQ.out_FN_ x) ((1, 1, 0) : Vector3 ℚ)) ∧
    tetraQ.num_F_ * 3 ≤ 13 ∧
    ∃ N, OptimizeNormal 13 tetraQ 0 (1, 1, 0) (1, 1, -1) = some N ∧
      ∀ x, x < tetraQ.num_F_ * 3 → src tetraQ.out_F_ x = 0 →
        -ZERO_THRES ℚ ≤ dot (N.getD 0 (0, 0, 0)) (faceNormal tetraQ.out_FN_ x) :=
  ⟨⟨⟨by decide, by decide⟩, by decide, by decide, by decide⟩, by decide, by decide,
    tetraQ_faceNormal_pos (1, 1, 0) (by norm_num) (by norm_num) (by norm_num), by decide,
    OptimizeNormal_orientation tetraQ
      ⟨⟨by decide, by decide⟩, by decide, by decide, by decide⟩ 0 (by decide) (by decide)
      (1, 1, 0) (1, 1, -1)
      (tetraQ_faceNormal_pos (1, 1, 0) (by norm_num) (by norm_num) (by norm_num)) 13
      (by decide)⟩

theorem dot_vadd {K : Type} [LinearOrderedField K] (a u w : Vector3 K) :
    dot a (vadd u w) = dot a u + dot a w := by
  simp only [dot, vadd]; ring

theorem dot_vscale {K : Type} [LinearOrderedField K] (a u : Vector3 K) (c : K) :
    dot a (vscale c u) = c * dot a u := by
  simp only [dot, vscale]; ring

theorem vsub_vadd {K : Type} [LinearOrderedField K] (u w pos0 : Vector3 K) :
    vsub (vadd u w) pos0 = vadd (vsub u pos0) w := by
  simp only [vsub, vadd]
  refine Prod.ext ?_ (Prod.ext ?_ ?_) <;> simp only <;> ring

theorem pathSum_append {K : Type} [LinearOrderedField K] (steps : List (Vector3 K × K))
    (st : Vector3 K × K) :
    pathSum (steps ++ [st]) = vadd (pathSum steps) (vscale st.2 st.1) := by
  simp [pathSum, List.foldl_append]

theorem pathLength_append {K : Type} [LinearOrderedField K] (steps : List (Vector3 K × K))
    (st : Vector3 K × K) : pathLength (steps ++ [st]) = pathLength steps + st.2 := by
  simp [pathLength]

theorem pathLength_nonneg {K : Type} [LinearOrderedField K] (steps : List (Vector3 K × K))
    (h : ∀ st ∈ steps, 0 ≤ st.2) : 0 ≤ pathLength steps := by
  unfold pathLength
  apply List.sum_nonneg
  intro x hx
  obtain ⟨st, hst, rfl⟩ := List.mem_map.mp hx
  exact h st hst

/-- The step limit is at most `tar_step` and at most `B[j] / (A[j] . tar_dir)` for every
constraint that is not attached and has slope at least `ZERO_THRES`. -/
theorem limitStep_le {K : Type} [LinearOrderedField K] (A : List (Vector3 K)) (B : List K)
    (attached : List Nat) (tar_dir : Vector3 K) (tar_step : K) :
    limitStep A B attached tar_dir tar_step ≤ tar_step ∧
    ∀ j, j < A.length → attached.getD j 0 = 0 →
      ZERO_THRES K ≤ dot (A.getD j (0, 0, 0)) tar_dir →
      limitStep A B attached tar_dir tar_step
        ≤ B.getD j 0 / dot (A.getD j (0, 0, 0)) tar_dir := by
  unfold limitStep
  have key : ∀ (l : List Nat) (init : K),
      l.foldl (fun max_step j =>
          if attached.getD j 0 ≠ 0 then max_step
          else if dot (A.getD j (0, 0, 0)) tar_dir < ZERO_THRES K then max_step
          else if B.getD j 0 / dot (A.getD j (0, 0, 0)) tar_dir < max_step then
            B.getD j 0 / dot (A.getD j (0, 0, 0)) tar_dir
          else max_step) init ≤ init ∧
      ∀ j ∈ l, attached.getD j 0 = 0 → ZERO_THRES K ≤ dot (A.getD j (0, 0, 0)) tar_dir →
        l.foldl (fun max_step j =>
          if attached.getD j 0 ≠ 0 then max_step
          else if dot (A.getD j (0, 0, 0)) tar_dir < ZERO_THRES K then max_step
          else if B.getD j 0 / dot (A.getD j (0, 0, 0)) tar_dir < max_step then
            B.getD j 0 / dot (A.getD j (0, 0, 0)) tar_dir
          else max_step) init ≤ B.getD j 0 / dot (A.getD j (0, 0, 0)) tar_dir := by
    intro l
    induction l with
    | nil => intro init; simp
    | cons a l ih =>
      intro init
      simp only [List.foldl_cons]
      have hstep : (if attached.getD a 0 ≠ 0 then init
          else if dot (A.getD a (0, 0, 0)) tar_dir < ZERO_THRES K then init
          else if B.getD a 0 / dot (A.getD a (0, 0, 0)) tar_dir < init then
            B.getD a 0 / dot (A.getD a (0, 0, 0)) tar_dir
          else init) ≤ init := by
        split_ifs with h1 h2 h3
        · exact le_refl _
        · exact le_refl _
        · exact le_of_lt h3
        · exact le_refl _
      obtain ⟨h1, h2⟩ := ih (if attached.getD a 0 ≠ 0 then init
          else if dot (A.getD a (0, 0, 0)) tar_dir < ZERO_THRES K then init
          else if B.getD a 0 / dot (A.getD a (0, 0, 0)) tar_dir < init then
            B.getD a 0 / dot (A.getD a (0, 0, 0)) tar_dir
          else init)
      refine ⟨le_trans h1 hstep, ?_⟩
      intro j hj hatt hden
      rcases List.mem_cons.mp hj with rfl | hj
      · refine le_trans h1 ?_
        have hn : ¬ attached.getD j 0 ≠ 0 := not_not.mpr hatt
        have hn2 : ¬ dot (A.getD j (0, 0, 0)) tar_dir < ZERO_THRES K := not_lt.mpr hden
        simp only [hn, hn2, if_false]
        split_ifs with h3
        · exact le_refl _
        · exact not_lt.mp h3
      · exact h2 j hj hatt hden
  obtain ⟨h1, h2⟩ := key (List.range A.length) tar_step
  exact ⟨h1, fun j hj => h2 j (List.mem_range.mpr hj)⟩

/-- The arithmetic of one step for a constraint that is not attached: `bj` is `B[j]` before
the step, `den` the slope and `ms` the applied step. -/
theorem step_bound {K : Type} [LinearOrderedField K] (bj den ms m L : K)
    (hms : ms = if m < 1 / 1000000 then 0 else m)
    (hm : ZERO_THRES K ≤ den → m ≤ bj / den) (hL : 0 ≤ L) :
    0 ≤ ms ∧
    (-(ZERO_THRES K * L) ≤ bj → -(ZERO_THRES K * (L + ms)) ≤ bj - den * ms) ∧
    (0 ≤ bj → ¬ (0 < den ∧ den < ZERO_THRES K) → 0 ≤ bj - den * ms) := by
  have heps := ZERO_THRES_pos K
  have hms0 : 0 ≤ ms := by
    rw [hms]
    split_ifs with h
    · exact le_refl _
    · have : (0 : K) < 1 / 1000000 := by positivity
      linarith [not_lt.mp h]
  have hcase : ZERO_THRES K ≤ den → 0 ≤ bj → den * ms ≤ bj := by
    intro hden hb
    have hpos : 0 < den := lt_of_lt_of_le heps hden
    rw [hms]
    split_ifs with h
    · simpa using hb
    · have := hm hden
      rw [le_div_iff₀ hpos] at this
      linarith
  have hcase2 : ZERO_THRES K ≤ den → den * ms ≤ bj ∨ ms = 0 := by
    intro hden
    have hpos : 0 < den := lt_of_lt_of_le heps hden
    rw [hms]
    split_ifs with h
    · exact Or.inr rfl
    · left
      have := hm hden
      rw [le_div_iff₀ hpos] at this
      linarith
  refine ⟨hms0, ?_, ?_⟩
  · intro hb
    by_cases hden : ZERO_THRES K ≤ den
    · rcases hcase2 hden with h | h
      · have : 0 ≤ ZERO_THRES K * (L + ms) := by positivity
        linarith
      · rw [h]; simpa using hb
    · have hden2 := not_le.mp hden
      have : den * ms ≤ ZERO_THRES K * ms := by
        apply mul_le_mul_of_nonneg_right (le_of_lt hden2) hms0
      linarith
  · intro hb hno
    by_cases hden : ZERO_THRES K ≤ den
    · linarith [hcase hden hb]
    · have hden2 := not_le.mp hden
      have hd0 : den ≤ 0 := by
        by_contra h
        exact hno ⟨not_le.mp h, hden2⟩
      have : den * ms ≤ 0 := mul_nonpos_of_nonpos_of_nonneg hd0 hms0
      linarith

theorem getD_set_ne {α : Type} (l : List α) (i j : Nat) (a d : α) (h : i ≠ j) :
    (l.set i a).getD j d = l.getD j d := by
  simp [List.getD_eq_getElem?_getD, List.getElem?_set, h]

theorem getD_set_eq {α : Type} (l : List α) (i : Nat) (a d : α) (h : i < l.length) :
    (l.set i a).getD i d = a := by
  simp [List.getD_eq_getElem?_getD, List.getElem?_set, h]

/-- What the body of the last loop of a pass does to `B` and `attached_dimensions`. -/
theorem attachStep_spec {K : Type} [LinearOrderedField K] (sqrt : K → K) (A : List (Vector3 K))
    (tar_dir : Vector3 K) (max_step : K) (csize : Nat) (s : AttachState K) (j : Nat)
    (hj : j < s.B.length) :
    (attachStep sqrt A tar_dir max_step csize s j).B.length = s.B.length ∧
    (attachStep sqrt A tar_dir max_step csize s j).attached_dimensions.length
      = s.attached_dimensions.length ∧
    (∀ i, i ≠ j →
      (attachStep sqrt A tar_dir max_step csize s j).B.getD i 0 = s.B.getD i 0 ∧
      (attachStep sqrt A tar_dir max_step csize s j).attached_dimensions.getD i 0
        = s.attached_dimensions.getD i 0) ∧
    (s.attached_dimensions.getD j 0 = 0 →
      (attachStep sqrt A tar_dir max_step csize s j).B.getD j 0
        = s.B.getD j 0 - dot (A.getD j (0, 0, 0)) tar_dir * max_step) ∧
    ((attachStep sqrt A tar_dir max_step csize s j).attached_dimensions.getD j 0 = 0 →
      s.attached_dimensions.getD j 0 = 0) := by
  unfold attachStep
  by_cases hatt : s.attached_dimensions.getD j 0 = 0
  · simp only [hatt, ne_eq, not_true_eq_false, if_false]
    split_ifs with h1 h2 h3
    · refine ⟨by simp, by simp, ?_, ?_, ?_⟩
      · intro i hi
        exact ⟨getD_set_ne _ _ _ _ _ (Ne.symm hi), getD_set_ne _ _ _ _ _ (Ne.symm hi)⟩
      · intro _; exact getD_set_eq _ _ _ _ hj
      · intro _; trivial
    · refine ⟨by simp, by simp, ?_, ?_, ?_⟩
      · intro i hi
        exact ⟨getD_set_ne _ _ _ _ _ (Ne.symm hi), rfl⟩
      · intro _; exact getD_set_eq _ _ _ _ hj
      · intro _; trivial
    · refine ⟨by simp, by simp, ?_, ?_, ?_⟩
      · intro i hi
        exact ⟨getD_set_ne _ _ _ _ _ (Ne.symm hi), getD_set_ne _ _ _ _ _ (Ne.symm hi)⟩
      · intro _; exact getD_set_eq _ _ _ _ hj
      · intro _; trivial
    · refine ⟨by simp, by simp, ?_, ?_, ?_⟩
      · intro i hi
        exact ⟨getD_set_ne _ _ _ _ _ (Ne.symm hi), rfl⟩
      · intro _; exact getD_set_eq _ _ _ _ hj
      · intro _; trivial
  · rw [if_pos hatt]
    exact ⟨rfl, rfl, fun i _ => ⟨rfl, rfl⟩, fun h => absurd h hatt, fun h => h⟩

/-- What the last loop of a pass does to `B` and `attached_dimensions`. -/
theorem attachLoop_spec {K : Type} [LinearOrderedField K] (sqrt : K → K) (A : List (Vector3 K))
    (tar_dir : Vector3 K) (max_step : K) (csize : Nat) (s0 : AttachState K) :
    ∀ k, k ≤ s0.B.length →
      ((List.range k).foldl (attachStep sqrt A tar_dir max_step csize) s0).B.length
        = s0.B.length ∧
      ((List.range k).foldl (attachStep sqrt A tar_dir max_step csize)
        s0).attached_dimensions.length = s0.attached_dimensions.length ∧
      (∀ j, j < k →
        (s0.attached_dimensions.getD j 0 = 0 →
          ((List.range k).foldl (attachStep sqrt A tar_dir max_step csize) s0).B.getD j 0
            = s0.B.getD j 0 - dot (A.getD j (0, 0, 0)) tar_dir * max_step) ∧
        (((List.range k).foldl (attachStep sqrt A tar_dir max_step csize)
            s0).attached_dimensions.getD j 0 = 0 →
          s0.attached_dimensions.getD j 0 = 0)) ∧
      (∀ j, k ≤ j →
        ((List.range k).foldl (attachStep sqrt A tar_dir max_step csize) s0).B.getD j 0
          = s0.B.getD j 0 ∧
        ((List.range k).foldl (attachStep sqrt A tar_dir max_step csize)
          s0).attached_dimensions.getD j 0 = s0.attached_dimensions.getD j 0) := by
  intro k
  induction k with
  | zero => intro _; exact ⟨rfl, rfl, fun j hj => absurd hj (Nat.not_lt_zero _), fun _ _ => ⟨rfl, rfl⟩⟩
  | succ k ih =>
    intro hk
    obtain ⟨h1, h2, h3, h4⟩ := ih (by omega)
    rw [List.range_succ, List.foldl_append]
    simp only [List.foldl_cons, List.foldl_nil]
    generalize (List.range k).foldl (attachStep sqrt A tar_dir max_step csize) s0 = s
      at h1 h2 h3 h4
    obtain ⟨g1, g2, g3, g4, g5⟩ := attachStep_spec sqrt A tar_dir max_step csize s k
      (by rw [h1]; omega)
    refine ⟨g1.trans h1, g2.trans h2, ?_, ?_⟩
    · intro j hj
      rcases Nat.lt_succ_iff_lt_or_eq.mp hj with hj | hj
      · have hne : j ≠ k := by omega
        rw [(g3 j hne).1, (g3 j hne).2]
        exact h3 j hj
      · subst hj
        constructor
        · intro hatt
          have hs : s.attached_dimensions.getD j 0 = 0 := by rw [(h4 j (le_refl _)).2]; exact hatt
          rw [g4 hs, (h4 j (le_refl _)).1]
        · intro hatt
          rw [← (h4 j (le_refl _)).2]
          exact g5 hatt
    · intro j hj
      have hne : j ≠ k := by omega
      rw [(g3 j hne).1, (g3 j hne).2]
      exact h4 j (by omega)

theorem NoSmallSlope_append {K : Type} [LinearOrderedField K] (a : Vector3 K)
    (steps : List (Vector3 K × K)) (st : Vector3 K × K) :
    NoSmallSlope a (steps ++ [st]) ↔
      NoSmallSlope a steps ∧ ¬ (0 < dot a st.1 ∧ dot a st.1 < ZERO_THRES K) := by
  unfold NoSmallSlope
  constructor
  · intro h
    exact ⟨fun x hx => h x (by simp [hx]), h st (by simp)⟩
  · rintro ⟨h1, h2⟩ x hx
    rcases List.mem_append.mp hx with hx | hx
    · exact h1 x hx
    · rw [List.mem_singleton.mp hx]; exact h2

/-- The final property after a step of length `ms` along `dir`, for any `attached_dimensions`
that marks at least the constraints marked before. -/
theorem PosFinal_step {K : Type} [LinearOrderedField K] {A : List (Vector3 K)} {B0 : List K}
    {pos0 : Vector3 K} {s : PosState K} (s1 : PosState K) (inv : PosInv A B0 pos0 s)
    (dir : Vector3 K) (tar_step ms : K)
    (hms : ms = if limitStep A s.B s.attached_dimensions dir tar_step < 1 / 1000000 then 0
        else limitStep A s.B s.attached_dimensions dir tar_step)
    (hpos : s1.pos = vadd s.pos (vscale ms dir))
    (hsteps : s1.steps = s.steps ++ [(dir, ms)])
    (hatt : ∀ j, j < A.length → s1.attached_dimensions.getD j 0 = 0 →
      s.attached_dimensions.getD j 0 = 0) :
    PosFinal A B0 pos0 s1 := by
  have hL := pathLength_nonneg s.steps inv.fin.nonneg
  have hlim := (limitStep_le A s.B s.attached_dimensions dir tar_step).2
  have hb := fun j (hj : j < A.length) (ha : s.attached_dimensions.getD j 0 = 0) =>
    step_bound (s.B.getD j 0) (dot (A.getD j (0, 0, 0)) dir) ms
      (limitStep A s.B s.attached_dimensions dir tar_step) (pathLength s.steps) hms
      (hlim j hj ha) hL
  have hdot : ∀ a : Vector3 K, dot a (vsub s1.pos pos0)
      = dot a (vsub s.pos pos0) + ms * dot a dir := by
    intro a
    rw [hpos, vsub_vadd, dot_vadd, dot_vscale]
  have hms0 : 0 ≤ ms := by
    rw [hms]
    split_ifs with h2
    · exact le_refl _
    · have : (0 : K) < 1 / 1000000 := by positivity
      linarith [not_lt.mp h2]
  refine ⟨?_, ?_, ?_, ?_⟩
  · rw [hpos, hsteps, vsub_vadd, pathSum_append, inv.fin.disp]
  · intro st hst
    rw [hsteps] at hst
    rcases List.mem_append.mp hst with h | h
    · exact inv.fin.nonneg st h
    · rw [List.mem_singleton.mp h]
      exact hms0
  · intro j hj ha hb0
    have ha0 := hatt j hj ha
    have hbook := inv.book j hj ha0
    have hsl := inv.fin.slack j hj ha0 hb0
    have := (hb j hj ha0).2.1 (by rw [hbook]; linarith)
    rw [hdot, hsteps, pathLength_append]
    rw [hbook] at this
    simp only
    linarith
  · intro j hj ha hb0 hno
    have ha0 := hatt j hj ha
    have hbook := inv.book j hj ha0
    rw [hsteps, NoSmallSlope_append] at hno
    have hex := inv.fin.exact j hj ha0 hb0 hno.1
    have := (hb j hj ha0).2.2 (by rw [hbook]; linarith) hno.2
    rw [hdot]
    rw [hbook] at this
    linarith

/-- One pass through the main loop keeps the invariant, or returns with the final property. -/
theorem positionPass_spec {K : Type} [LinearOrderedField K] (sqrt : K → K)
    {A : List (Vector3 K)} {B0 : List K} {pos0 : Vector3 K} (p : Vector3 K) {s : PosState K}
    (inv : PosInv A B0 pos0 s) :
    (∀ s1, positionPass sqrt A p s = Flow.ret s1 → PosFinal A B0 pos0 s1) ∧
    (∀ s1, positionPass sqrt A p s = Flow.next s1 → PosInv A B0 pos0 s1) := by
  unfold positionPass
  simp only
  by_cases h1 : norm sqrt (vsub p s.pos) < ZERO_THRES K
  · rw [if_pos h1]
    exact ⟨fun s1 h => by cases h; exact inv.fin, fun s1 h => by cases h⟩
  · rw [if_neg h1]
    cases hproj : projectStep sqrt s.constraints (vdiv (vsub p s.pos) (norm sqrt (vsub p s.pos)))
        (norm sqrt (vsub p s.pos)) with
    | none => exact ⟨fun s1 h => by cases h; exact inv.fin, fun s1 h => by cases h⟩
    | some r =>
      obtain ⟨constraints, tar_dir, tar_step⟩ := r
      simp only
      generalize hms : (if limitStep A s.B s.attached_dimensions tar_dir tar_step < 1 / 1000000
        then 0 else limitStep A s.B s.attached_dimensions tar_dir tar_step) = ms
      by_cases h2 : ms = tar_step
      · rw [if_pos h2]
        refine ⟨fun s1 h => ?_, fun s1 h => by cases h⟩
        cases h
        exact PosFinal_step _ inv tar_dir tar_step ms hms.symm rfl rfl (fun j _ h => h)
      · rw [if_neg h2]
        refine ⟨fun s1 h => (by cases h), fun s1 h => ?_⟩
        cases h
        have hspec := attachLoop_spec sqrt A tar_dir ms constraints.length
          { B := s.B, attached_dimensions := s.attached_dimensions,
            constraints := constraints, new_element := 0 } A.length
          (by simp only; rw [inv.lenB])
        obtain ⟨g1, g2, g3, _⟩ := hspec
        simp only at g1 g2 g3
        have hfin := PosFinal_step
          { pos := vadd s.pos (vscale ms tar_dir),
            B := ((List.range A.length).foldl
              (attachStep sqrt A tar_dir ms constraints.length)
              { B := s.B, attached_dimensions := s.attached_dimensions,
                constraints := constraints, new_element := 0 }).B,
            attached_dimensions := ((List.range A.length).foldl
              (attachStep sqrt A tar_dir ms constraints.length)
              { B := s.B, attached_dimensions := s.attached_dimensions,
                constraints := constraints, new_element := 0 }).attached_dimensions,
            constraints := ((List.range A.length).foldl
              (attachStep sqrt A tar_dir ms constraints.length)
              { B := s.B, attached_dimensions := s.attached_dimensions,
                constraints := constraints, new_element := 0 }).constraints,
            steps := s.steps ++ [(tar_dir, ms)] }
          inv tar_dir tar_step ms hms.symm rfl rfl (fun j hj h => (g3 j hj).2 h)
        refine ⟨hfin, g1.trans inv.lenB, g2.trans inv.lenAtt, ?_⟩
        intro j hj ha
        have ha0 := (g3 j hj).2 ha
        simp only
        rw [(g3 j hj).1 ha0, inv.book j hj ha0, vsub_vadd, dot_vadd, dot_vscale]
        ring

/-- The main loop ends with the final property. -/
theorem positionLoop_spec {K : Type} [LinearOrderedField K] (sqrt : K → K)
    {A : List (Vector3 K)} {B0 : List K} {pos0 : Vector3 K} (p : Vector3 K) :
    ∀ count (s : PosState K), PosInv A B0 pos0 s →
      PosFinal A B0 pos0 (positionLoop sqrt A p count s) := by
  intro count
  induction count with
  | zero => intro s inv; exact inv.fin
  | succ count ih =>
    intro s inv
    unfold positionLoop
    obtain ⟨h1, h2⟩ := positionPass_spec sqrt p inv
    cases hpass : positionPass sqrt A p s with
    | ret s1 => exact h1 s1 hpass
    | next s1 => exact ih s1 (h2 s1 hpass)

/-! ## The position solver and the constraints it never attached -/

theorem vsub_self {K : Type} [LinearOrderedField K] (a : Vector3 K) : vsub a a = (0, 0, 0) := by
  simp [vsub]

theorem dot_zero {K : Type} [LinearOrderedField K] (a : Vector3 K) : dot a (0, 0, 0) = 0 := by
  simp [dot]

theorem PosInv_init {K : Type} [LinearOrderedField K] (AB : List (Vector3 K × K))
    (pos0 : Vector3 K) :
    PosInv (AB.map Prod.fst) (AB.map Prod.snd) pos0
      { pos := pos0, B := AB.map Prod.snd,
        attached_dimensions := List.replicate AB.length 0, constraints := [], steps := [] } where
  fin :=
    { disp := by simp [vsub_self, pathSum]
      nonneg := by intro st hst; simp at hst
      slack := by
        intro j _ _ hb
        simp only [vsub_self, dot_zero, pathLength, List.map_nil, List.sum_nil, mul_zero,
          add_zero]
        exact hb
      exact := by
        intro j _ _ hb _
        simp only [vsub_self, dot_zero]
        exact hb }
  lenB := by simp
  lenAtt := by simp
  book := by
    intro j _ _
    simp only [vsub_self, dot_zero, sub_zero]

/-- What the position solver keeps: for every vertex `v` of a closed manifold mesh and every
target `p`, `OptimizePosition` returns; the total displacement `D = out_V_[v]_after - out_V_[v]_before` is
the sum of the applied steps `max_step * tar_dir`, each with `max_step >= 0`; and every
generated constraint `(a_j, b_j)` with `b_j >= 0` that was never attached satisfies
`a_j . D <= b_j + ZERO_THRES * (sum of the max_step)`, and `a_j . D <= b_j` outright when no
step direction met it at a slope strictly between `0` and `ZERO_THRES`.  A constraint that was
attached is not covered: the solver may release it and cross it afterwards. -/
theorem OptimizePosition_unattached {K : Type} [LinearOrderedField K] (sqrt : K → K)
    (m : Projector K)
    (hm : ManifoldMesh m.out_F_ (m.num_F_ * 3) m.num_V_ m.V2E_ m.E2E_)
    (v : Nat) (hv : v < m.num_V_) (p : Vector3 K) (fuel : Nat) (hfuel : m.num_F_ * 3 ≤ fuel) :
    ∃ AB s, positionConstraints sqrt fuel m v = some AB ∧
      OptimizePosition sqrt fuel m v p = some s ∧
      vsub s.pos (m.out_V_.getD v (0, 0, 0)) = pathSum s.steps ∧
      (∀ st ∈ s.steps, 0 ≤ st.2) ∧
      ∀ j, j < AB.length → s.attached_dimensions.getD j 0 = 0 →
        0 ≤ (AB.map Prod.snd).getD j 0 →
        dot ((AB.map Prod.fst).getD j (0, 0, 0)) (vsub s.pos (m.out_V_.getD v (0, 0, 0)))
            ≤ (AB.map Prod.snd).getD j 0 + ZERO_THRES K * pathLength s.steps ∧
        (NoSmallSlope ((AB.map Prod.fst).getD j (0, 0, 0)) s.steps →
          dot ((AB.map Prod.fst).getD j (0, 0, 0)) (vsub s.pos (m.out_V_.getD v (0, 0, 0)))
            ≤ (AB.map Prod.snd).getD j 0) := by
  obtain ⟨d0, hd0, hget, _, _⟩ := ManifoldMesh_ring hm hv
  have hfold := ringFold_eq hm.valid hd0 (constraintStep sqrt m.out_F_ m.out_V_ m.out_N_) fuel
    hfuel []
  have hAB : positionConstraints sqrt fuel m v = some
      (((List.range (Function.minimalPeriod (nextN m.E2E_) d0)).map
        (fun i => (((nextN m.E2E_)^[i] d0 : Nat) : Int))).foldl
          (constraintStep sqrt m.out_F_ m.out_V_ m.out_N_) []) := by
    unfold positionConstraints
    simp only [hget, hfold]
  generalize ((List.range (Function.minimalPeriod (nextN m.E2E_) d0)).map
        (fun i => (((nextN m.E2E_)^[i] d0 : Nat) : Int))).foldl
          (constraintStep sqrt m.out_F_ m.out_V_ m.out_N_) [] = AB at hAB
  have hfin := positionLoop_spec sqrt p AB.length _ (PosInv_init AB (m.out_V_.getD v (0, 0, 0)))
  refine ⟨AB, _, hAB, by simp only [OptimizePosition, hAB], hfin.disp, hfin.nonneg, ?_⟩
  intro j hj ha hb
  have hj2 : j < (AB.map Prod.fst).length := by simpa using hj
  exact ⟨hfin.slack j hj2 ha hb, hfin.exact j hj2 ha hb⟩


theorem flatSqrt_9 : flatSqrt 9 = 3 := by
  norm_num [flatSqrt, sqrtAmong, List.find?]
theorem flatSqrt_16 : flatSqrt 16 = 4 := by
  norm_num [flatSqrt, sqrtAmong, List.find?]
theorem flatSqrt_25 : flatSqrt 25 = 5 := by
  norm_num [flatSqrt, sqrtAmong, List.find?]
theorem flatSqrt_off : flatSqrt ((1 + 1 / 100000000000000000000) * (1 + 1 / 100000000000000000000)) = 1 + 1 / 100000000000000000000 := by
  norm_num [flatSqrt, sqrtAmong, List.find?]

theorem flat_constraints : positionConstraints flatSqrt 13 flatQ 0 = some
    [((3 / 5, 4 / 5, 0), 2249999999999 / 1250000000000),
     ((3 / 5, 4 / 5, 0), 2249999999999 / 1250000000000),
     ((3 / 5, 4 / 5, 0), 2249999999999 / 1250000000000),
     ((-1, 0, 0), 1), ((-1, 0, 0), 1), ((-1, 0, 0), 1),
     ((0, -1, 0), 1 / 1000000000000), ((0, -1, 0), 1 / 1000000000000),
     ((0, -1, 0), 1 / 1000000000000)] := by
  have hV : flatQ.V2E_[0]? = some 6 := by decide
  have h1 : next_out flatQ.E2E_ 6 = some 3 := by decide
  have h2 : next_out flatQ.E2E_ 3 = some 0 := by decide
  have h3 : next_out flatQ.E2E_ 0 = some 6 := by decide
  have f60 : faceI flatQ.out_F_ 6 0 = 0 := by decide
  have f61 : faceI flatQ.out_F_ 6 1 = 2 := by decide
  have f62 : faceI flatQ.out_F_ 6 2 = 3 := by decide
  have f30 : faceI flatQ.out_F_ 3 0 = 0 := by decide
  have f31 : faceI flatQ.out_F_ 3 1 = 3 := by decide
  have f32 : faceI flatQ.out_F_ 3 2 = 1 := by decide
  have f00 : faceI flatQ.out_F_ 0 0 = 0 := by decide
  have f01 : faceI flatQ.out_F_ 0 1 = 1 := by decide
  have f02 : faceI flatQ.out_F_ 0 2 = 2 := by decide
  have c6 : constraintOf flatSqrt flatQ.out_V_ 0 2 3 (0, 0, 1) = ((3 / 5, 4 / 5, 0), 2249999999999 / 1250000000000) := by
    simp only [constraintOf, flatQ, List.getD_cons_zero, List.getD_cons_succ]
    norm_num [vsub, cross, normalized, dot, vdiv, flatSqrt_25]
  have c3 : constraintOf flatSqrt flatQ.out_V_ 0 3 1 (0, 0, 1) = ((-1, 0, 0), 1) := by
    simp only [constraintOf, flatQ, List.getD_cons_zero, List.getD_cons_succ]
    norm_num [vsub, cross, normalized, dot, vdiv, flatSqrt_9]
  have c0 : constraintOf flatSqrt flatQ.out_V_ 0 1 2 (0, 0, 1) = ((0, -1, 0), 1 / 1000000000000) := by
    simp only [constraintOf, flatQ, List.getD_cons_zero, List.getD_cons_succ]
    norm_num [vsub, cross, normalized, dot, vdiv, flatSqrt_16]
  have hN : ∀ k, k < 4 → flatQ.out_N_.getD k (0, 0, 0) = (0, 0, 1) := by
    intro k hk
    interval_cases k <;> rfl
  simp only [positionConstraints, hV, ringFold, h1, h2, h3, constraintStep, f60, f61, f62, f30, f31, f32,
    f00, f01, f02]
  rw [hN 0 (by norm_num), hN 1 (by norm_num), hN 2 (by norm_num), hN 3 (by norm_num), c6, c3, c0]
  simp

theorem flat_offset : vsub flatTarget (flatQ.out_V_.getD 0 (0, 0, 0)) =
    (0, -(2 / 10000000000), 1 - 1 / 100000000000000000000) := by
  simp only [flatQ, List.getD_cons_zero, flatTarget, vsub]
  norm_num

theorem flat_run : OptimizePosition flatSqrt 13 flatQ 0 flatTarget = some
    { pos := flatTarget,
      B := [2249999999999 / 1250000000000, 2249999999999 / 1250000000000,
        2249999999999 / 1250000000000, 1, 1, 1, 1 / 1000000000000, 1 / 1000000000000,
        1 / 1000000000000],
      attached_dimensions := [0, 0, 0, 0, 0, 0, 0, 0, 0],
      constraints := [],
      steps := [((0, -(20000000000 / 100000000000000000001),
        99999999999999999999 / 100000000000000000001),
        100000000000000000001 / 100000000000000000000)] } := by
  have hn : norm flatSqrt (0, -(2 / 10000000000), 1 - 1 / 100000000000000000000)
      = 1 + 1 / 100000000000000000000 := by
    rw [← flatSqrt_off]
    simp only [norm, dot]
    norm_num
  simp only [OptimizePosition, flat_constraints, List.length_cons, List.length_nil, List.map_cons,
    List.map_nil, positionLoop, positionPass, flat_offset, hn, projectStep, List.getLast?_nil]
  norm_num [ZERO_THRES, limitStep, List.range_succ, vdiv, dot, vadd, vscale, flatQ, flatTarget,
    List.replicate]

/-- The statement on the constraints never attached, applied to vertex `0` of the flat
tetrahedron `flatQ` and the target `flatTarget`. -/
theorem OptimizePosition_unattached_witness :
    ManifoldMesh flatQ.out_F_ (flatQ.num_F_ * 3) flatQ.num_V_ flatQ.V2E_ flatQ.E2E_ ∧
    0 < flatQ.num_V_ ∧ flatQ.num_F_ * 3 ≤ 13 ∧
    ∃ AB s, positionConstraints flatSqrt 13 flatQ 0 = some AB ∧
      OptimizePosition flatSqrt 13 flatQ 0 flatTarget = some s ∧
      vsub s.pos (flatQ.out_V_.getD 0 (0, 0, 0)) = pathSum s.steps ∧
      (∀ st ∈ s.steps, 0 ≤ st.2) ∧
      ∀ j, j < AB.length → s.attached_dimensions.getD j 0 = 0 →
        0 ≤ (AB.map Prod.snd).getD j 0 →
        dot ((AB.map Prod.fst).getD j (0, 0, 0)) (vsub s.pos (flatQ.out_V_.getD 0 (0, 0, 0)))
            ≤ (AB.map Prod.snd).getD j 0 + ZERO_THRES ℚ * pathLength s.steps ∧
        (NoSmallSlope ((AB.map Prod.fst).getD j (0, 0, 0)) s.steps →
          dot ((AB.map Prod.fst).getD j (0, 0, 0)) (vsub s.pos (flatQ.out_V_.getD 0 (0, 0, 0)))
            ≤ (AB.map Prod.snd).getD j 0) :=
  ⟨⟨⟨by decide, by decide⟩, by decide, by decide, by decide⟩, by decide, by decide,
    OptimizePosition_unattached flatSqrt flatQ
      ⟨⟨by decide, by decide⟩, by decide, by decide, by decide⟩ 0 (by decide) flatTarget 13
      (by decide)⟩

/-- The guard `denominator < ZERO_THRES` of the step computation lets a constraint that was
never attached be crossed by a small amount: on the closed manifold mesh `flatQ`, whose
vertex `0` lies `1e-12` above the edge from vertex `1` to vertex `2`, the nine generated constraints all have
`b_j ≥ 0`, and with the target `flatTarget` (the square roots taken exactly) the solver applies
the whole offset in one step, because the slope `2e-10 / (1 + 1e-20)` of the step against the
constraint `a_6 = (0, -1, 0)`, `b_6 = 1e-12` is below `ZERO_THRES`.  The vertex ends at
`flatTarget`, where `a_6 . D = 2e-10 > b_6`. -/
theorem OptimizePosition_small_slope_violation :
    ManifoldMesh flatQ.out_F_ (flatQ.num_F_ * 3) flatQ.num_V_ flatQ.V2E_ flatQ.E2E_ ∧
    flatSqrt (3 * 3) = 3 ∧ flatSqrt (4 * 4) = 4 ∧ flatSqrt (5 * 5) = 5 ∧
    flatSqrt ((1 + 1 / 100000000000000000000) * (1 + 1 / 100000000000000000000))
      = 1 + 1 / 100000000000000000000 ∧
    ∃ AB s, positionConstraints flatSqrt 13 flatQ 0 = some AB ∧
      OptimizePosition flatSqrt 13 flatQ 0 flatTarget = some s ∧
      AB.length = 9 ∧
      (∀ j, j < AB.length → 0 ≤ (AB.map Prod.snd).getD j 0) ∧
      (AB.map Prod.fst).getD 6 (0, 0, 0) = (0, -1, 0) ∧
      (AB.map Prod.snd).getD 6 0 = 1 / 1000000000000 ∧
      s.pos = flatTarget ∧
      s.attached_dimensions.getD 6 0 = 0 ∧
      dot ((AB.map Prod.fst).getD 6 (0, 0, 0)) (vsub s.pos (flatQ.out_V_.getD 0 (0, 0, 0)))
        = 2 / 10000000000 ∧
      (AB.map Prod.snd).getD 6 0
        < dot ((AB.map Prod.fst).getD 6 (0, 0, 0))
            (vsub s.pos (flatQ.out_V_.getD 0 (0, 0, 0))) := by
  refine ⟨⟨⟨by decide, by decide⟩, by decide, by decide, by decide⟩, ?_, ?_, ?_, flatSqrt_off,
    _, _, flat_constraints, flat_run, rfl, ?_, rfl, rfl, rfl, rfl, ?_, ?_⟩
  · norm_num [flatSqrt_9]
  · norm_num [flatSqrt_16]
  · norm_num [flatSqrt_25]
  · intro j hj
    have hj9 : j < 9 := hj
    interval_cases j <;> norm_num
  · rw [flat_offset]
    norm_num [dot]
  · rw [flat_offset]
    norm_num [dot]

/-! ## Facts on the list model of `std::map` -/

theorem mapFind_mapSet {κ ν : Type} [LinearOrder κ] (m : List (κ × ν)) (k : κ) (v : ν) (k2 : κ) :
    mapFind (mapSet m k v) k2 = if k2 = k then some v else mapFind m k2 := by
  induction m with
  | nil => simp [mapSet, mapFind]
  | cons e rest ih =>
    obtain ⟨k1, v1⟩ := e
    unfold mapSet
    by_cases h1 : k < k1
    · simp only [h1, if_true]
      simp only [mapFind]
    · simp only [h1, if_false]
      by_cases h2 : k = k1
      · simp only [h2, if_true]
        simp only [mapFind]
        by_cases h3 : k2 = k1
        · simp [h3]
        · simp [h3]
      · simp only [h2, if_false]
        simp only [mapFind, ih]
        by_cases h3 : k2 = k1
        · have : k2 ≠ k := by rw [h3]; exact fun h => h2 h.symm
          simp [h3, this, h2, Ne.symm h2]
        · simp [h3]


theorem mem_mapSet {κ ν : Type} [LinearOrder κ] (m : List (κ × ν)) (hs : MapSorted m) (k : κ)
    (v : ν) (e : κ × ν) :
    e ∈ mapSet m k v ↔ e = (k, v) ∨ (e ∈ m ∧ e.1 ≠ k) := by
  induction m with
  | nil => simp [mapSet]
  | cons e1 rest ih =>
    obtain ⟨k1, v1⟩ := e1
    have hs1 := List.pairwise_cons.mp hs
    unfold mapSet
    by_cases h1 : k < k1
    · simp only [h1, if_true, List.mem_cons]
      constructor
      · rintro (h | h | h)
        · exact Or.inl h
        · refine Or.inr ⟨Or.inl h, ?_⟩
          rw [h]; exact ne_of_gt h1
        · refine Or.inr ⟨Or.inr h, ?_⟩
          exact ne_of_gt (lt_trans h1 (hs1.1 e h))
      · rintro (h | ⟨h | h, _⟩)
        · exact Or.inl h
        · exact Or.inr (Or.inl h)
        · exact Or.inr (Or.inr h)
    · simp only [h1, if_false]
      by_cases h2 : k = k1
      · simp only [h2, if_true, List.mem_cons]
        constructor
        · rintro (h | h)
          · exact Or.inl h
          · exact Or.inr ⟨Or.inr h, ne_of_gt (hs1.1 e h)⟩
        · rintro (h | ⟨h | h, hne⟩)
          · exact Or.inl h
          · exact absurd (by rw [h]) hne
          · exact Or.inr h
      · simp only [h2, if_false, List.mem_cons, ih hs1.2]
        constructor
        · rintro (h | h | ⟨h, hne⟩)
          · refine Or.inr ⟨Or.inl h, ?_⟩
            rw [h]; exact fun h3 => h2 h3.symm
          · exact Or.inl h
          · exact Or.inr ⟨Or.inr h, hne⟩
        · rintro (h | ⟨h | h, hne⟩)
          · exact Or.inr (Or.inl h)
          · exact Or.inl h
          · exact Or.inr (Or.inr ⟨h, hne⟩)

theorem mapSet_sorted {κ ν : Type} [LinearOrder κ] (m : List (κ × ν)) (hs : MapSorted m) (k : κ)
    (v : ν) : MapSorted (mapSet m k v) := by
  induction m with
  | nil => simp [mapSet, MapSorted]
  | cons e1 rest ih =>
    obtain ⟨k1, v1⟩ := e1
    have hs1 := List.pairwise_cons.mp hs
    unfold mapSet
    by_cases h1 : k < k1
    · simp only [h1, if_true]
      refine List.pairwise_cons.mpr ⟨?_, hs⟩
      intro e he
      rcases List.mem_cons.mp he with h | h
      · rw [h]; exact h1
      · exact lt_trans h1 (hs1.1 e h)
    · simp only [h1, if_false]
      by_cases h2 : k = k1
      · simp only [h2, if_true]
        exact List.pairwise_cons.mpr ⟨hs1.1, hs1.2⟩
      · simp only [h2, if_false]
        refine List.pairwise_cons.mpr ⟨?_, ih hs1.2⟩
        intro e he
        rcases (mem_mapSet rest hs1.2 k v e).mp he with h | ⟨h, _⟩
        · rw [h]
          exact lt_of_le_of_ne (not_lt.mp h1) (fun h3 => h2 h3.symm)
        · exact hs1.1 e h

theorem mapFind_eq_some_iff {κ ν : Type} [LinearOrder κ] (m : List (κ × ν)) (hs : MapSorted m)
    (k : κ) (v : ν) : mapFind m k = some v ↔ (k, v) ∈ m := by
  induction m with
  | nil => simp [mapFind]
  | cons e1 rest ih =>
    obtain ⟨k1, v1⟩ := e1
    have hs1 := List.pairwise_cons.mp hs
    unfold mapFind
    by_cases h : k = k1
    · simp only [h, if_true, List.mem_cons, Option.some.injEq, Prod.mk.injEq, true_and]
      constructor
      · intro h2; exact Or.inl h2.symm
      · rintro (h2 | h2)
        · exact h2.symm
        · exact absurd (hs1.1 _ h2) (lt_irrefl _)
    · simp only [h, if_false, List.mem_cons, Prod.mk.injEq, false_and, false_or]
      exact ih hs1.2

theorem mapFind_isSome_iff {κ ν : Type} [LinearOrder κ] (m : List (κ × ν)) (k : κ) :
    (mapFind m k).isSome ↔ ∃ v, (k, v) ∈ m := by
  induction m with
  | nil => simp [mapFind]
  | cons e1 rest ih =>
    obtain ⟨k1, v1⟩ := e1
    unfold mapFind
    by_cases h : k = k1
    · simp only [h, if_true, Option.isSome_some, List.mem_cons, Prod.mk.injEq, true_and,
        true_iff]
      exact ⟨v1, Or.inl rfl⟩
    · simp only [h, if_false, ih, List.mem_cons, Prod.mk.injEq, false_and, false_or]

theorem MapSorted_nil {κ ν : Type} [LinearOrder κ] : MapSorted ([] : List (κ × ν)) :=
  List.Pairwise.nil

theorem MapSorted_keys_nodup {κ ν : Type} [LinearOrder κ] (m : List (κ × ν))
    (hs : MapSorted m) : (m.map Prod.fst).Nodup := by
  unfold MapSorted at hs
  rw [List.Nodup, List.pairwise_map]
  exact hs.imp (fun h => ne_of_lt h)
/-! ## The loop that inserts vertices -/

theorem SplitsInv_congr {num_F : Nat} {μ μ2 : Nat → Int} {fs : List (Nat × List Int)}
    (h : ∀ d, d < num_F * 3 → μ d = μ2 d) (inv : SplitsInv num_F μ fs) :
    SplitsInv num_F μ2 fs := by
  refine ⟨inv.sorted, inv.keys_lt, ?_⟩
  intro f hf
  have h0 := h (f * 3) (by omega)
  have h1 := h (f * 3 + 1) (by omega)
  have h2 := h (f * 3 + 2) (by omega)
  rw [inv.find f hf]
  simp only [IsSplit, marksOf, h0, h1, h2]

theorem marksOf_update_at (μ : Nat → Int) (f j : Nat) (hj : j < 3) (m : Int) :
    marksOf (Function.update μ (f * 3 + j) m) f = (marksOf μ f).set j m := by
  have n01 : f * 3 ≠ f * 3 + 1 := by omega
  have n02 : f * 3 ≠ f * 3 + 2 := by omega
  have n10 : f * 3 + 1 ≠ f * 3 := by omega
  have n12 : f * 3 + 1 ≠ f * 3 + 2 := by omega
  have n20 : f * 3 + 2 ≠ f * 3 := by omega
  have n21 : f * 3 + 2 ≠ f * 3 + 1 := by omega
  interval_cases j
  · simp only [marksOf, Nat.add_zero, Function.update_same, Function.update_noteq n10,
      Function.update_noteq n20, List.set_cons_zero]
  · simp only [marksOf, Function.update_same, Function.update_noteq n01,
      Function.update_noteq n21, List.set_cons_zero, List.set_cons_succ]
  · simp only [marksOf, Function.update_same, Function.update_noteq n02,
      Function.update_noteq n12, List.set_cons_zero, List.set_cons_succ]

theorem marksOf_update (μ : Nat → Int) (d : Nat) (m : Int) :
    marksOf (Function.update μ d m) (d / 3) = (marksOf μ (d / 3)).set (d % 3) m := by
  have h := marksOf_update_at μ (d / 3) (d % 3) (Nat.mod_lt _ (by norm_num)) m
  rwa [div_mul_add_mod3] at h

theorem IsSplit_update_self (μ : Nat → Int) (d : Nat) (m : Int) (hm : 0 ≤ m) :
    IsSplit (Function.update μ d m) (d / 3) := by
  have h3 : d % 3 = 0 ∨ d % 3 = 1 ∨ d % 3 = 2 := by omega
  have hd := div_mul_add_mod3 d
  unfold IsSplit
  rcases h3 with h | h | h
  · have e0 : d / 3 * 3 = d := by omega
    left; rw [e0, Function.update_same]; exact hm
  · have e0 : d / 3 * 3 + 1 = d := by omega
    right; left; rw [e0, Function.update_same]; exact hm
  · have e0 : d / 3 * 3 + 2 = d := by omega
    right; right; rw [e0, Function.update_same]; exact hm

theorem markSplit_spec {num_F : Nat} {μ : Nat → Int} {fs : List (Nat × List Int)}
    (inv : SplitsInv num_F μ fs) (hμ : ∀ x, μ x = -1 ∨ 0 ≤ μ x) (d : Nat)
    (hd : d < num_F * 3) (m : Nat) :
    SplitsInv num_F (Function.update μ d (m : Int)) (markSplit fs d m) := by
  have hf0 : d / 3 < num_F := by omega
  have hvec : ∃ vec, markSplit fs d m = mapSet fs (d / 3) vec ∧
      vec = marksOf (Function.update μ d (m : Int)) (d / 3) := by
    unfold markSplit
    rw [inv.find _ hf0]
    by_cases hs : IsSplit μ (d / 3)
    · simp only [hs, if_true]
      exact ⟨_, rfl, (marksOf_update μ d m).symm⟩
    · simp only [hs, if_false]
      refine ⟨_, rfl, ?_⟩
      rw [marksOf_update]
      unfold IsSplit at hs
      push_neg at hs
      have a0 : μ (d / 3 * 3) = -1 := by
        rcases hμ (d / 3 * 3) with h | h
        · exact h
        · omega
      have a1 : μ (d / 3 * 3 + 1) = -1 := by
        rcases hμ (d / 3 * 3 + 1) with h | h
        · exact h
        · omega
      have a2 : μ (d / 3 * 3 + 2) = -1 := by
        rcases hμ (d / 3 * 3 + 2) with h | h
        · exact h
        · omega
      simp only [marksOf, a0, a1, a2]
  obtain ⟨vec, hfs, hv⟩ := hvec
  rw [hfs]
  refine ⟨mapSet_sorted fs inv.sorted _ _, ?_, ?_⟩
  · intro e he
    rcases (mem_mapSet fs inv.sorted _ _ e).mp he with h | ⟨h, _⟩
    · rw [h]; exact hf0
    · exact inv.keys_lt e h
  · intro f hf
    rw [mapFind_mapSet]
    by_cases hff : f = d / 3
    · simp only [hff, if_true]
      rw [if_pos (IsSplit_update_self μ d m (Int.natCast_nonneg m)), hv]
    · simp only [hff, if_false]
      rw [inv.find f hf]
      have n0 : f * 3 ≠ d := by omega
      have n1 : f * 3 + 1 ≠ d := by omega
      have n2 : f * 3 + 2 ≠ d := by omega
      simp only [IsSplit, marksOf, Function.update_noteq n0, Function.update_noteq n1,
        Function.update_noteq n2]

theorem edgeRep_eq_iff {F : List Nat} {n : Nat} {E2E : List Int} (hv : ValidE2E F n E2E)
    {c d : Nat} (hc : c < n) (hce : c < e2eN E2E c) (hd : d < n) :
    edgeRep E2E d = c ↔ d = c ∨ d = e2eN E2E c := by
  unfold edgeRep
  constructor
  · intro h
    by_cases h1 : d < e2eN E2E d
    · rw [if_pos h1] at h; exact Or.inl h
    · rw [if_neg h1] at h
      right
      rw [← h, ValidE2E_e2eN_e2eN hv hd]
  · rintro (h | h)
    · rw [h, if_pos hce]
    · have h2 : e2eN E2E d = c := by rw [h, ValidE2E_e2eN_e2eN hv hc]
      rw [h2, if_neg (by omega)]

theorem midOf_nil (E2E : List Int) (num_V d : Nat) : midOf E2E num_V [] d = -1 := by
  simp [midOf]

theorem midOf_range (E2E : List Int) (num_V : Nat) (cs : List Nat) (d : Nat) :
    midOf E2E num_V cs d = -1 ∨
      ((num_V : Int) ≤ midOf E2E num_V cs d ∧ midOf E2E num_V cs d < (num_V + cs.length : Nat)) := by
  unfold midOf
  by_cases h : edgeRep E2E d ∈ cs
  · rw [if_pos h]
    right
    have := List.indexOf_lt_length.mpr h
    constructor <;> omega
  · rw [if_neg h]; left; rfl

theorem midOf_snoc {F : List Nat} {n : Nat} {E2E : List Int} (hv : ValidE2E F n E2E)
    (num_V : Nat) (cs : List Nat) {c : Nat} (hc : c < n) (hce : c < e2eN E2E c)
    (hnot : c ∉ cs) {d : Nat} (hd : d < n) :
    midOf E2E num_V (cs ++ [c]) d
      = Function.update (Function.update (midOf E2E num_V cs) c ((num_V + cs.length : Nat) : Int))
          (e2eN E2E c) ((num_V + cs.length : Nat) : Int) d := by
  have hiff := edgeRep_eq_iff hv hc hce hd
  by_cases h1 : d = e2eN E2E c
  · rw [h1, Function.update_same]
    have hr : edgeRep E2E (e2eN E2E c) = c := by
      rw [← h1]; exact hiff.mpr (Or.inr h1)
    unfold midOf
    rw [hr, if_pos (by simp), List.indexOf_append_of_not_mem hnot]
    simp
  · rw [Function.update_noteq h1]
    by_cases h2 : d = c
    · have hr : edgeRep E2E c = c := by
        have := hiff.mpr (Or.inl h2)
        rwa [h2] at this
      rw [h2, Function.update_same]
      unfold midOf
      rw [hr, if_pos (by simp), List.indexOf_append_of_not_mem hnot]
      simp
    · rw [Function.update_noteq h2]
      have hr : edgeRep E2E d ≠ c := fun h => by
        rcases hiff.mp h with h | h
        · exact h2 h
        · exact h1 h
      unfold midOf
      by_cases h3 : edgeRep E2E d ∈ cs
      · rw [if_pos h3, if_pos (List.mem_append_left _ h3), List.indexOf_append_of_mem h3]
      · rw [if_neg h3, if_neg]
        simp only [List.mem_append, List.mem_singleton, not_or]
        exact ⟨h3, hr⟩
theorem insertVertex_eq {F : List Nat} {n : Nat} {E2E : List Int} (hv : ValidE2E F n E2E)
    (s : VertexState) {c : Nat} (hc : c < n) :
    insertVertex E2E s c = some
      { num_V_ := s.num_V_ + 1,
        face_splits := markSplit (markSplit s.face_splits c s.num_V_) (e2eN E2E c) s.num_V_ } := by
  obtain ⟨_, h1, h2, _⟩ := ValidE2E_e2eN hv hc
  unfold insertVertex
  simp only [h1, Int.toNat_ofNat, h2]
  rw [if_neg (by omega), if_neg (by omega)]

theorem insertVertices_spec {F : List Nat} {num_F : Nat} {E2E : List Int}
    (hv : ValidE2E F (num_F * 3) E2E) (num_V : Nat) :
    ∀ (cs pre : List Nat) (s : VertexState),
      (∀ c ∈ cs, c < num_F * 3 ∧ c < e2eN E2E c) → (pre ++ cs).Nodup →
      s.num_V_ = num_V + pre.length →
      SplitsInv num_F (midOf E2E num_V pre) s.face_splits →
      ∃ fs, cs.foldlM (insertVertex E2E) s
          = some { num_V_ := num_V + (pre ++ cs).length, face_splits := fs } ∧
        SplitsInv num_F (midOf E2E num_V (pre ++ cs)) fs := by
  intro cs
  induction cs with
  | nil =>
    intro pre s _ _ hnum inv
    refine ⟨s.face_splits, ?_, ?_⟩
    · simp only [List.foldlM_nil, List.append_nil, ← hnum]
      rfl
    · simpa using inv
  | cons c cs ih =>
    intro pre s hc hnd hnum inv
    have hcc := hc c (List.mem_cons_self _ _)
    have hnot : c ∉ pre := by
      intro h
      have := List.nodup_append.mp hnd
      exact this.2.2 h (List.mem_cons_self _ _) 
    have hμ : ∀ x, midOf E2E num_V pre x = -1 ∨ 0 ≤ midOf E2E num_V pre x := by
      intro x
      rcases midOf_range E2E num_V pre x with h | h
      · exact Or.inl h
      · right; omega
    have inv1 := markSplit_spec inv hμ c hcc.1 s.num_V_
    have hμ1 : ∀ x, Function.update (midOf E2E num_V pre) c (s.num_V_ : Int) x = -1 ∨
        0 ≤ Function.update (midOf E2E num_V pre) c (s.num_V_ : Int) x := by
      intro x
      by_cases hx : x = c
      · rw [hx, Function.update_same]; right; omega
      · rw [Function.update_noteq hx]; exact hμ x
    have inv2 := markSplit_spec inv1 hμ1 (e2eN E2E c) (ValidE2E_e2eN hv hcc.1).1 s.num_V_
    have inv3 : SplitsInv num_F (midOf E2E num_V (pre ++ [c]))
        (markSplit (markSplit s.face_splits c s.num_V_) (e2eN E2E c) s.num_V_) := by
      refine SplitsInv_congr ?_ inv2
      intro d hd
      rw [midOf_snoc hv num_V pre hcc.1 hcc.2 hnot hd, hnum]
    rw [List.foldlM_cons, insertVertex_eq hv s hcc.1]
    have hnd2 : ((pre ++ [c]) ++ cs).Nodup := by simpa using hnd
    obtain ⟨fs, h1, h2⟩ := ih (pre ++ [c])
      { num_V_ := s.num_V_ + 1,
        face_splits := markSplit (markSplit s.face_splits c s.num_V_) (e2eN E2E c) s.num_V_ }
      (fun x hx => hc x (List.mem_cons_of_mem _ hx)) hnd2
      (by simp only [List.length_append, List.length_singleton]; omega) inv3
    refine ⟨fs, ?_, ?_⟩
    · simp only [Option.some_bind, Option.bind_eq_bind] 
      rw [h1]
      simp
    · simpa using h2
/-! ## Rows of the face matrix under `setRow` and `AddFace` -/

theorem length_setRow (F : List Nat) (f a b c : Nat) : (setRow F f a b c).length = F.length := by
  simp [setRow]

theorem length_resizeWith {α : Type} (junk : Nat → α) (a : List α) (size : Nat) :
    (resizeWith junk a size).length = size := by
  simp [resizeWith]

theorem getD_resizeWith {α : Type} (junk : Nat → α) (a : List α) (size i : Nat) (d : α)
    (hi : i < a.length) (hs : a.length ≤ size) :
    (resizeWith junk a size).getD i d = a.getD i d := by
  have h2 : i < size := by omega
  simp [resizeWith, List.getD_eq_getElem?_getD, List.getElem?_map, List.getElem?_range h2, hi]

theorem getElem?_resizeWith {α : Type} (junk : Nat → α) (a : List α) (size i : Nat)
    (hi : i < a.length) (hs : a.length ≤ size) :
    (resizeWith junk a size)[i]? = a[i]? := by
  have h2 : i < size := by omega
  simp [resizeWith, List.getElem?_map, List.getElem?_range h2, hi]

theorem rowOf_setRow_eq (F : List Nat) (f a b c : Nat) (h : f * 3 + 2 < F.length) :
    rowOf (setRow F f a b c) f = (a, b, c) := by
  simp only [rowOf, faceAt, setRow, Nat.add_zero]
  refine Prod.ext ?_ (Prod.ext ?_ ?_)
  · show (((F.set (f * 3) a).set (f * 3 + 1) b).set (f * 3 + 2) c).getD (f * 3) 0 = a
    rw [getD_set_ne _ _ _ _ _ (by omega), getD_set_ne _ _ _ _ _ (by omega),
      getD_set_eq _ _ _ _ (by omega)]
  · show (((F.set (f * 3) a).set (f * 3 + 1) b).set (f * 3 + 2) c).getD (f * 3 + 1) 0 = b
    rw [getD_set_ne _ _ _ _ _ (by omega), getD_set_eq _ _ _ _ (by simp; omega)]
  · show (((F.set (f * 3) a).set (f * 3 + 1) b).set (f * 3 + 2) c).getD (f * 3 + 2) 0 = c
    rw [getD_set_eq _ _ _ _ (by simp; omega)]

theorem rowOf_setRow_ne (F : List Nat) (f g a b c : Nat) (h : g ≠ f) :
    rowOf (setRow F f a b c) g = rowOf F g := by
  simp only [rowOf, faceAt, setRow, Nat.add_zero]
  rw [getD_set_ne _ _ _ _ _ (by omega), getD_set_ne _ _ _ _ _ (by omega),
    getD_set_ne _ _ _ _ _ (by omega), getD_set_ne _ _ _ _ _ (by omega),
    getD_set_ne _ _ _ _ _ (by omega), getD_set_ne _ _ _ _ _ (by omega),
    getD_set_ne _ _ _ _ _ (by omega), getD_set_ne _ _ _ _ _ (by omega),
    getD_set_ne _ _ _ _ _ (by omega)]

theorem rowOf_resizeWith (junk : Nat → Nat) (F : List Nat) (size g : Nat)
    (hg : g * 3 + 2 < F.length) (hs : F.length ≤ size) :
    rowOf (resizeWith junk F size) g = rowOf F g := by
  simp only [rowOf, faceAt, Nat.add_zero]
  rw [getD_resizeWith _ _ _ _ _ (by omega) hs, getD_resizeWith _ _ _ _ _ (by omega) hs,
    getD_resizeWith _ _ _ _ _ (by omega) hs]

theorem tris_length (F : List Nat) (num_F : Nat) : (tris F num_F).length = num_F := by
  simp [tris]

theorem tris_getElem? (F : List Nat) (num_F g : Nat) (hg : g < num_F) :
    (tris F num_F)[g]? = some (rowOf F g) := by
  simp [tris, List.getElem?_map, List.getElem?_range hg]

theorem tris_succ (F : List Nat) (num_F : Nat) :
    tris F (num_F + 1) = tris F num_F ++ [rowOf F num_F] := by
  simp [tris, List.range_succ]

theorem tris_congr (F G : List Nat) (num_F : Nat) (h : ∀ g, g < num_F → rowOf F g = rowOf G g) :
    tris F num_F = tris G num_F := by
  unfold tris
  apply List.map_congr_left
  intro g hg
  exact h g (List.mem_range.mp hg)

theorem tris_setRow (F : List Nat) (num_F f a b c : Nat) (hf : f < num_F)
    (hcap : num_F * 3 ≤ F.length) :
    tris (setRow F f a b c) num_F = (tris F num_F).set f (a, b, c) := by
  apply List.ext_getElem?
  intro g
  by_cases hg : g < num_F
  · rw [tris_getElem? _ _ _ hg, List.getElem?_set]
    by_cases hgf : f = g
    · rw [if_pos hgf, tris_length, if_pos hf, ← hgf, rowOf_setRow_eq _ _ _ _ _ (by omega)]
    · rw [if_neg hgf, tris_getElem? _ _ _ hg, rowOf_setRow_ne _ _ _ _ _ _ (Ne.symm hgf)]
  · rw [List.getElem?_eq_none (by rw [tris_length]; omega),
      List.getElem?_eq_none (by rw [List.length_set, tris_length]; omega)]

/-- What `AddFace` does to the rows of the face matrix. -/
theorem AddFace_spec (junk : Nat → Nat) (s : FaceState) (a b c : Nat)
    (hcap : s.num_F_ * 3 ≤ s.out_F_.length) (hpos : 0 < s.num_F_) :
    (AddFace junk s a b c).num_F_ = s.num_F_ + 1 ∧
    (AddFace junk s a b c).dedges = s.dedges ∧
    (AddFace junk s a b c).num_F_ * 3 ≤ (AddFace junk s a b c).out_F_.length ∧
    tris (AddFace junk s a b c).out_F_ (AddFace junk s a b c).num_F_
      = tris s.out_F_ s.num_F_ ++ [(a, b, c)] := by
  unfold AddFace
  simp only
  by_cases hfull : s.out_F_.length / 3 ≤ s.num_F_
  · rw [if_pos hfull]
    have hlen : s.out_F_.length ≤ s.out_F_.length / 3 * 2 * 3 := by omega
    refine ⟨trivial, trivial, ?_, ?_⟩
    · rw [length_setRow, length_resizeWith]; omega
    · rw [tris_succ, rowOf_setRow_eq _ _ _ _ _ (by rw [length_resizeWith]; omega)]
      congr 1
      apply tris_congr
      intro g hg
      rw [rowOf_setRow_ne _ _ _ _ _ _ (by omega), rowOf_resizeWith _ _ _ _ (by omega) hlen]
  · rw [if_neg hfull]
    refine ⟨trivial, trivial, ?_, ?_⟩
    · rw [length_setRow]; omega
    · rw [tris_succ, rowOf_setRow_eq _ _ _ _ _ (by omega)]
      congr 1
      apply tris_congr
      intro g hg
      rw [rowOf_setRow_ne _ _ _ _ _ _ (by omega)]
theorem addFaces_spec (junk : Nat → Nat) (l : List (Nat × Nat × Nat)) :
    ∀ (s : FaceState), s.num_F_ * 3 ≤ s.out_F_.length → 0 < s.num_F_ →
      (addFaces junk s l).num_F_ = s.num_F_ + l.length ∧
      (addFaces junk s l).dedges = s.dedges ∧
      (addFaces junk s l).num_F_ * 3 ≤ (addFaces junk s l).out_F_.length ∧
      tris (addFaces junk s l).out_F_ (addFaces junk s l).num_F_ = tris s.out_F_ s.num_F_ ++ l := by
  induction l with
  | nil =>
    intro s hcap _
    simp [addFaces, hcap]
  | cons t l ih =>
    intro s hcap hpos
    obtain ⟨a1, a2, a3, a4⟩ := AddFace_spec junk s t.1 t.2.1 t.2.2 hcap hpos
    obtain ⟨b1, b2, b3, b4⟩ := ih (AddFace junk s t.1 t.2.1 t.2.2) a3 (by omega)
    have e : addFaces junk s (t :: l) = addFaces junk (AddFace junk s t.1 t.2.1 t.2.2) l := rfl
    rw [e]
    refine ⟨by rw [b1, a1, List.length_cons]; omega, by rw [b2, a2], b3, ?_⟩
    rw [b4, a4]
    simp

/-- The effect of the loop body that inserts faces, for a face with at least one mark. -/
theorem splitFace_spec (junk : Nat → Nat) (E2E : List Int) (s : FaceState) (f : Nat)
    (s0 s1 s2 : Int) (h0 : s0 = -1 ∨ 0 ≤ s0) (h1 : s1 = -1 ∨ 0 ≤ s1) (h2 : s2 = -1 ∨ 0 ≤ s2)
    (hsome : 0 ≤ s0 ∨ 0 ≤ s1 ∨ 0 ≤ s2)
    (hE : ∀ i, i < 3 → f * 3 + i < E2E.length) :
    splitFace junk E2E s (f, [s0, s1, s2]) = some
        (addFaces junk
          { s with out_F_ := setRow s.out_F_ f
                     ((kidsOf (rowOf s.out_F_ f) [s0, s1, s2]).headD (0, 0, 0)).1
                     ((kidsOf (rowOf s.out_F_ f) [s0, s1, s2]).headD (0, 0, 0)).2.1
                     ((kidsOf (rowOf s.out_F_ f) [s0, s1, s2]).headD (0, 0, 0)).2.2,
                   dedges := (stubsOf E2E f (rowOf s.out_F_ f) [s0, s1, s2]).foldl
                     (fun m e => mapSet m e.1 e.2) s.dedges }
          (kidsOf (rowOf s.out_F_ f) [s0, s1, s2]).tail) := by
  have hEx : ∀ i, i < 3 → ∃ e, E2E[f * 3 + i]? = some e ∧ E2E.getD (f * 3 + i) 0 = e := by
    intro i hi
    have := hE i hi
    exact ⟨E2E[f * 3 + i], List.getElem?_eq_getElem this,
      by rw [List.getD_eq_getElem?_getD, List.getElem?_eq_getElem this]; rfl⟩
  obtain ⟨e0, hE0, hD0⟩ := hEx 0 (by norm_num)
  obtain ⟨e1, hE1, hD1⟩ := hEx 1 (by norm_num)
  obtain ⟨e2, hE2, hD2⟩ := hEx 2 (by norm_num)
  rw [Nat.add_zero] at hE0 hD0
  have hneg : ¬ (0 : Int) ≤ -1 := by norm_num
  rcases h0 with h0 | h0 <;> rcases h1 with h1 | h1 <;> rcases h2 with h2 | h2
  · subst h0 h1 h2
    omega
  · subst h0 h1
    have n2 : s2 ≠ -1 := by omega
    have hcount : ((List.range 3).filter (fun j => 0 ≤ ([-1, -1, s2] : List Int).getD j 0)).length = 1 := by
      simp [List.range_succ, List.filter_cons, h2]
    have hidx : ([-1, -1, s2] : List Int).findIdx (fun x => x ≠ -1) = 2 := by
      simp [List.findIdx_cons, n2]
    simp only [splitFace, kidsOf, stubsOf, hcount, hidx]
    norm_num [hE0, hE1, hE2, hD0, hD1, hD2, rowOf, addFaces]
  · subst h0 h2
    have n1 : s1 ≠ -1 := by omega
    have hcount : ((List.range 3).filter (fun j => 0 ≤ ([-1, s1, -1] : List Int).getD j 0)).length = 1 := by
      simp [List.range_succ, List.filter_cons, h1]
    have hidx : ([-1, s1, -1] : List Int).findIdx (fun x => x ≠ -1) = 1 := by
      simp [List.findIdx_cons, n1]
    simp only [splitFace, kidsOf, stubsOf, hcount, hidx]
    norm_num [hE0, hE1, hE2, hD0, hD1, hD2, rowOf, addFaces]
  · subst h0
    have n1 : s1 ≠ -1 := by omega
    have n2 : s2 ≠ -1 := by omega
    have hcount : ((List.range 3).filter (fun j => 0 ≤ ([-1, s1, s2] : List Int).getD j 0)).length = 2 := by
      simp [List.range_succ, List.filter_cons, h1, h2]
    have hidx : ([-1, s1, s2] : List Int).findIdx (fun x => x = -1) = 0 := by
      simp [List.findIdx_cons, n1, n2]
    simp only [splitFace, kidsOf, stubsOf, hcount, hidx]
    norm_num [hE0, hE1, hE2, hD0, hD1, hD2, rowOf, addFaces]
  · subst h1 h2
    have n0 : s0 ≠ -1 := by omega
    have hcount : ((List.range 3).filter (fun j => 0 ≤ ([s0, -1, -1] : List Int).getD j 0)).length = 1 := by
      simp [List.range_succ, List.filter_cons, h0]
    have hidx : ([s0, -1, -1] : List Int).findIdx (fun x => x ≠ -1) = 0 := by
      simp [List.findIdx_cons, n0]
    simp only [splitFace, kidsOf, stubsOf, hcount, hidx]
    norm_num [hE0, hE1, hE2, hD0, hD1, hD2, rowOf, addFaces]
  · subst h1
    have n0 : s0 ≠ -1 := by omega
    have n2 : s2 ≠ -1 := by omega
    have hcount : ((List.range 3).filter (fun j => 0 ≤ ([s0, -1, s2] : List Int).getD j 0)).length = 2 := by
      simp [List.range_succ, List.filter_cons, h0, h2]
    have hidx : ([s0, -1, s2] : List Int).findIdx (fun x => x = -1) = 1 := by
      simp [List.findIdx_cons, n0, n2]
    simp only [splitFace, kidsOf, stubsOf, hcount, hidx]
    norm_num [hE0, hE1, hE2, hD0, hD1, hD2, rowOf, addFaces]
  · subst h2
    have n0 : s0 ≠ -1 := by omega
    have n1 : s1 ≠ -1 := by omega
    have hcount : ((List.range 3).filter (fun j => 0 ≤ ([s0, s1, -1] : List Int).getD j 0)).length = 2 := by
      simp [List.range_succ, List.filter_cons, h0, h1]
    have hidx : ([s0, s1, -1] : List Int).findIdx (fun x => x = -1) = 2 := by
      simp [List.findIdx_cons, n0, n1]
    simp only [splitFace, kidsOf, stubsOf, hcount, hidx]
    norm_num [hE0, hE1, hE2, hD0, hD1, hD2, rowOf, addFaces]
  · have n0 : s0 ≠ -1 := by omega
    have n1 : s1 ≠ -1 := by omega
    have n2 : s2 ≠ -1 := by omega
    have hcount : ((List.range 3).filter (fun j => 0 ≤ ([s0, s1, s2] : List Int).getD j 0)).length = 3 := by
      simp [List.range_succ, List.filter_cons, h0, h1, h2]
    simp only [splitFace, kidsOf, stubsOf, hcount]
    norm_num [hE0, hE1, hE2, hD0, hD1, hD2, rowOf, addFaces]
/-! ## The triangles made of one face -/

theorem kidKeys_role (t : Nat × Nat × Nat) (s0 s1 s2 : Int)
    (h0 : s0 = -1 ∨ 0 ≤ s0) (h1 : s1 = -1 ∨ 0 ≤ s1) (h2 : s2 = -1 ∨ 0 ≤ s2) (x : Nat × Nat) :
    x ∈ kidKeys t [s0, s1, s2] →
      roleU t s0 s1 s2 x ∨ roleH t s0 s1 s2 x ∨
        ((roleIA t s0 s1 s2 x ∨ roleIM s0 s1 s2 x) ∧ (x.2, x.1) ∈ kidKeys t [s0, s1, s2]) := by
  obtain ⟨v0, v1, v2⟩ := t
  rcases h0 with h0 | h0 <;> rcases h1 with h1 | h1 <;> rcases h2 with h2 | h2
  · subst h0 h1 h2
    have hcount : ((List.range 3).filter (fun j => 0 ≤ ([-1, -1, -1] : List Int).getD j 0)).length = 0 := by
      simp [List.range_succ, List.filter_cons]
    intro hx
    simp only [kidKeys, kidsOf, hcount] at hx ⊢
    norm_num [triKeys] at hx ⊢
    rcases hx with rfl | rfl | rfl
    all_goals simp [roleU, roleH, roleIA, roleIM]
  · subst h0 h1
    have n2 : s2 ≠ -1 := by omega
    have hcount : ((List.range 3).filter (fun j => 0 ≤ ([-1, -1, s2] : List Int).getD j 0)).length = 1 := by
      simp [List.range_succ, List.filter_cons, h2]
    have hidx : ([-1, -1, s2] : List Int).findIdx (fun x => x ≠ -1) = 2 := by
      simp [List.findIdx_cons, n2]
    intro hx
    simp only [kidKeys, kidsOf, hcount, hidx] at hx ⊢
    norm_num [triKeys] at hx ⊢
    rcases hx with rfl | rfl | rfl | rfl | rfl | rfl
    all_goals simp [roleU, roleH, roleIA, roleIM, h2]
  · subst h0 h2
    have n1 : s1 ≠ -1 := by omega
    have hcount : ((List.range 3).filter (fun j => 0 ≤ ([-1, s1, -1] : List Int).getD j 0)).length = 1 := by
      simp [List.range_succ, List.filter_cons, h1]
    have hidx : ([-1, s1, -1] : List Int).findIdx (fun x => x ≠ -1) = 1 := by
      simp [List.findIdx_cons, n1]
    intro hx
    simp only [kidKeys, kidsOf, hcount, hidx] at hx ⊢
    norm_num [triKeys] at hx ⊢
    rcases hx with rfl | rfl | rfl | rfl | rfl | rfl
    all_goals simp [roleU, roleH, roleIA, roleIM, h1]
  · subst h0
    have n1 : s1 ≠ -1 := by omega
    have n2 : s2 ≠ -1 := by omega
    have hcount : ((List.range 3).filter (fun j => 0 ≤ ([-1, s1, s2] : List Int).getD j 0)).length = 2 := by
      simp [List.range_succ, List.filter_cons, h1, h2]
    have hidx : ([-1, s1, s2] : List Int).findIdx (fun x => x = -1) = 0 := by
      simp [List.findIdx_cons, n1, n2]
    intro hx
    simp only [kidKeys, kidsOf, hcount, hidx] at hx ⊢
    norm_num [triKeys] at hx ⊢
    rcases hx with rfl | rfl | rfl | rfl | rfl | rfl | rfl | rfl | rfl
    all_goals simp [roleU, roleH, roleIA, roleIM, h1, h2]
  · subst h1 h2
    have n0 : s0 ≠ -1 := by omega
    have hcount : ((List.range 3).filter (fun j => 0 ≤ ([s0, -1, -1] : List Int).getD j 0)).length = 1 := by
      simp [List.range_succ, List.filter_cons, h0]
    have hidx : ([s0, -1, -1] : List Int).findIdx (fun x => x ≠ -1) = 0 := by
      simp [List.findIdx_cons, n0]
    intro hx
    simp only [kidKeys, kidsOf, hcount, hidx] at hx ⊢
    norm_num [triKeys] at hx ⊢
    rcases hx with rfl | rfl | rfl | rfl | rfl | rfl
    all_goals simp [roleU, roleH, roleIA, roleIM, h0]
  · subst h1
    have n0 : s0 ≠ -1 := by omega
    have n2 : s2 ≠ -1 := by omega
    have hcount : ((List.range 3).filter (fun j => 0 ≤ ([s0, -1, s2] : List Int).getD j 0)).length = 2 := by
      simp [List.range_succ, List.filter_cons, h0, h2]
    have hidx : ([s0, -1, s2] : List Int).findIdx (fun x => x = -1) = 1 := by
      simp [List.findIdx_cons, n0, n2]
    intro hx
    simp only [kidKeys, kidsOf, hcount, hidx] at hx ⊢
    norm_num [triKeys] at hx ⊢
    rcases hx with rfl | rfl | rfl | rfl | rfl | rfl | rfl | rfl | rfl
    all_goals simp [roleU, roleH, roleIA, roleIM, h0, h2]
  · subst h2
    have n0 : s0 ≠ -1 := by omega
    have n1 : s1 ≠ -1 := by omega
    have hcount : ((List.range 3).filter (fun j => 0 ≤ ([s0, s1, -1] : List Int).getD j 0)).length = 2 := by
      simp [List.range_succ, List.filter_cons, h0, h1]
    have hidx : ([s0, s1, -1] : List Int).findIdx (fun x => x = -1) = 2 := by
      simp [List.findIdx_cons, n0, n1]
    intro hx
    simp only [kidKeys, kidsOf, hcount, hidx] at hx ⊢
    norm_num [triKeys] at hx ⊢
    rcases hx with rfl | rfl | rfl | rfl | rfl | rfl | rfl | rfl | rfl
    all_goals simp [roleU, roleH, roleIA, roleIM, h0, h1]
  · have n0 : s0 ≠ -1 := by omega
    have n1 : s1 ≠ -1 := by omega
    have n2 : s2 ≠ -1 := by omega
    have hcount : ((List.range 3).filter (fun j => 0 ≤ ([s0, s1, s2] : List Int).getD j 0)).length = 3 := by
      simp [List.range_succ, List.filter_cons, h0, h1, h2]
    intro hx
    simp only [kidKeys, kidsOf, hcount] at hx ⊢
    norm_num [triKeys] at hx ⊢
    rcases hx with rfl | rfl | rfl | rfl | rfl | rfl | rfl | rfl | rfl | rfl | rfl | rfl
    all_goals simp [roleU, roleH, roleIA, roleIM, h0, h1, h2]

theorem kidKeys_complete (t : Nat × Nat × Nat) (s0 s1 s2 : Int)
    (h0 : s0 = -1 ∨ 0 ≤ s0) (h1 : s1 = -1 ∨ 0 ≤ s1) (h2 : s2 = -1 ∨ 0 ≤ s2) (x : Nat × Nat) :
    roleU t s0 s1 s2 x ∨ roleH t s0 s1 s2 x → x ∈ kidKeys t [s0, s1, s2] := by
  obtain ⟨v0, v1, v2⟩ := t
  have hneg : ¬ (0 : Int) ≤ -1 := by norm_num
  rcases h0 with h0 | h0 <;> rcases h1 with h1 | h1 <;> rcases h2 with h2 | h2
  · subst h0 h1 h2
    have hcount : ((List.range 3).filter (fun j => 0 ≤ ([-1, -1, -1] : List Int).getD j 0)).length = 0 := by
      simp [List.range_succ, List.filter_cons]
    intro hx
    simp only [kidKeys, kidsOf, hcount]
    norm_num [triKeys]
    simp only [roleU, roleH] at hx
    norm_num [hneg] at hx
    tauto
  · subst h0 h1
    have n2 : s2 ≠ -1 := by omega
    have hcount : ((List.range 3).filter (fun j => 0 ≤ ([-1, -1, s2] : List Int).getD j 0)).length = 1 := by
      simp [List.range_succ, List.filter_cons, h2]
    have hidx : ([-1, -1, s2] : List Int).findIdx (fun x => x ≠ -1) = 2 := by
      simp [List.findIdx_cons, n2]
    intro hx
    simp only [kidKeys, kidsOf, hcount, hidx]
    norm_num [triKeys]
    simp only [roleU, roleH] at hx
    norm_num [h2, n2, hneg] at hx
    tauto
  · subst h0 h2
    have n1 : s1 ≠ -1 := by omega
    have hcount : ((List.range 3).filter (fun j => 0 ≤ ([-1, s1, -1] : List Int).getD j 0)).length = 1 := by
      simp [List.range_succ, List.filter_cons, h1]
    have hidx : ([-1, s1, -1] : List Int).findIdx (fun x => x ≠ -1) = 1 := by
      simp [List.findIdx_cons, n1]
    intro hx
    simp only [kidKeys, kidsOf, hcount, hidx]
    norm_num [triKeys]
    simp only [roleU, roleH] at hx
    norm_num [h1, n1, hneg] at hx
    tauto
  · subst h0
    have n1 : s1 ≠ -1 := by omega
    have n2 : s2 ≠ -1 := by omega
    have hcount : ((List.range 3).filter (fun j => 0 ≤ ([-1, s1, s2] : List Int).getD j 0)).length = 2 := by
      simp [List.range_succ, List.filter_cons, h1, h2]
    have hidx : ([-1, s1, s2] : List Int).findIdx (fun x => x = -1) = 0 := by
      simp [List.findIdx_cons, n1, n2]
    intro hx
    simp only [kidKeys, kidsOf, hcount, hidx]
    norm_num [triKeys]
    simp only [roleU, roleH] at hx
    norm_num [h1, h2, n1, n2, hneg] at hx
    tauto
  · subst h1 h2
    have n0 : s0 ≠ -1 := by omega
    have hcount : ((List.range 3).filter (fun j => 0 ≤ ([s0, -1, -1] : List Int).getD j 0)).length = 1 := by
      simp [List.range_succ, List.filter_cons, h0]
    have hidx : ([s0, -1, -1] : List Int).findIdx (fun x => x ≠ -1) = 0 := by
      simp [List.findIdx_cons, n0]
    intro hx
    simp only [kidKeys, kidsOf, hcount, hidx]
    norm_num [triKeys]
    simp only [roleU, roleH] at hx
    norm_num [h0, n0, hneg] at hx
    tauto
  · subst h1
    have n0 : s0 ≠ -1 := by omega
    have n2 : s2 ≠ -1 := by omega
    have hcount : ((List.range 3).filter (fun j => 0 ≤ ([s0, -1, s2] : List Int).getD j 0)).length = 2 := by
      simp [List.range_succ, List.filter_cons, h0, h2]
    have hidx : ([s0, -1, s2] : List Int).findIdx (fun x => x = -1) = 1 := by
      simp [List.findIdx_cons, n0, n2]
    intro hx
    simp only [kidKeys, kidsOf, hcount, hidx]
    norm_num [triKeys]
    simp only [roleU, roleH] at hx
    norm_num [h0, h2, n0, n2, hneg] at hx
    tauto
  · subst h2
    have n0 : s0 ≠ -1 := by omega
    have n1 : s1 ≠ -1 := by omega
    have hcount : ((List.range 3).filter (fun j => 0 ≤ ([s0, s1, -1] : List Int).getD j 0)).length = 2 := by
      simp [List.range_succ, List.filter_cons, h0, h1]
    have hidx : ([s0, s1, -1] : List Int).findIdx (fun x => x = -1) = 2 := by
      simp [List.findIdx_cons, n0, n1]
    intro hx
    simp only [kidKeys, kidsOf, hcount, hidx]
    norm_num [triKeys]
    simp only [roleU, roleH] at hx
    norm_num [h0, h1, n0, n1, hneg] at hx
    tauto
  · have n0 : s0 ≠ -1 := by omega
    have n1 : s1 ≠ -1 := by omega
    have n2 : s2 ≠ -1 := by omega
    have hcount : ((List.range 3).filter (fun j => 0 ≤ ([s0, s1, s2] : List Int).getD j 0)).length = 3 := by
      simp [List.range_succ, List.filter_cons, h0, h1, h2]
    intro hx
    simp only [kidKeys, kidsOf, hcount]
    norm_num [triKeys]
    simp only [roleU, roleH] at hx
    norm_num [h0, h1, h2, n0, n1, n2, hneg] at hx
    tauto

theorem mem_stubsOf (E2E : List Int) (f : Nat) (t : Nat × Nat × Nat) (s0 s1 s2 : Int)
    (h0 : s0 = -1 ∨ 0 ≤ s0) (h1 : s1 = -1 ∨ 0 ≤ s1) (h2 : s2 = -1 ∨ 0 ≤ s2)
    (e : Lex (Nat × Nat) × Int) :
    e ∈ stubsOf E2E f t [s0, s1, s2] ↔
      (0 ≤ s0 ∨ 0 ≤ s1 ∨ 0 ≤ s2) ∧
      ((s0 = -1 ∧ e = (toLex (t.2.1, t.1), E2E.getD (f * 3) 0)) ∨
       (s1 = -1 ∧ e = (toLex (t.2.2, t.2.1), E2E.getD (f * 3 + 1) 0)) ∨
       (s2 = -1 ∧ e = (toLex (t.1, t.2.2), E2E.getD (f * 3 + 2) 0))) := by
  obtain ⟨v0, v1, v2⟩ := t
  have hneg : ¬ (0 : Int) ≤ -1 := by norm_num
  rcases h0 with h0 | h0 <;> rcases h1 with h1 | h1 <;> rcases h2 with h2 | h2
  · subst h0 h1 h2
    have hcount : ((List.range 3).filter (fun j => 0 ≤ ([-1, -1, -1] : List Int).getD j 0)).length = 0 := by
      simp [List.range_succ, List.filter_cons]
    simp only [stubsOf, hcount]
    norm_num [hneg]
    try tauto
  · subst h0 h1
    have n2 : s2 ≠ -1 := by omega
    have hcount : ((List.range 3).filter (fun j => 0 ≤ ([-1, -1, s2] : List Int).getD j 0)).length = 1 := by
      simp [List.range_succ, List.filter_cons, h2]
    have hidx : ([-1, -1, s2] : List Int).findIdx (fun x => x ≠ -1) = 2 := by
      simp [List.findIdx_cons, n2]
    simp only [stubsOf, hcount, hidx]
    norm_num [hneg, h2, n2]
    try tauto
  · subst h0 h2
    have n1 : s1 ≠ -1 := by omega
    have hcount : ((List.range 3).filter (fun j => 0 ≤ ([-1, s1, -1] : List Int).getD j 0)).length = 1 := by
      simp [List.range_succ, List.filter_cons, h1]
    have hidx : ([-1, s1, -1] : List Int).findIdx (fun x => x ≠ -1) = 1 := by
      simp [List.findIdx_cons, n1]
    simp only [stubsOf, hcount, hidx]
    norm_num [hneg, h1, n1]
    try tauto
  · subst h0
    have n1 : s1 ≠ -1 := by omega
    have n2 : s2 ≠ -1 := by omega
    have hcount : ((List.range 3).filter (fun j => 0 ≤ ([-1, s1, s2] : List Int).getD j 0)).length = 2 := by
      simp [List.range_succ, List.filter_cons, h1, h2]
    have hidx : ([-1, s1, s2] : List Int).findIdx (fun x => x = -1) = 0 := by
      simp [List.findIdx_cons, n1, n2]
    simp only [stubsOf, hcount, hidx]
    norm_num [hneg, h1, h2, n1, n2]
    try tauto
  · subst h1 h2
    have n0 : s0 ≠ -1 := by omega
    have hcount : ((List.range 3).filter (fun j => 0 ≤ ([s0, -1, -1] : List Int).getD j 0)).length = 1 := by
      simp [List.range_succ, List.filter_cons, h0]
    have hidx : ([s0, -1, -1] : List Int).findIdx (fun x => x ≠ -1) = 0 := by
      simp [List.findIdx_cons, n0]
    simp only [stubsOf, hcount, hidx]
    norm_num [hneg, h0, n0]
    try tauto
  · subst h1
    have n0 : s0 ≠ -1 := by omega
    have n2 : s2 ≠ -1 := by omega
    have hcount : ((List.range 3).filter (fun j => 0 ≤ ([s0, -1, s2] : List Int).getD j 0)).length = 2 := by
      simp [List.range_succ, List.filter_cons, h0, h2]
    have hidx : ([s0, -1, s2] : List Int).findIdx (fun x => x = -1) = 1 := by
      simp [List.findIdx_cons, n0, n2]
    simp only [stubsOf, hcount, hidx]
    norm_num [hneg, h0, h2, n0, n2]
    try tauto
  · subst h2
    have n0 : s0 ≠ -1 := by omega
    have n1 : s1 ≠ -1 := by omega
    have hcount : ((List.range 3).filter (fun j => 0 ≤ ([s0, s1, -1] : List Int).getD j 0)).length = 2 := by
      simp [List.range_succ, List.filter_cons, h0, h1]
    have hidx : ([s0, s1, -1] : List Int).findIdx (fun x => x = -1) = 2 := by
      simp [List.findIdx_cons, n0, n1]
    simp only [stubsOf, hcount, hidx]
    norm_num [hneg, h0, h1, n0, n1]
    try tauto
  · have n0 : s0 ≠ -1 := by omega
    have n1 : s1 ≠ -1 := by omega
    have n2 : s2 ≠ -1 := by omega
    have hcount : ((List.range 3).filter (fun j => 0 ≤ ([s0, s1, s2] : List Int).getD j 0)).length = 3 := by
      simp [List.range_succ, List.filter_cons, h0, h1, h2]
    simp only [stubsOf, hcount]
    norm_num [hneg, h0, h1, h2, n0, n1, n2]
    try tauto

theorem kidKeys_nodup (t : Nat × Nat × Nat) (s0 s1 s2 : Int)
    (h0 : s0 = -1 ∨ 0 ≤ s0) (h1 : s1 = -1 ∨ 0 ≤ s1) (h2 : s2 = -1 ∨ 0 ≤ s2) (num_V : Nat)
    (hv : t.1 < num_V ∧ t.2.1 < num_V ∧ t.2.2 < num_V)
    (hd : t.1 ≠ t.2.1 ∧ t.2.1 ≠ t.2.2 ∧ t.2.2 ≠ t.1)
    (hm : (0 ≤ s0 → (num_V : Int) ≤ s0) ∧ (0 ≤ s1 → (num_V : Int) ≤ s1) ∧
      (0 ≤ s2 → (num_V : Int) ≤ s2))
    (hne : (0 ≤ s0 → s0 ≠ s1) ∧ (0 ≤ s1 → s1 ≠ s2) ∧ (0 ≤ s2 → s2 ≠ s0)) :
    (kidKeys t [s0, s1, s2]).Nodup := by
  obtain ⟨v0, v1, v2⟩ := t
  simp only at hv hd
  rcases h0 with h0 | h0 <;> rcases h1 with h1 | h1 <;> rcases h2 with h2 | h2
  · subst h0 h1 h2
    have hcount : ((List.range 3).filter (fun j => 0 ≤ ([-1, -1, -1] : List Int).getD j 0)).length = 0 := by
      simp [List.range_succ, List.filter_cons]
    simp only [kidKeys, kidsOf, hcount]
    norm_num [triKeys]
    clear hm hne hcount
    repeat' apply And.intro
    all_goals omega
  · subst h0 h1
    have n2 : s2 ≠ -1 := by omega
    have hcount : ((List.range 3).filter (fun j => 0 ≤ ([-1, -1, s2] : List Int).getD j 0)).length = 1 := by
      simp [List.range_succ, List.filter_cons, h2]
    have hidx : ([-1, -1, s2] : List Int).findIdx (fun x => x ≠ -1) = 2 := by
      simp [List.findIdx_cons, n2]
    simp only [kidKeys, kidsOf, hcount, hidx]
    norm_num [triKeys]
    have q2 : (num_V : Int) ≤ s2 := hm.2.2 h2
    clear hm hne hcount hidx
    repeat' apply And.intro
    all_goals omega
  · subst h0 h2
    have n1 : s1 ≠ -1 := by omega
    have hcount : ((List.range 3).filter (fun j => 0 ≤ ([-1, s1, -1] : List Int).getD j 0)).length = 1 := by
      simp [List.range_succ, List.filter_cons, h1]
    have hidx : ([-1, s1, -1] : List Int).findIdx (fun x => x ≠ -1) = 1 := by
      simp [List.findIdx_cons, n1]
    simp only [kidKeys, kidsOf, hcount, hidx]
    norm_num [triKeys]
    have q1 : (num_V : Int) ≤ s1 := hm.2.1 h1
    clear hm hne hcount hidx
    repeat' apply And.intro
    all_goals omega
  · subst h0
    have n1 : s1 ≠ -1 := by omega
    have n2 : s2 ≠ -1 := by omega
    have hcount : ((List.range 3).filter (fun j => 0 ≤ ([-1, s1, s2] : List Int).getD j 0)).length = 2 := by
      simp [List.range_succ, List.filter_cons, h1, h2]
    have hidx : ([-1, s1, s2] : List Int).findIdx (fun x => x = -1) = 0 := by
      simp [List.findIdx_cons, n1, n2]
    simp only [kidKeys, kidsOf, hcount, hidx]
    norm_num [triKeys]
    have q1 : (num_V : Int) ≤ s1 := hm.2.1 h1
    have r1 : s1 ≠ s2 := hne.2.1 h1
    have q2 : (num_V : Int) ≤ s2 := hm.2.2 h2
    clear hm hne hcount hidx
    repeat' apply And.intro
    all_goals omega
  · subst h1 h2
    have n0 : s0 ≠ -1 := by omega
    have hcount : ((List.range 3).filter (fun j => 0 ≤ ([s0, -1, -1] : List Int).getD j 0)).length = 1 := by
      simp [List.range_succ, List.filter_cons, h0]
    have hidx : ([s0, -1, -1] : List Int).findIdx (fun x => x ≠ -1) = 0 := by
      simp [List.findIdx_cons, n0]
    simp only [kidKeys, kidsOf, hcount, hidx]
    norm_num [triKeys]
    have q0 : (num_V : Int) ≤ s0 := hm.1 h0
    clear hm hne hcount hidx
    repeat' apply And.intro
    all_goals omega
  · subst h1
    have n0 : s0 ≠ -1 := by omega
    have n2 : s2 ≠ -1 := by omega
    have hcount : ((List.range 3).filter (fun j => 0 ≤ ([s0, -1, s2] : List Int).getD j 0)).length = 2 := by
      simp [List.range_succ, List.filter_cons, h0, h2]
    have hidx : ([s0, -1, s2] : List Int).findIdx (fun x => x = -1) = 1 := by
      simp [List.findIdx_cons, n0, n2]
    simp only [kidKeys, kidsOf, hcount, hidx]
    norm_num [triKeys]
    have q0 : (num_V : Int) ≤ s0 := hm.1 h0
    have q2 : (num_V : Int) ≤ s2 := hm.2.2 h2
    have r2 : s2 ≠ s0 := hne.2.2 h2
    clear hm hne hcount hidx
    repeat' apply And.intro
    all_goals omega
  · subst h2
    have n0 : s0 ≠ -1 := by omega
    have n1 : s1 ≠ -1 := by omega
    have hcount : ((List.range 3).filter (fun j => 0 ≤ ([s0, s1, -1] : List Int).getD j 0)).length = 2 := by
      simp [List.range_succ, List.filter_cons, h0, h1]
    have hidx : ([s0, s1, -1] : List Int).findIdx (fun x => x = -1) = 2 := by
      simp [List.findIdx_cons, n0, n1]
    simp only [kidKeys, kidsOf, hcount, hidx]
    norm_num [triKeys]
    have q0 : (num_V : Int) ≤ s0 := hm.1 h0
    have r0 : s0 ≠ s1 := hne.1 h0
    have q1 : (num_V : Int) ≤ s1 := hm.2.1 h1
    clear hm hne hcount hidx
    repeat' apply And.intro
    all_goals omega
  · have n0 : s0 ≠ -1 := by omega
    have n1 : s1 ≠ -1 := by omega
    have n2 : s2 ≠ -1 := by omega
    have hcount : ((List.range 3).filter (fun j => 0 ≤ ([s0, s1, s2] : List Int).getD j 0)).length = 3 := by
      simp [List.range_succ, List.filter_cons, h0, h1, h2]
    simp only [kidKeys, kidsOf, hcount]
    norm_num [triKeys]
    have q0 : (num_V : Int) ≤ s0 := hm.1 h0
    have r0 : s0 ≠ s1 := hne.1 h0
    have q1 : (num_V : Int) ≤ s1 := hm.2.1 h1
    have r1 : s1 ≠ s2 := hne.2.1 h1
    have q2 : (num_V : Int) ≤ s2 := hm.2.2 h2
    have r2 : s2 ≠ s0 := hne.2.2 h2
    clear hm hne hcount
    repeat' apply And.intro
    all_goals omega

/-! ## The loop that inserts faces -/

theorem kidsOf_cons (t : Nat × Nat × Nat) (splits : List Int) :
    kidsOf t splits
      = (kidsOf t splits).headD (0, 0, 0) :: (kidsOf t splits).tail := by
  unfold kidsOf
  simp only
  split_ifs <;> rfl

theorem foldl_mapSet_spec {κ ν : Type} [LinearOrder κ] (l : List (κ × ν)) :
    ∀ (m : List (κ × ν)), MapSorted m →
      MapSorted (l.foldl (fun m e => mapSet m e.1 e.2) m) ∧
      (∀ e ∈ l.foldl (fun m e => mapSet m e.1 e.2) m, e ∈ l ∨ e ∈ m) ∧
      (∀ k, (∃ v, (k, v) ∈ l ∨ (k, v) ∈ m) →
        ∃ v, (k, v) ∈ l.foldl (fun m e => mapSet m e.1 e.2) m) := by
  induction l with
  | nil =>
    intro m hs
    refine ⟨hs, fun e he => Or.inr he, ?_⟩
    rintro k ⟨v, h | h⟩
    · cases h
    · exact ⟨v, h⟩
  | cons a l ih =>
    intro m hs
    obtain ⟨i1, i2, i3⟩ := ih (mapSet m a.1 a.2) (mapSet_sorted m hs _ _)
    refine ⟨i1, ?_, ?_⟩
    · intro e he
      rcases i2 e he with h | h
      · exact Or.inl (List.mem_cons_of_mem _ h)
      · rcases (mem_mapSet m hs _ _ e).mp h with h | ⟨h, _⟩
        · left; rw [h]; exact List.mem_cons_self _ _
        · exact Or.inr h
    · rintro k ⟨v, h⟩
      apply i3
      by_cases hk : k = a.1
      · exact ⟨a.2, Or.inr ((mem_mapSet m hs _ _ _).mpr (Or.inl (by rw [hk])))⟩
      · rcases h with h | h
        · rcases List.mem_cons.mp h with h | h
          · exact absurd (by rw [← h]) hk
          · exact ⟨v, Or.inl h⟩
        · exact ⟨v, Or.inr ((mem_mapSet m hs _ _ _).mpr (Or.inr ⟨h, hk⟩))⟩

theorem map_range_set {α : Type} (h : Nat → α) (n f : Nat) (a : α) (hf : f < n) :
    ((List.range n).map h).set f a = (List.range n).map (fun g => if g = f then a else h g) := by
  apply List.ext_getElem?
  intro g
  rw [List.getElem?_set]
  by_cases hg : g < n
  · rw [List.getElem?_map, List.getElem?_map, List.getElem?_range hg]
    by_cases hfg : f = g
    · simp [hfg, hg]
    · simp [hfg, Ne.symm hfg]
  · rw [List.getElem?_eq_none (by simp; omega), List.getElem?_eq_none (by simp; omega)]
    simp
    intro h1; omega

theorem FaceInv_step (junk : Nat → Nat) {F : List Nat} {num_F : Nat} {E2E : List Int}
    {μ : Nat → Int} (hμ : ∀ x, μ x = -1 ∨ 0 ≤ μ x) (hE : num_F * 3 ≤ E2E.length)
    {done : List Nat} {s : FaceState} (inv : FaceInv F num_F E2E μ done s)
    (f : Nat) (hf : f < num_F) (hnot : f ∉ done) (hsplit : IsSplit μ f) :
    ∃ s2, splitFace junk E2E s (f, marksOf μ f) = some s2 ∧
      FaceInv F num_F E2E μ (done ++ [f]) s2 := by
  have hrow : rowOf s.out_F_ f = rowOf F f := by
    have h1 := tris_getElem? s.out_F_ s.num_F_ f (by have := inv.ge; omega)
    rw [inv.rows, List.getElem?_append_left (by simp; exact hf), List.getElem?_map,
      List.getElem?_range hf] at h1
    simp only [Option.map_some', if_neg hnot, Option.some.injEq] at h1
    exact h1.symm
  have hspec := splitFace_spec junk E2E s f (μ (f * 3)) (μ (f * 3 + 1)) (μ (f * 3 + 2))
    (hμ _) (hμ _) (hμ _) hsplit (fun i hi => by omega)
  have hm : marksOf μ f = [μ (f * 3), μ (f * 3 + 1), μ (f * 3 + 2)] := rfl
  rw [← hm, hrow] at hspec
  refine ⟨_, hspec, ?_⟩
  have hcons := kidsOf_cons (rowOf F f) (marksOf μ f)
  generalize hk0 : (kidsOf (rowOf F f) (marksOf μ f)).headD (0, 0, 0) = k0 at hcons hspec ⊢
  generalize hkr : (kidsOf (rowOf F f) (marksOf μ f)).tail = krest at hcons hspec ⊢
  obtain ⟨m1, m2, m3⟩ := foldl_mapSet_spec (stubsOf E2E f (rowOf F f) (marksOf μ f)) s.dedges
    inv.sorted
  obtain ⟨a1, a2, a3, a4⟩ := addFaces_spec junk krest
    { s with out_F_ := setRow s.out_F_ f k0.1 k0.2.1 k0.2.2,
             dedges := (stubsOf E2E f (rowOf F f) (marksOf μ f)).foldl
               (fun m e => mapSet m e.1 e.2) s.dedges }
    (by simp only [length_setRow]; exact inv.cap) (by have := inv.ge; simp only; omega)
  simp only at a1 a2 a3 a4
  refine ⟨a3, by rw [a1]; have := inv.ge; omega, ?_, by rw [a2]; exact m1, ?_, ?_⟩
  · rw [a4, tris_setRow _ _ _ _ _ _ (by have := inv.ge; omega) inv.cap, inv.rows,
      List.set_append_left _ _ (by simp; exact hf), map_range_set _ _ _ _ hf]
    simp only [List.flatMap_append, List.flatMap_cons, List.flatMap_nil, List.append_nil, hkr,
      List.append_assoc]
    congr 1
    apply List.map_congr_left
    intro g _
    by_cases hg : g = f
    · rw [if_pos hg, if_pos (by rw [hg]; simp), hg, hk0]
    · simp [hg]
  · intro e he
    rw [a2] at he
    rcases m2 e he with h | h
    · exact ⟨f, by simp, h⟩
    · obtain ⟨g, hg, hh⟩ := inv.sound e h
      exact ⟨g, List.mem_append_left _ hg, hh⟩
  · intro g hg e he
    rw [a2]
    apply m3
    rcases List.mem_append.mp hg with h | h
    · obtain ⟨v, hv⟩ := inv.keys g h e he
      exact ⟨v, Or.inr hv⟩
    · have : g = f := by simpa using h
      subst this
      exact ⟨e.2, Or.inl he⟩
theorem FaceInv_init (F : List Nat) (num_F : Nat) (E2E : List Int) (μ : Nat → Int)
    (hcap : num_F * 3 ≤ F.length) :
    FaceInv F num_F E2E μ [] { num_F_ := num_F, out_F_ := F, dedges := [] } := by
  refine ⟨hcap, le_refl _, ?_, MapSorted_nil, ?_, ?_⟩
  · simp [tris]
  · intro e he; cases he
  · intro g hg; cases hg

theorem faceLoop_spec (junk : Nat → Nat) {F : List Nat} {num_F : Nat} {E2E : List Int}
    {μ : Nat → Int} (hμ : ∀ x, μ x = -1 ∨ 0 ≤ μ x) (hE : num_F * 3 ≤ E2E.length) :
    ∀ (l : List (Nat × List Int)) (done : List Nat) (s : FaceState),
      FaceInv F num_F E2E μ done s →
      (∀ e ∈ l, e.1 < num_F ∧ e.2 = marksOf μ e.1 ∧ IsSplit μ e.1) →
      (done ++ l.map Prod.fst).Nodup →
      ∃ s2, l.foldlM (splitFace junk E2E) s = some s2 ∧
        FaceInv F num_F E2E μ (done ++ l.map Prod.fst) s2 := by
  intro l
  induction l with
  | nil =>
    intro done s inv _ _
    exact ⟨s, rfl, by simpa using inv⟩
  | cons e l ih =>
    intro done s inv hl hnd
    obtain ⟨h1, h2, h3⟩ := hl e (List.mem_cons_self _ _)
    have hnot : e.1 ∉ done := by
      intro h
      exact (List.nodup_append.mp hnd).2.2 h (by simp)
    obtain ⟨s1, hs1, inv1⟩ := FaceInv_step junk hμ hE inv e.1 h1 hnot h3
    have he : e = (e.1, marksOf μ e.1) := by rw [← h2]
    obtain ⟨s2, hs2, inv2⟩ := ih (done ++ [e.1]) s1 inv1
      (fun x hx => hl x (List.mem_cons_of_mem _ hx)) (by simpa using hnd)
    refine ⟨s2, ?_, by simpa using inv2⟩
    rw [List.foldlM_cons, he, hs1]
    exact hs2

theorem SplitsInv_entries {num_F : Nat} {μ : Nat → Int} {fs : List (Nat × List Int)}
    (inv : SplitsInv num_F μ fs) :
    (∀ e ∈ fs, e.1 < num_F ∧ e.2 = marksOf μ e.1 ∧ IsSplit μ e.1) ∧
    (fs.map Prod.fst).Nodup ∧
    (∀ f, f < num_F → (f ∈ fs.map Prod.fst ↔ IsSplit μ f)) := by
  refine ⟨?_, MapSorted_keys_nodup fs inv.sorted, ?_⟩
  · intro e he
    have hlt := inv.keys_lt e he
    have hfind := (mapFind_eq_some_iff fs inv.sorted e.1 e.2).mpr he
    rw [inv.find e.1 hlt] at hfind
    by_cases hs : IsSplit μ e.1
    · rw [if_pos hs] at hfind
      exact ⟨hlt, (Option.some.inj hfind).symm, hs⟩
    · rw [if_neg hs] at hfind
      cases hfind
  · intro f hf
    constructor
    · intro h
      obtain ⟨e, he, hef⟩ := List.mem_map.mp h
      have hfind := (mapFind_eq_some_iff fs inv.sorted e.1 e.2).mpr he
      rw [hef, inv.find f hf] at hfind
      by_contra hs
      rw [if_neg hs] at hfind
      cases hfind
    · intro hs
      have hfind := inv.find f hf
      rw [if_pos hs] at hfind
      exact List.mem_map.mpr ⟨(f, marksOf μ f),
        (mapFind_eq_some_iff fs inv.sorted _ _).mp hfind, rfl⟩
/-! ## The directed edges of the triangles made of one face, by directed edge of the face -/

theorem src_face (F : List Nat) (g i : Nat) (hi : i < 3) : src F (g * 3 + i) = faceAt F g i := by
  unfold src
  have h1 : (g * 3 + i) / 3 = g := by omega
  have h2 : (g * 3 + i) % 3 = i := by omega
  rw [h1, h2]

theorem dst_face (F : List Nat) (g i : Nat) (hi : i < 3) :
    dst F (g * 3 + i) = faceAt F g ((i + 1) % 3) := by
  unfold dst
  have h1 : (g * 3 + i) / 3 = g := by omega
  have h2 : (g * 3 + i + 1) % 3 = (i + 1) % 3 := by omega
  rw [h1, h2]

theorem apex_face (F : List Nat) (g i : Nat) (hi : i < 3) :
    apexOf F (g * 3 + i) = faceAt F g ((i + 2) % 3) := by
  unfold apexOf
  rw [src_prevN]
  have h1 : (g * 3 + i) / 3 = g := by omega
  have h2 : (g * 3 + i + 2) % 3 = (i + 2) % 3 := by omega
  rw [h1, h2]

theorem faceKeys_role (F : List Nat) (μ : Nat → Int) (hμ : ∀ x, μ x = -1 ∨ 0 ≤ μ x) (g : Nat)
    (x : Nat × Nat) (hx : x ∈ faceKeys F μ g) :
    (RoleU F μ g x ∨ RoleON F μ g x ∨ RoleNO F μ g x ∨ RoleNN μ g x) ∧
    (RoleU F μ g x ∨ RoleH1 F μ g x ∨ RoleH2 F μ g x ∨ (x.2, x.1) ∈ faceKeys F μ g) := by
  have hr := kidKeys_role (rowOf F g) (μ (g * 3)) (μ (g * 3 + 1)) (μ (g * 3 + 2)) (hμ _) (hμ _)
    (hμ _) x hx
  have d0 : (g * 3) / 3 = g := by omega
  have d1 : (g * 3 + 1) / 3 = g := by omega
  have d2 : (g * 3 + 2) / 3 = g := by omega
  have s0 := src_face F g 0 (by norm_num)
  have s1 := src_face F g 1 (by norm_num)
  have s2 := src_face F g 2 (by norm_num)
  have t0 := dst_face F g 0 (by norm_num)
  have t1 := dst_face F g 1 (by norm_num)
  have t2 := dst_face F g 2 (by norm_num)
  have a0 := apex_face F g 0 (by norm_num)
  have a1 := apex_face F g 1 (by norm_num)
  have a2 := apex_face F g 2 (by norm_num)
  norm_num at s0 s1 s2 t0 t1 t2 a0 a1 a2
  simp only [rowOf, roleU, roleH, roleIA, roleIM] at hr
  constructor
  · rcases hr with h | h | ⟨h | h, _⟩
    · left
      rcases h with ⟨h, hx⟩ | ⟨h, hx⟩ | ⟨h, hx⟩
      · exact ⟨g * 3, d0, h, by rw [hx, s0, t0]⟩
      · exact ⟨g * 3 + 1, d1, h, by rw [hx, s1, t1]⟩
      · exact ⟨g * 3 + 2, d2, h, by rw [hx, s2, t2]⟩
    · rcases h with ⟨h, hx | hx⟩ | ⟨h, hx | hx⟩ | ⟨h, hx | hx⟩
      · right; left; exact ⟨g * 3, d0, h, by rw [hx], Or.inl (by rw [hx, s0])⟩
      · right; right; left; exact ⟨g * 3, d0, h, by rw [hx], Or.inl (by rw [hx, t0])⟩
      · right; left; exact ⟨g * 3 + 1, d1, h, by rw [hx], Or.inl (by rw [hx, s1])⟩
      · right; right; left; exact ⟨g * 3 + 1, d1, h, by rw [hx], Or.inl (by rw [hx, t1])⟩
      · right; left; exact ⟨g * 3 + 2, d2, h, by rw [hx], Or.inl (by rw [hx, s2])⟩
      · right; right; left; exact ⟨g * 3 + 2, d2, h, by rw [hx], Or.inl (by rw [hx, t2])⟩
    · rcases h with ⟨h, hx | hx⟩ | ⟨h, hx | hx⟩ | ⟨h, hx | hx⟩
      · right; right; left; exact ⟨g * 3, d0, h, by rw [hx], Or.inr (by rw [hx, a0])⟩
      · right; left; exact ⟨g * 3, d0, h, by rw [hx], Or.inr (by rw [hx, a0])⟩
      · right; right; left; exact ⟨g * 3 + 1, d1, h, by rw [hx], Or.inr (by rw [hx, a1])⟩
      · right; left; exact ⟨g * 3 + 1, d1, h, by rw [hx], Or.inr (by rw [hx, a1])⟩
      · right; right; left; exact ⟨g * 3 + 2, d2, h, by rw [hx], Or.inr (by rw [hx, a2])⟩
      · right; left; exact ⟨g * 3 + 2, d2, h, by rw [hx], Or.inr (by rw [hx, a2])⟩
    · right; right; right
      rcases h with ⟨h, h', hx | hx⟩ | ⟨h, h', hx | hx⟩ | ⟨h, h', hx | hx⟩
      · exact ⟨g * 3, g * 3 + 1, d0, d1, by omega, h, h', hx⟩
      · exact ⟨g * 3 + 1, g * 3, d1, d0, by omega, h', h, hx⟩
      · exact ⟨g * 3 + 1, g * 3 + 2, d1, d2, by omega, h, h', hx⟩
      · exact ⟨g * 3 + 2, g * 3 + 1, d2, d1, by omega, h', h, hx⟩
      · exact ⟨g * 3 + 2, g * 3, d2, d0, by omega, h, h', hx⟩
      · exact ⟨g * 3, g * 3 + 2, d0, d2, by omega, h', h, hx⟩
  · rcases hr with h | h | ⟨_, h⟩
    · left
      rcases h with ⟨h, hx⟩ | ⟨h, hx⟩ | ⟨h, hx⟩
      · exact ⟨g * 3, d0, h, by rw [hx, s0, t0]⟩
      · exact ⟨g * 3 + 1, d1, h, by rw [hx, s1, t1]⟩
      · exact ⟨g * 3 + 2, d2, h, by rw [hx, s2, t2]⟩
    · rcases h with ⟨h, hx | hx⟩ | ⟨h, hx | hx⟩ | ⟨h, hx | hx⟩
      · right; left; exact ⟨g * 3, d0, h, by rw [hx, s0]⟩
      · right; right; left; exact ⟨g * 3, d0, h, by rw [hx, t0]⟩
      · right; left; exact ⟨g * 3 + 1, d1, h, by rw [hx, s1]⟩
      · right; right; left; exact ⟨g * 3 + 1, d1, h, by rw [hx, t1]⟩
      · right; left; exact ⟨g * 3 + 2, d2, h, by rw [hx, s2]⟩
      · right; right; left; exact ⟨g * 3 + 2, d2, h, by rw [hx, t2]⟩
    · right; right; right; exact h

theorem faceKeys_complete (F : List Nat) (μ : Nat → Int) (hμ : ∀ x, μ x = -1 ∨ 0 ≤ μ x) (g : Nat)
    (x : Nat × Nat) (h : RoleU F μ g x ∨ RoleH1 F μ g x ∨ RoleH2 F μ g x) :
    x ∈ faceKeys F μ g := by
  apply kidKeys_complete (rowOf F g) (μ (g * 3)) (μ (g * 3 + 1)) (μ (g * 3 + 2)) (hμ _) (hμ _)
    (hμ _) x
  have key : ∀ d, d / 3 = g → d = g * 3 ∨ d = g * 3 + 1 ∨ d = g * 3 + 2 := by
    intro d hd; omega
  have s0 := src_face F g 0 (by norm_num)
  have s1 := src_face F g 1 (by norm_num)
  have s2 := src_face F g 2 (by norm_num)
  have t0 := dst_face F g 0 (by norm_num)
  have t1 := dst_face F g 1 (by norm_num)
  have t2 := dst_face F g 2 (by norm_num)
  norm_num at s0 s1 s2 t0 t1 t2
  simp only [rowOf, roleU, roleH]
  rcases h with ⟨d, hd, hm, hx⟩ | ⟨d, hd, hm, hx⟩ | ⟨d, hd, hm, hx⟩
  · left
    rcases key d hd with h | h | h <;> subst h
    · left; exact ⟨hm, by rw [hx, s0, t0]⟩
    · right; left; exact ⟨hm, by rw [hx, s1, t1]⟩
    · right; right; exact ⟨hm, by rw [hx, s2, t2]⟩
  · right
    rcases key d hd with h | h | h <;> subst h
    · left; exact ⟨hm, Or.inl (by rw [hx, s0])⟩
    · right; left; exact ⟨hm, Or.inl (by rw [hx, s1])⟩
    · right; right; exact ⟨hm, Or.inl (by rw [hx, s2])⟩
  · right
    rcases key d hd with h | h | h <;> subst h
    · left; exact ⟨hm, Or.inr (by rw [hx, t0])⟩
    · right; left; exact ⟨hm, Or.inr (by rw [hx, t1])⟩
    · right; right; exact ⟨hm, Or.inr (by rw [hx, t2])⟩
/-! ## The marks of the directed edges -/

theorem edgeRep_e2eN {F : List Nat} {n : Nat} {E2E : List Int} (hv : ValidE2E F n E2E)
    {d : Nat} (hd : d < n) : edgeRep E2E (e2eN E2E d) = edgeRep E2E d := by
  unfold edgeRep
  rw [ValidE2E_e2eN_e2eN hv hd]
  by_cases h : d < e2eN E2E d
  · rw [if_pos h, if_neg (by omega)]
  · rw [if_neg h]
    by_cases h2 : e2eN E2E d < d
    · rw [if_pos h2]
    · rw [if_neg h2]; omega

theorem edgeRep_cases (E2E : List Int) (d : Nat) :
    edgeRep E2E d = d ∨ edgeRep E2E d = e2eN E2E d := by
  unfold edgeRep
  by_cases h : d < e2eN E2E d
  · left; rw [if_pos h]
  · right; rw [if_neg h]

theorem midOf_e2eN {F : List Nat} {n : Nat} {E2E : List Int} (hv : ValidE2E F n E2E)
    (num_V : Nat) (cs : List Nat) {d : Nat} (hd : d < n) :
    midOf E2E num_V cs (e2eN E2E d) = midOf E2E num_V cs d := by
  unfold midOf
  rw [edgeRep_e2eN hv hd]

theorem midOf_nonneg_iff (E2E : List Int) (num_V : Nat) (cs : List Nat) (d : Nat) :
    0 ≤ midOf E2E num_V cs d ↔ edgeRep E2E d ∈ cs := by
  unfold midOf
  by_cases h : edgeRep E2E d ∈ cs
  · rw [if_pos h]; exact ⟨fun _ => h, fun _ => by omega⟩
  · rw [if_neg h]; simp [h]

theorem midOf_ge (E2E : List Int) (num_V : Nat) (cs : List Nat) (d : Nat)
    (h : 0 ≤ midOf E2E num_V cs d) : (num_V : Int) ≤ midOf E2E num_V cs d := by
  rcases midOf_range E2E num_V cs d with h1 | h1
  · omega
  · exact h1.1

theorem midOf_cases (E2E : List Int) (num_V : Nat) (cs : List Nat) (d : Nat) :
    midOf E2E num_V cs d = -1 ∨ 0 ≤ midOf E2E num_V cs d := by
  rcases midOf_range E2E num_V cs d with h1 | h1
  · exact Or.inl h1
  · right; omega

theorem midOf_inj {F : List Nat} {n : Nat} {E2E : List Int} (hv : ValidE2E F n E2E)
    (num_V : Nat) (cs : List Nat) (hc : ∀ c ∈ cs, c < n ∧ c < e2eN E2E c)
    {d d2 : Nat} (hd : d < n) (hd2 : d2 < n)
    (h0 : 0 ≤ midOf E2E num_V cs d) (h : midOf E2E num_V cs d = midOf E2E num_V cs d2) :
    d2 = d ∨ d2 = e2eN E2E d := by
  have m1 := (midOf_nonneg_iff E2E num_V cs d).mp h0
  have m2 := (midOf_nonneg_iff E2E num_V cs d2).mp (by rw [← h]; exact h0)
  have hrep : edgeRep E2E d = edgeRep E2E d2 := by
    unfold midOf at h
    rw [if_pos m1, if_pos m2] at h
    have h3 : cs.indexOf (edgeRep E2E d) = cs.indexOf (edgeRep E2E d2) := by omega
    exact (List.indexOf_inj m1 m2).mp h3
  obtain ⟨hcn, hce⟩ := hc _ m1
  have i1 := (edgeRep_eq_iff hv hcn hce hd).mp rfl
  have i2 := (edgeRep_eq_iff hv hcn hce hd2).mp hrep.symm
  have hinv := ValidE2E_e2eN_e2eN hv hcn
  generalize edgeRep E2E d = c at i1 i2 hinv
  rcases i1 with i1 | i1 <;> rcases i2 with i2 | i2
  · left; rw [i2, i1]
  · right; rw [i2, i1]
  · right; rw [i2, i1, hinv]
  · left; rw [i2, i1]
/-! ## Faces of the mesh before the round -/

theorem same_face_cases {d d2 : Nat} (h : d2 / 3 = d / 3) :
    d2 = d ∨ d2 = nxtN d ∨ d2 = prevN d := by
  unfold nxtN prevN
  omega

theorem nxtN_div (d : Nat) : nxtN d / 3 = d / 3 := by unfold nxtN; omega

theorem prevN_div (d : Nat) : prevN d / 3 = d / 3 := by unfold prevN; omega

theorem prevN_prevN (d : Nat) : prevN (prevN d) = nxtN d := by unfold nxtN prevN; omega

theorem dst_nxtN (F : List Nat) (d : Nat) : dst F (nxtN d) = apexOf F d := by
  rw [dst_eq_src_nxtN, apexOf]
  congr 1
  unfold nxtN prevN; omega

theorem apex_nxtN (F : List Nat) (d : Nat) : apexOf F (nxtN d) = src F d := by
  rw [apexOf, prevN_nxtN]

theorem apex_prevN (F : List Nat) (d : Nat) : apexOf F (prevN d) = dst F d := by
  rw [apexOf, prevN_prevN, dst_eq_src_nxtN]

theorem lt_of_div_lt {d num_F : Nat} (h : d / 3 < num_F) : d < num_F * 3 := by omega

/-- The three vertices of a face are different when no face repeats a vertex. -/
theorem face_distinct {F : List Nat} {n : Nat} (h3 : 3 ∣ n) (hl : NoLoopEdge F n) {d : Nat}
    (hd : d < n) : src F d ≠ dst F d ∧ dst F d ≠ apexOf F d ∧ apexOf F d ≠ src F d := by
  refine ⟨hl d hd, ?_, ?_⟩
  · have := hl (nxtN d) (nxtN_lt h3 hd)
    rwa [← dst_eq_src_nxtN, dst_nxtN] at this
  · have := hl (prevN d) (prevN_lt h3 hd)
    rwa [dst_prevN] at this

theorem three_dvd_mul (m : Nat) : 3 ∣ m * 3 := Dvd.intro_left _ rfl

theorem e2eN_face_ne {t : Topology} {cs : List Nat} (h : RefineInput t cs) {d : Nat}
    (hd : d < t.num_F_ * 3) : e2eN t.E2E_ d / 3 ≠ d / 3 := by
  intro hf
  obtain ⟨_, _, _, hr⟩ := ValidE2E_e2eN h.valid hd
  obtain ⟨f1, f2, f3⟩ := face_distinct (three_dvd_mul _) h.noloop hd
  rcases same_face_cases hf with h1 | h1 | h1
  · rw [h1] at hr
    exact f1 hr.1
  · rw [h1] at hr
    have := hr.2
    rw [dst_nxtN] at this
    exact f3 this
  · rw [h1] at hr
    have := hr.1
    rw [← apexOf] at this
    exact f2 this.symm

theorem marks_cases (t : Topology) (cs : List Nat) (x : Nat) :
    marks t cs x = -1 ∨ 0 ≤ marks t cs x := midOf_cases _ _ _ _

theorem marks_ge (t : Topology) (cs : List Nat) (x : Nat) (h : 0 ≤ marks t cs x) :
    (t.num_V_ : Int) ≤ marks t cs x := midOf_ge _ _ _ _ h

theorem marks_e2eN {t : Topology} {cs : List Nat} (h : RefineInput t cs) {d : Nat}
    (hd : d < t.num_F_ * 3) : marks t cs (e2eN t.E2E_ d) = marks t cs d :=
  midOf_e2eN h.valid _ _ hd

theorem marks_inj {t : Topology} {cs : List Nat} (h : RefineInput t cs) {d d2 : Nat}
    (hd : d < t.num_F_ * 3) (hd2 : d2 < t.num_F_ * 3) (h0 : 0 ≤ marks t cs d)
    (he : marks t cs d = marks t cs d2) : d2 = d ∨ d2 = e2eN t.E2E_ d :=
  midOf_inj h.valid _ _ h.cand_lt hd hd2 h0 he

theorem marks_apex {t : Topology} {cs : List Nat} (h : RefineInput t cs) {d : Nat}
    (hd : d < t.num_F_ * 3) (h0 : 0 ≤ marks t cs d) :
    apexOf t.out_F_ d ≠ apexOf t.out_F_ (e2eN t.E2E_ d) := by
  have m1 := (midOf_nonneg_iff t.E2E_ t.num_V_ cs d).mp h0
  obtain ⟨hcn, hce⟩ := h.cand_lt _ m1
  have ha := h.apex _ m1
  rcases (edgeRep_eq_iff h.valid hcn hce hd).mp rfl with h1 | h1
  · rwa [← h1] at ha
  · rw [h1, ValidE2E_e2eN_e2eN h.valid hcn]
    exact fun h2 => ha h2.symm
/-! ## The directed edges made of different faces are different -/

theorem role_sig {t : Topology} {cs : List Nat} (h : RefineInput t cs) {g : Nat}
    (hg : g < t.num_F_) (x : Nat × Nat) :
    (RoleU t.out_F_ (marks t cs) g x → x.1 < t.num_V_ ∧ x.2 < t.num_V_) ∧
    (RoleON t.out_F_ (marks t cs) g x → x.1 < t.num_V_ ∧ t.num_V_ ≤ x.2) ∧
    (RoleNO t.out_F_ (marks t cs) g x → t.num_V_ ≤ x.1 ∧ x.2 < t.num_V_) ∧
    (RoleNN (marks t cs) g x → t.num_V_ ≤ x.1 ∧ t.num_V_ ≤ x.2) := by
  have h3 := three_dvd_mul t.num_F_
  refine ⟨?_, ?_, ?_, ?_⟩
  · rintro ⟨d, hd, _, hx⟩
    have hdn : d < t.num_F_ * 3 := by omega
    rw [hx]
    refine ⟨h.src_lt d hdn, ?_⟩
    have := h.src_lt _ (nxtN_lt h3 hdn)
    rwa [← dst_eq_src_nxtN] at this
  · rintro ⟨d, hd, hm, hx2, hx1⟩
    have hdn : d < t.num_F_ * 3 := by omega
    have := marks_ge t cs d hm
    refine ⟨?_, by omega⟩
    rcases hx1 with h1 | h1
    · rw [h1]; exact h.src_lt d hdn
    · rw [h1]; exact h.src_lt _ (prevN_lt h3 hdn)
  · rintro ⟨d, hd, hm, hx1, hx2⟩
    have hdn : d < t.num_F_ * 3 := by omega
    have := marks_ge t cs d hm
    refine ⟨by omega, ?_⟩
    rcases hx2 with h1 | h1
    · rw [h1, dst_eq_src_nxtN]; exact h.src_lt _ (nxtN_lt h3 hdn)
    · rw [h1]; exact h.src_lt _ (prevN_lt h3 hdn)
  · rintro ⟨d, d2, _, _, _, hm, hm2, hx⟩
    have := marks_ge t cs d hm
    have := marks_ge t cs d2 hm2
    rw [hx]
    constructor <;> simp only <;> omega

theorem faceKeys_disjoint {t : Topology} {cs : List Nat} (h : RefineInput t cs) {g g2 : Nat}
    (hg : g < t.num_F_) (hg2 : g2 < t.num_F_) (hne : g ≠ g2) (x : Nat × Nat)
    (hx : x ∈ faceKeys t.out_F_ (marks t cs) g) (hx2 : x ∈ faceKeys t.out_F_ (marks t cs) g2) :
    False := by
  have h3 := three_dvd_mul t.num_F_
  obtain ⟨r1, _⟩ := faceKeys_role t.out_F_ (marks t cs) (marks_cases t cs) g x hx
  obtain ⟨r2, _⟩ := faceKeys_role t.out_F_ (marks t cs) (marks_cases t cs) g2 x hx2
  obtain ⟨a1, a2, a3, a4⟩ := role_sig h hg x
  obtain ⟨b1, b2, b3, b4⟩ := role_sig h hg2 x
  rcases r1 with r1 | r1 | r1 | r1 <;> rcases r2 with r2 | r2 | r2 | r2
  · obtain ⟨d, hd, _, hxd⟩ := r1
    obtain ⟨d2, hd2, _, hxd2⟩ := r2
    have e := h.unique d (by omega) d2 (by omega) (by rw [hxd] at hxd2; exact (Prod.ext_iff.mp hxd2).1)
      (by rw [hxd] at hxd2; exact (Prod.ext_iff.mp hxd2).2)
    omega
  · have := a1 r1; have := b2 r2; omega
  · have := a1 r1; have := b3 r2; omega
  · have := a1 r1; have := b4 r2; omega
  · have := a2 r1; have := b1 r2; omega
  · obtain ⟨d, hd, hm, hx2a, hx1a⟩ := r1
    obtain ⟨d2, hd2, hm2, hx2b, hx1b⟩ := r2
    have hdn : d < t.num_F_ * 3 := by omega
    have hdn2 : d2 < t.num_F_ * 3 := by omega
    have hmm : marks t cs d = marks t cs d2 := by omega
    have he : d2 = e2eN t.E2E_ d := by
      rcases marks_inj h hdn hdn2 hm hmm with h1 | h1
      · omega
      · exact h1
    obtain ⟨hen, _, _, hr⟩ := ValidE2E_e2eN h.valid hdn
    obtain ⟨f1, f2, f3⟩ := face_distinct h3 h.noloop hdn
    obtain ⟨k1, k2, k3⟩ := face_distinct h3 h.noloop hen
    have hap := marks_apex h hdn hm
    rw [he, hr.1] at hx1b
    rw [hr.2] at k2
    rcases hx1a with p | p <;> rcases hx1b with q | q
    · exact f1 (p.symm.trans q)
    · exact k2 (p.symm.trans q)
    · exact f2 (p.symm.trans q).symm
    · exact hap (p.symm.trans q)
  · have := a2 r1; have := b3 r2; omega
  · have := a2 r1; have := b4 r2; omega
  · have := a3 r1; have := b1 r2; omega
  · have := a3 r1; have := b2 r2; omega
  · obtain ⟨d, hd, hm, hx1a, hx2a⟩ := r1
    obtain ⟨d2, hd2, hm2, hx1b, hx2b⟩ := r2
    have hdn : d < t.num_F_ * 3 := by omega
    have hdn2 : d2 < t.num_F_ * 3 := by omega
    have hmm : marks t cs d = marks t cs d2 := by omega
    have he : d2 = e2eN t.E2E_ d := by
      rcases marks_inj h hdn hdn2 hm hmm with h1 | h1
      · omega
      · exact h1
    obtain ⟨hen, _, _, hr⟩ := ValidE2E_e2eN h.valid hdn
    obtain ⟨f1, f2, f3⟩ := face_distinct h3 h.noloop hdn
    obtain ⟨k1, k2, k3⟩ := face_distinct h3 h.noloop hen
    have hap := marks_apex h hdn hm
    rw [he, hr.2] at hx2b
    rw [hr.1] at k3
    rcases hx2a with p | p <;> rcases hx2b with q | q
    · exact f1 (p.symm.trans q).symm
    · exact k3 (p.symm.trans q).symm
    · exact f3 (p.symm.trans q)
    · exact hap (p.symm.trans q)
  · have := a3 r1; have := b4 r2; omega
  · have := a4 r1; have := b1 r2; omega
  · have := a4 r1; have := b2 r2; omega
  · have := a4 r1; have := b3 r2; omega
  · obtain ⟨d, d', hd, hd', hdd, hm, hm', hxa⟩ := r1
    obtain ⟨e, e', he, he', hee, hn, hn', hxb⟩ := r2
    have hdn : d < t.num_F_ * 3 := by omega
    have hdn' : d' < t.num_F_ * 3 := by omega
    have hen : e < t.num_F_ * 3 := by omega
    have hen' : e' < t.num_F_ * 3 := by omega
    rw [hxa] at hxb
    have q1 : marks t cs d = marks t cs e := by
      have := (Prod.ext_iff.mp hxb).1; simp only at this; omega
    have q2 : marks t cs d' = marks t cs e' := by
      have := (Prod.ext_iff.mp hxb).2; simp only at this; omega
    have e1 : e = e2eN t.E2E_ d := by
      rcases marks_inj h hdn hen hm q1 with h1 | h1
      · omega
      · exact h1
    have e2 : e' = e2eN t.E2E_ d' := by
      rcases marks_inj h hdn' hen' hm' q2 with h1 | h1
      · omega
      · exact h1
    obtain ⟨_, _, _, hr⟩ := ValidE2E_e2eN h.valid hdn
    obtain ⟨_, _, _, hr'⟩ := ValidE2E_e2eN h.valid hdn'
    obtain ⟨f1, f2, f3⟩ := face_distinct h3 h.noloop hdn
    have hap := marks_apex h hdn hm
    rw [← e1] at hr hap
    rw [← e2] at hr'
    -- the vertex opposite to `d` is an end of `d'`, hence a vertex of the face of `e`
    have hz : apexOf t.out_F_ d = src t.out_F_ e' ∨ apexOf t.out_F_ d = dst t.out_F_ e' := by
      rcases same_face_cases (show d' / 3 = d / 3 by omega) with c | c | c
      · exact absurd c.symm hdd
      · left; rw [hr'.1, c, dst_nxtN]
      · right; rw [hr'.2, c, apexOf]
    have hcases := same_face_cases (show e' / 3 = e / 3 by omega)
    rcases hcases with c | c | c
    · exact hee c.symm
    · rw [c, ← dst_eq_src_nxtN, dst_nxtN] at hz
      rcases hz with z | z
      · rw [hr.2] at z; exact f3 z
      · exact hap z
    · rw [c, dst_prevN, ← apexOf] at hz
      rcases hz with z | z
      · exact hap z
      · rw [hr.1] at z; exact f2 z.symm
theorem marks_face_ne {t : Topology} {cs : List Nat} (h : RefineInput t cs) {d d2 : Nat}
    (hd : d < t.num_F_ * 3) (hf : d2 / 3 = d / 3) (hne : d2 ≠ d) (h0 : 0 ≤ marks t cs d) :
    marks t cs d ≠ marks t cs d2 := by
  intro he
  rcases marks_inj h hd (by omega) h0 he with h1 | h1
  · exact hne h1
  · have := e2eN_face_ne h hd
    rw [← h1] at this
    exact this hf

theorem faceKeys_nodup {t : Topology} {cs : List Nat} (h : RefineInput t cs) {g : Nat}
    (hg : g < t.num_F_) : (faceKeys t.out_F_ (marks t cs) g).Nodup := by
  have h3 := three_dvd_mul t.num_F_
  have l0 : g * 3 < t.num_F_ * 3 := by omega
  have l1 : g * 3 + 1 < t.num_F_ * 3 := by omega
  have l2 : g * 3 + 2 < t.num_F_ * 3 := by omega
  have s0 := src_face t.out_F_ g 0 (by norm_num)
  have s1 := src_face t.out_F_ g 1 (by norm_num)
  have s2 := src_face t.out_F_ g 2 (by norm_num)
  have t0 := dst_face t.out_F_ g 0 (by norm_num)
  have a0 := apex_face t.out_F_ g 0 (by norm_num)
  norm_num at s0 s1 s2 t0 a0
  obtain ⟨f1, f2, f3⟩ := face_distinct h3 h.noloop l0
  simp only [s0, t0, a0] at f1 f2 f3
  apply kidKeys_nodup (rowOf t.out_F_ g) _ _ _ (marks_cases t cs _) (marks_cases t cs _)
    (marks_cases t cs _) t.num_V_
  · refine ⟨?_, ?_, ?_⟩
    · have := h.src_lt _ l0; rwa [s0] at this
    · have := h.src_lt _ l1; rwa [s1] at this
    · have := h.src_lt _ l2; rwa [s2] at this
  · exact ⟨f1, f2, f3⟩
  · exact ⟨marks_ge t cs _, marks_ge t cs _, marks_ge t cs _⟩
  · refine ⟨?_, ?_, ?_⟩
    · exact marks_face_ne h l0 (by omega) (by omega)
    · exact marks_face_ne h l1 (by omega) (by omega)
    · exact marks_face_ne h l2 (by omega) (by omega)

/-! ## The face matrix after the loop that inserts faces -/

theorem triKeys_rowOf (F : List Nat) (g : Nat) :
    triKeys (rowOf F g)
      = [(src F (g * 3), dst F (g * 3)), (src F (g * 3 + 1), dst F (g * 3 + 1)),
         (src F (g * 3 + 2), dst F (g * 3 + 2))] := by
  have s0 := src_face F g 0 (by norm_num)
  have s1 := src_face F g 1 (by norm_num)
  have s2 := src_face F g 2 (by norm_num)
  have t0 := dst_face F g 0 (by norm_num)
  have t1 := dst_face F g 1 (by norm_num)
  have t2 := dst_face F g 2 (by norm_num)
  norm_num at s0 s1 s2 t0 t1 t2
  simp only [triKeys, rowOf, s0, s1, s2, t0, t1, t2]

theorem keysList_tris (F : List Nat) (m : Nat) :
    keysList F (m * 3) = (tris F m).flatMap triKeys := by
  induction m with
  | zero => simp [keysList, tris]
  | succ m ih =>
    rw [tris_succ, List.flatMap_append, ← ih]
    have e : (m + 1) * 3 = m * 3 + 1 + 1 + 1 := by ring
    rw [e]
    simp only [keysList, List.range_succ, List.map_append, List.map_cons, List.map_nil,
      List.flatMap_cons, List.flatMap_nil, List.append_nil, triKeys_rowOf, List.append_assoc,
      List.cons_append, List.nil_append]

theorem mem_triKeys_rowOf (F : List Nat) (g : Nat) (x : Nat × Nat) :
    x ∈ triKeys (rowOf F g) ↔ ∃ d, d / 3 = g ∧ x = (src F d, dst F d) := by
  rw [triKeys_rowOf]
  constructor
  · intro h
    simp only [List.mem_cons, List.mem_singleton, List.not_mem_nil, or_false] at h
    rcases h with h | h | h
    · exact ⟨g * 3, by omega, h⟩
    · exact ⟨g * 3 + 1, by omega, h⟩
    · exact ⟨g * 3 + 2, by omega, h⟩
  · rintro ⟨d, hd, hx⟩
    have : d = g * 3 ∨ d = g * 3 + 1 ∨ d = g * 3 + 2 := by omega
    rcases this with h | h | h <;> subst h <;> simp [hx]

theorem kidsOf_unsplit (t : Nat × Nat × Nat) : kidsOf t [-1, -1, -1] = [t] := by
  have hcount : ((List.range 3).filter (fun j => 0 ≤ ([-1, -1, -1] : List Int).getD j 0)).length
      = 0 := by
    simp [List.range_succ, List.filter_cons]
  simp only [kidsOf, hcount]
  norm_num

theorem marksOf_unsplit {μ : Nat → Int} (hμ : ∀ x, μ x = -1 ∨ 0 ≤ μ x) {g : Nat}
    (h : ¬ IsSplit μ g) : marksOf μ g = [-1, -1, -1] := by
  unfold IsSplit at h
  push_neg at h
  have a0 : μ (g * 3) = -1 := by
    rcases hμ (g * 3) with h1 | h1
    · exact h1
    · omega
  have a1 : μ (g * 3 + 1) = -1 := by
    rcases hμ (g * 3 + 1) with h1 | h1
    · exact h1
    · omega
  have a2 : μ (g * 3 + 2) = -1 := by
    rcases hμ (g * 3 + 2) with h1 | h1
    · exact h1
    · omega
  simp only [marksOf, a0, a1, a2]

theorem faceKeys_unsplit (F : List Nat) {μ : Nat → Int} (hμ : ∀ x, μ x = -1 ∨ 0 ≤ μ x) {g : Nat}
    (h : ¬ IsSplit μ g) : faceKeys F μ g = triKeys (rowOf F g) := by
  simp [faceKeys, kidKeys, marksOf_unsplit hμ h, kidsOf_unsplit]

theorem faceKeys_eq (F : List Nat) (μ : Nat → Int) (g : Nat) :
    faceKeys F μ g
      = triKeys ((kidsOf (rowOf F g) (marksOf μ g)).headD (0, 0, 0))
        ++ (kidsOf (rowOf F g) (marksOf μ g)).tail.flatMap triKeys := by
  unfold faceKeys kidKeys
  conv_lhs => rw [kidsOf_cons]
  simp

/-- Where the rows of the face matrix come from once the faces of `L` are handled. -/
theorem FaceInv_row {F : List Nat} {num_F : Nat} {E2E : List Int} {μ : Nat → Int}
    {L : List Nat} {s : FaceState} (inv : FaceInv F num_F E2E μ L s) (r : Nat)
    (hr : r < s.num_F_) :
    (r < num_F ∧ r ∉ L ∧ rowOf s.out_F_ r = rowOf F r) ∨
    (r < num_F ∧ r ∈ L ∧
      rowOf s.out_F_ r = (kidsOf (rowOf F r) (marksOf μ r)).headD (0, 0, 0)) ∨
    (num_F ≤ r ∧ ∃ g ∈ L, rowOf s.out_F_ r ∈ (kidsOf (rowOf F g) (marksOf μ g)).tail) := by
  have h1 := tris_getElem? s.out_F_ s.num_F_ r hr
  rw [inv.rows] at h1
  by_cases hlt : r < num_F
  · rw [List.getElem?_append_left (by simp; exact hlt), List.getElem?_map,
      List.getElem?_range hlt] at h1
    simp only [Option.map_some', Option.some.injEq] at h1
    by_cases hm : r ∈ L
    · rw [if_pos hm] at h1
      exact Or.inr (Or.inl ⟨hlt, hm, h1.symm⟩)
    · rw [if_neg hm] at h1
      exact Or.inl ⟨hlt, hm, h1.symm⟩
  · right; right
    refine ⟨by omega, ?_⟩
    rw [List.getElem?_append_right (by simp; omega)] at h1
    have hmem := List.getElem?_mem h1
    obtain ⟨g, hg, hh⟩ := List.mem_flatMap.mp hmem
    exact ⟨g, hg, hh⟩

theorem FaceInv_row_surj {F : List Nat} {num_F : Nat} {E2E : List Int} {μ : Nat → Int}
    {L : List Nat} {s : FaceState} (inv : FaceInv F num_F E2E μ L s) (g : Nat) (hg : g ∈ L)
    (row : Nat × Nat × Nat) (hrow : row ∈ (kidsOf (rowOf F g) (marksOf μ g)).tail) :
    ∃ r, num_F ≤ r ∧ r < s.num_F_ ∧ rowOf s.out_F_ r = row := by
  have hmem : row ∈ L.flatMap (fun g => (kidsOf (rowOf F g) (marksOf μ g)).tail) :=
    List.mem_flatMap.mpr ⟨g, hg, hrow⟩
  obtain ⟨i, hi⟩ := List.mem_iff_getElem?.mp hmem
  have hlen : (tris s.out_F_ s.num_F_).length = s.num_F_ := tris_length _ _
  have h2 : (tris s.out_F_ s.num_F_)[num_F + i]? = some row := by
    rw [inv.rows, List.getElem?_append_right (by simp)]
    simpa using hi
  have hlt : num_F + i < s.num_F_ := by
    by_contra hc
    rw [List.getElem?_eq_none (by rw [hlen]; omega)] at h2
    cases h2
  rw [tris_getElem? _ _ _ hlt] at h2
  exact ⟨num_F + i, by omega, hlt, Option.some.inj h2⟩
theorem Refined_key_mem {t : Topology} {cs : List Nat} {L : List Nat} {s : FaceState}
    (R : Refined t cs L s) {d : Nat} (hd : d < s.num_F_ * 3) :
    ∃ g, g < t.num_F_ ∧ (src s.out_F_ d, dst s.out_F_ d) ∈ faceKeys t.out_F_ (marks t cs) g ∧
      (Touched t.num_F_ L d ↔ g ∈ L) ∧
      (g ∉ L → d / 3 = g ∧ src s.out_F_ d = src t.out_F_ d ∧ dst s.out_F_ d = dst t.out_F_ d) := by
  have hr : d / 3 < s.num_F_ := by omega
  have hk : (src s.out_F_ d, dst s.out_F_ d) ∈ triKeys (rowOf s.out_F_ (d / 3)) :=
    (mem_triKeys_rowOf _ _ _).mpr ⟨d, rfl, rfl⟩
  rcases FaceInv_row R.inv (d / 3) hr with ⟨h1, h2, h3⟩ | ⟨h1, h2, h3⟩ | ⟨h1, g, hg, h3⟩
  · refine ⟨d / 3, h1, ?_, ?_, ?_⟩
    · rw [faceKeys_unsplit _ (marks_cases t cs) (fun hs => h2 ((R.split _ h1).mpr hs)), ← h3]
      exact hk
    · unfold Touched
      constructor
      · rintro (h | h)
        · exact h
        · omega
      · intro h; exact Or.inl h
    · intro _
      have e1 : src s.out_F_ d = src t.out_F_ d := by
        have a := src_face s.out_F_ (d / 3) (d % 3) (Nat.mod_lt _ (by norm_num))
        have b := src_face t.out_F_ (d / 3) (d % 3) (Nat.mod_lt _ (by norm_num))
        rw [div_mul_add_mod3] at a b
        rw [a, b]
        have := congrArg (fun r => [r.1, r.2.1, r.2.2].getD (d % 3) 0) h3
        have hm : d % 3 = 0 ∨ d % 3 = 1 ∨ d % 3 = 2 := by omega
        rcases hm with hm | hm | hm <;> rw [hm] at this ⊢ <;> simpa [rowOf] using this
      have e2 : dst s.out_F_ d = dst t.out_F_ d := by
        have a := dst_face s.out_F_ (d / 3) (d % 3) (Nat.mod_lt _ (by norm_num))
        have b := dst_face t.out_F_ (d / 3) (d % 3) (Nat.mod_lt _ (by norm_num))
        rw [div_mul_add_mod3] at a b
        rw [a, b]
        have := congrArg (fun r => [r.1, r.2.1, r.2.2].getD ((d % 3 + 1) % 3) 0) h3
        have hm : d % 3 = 0 ∨ d % 3 = 1 ∨ d % 3 = 2 := by omega
        rcases hm with hm | hm | hm <;> rw [hm] at this ⊢ <;> simpa [rowOf] using this
      exact ⟨rfl, e1, e2⟩
  · refine ⟨d / 3, h1, ?_, ?_, fun hn => absurd h2 hn⟩
    · rw [faceKeys_eq]
      apply List.mem_append_left
      rw [← h3]
      exact hk
    · unfold Touched
      exact ⟨fun _ => h2, fun h => Or.inl h⟩
  · refine ⟨g, R.lt g hg, ?_, ?_, fun hn => absurd hg hn⟩
    · rw [faceKeys_eq]
      apply List.mem_append_right
      exact List.mem_flatMap.mpr ⟨_, h3, hk⟩
    · unfold Touched
      exact ⟨fun _ => hg, fun _ => Or.inr h1⟩

theorem Refined_key_surj {t : Topology} {cs : List Nat} {L : List Nat} {s : FaceState}
    (R : Refined t cs L s) {g : Nat} (hg : g < t.num_F_) (x : Nat × Nat)
    (hx : x ∈ faceKeys t.out_F_ (marks t cs) g) :
    ∃ d, d < s.num_F_ * 3 ∧ (src s.out_F_ d, dst s.out_F_ d) = x ∧
      (Touched t.num_F_ L d ↔ g ∈ L) := by
  have hge := R.inv.ge
  by_cases hL : g ∈ L
  · rw [faceKeys_eq] at hx
    rcases List.mem_append.mp hx with h | h
    · -- the row of the face itself
      have hrow : rowOf s.out_F_ g
          = (kidsOf (rowOf t.out_F_ g) (marksOf (marks t cs) g)).headD (0, 0, 0) := by
        rcases FaceInv_row R.inv g (by omega) with ⟨_, h2, _⟩ | ⟨_, _, h3⟩ | ⟨h1, _⟩
        · exact absurd hL h2
        · exact h3
        · omega
      rw [← hrow] at h
      obtain ⟨d, hd, hxd⟩ := (mem_triKeys_rowOf _ _ _).mp h
      refine ⟨d, by omega, hxd.symm, ?_⟩
      unfold Touched
      rw [hd]
      exact ⟨fun _ => hL, fun h => Or.inl h⟩
    · obtain ⟨row, hrow, hxr⟩ := List.mem_flatMap.mp h
      obtain ⟨r, hr1, hr2, hr3⟩ := FaceInv_row_surj R.inv g hL row hrow
      rw [← hr3] at hxr
      obtain ⟨d, hd, hxd⟩ := (mem_triKeys_rowOf _ _ _).mp hxr
      refine ⟨d, by omega, hxd.symm, ?_⟩
      unfold Touched
      rw [hd]
      exact ⟨fun _ => hL, fun _ => Or.inr hr1⟩
  · rw [faceKeys_unsplit _ (marks_cases t cs) (fun hs => hL ((R.split _ hg).mpr hs))] at hx
    have hrow : rowOf s.out_F_ g = rowOf t.out_F_ g := by
      rcases FaceInv_row R.inv g (by omega) with ⟨_, _, h3⟩ | ⟨_, h2, _⟩ | ⟨h1, _⟩
      · exact h3
      · exact absurd h2 hL
      · omega
    rw [← hrow] at hx
    obtain ⟨d, hd, hxd⟩ := (mem_triKeys_rowOf _ _ _).mp hx
    refine ⟨d, by omega, hxd.symm, ?_⟩
    unfold Touched
    rw [hd]
    constructor
    · rintro (h | h)
      · exact h
      · omega
    · intro h; exact absurd h hL
/-- After the loop that inserts faces no ordered vertex pair occurs twice as a directed
edge. -/
theorem Refined_nodup {t : Topology} {cs : List Nat} {L : List Nat} {s : FaceState}
    (R : Refined t cs L s) : (keysList s.out_F_ (s.num_F_ * 3)).Nodup := by
  have hμ := marks_cases t cs
  rw [keysList_tris, R.inv.rows, List.flatMap_append, List.flatMap_map, List.flatMap_assoc]
  have hHK : ∀ g, g < t.num_F_ →
      (∀ x ∈ triKeys (if g ∈ L then
          (kidsOf (rowOf t.out_F_ g) (marksOf (marks t cs) g)).headD (0, 0, 0)
          else rowOf t.out_F_ g), x ∈ faceKeys t.out_F_ (marks t cs) g) ∧
      (triKeys (if g ∈ L then
          (kidsOf (rowOf t.out_F_ g) (marksOf (marks t cs) g)).headD (0, 0, 0)
          else rowOf t.out_F_ g)).Nodup := by
    intro g hg
    have hn := faceKeys_nodup R.inp hg
    by_cases hL : g ∈ L
    · rw [if_pos hL]
      rw [faceKeys_eq] at hn ⊢
      exact ⟨fun x hx => List.mem_append_left _ hx, hn.of_append_left⟩
    · rw [if_neg hL]
      rw [faceKeys_unsplit _ hμ (fun hs => hL ((R.split _ hg).mpr hs))] at hn ⊢
      exact ⟨fun x hx => hx, hn⟩
  have hTK : ∀ g, g ∈ L →
      (∀ x ∈ (kidsOf (rowOf t.out_F_ g) (marksOf (marks t cs) g)).tail.flatMap triKeys,
        x ∈ faceKeys t.out_F_ (marks t cs) g) ∧
      ((kidsOf (rowOf t.out_F_ g) (marksOf (marks t cs) g)).tail.flatMap triKeys).Nodup ∧
      List.Disjoint
        (triKeys ((kidsOf (rowOf t.out_F_ g) (marksOf (marks t cs) g)).headD (0, 0, 0)))
        ((kidsOf (rowOf t.out_F_ g) (marksOf (marks t cs) g)).tail.flatMap triKeys) := by
    intro g hL
    have hn := faceKeys_nodup R.inp (R.lt g hL)
    rw [faceKeys_eq] at hn ⊢
    exact ⟨fun x hx => List.mem_append_right _ hx, hn.of_append_right,
      List.disjoint_of_nodup_append hn⟩
  refine List.nodup_append.mpr ⟨List.nodup_flatMap.mpr ⟨?_, ?_⟩,
    List.nodup_flatMap.mpr ⟨?_, ?_⟩, ?_⟩
  · intro g hg
    exact (hHK g (List.mem_range.mp hg)).2
  · refine (List.nodup_range _).pairwise_of_forall_ne ?_
    intro a ha b hb hab x hxa hxb
    exact faceKeys_disjoint R.inp (List.mem_range.mp ha) (List.mem_range.mp hb) hab x
      ((hHK a (List.mem_range.mp ha)).1 x hxa) ((hHK b (List.mem_range.mp hb)).1 x hxb)
  · intro g hg
    exact (hTK g hg).2.1
  · refine R.nodup.pairwise_of_forall_ne ?_
    intro a ha b hb hab x hxa hxb
    exact faceKeys_disjoint R.inp (R.lt a ha) (R.lt b hb) hab x
      ((hTK a ha).1 x hxa) ((hTK b hb).1 x hxb)
  · intro x hxa hxb
    obtain ⟨a, ha, hxa⟩ := List.mem_flatMap.mp hxa
    obtain ⟨b, hb, hxb⟩ := List.mem_flatMap.mp hxb
    have ha := List.mem_range.mp ha
    by_cases hab : a = b
    · subst hab
      rw [if_pos hb] at hxa
      exact (hTK a hb).2.2 hxa hxb
    · exact faceKeys_disjoint R.inp ha (R.lt b hb) hab x ((hHK a ha).1 x hxa)
        ((hTK b hb).1 x hxb)

theorem Refined_unique {t : Topology} {cs : List Nat} {L : List Nat} {s : FaceState}
    (R : Refined t cs L s) : EdgesUnique s.out_F_ (s.num_F_ * 3) := by
  intro d1 h1 d2 h2 hs hd
  have := List.inj_on_of_nodup_map (Refined_nodup R) (List.mem_range.mpr h1)
    (List.mem_range.mpr h2)
  exact this (by simp only [hs, hd])
/-! ## The loop that writes `E2E_` from the map -/

theorem PairInv_write {m : List (Lex (Nat × Nat) × Int)} {E0 : List Int} {pos : Nat}
    {E : List Int} (hval : ∀ e ∈ m, 0 ≤ e.2) (inv : PairInv m E0 pos E) {c d : Int}
    (hp : PairIn m c d) (hc : 0 ≤ c) (hlt : c.toNat < E.length) :
    PairInv m E0 pos (E.set c.toNat d) := by
  have hcc : ((c.toNat : Nat) : Int) = c := Int.toNat_of_nonneg hc
  refine ⟨by rw [List.length_set]; exact inv.len, ?_, ?_⟩
  · intro x hx
    rw [List.length_set] at hx
    rw [List.getElem?_set]
    by_cases h : c.toNat = x
    · rw [if_pos h, if_pos hlt]
      right
      exact ⟨d, rfl, by rw [← h, hcc]; exact hp⟩
    · rw [if_neg h]
      exact inv.frame x hx
  · intro i hi e he
    obtain ⟨b, hb, hpb⟩ := inv.written i hi e he
    rw [List.getElem?_set]
    by_cases h : c.toNat = e.2.toNat
    · rw [if_pos h, if_pos hlt]
      refine ⟨d, rfl, ?_⟩
      have h0 := hval e (List.getElem?_mem he)
      have hce : c = e.2 := by
        rw [← hcc, h, Int.toNat_of_nonneg h0]
      rw [← hce]
      exact hp
    · rw [if_neg h]
      exact ⟨b, hb, hpb⟩

theorem pairLoop_spec (m : List (Lex (Nat × Nat) × Int)) (E0 : List Int) (hs : MapSorted m)
    (hswap : ∀ e ∈ m, ∃ w, (toLex ((ofLex e.1).2, (ofLex e.1).1), w) ∈ m)
    (hval : ∀ e ∈ m, 0 ≤ e.2 ∧ e.2.toNat < E0.length) :
    ∀ (fuel pos : Nat) (E : List Int), m.length - pos < fuel → PairInv m E0 pos E →
      ∃ E2, pairLoop fuel m pos E = some E2 ∧ PairInv m E0 m.length E2 := by
  intro fuel
  induction fuel with
  | zero =>
    intro pos E h _
    omega
  | succ fuel ih =>
    intro pos E hfuel inv
    unfold pairLoop
    cases hget : m[pos]? with
    | none =>
      have hge : m.length ≤ pos := by
        by_contra hc
        rw [List.getElem?_eq_getElem (by omega)] at hget
        cases hget
      refine ⟨E, rfl, inv.len, inv.frame, ?_⟩
      intro i hi e he
      exact inv.written i (by omega) e he
    | some e =>
      obtain ⟨k, a⟩ := e
      have hpos : pos < m.length := by
        by_contra hc
        rw [List.getElem?_eq_none (by omega)] at hget
        cases hget
      have hmem : (k, a) ∈ m := List.getElem?_mem hget
      obtain ⟨w, hw⟩ := hswap _ hmem
      have hfind := (mapFind_eq_some_iff m hs _ _).mpr hw
      obtain ⟨v1, v2⟩ := hval _ hmem
      obtain ⟨w1, w2⟩ := hval _ hw
      simp only at hw hfind v1 v2 w1 w2
      have p1 : PairIn m a w := ⟨k, hmem, hw⟩
      have p2 : PairIn m w a := ⟨_, hw, by simpa using hmem⟩
      have hv0 : ∀ e ∈ m, 0 ≤ e.2 := fun e he => (hval e he).1
      have inv1 := PairInv_write hv0 inv p1 v1 (by rw [inv.len]; exact v2)
      have inv2 := PairInv_write hv0 inv1 p2 w1 (by rw [inv1.len]; exact w2)
      have inv3 : PairInv m E0 (pos + 1) ((E.set a.toNat w).set w.toNat a) := by
        refine ⟨inv2.len, inv2.frame, ?_⟩
        intro i hi e he
        by_cases hip : i < pos
        · exact inv2.written i hip e he
        · have hipos : i = pos := by omega
          subst hipos
          rw [hget] at he
          have he2 : (k, a) = e := Option.some.inj he
          rw [← he2, List.getElem?_set]
          simp only
          by_cases hsame : w.toNat = a.toNat
          · rw [if_pos hsame, if_pos (by rw [List.length_set, inv.len]; exact w2)]
            have hwe : w = a := by
              rw [← Int.toNat_of_nonneg w1, hsame, Int.toNat_of_nonneg v1]
            exact ⟨_, rfl, by rw [← hwe] at p1 ⊢; exact p1⟩
          · rw [if_neg hsame, List.getElem?_set, if_pos rfl,
              if_pos (by rw [inv.len]; exact v2)]
            exact ⟨w, rfl, p1⟩
      obtain ⟨E2, hE2, hinv⟩ := ih (pos + 1) _ (by omega) inv3
      refine ⟨E2, ?_, hinv⟩
      simp only [hfind, setI, v1, true_and, inv.len, v2, if_true, w1, List.length_set, w2]
      exact hE2
/-! ## The loops that re-register the touched faces -/

theorem foldl_mapSet_entries {κ ν : Type} [LinearOrder κ] (l : List (κ × ν)) :
    ∀ (m : List (κ × ν)), MapSorted m →
      ∀ e ∈ l.foldl (fun m e => mapSet m e.1 e.2) m,
        e ∈ l ∨ (e ∈ m ∧ ∀ e2 ∈ l, e2.1 ≠ e.1) := by
  induction l with
  | nil =>
    intro m _ e he
    exact Or.inr ⟨he, fun e2 h2 => (by cases h2)⟩
  | cons a l ih =>
    intro m hs e he
    rcases ih (mapSet m a.1 a.2) (mapSet_sorted m hs _ _) e he with h | ⟨h, hne⟩
    · exact Or.inl (List.mem_cons_of_mem _ h)
    · rcases (mem_mapSet m hs _ _ e).mp h with h1 | ⟨h1, h2⟩
      · left; rw [h1]; exact List.mem_cons_self _ _
      · right
        refine ⟨h1, ?_⟩
        intro e2 h2m
        rcases List.mem_cons.mp h2m with h3 | h3
        · rw [h3]; exact fun h4 => h2 h4.symm
        · exact hne e2 h3

theorem touchFace_eq (F : List Nat) (s : RebuildState) (f : Nat) :
    touchFace F s f = [f * 3, f * 3 + 1, f * 3 + 2].foldl (touchD F) s := by
  have s0 := src_face F f 0 (by norm_num)
  have s1 := src_face F f 1 (by norm_num)
  have s2 := src_face F f 2 (by norm_num)
  have t0 := dst_face F f 0 (by norm_num)
  have t1 := dst_face F f 1 (by norm_num)
  have t2 := dst_face F f 2 (by norm_num)
  norm_num at s0 s1 s2 t0 t1 t2
  simp only [touchFace, range3_foldl, touchEdge, List.foldl_cons, List.foldl_nil, touchD, s0, s1,
    s2, t0, t1, t2]
  norm_num

theorem foldl_touchFace (F : List Nat) (faces : List Nat) :
    ∀ s : RebuildState,
      faces.foldl (touchFace F) s = (edgesOfFaces faces).foldl (touchD F) s := by
  induction faces with
  | nil => intro s; rfl
  | cons f faces ih =>
    intro s
    rw [List.foldl_cons, ih, touchFace_eq]
    simp only [edgesOfFaces, List.flatMap_cons, List.foldl_append]

theorem foldl_touchD_dedges (F : List Nat) (l : List Nat) :
    ∀ s : RebuildState,
      (l.foldl (touchD F) s).dedges
        = (l.map (fun d => ((toLex (src F d, dst F d) : Lex (Nat × Nat)), (d : Int)))).foldl
            (fun m e => mapSet m e.1 e.2) s.dedges := by
  induction l with
  | nil => intro s; rfl
  | cons d l ih =>
    intro s
    rw [List.foldl_cons, ih]
    rfl

theorem foldl_touchD_V2E (F : List Nat) (l : List Nat) :
    ∀ s : RebuildState,
      (l.foldl (touchD F) s).V2E = l.foldl (fun V d => V.set (src F d) (d : Int)) s.V2E := by
  induction l with
  | nil => intro s; rfl
  | cons d l ih =>
    intro s
    rw [List.foldl_cons, ih]
    rfl

theorem foldl_set_spec (f : Nat → Nat) (l : List Nat) :
    ∀ (V : List Int),
      (l.foldl (fun V d => V.set (f d) (d : Int)) V).length = V.length ∧
      ∀ v, v < V.length →
        (∃ d ∈ l, f d = v ∧ (l.foldl (fun V d => V.set (f d) (d : Int)) V)[v]? = some (d : Int)) ∨
        ((∀ d ∈ l, f d ≠ v) ∧ (l.foldl (fun V d => V.set (f d) (d : Int)) V)[v]? = V[v]?) := by
  induction l with
  | nil =>
    intro V
    exact ⟨rfl, fun v _ => Or.inr ⟨fun d hd => (by cases hd), rfl⟩⟩
  | cons a l ih =>
    intro V
    obtain ⟨h1, h2⟩ := ih (V.set (f a) (a : Int))
    rw [List.length_set] at h1 h2
    refine ⟨h1, ?_⟩
    intro v hv
    rw [List.foldl_cons]
    rcases h2 v hv with ⟨d, hd, hfd, hget⟩ | ⟨hne, hget⟩
    · exact Or.inl ⟨d, List.mem_cons_of_mem _ hd, hfd, hget⟩
    · by_cases hfa : f a = v
      · left
        refine ⟨a, List.mem_cons_self _ _, hfa, ?_⟩
        rw [hget, List.getElem?_set, if_pos hfa, if_pos (by omega)]
      · right
        refine ⟨?_, ?_⟩
        · intro d hd
          rcases List.mem_cons.mp hd with h | h
          · rw [h]; exact hfa
          · exact hne d h
        · rw [hget, List.getElem?_set, if_neg hfa]

theorem mem_edgesOfFaces (faces : List Nat) (d : Nat) :
    d ∈ edgesOfFaces faces ↔ d / 3 ∈ faces := by
  unfold edgesOfFaces
  rw [List.mem_flatMap]
  constructor
  · rintro ⟨f, hf, hd⟩
    simp only [List.mem_cons, List.mem_singleton, List.not_mem_nil, or_false] at hd
    have : d / 3 = f := by omega
    rw [this]; exact hf
  · intro h
    refine ⟨d / 3, h, ?_⟩
    simp only [List.mem_cons, List.mem_singleton, List.not_mem_nil, or_false]
    omega
/-! ## The map `dedges` before `E2E_` is written -/

theorem mem_touched_edges {t : Topology} {cs : List Nat} {L : List Nat} {s : FaceState}
    (R : Refined t cs L s) (d : Nat) :
    d ∈ edgesOfFaces (L ++ List.range' t.num_F_ (s.num_F_ - t.num_F_)) ↔
      d < s.num_F_ * 3 ∧ Touched t.num_F_ L d := by
  have hge := R.inv.ge
  rw [mem_edgesOfFaces, List.mem_append, List.mem_range']
  unfold Touched
  constructor
  · rintro (h | ⟨i, hi, hd⟩)
    · have := R.lt _ h
      exact ⟨by omega, Or.inl h⟩
    · exact ⟨by omega, Or.inr (by omega)⟩
  · rintro ⟨hd, h | h⟩
    · exact Or.inl h
    · exact Or.inr ⟨d / 3 - t.num_F_, by omega, by omega⟩

theorem finalMap_eq (t : Topology) (L : List Nat) (s : FaceState) (V : List Int) :
    ((L ++ List.range' t.num_F_ (s.num_F_ - t.num_F_)).foldl (touchFace s.out_F_)
      { V2E := V, dedges := s.dedges }).dedges
      = ((edgesOfFaces (L ++ List.range' t.num_F_ (s.num_F_ - t.num_F_))).map
          (fun d => ((toLex (src s.out_F_ d, dst s.out_F_ d) : Lex (Nat × Nat)), (d : Int)))).foldl
            (fun m e => mapSet m e.1 e.2) s.dedges := by
  rw [foldl_touchFace, foldl_touchD_dedges]

/-- A directed edge made of a face of `L` has its vertex pair among the keys of the map. -/
theorem finalMap_touched_key {t : Topology} {cs : List Nat} {L : List Nat} {s : FaceState}
    (R : Refined t cs L s) {g : Nat} (hg : g ∈ L) (x : Nat × Nat)
    (hx : x ∈ faceKeys t.out_F_ (marks t cs) g) :
    ∃ v, ((toLex x : Lex (Nat × Nat)), v) ∈ finalMap t L s := by
  obtain ⟨d, hd, hxd, ht⟩ := Refined_key_surj R (R.lt g hg) x hx
  have hmem := (mem_touched_edges R d).mpr ⟨hd, ht.mpr hg⟩
  unfold finalMap
  rw [finalMap_eq]
  apply (foldl_mapSet_spec _ s.dedges R.inv.sorted).2.2
  refine ⟨(d : Int), Or.inl ?_⟩
  rw [List.mem_map]
  exact ⟨d, hmem, by rw [hxd]⟩

theorem e2e_getD {t : Topology} {cs : List Nat} (h : RefineInput t cs) {d : Nat}
    (hd : d < t.num_F_ * 3) : t.E2E_.getD d 0 = (e2eN t.E2E_ d : Int) := by
  obtain ⟨_, h1, _, _⟩ := ValidE2E_e2eN h.valid hd
  rw [List.getD_eq_getElem?_getD, h1]
  rfl

/-- The entries that the face loop wrote to the map, by directed edge. -/
theorem stub_entry {t : Topology} {cs : List Nat} (h : RefineInput t cs) {g : Nat}
    (hg : g < t.num_F_) (e : Lex (Nat × Nat) × Int) :
    e ∈ stubsOf t.E2E_ g (rowOf t.out_F_ g) (marksOf (marks t cs) g) ↔
      IsSplit (marks t cs) g ∧ ∃ d, d / 3 = g ∧ marks t cs d = -1 ∧
        e = (toLex (dst t.out_F_ d, src t.out_F_ d), (e2eN t.E2E_ d : Int)) := by
  have hm := mem_stubsOf t.E2E_ g (rowOf t.out_F_ g) (marks t cs (g * 3)) (marks t cs (g * 3 + 1))
    (marks t cs (g * 3 + 2)) (marks_cases _ _ _) (marks_cases _ _ _) (marks_cases _ _ _) e
  have hmo : marksOf (marks t cs) g
      = [marks t cs (g * 3), marks t cs (g * 3 + 1), marks t cs (g * 3 + 2)] := rfl
  rw [hmo, hm]
  have s0 := src_face t.out_F_ g 0 (by norm_num)
  have s1 := src_face t.out_F_ g 1 (by norm_num)
  have s2 := src_face t.out_F_ g 2 (by norm_num)
  have t0 := dst_face t.out_F_ g 0 (by norm_num)
  have t1 := dst_face t.out_F_ g 1 (by norm_num)
  have t2 := dst_face t.out_F_ g 2 (by norm_num)
  norm_num at s0 s1 s2 t0 t1 t2
  have g0 := e2e_getD h (show g * 3 < t.num_F_ * 3 by omega)
  have g1 := e2e_getD h (show g * 3 + 1 < t.num_F_ * 3 by omega)
  have g2 := e2e_getD h (show g * 3 + 2 < t.num_F_ * 3 by omega)
  have q0 : dst t.out_F_ (g * 3) = src t.out_F_ (g * 3 + 1) := by rw [t0, s1]
  have q1 : dst t.out_F_ (g * 3 + 1) = src t.out_F_ (g * 3 + 2) := by rw [t1, s2]
  have q2 : dst t.out_F_ (g * 3 + 2) = src t.out_F_ (g * 3) := by rw [t2, s0]
  simp only [rowOf, g0, g1, g2, ← s0, ← s1, ← s2]
  unfold IsSplit
  constructor
  · rintro ⟨hs, h1 | h1 | h1⟩
    · exact ⟨hs, g * 3, by omega, h1.1, by rw [h1.2, q0]⟩
    · exact ⟨hs, g * 3 + 1, by omega, h1.1, by rw [h1.2, q1]⟩
    · exact ⟨hs, g * 3 + 2, by omega, h1.1, by rw [h1.2, q2]⟩
  · rintro ⟨hs, d, hd, hmk, he⟩
    refine ⟨hs, ?_⟩
    have : d = g * 3 ∨ d = g * 3 + 1 ∨ d = g * 3 + 2 := by omega
    rcases this with h1 | h1 | h1 <;> subst h1
    · exact Or.inl ⟨hmk, by rw [he, q0]⟩
    · exact Or.inr (Or.inl ⟨hmk, by rw [he, q1]⟩)
    · exact Or.inr (Or.inr ⟨hmk, by rw [he, q2]⟩)
theorem Refined_untouched {t : Topology} {cs : List Nat} {L : List Nat} {s : FaceState}
    (R : Refined t cs L s) {w : Nat} (hw : w < t.num_F_ * 3) (hL : w / 3 ∉ L) :
    src s.out_F_ w = src t.out_F_ w ∧ dst s.out_F_ w = dst t.out_F_ w := by
  have hge := R.inv.ge
  obtain ⟨g0, _, _, ht, hu⟩ := Refined_key_mem R (show w < s.num_F_ * 3 by omega)
  have hnt : ¬ Touched t.num_F_ L w := by
    unfold Touched
    rintro (h | h)
    · exact hL h
    · omega
  have hg0 : g0 ∉ L := fun h => hnt (ht.mpr h)
  exact (hu hg0).2

theorem marked_face {t : Topology} {cs : List Nat} {L : List Nat} {s : FaceState}
    (R : Refined t cs L s) {d : Nat} (hd : d < t.num_F_ * 3) (hm : 0 ≤ marks t cs d) :
    d / 3 ∈ L := by
  apply (R.split (d / 3) (by omega)).mpr
  unfold IsSplit
  have h3 : d % 3 = 0 ∨ d % 3 = 1 ∨ d % 3 = 2 := by omega
  have hdm := div_mul_add_mod3 d
  rcases h3 with h | h | h
  · left; rw [show d / 3 * 3 = d by omega]; exact hm
  · right; left; rw [show d / 3 * 3 + 1 = d by omega]; exact hm
  · right; right; rw [show d / 3 * 3 + 2 = d by omega]; exact hm

theorem finalMap_sorted {t : Topology} {cs : List Nat} {L : List Nat} {s : FaceState}
    (R : Refined t cs L s) : MapSorted (finalMap t L s) := by
  unfold finalMap
  rw [finalMap_eq]
  exact (foldl_mapSet_spec _ s.dedges R.inv.sorted).1

theorem finalMap_stub_key {t : Topology} {cs : List Nat} {L : List Nat} {s : FaceState}
    (R : Refined t cs L s) {d : Nat} (hL : d / 3 ∈ L) (hm : marks t cs d = -1) :
    ∃ v, ((toLex (dst t.out_F_ d, src t.out_F_ d) : Lex (Nat × Nat)), v) ∈ finalMap t L s := by
  have hg := R.lt _ hL
  have hst := (stub_entry R.inp hg
    (toLex (dst t.out_F_ d, src t.out_F_ d), (e2eN t.E2E_ d : Int))).mpr
    ⟨(R.split _ hg).mp hL, d, rfl, hm, rfl⟩
  obtain ⟨v, hv⟩ := R.inv.keys _ hL _ hst
  unfold finalMap
  rw [finalMap_eq]
  apply (foldl_mapSet_spec _ s.dedges R.inv.sorted).2.2
  exact ⟨v, Or.inr hv⟩

/-- Every entry of the map holds a directed edge of the new face matrix under its own
vertex pair. -/
theorem finalMap_entry {t : Topology} {cs : List Nat} {L : List Nat} {s : FaceState}
    (R : Refined t cs L s) (e : Lex (Nat × Nat) × Int) (he : e ∈ finalMap t L s) :
    ∃ w : Nat, e.2 = (w : Int) ∧ w < s.num_F_ * 3 ∧
      (toLex (src s.out_F_ w, dst s.out_F_ w) : Lex (Nat × Nat)) = e.1 := by
  have hge := R.inv.ge
  unfold finalMap at he
  rw [finalMap_eq] at he
  rcases foldl_mapSet_entries _ s.dedges R.inv.sorted e he with h | ⟨h, hne⟩
  · obtain ⟨d, hd, hde⟩ := List.mem_map.mp h
    have := (mem_touched_edges R d).mp hd
    exact ⟨d, by rw [← hde], this.1, by rw [← hde]⟩
  · obtain ⟨g, hg, hst⟩ := R.inv.sound e h
    have hgl := R.lt g hg
    obtain ⟨_, d, hd, hm, hed⟩ := (stub_entry R.inp hgl e).mp hst
    have hdn : d < t.num_F_ * 3 := by omega
    obtain ⟨hwn, _, _, hr⟩ := ValidE2E_e2eN R.inp.valid hdn
    have hmw : marks t cs (e2eN t.E2E_ d) = -1 := by rw [marks_e2eN R.inp hdn]; exact hm
    have hwL : e2eN t.E2E_ d / 3 ∉ L := by
      intro hin
      have hk : (src t.out_F_ (e2eN t.E2E_ d), dst t.out_F_ (e2eN t.E2E_ d))
          ∈ faceKeys t.out_F_ (marks t cs) (e2eN t.E2E_ d / 3) :=
        faceKeys_complete _ _ (marks_cases t cs) _ _ (Or.inl ⟨_, rfl, hmw, rfl⟩)
      obtain ⟨d2, hd2, hx2, ht2⟩ := Refined_key_surj R (R.lt _ hin) _ hk
      have hmem := (mem_touched_edges R d2).mpr ⟨hd2, ht2.mpr hin⟩
      refine hne ((toLex (src s.out_F_ d2, dst s.out_F_ d2) : Lex (Nat × Nat)), (d2 : Int))
        (List.mem_map.mpr ⟨d2, hmem, rfl⟩) ?_
      rw [hed, hx2, hr.1, hr.2]
    obtain ⟨u1, u2⟩ := Refined_untouched R hwn hwL
    refine ⟨e2eN t.E2E_ d, by rw [hed], by omega, ?_⟩
    rw [hed, u1, u2, hr.1, hr.2]

theorem finalMap_swap {t : Topology} {cs : List Nat} {L : List Nat} {s : FaceState}
    (R : Refined t cs L s) (e : Lex (Nat × Nat) × Int) (he : e ∈ finalMap t L s) :
    ∃ w, ((toLex ((ofLex e.1).2, (ofLex e.1).1) : Lex (Nat × Nat)), w) ∈ finalMap t L s := by
  have hμ := marks_cases t cs
  unfold finalMap at he
  rw [finalMap_eq] at he
  rcases foldl_mapSet_entries _ s.dedges R.inv.sorted e he with h | ⟨h, _⟩
  · obtain ⟨d, hd, hde⟩ := List.mem_map.mp h
    obtain ⟨hdn, htd⟩ := (mem_touched_edges R d).mp hd
    obtain ⟨g, hgl, hxg, htg, _⟩ := Refined_key_mem R hdn
    have hgL : g ∈ L := htg.mp htd
    have hk : e.1 = toLex (src s.out_F_ d, dst s.out_F_ d) := by rw [← hde]
    rw [hk]
    simp only [ofLex_toLex]
    rcases (faceKeys_role _ _ hμ g _ hxg).2 with r | r | r | r
    · obtain ⟨d0, hd0, hm0, hx0⟩ := r
      have := finalMap_stub_key R (show d0 / 3 ∈ L by rw [hd0]; exact hgL) hm0
      have hx1 := (Prod.ext_iff.mp hx0).1
      have hx2 := (Prod.ext_iff.mp hx0).2
      simp only at hx1 hx2
      rw [hx1, hx2]
      exact this
    · obtain ⟨d0, hd0, hm0, hx0⟩ := r
      have hd0n : d0 < t.num_F_ * 3 := by omega
      obtain ⟨hwn, _, _, hr⟩ := ValidE2E_e2eN R.inp.valid hd0n
      have hmw : marks t cs (e2eN t.E2E_ d0) = marks t cs d0 := marks_e2eN R.inp hd0n
      have hwL := marked_face R hwn (by rw [hmw]; exact hm0)
      have hkk : ((marks t cs d0).toNat, src t.out_F_ d0)
          ∈ faceKeys t.out_F_ (marks t cs) (e2eN t.E2E_ d0 / 3) :=
        faceKeys_complete _ _ hμ _ _
          (Or.inr (Or.inr ⟨_, rfl, by rw [hmw]; exact hm0, by rw [hmw, hr.2]⟩))
      have hx1 := (Prod.ext_iff.mp hx0).1
      have hx2 := (Prod.ext_iff.mp hx0).2
      simp only at hx1 hx2
      rw [hx1, hx2]
      exact finalMap_touched_key R hwL _ hkk
    · obtain ⟨d0, hd0, hm0, hx0⟩ := r
      have hd0n : d0 < t.num_F_ * 3 := by omega
      obtain ⟨hwn, _, _, hr⟩ := ValidE2E_e2eN R.inp.valid hd0n
      have hmw : marks t cs (e2eN t.E2E_ d0) = marks t cs d0 := marks_e2eN R.inp hd0n
      have hwL := marked_face R hwn (by rw [hmw]; exact hm0)
      have hkk : (dst t.out_F_ d0, (marks t cs d0).toNat)
          ∈ faceKeys t.out_F_ (marks t cs) (e2eN t.E2E_ d0 / 3) :=
        faceKeys_complete _ _ hμ _ _
          (Or.inr (Or.inl ⟨_, rfl, by rw [hmw]; exact hm0, by rw [hmw, hr.1]⟩))
      have hx1 := (Prod.ext_iff.mp hx0).1
      have hx2 := (Prod.ext_iff.mp hx0).2
      simp only at hx1 hx2
      rw [hx1, hx2]
      exact finalMap_touched_key R hwL _ hkk
    · exact finalMap_touched_key R hgL _ r
  · obtain ⟨g, hg, hst⟩ := R.inv.sound e h
    have hgl := R.lt g hg
    obtain ⟨_, d, hd, hm, hed⟩ := (stub_entry R.inp hgl e).mp hst
    rw [hed]
    simp only [ofLex_toLex]
    exact finalMap_touched_key R hg _
      (faceKeys_complete _ _ hμ _ _ (Or.inl ⟨d, hd, hm, rfl⟩))
theorem finalMap_touched {t : Topology} {cs : List Nat} {L : List Nat} {s : FaceState}
    (R : Refined t cs L s) {d : Nat} (hd : d < s.num_F_ * 3) (ht : Touched t.num_F_ L d) :
    ∃ v, ((toLex (src s.out_F_ d, dst s.out_F_ d) : Lex (Nat × Nat)), v) ∈ finalMap t L s := by
  obtain ⟨g, _, hxg, htg, _⟩ := Refined_key_mem R hd
  exact finalMap_touched_key R (htg.mp ht) _ hxg

/-- After the loop over the map every directed edge of the new face matrix is paired with a
directed edge that runs the other way. -/
theorem paired_reversed {t : Topology} {cs : List Nat} {L : List Nat} {s : FaceState}
    (R : Refined t cs L s) (E0 E2 : List Int)
    (hE0 : ∀ d, d < t.num_F_ * 3 → E0[d]? = t.E2E_[d]?)
    (hinv : PairInv (finalMap t L s) E0 (finalMap t L s).length E2)
    (hlen : s.num_F_ * 3 ≤ E0.length) {d : Nat} (hd : d < s.num_F_ * 3) :
    ∃ w, w < s.num_F_ * 3 ∧ E2[d]? = some (w : Int) ∧ Reversed s.out_F_ d w := by
  have hge := R.inv.ge
  by_cases hk : ∃ v, ((toLex (src s.out_F_ d, dst s.out_F_ d) : Lex (Nat × Nat)), v)
      ∈ finalMap t L s
  · obtain ⟨v, hv⟩ := hk
    obtain ⟨w0, hw0, hw0n, hw0k⟩ := finalMap_entry R _ hv
    simp only at hw0 hw0k
    have hkk := Prod.ext_iff.mp (toLex.injective hw0k)
    have hwd : w0 = d := Refined_unique R w0 hw0n d hd hkk.1 hkk.2
    rw [hw0, hwd] at hv
    obtain ⟨i, hi⟩ := List.mem_iff_getElem?.mp hv
    have hil : i < (finalMap t L s).length := by
      by_contra hc
      rw [List.getElem?_eq_none (by omega)] at hi
      cases hi
    obtain ⟨b, hb, k, hk1, hk2⟩ := hinv.written i hil _ hi
    simp only [Int.toNat_ofNat] at hb
    obtain ⟨w1, hw1, hw1n, hw1k⟩ := finalMap_entry R _ hk1
    obtain ⟨w2, hw2, hw2n, hw2k⟩ := finalMap_entry R _ hk2
    simp only at hw1 hw1k hw2 hw2k
    have hw1d : w1 = d := by omega
    rw [hw1d] at hw1k
    rw [← hw1k] at hw2k
    simp only [ofLex_toLex] at hw2k
    have hkk2 := Prod.ext_iff.mp (toLex.injective hw2k)
    exact ⟨w2, hw2n, by rw [hb, hw2], hkk2.1, hkk2.2⟩
  · have hnt : ¬ Touched t.num_F_ L d := fun ht => hk (finalMap_touched R hd ht)
    have hdL : d / 3 ∉ L := fun h => hnt (Or.inl h)
    have hdn : d < t.num_F_ * 3 := by
      by_contra hc
      exact hnt (Or.inr (by omega))
    obtain ⟨hen, he1, _, hr⟩ := ValidE2E_e2eN R.inp.valid hdn
    obtain ⟨u1, u2⟩ := Refined_untouched R hdn hdL
    have hget : E2[d]? = some (e2eN t.E2E_ d : Int) := by
      rcases hinv.frame d (by rw [hinv.len]; omega) with h | ⟨b, _, k, hk1, _⟩
      · rw [h, hE0 d hdn, he1]
      · exfalso
        obtain ⟨w1, hw1, _, hw1k⟩ := finalMap_entry R _ hk1
        simp only at hw1 hw1k
        have hw1d : w1 = d := by omega
        rw [hw1d] at hw1k
        exact hk ⟨_, by rw [hw1k]; exact hk1⟩
    have heL : e2eN t.E2E_ d / 3 ∉ L := by
      intro hin
      rcases marks_cases t cs (e2eN t.E2E_ d) with hm | hm
      · obtain ⟨v, hv⟩ := finalMap_stub_key R hin hm
        rw [hr.1, hr.2, ← u1, ← u2] at hv
        exact hk ⟨v, hv⟩
      · rw [marks_e2eN R.inp hdn] at hm
        exact hdL (marked_face R hdn hm)
    obtain ⟨e1, e2⟩ := Refined_untouched R hen heL
    refine ⟨e2eN t.E2E_ d, by omega, hget, ?_, ?_⟩
    · rw [e1, u2]; exact hr.1
    · rw [e2, u1]; exact hr.2

theorem paired_valid {t : Topology} {cs : List Nat} {L : List Nat} {s : FaceState}
    (R : Refined t cs L s) (E0 E2 : List Int)
    (hE0 : ∀ d, d < t.num_F_ * 3 → E0[d]? = t.E2E_[d]?)
    (hinv : PairInv (finalMap t L s) E0 (finalMap t L s).length E2)
    (hlen : s.num_F_ * 3 ≤ E0.length) : ValidE2E s.out_F_ (s.num_F_ * 3) E2 := by
  refine ⟨three_dvd_mul _, ?_⟩
  intro d hd
  obtain ⟨w, hw, hget, hr⟩ := paired_reversed R E0 E2 hE0 hinv hlen hd
  obtain ⟨w2, hw2, hget2, hr2⟩ := paired_reversed R E0 E2 hE0 hinv hlen hw
  have : d = w2 := Reversed_unique (Refined_unique R) (Reversed_symm hr) hr2 hd hw2
  exact ⟨w, hw, hget, by rw [hget2, this], hr⟩
/-! ## `V2E_` after the loops that re-register the touched faces -/

theorem marks_cand {t : Topology} {cs : List Nat} (h : RefineInput t cs) (i : Nat)
    (hi : i < cs.length) : marks t cs cs[i] = ((t.num_V_ + i : Nat) : Int) := by
  have hmem : cs[i] ∈ cs := List.getElem_mem _
  obtain ⟨hc1, hc2⟩ := h.cand_lt _ hmem
  have hrep : edgeRep t.E2E_ cs[i] = cs[i] := by
    unfold edgeRep
    rw [if_pos hc2]
  unfold marks midOf
  rw [hrep, if_pos hmem, List.indexOf_getElem h.cand_nodup i hi]

theorem rebuilt_V2E {t : Topology} {cs : List Nat} {L : List Nat} {s : FaceState}
    (R : Refined t cs L s) (V0 : List Int) (hlen : t.num_V_ + cs.length ≤ V0.length)
    (hV0 : ∀ v, v < t.num_V_ → V0[v]? = t.V2E_[v]?) (v : Nat)
    (hv : v < t.num_V_ + cs.length) :
    ∃ d, d < s.num_F_ * 3 ∧
      ((L ++ List.range' t.num_F_ (s.num_F_ - t.num_F_)).foldl (touchFace s.out_F_)
        { V2E := V0, dedges := s.dedges }).V2E[v]? = some (d : Int) ∧
      src s.out_F_ d = v := by
  have hμ := marks_cases t cs
  have hge := R.inv.ge
  rw [foldl_touchFace, foldl_touchD_V2E]
  obtain ⟨_, hspec⟩ := foldl_set_spec (src s.out_F_)
    (edgesOfFaces (L ++ List.range' t.num_F_ (s.num_F_ - t.num_F_))) V0
  -- a directed edge made of a face of `L` that starts at `v` rules out the second case
  have hno : (∀ d ∈ edgesOfFaces (L ++ List.range' t.num_F_ (s.num_F_ - t.num_F_)),
      src s.out_F_ d ≠ v) → ∀ g ∈ L, ∀ x ∈ faceKeys t.out_F_ (marks t cs) g, x.1 ≠ v := by
    intro hne g hg x hx hxv
    obtain ⟨d, hd, hxd, ht⟩ := Refined_key_surj R (R.lt g hg) x hx
    have hmem := (mem_touched_edges R d).mpr ⟨hd, ht.mpr hg⟩
    exact hne d hmem (by rw [← hxv, ← hxd])
  rcases hspec v (by omega) with ⟨d, hd, hfd, hget⟩ | ⟨hne, hget⟩
  · exact ⟨d, ((mem_touched_edges R d).mp hd).1, hget, hfd⟩
  · by_cases hvo : v < t.num_V_
    · obtain ⟨d0, hd0, hg0, hs0⟩ := R.inp.v2e v hvo
      by_cases hL : d0 / 3 ∈ L
      · exfalso
        rcases hμ d0 with hm | hm
        · exact hno hne _ hL _
            (faceKeys_complete _ _ hμ _ _ (Or.inl ⟨d0, rfl, hm, rfl⟩)) hs0
        · exact hno hne _ hL _
            (faceKeys_complete _ _ hμ _ _ (Or.inr (Or.inl ⟨d0, rfl, hm, rfl⟩))) hs0
      · refine ⟨d0, by omega, by rw [hget, hV0 v hvo, hg0], ?_⟩
        rw [(Refined_untouched R hd0 hL).1, hs0]
    · exfalso
      have hi : v - t.num_V_ < cs.length := by omega
      have hc := marks_cand R.inp (v - t.num_V_) hi
      have hcl := (R.inp.cand_lt _ (List.getElem_mem hi)).1
      have hm0 : 0 ≤ marks t cs cs[v - t.num_V_] := by rw [hc]; omega
      have hL := marked_face R hcl hm0
      refine hno hne _ hL _
        (faceKeys_complete _ _ hμ _ _ (Or.inr (Or.inr ⟨_, rfl, hm0, rfl⟩))) ?_
      simp only [hc]
      omega

/-! ## One refinement round -/

theorem growSize_spec : ∀ (fuel size target : Nat),
    (target ≤ size ∨ (0 < size ∧ target ≤ size * 2 ^ fuel)) →
    ∃ sz, growSize fuel size target = some sz ∧ size ≤ sz ∧ target ≤ sz := by
  intro fuel
  induction fuel with
  | zero =>
    intro size target h
    have : target ≤ size := by
      rcases h with h | h
      · exact h
      · simpa using h.2
    exact ⟨size, by simp [growSize, Nat.not_lt.mpr this], le_refl _, this⟩
  | succ fuel ih =>
    intro size target h
    unfold growSize
    by_cases hlt : size < target
    · rw [if_pos hlt]
      have hs : 0 < size ∧ target ≤ size * 2 ^ (fuel + 1) := by
        rcases h with h | h
        · omega
        · exact h
      obtain ⟨sz, h1, h2, h3⟩ := ih (size * 2) target
        (Or.inr ⟨by omega, by rw [pow_succ] at hs; nlinarith [hs.2]⟩)
      exact ⟨sz, h1, by omega, h3⟩
    · rw [if_neg hlt]
      exact ⟨size, rfl, le_refl _, by omega⟩

theorem growSize_self (size target : Nat) (h : target ≤ size ∨ 0 < size) :
    ∃ sz, growSize target size target = some sz ∧ size ≤ sz ∧ target ≤ sz := by
  apply growSize_spec
  rcases h with h | h
  · exact Or.inl h
  · right
    refine ⟨h, ?_⟩
    have h1 : target < 2 ^ target := Nat.lt_two_pow target
    nlinarith [h1]

theorem RefineInput_lengths {t : Topology} {cs : List Nat} (h : RefineInput t cs) :
    t.num_F_ * 3 ≤ t.E2E_.length ∧ t.num_V_ ≤ t.V2E_.length := by
  constructor
  · by_contra hc
    have hpos : 0 < t.num_F_ * 3 := by omega
    obtain ⟨_, h1, _, _⟩ := ValidE2E_e2eN h.valid (show t.num_F_ * 3 - 1 < t.num_F_ * 3 by omega)
    rw [List.getElem?_eq_none (by omega)] at h1
    cases h1
  · by_contra hc
    obtain ⟨d, _, h1, _⟩ := h.v2e (t.num_V_ - 1) (by omega)
    rw [List.getElem?_eq_none (by omega)] at h1
    cases h1

theorem SplitsInv_nil (num_F : Nat) (E2E : List Int) (num_V : Nat) :
    SplitsInv num_F (midOf E2E num_V []) [] := by
  refine ⟨MapSorted_nil, fun e he => (by cases he), ?_⟩
  intro f _
  have : ¬ IsSplit (midOf E2E num_V []) f := by
    unfold IsSplit
    simp [midOf_nil]
  rw [if_neg this]
  rfl

/-- The state after the first two loops of a round. -/
theorem refine_faces (junkF : Nat → Nat) {t : Topology} {cs : List Nat}
    (h : RefineInput t cs) :
    ∃ fs s, cs.foldlM (insertVertex t.E2E_) { num_V_ := t.num_V_, face_splits := [] }
        = some { num_V_ := t.num_V_ + cs.length, face_splits := fs } ∧
      fs.foldlM (splitFace junkF t.E2E_)
        { num_F_ := t.num_F_, out_F_ := t.out_F_, dedges := [] } = some s ∧
      Refined t cs (fs.map Prod.fst) s := by
  obtain ⟨fs, h1, h2⟩ := insertVertices_spec h.valid t.num_V_ cs []
    { num_V_ := t.num_V_, face_splits := [] } h.cand_lt (by simpa using h.cand_nodup) rfl
    (SplitsInv_nil _ _ _)
  simp only [List.nil_append] at h1 h2
  obtain ⟨e1, e2, e3⟩ := SplitsInv_entries h2
  obtain ⟨s, hs, hinv⟩ := faceLoop_spec junkF (marks_cases t cs) (RefineInput_lengths h).1 fs []
    { num_F_ := t.num_F_, out_F_ := t.out_F_, dedges := [] }
    (FaceInv_init _ _ _ _ h.cap) e1 (by simpa using e2)
  simp only [List.nil_append] at hinv
  refine ⟨fs, s, h1, hs, h, hinv, e2, e3, ?_⟩
  intro g hg
  obtain ⟨e, he, heg⟩ := List.mem_map.mp hg
  rw [← heg]
  exact (e1 e he).1
/-! ## C10: the topology involution after a refinement round -/

/-- C10 (amended): if before a refinement round `E2E_` is an involution with the
opposite-edge property, `V2E_[v]` is an outgoing directed edge of every vertex `v`, no face
repeats a vertex, no ordered vertex pair occurs twice as a directed edge, and for every
directed edge selected for splitting the two faces on its sides have different opposite
vertices, then the round returns, adds one vertex per selected edge, and after its face split
and rebuild every directed edge `d` below `3 * num_F_` has `E2E_[E2E_[d]] = d`, the source of
`E2E_[d]` is the destination of `d` (and the other way round), and `V2E_[v]` is a directed
edge with source `v` for every `v` below `num_V_`. -/
theorem AdaptiveRefine_topology (junkF : Nat → Nat) (junkV junkE : Nat → Int) (t : Topology)
    (candidates : List Nat) (h : RefineInput t candidates) :
    ∃ t2, refineTopology junkF junkV junkE t candidates = some t2 ∧
      t2.num_V_ = t.num_V_ + candidates.length ∧
      (∀ d, d < t2.num_F_ * 3 → ∃ e, e < t2.num_F_ * 3 ∧ t2.E2E_[d]? = some (e : Int) ∧
        t2.E2E_[e]? = some (d : Int) ∧ src t2.out_F_ e = dst t2.out_F_ d ∧
        dst t2.out_F_ e = src t2.out_F_ d) ∧
      (∀ v, v < t2.num_V_ → ∃ d, d < t2.num_F_ * 3 ∧ t2.V2E_[v]? = some (d : Int) ∧
        src t2.out_F_ d = v) := by
  obtain ⟨fs, s, hv, hf, R⟩ := refine_faces junkF h
  obtain ⟨lenE, lenV⟩ := RefineInput_lengths h
  have hge := R.inv.ge
  -- the two arrays grow
  have hgV : t.num_V_ + candidates.length ≤ t.V2E_.length ∨ 0 < t.V2E_.length := by
    by_cases h0 : t.num_V_ = 0
    · left
      have : candidates = [] := by
        cases hc : candidates with
        | nil => rfl
        | cons c l =>
          exfalso
          have := (h.cand_lt c (by rw [hc]; exact List.mem_cons_self _ _)).1
          have := h.src_lt c this
          omega
      rw [this]; simpa using lenV
    · right; omega
  have hgE : s.num_F_ * 3 ≤ t.E2E_.length ∨ 0 < t.E2E_.length := by
    by_cases h0 : t.num_F_ = 0
    · left
      have hL : fs.map Prod.fst = [] := by
        cases hc : fs.map Prod.fst with
        | nil => rfl
        | cons c l =>
          exfalso
          have := R.lt c (by rw [hc]; exact List.mem_cons_self _ _)
          omega
      have hlen := congrArg List.length R.inv.rows
      rw [tris_length, hL] at hlen
      simp only [List.length_append, List.length_map, List.length_range, List.flatMap_nil,
        List.length_nil] at hlen
      omega
    · right; omega
  obtain ⟨sizeV, gV, gV1, gV2⟩ := growSize_self t.V2E_.length (t.num_V_ + candidates.length) hgV
  obtain ⟨sizeE, gE, gE1, gE2⟩ := growSize_self t.E2E_.length (s.num_F_ * 3) hgE
  -- the map and the loop that writes `E2E_`
  have hmap := finalMap_eq t (fs.map Prod.fst) s (resizeWith junkV t.V2E_ sizeV)
  have hmap0 := finalMap_eq t (fs.map Prod.fst) s []
  have hfm : ((fs.map Prod.fst ++ List.range' t.num_F_ (s.num_F_ - t.num_F_)).foldl
      (touchFace s.out_F_) { V2E := resizeWith junkV t.V2E_ sizeV, dedges := s.dedges }).dedges
      = finalMap t (fs.map Prod.fst) s := by
    rw [hmap]; unfold finalMap; rw [hmap0]
  have hE0len : (resizeWith junkE t.E2E_ sizeE).length = sizeE := length_resizeWith _ _ _
  obtain ⟨E2, hE2, hinv⟩ := pairLoop_spec (finalMap t (fs.map Prod.fst) s)
    (resizeWith junkE t.E2E_ sizeE) (finalMap_sorted R) (finalMap_swap R)
    (by
      intro e he
      obtain ⟨w, hw, hwn, _⟩ := finalMap_entry R e he
      rw [hw, hE0len]
      exact ⟨by omega, by simp only [Int.toNat_ofNat]; omega⟩)
    (2 * (finalMap t (fs.map Prod.fst) s).length + 1) 0 (resizeWith junkE t.E2E_ sizeE)
    (by omega)
    ⟨rfl, fun x _ => Or.inl rfl, fun i hi => by omega⟩
  have hvalid := paired_valid R (resizeWith junkE t.E2E_ sizeE) E2
    (fun d hd => getElem?_resizeWith _ _ _ _ (by omega) gE1) hinv (by rw [hE0len]; exact gE2)
  refine ⟨{ num_V_ := t.num_V_ + candidates.length, num_F_ := s.num_F_, out_F_ := s.out_F_,
            V2E_ := ((fs.map Prod.fst ++ List.range' t.num_F_ (s.num_F_ - t.num_F_)).foldl
              (touchFace s.out_F_)
              { V2E := resizeWith junkV t.V2E_ sizeV, dedges := s.dedges }).V2E,
            E2E_ := E2 }, ?_, rfl, ?_, ?_⟩
  · unfold refineTopology
    simp only [hv, hf, gV, gE, hfm, hE2]
  · intro d hd
    obtain ⟨e, he, h1, h2, h3⟩ := hvalid.opp d hd
    exact ⟨e, he, h1, h2, h3.1, h3.2⟩
  · intro v hv2
    exact rebuilt_V2E R (resizeWith junkV t.V2E_ sizeV)
      (by rw [length_resizeWith]; exact gV2)
      (fun v hv => getElem?_resizeWith _ _ _ _ (by omega) gV1) v hv2
/-- The amended C10 statement applied to the tetrahedron with the directed edges `0`, `1`,
`2` and `3` selected, so that one face has three marked edges, two faces have two and one face
has one. -/
theorem AdaptiveRefine_topology_witness :
    RefineInput tetraT [0, 1, 2, 3] ∧
    ∃ t2, refineTopology (fun _ => 0) (fun _ => 0) (fun _ => 0) tetraT [0, 1, 2, 3] = some t2 ∧
      t2.num_V_ = tetraT.num_V_ + [0, 1, 2, 3].length ∧
      (∀ d, d < t2.num_F_ * 3 → ∃ e, e < t2.num_F_ * 3 ∧ t2.E2E_[d]? = some (e : Int) ∧
        t2.E2E_[e]? = some (d : Int) ∧ src t2.out_F_ e = dst t2.out_F_ d ∧
        dst t2.out_F_ e = src t2.out_F_ d) ∧
      (∀ v, v < t2.num_V_ → ∃ d, d < t2.num_F_ * 3 ∧ t2.V2E_[v]? = some (d : Int) ∧
        src t2.out_F_ d = v) :=
  ⟨⟨⟨by decide, by decide⟩, by decide, by decide, by decide, by decide, by decide, by decide,
      by decide, by decide⟩,
    AdaptiveRefine_topology (fun _ => 0) (fun _ => 0) (fun _ => 0) tetraT [0, 1, 2, 3]
      ⟨⟨by decide, by decide⟩, by decide, by decide, by decide, by decide, by decide, by decide,
        by decide, by decide⟩⟩
theorem pillow_vertices :
    [0].foldlM (insertVertex pillow.E2E_) { num_V_ := pillow.num_V_, face_splits := [] }
      = some { num_V_ := 4, face_splits := [(0, [3, -1, -1]), (1, [-1, -1, 3])] } := by
  rfl

theorem pillow_faces (junkF : Nat → Nat) :
    [((0 : Nat), ([3, -1, -1] : List Int)), (1, [-1, -1, 3])].foldlM
        (splitFace junkF pillow.E2E_)
        { num_F_ := pillow.num_F_, out_F_ := pillow.out_F_, dedges := [] }
      = some { num_F_ := 4, out_F_ := [0, 3, 2, 1, 3, 2, 3, 1, 2, 3, 0, 2],
               dedges := [(toLex (0, 2), 3), (toLex (1, 2), 1), (toLex (2, 0), 2),
                 (toLex (2, 1), 4)] } := by
  simp [splitFace, AddFace, setRow, resizeWith, mapSet, faceAt, pillow, List.range_succ,
    List.filter_cons, List.findIdx_cons, Prod.Lex.lt_iff]

theorem pillow_rebuild (junkV : Nat → Int) :
    ([0, 1] ++ List.range' 2 2).foldl (touchFace [0, 3, 2, 1, 3, 2, 3, 1, 2, 3, 0, 2])
        { V2E := resizeWith junkV pillow.V2E_ 6,
          dedges := [(toLex (0, 2), 3), (toLex (1, 2), 1), (toLex (2, 0), 2),
            (toLex (2, 1), 4)] }
      = { V2E := [10, 7, 11, 9, junkV 4, junkV 5],
          dedges := [(toLex (0, 2), 10), (toLex (0, 3), 0), (toLex (1, 2), 7),
            (toLex (1, 3), 3), (toLex (2, 0), 2), (toLex (2, 1), 5), (toLex (2, 3), 11),
            (toLex (3, 0), 9), (toLex (3, 1), 6), (toLex (3, 2), 4)] } := by
  simp [touchFace, touchEdge, resizeWith, mapSet, faceAt, pillow, List.range_succ,
    Prod.Lex.lt_iff, List.range']

theorem pillow_pairs (junkE : Nat → Int) :
    pairLoop 21 [(toLex (0, 2), 10), (toLex (0, 3), 0), (toLex (1, 2), 7),
            (toLex (1, 3), 3), (toLex (2, 0), 2), (toLex (2, 1), 5), (toLex (2, 3), 11),
            (toLex (3, 0), 9), (toLex (3, 1), 6), (toLex (3, 2), 4)] 0
        (resizeWith junkE pillow.E2E_ 12)
      = some [9, 4, 10, 6, 11, 7, 3, 5, junkE 8, 0, 2, 4] := by
  simp [pairLoop, mapFind, setI, resizeWith, pillow, List.range_succ]
/-- C10 as stated fails on the "pillow", the closed manifold mesh of the two faces `(0,1,2)`
and `(0,2,1)`: when the directed edge `0` is split, both faces get an interior edge between
the new vertex `3` and the vertex `2`, so the pairs `(3,2)` and `(2,3)` occur twice and the
map keyed by vertex pairs keeps one directed edge of each.  Whatever the uninitialised entries
hold, the directed edge `1` keeps its old partner `4`, whose partner is `11`, and the source
of `E2E_[1]` is `3` while the destination of `1` is `2`. -/
theorem AdaptiveRefine_pillow_unpaired :
    ManifoldMesh pillow.out_F_ (pillow.num_F_ * 3) pillow.num_V_ pillow.V2E_ pillow.E2E_ ∧
    EdgesUnique pillow.out_F_ (pillow.num_F_ * 3) ∧
    NoLoopEdge pillow.out_F_ (pillow.num_F_ * 3) ∧
    (0 : Nat) < e2eN pillow.E2E_ 0 ∧
    ∀ (junkF : Nat → Nat) (junkV junkE : Nat → Int),
      ∃ t2, refineTopology junkF junkV junkE pillow [0] = some t2 ∧
        t2.num_F_ = 4 ∧ t2.out_F_ = [0, 3, 2, 1, 3, 2, 3, 1, 2, 3, 0, 2] ∧
        t2.E2E_[1]? = some 4 ∧ t2.E2E_[4]? = some 11 ∧
        src t2.out_F_ 4 = 3 ∧ dst t2.out_F_ 1 = 2 := by
  refine ⟨⟨⟨by decide, by decide⟩, by decide, by decide, by decide⟩, by decide, by decide,
    by decide, ?_⟩
  intro junkF junkV junkE
  have hgV : growSize 4 pillow.V2E_.length 4 = some 6 := by decide
  have hgE : growSize 12 pillow.E2E_.length 12 = some 12 := by decide
  have hfaces := pillow_faces junkF
  have hrb := pillow_rebuild junkV
  have hpairs := pillow_pairs junkE
  refine ⟨{ num_V_ := 4, num_F_ := 4, out_F_ := [0, 3, 2, 1, 3, 2, 3, 1, 2, 3, 0, 2],
            V2E_ := [10, 7, 11, 9, junkV 4, junkV 5],
            E2E_ := [9, 4, 10, 6, 11, 7, 3, 5, junkE 8, 0, 2, 4] }, ?_, rfl, rfl, rfl, rfl,
    rfl, rfl⟩
  unfold refineTopology
  rw [pillow_vertices]
  simp only [List.map_cons, List.map_nil]
  rw [hfaces]
  simp only [Nat.reduceMul, hgV, hgE]
  have e1 : [0, 1] ++ List.range' 2 2 = [0, 1] ++ List.range' pillow.num_F_ (4 - pillow.num_F_) :=
    rfl
  rw [e1] at hrb
  rw [hrb]
  simp only [List.length_cons, List.length_nil, Nat.reduceAdd, Nat.reduceMul]
  rw [hpairs]

/-! ## C13: pairing without sentinel and the involution -/

theorem PairedInv_init (F : List Nat) (num_V num_F : Nat) :
    PairedInv F (num_F * 3) 0 (halfEdgeInit num_V num_F) where
  len := by simp [halfEdgeInit]
  fresh := by
    intro d _ hd
    simp [halfEdgeInit, List.getElem?_replicate, hd]
  pairs := by
    intro d hd
    left
    simp [halfEdgeInit, List.getElem?_replicate, hd]
  map_sound := by intro a b r h; simp [halfEdgeInit] at h

theorem PairedInv_step {F : List Nat} {n k : Nat} {s : HalfEdgeState}
    (hu : EdgesUnique F n) (hk : k < n) (h : PairedInv F n k s) :
    PairedInv F n (k + 1) (halfEdgeStep F s (k / 3) (k % 3)) := by
  rw [halfEdgeStep_at]
  cases hfind : s.dedges (dst F k, src F k) with
  | none =>
    refine ⟨h.len, fun d h1 h2 => h.fresh d (by omega) h2, h.pairs, ?_⟩
    intro a b r hr
    simp only [Function.update_apply] at hr
    split at hr
    · rename_i hab
      have hrk : k = r := Option.some.inj hr
      subst hrk
      have h1 := congrArg Prod.fst hab
      have h2 := congrArg Prod.snd hab
      simp only at h1 h2
      exact ⟨by omega, h1.symm, h2.symm, Or.inl (h.fresh k (le_refl _) hk)⟩
    · obtain ⟨q1, q2, q3, q4⟩ := h.map_sound a b r hr
      refine ⟨by omega, q2, q3, ?_⟩
      rcases q4 with q4 | ⟨k2, q5, q6⟩
      · exact Or.inl q4
      · exact Or.inr ⟨k2, by omega, q6⟩
  | some rid =>
    obtain ⟨hrid, hs, hd, hfree⟩ := h.map_sound _ _ _ hfind
    have hlen := h.len
    have hridE : s.E2E[rid]? = some (-1) := by
      rcases hfree with q | ⟨k2, q5, q6, q7⟩
      · exact q
      · have := hu k2 (by omega) k hk q6 q7
        omega
    have hkE : s.E2E[k]? = some (-1) := h.fresh k (le_refl _) hk
    have hne : rid ≠ k := by omega
    have getk : ((s.E2E.set k (rid : Int)).set rid (k : Int))[k]? = some (rid : Int) := by
      simp [List.getElem?_set, hne, hlen, hk]
    have getr : ((s.E2E.set k (rid : Int)).set rid (k : Int))[rid]? = some (k : Int) := by
      simp [List.getElem?_set, hlen]; omega
    have geto : ∀ d, d ≠ k → d ≠ rid →
        ((s.E2E.set k (rid : Int)).set rid (k : Int))[d]? = s.E2E[d]? := by
      intro d h1 h2
      have e1 : ¬ k = d := fun e => h1 e.symm
      have e2 : ¬ rid = d := fun e => h2 e.symm
      simp only [List.getElem?_set, e1, e2, if_false]
    refine ⟨by simp [h.len], ?_, ?_, ?_⟩
    · intro d h1 h2
      rw [geto d (by omega) (by omega)]
      exact h.fresh d (by omega) h2
    · intro d hdn
      by_cases e1 : d = k
      · subst e1; exact Or.inr ⟨rid, by omega, getk, getr⟩
      · by_cases e2 : d = rid
        · subst e2; exact Or.inr ⟨k, hk, getr, getk⟩
        · rw [geto d e1 e2]
          rcases h.pairs d hdn with q | ⟨e, q1, q2, q3⟩
          · exact Or.inl q
          · right
            have e3 : e ≠ k := by
              rintro rfl
              rw [hkE] at q3
              have := Option.some.inj q3
              omega
            have e4 : e ≠ rid := by
              rintro rfl
              rw [hridE] at q3
              have := Option.some.inj q3
              omega
            exact ⟨e, q1, q2, by rw [geto e e3 e4]; exact q3⟩
    · intro a b r hr
      obtain ⟨q1, q2, q3, q4⟩ := h.map_sound a b r hr
      refine ⟨by omega, q2, q3, ?_⟩
      by_cases e2 : r = rid
      · right
        subst e2
        exact ⟨k, by omega, by rw [← q3, hd], by rw [← q2, hs]⟩
      · rcases q4 with q4 | ⟨k2, q5, q6⟩
        · left; rw [geto r (by omega) e2]; exact q4
        · exact Or.inr ⟨k2, by omega, q6⟩

theorem PairedInv_after {F : List Nat} (num_V : Nat) {num_F : Nat}
    (hu : EdgesUnique F (num_F * 3)) :
    ∀ k, k ≤ num_F * 3 → PairedInv F (num_F * 3) k (halfEdgeAfter num_V num_F F k) := by
  intro k
  induction k with
  | zero => intro _; exact PairedInv_init F num_V num_F
  | succ k ih =>
    intro hk
    rw [halfEdgeAfter_succ]
    exact PairedInv_step hu (by omega) (ih (by omega))

/-- C13 (amended): for a face array in which no ordered pair of vertices occurs twice as a
directed edge (vertex ids below `num_V_`), if after `ComputeHalfEdge` no entry `E2E[d]` with
`d < 3 * num_F_` is the sentinel `-1`, then every such `d` has `E2E[d]` in range and
`E2E[E2E[d]] = d`. -/
theorem ComputeHalfEdge_paired_involution {P : Type} (m : Mesh P)
    (_hV : ∀ d, d < m.num_F_ * 3 → src m.out_F_ d < m.num_V_)
    (hu : EdgesUnique m.out_F_ (m.num_F_ * 3))
    (hp : ∀ d, d < m.num_F_ * 3 → getI (ComputeHalfEdge m).E2E_ (d : Int) ≠ some (-1)) :
    ∀ d, d < m.num_F_ * 3 → ∃ e, e < m.num_F_ * 3 ∧
      getI (ComputeHalfEdge m).E2E_ (d : Int) = some (e : Int) ∧
      getI (ComputeHalfEdge m).E2E_ (e : Int) = some (d : Int) := by
  intro d hd
  have inv := PairedInv_after m.num_V_ hu (m.num_F_ * 3) (le_refl _)
  rw [← halfEdgeLoop_eq_after] at inv
  have hp1 := hp d hd
  rw [getI_natCast] at hp1
  rcases inv.pairs d hd with q | ⟨e, q1, q2, q3⟩
  · exact absurd q hp1
  · exact ⟨e, q1, by rw [getI_natCast]; exact q2, by rw [getI_natCast]; exact q3⟩

/-- The amended C13 statement applied to the tetrahedron. -/
theorem ComputeHalfEdge_paired_involution_witness :
    (∀ d, d < tetra.num_F_ * 3 → src tetra.out_F_ d < tetra.num_V_) ∧
    EdgesUnique tetra.out_F_ (tetra.num_F_ * 3) ∧
    (∀ d, d < tetra.num_F_ * 3 → getI (ComputeHalfEdge tetra).E2E_ (d : Int) ≠ some (-1)) ∧
    ∀ d, d < tetra.num_F_ * 3 → ∃ e, e < tetra.num_F_ * 3 ∧
      getI (ComputeHalfEdge tetra).E2E_ (d : Int) = some (e : Int) ∧
      getI (ComputeHalfEdge tetra).E2E_ (e : Int) = some (d : Int) :=
  ⟨by decide, by decide, by decide,
    ComputeHalfEdge_paired_involution tetra (by decide) (by decide) (by decide)⟩

/-- C13 as stated fails on the three faces `(0, 1, 2)`, `(0, 2, 1)`, `(0, 2, 1)`: all vertex ids
are below `num_V_`, no entry of `E2E` is `-1` after `ComputeHalfEdge`, and yet `E2E[3] = 2`
while `E2E[2] = 6`. -/
theorem ComputeHalfEdge_paired_not_involution :
    (∀ d, d < book.num_F_ * 3 → src book.out_F_ d < book.num_V_) ∧
    (∀ d, d < book.num_F_ * 3 → getI (ComputeHalfEdge book).E2E_ (d : Int) ≠ some (-1)) ∧
    (ComputeHalfEdge book).E2E_ = [8, 7, 6, 2, 1, 0, 2, 1, 0] ∧
    getI (ComputeHalfEdge book).E2E_ 3 = some 2 ∧
    getI (ComputeHalfEdge book).E2E_ 2 = some 6 := by
  decide

/-! ## C14: the representative `V2E_` after ComputeHalfEdge -/

/-- C14: after `ComputeHalfEdge` (vertex ids below `num_V_`), for every vertex `v < num_V_`
that is a corner of some face, `V2E[v]` is the largest directed edge `d = 3 f + k` with
`out_F_(f, k) = v`, and for every vertex `v < num_V_` that is a corner of no face,
`V2E[v] = -1`. -/
theorem ComputeHalfEdge_V2E {P : Type} (m : Mesh P)
    (_hV : ∀ d, d < m.num_F_ * 3 → src m.out_F_ d < m.num_V_) (v : Nat) (hv : v < m.num_V_) :
    ((∃ d, d < m.num_F_ * 3 ∧ src m.out_F_ d = v) →
      ∃ d, d < m.num_F_ * 3 ∧ faceAt m.out_F_ (d / 3) (d % 3) = v ∧
        getI (ComputeHalfEdge m).V2E_ (v : Int) = some (d : Int) ∧
        ∀ d2, d2 < m.num_F_ * 3 → faceAt m.out_F_ (d2 / 3) (d2 % 3) = v → d2 ≤ d) ∧
    ((∀ d, d < m.num_F_ * 3 → src m.out_F_ d ≠ v) →
      getI (ComputeHalfEdge m).V2E_ (v : Int) = some (-1)) := by
  constructor
  · rintro ⟨d, hd, hs⟩
    obtain ⟨d2, h1, h2, h3, h4⟩ := halfEdgeLoop_V2E_used m.out_F_ m.num_V_ m.num_F_ v hv d hd hs
    exact ⟨d2, h1, h2, by rw [getI_natCast]; exact h3, h4⟩
  · intro hno
    rw [getI_natCast]
    have inv := V2EInv_after m.out_F_ m.num_V_ m.num_F_ (m.num_F_ * 3)
    rw [← halfEdgeLoop_eq_after] at inv
    exact inv.absent v hv hno

/-- C14 applied to the tetrahedron and its vertex `0`, whose largest corner is `6`. -/
theorem ComputeHalfEdge_V2E_witness :
    (∀ d, d < tetra.num_F_ * 3 → src tetra.out_F_ d < tetra.num_V_) ∧ 0 < tetra.num_V_ ∧
    ((∃ d, d < tetra.num_F_ * 3 ∧ src tetra.out_F_ d = 0) →
      ∃ d, d < tetra.num_F_ * 3 ∧ faceAt tetra.out_F_ (d / 3) (d % 3) = 0 ∧
        getI (ComputeHalfEdge tetra).V2E_ ((0 : Nat) : Int) = some (d : Int) ∧
        ∀ d2, d2 < tetra.num_F_ * 3 → faceAt tetra.out_F_ (d2 / 3) (d2 % 3) = 0 → d2 ≤ d) ∧
    ((∀ d, d < tetra.num_F_ * 3 → src tetra.out_F_ d ≠ 0) →
      getI (ComputeHalfEdge tetra).V2E_ ((0 : Nat) : Int) = some (-1)) :=
  ⟨by decide, by decide, ComputeHalfEdge_V2E tetra (by decide) 0 (by decide)⟩

/-! ## C15: the one-ring rotation is a cycle of outgoing edges -/

theorem next_out_iterate {F : List Nat} {n : Nat} {E2E : List Int} (hv : ValidE2E F n E2E)
    {d : Nat} (hd : d < n) (k : Nat) :
    next_out E2E (((nextN E2E)^[k] d : Nat) : Int) = some (((nextN E2E)^[k + 1] d : Nat) : Int) := by
  rw [next_out_natCast hv (iterate_nextN_lt hv hd k), Function.iterate_succ_apply']

/-- C15: for `E2E` an involution on `[0, 3 * num_F)` with the opposite-edge property and a
directed edge `d0`, the iteration of `next_out` from `d0` returns to `d0` after `p` steps with
`0 < p ≤ 3 * num_F`, the `p` directed edges visited before are pairwise different, every
visited directed edge is in range and has the source vertex of `d0`, and the `do ... while`
ring loop started at `d0` terminates, having visited exactly these `p` directed edges. -/
theorem next_out_cycle (F : List Nat) (num_F : Nat) (E2E : List Int)
    (hv : ValidE2E F (num_F * 3) E2E) (d0 : Nat) (hd : d0 < num_F * 3) :
    ∃ p, 0 < p ∧ p ≤ num_F * 3 ∧ (nextN E2E)^[p] d0 = d0 ∧
      (∀ i j, i < j → j < p → (nextN E2E)^[i] d0 ≠ (nextN E2E)^[j] d0) ∧
      (∀ k, (nextN E2E)^[k] d0 < num_F * 3 ∧
        next_out E2E (((nextN E2E)^[k] d0 : Nat) : Int)
          = some (((nextN E2E)^[k + 1] d0 : Nat) : Int) ∧
        src F ((nextN E2E)^[k] d0) = src F d0) ∧
      ∀ fuel, num_F * 3 ≤ fuel →
        ringList E2E fuel (d0 : Int)
          = some ((List.range p).map (fun i => (((nextN E2E)^[i] d0 : Nat) : Int))) := by
  refine ⟨Function.minimalPeriod (nextN E2E) d0, period_pos hv hd, period_le hv hd,
    iterate_period E2E d0, ?_, ?_, ?_⟩
  · intro i j hij hj heq
    have hnd := fan_nodup E2E d0
    have := (List.nodup_iff_injective_getElem.mp hnd)
    have hi : i < ((List.range (Function.minimalPeriod (nextN E2E) d0)).map
        (fun i => (nextN E2E)^[i] d0)).length := by simp; omega
    have hj2 : j < ((List.range (Function.minimalPeriod (nextN E2E) d0)).map
        (fun i => (nextN E2E)^[i] d0)).length := by simp; omega
    have := @this ⟨i, hi⟩ ⟨j, hj2⟩ (by simpa using heq)
    simp at this
    omega
  · intro k
    exact ⟨iterate_nextN_lt hv hd k, next_out_iterate hv hd k, src_iterate_nextN hv hd k⟩
  · intro fuel hfuel
    rw [ringList_eq hv hd fuel hfuel]

/-- C15 applied to the tetrahedron and its directed edge `0`. -/
theorem next_out_cycle_witness :
    ValidE2E tetraT.out_F_ (4 * 3) tetraT.E2E_ ∧ 0 < 4 * 3 ∧
    ∃ p, 0 < p ∧ p ≤ 4 * 3 ∧ (nextN tetraT.E2E_)^[p] 0 = 0 ∧
      (∀ i j, i < j → j < p → (nextN tetraT.E2E_)^[i] 0 ≠ (nextN tetraT.E2E_)^[j] 0) ∧
      (∀ k, (nextN tetraT.E2E_)^[k] 0 < 4 * 3 ∧
        next_out tetraT.E2E_ (((nextN tetraT.E2E_)^[k] 0 : Nat) : Int)
          = some (((nextN tetraT.E2E_)^[k + 1] 0 : Nat) : Int) ∧
        src tetraT.out_F_ ((nextN tetraT.E2E_)^[k] 0) = src tetraT.out_F_ 0) ∧
      ∀ fuel, 4 * 3 ≤ fuel →
        ringList tetraT.E2E_ fuel ((0 : Nat) : Int)
          = some ((List.range p).map (fun i => (((nextN tetraT.E2E_)^[i] 0 : Nat) : Int))) :=
  ⟨⟨by decide, by decide⟩, by decide,
    next_out_cycle tetraT.out_F_ 4 tetraT.E2E_ ⟨by decide, by decide⟩ 0 (by decide)⟩

/-! ## C16: the groups partition the vertices -/

theorem colorVertex_length (F : List Nat) (V2E E2E : List Int) (fuel : Nat) {s s2 : ColorState}
    {i : Nat} (h : colorVertex id F V2E E2E fuel s i = some s2) :
    s2.vertex_colors.length = s.vertex_colors.length := by
  unfold colorVertex at h
  split at h
  · exact Option.noConfusion h
  · split at h
    · cases h; rfl
    · split at h
      · exact Option.noConfusion h
      · split at h
        · exact Option.noConfusion h
        · split at h
          · cases h; simp
          · cases h; rfl

theorem colorVertex_groups (F : List Nat) (V2E E2E : List Int) (fuel : Nat) {s s2 : ColorState}
    {i : Nat} (h : colorVertex id F V2E E2E fuel s i = some s2) (hg : GroupCount s) :
    GroupCount s2 := by
  unfold colorVertex at h
  split at h
  · exact Option.noConfusion h
  · rename_i c hc
    split at h
    · cases h
      intro v
      simpa [List.flatten_append] using hg v
    · rename_i hneg
      have hc1 : c = -1 := by simpa using hneg
      split at h
      · exact Option.noConfusion h
      · split at h
        · exact Option.noConfusion h
        · split at h
          · cases h
            intro v
            have hi : i < s.vertex_colors.length := by
              by_contra hge
              rw [List.getElem?_eq_none (by omega)] at hc
              exact Option.noConfusion hc
            have hci : colorOf s.vertex_colors i = -1 := by
              simp [colorOf, List.getD_eq_getElem?_getD, hc, hc1]
            simp only [List.flatten_append, List.count_append, id_eq, List.flatten_cons,
              List.flatten_nil, List.append_nil, colorOf_set _ _ _ _ hi]
            rw [hg v]
            by_cases hvi : v = i
            · subst hvi
              have : ((s.group_id : Nat) : Int) ≠ -1 := by omega
              simp [hci, this]
            · simp [hvi, List.count_singleton, Ne.symm hvi]
          · cases h
            intro v
            simpa [List.flatten_append] using hg v

theorem colorScan_groups (F : List Nat) (V2E E2E : List Int) (fuel : Nat) :
    ∀ (l : List Nat) (s s2 : ColorState),
      l.foldlM (colorVertex id F V2E E2E fuel) s = some s2 → GroupCount s →
      GroupCount s2 ∧ s2.vertex_colors.length = s.vertex_colors.length := by
  intro l
  induction l with
  | nil =>
    intro s s2 h hg
    simp only [List.foldlM_nil] at h
    cases h
    exact ⟨hg, rfl⟩
  | cons i l ih =>
    intro s s2 h hg
    simp only [List.foldlM_cons] at h
    cases h1 : colorVertex id F V2E E2E fuel s i with
    | none => rw [h1] at h; exact Option.noConfusion h
    | some s1 =>
      rw [h1] at h
      have := ih s1 s2 h (colorVertex_groups F V2E E2E fuel h1 hg)
      exact ⟨this.1, this.2.trans (colorVertex_length F V2E E2E fuel h1)⟩

theorem colorRounds_groups (num_V : Nat) (F : List Nat) (V2E E2E : List Int) (fuel : Nat) :
    ∀ r (s s2 : ColorState), colorRounds id num_V F V2E E2E fuel r s = some s2 →
      GroupCount s → GroupCount s2 ∧ s2.vertex_colors.length = s.vertex_colors.length := by
  intro r
  induction r with
  | zero => intro s s2 h; exact Option.noConfusion h
  | succ r ih =>
    intro s s2 h hg
    unfold colorRounds at h
    split at h
    · split at h
      · exact Option.noConfusion h
      · rename_i s1 h1
        have q := colorScan_groups F V2E E2E fuel _ s s1 h1 hg
        have := ih _ s2 h (by exact q.1)
        exact ⟨this.1, this.2.trans q.2⟩
    · cases h; exact ⟨hg, rfl⟩

theorem count_flatten_one {v : Nat} : ∀ (L : List (List Nat)), L.flatten.count v = 1 →
    ∃ k, k < L.length ∧ (L.getD k []).count v = 1 ∧
      ∀ j, j < L.length → j ≠ k → v ∉ L.getD j [] := by
  intro L
  induction L with
  | nil => intro h; simp at h
  | cons g L ih =>
    intro h
    simp only [List.flatten_cons, List.count_append] at h
    by_cases hg : g.count v = 0
    · obtain ⟨k, h1, h2, h3⟩ := ih (by omega)
      refine ⟨k + 1, by simp; omega, by simpa using h2, ?_⟩
      intro j hj hne
      cases j with
      | zero => simpa using List.count_eq_zero.mp hg
      | succ j =>
        have := h3 j (by simpa using hj) (by omega)
        simpa using this
    · have hL : L.flatten.count v = 0 := by omega
      refine ⟨0, by simp, by simp; omega, ?_⟩
      intro j hj hne
      cases j with
      | zero => exact absurd rfl hne
      | succ j =>
        simp only [List.getD_cons_succ]
        intro hmem
        have h2 : v ∈ L.flatten := by
          rw [List.mem_flatten]
          refine ⟨L.getD j [], ?_, hmem⟩
          have hj2 : j < L.length := by simpa using hj
          rw [List.getD_eq_getElem _ _ hj2]
          exact List.getElem_mem hj2
        exact absurd (List.count_pos_iff.mpr h2) (by omega)

/-- C16: on a closed manifold mesh with valid `V2E_`/`E2E_`, `ComputeIndependentSet` returns,
and then every vertex id below `num_V_` occurs in exactly one group of `vertex_groups_` and
exactly once in it, and no group holds an id that is not below `num_V_`. -/
theorem ComputeIndependentSet_partition {P : Type} (m : Mesh P)
    (hm : ManifoldMesh m.out_F_ (m.num_F_ * 3) m.num_V_ m.V2E_ m.E2E_)
    (random_shuffle : List Nat → List Nat) (hsh : ∀ l, (random_shuffle l).Perm l)
    (fuel : Nat) (hfuel : m.num_F_ * 3 ≤ fuel) (hfuelV : m.num_V_ < fuel) :
    ∃ s, ComputeIndependentSet random_shuffle fuel m = some s ∧
      (∀ v, v < m.num_V_ → ∃ k, k < s.vertex_groups_.length ∧
        (s.vertex_groups_.getD k []).count v = 1 ∧
        ∀ j, j < s.vertex_groups_.length → j ≠ k → v ∉ s.vertex_groups_.getD j []) ∧
      (∀ grp ∈ s.vertex_groups_, ∀ v ∈ grp, v < m.num_V_) := by
  obtain ⟨s, hs, hcol, _, _⟩ := ComputeIndependentSet_proper m hm random_shuffle hsh fuel hfuel
    hfuelV
  refine ⟨s, hs, ?_⟩
  unfold ComputeIndependentSet at hs
  rw [colorRounds_shuffle random_shuffle hsh] at hs
  have h0 : GroupCount ⟨0, 0, List.replicate m.num_V_ (-1), []⟩ := by
    intro v
    by_cases hv : v < m.num_V_ <;>
      simp [colorOf, List.getD_eq_getElem?_getD, List.getElem?_replicate, hv]
  obtain ⟨hg, hlen⟩ := colorRounds_groups m.num_V_ m.out_F_ m.V2E_ m.E2E_ fuel fuel _ s hs h0
  simp only [List.length_replicate] at hlen
  constructor
  · intro v hv
    apply count_flatten_one
    rw [hg v, if_neg]
    have := hcol v hv
    omega
  · intro grp hgrp v hvg
    by_contra hge
    have hc := hg v
    rw [colorOf_of_ge _ _ (by omega), if_pos rfl] at hc
    have : v ∈ s.vertex_groups_.flatten := List.mem_flatten.mpr ⟨grp, hgrp, hvg⟩
    exact absurd (List.count_pos_iff.mpr this) (by omega)

theorem octaHE_manifold :
    ManifoldMesh octaHE.out_F_ (octaHE.num_F_ * 3) octaHE.num_V_ octaHE.V2E_ octaHE.E2E_ :=
  ⟨⟨by decide, by decide⟩, by decide, by decide, by decide⟩

/-- C16 applied to the octahedron. -/
theorem ComputeIndependentSet_partition_witness :
    ManifoldMesh octaHE.out_F_ (octaHE.num_F_ * 3) octaHE.num_V_ octaHE.V2E_ octaHE.E2E_ ∧
    (∀ l : List Nat, (id l).Perm l) ∧ octaHE.num_F_ * 3 ≤ 25 ∧ octaHE.num_V_ < 25 ∧
    ∃ s, ComputeIndependentSet id 25 octaHE = some s ∧
      (∀ v, v < octaHE.num_V_ → ∃ k, k < s.vertex_groups_.length ∧
        (s.vertex_groups_.getD k []).count v = 1 ∧
        ∀ j, j < s.vertex_groups_.length → j ≠ k → v ∉ s.vertex_groups_.getD j []) ∧
      (∀ grp ∈ s.vertex_groups_, ∀ v ∈ grp, v < octaHE.num_V_) :=
  ⟨octaHE_manifold, fun l => List.Perm.refl l, by decide, by decide,
    ComputeIndependentSet_partition octaHE octaHE_manifold id (fun l => List.Perm.refl l) 25
      (by decide) (by decide)⟩

/-! ## C19: the triangles that replace a split face -/

set_option maxHeartbeats 1600000 in
theorem kidsOf_conforming (t : Nat × Nat × Nat) (s0 s1 s2 : Int)
    (h0 : s0 = -1 ∨ 0 ≤ s0) (h1 : s1 = -1 ∨ 0 ≤ s1) (h2 : s2 = -1 ∨ 0 ≤ s2)
    (hsome : 0 ≤ s0 ∨ 0 ≤ s1 ∨ 0 ≤ s2) :
    ∃ interior : List (Nat × Nat),
      (kidsOf t [s0, s1, s2]).length = splitCount [s0, s1, s2] + 1 ∧
      ((kidsOf t [s0, s1, s2]).flatMap triKeys).Perm
        (sideEdges t [s0, s1, s2] ++ interior ++ interior.map Prod.swap) ∧
      (0 ≤ s0 → 0 ≤ s1 → 0 ≤ s2 → kidsOf t [s0, s1, s2] =
        [(t.1, s0.toNat, s2.toNat), (s0.toNat, s1.toNat, s2.toNat),
         (s0.toNat, t.2.1, s1.toNat), (s2.toNat, s1.toNat, t.2.2)]) ∧
      (∀ j, j < 3 → [s0, s1, s2].getD (j % 3) 0 = -1 → 0 ≤ [s0, s1, s2].getD ((j + 1) % 3) 0 →
        0 ≤ [s0, s1, s2].getD ((j + 2) % 3) 0 → kidsOf t [s0, s1, s2] =
        [(cornerOf t j, cornerOf t (j + 1), midAt [s0, s1, s2] (j + 1)),
         (cornerOf t j, midAt [s0, s1, s2] (j + 1), midAt [s0, s1, s2] (j + 2)),
         (midAt [s0, s1, s2] (j + 2), midAt [s0, s1, s2] (j + 1), cornerOf t (j + 2))]) ∧
      (∀ j, j < 3 → 0 ≤ [s0, s1, s2].getD (j % 3) 0 → [s0, s1, s2].getD ((j + 1) % 3) 0 = -1 →
        [s0, s1, s2].getD ((j + 2) % 3) 0 = -1 → kidsOf t [s0, s1, s2] =
        [(cornerOf t j, midAt [s0, s1, s2] j, cornerOf t (j + 2)),
         (midAt [s0, s1, s2] j, cornerOf t (j + 1), cornerOf t (j + 2))]) := by
  obtain ⟨v0, v1, v2⟩ := t
  have hneg : ¬ (0 : Int) ≤ -1 := by norm_num
  rcases h0 with h0 | h0 <;> rcases h1 with h1 | h1 <;> rcases h2 with h2 | h2
  · subst h0 h1 h2
    rcases hsome with h | h | h <;> exact absurd h hneg
  · subst h0 h1
    have n2 : s2 ≠ -1 := by omega
    have hcount : ((List.range 3).filter (fun j => 0 ≤ ([-1, -1, s2] : List Int).getD j 0)).length = 1 := by
      simp [List.range_succ, List.filter_cons, h2]
    have hidx : ([-1, -1, s2] : List Int).findIdx (fun x => x ≠ -1) = 2 := by
      simp [List.findIdx_cons, n2]
    have hk : kidsOf (v0, v1, v2) [-1, -1, s2] = [(v2, s2.toNat, v1), (s2.toNat, v0, v1)] := by
      simp only [kidsOf, hcount, hidx]
      norm_num
    rw [hk]
    refine ⟨[(s2.toNat, v1)], ?_, ?_, ?_, ?_, ?_⟩
    · simp only [splitCount, hcount]; rfl
    · have hside : sideEdges (v0, v1, v2) [-1, -1, s2] = [(v0, v1), (v1, v2), (v2, s2.toNat), (s2.toNat, v0)] := by
        simp [sideEdges, cornerOf, midAt, List.range_succ, h2]
      rw [hside, List.perm_iff_count]
      intro x
      simp only [List.flatMap_cons, List.flatMap_nil, triKeys, List.cons_append, List.nil_append,
        List.append_nil, List.map_cons, List.map_nil, Prod.swap_prod_mk, List.count_cons, List.count_nil]
      ring
    · intro q0 q1 q2
      exact absurd q0 hneg
    · intro j hj q0 q1 q2
      interval_cases j <;> simp [cornerOf, midAt, h2, n2] at q0 q1 q2 ⊢
    · intro j hj q0 q1 q2
      interval_cases j <;> simp [cornerOf, midAt, h2, n2] at q0 q1 q2 ⊢
  · subst h0 h2
    have n1 : s1 ≠ -1 := by omega
    have hcount : ((List.range 3).filter (fun j => 0 ≤ ([-1, s1, -1] : List Int).getD j 0)).length = 1 := by
      simp [List.range_succ, List.filter_cons, h1]
    have hidx : ([-1, s1, -1] : List Int).findIdx (fun x => x ≠ -1) = 1 := by
      simp [List.findIdx_cons, n1]
    have hk : kidsOf (v0, v1, v2) [-1, s1, -1] = [(v1, s1.toNat, v0), (s1.toNat, v2, v0)] := by
      simp only [kidsOf, hcount, hidx]
      norm_num
    rw [hk]
    refine ⟨[(s1.toNat, v0)], ?_, ?_, ?_, ?_, ?_⟩
    · simp only [splitCount, hcount]; rfl
    · have hside : sideEdges (v0, v1, v2) [-1, s1, -1] = [(v0, v1), (v1, s1.toNat), (s1.toNat, v2), (v2, v0)] := by
        simp [sideEdges, cornerOf, midAt, List.range_succ, h1]
      rw [hside, List.perm_iff_count]
      intro x
      simp only [List.flatMap_cons, List.flatMap_nil, triKeys, List.cons_append, List.nil_append,
        List.append_nil, List.map_cons, List.map_nil, Prod.swap_prod_mk, List.count_cons, List.count_nil]
      ring
    · intro q0 q1 q2
      exact absurd q0 hneg
    · intro j hj q0 q1 q2
      interval_cases j <;> simp [cornerOf, midAt, h1, n1] at q0 q1 q2 ⊢
    · intro j hj q0 q1 q2
      interval_cases j <;> simp [cornerOf, midAt, h1, n1] at q0 q1 q2 ⊢
  · subst h0
    have n1 : s1 ≠ -1 := by omega
    have n2 : s2 ≠ -1 := by omega
    have hcount : ((List.range 3).filter (fun j => 0 ≤ ([-1, s1, s2] : List Int).getD j 0)).length = 2 := by
      simp [List.range_succ, List.filter_cons, h1, h2]
    have hidx : ([-1, s1, s2] : List Int).findIdx (fun x => x = -1) = 0 := by
      simp [List.findIdx_cons, n1, n2]
    have hk : kidsOf (v0, v1, v2) [-1, s1, s2] = [(v0, v1, s1.toNat), (v0, s1.toNat, s2.toNat), (s2.toNat, s1.toNat, v2)] := by
      simp only [kidsOf, hcount, hidx]
      norm_num
    rw [hk]
    refine ⟨[(s1.toNat, v0), (s1.toNat, s2.toNat)], ?_, ?_, ?_, ?_, ?_⟩
    · simp only [splitCount, hcount]; rfl
    · have hside : sideEdges (v0, v1, v2) [-1, s1, s2] = [(v0, v1), (v1, s1.toNat), (s1.toNat, v2), (v2, s2.toNat), (s2.toNat, v0)] := by
        simp [sideEdges, cornerOf, midAt, List.range_succ, h1, h2]
      rw [hside, List.perm_iff_count]
      intro x
      simp only [List.flatMap_cons, List.flatMap_nil, triKeys, List.cons_append, List.nil_append,
        List.append_nil, List.map_cons, List.map_nil, Prod.swap_prod_mk, List.count_cons, List.count_nil]
      ring
    · intro q0 q1 q2
      exact absurd q0 hneg
    · intro j hj q0 q1 q2
      interval_cases j <;> simp [cornerOf, midAt, h1, h2, n1, n2] at q0 q1 q2 ⊢
    · intro j hj q0 q1 q2
      interval_cases j <;> simp [cornerOf, midAt, h1, h2, n1, n2] at q0 q1 q2 ⊢
  · subst h1 h2
    have n0 : s0 ≠ -1 := by omega
    have hcount : ((List.range 3).filter (fun j => 0 ≤ ([s0, -1, -1] : List Int).getD j 0)).length = 1 := by
      simp [List.range_succ, List.filter_cons, h0]
    have hidx : ([s0, -1, -1] : List Int).findIdx (fun x => x ≠ -1) = 0 := by
      simp [List.findIdx_cons, n0]
    have hk : kidsOf (v0, v1, v2) [s0, -1, -1] = [(v0, s0.toNat, v2), (s0.toNat, v1, v2)] := by
      simp only [kidsOf, hcount, hidx]
      norm_num
    rw [hk]
    refine ⟨[(s0.toNat, v2)], ?_, ?_, ?_, ?_, ?_⟩
    · simp only [splitCount, hcount]; rfl
    · have hside : sideEdges (v0, v1, v2) [s0, -1, -1] = [(v0, s0.toNat), (s0.toNat, v1), (v1, v2), (v2, v0)] := by
        simp [sideEdges, cornerOf, midAt, List.range_succ, h0]
      rw [hside, List.perm_iff_count]
      intro x
      simp only [List.flatMap_cons, List.flatMap_nil, triKeys, List.cons_append, List.nil_append,
        List.append_nil, List.map_cons, List.map_nil, Prod.swap_prod_mk, List.count_cons, List.count_nil]
      ring
    · intro q0 q1 q2
      exact absurd q1 hneg
    · intro j hj q0 q1 q2
      interval_cases j <;> simp [cornerOf, midAt, h0, n0] at q0 q1 q2 ⊢
    · intro j hj q0 q1 q2
      interval_cases j <;> simp [cornerOf, midAt, h0, n0] at q0 q1 q2 ⊢
  · subst h1
    have n0 : s0 ≠ -1 := by omega
    have n2 : s2 ≠ -1 := by omega
    have hcount : ((List.range 3).filter (fun j => 0 ≤ ([s0, -1, s2] : List Int).getD j 0)).length = 2 := by
      simp [List.range_succ, List.filter_cons, h0, h2]
    have hidx : ([s0, -1, s2] : List Int).findIdx (fun x => x = -1) = 1 := by
      simp [List.findIdx_cons, n0, n2]
    have hk : kidsOf (v0, v1, v2) [s0, -1, s2] = [(v1, v2, s2.toNat), (v1, s2.toNat, s0.toNat), (s0.toNat, s2.toNat, v0)] := by
      simp only [kidsOf, hcount, hidx]
      norm_num
    rw [hk]
    refine ⟨[(s2.toNat, v1), (s2.toNat, s0.toNat)], ?_, ?_, ?_, ?_, ?_⟩
    · simp only [splitCount, hcount]; rfl
    · have hside : sideEdges (v0, v1, v2) [s0, -1, s2] = [(v0, s0.toNat), (s0.toNat, v1), (v1, v2), (v2, s2.toNat), (s2.toNat, v0)] := by
        simp [sideEdges, cornerOf, midAt, List.range_succ, h0, h2]
      rw [hside, List.perm_iff_count]
      intro x
      simp only [List.flatMap_cons, List.flatMap_nil, triKeys, List.cons_append, List.nil_append,
        List.append_nil, List.map_cons, List.map_nil, Prod.swap_prod_mk, List.count_cons, List.count_nil]
      ring
    · intro q0 q1 q2
      exact absurd q1 hneg
    · intro j hj q0 q1 q2
      interval_cases j <;> simp [cornerOf, midAt, h0, h2, n0, n2] at q0 q1 q2 ⊢
    · intro j hj q0 q1 q2
      interval_cases j <;> simp [cornerOf, midAt, h0, h2, n0, n2] at q0 q1 q2 ⊢
  · subst h2
    have n0 : s0 ≠ -1 := by omega
    have n1 : s1 ≠ -1 := by omega
    have hcount : ((List.range 3).filter (fun j => 0 ≤ ([s0, s1, -1] : List Int).getD j 0)).length = 2 := by
      simp [List.range_succ, List.filter_cons, h0, h1]
    have hidx : ([s0, s1, -1] : List Int).findIdx (fun x => x = -1) = 2 := by
      simp [List.findIdx_cons, n0, n1]
    have hk : kidsOf (v0, v1, v2) [s0, s1, -1] = [(v2, v0, s0.toNat), (v2, s0.toNat, s1.toNat), (s1.toNat, s0.toNat, v1)] := by
      simp only [kidsOf, hcount, hidx]
      norm_num
    rw [hk]
    refine ⟨[(s0.toNat, v2), (s0.toNat, s1.toNat)], ?_, ?_, ?_, ?_, ?_⟩
    · simp only [splitCount, hcount]; rfl
    · have hside : sideEdges (v0, v1, v2) [s0, s1, -1] = [(v0, s0.toNat), (s0.toNat, v1), (v1, s1.toNat), (s1.toNat, v2), (v2, v0)] := by
        simp [sideEdges, cornerOf, midAt, List.range_succ, h0, h1]
      rw [hside, List.perm_iff_count]
      intro x
      simp only [List.flatMap_cons, List.flatMap_nil, triKeys, List.cons_append, List.nil_append,
        List.append_nil, List.map_cons, List.map_nil, Prod.swap_prod_mk, List.count_cons, List.count_nil]
      ring
    · intro q0 q1 q2
      exact absurd q2 hneg
    · intro j hj q0 q1 q2
      interval_cases j <;> simp [cornerOf, midAt, h0, h1, n0, n1] at q0 q1 q2 ⊢
    · intro j hj q0 q1 q2
      interval_cases j <;> simp [cornerOf, midAt, h0, h1, n0, n1] at q0 q1 q2 ⊢
  · have n0 : s0 ≠ -1 := by omega
    have n1 : s1 ≠ -1 := by omega
    have n2 : s2 ≠ -1 := by omega
    have hcount : ((List.range 3).filter (fun j => 0 ≤ ([s0, s1, s2] : List Int).getD j 0)).length = 3 := by
      simp [List.range_succ, List.filter_cons, h0, h1, h2]
    have hk : kidsOf (v0, v1, v2) [s0, s1, s2] = [(v0, s0.toNat, s2.toNat), (s0.toNat, s1.toNat, s2.toNat), (s0.toNat, v1, s1.toNat), (s2.toNat, s1.toNat, v2)] := by
      simp only [kidsOf, hcount]
      norm_num
    rw [hk]
    refine ⟨[(s0.toNat, s2.toNat), (s0.toNat, s1.toNat), (s1.toNat, s2.toNat)], ?_, ?_, ?_, ?_, ?_⟩
    · simp only [splitCount, hcount]; rfl
    · have hside : sideEdges (v0, v1, v2) [s0, s1, s2] = [(v0, s0.toNat), (s0.toNat, v1), (v1, s1.toNat), (s1.toNat, v2), (v2, s2.toNat), (s2.toNat, v0)] := by
        simp [sideEdges, cornerOf, midAt, List.range_succ, h0, h1, h2]
      rw [hside, List.perm_iff_count]
      intro x
      simp only [List.flatMap_cons, List.flatMap_nil, triKeys, List.cons_append, List.nil_append,
        List.append_nil, List.map_cons, List.map_nil, Prod.swap_prod_mk, List.count_cons, List.count_nil]
      ring
    · intro _ _ _; rfl
    · intro j hj q0 q1 q2
      interval_cases j <;> simp [cornerOf, midAt, h0, h1, h2, n0, n1, n2] at q0 q1 q2 ⊢
    · intro j hj q0 q1 q2
      interval_cases j <;> simp [cornerOf, midAt, h0, h1, h2, n0, n1, n2] at q0 q1 q2 ⊢

/-- C19: the loop body that inserts faces, run on a face `f` with rows `(v0, v1, v2)` and
`1`, `2` or `3` marked edges (`si` is `-1` or the new vertex of edge `i`), returns; the face
count grows by the number of marked edges, row `f` is overwritten by the first and the rows
appended are the others of `count + 1` triangles `kids`; the directed edges of `kids` are,
with multiplicity, the edges of the face without mark, the two halves of every marked edge, and
interior directed edges that come in opposite pairs; and `kids` is the list stated for three
marks, for two marks (`j` the edge without mark), and for one mark (`j` the marked edge). -/
theorem splitFace_conforming (junk : Nat → Nat) (E2E : List Int) (s : FaceState) (f : Nat)
    (s0 s1 s2 : Int) (h0 : s0 = -1 ∨ 0 ≤ s0) (h1 : s1 = -1 ∨ 0 ≤ s1) (h2 : s2 = -1 ∨ 0 ≤ s2)
    (hsome : 0 ≤ s0 ∨ 0 ≤ s1 ∨ 0 ≤ s2)
    (hE : ∀ i, i < 3 → f * 3 + i < E2E.length)
    (hcap : s.num_F_ * 3 ≤ s.out_F_.length) (hf : f < s.num_F_) :
    ∃ (r : FaceState) (kids : List (Nat × Nat × Nat)) (interior : List (Nat × Nat)),
      splitFace junk E2E s (f, [s0, s1, s2]) = some r ∧
      kids.length = splitCount [s0, s1, s2] + 1 ∧
      r.num_F_ = s.num_F_ + splitCount [s0, s1, s2] ∧
      tris r.out_F_ r.num_F_
        = (tris s.out_F_ s.num_F_).set f (kids.headD (0, 0, 0)) ++ kids.tail ∧
      (kids.flatMap triKeys).Perm
        (sideEdges (rowOf s.out_F_ f) [s0, s1, s2] ++ interior ++ interior.map Prod.swap) ∧
      (0 ≤ s0 → 0 ≤ s1 → 0 ≤ s2 → kids =
        [(faceAt s.out_F_ f 0, s0.toNat, s2.toNat), (s0.toNat, s1.toNat, s2.toNat),
         (s0.toNat, faceAt s.out_F_ f 1, s1.toNat), (s2.toNat, s1.toNat, faceAt s.out_F_ f 2)]) ∧
      (∀ j, j < 3 → [s0, s1, s2].getD (j % 3) 0 = -1 → 0 ≤ [s0, s1, s2].getD ((j + 1) % 3) 0 →
        0 ≤ [s0, s1, s2].getD ((j + 2) % 3) 0 → kids =
        [(faceAt s.out_F_ f (j % 3), faceAt s.out_F_ f ((j + 1) % 3), midAt [s0, s1, s2] (j + 1)),
         (faceAt s.out_F_ f (j % 3), midAt [s0, s1, s2] (j + 1), midAt [s0, s1, s2] (j + 2)),
         (midAt [s0, s1, s2] (j + 2), midAt [s0, s1, s2] (j + 1),
           faceAt s.out_F_ f ((j + 2) % 3))]) ∧
      (∀ j, j < 3 → 0 ≤ [s0, s1, s2].getD (j % 3) 0 → [s0, s1, s2].getD ((j + 1) % 3) 0 = -1 →
        [s0, s1, s2].getD ((j + 2) % 3) 0 = -1 → kids =
        [(faceAt s.out_F_ f (j % 3), midAt [s0, s1, s2] j, faceAt s.out_F_ f ((j + 2) % 3)),
         (midAt [s0, s1, s2] j, faceAt s.out_F_ f ((j + 1) % 3),
           faceAt s.out_F_ f ((j + 2) % 3))]) := by
  obtain ⟨interior, c1, c2, c3, c4, c5⟩ := kidsOf_conforming (rowOf s.out_F_ f) s0 s1 s2 h0 h1 h2
    hsome
  have hcorner : ∀ k, cornerOf (rowOf s.out_F_ f) k = faceAt s.out_F_ f (k % 3) := by
    intro k
    have : k % 3 = 0 ∨ k % 3 = 1 ∨ k % 3 = 2 := by omega
    rcases this with e | e | e <;> simp [cornerOf, rowOf, e]
  have hspec := splitFace_spec junk E2E s f s0 s1 s2 h0 h1 h2 hsome hE
  have hadd := addFaces_spec junk (kidsOf (rowOf s.out_F_ f) [s0, s1, s2]).tail
    { s with out_F_ := setRow s.out_F_ f
               ((kidsOf (rowOf s.out_F_ f) [s0, s1, s2]).headD (0, 0, 0)).1
               ((kidsOf (rowOf s.out_F_ f) [s0, s1, s2]).headD (0, 0, 0)).2.1
               ((kidsOf (rowOf s.out_F_ f) [s0, s1, s2]).headD (0, 0, 0)).2.2,
             dedges := (stubsOf E2E f (rowOf s.out_F_ f) [s0, s1, s2]).foldl
               (fun m e => mapSet m e.1 e.2) s.dedges }
    (by simp only [length_setRow]; exact hcap) (by simp only; omega)
  obtain ⟨a1, _, _, a4⟩ := hadd
  refine ⟨_, kidsOf (rowOf s.out_F_ f) [s0, s1, s2], interior, hspec, c1, ?_, ?_, c2, ?_, ?_, ?_⟩
  · rw [a1]
    have : (kidsOf (rowOf s.out_F_ f) [s0, s1, s2]).tail.length = splitCount [s0, s1, s2] := by
      rw [List.length_tail, c1]; rfl
    rw [this]
  · rw [a4]
    simp only
    rw [tris_setRow _ _ _ _ _ _ hf hcap]
  · intro q0 q1 q2
    rw [c3 q0 q1 q2]; rfl
  · intro j hj q0 q1 q2
    rw [c4 j hj q0 q1 q2, hcorner, hcorner, hcorner]
  · intro j hj q0 q1 q2
    rw [c5 j hj q0 q1 q2, hcorner, hcorner, hcorner]

/-- C19 applied to the face `0` of the tetrahedron with the new vertex `4` on its edge `0`. -/
theorem splitFace_conforming_witness :
    ((4 : Int) = -1 ∨ 0 ≤ (4 : Int)) ∧ ((-1 : Int) = -1 ∨ 0 ≤ (-1 : Int)) ∧
    (0 ≤ (4 : Int) ∨ 0 ≤ (-1 : Int) ∨ 0 ≤ (-1 : Int)) ∧
    (∀ i, i < 3 → 0 * 3 + i < tetraT.E2E_.length) ∧
    4 * 3 ≤ tetraT.out_F_.length ∧ 0 < 4 ∧
    ∃ (r : FaceState) (kids : List (Nat × Nat × Nat)) (interior : List (Nat × Nat)),
      splitFace (fun _ => 0) tetraT.E2E_ ⟨4, tetraT.out_F_, []⟩ (0, [4, -1, -1]) = some r ∧
      kids.length = splitCount [4, -1, -1] + 1 ∧
      r.num_F_ = 4 + splitCount [4, -1, -1] ∧
      tris r.out_F_ r.num_F_
        = (tris tetraT.out_F_ 4).set 0 (kids.headD (0, 0, 0)) ++ kids.tail ∧
      (kids.flatMap triKeys).Perm
        (sideEdges (rowOf tetraT.out_F_ 0) [4, -1, -1] ++ interior ++ interior.map Prod.swap) ∧
      (0 ≤ (4 : Int) → 0 ≤ (-1 : Int) → 0 ≤ (-1 : Int) → kids =
        [(faceAt tetraT.out_F_ 0 0, (4 : Int).toNat, (-1 : Int).toNat),
         ((4 : Int).toNat, (-1 : Int).toNat, (-1 : Int).toNat),
         ((4 : Int).toNat, faceAt tetraT.out_F_ 0 1, (-1 : Int).toNat),
         ((-1 : Int).toNat, (-1 : Int).toNat, faceAt tetraT.out_F_ 0 2)]) ∧
      (∀ j, j < 3 → [4, -1, -1].getD (j % 3) 0 = -1 → 0 ≤ [4, -1, -1].getD ((j + 1) % 3) 0 →
        0 ≤ [4, -1, -1].getD ((j + 2) % 3) 0 → kids =
        [(faceAt tetraT.out_F_ 0 (j % 3), faceAt tetraT.out_F_ 0 ((j + 1) % 3),
           midAt [4, -1, -1] (j + 1)),
         (faceAt tetraT.out_F_ 0 (j % 3), midAt [4, -1, -1] (j + 1), midAt [4, -1, -1] (j + 2)),
         (midAt [4, -1, -1] (j + 2), midAt [4, -1, -1] (j + 1),
           faceAt tetraT.out_F_ 0 ((j + 2) % 3))]) ∧
      (∀ j, j < 3 → 0 ≤ [4, -1, -1].getD (j % 3) 0 → [4, -1, -1].getD ((j + 1) % 3) 0 = -1 →
        [4, -1, -1].getD ((j + 2) % 3) 0 = -1 → kids =
        [(faceAt tetraT.out_F_ 0 (j % 3), midAt [4, -1, -1] j,
           faceAt tetraT.out_F_ 0 ((j + 2) % 3)),
         (midAt [4, -1, -1] j, faceAt tetraT.out_F_ 0 ((j + 1) % 3),
           faceAt tetraT.out_F_ 0 ((j + 2) % 3))]) :=
  ⟨by decide, by decide, by decide, by decide, by decide, by decide,
    splitFace_conforming (fun _ => 0) tetraT.E2E_ ⟨4, tetraT.out_F_, []⟩ 0 4 (-1) (-1)
      (by decide) (by decide) (by decide) (by decide) (by decide) (by decide) (by decide)⟩

/-! ## The growth of the vertex and face counts in a refinement round -/

theorem edgeRep_cand {F : List Nat} {n : Nat} {E2E : List Int} (hv : ValidE2E F n E2E)
    {c : Nat} (hc : c < n) (hce : c < e2eN E2E c) :
    edgeRep E2E c = c ∧ edgeRep E2E (e2eN E2E c) = c := by
  have h2 := ValidE2E_e2eN_e2eN hv hc
  unfold edgeRep
  rw [if_pos hce, h2, if_neg (by omega)]
  exact ⟨rfl, rfl⟩

theorem edgeRep_mem {F : List Nat} {n : Nat} {E2E : List Int} (hv : ValidE2E F n E2E)
    {d : Nat} (hd : d < n) :
    edgeRep E2E d < n ∧ (d = edgeRep E2E d ∨ d = e2eN E2E (edgeRep E2E d)) := by
  have h1 := (ValidE2E_e2eN hv hd).1
  have h2 := ValidE2E_e2eN_e2eN hv hd
  unfold edgeRep
  by_cases h : d < e2eN E2E d
  · rw [if_pos h]; exact ⟨hd, Or.inl rfl⟩
  · rw [if_neg h]; exact ⟨h1, Or.inr h2.symm⟩

/-- The marked directed edges are the candidates and their opposites. -/
theorem marked_perm {F : List Nat} {n : Nat} {E2E : List Int} (hv : ValidE2E F n E2E)
    (num_V : Nat) (cs : List Nat) (hc : ∀ c ∈ cs, c < n ∧ c < e2eN E2E c) (hnd : cs.Nodup) :
    ((List.range n).filter (fun d => 0 ≤ midOf E2E num_V cs d)).Perm
      (cs ++ cs.map (e2eN E2E)) := by
  rw [List.perm_ext_iff_of_nodup (List.nodup_range n |>.filter _)]
  · intro d
    simp only [List.mem_filter, List.mem_range, decide_eq_true_eq, midOf_nonneg_iff,
      List.mem_append, List.mem_map]
    constructor
    · rintro ⟨hd, hmem⟩
      rcases (edgeRep_mem hv hd).2 with e | e
      · left; rw [e]; exact hmem
      · right; exact ⟨_, hmem, e.symm⟩
    · rintro (h | ⟨c, hcm, rfl⟩)
      · obtain ⟨h1, h2⟩ := hc d h
        exact ⟨h1, by rw [(edgeRep_cand hv h1 h2).1]; exact h⟩
      · obtain ⟨h1, h2⟩ := hc c hcm
        exact ⟨(ValidE2E_e2eN hv h1).1, by rw [(edgeRep_cand hv h1 h2).2]; exact hcm⟩
  · rw [List.nodup_append]
    refine ⟨hnd, ?_, ?_⟩
    · rw [List.nodup_map_iff_inj_on hnd]
      intro x hx y hy hxy
      have := congrArg (e2eN E2E) hxy
      rwa [ValidE2E_e2eN_e2eN hv (hc x hx).1, ValidE2E_e2eN_e2eN hv (hc y hy).1] at this
    · intro a ha hb
      obtain ⟨c, hcm, rfl⟩ := List.mem_map.mp hb
      have q1 := (hc c hcm).2
      have q2 := (hc _ ha).2
      rw [ValidE2E_e2eN_e2eN hv (hc c hcm).1] at q2
      omega

theorem marked_count {F : List Nat} {n : Nat} {E2E : List Int} (hv : ValidE2E F n E2E)
    (num_V : Nat) (cs : List Nat) (hc : ∀ c ∈ cs, c < n ∧ c < e2eN E2E c) (hnd : cs.Nodup) :
    ((List.range n).filter (fun d => 0 ≤ midOf E2E num_V cs d)).length = 2 * cs.length := by
  rw [(marked_perm hv num_V cs hc hnd).length_eq, List.length_append, List.length_map]
  omega

/-- The marks counted face by face are the marks counted edge by edge. -/
theorem splitCount_sum (μ : Nat → Int) (num_F : Nat) :
    ((List.range num_F).map (fun g => splitCount (marksOf μ g))).sum
      = ((List.range (num_F * 3)).filter (fun d => 0 ≤ μ d)).length := by
  induction num_F with
  | zero => simp
  | succ m ih =>
    have e : (m + 1) * 3 = m * 3 + 1 + 1 + 1 := by ring
    rw [List.range_succ, List.map_append, List.sum_append, ih, e, List.range_succ,
      List.range_succ, List.range_succ]
    simp only [List.map_cons, List.map_nil, List.sum_cons, List.sum_nil, List.filter_append,
      List.length_append, splitCount, marksOf]
    have r3 : List.range 3 = [0, 1, 2] := rfl
    rw [r3]
    simp only [List.filter_cons, List.filter_nil, List.getD_cons_zero, List.getD_cons_succ,
      decide_eq_true_eq, Nat.add_zero, List.append_assoc]
    by_cases a0 : 0 ≤ μ (m * 3) <;> by_cases a1 : 0 ≤ μ (m * 3 + 1) <;>
      by_cases a2 : 0 ≤ μ (m * 3 + 2) <;> simp [a0, a1, a2]

theorem sum_split_faces (μ : Nat → Int) (num_F : Nat) (L : List Nat) (hnd : L.Nodup)
    (hL : ∀ f, f ∈ L ↔ f < num_F ∧ IsSplit μ f) :
    (L.map (fun g => splitCount (marksOf μ g))).sum
      = ((List.range num_F).map (fun g => splitCount (marksOf μ g))).sum := by
  have hp : L.Perm ((List.range num_F).filter (fun f => IsSplit μ f)) := by
    rw [List.perm_ext_iff_of_nodup hnd (List.nodup_range num_F |>.filter _)]
    intro f
    simp only [List.mem_filter, List.mem_range, decide_eq_true_eq]
    exact hL f
  rw [(hp.map _).sum_eq]
  have key : ∀ l : List Nat,
      ((l.filter (fun f => IsSplit μ f)).map (fun g => splitCount (marksOf μ g))).sum
        = (l.map (fun g => splitCount (marksOf μ g))).sum := by
    intro l
    induction l with
    | nil => rfl
    | cons a l ih =>
      by_cases ha : IsSplit μ a
      · simp [List.filter_cons, ha, ih]
      · have hz : splitCount (marksOf μ a) = 0 := by
          unfold IsSplit at ha
          push_neg at ha
          have r3 : List.range 3 = [0, 1, 2] := rfl
          simp only [splitCount, marksOf, r3, List.filter_cons, List.filter_nil,
            List.getD_cons_zero, List.getD_cons_succ, decide_eq_true_eq]
          have b0 : ¬ 0 ≤ μ (a * 3) := by omega
          have b1 : ¬ 0 ≤ μ (a * 3 + 1) := by omega
          have b2 : ¬ 0 ≤ μ (a * 3 + 2) := by omega
          simp [b0, b1, b2]
        simp [List.filter_cons, ha, ih, hz]
  exact key _

theorem AddFace_num_F (junk : Nat → Nat) (s : FaceState) (a b c : Nat) :
    (AddFace junk s a b c).num_F_ = s.num_F_ + 1 := rfl

theorem splitFace_num_F (junk : Nat → Nat) (E2E : List Int) (s s2 : FaceState)
    (info : Nat × List Int) (h : splitFace junk E2E s info = some s2) :
    s.num_F_ ≤ s2.num_F_ := by
  unfold splitFace at h
  simp only at h
  split_ifs at h
  · cases h; simp only [AddFace_num_F]; omega
  · split at h
    · exact Option.noConfusion h
    · cases h; simp only [AddFace_num_F]; omega
  · split at h
    · cases h; simp only [AddFace_num_F]; omega
    · exact Option.noConfusion h
  · cases h; exact le_refl _

/-- Whatever the mesh and the candidates, a round that returns does not decrease `num_F_`. -/
theorem refineTopology_num_F (junkF : Nat → Nat) (junkV junkE : Nat → Int) (t t2 : Topology)
    (candidates : List Nat) (h : refineTopology junkF junkV junkE t candidates = some t2) :
    t.num_F_ ≤ t2.num_F_ := by
  have key : ∀ (l : List (Nat × List Int)) (s s2 : FaceState),
      l.foldlM (splitFace junkF t.E2E_) s = some s2 → s.num_F_ ≤ s2.num_F_ := by
    intro l
    induction l with
    | nil => intro s s2 h; simp only [List.foldlM_nil] at h; cases h; exact le_refl _
    | cons a l ih =>
      intro s s2 h
      simp only [List.foldlM_cons] at h
      cases h1 : splitFace junkF t.E2E_ s a with
      | none => rw [h1] at h; exact Option.noConfusion h
      | some s1 =>
        rw [h1] at h
        exact le_trans (splitFace_num_F _ _ _ _ _ h1) (ih s1 s2 h)
  unfold refineTopology at h
  split at h
  · exact Option.noConfusion h
  · split at h
    · exact Option.noConfusion h
    · rename_i vs _ fs hfs
      split at h
      · simp only at h
        split at h
        · exact Option.noConfusion h
        · cases h
          exact key _ _ _ hfs
      · exact Option.noConfusion h
theorem ValidE2E_length {F : List Nat} {n : Nat} {E2E : List Int} (hv : ValidE2E F n E2E) :
    n ≤ E2E.length := by
  by_contra h
  obtain ⟨e, _, h1, _⟩ := hv.opp E2E.length (by omega)
  rw [List.getElem?_eq_none (le_refl _)] at h1
  exact Option.noConfusion h1

theorem kidsOf_tail_length (μ : Nat → Int) (hμ : ∀ x, μ x = -1 ∨ 0 ≤ μ x)
    (t : Nat × Nat × Nat) (g : Nat) (hs : IsSplit μ g) :
    (kidsOf t (marksOf μ g)).tail.length = splitCount (marksOf μ g) := by
  obtain ⟨_, c1, _⟩ := kidsOf_conforming t (μ (g * 3)) (μ (g * 3 + 1)) (μ (g * 3 + 2))
    (hμ _) (hμ _) (hμ _) hs
  rw [List.length_tail]
  unfold marksOf
  omega

theorem sweepVertex_num_F {K : Type} [LinearOrderedField K] (sqrt asin : K → K) (fuel : Nat)
    (s s1 : SweepState K) (vid : Nat) (h : sweepVertex sqrt asin fuel s vid = some s1) :
    s1.m.num_F_ = s.m.num_F_ := by
  unfold sweepVertex at h
  simp only at h
  split at h
  · exact Option.noConfusion h
  · split at h
    · exact Option.noConfusion h
    · split at h
      · exact Option.noConfusion h
      · split at h
        · exact Option.noConfusion h
        · split_ifs at h <;> (cases h; rfl)

theorem sweep_num_F {K : Type} [LinearOrderedField K] (sqrt asin : K → K) (fuel : Nat)
    (f : Nat → Nat) : ∀ (l : List Nat) (s s1 : SweepState K),
      l.foldlM (fun s i => sweepVertex sqrt asin fuel s (f i)) s = some s1 →
      s1.m.num_F_ = s.m.num_F_ := by
  intro l
  induction l with
  | nil => intro s s1 h; simp only [List.foldlM_nil] at h; cases h; rfl
  | cons a l ih =>
    intro s s1 h
    simp only [List.foldlM_cons] at h
    cases h1 : sweepVertex sqrt asin fuel s (f a) with
    | none => rw [h1] at h; exact Option.noConfusion h
    | some s2 =>
      rw [h1] at h
      exact (ih s2 s1 h).trans (sweepVertex_num_F _ _ _ _ _ _ h1)

theorem foldl_num_F {K : Type} {α : Type} (g : Solver K → α → Solver K)
    (hg : ∀ m a, (g m a).num_F_ = m.num_F_) :
    ∀ (l : List α) (m : Solver K), (l.foldl g m).num_F_ = m.num_F_ := by
  intro l
  induction l with
  | nil => intro m; rfl
  | cons a l ih => intro m; simp only [List.foldl_cons]; rw [ih, hg]

theorem optimizePass_num_F {K : Type} [LinearOrderedField K] (sqrt asin : K → K)
    (query : Vector3 K → K × Int × Vector3 K) (order : List Nat → List Nat) (fuel : Nat)
    (m m1 : Solver K) (c : Bool) (h : optimizePass sqrt asin query order fuel m = some (m1, c)) :
    m1.num_F_ = m.num_F_ := by
  unfold optimizePass at h
  simp only at h
  split at h
  · exact Option.noConfusion h
  · rename_i s hs
    have hsw := sweep_num_F sqrt asin fuel _ _ _ _ hs
    simp only at hsw
    split at h
    · exact Option.noConfusion h
    · cases h
      simp only
      split_ifs
      · exact hsw
      · refine Eq.trans (foldl_num_F _ ?_ _ _) hsw
        intro _ _
        rfl

theorem optimizeLoop_num_F {K : Type} [LinearOrderedField K] (sqrt asin : K → K)
    (query : Vector3 K → K × Int × Vector3 K) (order : List Nat → List Nat) (fuel : Nat) :
    ∀ (passes : Nat) (m m1 : Solver K),
      optimizeLoop sqrt asin query order fuel passes m = some m1 → m1.num_F_ = m.num_F_ := by
  intro passes
  induction passes with
  | zero => intro m m1 h; exact Option.noConfusion h
  | succ passes ih =>
    intro m m1 h
    unfold optimizeLoop at h
    split at h
    · exact Option.noConfusion h
    · rename_i m2 c hp
      have := optimizePass_num_F _ _ _ _ _ _ _ _ hp
      split_ifs at h
      · exact (ih _ _ h).trans this
      · cases h; exact this

theorem refineRound_num_F {K : Type} [LinearOrderedField K] (sqrt asin : K → K)
    (query : Vector3 K → K × Int × Vector3 K) (order : List Nat → List Nat) (J : Junk K)
    (len ratio : K) (fuel passes : Nat) (s r : RefineState K)
    (h : refineRound sqrt asin query order J len ratio fuel passes s = some r) :
    s.m.num_F_ ≤ r.m.num_F_ := by
  unfold refineRound at h
  simp only at h
  split at h
  · rename_i t2 vs ht _
    have h1 := refineTopology_num_F _ _ _ _ _ _ ht
    simp only at h1
    split at h
    · exact Option.noConfusion h
    · rename_i m4 hm4
      cases h
      have := optimizeLoop_num_F _ _ _ _ _ _ _ _ hm4
      simp only at this ⊢
      omega
  · exact Option.noConfusion h

/-- Whatever the mesh, the oracle and the tolerance, `AdaptiveRefine` does not decrease
`num_F_` when it returns. -/
theorem AdaptiveRefine_num_F {K : Type} [LinearOrderedField K] (sqrt asin : K → K)
    (query : Vector3 K → K × Int × Vector3 K) (order : List Nat → List Nat) (J : Junk K)
    (len ratio : K) (fuel passes : Nat) (m m2 : Solver K)
    (h : AdaptiveRefine sqrt asin query order J len ratio fuel passes m = some m2) :
    m.num_F_ ≤ m2.num_F_ := by
  have key : ∀ (l : List Nat) (s r : RefineState K),
      l.foldlM (fun s _ => refineRound sqrt asin query order J len ratio fuel passes s) s
        = some r → s.m.num_F_ ≤ r.m.num_F_ := by
    intro l
    induction l with
    | nil => intro s r h; simp only [List.foldlM_nil] at h; cases h; exact le_refl _
    | cons a l ih =>
      intro s r h
      simp only [List.foldlM_cons] at h
      cases h1 : refineRound sqrt asin query order J len ratio fuel passes s with
      | none => rw [h1] at h; exact Option.noConfusion h
      | some s1 =>
        rw [h1] at h
        exact le_trans (refineRound_num_F _ _ _ _ _ _ _ _ _ _ _ h1) (ih s1 r h)
  unfold AdaptiveRefine at h
  simp only [Option.map_eq_some'] at h
  obtain ⟨r, hr, rfl⟩ := h
  exact key _ _ _ hr

theorem sweepVertex_num_V {K : Type} [LinearOrderedField K] (sqrt asin : K → K) (fuel : Nat)
    (s s1 : SweepState K) (vid : Nat) (h : sweepVertex sqrt asin fuel s vid = some s1) :
    s1.m.num_V_ = s.m.num_V_ := by
  unfold sweepVertex at h
  simp only at h
  split at h
  · exact Option.noConfusion h
  · split at h
    · exact Option.noConfusion h
    · split at h
      · exact Option.noConfusion h
      · split at h
        · exact Option.noConfusion h
        · split_ifs at h <;> (cases h; rfl)

theorem sweep_num_V {K : Type} [LinearOrderedField K] (sqrt asin : K → K) (fuel : Nat)
    (f : Nat → Nat) : ∀ (l : List Nat) (s s1 : SweepState K),
      l.foldlM (fun s i => sweepVertex sqrt asin fuel s (f i)) s = some s1 →
      s1.m.num_V_ = s.m.num_V_ := by
  intro l
  induction l with
  | nil => intro s s1 h; simp only [List.foldlM_nil] at h; cases h; rfl
  | cons a l ih =>
    intro s s1 h
    simp only [List.foldlM_cons] at h
    cases h1 : sweepVertex sqrt asin fuel s (f a) with
    | none => rw [h1] at h; exact Option.noConfusion h
    | some s2 =>
      rw [h1] at h
      exact (ih s2 s1 h).trans (sweepVertex_num_V _ _ _ _ _ _ h1)

theorem foldl_num_V {K : Type} {α : Type} (g : Solver K → α → Solver K)
    (hg : ∀ m a, (g m a).num_V_ = m.num_V_) :
    ∀ (l : List α) (m : Solver K), (l.foldl g m).num_V_ = m.num_V_ := by
  intro l
  induction l with
  | nil => intro m; rfl
  | cons a l ih => intro m; simp only [List.foldl_cons]; rw [ih, hg]

theorem optimizePass_num_V {K : Type} [LinearOrderedField K] (sqrt asin : K → K)
    (query : Vector3 K → K × Int × Vector3 K) (order : List Nat → List Nat) (fuel : Nat)
    (m m1 : Solver K) (c : Bool) (h : optimizePass sqrt asin query order fuel m = some (m1, c)) :
    m1.num_V_ = m.num_V_ := by
  unfold optimizePass at h
  simp only at h
  split at h
  · exact Option.noConfusion h
  · rename_i s hs
    have hsw := sweep_num_V sqrt asin fuel _ _ _ _ hs
    simp only at hsw
    split at h
    · exact Option.noConfusion h
    · cases h
      simp only
      split_ifs
      · exact hsw
      · refine Eq.trans (foldl_num_V _ ?_ _ _) hsw
        intro _ _
        rfl

theorem optimizeLoop_num_V {K : Type} [LinearOrderedField K] (sqrt asin : K → K)
    (query : Vector3 K → K × Int × Vector3 K) (order : List Nat → List Nat) (fuel : Nat) :
    ∀ (passes : Nat) (m m1 : Solver K),
      optimizeLoop sqrt asin query order fuel passes m = some m1 → m1.num_V_ = m.num_V_ := by
  intro passes
  induction passes with
  | zero => intro m m1 h; exact Option.noConfusion h
  | succ passes ih =>
    intro m m1 h
    unfold optimizeLoop at h
    split at h
    · exact Option.noConfusion h
    · rename_i m2 c hp
      have := optimizePass_num_V _ _ _ _ _ _ _ _ hp
      split_ifs at h
      · exact (ih _ _ h).trans this
      · cases h; exact this

/-! ### The loop that writes `E2E_` returns -/

/-- Setting an absent key inserts one entry. -/
theorem mapSet_absent {κ ν : Type} [LinearOrder κ] (l : List (κ × ν)) (k : κ) (v : ν)
    (h : mapFind l k = none) : ∃ l1 l2, l = l1 ++ l2 ∧ mapSet l k v = l1 ++ (k, v) :: l2 := by
  induction l with
  | nil => exact ⟨[], [], rfl, rfl⟩
  | cons e rest ih =>
    obtain ⟨k1, v1⟩ := e
    unfold mapFind at h
    by_cases hk : k = k1
    · rw [if_pos hk] at h
      exact Option.noConfusion h
    · rw [if_neg hk] at h
      unfold mapSet
      by_cases h1 : k < k1
      · rw [if_pos h1]
        exact ⟨[], (k1, v1) :: rest, rfl, rfl⟩
      · rw [if_neg h1, if_neg hk]
        obtain ⟨l1, l2, e1, e2⟩ := ih h
        exact ⟨(k1, v1) :: l1, l2, by rw [e1]; rfl, by rw [e2]; rfl⟩

theorem drop_mapSet_lt {κ ν : Type} [LinearOrder κ] (key k : κ) (v w : ν) :
    ∀ (pos : Nat) (m : List (κ × ν)), m[pos]? = some (k, v) → mapFind m key = none → key < k →
      (mapSet m key w).drop (pos + 2) = m.drop (pos + 1) := by
  intro pos
  induction pos with
  | zero =>
    intro m hget _ hlt
    cases m with
    | nil => cases hget
    | cons e rest =>
      simp only [List.getElem?_cons_zero, Option.some.injEq] at hget
      subst hget
      unfold mapSet
      rw [if_pos hlt]
      rfl
  | succ pos ih =>
    intro m hget hfind hlt
    cases m with
    | nil => cases hget
    | cons e rest =>
      obtain ⟨k1, v1⟩ := e
      simp only [List.getElem?_cons_succ] at hget
      unfold mapFind at hfind
      by_cases hk : key = k1
      · rw [if_pos hk] at hfind
        exact Option.noConfusion hfind
      · rw [if_neg hk] at hfind
        unfold mapSet
        by_cases h1 : key < k1
        · rw [if_pos h1]
          rfl
        · rw [if_neg h1, if_neg hk]
          simp only [List.drop_succ_cons]
          exact ih rest hget hfind hlt

theorem mapSet_cons_gt {κ ν : Type} [LinearOrder κ] (k1 : κ) (v1 : ν) (rest : List (κ × ν))
    (key : κ) (w : ν) (h : k1 < key) :
    mapSet ((k1, v1) :: rest) key w = (k1, v1) :: mapSet rest key w := by
  show (if key < k1 then _ else if key = k1 then _ else _) = _
  rw [if_neg (not_lt.mpr (le_of_lt h)), if_neg (ne_of_gt h)]

theorem drop_mapSet_gt {κ ν : Type} [LinearOrder κ] (key k : κ) (v w : ν) :
    ∀ (pos : Nat) (m : List (κ × ν)), MapSorted m → m[pos]? = some (k, v) → k < key →
      (mapSet m key w).drop (pos + 1) = mapSet (m.drop (pos + 1)) key w := by
  intro pos
  induction pos with
  | zero =>
    intro m _ hget hlt
    cases m with
    | nil => cases hget
    | cons e rest =>
      simp only [List.getElem?_cons_zero, Option.some.injEq] at hget
      subst hget
      rw [mapSet_cons_gt _ _ _ _ _ hlt]
      rfl
  | succ pos ih =>
    intro m hs hget hlt
    cases m with
    | nil => cases hget
    | cons e rest =>
      obtain ⟨k1, v1⟩ := e
      simp only [List.getElem?_cons_succ] at hget
      have hs1 := List.pairwise_cons.mp hs
      have hk1 : k1 < k := hs1.1 (k, v) (List.getElem?_mem hget)
      have hlt1 : k1 < key := lt_trans hk1 hlt
      rw [mapSet_cons_gt _ _ _ _ _ hlt1]
      simp only [List.drop_succ_cons]
      exact ih rest hs1.2 hget hlt

/-- The loop that writes `E2E_` returns for every map whose values are indices of the array: a
key that is looked up and absent is inserted with the value `0`, which happens at most once
per entry. -/
theorem pairLoop_total : ∀ (fuel : Nat) (m : List (Lex (Nat × Nat) × Int)) (pos : Nat)
    (E : List Int), MapSorted m → (∀ e ∈ m, 0 ≤ e.2 ∧ e.2.toNat < E.length) →
    (m.length - pos) + (m.drop pos).countP
      (fun e => (mapFind m (toLex ((ofLex e.1).2, (ofLex e.1).1))).isNone) < fuel →
    ∃ E2, pairLoop fuel m pos E = some E2 ∧ E2.length = E.length := by
  intro fuel
  induction fuel with
  | zero => intro m pos E _ _ h; omega
  | succ fuel ih =>
    intro m pos E hs hval hfuel
    unfold pairLoop
    cases hget : m[pos]? with
    | none => exact ⟨E, rfl, rfl⟩
    | some e =>
      obtain ⟨k, deid⟩ := e
      have hmem : (k, deid) ∈ m := List.getElem?_mem hget
      have hpos : pos < m.length := by
        by_contra hc
        rw [List.getElem?_eq_none (by omega)] at hget
        cases hget
      obtain ⟨d0, d1⟩ := hval _ hmem
      simp only at d0 d1
      have hdrop : m.drop pos = (k, deid) :: m.drop (pos + 1) := by
        rw [List.drop_eq_getElem_cons hpos]
        congr 1
        have := List.getElem?_eq_getElem hpos
        rw [this] at hget
        exact Option.some.inj hget
      rw [hdrop, List.countP_cons] at hfuel
      simp only
      cases hf : mapFind m (toLex ((ofLex k).2, (ofLex k).1)) with
      | some rdeid =>
        have hr := (mapFind_eq_some_iff m hs _ _).mp hf
        obtain ⟨r0, r1⟩ := hval _ hr
        simp only at r0 r1
        obtain ⟨E2, hE2, hlen⟩ := ih m (pos + 1) ((E.set deid.toNat rdeid).set rdeid.toNat deid) hs
          (by simpa only [List.length_set] using hval)
          (by
            have : m.length - (pos + 1) + 1 = m.length - pos := by omega
            omega)
        refine ⟨E2, ?_, by simpa only [List.length_set] using hlen⟩
        simp only [setI, d0, d1, r0, r1, and_self, if_true, List.length_set]
        exact hE2
      | none =>
        have hE : 0 < E.length := by omega
        have hne : (toLex ((ofLex k).2, (ofLex k).1) : Lex (Nat × Nat)) ≠ k := by
          intro hc
          rw [hc] at hf
          have := (mapFind_isSome_iff m k).mpr ⟨deid, hmem⟩
          rw [hf] at this
          cases this
        have hs2 := mapSet_sorted m hs (toLex ((ofLex k).2, (ofLex k).1)) (0 : Int)
        have hval2 : ∀ e ∈ mapSet m (toLex ((ofLex k).2, (ofLex k).1)) (0 : Int),
            0 ≤ e.2 ∧ e.2.toNat < ((E.set deid.toNat 0).set (0 : Int).toNat deid).length := by
          intro e he
          simp only [List.length_set]
          rcases (mem_mapSet m hs _ _ e).mp he with h | ⟨h, _⟩
          · rw [h]
            exact ⟨le_refl _, hE⟩
          · exact hval e h
        obtain ⟨l1, l2, el, es⟩ := mapSet_absent m (toLex ((ofLex k).2, (ofLex k).1)) (0 : Int) hf
        have hlen2 : (mapSet m (toLex ((ofLex k).2, (ofLex k).1)) (0 : Int)).length
            = m.length + 1 := by
          rw [es, el]
          simp only [List.length_append, List.length_cons]
          omega
        have hmono : ∀ l : List (Lex (Nat × Nat) × Int),
            l.countP (fun e => (mapFind (mapSet m (toLex ((ofLex k).2, (ofLex k).1)) (0 : Int))
              (toLex ((ofLex e.1).2, (ofLex e.1).1))).isNone)
            ≤ l.countP (fun e => (mapFind m (toLex ((ofLex e.1).2, (ofLex e.1).1))).isNone) := by
          intro l
          apply List.countP_mono_left
          intro a _ ha
          rw [mapFind_mapSet] at ha
          split_ifs at ha
          · cases ha
          · exact ha
        have hhead : (mapFind m (toLex ((ofLex (k, deid).1).2, (ofLex (k, deid).1).1))).isNone
            = true := by
          simp only [hf, Option.isNone_none]
        rw [if_pos hhead] at hfuel
        have hstep : ∃ E2, pairLoop fuel (mapSet m (toLex ((ofLex k).2, (ofLex k).1)) (0 : Int))
            (if (toLex ((ofLex k).2, (ofLex k).1) : Lex (Nat × Nat)) < k then pos + 2
              else pos + 1)
            ((E.set deid.toNat 0).set (0 : Int).toNat deid) = some E2 ∧
            E2.length = ((E.set deid.toNat 0).set (0 : Int).toNat deid).length := by
          apply ih _ _ _ hs2 hval2
          by_cases hlt : (toLex ((ofLex k).2, (ofLex k).1) : Lex (Nat × Nat)) < k
          · rw [if_pos hlt, drop_mapSet_lt _ k deid 0 pos m hget hf hlt, hlen2]
            have := hmono (m.drop (pos + 1))
            omega
          · have hgt : k < (toLex ((ofLex k).2, (ofLex k).1) : Lex (Nat × Nat)) :=
              lt_of_le_of_ne (not_lt.mp hlt) (Ne.symm hne)
            rw [if_neg hlt, drop_mapSet_gt _ k deid 0 pos m hs hget hgt, hlen2]
            have hf2 : mapFind (m.drop (pos + 1)) (toLex ((ofLex k).2, (ofLex k).1)) = none := by
              cases hq : mapFind (m.drop (pos + 1)) (toLex ((ofLex k).2, (ofLex k).1)) with
              | none => rfl
              | some w =>
                exfalso
                have hsd : MapSorted (m.drop (pos + 1)) :=
                  List.Pairwise.sublist (List.drop_sublist _ _) hs
                have hin := (mapFind_eq_some_iff _ hsd _ _).mp hq
                have hin2 := (mapFind_eq_some_iff m hs _ _).mpr (List.mem_of_mem_drop hin)
                rw [hf] at hin2
                cases hin2
            obtain ⟨t1, t2, et, ets⟩ := mapSet_absent (m.drop (pos + 1))
              (toLex ((ofLex k).2, (ofLex k).1)) (0 : Int) hf2
            have hback : (mapFind (mapSet m (toLex ((ofLex k).2, (ofLex k).1)) (0 : Int))
                (toLex ((ofLex (toLex ((ofLex k).2, (ofLex k).1) : Lex (Nat × Nat))).2,
                  (ofLex (toLex ((ofLex k).2, (ofLex k).1) : Lex (Nat × Nat))).1))).isNone
                = false := by
              have hk : (toLex ((ofLex (toLex ((ofLex k).2, (ofLex k).1) : Lex (Nat × Nat))).2,
                  (ofLex (toLex ((ofLex k).2, (ofLex k).1) : Lex (Nat × Nat))).1)
                    : Lex (Nat × Nat)) = k := rfl
              rw [hk, mapFind_mapSet, if_neg (Ne.symm hne)]
              have := (mapFind_isSome_iff m k).mpr ⟨deid, hmem⟩
              cases hq : mapFind m k with
              | none => rw [hq] at this; cases this
              | some w => rfl
            have h1 := hmono (m.drop (pos + 1))
            have hc : (t1 ++ (toLex ((ofLex k).2, (ofLex k).1), (0 : Int)) :: t2).countP
                (fun e => (mapFind (mapSet m (toLex ((ofLex k).2, (ofLex k).1)) (0 : Int))
                  (toLex ((ofLex e.1).2, (ofLex e.1).1))).isNone)
                = (m.drop (pos + 1)).countP
                (fun e => (mapFind (mapSet m (toLex ((ofLex k).2, (ofLex k).1)) (0 : Int))
                  (toLex ((ofLex e.1).2, (ofLex e.1).1))).isNone) := by
              rw [et, List.countP_append, List.countP_append, List.countP_cons, hback]
              simp only [Bool.false_eq_true, if_false, add_zero]
            rw [ets, hc]
            omega
        obtain ⟨E2, hE2, hlen⟩ := hstep
        refine ⟨E2, ?_, by simpa only [List.length_set] using hlen⟩
        have z0 : (0 : Int).toNat = 0 := rfl
        simp only [setI, d0, d1, and_self, if_true, List.length_set, le_refl, z0, hE]
        exact hE2

/-! ### The counts after the topology of a round -/

/-- The two first loops of a round, for a list of different candidate directed edges
`c < E2E[c]` on a mesh whose `E2E` is valid: the loop that inserts vertices returns with
`num_V_` increased by the number `k` of candidates, and the loop that inserts faces returns
with `num_F_` increased by `2 k`. -/
theorem refine_loops (junkF : Nat → Nat) (t : Topology) (candidates : List Nat)
    (hv : ValidE2E t.out_F_ (t.num_F_ * 3) t.E2E_) (hcap : t.num_F_ * 3 ≤ t.out_F_.length)
    (hc : ∀ c ∈ candidates, c < t.num_F_ * 3 ∧ c < e2eN t.E2E_ c) (hnd : candidates.Nodup) :
    ∃ fs s, candidates.foldlM (insertVertex t.E2E_) { num_V_ := t.num_V_, face_splits := [] }
        = some { num_V_ := t.num_V_ + candidates.length, face_splits := fs } ∧
      fs.foldlM (splitFace junkF t.E2E_)
        { num_F_ := t.num_F_, out_F_ := t.out_F_, dedges := [] } = some s ∧
      s.num_F_ = t.num_F_ + 2 * candidates.length ∧
      FaceInv t.out_F_ t.num_F_ t.E2E_ (midOf t.E2E_ t.num_V_ candidates) (fs.map Prod.fst) s ∧
      ∀ g ∈ fs.map Prod.fst, g < t.num_F_ := by
  have hE := ValidE2E_length hv
  have hμ : ∀ x, midOf t.E2E_ t.num_V_ candidates x = -1 ∨
      0 ≤ midOf t.E2E_ t.num_V_ candidates x := fun x => midOf_cases _ _ _ _
  obtain ⟨fs, h1, inv1⟩ := insertVertices_spec hv t.num_V_ candidates []
    { num_V_ := t.num_V_, face_splits := [] } hc (by simpa using hnd) (by simp)
    (SplitsInv_nil _ _ _)
  simp only [List.nil_append] at h1 inv1
  obtain ⟨e1, e2, e3⟩ := SplitsInv_entries inv1
  obtain ⟨s, h2, inv2⟩ := faceLoop_spec junkF hμ hE fs []
    { num_F_ := t.num_F_, out_F_ := t.out_F_, dedges := [] }
    (FaceInv_init _ _ _ _ hcap) e1 (by simpa using e2)
  simp only [List.nil_append] at inv2
  have hlen := congrArg List.length inv2.rows
  rw [tris_length, List.length_append, List.length_map, List.length_range,
    List.length_flatMap] at hlen
  have hsum : ((fs.map Prod.fst).map
      (List.length ∘ fun g => (kidsOf (rowOf t.out_F_ g)
        (marksOf (midOf t.E2E_ t.num_V_ candidates) g)).tail)).sum
      = ((fs.map Prod.fst).map
        (fun g => splitCount (marksOf (midOf t.E2E_ t.num_V_ candidates) g))).sum := by
    congr 1
    apply List.map_congr_left
    intro g hg
    obtain ⟨e, he, rfl⟩ := List.mem_map.mp hg
    exact kidsOf_tail_length _ hμ _ _ (e1 e he).2.2
  have hL : ∀ f, f ∈ fs.map Prod.fst ↔
      f < t.num_F_ ∧ IsSplit (midOf t.E2E_ t.num_V_ candidates) f := by
    intro f
    constructor
    · intro hf
      obtain ⟨e, he, rfl⟩ := List.mem_map.mp hf
      exact ⟨(e1 e he).1, (e1 e he).2.2⟩
    · rintro ⟨hf, hs⟩
      exact (e3 f hf).mpr hs
  have hnum : s.num_F_ = t.num_F_ + 2 * candidates.length := by
    rw [hlen, hsum, sum_split_faces _ t.num_F_ _ e2 hL, splitCount_sum,
      marked_count hv t.num_V_ candidates hc hnd]
  exact ⟨fs, s, h1, h2, hnum, inv2, fun g hg => ((hL g).mp hg).1⟩

/-- The topology of a round returns and has the counts `num_V_ + k` and `num_F_ + 2 k`, for `k`
different candidate directed edges `c < E2E[c]` on a mesh whose `E2E` is valid and whose
`V2E_` is not empty.  Nothing else is asked from the mesh: a vertex pair may occur twice as a
directed edge. -/
theorem refineTopology_counts (junkF : Nat → Nat) (junkV junkE : Nat → Int) (t : Topology)
    (candidates : List Nat)
    (hv : ValidE2E t.out_F_ (t.num_F_ * 3) t.E2E_) (hcap : t.num_F_ * 3 ≤ t.out_F_.length)
    (hV : 0 < t.V2E_.length)
    (hc : ∀ c ∈ candidates, c < t.num_F_ * 3 ∧ c < e2eN t.E2E_ c) (hnd : candidates.Nodup) :
    ∃ t2, refineTopology junkF junkV junkE t candidates = some t2 ∧
      t2.num_V_ = t.num_V_ + candidates.length ∧
      t2.num_F_ = t.num_F_ + 2 * candidates.length := by
  obtain ⟨fs, s, h1, h2, hnum, inv, hlt⟩ := refine_loops junkF t candidates hv hcap hc hnd
  have hE := ValidE2E_length hv
  have hμ : ∀ x, midOf t.E2E_ t.num_V_ candidates x = -1 ∨
      0 ≤ midOf t.E2E_ t.num_V_ candidates x := fun x => midOf_cases _ _ _ _
  obtain ⟨sizeV, gV, gV1, gV2⟩ := growSize_self t.V2E_.length (t.num_V_ + candidates.length)
    (Or.inr hV)
  have hgE : s.num_F_ * 3 ≤ t.E2E_.length ∨ 0 < t.E2E_.length := by
    by_cases h0 : t.num_F_ = 0
    · left
      have : candidates = [] := by
        cases hcs : candidates with
        | nil => rfl
        | cons c l =>
          exfalso
          have := (hc c (by rw [hcs]; exact List.mem_cons_self _ _)).1
          omega
      rw [hnum, this]
      simp only [List.length_nil]
      omega
    · right; omega
  obtain ⟨sizeE, gE, gE1, gE2⟩ := growSize_self t.E2E_.length (s.num_F_ * 3) hgE
  have hrb : ((fs.map Prod.fst ++ List.range' t.num_F_ (s.num_F_ - t.num_F_)).foldl
      (touchFace s.out_F_) { V2E := resizeWith junkV t.V2E_ sizeV, dedges := s.dedges }).dedges
      = ((edgesOfFaces (fs.map Prod.fst ++ List.range' t.num_F_ (s.num_F_ - t.num_F_))).map
          (fun d => ((toLex (src s.out_F_ d, dst s.out_F_ d) : Lex (Nat × Nat)), (d : Int)))).foldl
            (fun m e => mapSet m e.1 e.2) s.dedges := by
    rw [foldl_touchFace, foldl_touchD_dedges]
  obtain ⟨msorted, msound, _⟩ := foldl_mapSet_spec
    ((edgesOfFaces (fs.map Prod.fst ++ List.range' t.num_F_ (s.num_F_ - t.num_F_))).map
      (fun d => ((toLex (src s.out_F_ d, dst s.out_F_ d) : Lex (Nat × Nat)), (d : Int))))
    s.dedges inv.sorted
  have hE0len : (resizeWith junkE t.E2E_ sizeE).length = sizeE := length_resizeWith _ _ _
  have hval : ∀ e ∈ ((edgesOfFaces (fs.map Prod.fst
        ++ List.range' t.num_F_ (s.num_F_ - t.num_F_))).map
        (fun d => ((toLex (src s.out_F_ d, dst s.out_F_ d) : Lex (Nat × Nat)), (d : Int)))).foldl
          (fun m e => mapSet m e.1 e.2) s.dedges,
      0 ≤ e.2 ∧ e.2.toNat < (resizeWith junkE t.E2E_ sizeE).length := by
    intro e he
    rw [hE0len]
    rcases msound e he with h | h
    · obtain ⟨d, hd, rfl⟩ := List.mem_map.mp h
      rw [mem_edgesOfFaces, List.mem_append, List.mem_range'] at hd
      have hd3 : d / 3 < s.num_F_ := by
        rcases hd with hd | ⟨i, hi, hd⟩
        · have := hlt _ hd
          omega
        · omega
      simp only [Int.toNat_ofNat]
      omega
    · obtain ⟨g, hg, hst⟩ := inv.sound e h
      have hgl := hlt g hg
      have hstub : ∃ x, x < 3 ∧ e.2 = t.E2E_.getD (g * 3 + x) 0 := by
        unfold marksOf at hst
        rcases ((mem_stubsOf t.E2E_ g _ _ _ _ (hμ _) (hμ _) (hμ _) e).mp hst).2 with
          ⟨_, q⟩ | ⟨_, q⟩ | ⟨_, q⟩
        · exact ⟨0, by norm_num, by rw [q]; rfl⟩
        · exact ⟨1, by norm_num, by rw [q]⟩
        · exact ⟨2, by norm_num, by rw [q]⟩
      obtain ⟨x, hx, hex⟩ := hstub
      obtain ⟨q1, q2, _, _⟩ := ValidE2E_e2eN hv (show g * 3 + x < t.num_F_ * 3 by omega)
      have hget : t.E2E_.getD (g * 3 + x) 0 = (e2eN t.E2E_ (g * 3 + x) : Int) := by
        rw [List.getD_eq_getElem?_getD, q2]
        rfl
      rw [hex, hget]
      simp only [Int.toNat_ofNat]
      omega
  obtain ⟨E2, hE2, _⟩ := pairLoop_total
    (2 * (((edgesOfFaces (fs.map Prod.fst
        ++ List.range' t.num_F_ (s.num_F_ - t.num_F_))).map
        (fun d => ((toLex (src s.out_F_ d, dst s.out_F_ d) : Lex (Nat × Nat)), (d : Int)))).foldl
          (fun m e => mapSet m e.1 e.2) s.dedges).length + 1)
    _ 0 (resizeWith junkE t.E2E_ sizeE) msorted hval
    (by
      simp only [List.drop_zero, Nat.sub_zero]
      have := @List.countP_le_length _
        (fun e : Lex (Nat × Nat) × Int => (mapFind (((edgesOfFaces (fs.map Prod.fst
          ++ List.range' t.num_F_ (s.num_F_ - t.num_F_))).map
          (fun d => ((toLex (src s.out_F_ d, dst s.out_F_ d) : Lex (Nat × Nat)),
            (d : Int)))).foldl (fun m e => mapSet m e.1 e.2) s.dedges)
          (toLex ((ofLex e.1).2, (ofLex e.1).1))).isNone)
        (((edgesOfFaces (fs.map Prod.fst
          ++ List.range' t.num_F_ (s.num_F_ - t.num_F_))).map
          (fun d => ((toLex (src s.out_F_ d, dst s.out_F_ d) : Lex (Nat × Nat)),
            (d : Int)))).foldl (fun m e => mapSet m e.1 e.2) s.dedges)
      omega)
  refine ⟨{ num_V_ := t.num_V_ + candidates.length, num_F_ := s.num_F_, out_F_ := s.out_F_,
            V2E_ := ((fs.map Prod.fst ++ List.range' t.num_F_ (s.num_F_ - t.num_F_)).foldl
              (touchFace s.out_F_)
              { V2E := resizeWith junkV t.V2E_ sizeV, dedges := s.dedges }).V2E,
            E2E_ := E2 }, ?_, rfl, hnum⟩
  unfold refineTopology
  simp only [h1, h2, gV, gE, hrb, hE2]

/-! ## C20: progress of the position solver -/

/-- What one step of the last loop of a pass does to `constraints`, `new_element` and the
attachment flag of its constraint. -/
theorem attachStep_progress {K : Type} [LinearOrderedField K] (sqrt : K → K)
    (A : List (Vector3 K)) (tar_dir : Vector3 K) (max_step : K) (csize : Nat)
    (s : AttachState K) (j : Nat) (hj : j < s.attached_dimensions.length) :
    (attachStep sqrt A tar_dir max_step csize s j).constraints.length + s.new_element
      = s.constraints.length + (attachStep sqrt A tar_dir max_step csize s j).new_element ∧
    (s.new_element ≤ 1 → (attachStep sqrt A tar_dir max_step csize s j).new_element ≤ 1) ∧
    ((attachStep sqrt A tar_dir max_step csize s j).new_element ≠ s.new_element →
      s.attached_dimensions.getD j 0 = 0 ∧
      (attachStep sqrt A tar_dir max_step csize s j).attached_dimensions.getD j 0 = 1) ∧
    (s.attached_dimensions.getD j 0 = 0 →
      s.B.getD j 0 - dot (A.getD j (0, 0, 0)) tar_dir * max_step < ZERO_THRES K →
      ZERO_THRES K ≤ dot (A.getD j (0, 0, 0)) tar_dir → s.new_element = 0 →
      (attachStep sqrt A tar_dir max_step csize s j).attached_dimensions.getD j 0 = 1) := by
  unfold attachStep
  by_cases hatt : s.attached_dimensions.getD j 0 = 0
  · simp only [hatt, ne_eq, not_true_eq_false, if_false]
    split_ifs with h1 h2 h3
    · refine ⟨by simp [h3], fun _ => le_refl _, fun _ => ⟨trivial, getD_set_eq _ _ _ _ hj⟩,
        fun _ _ _ _ => getD_set_eq _ _ _ _ hj⟩
    · refine ⟨rfl, fun h => h, fun h => absurd rfl h, fun _ _ _ h => absurd h h3⟩
    · refine ⟨rfl, fun h => h, fun h => absurd rfl h, fun _ _ _ _ => getD_set_eq _ _ _ _ hj⟩
    · refine ⟨rfl, fun h => h, fun h => absurd rfl h, fun _ q1 q2 _ => absurd ⟨q1, q2⟩ h1⟩
  · rw [if_pos hatt]
    exact ⟨rfl, fun h => h, fun h => absurd rfl h, fun h => absurd h hatt⟩

/-- The last loop of a pass adds at most one constraint, and when some constraint that is not
attached meets the test of source line 831, some constraint gets attached. -/
theorem attachLoop_progress {K : Type} [LinearOrderedField K] (sqrt : K → K)
    (A : List (Vector3 K)) (tar_dir : Vector3 K) (max_step : K) (csize : Nat)
    (s0 : AttachState K) (hnew : s0.new_element = 0)
    (hlen : s0.attached_dimensions.length = s0.B.length) :
    ∀ k, k ≤ s0.B.length →
      ((List.range k).foldl (attachStep sqrt A tar_dir max_step csize) s0).constraints.length
        = s0.constraints.length
          + ((List.range k).foldl (attachStep sqrt A tar_dir max_step csize) s0).new_element ∧
      ((List.range k).foldl (attachStep sqrt A tar_dir max_step csize) s0).new_element ≤ 1 ∧
      (((List.range k).foldl (attachStep sqrt A tar_dir max_step csize) s0).new_element ≠ 0 →
        ∃ j, j < k ∧ s0.attached_dimensions.getD j 0 = 0 ∧
          ((List.range k).foldl (attachStep sqrt A tar_dir max_step csize)
            s0).attached_dimensions.getD j 0 = 1) ∧
      (∀ j, j < k → s0.attached_dimensions.getD j 0 = 0 →
        s0.B.getD j 0 - dot (A.getD j (0, 0, 0)) tar_dir * max_step < ZERO_THRES K →
        ZERO_THRES K ≤ dot (A.getD j (0, 0, 0)) tar_dir →
        ∃ i, i < k ∧ s0.attached_dimensions.getD i 0 = 0 ∧
          ((List.range k).foldl (attachStep sqrt A tar_dir max_step csize)
            s0).attached_dimensions.getD i 0 = 1) := by
  intro k
  induction k with
  | zero =>
    intro _
    refine ⟨by simp [hnew], by simp [hnew], fun h => absurd hnew h, fun j hj => ?_⟩
    exact absurd hj (Nat.not_lt_zero _)
  | succ k ih =>
    intro hk
    obtain ⟨i1, i2, i3, i4⟩ := ih (by omega)
    obtain ⟨l1, l2, _, l4⟩ := attachLoop_spec sqrt A tar_dir max_step csize s0 k (by omega)
    rw [List.range_succ, List.foldl_append]
    simp only [List.foldl_cons, List.foldl_nil]
    generalize (List.range k).foldl (attachStep sqrt A tar_dir max_step csize) s0 = s
      at i1 i2 i3 i4 l1 l2 l4
    obtain ⟨p1, p2, p3, p4⟩ := attachStep_progress sqrt A tar_dir max_step csize s k
      (by rw [l2, hlen]; omega)
    obtain ⟨_, _, g3, _, _⟩ := attachStep_spec sqrt A tar_dir max_step csize s k
      (by rw [l1]; omega)
    have hk0 : s.attached_dimensions.getD k 0 = s0.attached_dimensions.getD k 0 :=
      (l4 k (le_refl _)).2
    have keep : ∀ j, j < k → s0.attached_dimensions.getD j 0 = 0 ∧
        s.attached_dimensions.getD j 0 = 1 →
        ∃ i, i < k + 1 ∧ s0.attached_dimensions.getD i 0 = 0 ∧
          (attachStep sqrt A tar_dir max_step csize s k).attached_dimensions.getD i 0 = 1 := by
      intro j hj h
      exact ⟨j, by omega, h.1, by rw [(g3 j (by omega)).2]; exact h.2⟩
    have hfresh : (attachStep sqrt A tar_dir max_step csize s k).new_element ≠ s.new_element →
        ∃ i, i < k + 1 ∧ s0.attached_dimensions.getD i 0 = 0 ∧
          (attachStep sqrt A tar_dir max_step csize s k).attached_dimensions.getD i 0 = 1 := by
      intro hne
      obtain ⟨q1, q2⟩ := p3 hne
      exact ⟨k, by omega, by rw [← hk0]; exact q1, q2⟩
    refine ⟨by omega, p2 i2, ?_, ?_⟩
    · intro hne
      by_cases hs : s.new_element = 0
      · exact hfresh (by rw [hs]; exact hne)
      · obtain ⟨j, hj, h⟩ := i3 hs
        exact keep j hj h
    · intro j hj hatt hb hden
      rcases Nat.lt_succ_iff_lt_or_eq.mp hj with hj | hj
      · obtain ⟨i, hi, h⟩ := i4 j hj hatt hb hden
        exact keep i hi h
      · subst hj
        by_cases hs : s.new_element = 0
        · refine ⟨j, by omega, hatt, ?_⟩
          apply p4 (by rw [hk0]; exact hatt) _ hden hs
          rw [(l4 j (le_refl _)).1]; exact hb
        · obtain ⟨i, hi, h⟩ := i3 hs
          exact keep i hi h

/-- The limited step is the target step or the quotient `B[j] / denominator` of a constraint
that is not attached and whose slope is at least `ZERO_THRES`. -/
theorem limitStep_attained {K : Type} [LinearOrderedField K] (A : List (Vector3 K))
    (B : List K) (attached : List Nat) (tar_dir : Vector3 K) (tar_step : K) :
    limitStep A B attached tar_dir tar_step = tar_step ∨
    ∃ j, j < A.length ∧ attached.getD j 0 = 0 ∧
      ZERO_THRES K ≤ dot (A.getD j (0, 0, 0)) tar_dir ∧
      limitStep A B attached tar_dir tar_step
        = B.getD j 0 / dot (A.getD j (0, 0, 0)) tar_dir := by
  unfold limitStep
  have key : ∀ k, (List.range k).foldl (fun max_step j =>
          if attached.getD j 0 ≠ 0 then max_step
          else if dot (A.getD j (0, 0, 0)) tar_dir < ZERO_THRES K then max_step
          else if B.getD j 0 / dot (A.getD j (0, 0, 0)) tar_dir < max_step then
            B.getD j 0 / dot (A.getD j (0, 0, 0)) tar_dir
          else max_step) tar_step = tar_step ∨
      ∃ j, j < k ∧ attached.getD j 0 = 0 ∧
        ZERO_THRES K ≤ dot (A.getD j (0, 0, 0)) tar_dir ∧
        (List.range k).foldl (fun max_step j =>
          if attached.getD j 0 ≠ 0 then max_step
          else if dot (A.getD j (0, 0, 0)) tar_dir < ZERO_THRES K then max_step
          else if B.getD j 0 / dot (A.getD j (0, 0, 0)) tar_dir < max_step then
            B.getD j 0 / dot (A.getD j (0, 0, 0)) tar_dir
          else max_step) tar_step = B.getD j 0 / dot (A.getD j (0, 0, 0)) tar_dir := by
    intro k
    induction k with
    | zero => left; rfl
    | succ k ih =>
      rw [List.range_succ, List.foldl_append]
      simp only [List.foldl_cons, List.foldl_nil]
      split_ifs with h1 h2 h3
      · rcases ih with h | ⟨j, hj, h⟩
        · exact Or.inl h
        · exact Or.inr ⟨j, by omega, h⟩
      · rcases ih with h | ⟨j, hj, h⟩
        · exact Or.inl h
        · exact Or.inr ⟨j, by omega, h⟩
      · exact Or.inr ⟨k, by omega, not_not.mp h1, not_lt.mp h2, rfl⟩
      · rcases ih with h | ⟨j, hj, h⟩
        · exact Or.inl h
        · exact Or.inr ⟨j, by omega, h⟩
  exact key A.length

theorem boundaryOf_length {K : Type} [LinearOrderedField K] (constraints : List (Vector3 K))
    (d : Vector3 K) : (boundaryOf constraints d).length ≤ constraints.length :=
  List.length_filter_le _ _

theorem boundaryOf_le_two {K : Type} [LinearOrderedField K] (constraints : List (Vector3 K))
    (d : Vector3 K) (hc : constraints.length ≤ 3) (h : ¬ (boundaryOf constraints d).length = 3) :
    (boundaryOf constraints d).length ≤ 2 := by
  have := boundaryOf_length constraints d
  omega

/-- When the projection block does not leave the function, at most two constraints remain. -/
theorem projectStep_length {K : Type} [LinearOrderedField K] (sqrt : K → K)
    (constraints : List (Vector3 K)) (tar_dir : Vector3 K) (tar_step : K)
    (r : List (Vector3 K) × Vector3 K × K)
    (h : projectStep sqrt constraints tar_dir tar_step = some r)
    (hc : constraints.length ≤ 3) : r.1.length ≤ 2 := by
  unfold projectStep at h
  split at h
  · rename_i hlast
    cases h
    have : constraints = [] := List.getLast?_eq_none_iff.mp hlast
    simp [this]
  · simp only at h
    split_ifs at h
    all_goals simp only at h
    all_goals split_ifs at h
    all_goals first
      | exact Option.noConfusion h
      | (cases h; exact boundaryOf_le_two _ _ hc (by assumption))
/-- A pass that goes on to the next pass keeps the sizes, holds at most three constraints, logs
one step, and attaches a constraint when the logged step is not zero. -/
theorem positionPass_next {K : Type} [LinearOrderedField K] (sqrt : K → K)
    (A : List (Vector3 K)) (p : Vector3 K) (s s1 : PosState K)
    (hB : s.B.length = A.length) (hatt : s.attached_dimensions.length = A.length)
    (hc : s.constraints.length ≤ 3) (h : positionPass sqrt A p s = Flow.next s1) :
    s1.B.length = A.length ∧ s1.attached_dimensions.length = A.length ∧
    s1.constraints.length ≤ 3 ∧ s1.steps.length = s.steps.length + 1 ∧
    ((∀ st, s1.steps.getLast? = some st → st.2 ≠ 0) →
      ∃ j, j < A.length ∧ s.attached_dimensions.getD j 0 = 0 ∧
        s1.attached_dimensions.getD j 0 = 1) := by
  unfold positionPass at h
  simp only at h
  split_ifs at h with h1
  split at h
  · exact Flow.noConfusion h
  · rename_i cs dir ts hproj
    have hcs : cs.length ≤ 2 := projectStep_length sqrt _ _ _ _ hproj hc
    generalize hms_def : (if limitStep A s.B s.attached_dimensions dir ts < 1 / 1000000 then 0
        else limitStep A s.B s.attached_dimensions dir ts) = ms at h
    have hspec := attachLoop_spec sqrt A dir ms cs.length
      { B := s.B, attached_dimensions := s.attached_dimensions, constraints := cs,
        new_element := 0 } A.length (by simp only; omega)
    have hprog := attachLoop_progress sqrt A dir ms cs.length
      { B := s.B, attached_dimensions := s.attached_dimensions, constraints := cs,
        new_element := 0 } rfl (by simp only; omega) A.length (by simp only; omega)
    simp only at hspec hprog
    obtain ⟨l1, l2, _, _⟩ := hspec
    obtain ⟨i1, i2, _, i4⟩ := hprog
    split_ifs at h with h2
    cases h
    simp only
    refine ⟨l1.trans hB, l2.trans hatt, by omega, by simp, ?_⟩
    intro hnz
    have hms := hnz (dir, ms) (by simp)
    simp only at hms
    have hclamp : ¬ limitStep A s.B s.attached_dimensions dir ts < 1 / 1000000 := by
      intro hlt
      rw [if_pos hlt] at hms_def
      exact hms hms_def.symm
    rw [if_neg hclamp] at hms_def
    subst hms_def
    rcases limitStep_attained A s.B s.attached_dimensions dir ts with e | ⟨j, hj, a0, hden, e⟩
    · exact absurd e h2
    · have hpos : 0 < dot (A.getD j (0, 0, 0)) dir := lt_of_lt_of_le (ZERO_THRES_pos K) hden
      obtain ⟨i, hi, q1, q2⟩ := i4 j hj a0 (by
        rw [e, mul_div_cancel₀ _ (ne_of_gt hpos), sub_self]
        exact ZERO_THRES_pos K) hden
      exact ⟨i, hi, q1, q2⟩

theorem stepSqrt_4 : stepSqrt 4 = 2 := by
  norm_num [stepSqrt, sqrtAmong, List.find?]
theorem positionLoop_next {K : Type} [LinearOrderedField K] (sqrt : K → K)
    (A : List (Vector3 K)) (p : Vector3 K) (count : Nat) (s s1 : PosState K)
    (h : positionPass sqrt A p s = Flow.next s1) :
    positionLoop sqrt A p (count + 1) s = positionLoop sqrt A p count s1 := by
  show (match positionPass sqrt A p s with
    | Flow.ret s1 => s1
    | Flow.next s1 => positionLoop sqrt A p count s1) = _
  rw [h]

/-- The loop of `UpdateFaceNormal` runs its body once: the call writes the row of the face of
`V2E_[i]` and no other row. -/
theorem UpdateFaceNormal_eq {K : Type} [LinearOrderedField K] (sqrt : K → K) (fuel : Nat)
    (m : Projector K) (i : Nat) :
    UpdateFaceNormal sqrt (fuel + 1) m i
      = (m.V2E_[i]?).map (fun deid => faceNormalStep sqrt m.out_F_ m.out_V_ m.out_FN_ deid) := by
  unfold UpdateFaceNormal
  cases m.V2E_[i]? with
  | none => rfl
  | some deid => simp [faceNormalLoop]

theorem unitSqrt_1 : unitSqrt 1 = 1 := by
  norm_num [unitSqrt, sqrtAmong, List.find?]

theorem unitSqrt_16 : unitSqrt 16 = 4 := by
  norm_num [unitSqrt, sqrtAmong, List.find?]

theorem unitSqrt_0 : unitSqrt 0 = 0 := by
  norm_num [unitSqrt, sqrtAmong, List.find?]

/-- C17 fails on vertex `0` of the tetrahedron `tetraQ`: the cycle of `next_out` from
`V2E_[0] = 6` visits the directed edges `6`, `3`, `0`, that is the faces `2`, `1`, `0`, but
`UpdateFaceNormal(0)` recomputes the row of face `2` only; the row of face `1` keeps its old
value `(1, 0, 0)` although the body of the loop run at the directed edge `3` would write
`(0, 1, 0)` there. -/
theorem UpdateFaceNormal_one_face :
    tetraQ.V2E_[0]? = some 6 ∧ ringList tetraQ.E2E_ 13 6 = some [6, 3, 0] ∧
    unitSqrt (1 * 1) = 1 ∧
    UpdateFaceNormal unitSqrt 13 tetraQ 0 = some [(0, 0, 1), (1, 0, 0), (1, 0, 0), (1, 1, 1)] ∧
    tetraQ.out_FN_.getD 1 (0, 0, 0) = (1, 0, 0) ∧
    (faceNormalStep unitSqrt tetraQ.out_F_ tetraQ.out_V_ tetraQ.out_FN_ 3).getD 1 (0, 0, 0)
      = (0, 1, 0) := by
  have f60 : faceI tetraQ.out_F_ 6 0 = 0 := by decide
  have f61 : faceI tetraQ.out_F_ 6 1 = 2 := by decide
  have f62 : faceI tetraQ.out_F_ 6 2 = 3 := by decide
  have f30 : faceI tetraQ.out_F_ 3 0 = 0 := by decide
  have f31 : faceI tetraQ.out_F_ 3 1 = 3 := by decide
  have f32 : faceI tetraQ.out_F_ 3 2 = 1 := by decide
  have c6 : cornerCross unitSqrt tetraQ.out_F_ tetraQ.out_V_ 6 = (1, 0, 0) := by
    simp only [cornerCross, f60, f61, f62]
    simp only [tetraQ, List.getD_cons_zero, List.getD_cons_succ]
    norm_num [vsub, normalized, dot, vdiv, cross, unitSqrt_1]
  have c3 : cornerCross unitSqrt tetraQ.out_F_ tetraQ.out_V_ 3 = (0, 1, 0) := by
    simp only [cornerCross, f30, f31, f32]
    simp only [tetraQ, List.getD_cons_zero, List.getD_cons_succ]
    norm_num [vsub, normalized, dot, vdiv, cross, unitSqrt_1]
  have n6 : norm unitSqrt ((1, 0, 0) : Vector3 ℚ) = 1 := by
    norm_num [norm, dot, unitSqrt_1]
  have n3 : norm unitSqrt ((0, 1, 0) : Vector3 ℚ) = 1 := by
    norm_num [norm, dot, unitSqrt_1]
  have s6 : faceNormalStep unitSqrt tetraQ.out_F_ tetraQ.out_V_ tetraQ.out_FN_ 6
      = [(0, 0, 1), (1, 0, 0), (1, 0, 0), (1, 1, 1)] := by
    have i6 : (Int.tdiv 6 3).toNat = 2 := by decide
    simp only [faceNormalStep, c6, n6, i6]
    norm_num [vdiv, tetraQ]
  have s3 : faceNormalStep unitSqrt tetraQ.out_F_ tetraQ.out_V_ tetraQ.out_FN_ 3
      = [(0, 0, 1), (0, 1, 0), (0, 1, 0), (1, 1, 1)] := by
    have i3 : (Int.tdiv 3 3).toNat = 1 := by decide
    simp only [faceNormalStep, c3, n3, i3]
    norm_num [vdiv, tetraQ]
  refine ⟨by decide, by decide, by norm_num [unitSqrt_1], ?_, rfl, ?_⟩
  · rw [UpdateFaceNormal_eq]
    have hV : tetraQ.V2E_[0]? = some 6 := by decide
    rw [hV]
    simp only [Option.map_some', s6]
  · rw [s3]
    rfl

/-! ## C18: the normals handed to the normal solver in the sweep -/

theorem positionLoop_at_target {K : Type} [LinearOrderedField K] (sqrt : K → K)
    (A : List (Vector3 K)) (p : Vector3 K) (count : Nat) (s : PosState K)
    (h : norm sqrt (vsub p s.pos) < ZERO_THRES K) : positionLoop sqrt A p count s = s := by
  cases count with
  | zero => rfl
  | succ count =>
    unfold positionLoop positionPass
    simp [h]

theorem OptimizePosition_at_target {K : Type} [LinearOrderedField K] (sqrt : K → K)
    (fuel : Nat) (m : Projector K) (v : Nat) (p : Vector3 K) (AB : List (Vector3 K × K))
    (hAB : positionConstraints sqrt fuel m v = some AB)
    (h : norm sqrt (vsub p (m.out_V_.getD v (0, 0, 0))) < ZERO_THRES K) :
    OptimizePosition sqrt fuel m v p = some
      { pos := m.out_V_.getD v (0, 0, 0), B := AB.map Prod.snd,
        attached_dimensions := List.replicate AB.length 0, constraints := [], steps := [] } := by
  unfold OptimizePosition
  rw [hAB]
  simp only
  rw [positionLoop_at_target _ _ _ _ _ h]

theorem flatOcta_valid : ValidE2E flatOcta.out_F_ 24 flatOcta.E2E_ := ⟨by decide, by decide⟩

theorem flatOcta_ring : next_out flatOcta.E2E_ 9 = some 0 ∧ next_out flatOcta.E2E_ 0 = some 3 ∧
    next_out flatOcta.E2E_ 3 = some 6 ∧ next_out flatOcta.E2E_ 6 = some 9 := by decide

theorem ringFold_succ {σ : Type} (E2E : List Int) (deid0 : Int) (body : σ → Int → σ)
    (fuel : Nat) (deid : Int) (s : σ) :
    ringFold E2E deid0 body (fuel + 1) deid s =
      match next_out E2E deid with
      | none => none
      | some nxt =>
        if deid0 ≠ nxt then ringFold E2E deid0 body fuel nxt (body s deid)
        else some (body s deid) := rfl

/-- The ring loop of vertex `0` of `flatOcta` visits the directed edges `9`, `0`, `3`, `6`. -/
theorem flatOcta_ringFold {σ : Type} (body : σ → Int → σ) (s : σ) :
    ringFold flatOcta.E2E_ 9 body 25 9 s = some (body (body (body (body s 9) 0) 3) 6) := by
  obtain ⟨h1, h2, h3, h4⟩ := flatOcta_ring
  have e : (25 : Nat) = 21 + 1 + 1 + 1 + 1 := rfl
  have n0 : (9 : Int) ≠ 0 := by decide
  have n3 : (9 : Int) ≠ 3 := by decide
  have n6 : (9 : Int) ≠ 6 := by decide
  rw [e, ringFold_succ, h1]
  simp only
  rw [if_pos n0, ringFold_succ, h2]
  simp only
  rw [if_pos n3, ringFold_succ, h3]
  simp only
  rw [if_pos n6, ringFold_succ, h4]
  simp only
  rw [if_neg (by simp)]

theorem flatOcta_cross (deid : Int) (h : deid = 9 ∨ deid = 0 ∨ deid = 3 ∨ deid = 6) :
    cornerCross unitSqrt flatOcta.out_F_ flatOcta.out_V_ deid = (0, 0, 1) := by
  have f90 : faceI flatOcta.out_F_ 9 0 = 0 := by decide
  have f91 : faceI flatOcta.out_F_ 9 1 = 4 := by decide
  have f92 : faceI flatOcta.out_F_ 9 2 = 1 := by decide
  have f00 : faceI flatOcta.out_F_ 0 0 = 0 := by decide
  have f01 : faceI flatOcta.out_F_ 0 1 = 1 := by decide
  have f02 : faceI flatOcta.out_F_ 0 2 = 2 := by decide
  have f30 : faceI flatOcta.out_F_ 3 0 = 0 := by decide
  have f31 : faceI flatOcta.out_F_ 3 1 = 2 := by decide
  have f32 : faceI flatOcta.out_F_ 3 2 = 3 := by decide
  have f60 : faceI flatOcta.out_F_ 6 0 = 0 := by decide
  have f61 : faceI flatOcta.out_F_ 6 1 = 3 := by decide
  have f62 : faceI flatOcta.out_F_ 6 2 = 4 := by decide
  rcases h with rfl | rfl | rfl | rfl
  · simp only [cornerCross, f90, f91, f92]
    simp only [flatOcta, List.getD_cons_zero, List.getD_cons_succ]
    norm_num [vsub, normalized, dot, vdiv, cross, unitSqrt_1]
  · simp only [cornerCross, f00, f01, f02]
    simp only [flatOcta, List.getD_cons_zero, List.getD_cons_succ]
    norm_num [vsub, normalized, dot, vdiv, cross, unitSqrt_1]
  · simp only [cornerCross, f30, f31, f32]
    simp only [flatOcta, List.getD_cons_zero, List.getD_cons_succ]
    norm_num [vsub, normalized, dot, vdiv, cross, unitSqrt_1]
  · simp only [cornerCross, f60, f61, f62]
    simp only [flatOcta, List.getD_cons_zero, List.getD_cons_succ]
    norm_num [vsub, normalized, dot, vdiv, cross, unitSqrt_1]

theorem unit_norm : norm unitSqrt ((0, 0, 1) : Vector3 ℚ) = 1 := by
  norm_num [norm, dot, unitSqrt_1]

/-- `UpdateFaceNormal(0)` on `flatOcta` rewrites the row of face `3` with the value it has. -/
theorem flatOcta_face : UpdateFaceNormal unitSqrt 25 flatOcta.toProjector 0
    = some flatOcta.out_FN_ := by
  rw [UpdateFaceNormal_eq]
  have hV : flatOcta.toProjector.V2E_[0]? = some 9 := by decide
  have i9 : (Int.tdiv 9 3).toNat = 3 := by decide
  rw [hV]
  simp only [Option.map_some', faceNormalStep, i9]
  rw [show flatOcta.toProjector.out_F_ = flatOcta.out_F_ from rfl,
    show flatOcta.toProjector.out_V_ = flatOcta.out_V_ from rfl,
    flatOcta_cross 9 (Or.inl rfl), unit_norm]
  norm_num [vdiv, flatOcta]

/-- `UpdateVertexNormal(0, 0)` on `flatOcta` sets the normal of vertex `0` to `(0, 0, 1)`. -/
theorem flatOcta_vertex : UpdateVertexNormal unitSqrt id 25 flatOcta.toProjector 0 false
    = some flatOcta3.out_N_ := by
  have hV : flatOcta.toProjector.V2E_[0]? = some 9 := by decide
  obtain ⟨h1, h2, h3, h4⟩ := flatOcta_ring
  have hstep : ∀ (n : Vector3 ℚ) (deid : Int), deid = 9 ∨ deid = 0 ∨ deid = 3 ∨ deid = 6 →
      vertexNormalStep unitSqrt id flatOcta.out_F_ flatOcta.out_V_ n deid
        = vadd n (0, 0, 1) := by
    intro n deid h
    simp only [vertexNormalStep, flatOcta_cross deid h, unit_norm]
    norm_num [vscale]
  unfold UpdateVertexNormal
  rw [hV]
  simp only
  rw [flatOcta_ringFold]
  simp only [Bool.false_eq_true, if_false]
  rw [hstep _ 9 (Or.inl rfl), hstep _ 0 (Or.inr (Or.inl rfl)),
    hstep _ 3 (Or.inr (Or.inr (Or.inl rfl))), hstep _ 6 (Or.inr (Or.inr (Or.inr rfl)))]
  norm_num [vadd, normalized, dot, vdiv, unitSqrt_16, flatOcta, flatOcta3]

/-- Called with the same vector twice, as in the sweep, the normal solver stores that
vector. -/
theorem flatOcta_solver_same : OptimizeNormal 25 flatOcta3 0 (0, 0, 1) (0, 0, 1)
    = some flatOcta3.out_N_ := by
  have hV : flatOcta3.V2E_[0]? = some 9 := by decide
  obtain ⟨h1, h2, h3, h4⟩ := flatOcta_ring
  have hstep : ∀ (ms : ℚ) (deid : Int),
      normalStep flatOcta3.out_FN_ (0, 0, 1) (vsub (0, 0, 1) (0, 0, 1)) ms deid = ms := by
    intro ms deid
    norm_num [normalStep, vsub, dot, ZERO_THRES]
  unfold OptimizeNormal
  rw [hV]
  simp only
  rw [show flatOcta3.E2E_ = flatOcta.E2E_ from rfl, flatOcta_ringFold]
  simp only [hstep]
  norm_num [vsub, vadd, vscale, flatOcta3]

/-- Called with the normal `(1, 0, 0)` that vertex `0` had before and the smoothed normal
`(0, 0, 1)`, the normal solver stops at the step `1 / 2` because of face `0`. -/
theorem flatOcta_solver_before : OptimizeNormal 25 flatOcta3 0 (1, 0, 0) (0, 0, 1)
    = some [(1 / 2, 0, 1 / 2), (0, 0, 1), (0, 0, 1), (0, 0, 1), (0, 0, 1), (0, 0, -1)] := by
  have hV : flatOcta3.V2E_[0]? = some 9 := by decide
  obtain ⟨h1, h2, h3, h4⟩ := flatOcta_ring
  have fn9 : faceNormal flatOcta3.out_FN_ 9 = (0, 0, 1) := by decide
  have fn0 : faceNormal flatOcta3.out_FN_ 0 = (1, 0, -1) := by decide
  have fn3 : faceNormal flatOcta3.out_FN_ 3 = (0, 0, 1) := by decide
  have fn6 : faceNormal flatOcta3.out_FN_ 6 = (0, 0, 1) := by decide
  unfold OptimizeNormal
  rw [hV]
  simp only
  rw [show flatOcta3.E2E_ = flatOcta.E2E_ from rfl, flatOcta_ringFold]
  simp only [normalStep, fn9, fn0, fn3, fn6]
  norm_num [vsub, vadd, vscale, dot, ZERO_THRES, flatOcta3]

/-- The sweep body in terms of the four calls it makes: the normal solver receives the row
`vid` of `out_N_` as `UpdateVertexNormal` left it, as both arguments, and the test for
re-activation multiplies the final row with itself. -/
theorem sweepVertex_eq {K : Type} [LinearOrderedField K] (sqrt asin : K → K) (fuel : Nat)
    (s : SweepState K) (vid : Nat) (ps : PosState K) (FN N1 N2 : List (Vector3 K))
    (h1 : OptimizePosition sqrt fuel s.m.toProjector vid (s.m.target_V_.getD vid (0, 0, 0))
      = some ps)
    (h2 : UpdateFaceNormal sqrt fuel
      { s.m.toProjector with out_V_ := s.m.out_V_.set vid ps.pos } vid = some FN)
    (h3 : UpdateVertexNormal sqrt asin fuel
      { s.m.toProjector with out_V_ := s.m.out_V_.set vid ps.pos, out_FN_ := FN } vid false
      = some N1)
    (h4 : OptimizeNormal fuel
      { s.m.toProjector with out_V_ := s.m.out_V_.set vid ps.pos, out_FN_ := FN, out_N_ := N1 }
      vid (N1.getD vid (0, 0, 0)) (N1.getD vid (0, 0, 0)) = some N2) :
    ∃ s1, sweepVertex sqrt asin fuel s vid = some s1 ∧ s1.m.out_N_ = N2 ∧
      s1.m.out_V_ = s.m.out_V_.set vid ps.pos ∧ s1.m.out_FN_ = FN ∧
      s1.num_active_temp =
        if ZERO_THRES K <
            |norm sqrt (vsub ((s.m.out_V_.set vid ps.pos).getD vid (0, 0, 0))
                (s.m.target_V_.getD vid (0, 0, 0)))
              - norm sqrt (vsub (s.m.out_V_.getD vid (0, 0, 0))
                (s.m.target_V_.getD vid (0, 0, 0)))| ∨
          dot (N2.getD vid (0, 0, 0)) (N2.getD vid (0, 0, 0)) < 1 - ZERO_THRES K
        then s.num_active_temp + 1 else s.num_active_temp := by
  unfold sweepVertex
  simp only [h1, h2, h3, h4]
  split_ifs with hc
  · exact ⟨_, rfl, rfl, rfl, rfl, rfl⟩
  · exact ⟨_, rfl, rfl, rfl, rfl, rfl⟩

theorem ringFold_const {σ : Type} (E2E : List Int) (deid0 : Int) (body : σ → Int → σ)
    (hbody : ∀ s d, body s d = s) :
    ∀ (fuel : Nat) (deid : Int) (s r : σ), ringFold E2E deid0 body fuel deid s = some r →
      r = s := by
  intro fuel
  induction fuel with
  | zero => intro deid s r h; exact Option.noConfusion h
  | succ fuel ih =>
    intro deid s r h
    rw [ringFold_succ] at h
    split at h
    · exact Option.noConfusion h
    · split_ifs at h with hne
      · rw [hbody] at h; exact ih _ _ _ h
      · rw [hbody] at h; exact (Option.some.inj h).symm

/-- Called with the same vector as `vn` and as `target_vn`, the normal solver stores that
vector in row `i`, whatever the face normals are. -/
theorem OptimizeNormal_same {K : Type} [LinearOrderedField K] (fuel : Nat) (m : Projector K)
    (i : Nat) (vn : Vector3 K) (r : List (Vector3 K))
    (h : OptimizeNormal fuel m i vn vn = some r) : r = m.out_N_.set i vn := by
  have hd : vsub vn vn = (0, 0, 0) := vsub_self vn
  have hbody : ∀ (ms : K) (deid : Int), normalStep m.out_FN_ vn (0, 0, 0) ms deid = ms := by
    intro ms deid
    have hz : ¬ ((0 : K) < -ZERO_THRES K) := by
      have := ZERO_THRES_pos K
      intro hlt
      linarith
    simp [normalStep, dot, hz]
  unfold OptimizeNormal at h
  rw [hd] at h
  simp only at h
  split at h
  · exact Option.noConfusion h
  · split at h
    · exact Option.noConfusion h
    · rename_i deid _ ms hms
      have := ringFold_const _ _ _ hbody _ _ _ _ hms
      subst this
      have h1 : ¬ ((1 : K) < 0) := by norm_num
      rw [if_neg h1] at h
      have e : vadd vn (vscale 1 ((0, 0, 0) : Vector3 K)) = vn := by
        simp [vadd, vscale]
      rw [e] at h
      exact (Option.some.inj h).symm

/-- C18 fails on vertex `0` of `flatOcta`, whose normal before the sweep is `(1, 0, 0)` and
whose smoothed normal is `(0, 0, 1)`: the sweep body leaves `out_N_[0] = (0, 0, 1)` and does
not re-activate the vertex, whereas `OptimizeNormal` called with the normal held before
`UpdateVertexNormal` gives `(1, 0, 0) + 1/2 * ((0, 0, 1) - (1, 0, 0)) = (1/2, 0, 1/2)`, whose
product with `(1, 0, 0)` is below `1 - ZERO_THRES`. -/
theorem sweepVertex_same_normal :
    unitSqrt 0 = 0 ∧ unitSqrt (1 * 1) = 1 ∧ unitSqrt (4 * 4) = 4 ∧
    flatOcta.out_N_.getD 0 (0, 0, 0) = (1, 0, 0) ∧
    (∃ out_N, UpdateVertexNormal unitSqrt id 25 flatOcta.toProjector 0 false = some out_N ∧
      out_N.getD 0 (0, 0, 0) = (0, 0, 1)) ∧
    (∃ s1, sweepVertex unitSqrt id 25 ⟨flatOcta, false, 0⟩ 0 = some s1 ∧
      s1.m.out_N_.getD 0 (0, 0, 0) = (0, 0, 1) ∧ s1.num_active_temp = 0) ∧
    (∃ out_N, OptimizeNormal 25 flatOcta3 0 (1, 0, 0) (0, 0, 1) = some out_N ∧
      out_N.getD 0 (0, 0, 0) = (1 / 2, 0, 1 / 2)) ∧
    dot ((1, 0, 0) : Vector3 ℚ) (1 / 2, 0, 1 / 2) < 1 - ZERO_THRES ℚ := by
  refine ⟨unitSqrt_0, by norm_num [unitSqrt_1], by norm_num [unitSqrt_16], rfl,
    ⟨_, flatOcta_vertex, rfl⟩, ?_, ⟨_, flatOcta_solver_before, rfl⟩, ?_⟩
  · have hV : flatOcta.V2E_[0]? = some ((9 : Nat) : Int) := by decide
    have hAB : positionConstraints unitSqrt 25 flatOcta.toProjector 0
        = some (((List.range (Function.minimalPeriod (nextN flatOcta.E2E_) 9)).map
            (fun i => (((nextN flatOcta.E2E_)^[i] 9 : Nat) : Int))).foldl
            (constraintStep unitSqrt flatOcta.out_F_ flatOcta.out_V_ flatOcta.out_N_) []) := by
      unfold positionConstraints
      rw [show flatOcta.toProjector.V2E_ = flatOcta.V2E_ from rfl, hV]
      exact ringFold_eq flatOcta_valid (show 9 < 24 by decide) _ 25 (by decide) []
    have h0 : norm unitSqrt (vsub (0, 0, 0) (flatOcta.out_V_.getD 0 (0, 0, 0)))
        < ZERO_THRES ℚ := by
      norm_num [norm, vsub, dot, flatOcta, unitSqrt_0, ZERO_THRES]
    have h1 := OptimizePosition_at_target unitSqrt 25 flatOcta.toProjector 0 (0, 0, 0) _ hAB h0
    obtain ⟨s1, q1, q2, _, _, q5⟩ := sweepVertex_eq unitSqrt id 25 ⟨flatOcta, false, 0⟩ 0 _
      flatOcta.out_FN_ flatOcta3.out_N_ flatOcta3.out_N_ h1 flatOcta_face flatOcta_vertex
      flatOcta_solver_same
    refine ⟨s1, q1, by rw [q2]; rfl, ?_⟩
    rw [q5, if_neg]
    simp only [flatOcta, flatOcta3, List.getD_cons_zero, List.set_cons_zero]
    norm_num [norm, vsub, dot, unitSqrt_0, ZERO_THRES]
  · norm_num [dot, ZERO_THRES]

/-! ## C12: a round in which no candidate exceeds the tolerance -/

theorem resizeWith_self {α : Type} (junk : Nat → α) (a : List α) :
    resizeWith junk a a.length = a := by
  apply List.ext_getElem?
  intro i
  by_cases hi : i < a.length
  · exact getElem?_resizeWith junk a a.length i hi (le_refl _)
  · rw [List.getElem?_eq_none (by rw [length_resizeWith]; omega),
      List.getElem?_eq_none (by omega)]

theorem growSize_ge (fuel size target : Nat) (h : target ≤ size) :
    growSize fuel size target = some size := by
  cases fuel with
  | zero => simp [growSize, Nat.not_lt.mpr h]
  | succ fuel => simp [growSize, Nat.not_lt.mpr h]

/-- Without candidates the topology of a round is left as it is. -/
theorem refineTopology_nil (junkF : Nat → Nat) (junkV junkE : Nat → Int) (t : Topology)
    (hV : t.num_V_ ≤ t.V2E_.length) (hE : t.num_F_ * 3 ≤ t.E2E_.length) :
    refineTopology junkF junkV junkE t [] = some t := by
  unfold refineTopology
  simp only [List.foldlM_nil, Option.pure_def, List.map_nil, List.nil_append]
  rw [growSize_ge _ _ _ hV, growSize_ge _ _ _ hE]
  simp only [Nat.sub_self, List.range'_zero, List.foldl_nil, resizeWith_self, List.length_nil,
    pairLoop, List.getElem?_nil]

theorem filter_zip_nil {α β γ : Type} (f : α → β) (g : β → γ) (p : α × β × γ → Bool) :
    ∀ (l : List α), (∀ a ∈ l, p (a, f a, g (f a)) = false) →
      (l.zip ((l.map f).zip ((l.map f).map g))).filter p = [] := by
  intro l
  induction l with
  | nil => intro _; rfl
  | cons a l ih =>
    intro h
    simp only [List.map_cons, List.zip_cons_cons, List.filter_cons,
      h a (List.mem_cons_self _ _)]
    exact ih (fun b hb => h b (List.mem_cons_of_mem _ hb))

/-- With an empty active set a pass of the loop of `IterativeOptimize` changes nothing and
reports no change. -/
theorem optimizePass_idle {K : Type} [LinearOrderedField K] (sqrt asin : K → K)
    (query : Vector3 K → K × Int × Vector3 K) (order : List Nat → List Nat)
    (horder : ∀ l, (order l).Perm l) (fuel : Nat) (m : Solver K) (h : m.num_active_ = 0) :
    optimizePass sqrt asin query order fuel m = some (m, false) := by
  have h0 : order [] = [] := List.Perm.eq_nil (horder [])
  unfold optimizePass
  simp only [h, List.range_zero, List.foldl_nil, List.take_zero, List.insertionSort,
    List.drop_zero, List.nil_append, List.reverse_nil, List.foldlM_nil, Option.pure_def,
    Nat.not_lt_zero, if_false, h0, List.length_nil]
  cases m
  simp only at h
  subst h
  rfl

theorem optimizeLoop_idle {K : Type} [LinearOrderedField K] (sqrt asin : K → K)
    (query : Vector3 K → K × Int × Vector3 K) (order : List Nat → List Nat)
    (horder : ∀ l, (order l).Perm l) (fuel passes : Nat) (m : Solver K)
    (h : m.num_active_ = 0) :
    optimizeLoop sqrt asin query order fuel (passes + 1) m = some m := by
  unfold optimizeLoop
  rw [optimizePass_idle sqrt asin query order horder fuel m h]
  rfl

/-- C12: if in a round of `AdaptiveRefine` (arrays `V2E_` and `E2E_` holding at least `num_V_`
and `3 * num_F_` entries) the oracle reports `sqrt(sqrD) <= len * ratio` for the midpoint of
every candidate edge, then the round returns, `IterativeOptimize` included, with `num_V_`,
`num_F_`, `out_F_`, `out_V_`, `V2E_` and `E2E_` unchanged (only `num_active_` is reset to `0`)
and with an empty list of candidates, and any number of further rounds returns that same
state. -/
theorem refineRound_noop {K : Type} [LinearOrderedField K] (sqrt asin : K → K)
    (query : Vector3 K → K × Int × Vector3 K) (order : List Nat → List Nat) (J : Junk K)
    (len ratio : K) (fuel passes : Nat) (s : RefineState K)
    (horder : ∀ l, (order l).Perm l) (hpasses : 0 < passes)
    (hV : s.m.num_V_ ≤ s.m.V2E_.length) (hE : s.m.num_F_ * 3 ≤ s.m.E2E_.length)
    (htol : ∀ deid ∈ s.candidates, sqrt (query (midpoint s.m deid)).1 ≤ len * ratio) :
    ∃ r, refineRound sqrt asin query order J len ratio fuel passes s = some r ∧
      r.m = { s.m with num_active_ := 0 } ∧
      r.m.num_V_ = s.m.num_V_ ∧ r.m.num_F_ = s.m.num_F_ ∧ r.m.out_F_ = s.m.out_F_ ∧
      r.m.out_V_ = s.m.out_V_ ∧ r.m.V2E_ = s.m.V2E_ ∧ r.m.E2E_ = s.m.E2E_ ∧
      r.candidates = [] ∧
      ∀ k, (List.range k).foldlM
        (fun s _ => refineRound sqrt asin query order J len ratio fuel passes s) r = some r := by
  obtain ⟨passes, rfl⟩ : ∃ q, passes = q + 1 := ⟨passes - 1, by omega⟩
  have key : ∀ (m : Solver K) (cs : List Nat), m.num_V_ ≤ m.V2E_.length →
      m.num_F_ * 3 ≤ m.E2E_.length →
      (∀ deid ∈ cs, sqrt (query (midpoint m deid)).1 ≤ len * ratio) →
      refineRound sqrt asin query order J len ratio fuel (passes + 1)
          { m := m, candidates := cs }
        = some { m := { m with num_active_ := 0 }, candidates := [] } := by
    intro m cs hV hE htol
    have hkept : (cs.zip ((cs.map (midpoint m)).zip ((cs.map (midpoint m)).map query))).filter
        (fun r => decide (len * ratio < sqrt r.2.2.1)) = [] := by
      apply filter_zip_nil (midpoint m) query
      intro a ha
      exact decide_eq_false (not_lt.mpr (htol a ha))
    unfold refineRound
    simp only [hkept, List.map_nil, List.foldlM_nil, Option.pure_def, List.foldl_nil]
    rw [refineTopology_nil _ _ _ _ hV hE]
    simp only [Nat.sub_self, List.range'_zero, List.append_nil, List.flatMap_nil,
      List.range_zero, List.foldl_nil]
    rw [optimizeLoop_idle sqrt asin query order horder fuel passes _ rfl]
    simp only [List.map_nil, List.flatMap_nil]
  have hr := key s.m s.candidates hV hE htol
  have hr2 : refineRound sqrt asin query order J len ratio fuel (passes + 1)
      { m := { s.m with num_active_ := 0 }, candidates := [] }
      = some { m := { s.m with num_active_ := 0 }, candidates := [] } :=
    key { s.m with num_active_ := 0 } [] hV hE (fun d hd => by cases hd)
  refine ⟨_, hr, rfl, rfl, rfl, rfl, rfl, rfl, rfl, rfl, ?_⟩
  intro k
  induction k with
  | zero => rfl
  | succ k ih =>
    rw [List.range_succ, List.foldlM_append, ih]
    simpa using hr2


/-- C12 applied to `flatOcta` with the candidates `0` and `1`, an oracle that reports the
distance `0` everywhere, `len = 1` and `ratio = 1e-3`. -/
theorem refineRound_noop_witness :
    (∀ l : List Nat, (id l).Perm l) ∧ 0 < 1 ∧
    flatOcta.num_V_ ≤ flatOcta.V2E_.length ∧ flatOcta.num_F_ * 3 ≤ flatOcta.E2E_.length ∧
    (∀ deid ∈ [0, 1], unitSqrt (onSurface (midpoint flatOcta deid)).1 ≤ 1 * (1 / 1000)) ∧
    ∃ r, refineRound unitSqrt id onSurface id zeroJunk 1 (1 / 1000) 25 1
        { m := flatOcta, candidates := [0, 1] } = some r ∧
      r.m = { flatOcta with num_active_ := 0 } ∧
      r.m.num_V_ = flatOcta.num_V_ ∧ r.m.num_F_ = flatOcta.num_F_ ∧
      r.m.out_F_ = flatOcta.out_F_ ∧ r.m.out_V_ = flatOcta.out_V_ ∧
      r.m.V2E_ = flatOcta.V2E_ ∧ r.m.E2E_ = flatOcta.E2E_ ∧ r.candidates = [] ∧
      ∀ k, (List.range k).foldlM
        (fun s _ => refineRound unitSqrt id onSurface id zeroJunk 1 (1 / 1000) 25 1 s) r
          = some r :=
  ⟨fun l => List.Perm.refl l, by decide, by decide, by decide,
    fun _ _ => by
      show unitSqrt 0 ≤ 1 * (1 / 1000)
      rw [unitSqrt_0]
      norm_num,
    refineRound_noop unitSqrt id onSurface id zeroJunk 1 (1 / 1000) 25 1
      { m := flatOcta, candidates := [0, 1] } (fun l => List.Perm.refl l) (by decide)
      (by decide) (by decide)
      (fun _ _ => by
        show unitSqrt 0 ≤ 1 * (1 / 1000)
        rw [unitSqrt_0]
        norm_num)⟩

/-! ## C21: the maximum feasible step -/

/-- The loop that limits the step computes the minimum of `tar_step` and the feasible
quotients. -/
theorem limitStep_eq_min {K : Type} [LinearOrderedField K] (A : List (Vector3 K)) (B : List K)
    (attached : List Nat) (tar_dir : Vector3 K) (tar_step : K) :
    limitStep A B attached tar_dir tar_step
      = (feasibleSteps A B attached tar_dir).foldl min tar_step := by
  unfold limitStep feasibleSteps
  generalize List.range A.length = l
  induction l generalizing tar_step with
  | nil => rfl
  | cons a l ih =>
    simp only [List.foldl_cons, List.filter_cons]
    by_cases h1 : attached.getD a 0 = 0
    · by_cases h2 : dot (A.getD a (0, 0, 0)) tar_dir < ZERO_THRES K
      · have hp : ¬ (attached.getD a 0 = 0 ∧ ZERO_THRES K ≤ dot (A.getD a (0, 0, 0)) tar_dir) :=
          fun h => absurd h2 (not_lt.mpr h.2)
        simp only [h1, ne_eq, not_true_eq_false, if_false, h2, if_true, not_le.mpr h2,
          and_false, decide_False, Bool.false_eq_true]
        exact ih tar_step
      · have hp : attached.getD a 0 = 0 ∧ ZERO_THRES K ≤ dot (A.getD a (0, 0, 0)) tar_dir :=
          ⟨h1, not_lt.mp h2⟩
        simp only [h1, ne_eq, not_true_eq_false, if_false, h2, not_lt.mp h2, and_self,
          decide_True, if_true, List.map_cons, List.foldl_cons]
        rw [ih]
        congr 1
        by_cases h3 : B.getD a 0 / dot (A.getD a (0, 0, 0)) tar_dir < tar_step
        · rw [if_pos h3, min_eq_right (le_of_lt h3)]
        · rw [if_neg h3, min_eq_left (not_lt.mp h3)]
    · have hp : ¬ (attached.getD a 0 = 0 ∧ ZERO_THRES K ≤ dot (A.getD a (0, 0, 0)) tar_dir) :=
        fun h => h1 h.1
      simp only [ne_eq, h1, not_false_eq_true, if_true, false_and, decide_False,
        Bool.false_eq_true, if_false]
      exact ih tar_step

/-- When the projection block does not leave the function, the target step stays positive. -/
theorem projectStep_step_pos {K : Type} [LinearOrderedField K] (sqrt : K → K)
    (constraints : List (Vector3 K)) (tar_dir : Vector3 K) (tar_step : K)
    (r : List (Vector3 K) × Vector3 K × K)
    (h : projectStep sqrt constraints tar_dir tar_step = some r) (ht : 0 < tar_step) :
    0 < r.2.2 := by
  have hz := ZERO_THRES_pos K
  unfold projectStep at h
  split at h
  · cases h
    exact ht
  · simp only at h
    split_ifs at h
    all_goals simp only at h
    all_goals split_ifs at h
    all_goals first
      | exact Option.noConfusion h
      | (cases h; exact mul_pos ht (lt_of_lt_of_le hz (not_lt.mp (by assumption))))

/-- C21 (amended): in exact arithmetic, in a pass of `OptimizePosition` that reaches the step
computation (the offset is not below `ZERO_THRES` and the projection block yields the
direction `dir` and the target step `ts`), the pass ends with the logged step `(dir, ms)`
applied to the position, where `ms` is
the minimum of `ts` and the quotients `B[j] / (A[j] . dir)` over the constraints that are not
attached and have `A[j] . dir >= ZERO_THRES`, replaced by `0` when below `1e-6`; moreover
`0 <= ms <= ts`, and every such constraint with `B[j] >= 0` keeps
`B[j] - (A[j] . dir) * ms >= 0`, which is the new `B[j]` when the pass goes on. -/
theorem positionPass_max_step {K : Type} [LinearOrderedField K] (sqrt : K → K)
    (A : List (Vector3 K)) (p : Vector3 K) (s : PosState K)
    (cs : List (Vector3 K)) (dir : Vector3 K) (ts : K)
    (hreach : ¬ norm sqrt (vsub p s.pos) < ZERO_THRES K)
    (hproj : projectStep sqrt s.constraints
      (vdiv (vsub p s.pos) (norm sqrt (vsub p s.pos))) (norm sqrt (vsub p s.pos))
        = some (cs, dir, ts))
    (hB : s.B.length = A.length) :
    ∃ s1, (positionPass sqrt A p s = Flow.ret s1 ∨ positionPass sqrt A p s = Flow.next s1) ∧
      s1.steps = s.steps ++ [(dir, maxFeasibleStep A s.B s.attached_dimensions dir ts)] ∧
      s1.pos = vadd s.pos (vscale (maxFeasibleStep A s.B s.attached_dimensions dir ts) dir) ∧
      0 ≤ maxFeasibleStep A s.B s.attached_dimensions dir ts ∧
      maxFeasibleStep A s.B s.attached_dimensions dir ts ≤ ts ∧
      ∀ j, j < A.length → s.attached_dimensions.getD j 0 = 0 →
        ZERO_THRES K ≤ dot (A.getD j (0, 0, 0)) dir → 0 ≤ s.B.getD j 0 →
        0 ≤ s.B.getD j 0
          - dot (A.getD j (0, 0, 0)) dir * maxFeasibleStep A s.B s.attached_dimensions dir ts ∧
        (positionPass sqrt A p s = Flow.next s1 →
          s1.B.getD j 0 = s.B.getD j 0
            - dot (A.getD j (0, 0, 0)) dir
              * maxFeasibleStep A s.B s.attached_dimensions dir ts) := by
  have hts : 0 < ts :=
    projectStep_step_pos sqrt _ _ _ _ hproj (lt_of_lt_of_le (ZERO_THRES_pos K) (not_lt.mp hreach))
  have hle := limitStep_le A s.B s.attached_dimensions dir ts
  have hms : maxFeasibleStep A s.B s.attached_dimensions dir ts
      = if limitStep A s.B s.attached_dimensions dir ts < 1 / 1000000 then 0
        else limitStep A s.B s.attached_dimensions dir ts := by
    unfold maxFeasibleStep
    rw [← limitStep_eq_min]
  have h0 : 0 ≤ maxFeasibleStep A s.B s.attached_dimensions dir ts :=
    (step_bound 0 0 _ _ 0 hms (fun h => absurd h (not_le.mpr (ZERO_THRES_pos K)))
      (le_refl _)).1
  have hup : maxFeasibleStep A s.B s.attached_dimensions dir ts ≤ ts := by
    rw [hms]
    split_ifs
    · exact le_of_lt hts
    · exact hle.1
  have hkeep : ∀ j, j < A.length → s.attached_dimensions.getD j 0 = 0 →
      ZERO_THRES K ≤ dot (A.getD j (0, 0, 0)) dir → 0 ≤ s.B.getD j 0 →
      0 ≤ s.B.getD j 0
        - dot (A.getD j (0, 0, 0)) dir * maxFeasibleStep A s.B s.attached_dimensions dir ts := by
    intro j hj ha hden hb
    have hpos : 0 < dot (A.getD j (0, 0, 0)) dir := lt_of_lt_of_le (ZERO_THRES_pos K) hden
    exact (step_bound (s.B.getD j 0) _ _ _ 0 hms (fun _ => hle.2 j hj ha hden) (le_refl _)).2.2 hb
      (fun h => absurd hden (not_le.mpr h.2))
  have hpass : positionPass sqrt A p s =
      if (if limitStep A s.B s.attached_dimensions dir ts < 1 / 1000000 then 0
          else limitStep A s.B s.attached_dimensions dir ts) = ts then
        Flow.ret ⟨vadd s.pos (vscale (if limitStep A s.B s.attached_dimensions dir ts
            < 1 / 1000000 then 0 else limitStep A s.B s.attached_dimensions dir ts) dir),
          s.B, s.attached_dimensions, cs,
          s.steps ++ [(dir, if limitStep A s.B s.attached_dimensions dir ts < 1 / 1000000
            then 0 else limitStep A s.B s.attached_dimensions dir ts)]⟩
      else
        Flow.next ⟨vadd s.pos (vscale (if limitStep A s.B s.attached_dimensions dir ts
            < 1 / 1000000 then 0 else limitStep A s.B s.attached_dimensions dir ts) dir),
          ((List.range A.length).foldl
            (attachStep sqrt A dir (if limitStep A s.B s.attached_dimensions dir ts
              < 1 / 1000000 then 0 else limitStep A s.B s.attached_dimensions dir ts)
              cs.length) ⟨s.B, s.attached_dimensions, cs, 0⟩).B,
          ((List.range A.length).foldl
            (attachStep sqrt A dir (if limitStep A s.B s.attached_dimensions dir ts
              < 1 / 1000000 then 0 else limitStep A s.B s.attached_dimensions dir ts)
              cs.length) ⟨s.B, s.attached_dimensions, cs, 0⟩).attached_dimensions,
          ((List.range A.length).foldl
            (attachStep sqrt A dir (if limitStep A s.B s.attached_dimensions dir ts
              < 1 / 1000000 then 0 else limitStep A s.B s.attached_dimensions dir ts)
              cs.length) ⟨s.B, s.attached_dimensions, cs, 0⟩).constraints,
          s.steps ++ [(dir, if limitStep A s.B s.attached_dimensions dir ts < 1 / 1000000
            then 0 else limitStep A s.B s.attached_dimensions dir ts)]⟩ := by
    unfold positionPass
    simp only [hreach, if_false, hproj]
  rw [← hms] at hpass
  have hspec := attachLoop_spec sqrt A dir (maxFeasibleStep A s.B s.attached_dimensions dir ts)
    cs.length ⟨s.B, s.attached_dimensions, cs, 0⟩ A.length (by simp only; omega)
  generalize maxFeasibleStep A s.B s.attached_dimensions dir ts = ms at *
  by_cases hret : ms = ts
  · rw [if_pos hret] at hpass
    refine ⟨_, Or.inl hpass, rfl, rfl, h0, hup, fun j hj ha hden hb => ⟨hkeep j hj ha hden hb, ?_⟩⟩
    intro hn
    rw [hpass] at hn
    exact Flow.noConfusion hn
  · rw [if_neg hret] at hpass
    refine ⟨_, Or.inr hpass, rfl, rfl, h0, hup, fun j hj ha hden hb => ⟨hkeep j hj ha hden hb, ?_⟩⟩
    intro _
    exact (hspec.2.2.1 j hj).1 ha
theorem side_offset : norm stepSqrt (vsub sideTarget flatStart.pos) = 2 ∧
    vdiv (vsub sideTarget flatStart.pos) 2 = (-1, 0, 0) := by
  have hoff : vsub sideTarget flatStart.pos = (-2, 0, 0) := by
    simp only [sideTarget, flatStart, vsub]
    norm_num
  have hdot : dot ((-2, 0, 0) : Vector3 ℚ) (-2, 0, 0) = 4 := by
    simp only [dot]
    norm_num
  refine ⟨by rw [hoff, norm, hdot, stepSqrt_4], ?_⟩
  rw [hoff]
  simp only [vdiv]
  norm_num

/-- The amended C21 on the flat tetrahedron with the target two units to the side: the first
pass reaches the step computation with the direction `(-1, 0, 0)` and the target step `2`. -/
theorem positionPass_max_step_witness :
    ¬ norm stepSqrt (vsub sideTarget flatStart.pos) < ZERO_THRES ℚ ∧
    projectStep stepSqrt flatStart.constraints
      (vdiv (vsub sideTarget flatStart.pos) (norm stepSqrt (vsub sideTarget flatStart.pos)))
      (norm stepSqrt (vsub sideTarget flatStart.pos)) = some ([], (-1, 0, 0), 2) ∧
    flatStart.B.length = flatA.length ∧
    ∃ s1, (positionPass stepSqrt flatA sideTarget flatStart = Flow.ret s1 ∨
        positionPass stepSqrt flatA sideTarget flatStart = Flow.next s1) ∧
      s1.steps = flatStart.steps ++ [((-1, 0, 0),
        maxFeasibleStep flatA flatStart.B flatStart.attached_dimensions (-1, 0, 0) 2)] ∧
      s1.pos = vadd flatStart.pos (vscale
        (maxFeasibleStep flatA flatStart.B flatStart.attached_dimensions (-1, 0, 0) 2)
        (-1, 0, 0)) ∧
      0 ≤ maxFeasibleStep flatA flatStart.B flatStart.attached_dimensions (-1, 0, 0) 2 ∧
      maxFeasibleStep flatA flatStart.B flatStart.attached_dimensions (-1, 0, 0) 2 ≤ 2 ∧
      ∀ j, j < flatA.length → flatStart.attached_dimensions.getD j 0 = 0 →
        ZERO_THRES ℚ ≤ dot (flatA.getD j (0, 0, 0)) (-1, 0, 0) → 0 ≤ flatStart.B.getD j 0 →
        0 ≤ flatStart.B.getD j 0 - dot (flatA.getD j (0, 0, 0)) (-1, 0, 0)
          * maxFeasibleStep flatA flatStart.B flatStart.attached_dimensions (-1, 0, 0) 2 ∧
        (positionPass stepSqrt flatA sideTarget flatStart = Flow.next s1 →
          s1.B.getD j 0 = flatStart.B.getD j 0 - dot (flatA.getD j (0, 0, 0)) (-1, 0, 0)
            * maxFeasibleStep flatA flatStart.B flatStart.attached_dimensions (-1, 0, 0) 2) := by
  have hreach : ¬ norm stepSqrt (vsub sideTarget flatStart.pos) < ZERO_THRES ℚ := by
    rw [side_offset.1]
    norm_num [ZERO_THRES]
  have hproj : projectStep stepSqrt flatStart.constraints
      (vdiv (vsub sideTarget flatStart.pos) (norm stepSqrt (vsub sideTarget flatStart.pos)))
      (norm stepSqrt (vsub sideTarget flatStart.pos)) = some ([], (-1, 0, 0), 2) := by
    rw [side_offset.1, side_offset.2]
    rfl
  exact ⟨hreach, hproj, rfl,
    positionPass_max_step stepSqrt flatA sideTarget flatStart [] (-1, 0, 0) 2 hreach hproj rfl⟩

/-! ### The update of `B[j]` in binary64 arithmetic -/

theorem roundHalfEven_eq (q : ℚ) (r : Int) (h : |q - r| < 1 / 2) : roundHalfEven q = r := by
  have h1 := abs_lt.mp h
  have hf := Int.floor_le q
  have hf2 := Int.lt_floor_add_one q
  unfold roundHalfEven
  split_ifs with c1 c2 c3
  · have a1 : ((r - 1 : Int) : ℚ) < ((⌊q⌋ : Int) : ℚ) := by push_cast; linarith [h1.1, h1.2]
    have a2 : ((⌊q⌋ : Int) : ℚ) < ((r + 1 : Int) : ℚ) := by push_cast; linarith [h1.1, h1.2]
    have b1 := Int.cast_lt.mp a1
    have b2 := Int.cast_lt.mp a2
    omega
  · have a1 : ((r - 1 : Int) : ℚ) < ((⌊q⌋ + 1 : Int) : ℚ) := by push_cast; linarith [h1.1, h1.2]
    have a2 : ((⌊q⌋ + 1 : Int) : ℚ) < ((r + 1 : Int) : ℚ) := by push_cast; linarith [h1.1, h1.2]
    have b1 := Int.cast_lt.mp a1
    have b2 := Int.cast_lt.mp a2
    omega
  · exfalso
    have e : q - ⌊q⌋ = 1 / 2 := le_antisymm (not_lt.mp c2) (not_lt.mp c1)
    have a1 : ((r - 1 : Int) : ℚ) < ((⌊q⌋ : Int) : ℚ) := by push_cast; linarith [h1.1, h1.2]
    have a2 : ((⌊q⌋ : Int) : ℚ) < ((r : Int) : ℚ) := by linarith [h1.1, h1.2]
    have b1 := Int.cast_lt.mp a1
    have b2 := Int.cast_lt.mp a2
    omega
  · exfalso
    have e : q - ⌊q⌋ = 1 / 2 := le_antisymm (not_lt.mp c2) (not_lt.mp c1)
    have a1 : ((r - 1 : Int) : ℚ) < ((⌊q⌋ : Int) : ℚ) := by push_cast; linarith [h1.1, h1.2]
    have a2 : ((⌊q⌋ : Int) : ℚ) < ((r : Int) : ℚ) := by linarith [h1.1, h1.2]
    have b1 := Int.cast_lt.mp a1
    have b2 := Int.cast_lt.mp a2
    omega

/-- The rounding of `x` with binary exponent `e` to the mantissa `r`. -/
theorem roundDouble_eq (x : ℚ) (e r : Int) (h1 : (2 : ℚ) ^ e ≤ |x|) (h2 : |x| < (2 : ℚ) ^ (e + 1))
    (h3 : |x / 2 ^ (e - 52) - r| < 1 / 2) : roundDouble x = r * 2 ^ (e - 52) := by
  have hpos : 0 < |x| := lt_of_lt_of_le (zpow_pos (by norm_num) e) h1
  have hx : x ≠ 0 := abs_pos.mp hpos
  have hlog : Int.log 2 |x| = e := by
    have a := (Int.zpow_le_iff_le_log (by norm_num : 1 < 2) hpos).mp (by exact_mod_cast h1)
    have b := (Int.lt_zpow_iff_log_lt (by norm_num : 1 < 2) hpos).mp (by exact_mod_cast h2)
    omega
  unfold roundDouble
  rw [if_neg hx, hlog, roundHalfEven_eq _ r h3]

theorem roundDouble_zero : roundDouble 0 = 0 := by
  unfold roundDouble
  rw [if_pos rfl]

theorem double_seven_tenths : roundDouble (7 / 10) = 6305039478318694 / 9007199254740992 := by
  rw [roundDouble_eq (7 / 10) (-1) 6305039478318694 (by norm_num [abs_of_pos])
    (by norm_num [abs_of_pos]) (by norm_num [abs_lt])]
  norm_num

theorem double_three_tenths : roundDouble (3 / 10) = 5404319552844595 / 18014398509481984 := by
  rw [roundDouble_eq (3 / 10) (-2) 5404319552844595 (by norm_num [abs_of_pos])
    (by norm_num [abs_of_pos]) (by norm_num [abs_lt])]
  norm_num

theorem double_slope :
    roundDouble (5404319552844595 / 18014398509481984) = 5404319552844595 / 18014398509481984 := by
  rw [roundDouble_eq (5404319552844595 / 18014398509481984) (-2) 5404319552844595
    (by norm_num [abs_of_pos]) (by norm_num [abs_of_pos]) (by norm_num [abs_lt])]
  norm_num

theorem double_quotient :
    roundDouble (6305039478318694 / 9007199254740992 / (5404319552844595 / 18014398509481984))
      = 5254199565265579 / 2251799813685248 := by
  rw [roundDouble_eq _ 1 5254199565265579 (by norm_num [abs_of_pos])
    (by norm_num [abs_of_pos]) (by norm_num [abs_lt])]
  norm_num

theorem double_product :
    roundDouble (5404319552844595 / 18014398509481984 * (5254199565265579 / 2251799813685248))
      = 6305039478318695 / 9007199254740992 := by
  rw [roundDouble_eq _ (-1) 6305039478318695 (by norm_num [abs_of_pos])
    (by norm_num [abs_of_pos]) (by norm_num [abs_lt])]
  norm_num

theorem double_difference :
    roundDouble (6305039478318694 / 9007199254740992 - 6305039478318695 / 9007199254740992)
      = -1 / 9007199254740992 := by
  rw [roundDouble_eq _ (-53) (-4503599627370496) (by norm_num [abs_of_neg])
    (by norm_num [abs_of_neg]) (by norm_num [abs_lt])]
  norm_num

theorem double_zero_thres :
    roundDouble (ZERO_THRES ℚ) = 4835703278458517 / 4835703278458516698824704 := by
  unfold ZERO_THRES
  rw [roundDouble_eq _ (-30) 4835703278458517 (by norm_num [abs_of_pos])
    (by norm_num [abs_of_pos]) (by norm_num [abs_lt])]
  norm_num

theorem double_micro :
    roundDouble (1 / 1000000) = 4722366482869645 / 4722366482869645213696 := by
  rw [roundDouble_eq _ (-20) 4722366482869645 (by norm_num [abs_of_pos])
    (by norm_num [abs_of_pos]) (by norm_num [abs_lt])]
  norm_num

theorem dotRounded_wall (z : ℚ) :
    dotRounded roundDouble (1, 0, 0) (roundDouble (3 / 10), 0, z)
      = 5404319552844595 / 18014398509481984 := by
  simp only [dotRounded, one_mul, zero_mul, mul_zero, roundDouble_zero, add_zero,
    double_three_tenths, double_slope]

/-- C21, counterexample in binary64 arithmetic: for the single constraint `a = (1, 0, 0)` with
`B[0] = 0.7`, the step direction `(0.3, 0, 0.9539392014169456)` and `tar_step = 10`, the
constraint is not attached, `B[0] >= 0` and `a . tar_dir = 0.3 >= ZERO_THRES`; the applied step
is `max_step = 2.3333333333333335`, and the value stored by `B[0] -= denominator * max_step` is
`0.7 - 0.7000000000000001 = -2^-53`, which is negative. -/
theorem storedRounded_negative :
    0 ≤ roundDouble (7 / 10) ∧
    roundDouble (ZERO_THRES ℚ) ≤ dotRounded roundDouble (1, 0, 0)
      (roundDouble (3 / 10), 0, roundDouble (9539392014169456 / 10000000000000000)) ∧
    maxStepRounded roundDouble [(1, 0, 0)] [roundDouble (7 / 10)] [0]
      (roundDouble (3 / 10), 0, roundDouble (9539392014169456 / 10000000000000000)) 10
      = 5254199565265579 / 2251799813685248 ∧
    storedRounded roundDouble [(1, 0, 0)] [roundDouble (7 / 10)]
      (roundDouble (3 / 10), 0, roundDouble (9539392014169456 / 10000000000000000))
      (maxStepRounded roundDouble [(1, 0, 0)] [roundDouble (7 / 10)] [0]
        (roundDouble (3 / 10), 0, roundDouble (9539392014169456 / 10000000000000000)) 10) 0
      = -1 / 9007199254740992 ∧
    (-1 / 9007199254740992 : ℚ) < 0 := by
  have hstep : maxStepRounded roundDouble [(1, 0, 0)] [roundDouble (7 / 10)] [0]
      (roundDouble (3 / 10), 0, roundDouble (9539392014169456 / 10000000000000000)) 10
      = 5254199565265579 / 2251799813685248 := by
    simp only [maxStepRounded, limitStepRounded, List.length_singleton, List.range_succ,
      List.range_zero, List.nil_append, List.foldl_cons, List.foldl_nil, List.getD_cons_zero, ne_eq, not_true_eq_false, if_false,
      dotRounded_wall, double_zero_thres, double_seven_tenths, double_quotient, double_micro]
    norm_num
  refine ⟨?_, ?_, hstep, ?_, by norm_num⟩
  · rw [double_seven_tenths]; norm_num
  · rw [dotRounded_wall, double_zero_thres]; norm_num
  · rw [hstep]
    simp only [storedRounded, List.getD_cons_zero, dotRounded_wall, double_seven_tenths,
      double_product, double_difference]

theorem limitStepRounded_id {K : Type} [LinearOrderedField K] (A : List (Vector3 K))
    (B : List K) (attached : List Nat) (tar_dir : Vector3 K) (tar_step : K) :
    limitStepRounded id A B attached tar_dir tar_step = limitStep A B attached tar_dir tar_step :=
  rfl

theorem storedRounded_id {K : Type} [LinearOrderedField K] (A : List (Vector3 K))
    (B : List K) (tar_dir : Vector3 K) (max_step : K) (j : Nat) :
    storedRounded id A B tar_dir max_step j
      = B.getD j 0 - dot (A.getD j (0, 0, 0)) tar_dir * max_step :=
  rfl

/-! ## C22: a converged vertex is left in place -/

theorem set_getD_self {α : Type} (l : List α) (v : Nat) (d : α) : l.set v (l.getD v d) = l := by
  by_cases hv : v < l.length
  · rw [List.getD_eq_getElem _ _ hv]
    apply List.ext_getElem
    · simp
    · intro i h1 h2
      by_cases h : v = i
      · subst h; simp
      · simp [List.getElem_set, h]
  · exact List.set_eq_of_length_le (not_lt.mp hv)

/-- C22: when the half-edge arrays are valid (so that the loop over the one-ring of `v`
ends) and the target `p` is closer than `ZERO_THRES` to `out_V_[v]`, `OptimizePosition`
returns with `out_V_.row(v)` as it was and no step applied, so that the array `out_V_` is
unchanged. -/
theorem OptimizePosition_converged {K : Type} [LinearOrderedField K] (sqrt : K → K)
    (m : Projector K) (hval : ValidE2E m.out_F_ (m.num_F_ * 3) m.E2E_)
    (v d0 : Nat) (hd0 : d0 < m.num_F_ * 3) (hget : m.V2E_[v]? = some (d0 : Int))
    (p : Vector3 K) (fuel : Nat) (hfuel : m.num_F_ * 3 ≤ fuel)
    (hconv : norm sqrt (vsub p (m.out_V_.getD v (0, 0, 0))) < ZERO_THRES K) :
    ∃ s, OptimizePosition sqrt fuel m v p = some s ∧ s.pos = m.out_V_.getD v (0, 0, 0) ∧
      s.steps = [] ∧ m.out_V_.set v s.pos = m.out_V_ := by
  have hfold := ringFold_eq hval hd0 (constraintStep sqrt m.out_F_ m.out_V_ m.out_N_) fuel
    hfuel []
  have hAB : ∃ AB, positionConstraints sqrt fuel m v = some AB := by
    unfold positionConstraints
    simp only [hget, hfold]
    exact ⟨_, rfl⟩
  obtain ⟨AB, hAB⟩ := hAB
  refine ⟨_, OptimizePosition_at_target sqrt fuel m v p AB hAB hconv, rfl, rfl, ?_⟩
  exact set_getD_self _ _ _

/-- C22 on the tetrahedron `tetraQ`, vertex `0`, with a target `5e-10` away. -/
theorem OptimizePosition_converged_witness :
    ValidE2E tetraQ.out_F_ (tetraQ.num_F_ * 3) tetraQ.E2E_ ∧ 6 < tetraQ.num_F_ * 3 ∧
    tetraQ.V2E_[0]? = some ((6 : Nat) : Int) ∧ tetraQ.num_F_ * 3 ≤ 12 ∧
    norm tinySqrt (vsub closeTarget (tetraQ.out_V_.getD 0 (0, 0, 0))) < ZERO_THRES ℚ ∧
    ∃ s, OptimizePosition tinySqrt 12 tetraQ 0 closeTarget = some s ∧
      s.pos = tetraQ.out_V_.getD 0 (0, 0, 0) ∧ s.steps = [] ∧
      tetraQ.out_V_.set 0 s.pos = tetraQ.out_V_ := by
  have hconv : norm tinySqrt (vsub closeTarget (tetraQ.out_V_.getD 0 (0, 0, 0)))
      < ZERO_THRES ℚ := by
    have hoff : vsub closeTarget (tetraQ.out_V_.getD 0 (0, 0, 0)) = (0, 0, 1 / 2000000000) := by
      simp only [closeTarget, tetraQ, vsub, List.getD_cons_zero]
      norm_num
    have hdot : dot ((0, 0, 1 / 2000000000) : Vector3 ℚ) (0, 0, 1 / 2000000000)
        = 1 / 2000000000 * (1 / 2000000000) := by
      simp only [dot]
      norm_num
    rw [hoff, norm, hdot]
    norm_num [tinySqrt, sqrtAmong, List.find?, ZERO_THRES]
  exact ⟨tetraQ_manifold.valid, by decide, by decide, by decide, hconv,
    OptimizePosition_converged tinySqrt tetraQ tetraQ_manifold.valid 0 6 (by decide) (by decide)
      closeTarget 12 (by decide) hconv⟩

/-! ## C23: vertex splitting preserves the geometry -/

theorem InfoInv_init (F : List Nat) (n num_V : Nat) :
    InfoInv F n num_V { out_F := F, num_vertices := num_V, insert_vertex_info := [] } :=
  ⟨rfl, rfl, fun e he => by simp at he, fun _ _ => Or.inl rfl⟩

/-- The loop `while (!vlinks[i].empty())` keeps the invariant on `insert_vertex_info`. -/
theorem splitFans_info {F : List Nat} {n num_V : Nat} {E2E : List Int} {i : Nat}
    {st0 : SplitState} (pick : List Int → Int) (hpick : ∀ l, l ≠ [] → pick l ∈ l)
    (hv : ValidE2E F n E2E) (fuel : Nat) (hfuel : n ≤ fuel)
    (h0 : ∀ d, d < n → src F d = i → src st0.out_F d = i) (hi : i < st0.num_vertices)
    (hiV : i < num_V) :
    ∀ w links g st st2, FanInv F n E2E i st0 links g st → InfoInv F n num_V st →
      splitFans pick E2E i fuel w links g st = some st2 → InfoInv F n num_V st2 := by
  intro w
  induction w with
  | zero => intro links g st st2 _ _ h; exact Option.noConfusion h
  | succ w ih =>
    intro links g st st2 inv info h
    unfold splitFans at h
    by_cases hnil : links = []
    · rw [if_pos hnil] at h
      cases h
      exact info
    · rw [if_neg hnil] at h
      have hp := hpick links hnil
      obtain ⟨d, hd, hpd, hsd⟩ := inv.links_sub _ hp
      rw [hpd] at hp h
      obtain ⟨fan, hring, hfnd, hfmem⟩ := ringList_fan hv hd fuel hfuel
      simp only [hring] at h
      obtain ⟨hnd1, hmem1⟩ := foldl_erase_spec (fan.map (fun (x : Nat) => (x : Int))) links
        inv.nodup
      have hsub : ∀ x, x ∈ (fan.map (fun (x : Nat) => (x : Int))).foldl
          (fun a p => a.erase p) links → x ∈ links := fun x hx => ((hmem1 x).mp hx).1
      have h1 : ∀ y : Nat, ((y : Nat) : Int) ∈ (fan.map (fun (x : Nat) => (x : Int))).foldl
          (fun a p => a.erase p) links ↔ ((y : Nat) : Int) ∈ links ∧ ¬ SameFan E2E d y := by
        intro y
        rw [hmem1, mem_map_natCast, hfmem]
      by_cases hg : g = 0
      · subst hg
        simp only [ne_eq, not_true_eq_false, if_false] at h
        exact ih _ 1 st st2 (FanInv_first hv h0 inv hd hp hnd1 hsub h1) info h
      · simp only [ne_eq, hg, not_false_eq_true, if_true] at h
        obtain ⟨F1, hrw, hlen1, hget1⟩ := rewriteCorners_spec st.num_vertices fan st.out_F (by
          intro x hx
          rw [inv.len]
          exact SameFan_lt hv hd ((hfmem x).mp hx))
        simp only [hrw] at h
        have hF1a : ∀ y, SameFan E2E d y → src F1 y = st.num_vertices := by
          intro y hy
          rw [src_eq_getD, hget1, if_pos ((hfmem y).mpr hy)]
        have hF1b : ∀ y, ¬ SameFan E2E d y → src F1 y = src st.out_F y := by
          intro y hy
          rw [src_eq_getD, hget1, if_neg (fun h => hy ((hfmem y).mp h)), ← src_eq_getD]
        refine ih _ (g + 1) _ st2 (FanInv_next hv hi inv (Nat.pos_of_ne_zero hg) hd hp hnd1 hsub
          h1 (hlen1.trans inv.len) hF1a hF1b _) ?_ h
        refine ⟨?_, ?_, ?_, ?_⟩
        · simp only [List.map_append, List.map_cons, List.map_nil, List.length_append,
            List.length_singleton]
          rw [info.firsts, List.range'_concat, info.count]
          simp
        · simp only [List.length_append, List.length_singleton]
          rw [info.count]
          omega
        · intro e he
          rcases List.mem_append.mp he with he | he
          · exact info.seconds e he
          · rw [List.mem_singleton.mp he]
            exact hiV
        · intro y hy
          simp only
          by_cases hf : SameFan E2E d y
          · right
            rw [hF1a y hf, (SameFan_src hv hd hf).trans hsd]
            simp
          · rw [hF1b y hf]
            rcases info.corner y hy with hc | hc
            · exact Or.inl hc
            · exact Or.inr (List.mem_append_left _ hc)

/-- The body of the main loop keeps the invariant on `insert_vertex_info`. -/
theorem splitVertex_info {F : List Nat} {n num_V : Nat} {V2E E2E : List Int}
    (pick : List Int → Int) (hpick : ∀ l, l ≠ [] → pick l ∈ l)
    (hin : SplitInput F n num_V V2E E2E) (fuel : Nat) (hfuel : n < fuel)
    {i : Nat} (hi : i < num_V) {st st2 : SplitState} (inv : SplitInv F n num_V E2E i st)
    (info : InfoInv F n num_V st)
    (h : splitVertex pick V2E E2E (buildVlinks num_V (n / 3) F) fuel st i = some st2) :
    InfoInv F n num_V st2 := by
  have hv := hin.valid
  obtain ⟨d, hd, hV2E, hsd⟩ := hin.v2e i hi
  have hn3 : n / 3 * 3 = n := Nat.div_mul_cancel hv.three
  have hlinks : (buildVlinks num_V (n / 3) F).getD i []
      = (corners F n i).map (fun (x : Nat) => (x : Int)) := by
    rw [buildVlinks_eq_after, hn3]
    exact (vlinksAfter_spec num_V F n hin.src_lt).2 i hi
  obtain ⟨fan, hcnt, hfnd, hfmem⟩ := ringCount_fan hv hd fuel (le_of_lt hfuel)
  have hnv : num_V ≤ st.num_vertices := by rw [inv.count]; omega
  have h0 : ∀ y, y < n → src F y = i → src st.out_F y = i := by
    intro y hy hs
    rw [inv.untouched y hy (by omega), hs]
  unfold splitVertex at h
  simp only [hV2E, hcnt, hlinks, List.length_map] at h
  by_cases hsplit : fan.length = (corners F n i).length
  · simp only [hsplit, ne_eq, not_true_eq_false, if_false] at h
    cases h
    exact info
  · simp only [ne_eq, hsplit, not_false_eq_true, if_true] at h
    have init : FanInv F n E2E i st ((corners F n i).map (fun (x : Nat) => (x : Int))) 0 st := by
      refine ⟨?_, ?_, ?_, inv.len, fun _ _ _ => rfl, ?_, ?_, ?_, ?_, ?_, rfl, ?_⟩
      · exact (corners_nodup F n i).map (fun a b h => by exact_mod_cast h)
      · intro x hx
        obtain ⟨y, hy, rfl⟩ := List.mem_map.mp hx
        exact ⟨y, (mem_corners.mp hy).1, rfl, (mem_corners.mp hy).2⟩
      · intro a b ha hal hab
        rw [mem_map_natCast, mem_corners] at hal ⊢
        exact ⟨SameFan_lt hv ha hab, (SameFan_src hv ha hab).trans hal.2⟩
      · intro y hy hs hn
        exact absurd ((mem_map_natCast _ y).mpr (mem_corners.mpr ⟨hy, hs⟩)) hn
      · intro y y2 hy _ hs _ hn
        exact absurd ((mem_map_natCast _ y).mpr (mem_corners.mpr ⟨hy, hs⟩)) hn
      · intro w h1 h2; omega
      · intro h; omega
      · intro _
        exact ⟨rfl, fun y hy hs => (mem_map_natCast _ y).mpr (mem_corners.mpr ⟨hy, hs⟩)⟩
      · rw [fansIn_corners]; omega
    exact splitFans_info pick hpick hv fuel (le_of_lt hfuel) h0 (by omega) hi fuel _ 0 st st2
      init info h

/-- The main loop of `SplitVertices` returns, with both invariants. -/
theorem splitLoop_info {F : List Nat} {n num_V : Nat} {V2E E2E : List Int}
    (pick : List Int → Int) (hpick : ∀ l, l ≠ [] → pick l ∈ l)
    (hin : SplitInput F n num_V V2E E2E) (fuel : Nat) (hfuel : n < fuel) :
    ∀ i, i ≤ num_V → ∃ st,
      (List.range i).foldlM (splitVertex pick V2E E2E (buildVlinks num_V (n / 3) F) fuel)
        { out_F := F, num_vertices := num_V, insert_vertex_info := [] } = some st ∧
      SplitInv F n num_V E2E i st ∧ InfoInv F n num_V st := by
  intro i
  induction i with
  | zero => intro _; exact ⟨_, rfl, SplitInv_init E2E hin.len, InfoInv_init F n num_V⟩
  | succ i ih =>
    intro hi
    obtain ⟨st, hst, inv, info⟩ := ih (by omega)
    obtain ⟨st2, hst2, inv2⟩ := splitVertex_spec pick hpick hin fuel hfuel (by omega) inv
    refine ⟨st2, ?_, inv2, splitVertex_info pick hpick hin fuel hfuel (by omega) inv info hst2⟩
    rw [List.range_succ, List.foldlM_append, hst]
    simp [hst2]

/-- The copy loop leaves alone every row that is not the target of a copy. -/
theorem copyRows_other {P : Type} (d : P) (w : Nat) :
    ∀ (l : List (Nat × Nat)) (V : List P), w ∉ l.map Prod.fst →
      (l.foldl (fun V p => V.set p.1 (V.getD p.2 d)) V).getD w d = V.getD w d := by
  intro l
  induction l with
  | nil => intro V _; rfl
  | cons a l ih =>
    intro V hw
    simp only [List.map_cons, List.mem_cons, not_or] at hw
    rw [List.foldl_cons, ih _ hw.2, getD_set_ne _ _ _ _ _ (Ne.symm hw.1)]

theorem copyRows_length {P : Type} (d : P) :
    ∀ (l : List (Nat × Nat)) (V : List P),
      (l.foldl (fun V p => V.set p.1 (V.getD p.2 d)) V).length = V.length := by
  intro l
  induction l with
  | nil => intro V; rfl
  | cons a l ih => intro V; rw [List.foldl_cons, ih, List.length_set]

/-- The copy loop makes every recorded fresh row a copy of its original, when the fresh ids
are different from each other and from the originals. -/
theorem copyRows_copy {P : Type} (d : P) :
    ∀ (l : List (Nat × Nat)) (V : List P), (l.map Prod.fst).Nodup →
      (∀ e ∈ l, e.2 ∉ l.map Prod.fst) → (∀ e ∈ l, e.1 < V.length) →
      ∀ e ∈ l, (l.foldl (fun V p => V.set p.1 (V.getD p.2 d)) V).getD e.1 d = V.getD e.2 d := by
  intro l
  induction l with
  | nil => intro V _ _ _ e he; simp at he
  | cons a l ih =>
    intro V hnd hsec hlt e he
    simp only [List.map_cons, List.nodup_cons] at hnd
    rw [List.foldl_cons]
    rcases List.mem_cons.mp he with rfl | he
    · rw [copyRows_other d _ l _ hnd.1, getD_set_eq _ _ _ _ (hlt e (by simp))]
    · have h2 : ∀ x ∈ l, x.2 ∉ l.map Prod.fst := by
        intro x hx hmem
        exact hsec x (List.mem_cons_of_mem _ hx) (by simp only [List.map_cons]; exact List.mem_cons_of_mem _ hmem)
      rw [ih _ hnd.2 h2 (by
        intro x hx
        rw [List.length_set]
        exact hlt x (List.mem_cons_of_mem _ hx)) e he]
      apply getD_set_ne
      intro hEq
      exact hsec e (List.mem_cons_of_mem _ he) (by simp [hEq])

theorem conservativeResize_getD {P : Type} [Inhabited P] (V : List P) (rows w : Nat)
    (hw : w < rows) : (conservativeResize V rows).getD w default = V.getD w default := by
  unfold conservativeResize
  simp only [List.getD_eq_getElem?_getD, List.getElem?_take, hw, if_true]
  by_cases h : w < V.length
  · rw [List.getElem?_append_left h]
  · rw [List.getElem?_append_right (not_lt.mp h)]
    have : V[w]? = none := List.getElem?_eq_none (not_lt.mp h)
    rw [this]
    by_cases h2 : w - V.length < rows - V.length
    · simp [List.getElem?_replicate, h2]
    · simp [List.getElem?_replicate, h2]

/-- C23: on valid half-edge arrays `SplitVertices` returns; `num_F_` and the rows of `out_V_`
below the old `num_V_` are unchanged; for every corner `(f, k)` the position referenced after
the call is the position referenced before; and a corner that was rewritten references a
fresh id, at least the old `num_V_` and below the new one (whose row is therefore a copy of the
row of the original vertex). -/
theorem SplitVertices_geometry {P : Type} [Inhabited P] (m : Mesh P)
    (pick : List Int → Int) (hpick : ∀ l, l ≠ [] → pick l ∈ l)
    (hin : SplitInput m.out_F_ (m.num_F_ * 3) m.num_V_ m.V2E_ m.E2E_)
    (hV : m.out_V_.length = m.num_V_) (fuel : Nat) (hfuel : m.num_F_ * 3 < fuel) :
    ∃ m1, SplitVertices pick fuel m = some m1 ∧ m1.num_F_ = m.num_F_ ∧
      m.num_V_ ≤ m1.num_V_ ∧ m1.out_V_.length = m1.num_V_ ∧
      m1.out_V_.take m.num_V_ = m.out_V_ ∧
      ∀ f k, f < m.num_F_ → k < 3 →
        m1.out_V_.getD (faceAt m1.out_F_ f k) default
          = m.out_V_.getD (faceAt m.out_F_ f k) default ∧
        (faceAt m1.out_F_ f k ≠ faceAt m.out_F_ f k →
          m.num_V_ ≤ faceAt m1.out_F_ f k ∧ faceAt m1.out_F_ f k < m1.num_V_) := by
  obtain ⟨st, hst, inv, info⟩ := splitLoop_info pick hpick hin fuel hfuel m.num_V_ (le_refl _)
  have e : m.num_F_ * 3 / 3 = m.num_F_ := by omega
  rw [e] at hst
  have hnd : (st.insert_vertex_info.map Prod.fst).Nodup := by
    rw [info.firsts]
    exact List.nodup_range' _ _
  have hfst : ∀ x ∈ st.insert_vertex_info.map Prod.fst,
      m.num_V_ ≤ x ∧ x < st.num_vertices := by
    intro x hx
    rw [info.firsts, List.mem_range'_1] at hx
    rw [info.count]
    exact hx
  have hsec : ∀ x ∈ st.insert_vertex_info, x.2 ∉ st.insert_vertex_info.map Prod.fst := by
    intro x hx hmem
    have := info.seconds x hx
    have := (hfst _ hmem).1
    omega
  have hlen : (conservativeResize m.out_V_ st.num_vertices).length = st.num_vertices := by
    simp [conservativeResize]
    have := info.count
    omega
  have hlt : ∀ x ∈ st.insert_vertex_info,
      x.1 < (conservativeResize m.out_V_ st.num_vertices).length := by
    intro x hx
    rw [hlen]
    exact (hfst x.1 (List.mem_map_of_mem _ hx)).2
  have hle : m.num_V_ ≤ st.num_vertices := by rw [info.count]; omega
  have hold : ∀ w, w < m.num_V_ →
      (st.insert_vertex_info.foldl (fun V p => V.set p.1 (V.getD p.2 default))
        (conservativeResize m.out_V_ st.num_vertices)).getD w default
        = m.out_V_.getD w default := by
    intro w hw
    rw [copyRows_other default w _ _ (fun hmem => by have := (hfst w hmem).1; omega),
      conservativeResize_getD _ _ _ (by omega)]
  unfold SplitVertices
  simp only [hst]
  refine ⟨_, rfl, rfl, hle, ?_, ?_, ?_⟩
  · simp only
    rw [copyRows_length, hlen]
  · simp only
    apply List.ext_getElem
    · rw [List.length_take, copyRows_length, hlen, hV]
      omega
    · intro i h1 h2
      have hi : i < m.num_V_ := by rw [← hV]; exact h2
      have := hold i hi
      rw [List.getD_eq_getElem _ _ h2, List.getD_eq_getElem _ _ (by
        rw [copyRows_length, hlen]; omega)] at this
      rw [List.getElem_take]
      exact this
  · intro f k hf hk
    have hd : f * 3 + k < m.num_F_ * 3 := by omega
    have hsrc : ∀ F : List Nat, faceAt F f k = src F (f * 3 + k) := by
      intro F
      unfold src
      congr 1 <;> omega
    simp only
    rw [hsrc, hsrc]
    have hcorner := info.corner (f * 3 + k) hd
    constructor
    · rcases hcorner with hc | hc
      · rw [hc]
        exact hold _ (hin.src_lt _ hd)
      · have := copyRows_copy default st.insert_vertex_info
          (conservativeResize m.out_V_ st.num_vertices) hnd hsec hlt _ hc
        simp only at this
        rw [this, conservativeResize_getD _ _ _ (by
          have := hin.src_lt _ hd
          omega)]
    · intro hne
      rcases hcorner with hc | hc
      · exact absurd hc hne
      · exact hfst _ (List.mem_map_of_mem Prod.fst hc)

theorem bowtieQ_input :
    SplitInput (ComputeHalfEdge bowtieQ).out_F_ ((ComputeHalfEdge bowtieQ).num_F_ * 3)
      (ComputeHalfEdge bowtieQ).num_V_ (ComputeHalfEdge bowtieQ).V2E_
      (ComputeHalfEdge bowtieQ).E2E_ :=
  @halfEdgeLoop_SplitInput bowtieQ.out_F_ 7 8
    ⟨by decide, by decide, by decide, by decide, by decide, by decide, by decide⟩

/-- C23 applied to the bowtie with positions, on the arrays built by `ComputeHalfEdge`. -/
theorem SplitVertices_geometry_witness :
    (∀ l, l ≠ [] → pickHead l ∈ l) ∧
    SplitInput (ComputeHalfEdge bowtieQ).out_F_ ((ComputeHalfEdge bowtieQ).num_F_ * 3)
      (ComputeHalfEdge bowtieQ).num_V_ (ComputeHalfEdge bowtieQ).V2E_
      (ComputeHalfEdge bowtieQ).E2E_ ∧
    (ComputeHalfEdge bowtieQ).out_V_.length = (ComputeHalfEdge bowtieQ).num_V_ ∧
    (ComputeHalfEdge bowtieQ).num_F_ * 3 < 25 ∧
    ∃ m1, SplitVertices pickHead 25 (ComputeHalfEdge bowtieQ) = some m1 ∧
      m1.num_F_ = (ComputeHalfEdge bowtieQ).num_F_ ∧
      (ComputeHalfEdge bowtieQ).num_V_ ≤ m1.num_V_ ∧ m1.out_V_.length = m1.num_V_ ∧
      m1.out_V_.take (ComputeHalfEdge bowtieQ).num_V_ = (ComputeHalfEdge bowtieQ).out_V_ ∧
      ∀ f k, f < (ComputeHalfEdge bowtieQ).num_F_ → k < 3 →
        m1.out_V_.getD (faceAt m1.out_F_ f k) default
          = (ComputeHalfEdge bowtieQ).out_V_.getD
              (faceAt (ComputeHalfEdge bowtieQ).out_F_ f k) default ∧
        (faceAt m1.out_F_ f k ≠ faceAt (ComputeHalfEdge bowtieQ).out_F_ f k →
          (ComputeHalfEdge bowtieQ).num_V_ ≤ faceAt m1.out_F_ f k ∧
          faceAt m1.out_F_ f k < m1.num_V_) :=
  ⟨pickHead_mem, bowtieQ_input, rfl, by decide,
    SplitVertices_geometry (ComputeHalfEdge bowtieQ) pickHead pickHead_mem bowtieQ_input rfl 25
      (by decide)⟩

/-! ## C25: the bound on the colours -/

theorem le_foldl_max (l : List Nat) : ∀ (init x : Nat), (x = init ∨ x ∈ l) →
    x ≤ l.foldl max init := by
  induction l with
  | nil =>
    intro init x h
    rcases h with h | h
    · exact le_of_eq h
    · simp at h
  | cons a l ih =>
    intro init x h
    rw [List.foldl_cons]
    rcases h with h | h
    · have := ih (max init a) (max init a) (Or.inl rfl)
      exact le_trans (by rw [h]; exact le_max_left _ _) this
    · rcases List.mem_cons.mp h with h | h
      · have := ih (max init a) (max init a) (Or.inl rfl)
        exact le_trans (by rw [h]; exact le_max_right _ _) this
      · exact ih _ x (Or.inr h)

theorem degree_le_maxDegree (F : List Nat) (n num_V v : Nat) (hv : v < num_V) :
    (neighbours F n v).length ≤ maxDegree F n num_V := by
  unfold maxDegree
  apply le_foldl_max
  right
  exact List.mem_map.mpr ⟨v, List.mem_range.mpr hv, rfl⟩

/-- When every colour below `k` occurs among the neighbours of `v`, the vertex `v` has at least
`k` distinct neighbours. -/
theorem Witnessed_le {F : List Nat} {n : Nat} {cols : List Int} {v k : Nat}
    (h : Witnessed F n cols v k) : k ≤ (neighbours F n v).length := by
  have hsub : (List.range k).map (fun (c : Nat) => (c : Int))
      ⊆ (neighbours F n v).map (colorOf cols) := by
    intro x hx
    obtain ⟨c, hc, rfl⟩ := List.mem_map.mp hx
    obtain ⟨d, hd, hs, hcol⟩ := h c (List.mem_range.mp hc)
    refine List.mem_map.mpr ⟨dst F d, ?_, hcol⟩
    unfold neighbours
    rw [List.mem_dedup]
    exact List.mem_map.mpr ⟨d, mem_corners.mpr ⟨hd, hs⟩, rfl⟩
  have hnd : ((List.range k).map (fun (c : Nat) => (c : Int))).Nodup :=
    (List.nodup_range k).map (fun a b h => by exact_mod_cast h)
  have := (List.subperm_of_subset hnd hsub).length_le
  simpa using this

theorem Witnessed_set {F : List Nat} {n : Nat} {cols : List Int} {v k i : Nat} (c : Int)
    (hi : i < cols.length) (hc : colorOf cols i = -1) (h : Witnessed F n cols v k) :
    Witnessed F n (cols.set i c) v k := by
  intro c2 hc2
  obtain ⟨d, hd, hs, hcol⟩ := h c2 hc2
  refine ⟨d, hd, hs, ?_⟩
  rw [colorOf_set _ _ _ _ hi]
  have hne : ¬ dst F d = i := by
    intro e
    rw [e, hc] at hcol
    omega
  rw [if_neg hne]
  exact hcol

/-- The body of the `for` loop keeps the invariant of the greedy choice. -/
theorem colorVertex_greedy {F : List Nat} {n num_V : Nat} {V2E E2E : List Int}
    (hm : ManifoldMesh F n num_V V2E E2E) (random_shuffle : List Nat → List Nat)
    (fuel : Nat) (hfuel : n ≤ fuel)
    {g marked0 i : Nat} {cols0 : List Int} (h0 : ∀ v, colorOf cols0 v ≠ (g : Int))
    (hi : i < num_V) {s s2 : ColorState} (inv : RoundInv F n num_V g cols0 marked0 i s)
    (gi : GreedyInv F n num_V g i cols0 s.vertex_colors)
    (h : colorVertex random_shuffle F V2E E2E fuel s i = some s2) :
    GreedyInv F n num_V g (i + 1) cols0 s2.vertex_colors := by
  have hv := hm.valid
  have hlen := inv.inv.len
  have hil : i < s.vertex_colors.length := by rw [hlen]; exact hi
  unfold colorVertex at h
  rw [colorOf_get hil] at h
  simp only at h
  by_cases hc : colorOf s.vertex_colors i = -1
  · have hc0 : colorOf cols0 i = -1 := by rw [← inv.later i (le_refl _)]; exact hc
    obtain ⟨d0, hd0, hget, hs0, hall⟩ := ManifoldMesh_ring hm hi
    obtain ⟨b, hb, hiff⟩ := conflictLoop_spec hv hm.len hm.src_lt s.vertex_colors hlen g hd0
      fuel hfuel
    rw [inv.gid] at h
    simp only [hc, ne_eq, not_true_eq_false, if_false, hget, hb] at h
    cases b with
    | true =>
      simp only [Bool.true_eq_false, if_false] at h
      cases h
      have hexg : ∃ x, SameFan E2E d0 x ∧ colorOf s.vertex_colors (dst F x) = (g : Int) :=
        hiff.mp rfl
      refine ⟨gi.colored, gi.free, ?_, ?_, gi.keep⟩
      · intro v hv1 hv2 hcol
        rcases Nat.lt_succ_iff_lt_or_eq.mp hv1 with hlt | heq
        · exact gi.blocked v hlt hv2 hcol
        · subst heq
          obtain ⟨x, hx, hxc⟩ := hexg
          exact ⟨x, SameFan_lt hv hd0 hx, (SameFan_src hv hd0 hx).trans hs0, hxc⟩
      · intro v hv1 hcol hbefore
        rcases Nat.lt_succ_iff_lt_or_eq.mp hv1 with hlt | heq
        · exact gi.first v hlt hcol hbefore
        · subst heq
          have hs := (inv.same hbefore).1
          obtain ⟨x, _, hx⟩ := hexg
          rw [hs] at hx
          exact absurd hx (h0 _)
    | false =>
      simp only [if_true] at h
      cases h
      simp only
      refine ⟨?_, ?_, ?_, ?_, ?_⟩
      · intro v c hv1 hcol
        rw [colorOf_set _ _ _ _ hil] at hcol
        by_cases hvi : v = i
        · rw [if_pos hvi] at hcol
          have hcg : c = g := by exact_mod_cast hcol.symm
          rw [hvi, hcg]
          exact Witnessed_set _ hil hc (gi.free i hi hc)
        · rw [if_neg hvi] at hcol
          exact Witnessed_set _ hil hc (gi.colored v c hv1 hcol)
      · intro v hv1 hcol
        rw [colorOf_set _ _ _ _ hil] at hcol
        by_cases hvi : v = i
        · rw [if_pos hvi] at hcol
          omega
        · rw [if_neg hvi] at hcol
          exact Witnessed_set _ hil hc (gi.free v hv1 hcol)
      · intro v hv1 hv2 hcol
        rw [colorOf_set _ _ _ _ hil] at hcol
        by_cases hvi : v = i
        · rw [if_pos hvi] at hcol
          omega
        · rw [if_neg hvi] at hcol
          obtain ⟨d, hd, hs, hcd⟩ := gi.blocked v (by omega) hv2 hcol
          refine ⟨d, hd, hs, ?_⟩
          rw [colorOf_set _ _ _ _ hil]
          have hne : ¬ dst F d = i := by
            intro e
            rw [e, hc] at hcd
            omega
          rw [if_neg hne]
          exact hcd
      · intro v hv1 hcol hbefore
        rw [colorOf_set _ _ _ _ hil]
        by_cases hvi : v = i
        · rw [if_pos hvi]
        · rw [if_neg hvi]
          exact gi.first v (by omega) hcol hbefore
      · intro v hcol
        rw [colorOf_set _ _ _ _ hil]
        have hvi : ¬ v = i := by
          intro e
          rw [e] at hcol
          exact hcol hc0
        rw [if_neg hvi]
        exact gi.keep v hcol
  · have hc0 : colorOf cols0 i ≠ -1 := by rw [← inv.later i (le_refl _)]; exact hc
    simp only [ne_eq, hc, not_false_eq_true, if_true] at h
    cases h
    refine ⟨gi.colored, gi.free, ?_, ?_, gi.keep⟩
    · intro v hv1 hv2 hcol
      rcases Nat.lt_succ_iff_lt_or_eq.mp hv1 with hlt | heq
      · exact gi.blocked v hlt hv2 hcol
      · subst heq
        exact absurd hcol hc
    · intro v hv1 hcol hbefore
      rcases Nat.lt_succ_iff_lt_or_eq.mp hv1 with hlt | heq
      · exact gi.first v hlt hcol hbefore
      · subst heq
        exact absurd hcol hc0

/-- One scan over all vertices keeps both round invariants. -/
theorem colorScan_greedy {F : List Nat} {n num_V : Nat} {V2E E2E : List Int}
    (hm : ManifoldMesh F n num_V V2E E2E) (random_shuffle : List Nat → List Nat)
    (hsh : ∀ l, (random_shuffle l).Perm l) (fuel : Nat) (hfuel : n ≤ fuel)
    {g marked0 : Nat} {cols0 : List Int} (h0 : ∀ v, colorOf cols0 v ≠ (g : Int))
    {s : ColorState} (inv : RoundInv F n num_V g cols0 marked0 0 s)
    (gi : GreedyInv F n num_V g 0 cols0 s.vertex_colors) :
    ∀ i, i ≤ num_V → ∃ s2,
      (List.range i).foldlM (colorVertex random_shuffle F V2E E2E fuel) s = some s2 ∧
      RoundInv F n num_V g cols0 marked0 i s2 ∧
      GreedyInv F n num_V g i cols0 s2.vertex_colors := by
  intro i
  induction i with
  | zero => intro _; exact ⟨s, rfl, inv, gi⟩
  | succ i ih =>
    intro hi
    obtain ⟨s1, hs1, inv1, gi1⟩ := ih (by omega)
    obtain ⟨s2, hs2, inv2⟩ := colorVertex_spec hm random_shuffle hsh fuel hfuel h0 (by omega) inv1
    refine ⟨s2, ?_, inv2,
      colorVertex_greedy hm random_shuffle fuel hfuel h0 (by omega) inv1 gi1 hs2⟩
    rw [List.range_succ, List.foldlM_append, hs1]
    simp [hs2]

/-- The loop `while (marked_vertices < num_V_)` ends with every vertex coloured and keeps the
invariant of the greedy choice. -/
theorem colorRounds_greedy {F : List Nat} {n num_V : Nat} {V2E E2E : List Int}
    (hm : ManifoldMesh F n num_V V2E E2E) (random_shuffle : List Nat → List Nat)
    (hsh : ∀ l, (random_shuffle l).Perm l) (fuel : Nat) (hfuel : n ≤ fuel) :
    ∀ r s, num_V < r + s.marked_vertices →
      ColorInv F n num_V s.group_id s.vertex_colors s.marked_vertices →
      (∀ grp ∈ s.vertex_groups_, grp.length ≤ 1) → RoundsInv F n num_V s →
      ∃ s2, colorRounds random_shuffle num_V F V2E E2E fuel r s = some s2 ∧
        ColorInv F n num_V s2.group_id s2.vertex_colors s2.marked_vertices ∧
        num_V ≤ s2.marked_vertices ∧ RoundsInv F n num_V s2 := by
  intro r
  induction r with
  | zero =>
    intro s hr inv _ _
    have hle : s.marked_vertices ≤ num_V := by
      rw [inv.marked, ← inv.len]; exact List.length_filter_le _ _
    omega
  | succ r ih =>
    intro s hr inv hgrp ri
    unfold colorRounds
    by_cases hlt : s.marked_vertices < num_V
    · rw [if_pos hlt]
      have h0 : ∀ v, colorOf s.vertex_colors v ≠ (s.group_id : Int) := by
        intro v
        by_cases hv : v < num_V
        · rcases inv.range v hv with h | h <;> omega
        · rw [colorOf_of_ge _ _ (by rw [inv.len]; omega)]; omega
      have init : RoundInv F n num_V s.group_id s.vertex_colors s.marked_vertices 0 s :=
        { inv := ⟨inv.len, fun v hv => by
                    rcases inv.range v hv with h | h
                    · exact Or.inl h
                    · right; omega, inv.proper, inv.marked⟩
          gid := rfl
          later := fun _ _ => rfl
          same := fun _ => ⟨rfl, rfl⟩
          more := fun ⟨v, hv, _⟩ => absurd hv (Nat.not_lt_zero _)
          mono := le_refl _
          groups := hgrp }
      have ginit : GreedyInv F n num_V s.group_id 0 s.vertex_colors s.vertex_colors :=
        ⟨ri.colored, ri.free, fun v hv => absurd hv (Nat.not_lt_zero _),
          fun v hv => absurd hv (Nat.not_lt_zero _), fun _ _ => rfl⟩
      obtain ⟨s1, hs1, inv1, gi1⟩ := colorScan_greedy hm random_shuffle hsh fuel hfuel h0 init
        ginit num_V (le_refl _)
      rw [inv.len]
      simp only [hs1]
      have hun : ∃ v, v < num_V ∧ colorOf s.vertex_colors v = -1 := by
        have := exists_uncolored s.vertex_colors (by rw [← inv.marked, inv.len]; exact hlt)
        rw [inv.len] at this
        exact this
      have hmore := inv1.more hun
      apply ih
      · simp only; omega
      · simp only [inv1.gid]; exact inv1.inv
      · exact inv1.groups
      · have hgid := inv1.gid
        refine ⟨gi1.colored, ?_, ?_, ?_⟩
        · intro v hv hcol c hc
          simp only [hgid] at hc
          rcases Nat.lt_succ_iff_lt_or_eq.mp hc with hlt2 | heq
          · exact gi1.free v hv hcol c hlt2
          · rw [heq]
            exact gi1.blocked v hv hv hcol
        · simp only [hgid]
          obtain ⟨v, hv, hcol⟩ := hun
          have h1 := Witnessed_le (ri.free v hv hcol)
          have h2 := degree_le_maxDegree F n num_V v hv
          omega
        · intro g hg
          simp only [hgid] at hg
          rcases Nat.lt_succ_iff_lt_or_eq.mp hg with hlt2 | heq
          · obtain ⟨v, hv, hcol, hbefore⟩ := ri.firsts g hlt2
            have hne : colorOf s.vertex_colors v ≠ -1 := by rw [hcol]; omega
            refine ⟨v, hv, by rw [gi1.keep v hne]; exact hcol, ?_⟩
            intro u hu
            have hu2 := hbefore u hu
            have hne2 : colorOf s.vertex_colors u ≠ -1 := by omega
            rw [gi1.keep u hne2]
            exact hu2
          · subst heq
            classical
            have hex : ∃ v, v < num_V ∧ colorOf s.vertex_colors v = -1 := hun
            refine ⟨Nat.find hex, (Nat.find_spec hex).1, ?_, ?_⟩
            · apply gi1.first _ (Nat.find_spec hex).1 (Nat.find_spec hex).2
              intro u hu hcu
              exact Nat.find_min hex hu ⟨lt_trans hu (Nat.find_spec hex).1, hcu⟩
            · intro u hu
              have hun2 : ¬ (u < num_V ∧ colorOf s.vertex_colors u = -1) := Nat.find_min hex hu
              have hu1 : u < num_V := lt_trans hu (Nat.find_spec hex).1
              have hne2 : colorOf s.vertex_colors u ≠ -1 := fun e => hun2 ⟨hu1, e⟩
              rw [gi1.keep u hne2]
              rcases inv.range u hu1 with h | h
              · exact absurd h hne2
              · exact h
    · rw [if_neg hlt]
      exact ⟨s, rfl, inv, by omega, ri⟩

/-- C25: on a closed manifold mesh with valid `V2E_`/`E2E_`, `ComputeIndependentSet` returns;
every vertex receives a colour index that is at most the number of its distinct one-ring
neighbours; the number of rounds of the outer loop (the final `group_id`) is at most the
maximum vertex degree plus one; and in every round `g` that was run the first vertex in scan
order that had no colour before the round (all vertices before it have colours below `g`)
receives the colour `g`. -/
theorem ComputeIndependentSet_color_bound {P : Type} (m : Mesh P)
    (hm : ManifoldMesh m.out_F_ (m.num_F_ * 3) m.num_V_ m.V2E_ m.E2E_)
    (random_shuffle : List Nat → List Nat) (hsh : ∀ l, (random_shuffle l).Perm l)
    (fuel : Nat) (hfuel : m.num_F_ * 3 ≤ fuel) (hfuelV : m.num_V_ < fuel) :
    ∃ s, ComputeIndependentSet random_shuffle fuel m = some s ∧
      (∀ v, v < m.num_V_ → ∃ c : Nat, colorOf s.vertex_colors v = (c : Int) ∧
        c ≤ (neighbours m.out_F_ (m.num_F_ * 3) v).length ∧ c < s.group_id) ∧
      s.group_id ≤ maxDegree m.out_F_ (m.num_F_ * 3) m.num_V_ + 1 ∧
      ∀ g, g < s.group_id → ∃ v, v < m.num_V_ ∧ colorOf s.vertex_colors v = ((g : Nat) : Int) ∧
        ∀ u, u < v → 0 ≤ colorOf s.vertex_colors u ∧
          colorOf s.vertex_colors u < ((g : Nat) : Int) := by
  have hcol : ∀ v, colorOf (List.replicate m.num_V_ (-1 : Int)) v = -1 := by
    intro v
    simp only [colorOf, List.getD_eq_getElem?_getD, List.getElem?_replicate]
    by_cases h : v < m.num_V_ <;> simp [h]
  have init : ColorInv m.out_F_ (m.num_F_ * 3) m.num_V_ 0 (List.replicate m.num_V_ (-1)) 0 := by
    refine ⟨by simp, fun v _ => Or.inl (hcol v), ?_, ?_⟩
    · intro d _ _ hc; exact absurd (hcol _) hc
    · simp
  have rinit : RoundsInv m.out_F_ (m.num_F_ * 3) m.num_V_
      { marked_vertices := 0, group_id := 0, vertex_colors := List.replicate m.num_V_ (-1),
        vertex_groups_ := [] } := by
    refine ⟨?_, ?_, Nat.zero_le _, ?_⟩
    · intro v c _ h
      simp only [hcol] at h
      omega
    · intro v _ _ c hc
      exact absurd hc (Nat.not_lt_zero _)
    · intro g hg
      exact absurd hg (Nat.not_lt_zero _)
  obtain ⟨s, hs, inv, hall, ri⟩ := colorRounds_greedy hm random_shuffle hsh fuel hfuel fuel
    { marked_vertices := 0, group_id := 0, vertex_colors := List.replicate m.num_V_ (-1),
      vertex_groups_ := [] }
    (by simp only; omega) init (by simp) rinit
  have hcolored : ∀ v, v < m.num_V_ → colorOf s.vertex_colors v ≠ -1 := by
    have := all_colored s.vertex_colors (by rw [← inv.marked, inv.len]; exact hall)
    rw [inv.len] at this
    exact this
  refine ⟨s, hs, ?_, ri.rounds, ri.firsts⟩
  intro v hv
  rcases inv.range v hv with h | h
  · exact absurd h (hcolored v hv)
  · obtain ⟨c, hc⟩ := Int.eq_ofNat_of_zero_le h.1
    refine ⟨c, hc, Witnessed_le (ri.colored v c hv hc), ?_⟩
    have := h.2
    rw [hc] at this
    exact_mod_cast this

/-- C25 applied to the octahedron, with the reversal as `random_shuffle`. -/
theorem ComputeIndependentSet_color_bound_witness :
    ManifoldMesh octaHE.out_F_ (octaHE.num_F_ * 3) octaHE.num_V_ octaHE.V2E_ octaHE.E2E_ ∧
    (∀ l : List Nat, (List.reverse l).Perm l) ∧ octaHE.num_F_ * 3 ≤ 25 ∧ octaHE.num_V_ < 25 ∧
    ∃ s, ComputeIndependentSet List.reverse 25 octaHE = some s ∧
      (∀ v, v < octaHE.num_V_ → ∃ c : Nat, colorOf s.vertex_colors v = (c : Int) ∧
        c ≤ (neighbours octaHE.out_F_ (octaHE.num_F_ * 3) v).length ∧ c < s.group_id) ∧
      s.group_id ≤ maxDegree octaHE.out_F_ (octaHE.num_F_ * 3) octaHE.num_V_ + 1 ∧
      ∀ g, g < s.group_id → ∃ v, v < octaHE.num_V_ ∧
        colorOf s.vertex_colors v = ((g : Nat) : Int) ∧
        ∀ u, u < v → 0 ≤ colorOf s.vertex_colors u ∧
          colorOf s.vertex_colors u < ((g : Nat) : Int) :=
  ⟨octaHE_manifold, fun l => List.reverse_perm l, by decide, by decide,
    ComputeIndependentSet_color_bound octaHE octaHE_manifold List.reverse
      (fun l => List.reverse_perm l) 25 (by decide) (by decide)⟩

/-! ## C24: the position solver does not move away from its target -/

theorem dot_self_nonneg {K : Type} [LinearOrderedField K] (a : Vector3 K) : 0 ≤ dot a a := by
  unfold dot
  nlinarith [mul_self_nonneg a.1, mul_self_nonneg a.2.1, mul_self_nonneg a.2.2]

theorem dot_eq_zero_of_self {K : Type} [LinearOrderedField K] (a b : Vector3 K)
    (h : dot a a = 0) : dot a b = 0 := by
  unfold dot at h ⊢
  have h1 : a.1 = 0 := by
    nlinarith [mul_self_nonneg a.1, mul_self_nonneg a.2.1, mul_self_nonneg a.2.2]
  have h2 : a.2.1 = 0 := by
    nlinarith [mul_self_nonneg a.1, mul_self_nonneg a.2.1, mul_self_nonneg a.2.2]
  have h3 : a.2.2 = 0 := by
    nlinarith [mul_self_nonneg a.1, mul_self_nonneg a.2.1, mul_self_nonneg a.2.2]
  rw [h1, h2, h3]
  ring

theorem dot_vdiv_vdiv {K : Type} [LinearOrderedField K] (a b : Vector3 K) (s r : K) :
    dot (vdiv a s) (vdiv b r) = dot a b / (s * r) := by
  unfold dot vdiv
  simp only
  by_cases hs : s = 0
  · simp [hs]
  · by_cases hr : r = 0
    · simp [hr]
    · field_simp

theorem dot_vdiv_left {K : Type} [LinearOrderedField K] (a b : Vector3 K) (s : K) :
    dot (vdiv a s) b = dot a b / s := by
  unfold dot vdiv
  simp only
  by_cases hs : s = 0
  · simp [hs]
  · field_simp

theorem dot_cross_left {K : Type} [LinearOrderedField K] (a b : Vector3 K) :
    dot a (cross a b) = 0 := by
  unfold dot cross
  simp only
  ring

theorem dot_cross_right {K : Type} [LinearOrderedField K] (a b : Vector3 K) :
    dot b (cross a b) = 0 := by
  unfold dot cross
  simp only
  ring

theorem dot_vneg_right {K : Type} [LinearOrderedField K] (a b : Vector3 K) :
    dot a (vneg b) = -dot a b := by
  unfold dot vneg
  simp only
  ring

theorem dot_vscale_vscale {K : Type} [LinearOrderedField K] (a b : Vector3 K) (x y : K) :
    dot (vscale x a) (vscale y b) = x * y * dot a b := by
  unfold dot vscale
  simp only
  ring

theorem norm_mul_self {K : Type} [LinearOrderedField K] (sqrt : K → K)
    (hsqrt : ∀ x, 0 ≤ x → 0 ≤ sqrt x ∧ sqrt x * sqrt x = x) (a : Vector3 K) :
    0 ≤ norm sqrt a ∧ norm sqrt a * norm sqrt a = dot a a :=
  hsqrt _ (dot_self_nonneg a)

theorem sqrt_le_sqrt {K : Type} [LinearOrderedField K] (sqrt : K → K)
    (hsqrt : ∀ x, 0 ≤ x → 0 ≤ sqrt x ∧ sqrt x * sqrt x = x) (x y : K) (hx : 0 ≤ x)
    (hxy : x ≤ y) : sqrt x ≤ sqrt y := by
  obtain ⟨a1, a2⟩ := hsqrt x hx
  obtain ⟨b1, b2⟩ := hsqrt y (le_trans hx hxy)
  by_contra h
  have h' := not_le.mp h
  nlinarith

/-- Dividing a vector by its norm gives a unit vector, when the norm is not zero. -/
theorem unit_vdiv_norm {K : Type} [LinearOrderedField K] (sqrt : K → K)
    (hsqrt : ∀ x, 0 ≤ x → 0 ≤ sqrt x ∧ sqrt x * sqrt x = x) (a : Vector3 K)
    (h : 0 < norm sqrt a) : dot (vdiv a (norm sqrt a)) (vdiv a (norm sqrt a)) = 1 := by
  rw [dot_vdiv_vdiv, (norm_mul_self sqrt hsqrt a).2]
  have := (norm_mul_self sqrt hsqrt a).2
  have hpos : 0 < dot a a := by rw [← this]; exact mul_pos h h
  exact div_self (ne_of_gt hpos)

/-- `normalized` returns a unit vector or a vector of squared norm zero. -/
theorem normalized_unit {K : Type} [LinearOrderedField K] (sqrt : K → K)
    (hsqrt : ∀ x, 0 ≤ x → 0 ≤ sqrt x ∧ sqrt x * sqrt x = x) (a : Vector3 K) :
    dot (normalized sqrt a) (normalized sqrt a) = 1 ∨
      dot (normalized sqrt a) (normalized sqrt a) = 0 := by
  unfold normalized
  by_cases h : 0 < dot a a
  · rw [if_pos h]
    left
    rw [dot_vdiv_vdiv, (hsqrt _ (le_of_lt h)).2]
    exact div_self (ne_of_gt h)
  · rw [if_neg h]
    right
    exact le_antisymm (not_lt.mp h) (dot_self_nonneg a)

theorem projectStep_geom {K : Type} [LinearOrderedField K] (sqrt : K → K)
    (hsqrt : ∀ x, 0 ≤ x → 0 ≤ sqrt x ∧ sqrt x * sqrt x = x)
    (cs : List (Vector3 K)) (t : Vector3 K) (ts0 : K)
    (r : List (Vector3 K) × Vector3 K × K)
    (h : projectStep sqrt cs t ts0 = some r)
    (hlen : cs.length ≤ 3) (hunit : ∀ c ∈ cs, dot c c = 1) (ht : dot t t = 1) :
    dot r.2.1 r.2.1 = 1 ∧ (∀ c ∈ r.1, c ∈ cs) ∧
    ∃ n, 0 ≤ n ∧ r.2.2 = ts0 * n ∧ dot r.2.1 t = n := by
  have hz := ZERO_THRES_pos K
  unfold projectStep at h
  cases hlast : cs.getLast? with
  | none =>
    rw [hlast] at h
    simp only at h
    cases h
    exact ⟨ht, fun c hc => hc, 1, zero_le_one, (mul_one _).symm, ht⟩
  | some c =>
    rw [hlast] at h
    simp only at h
    have hc : dot c c = 1 := hunit c (List.mem_of_getLast?_eq_some hlast)
    have key1 : dot (vsub t (vscale (dot t c) c)) t
        = dot (vsub t (vscale (dot t c) c)) (vsub t (vscale (dot t c) c)) := by
      have e1 : dot (vsub t (vscale (dot t c) c)) t = dot t t - dot t c * dot t c := by
        unfold dot vsub vscale
        simp only
        ring
      have e2 : dot (vsub t (vscale (dot t c) c)) (vsub t (vscale (dot t c) c))
          = dot t t - 2 * (dot t c * dot t c) + dot t c * dot t c * dot c c := by
        unfold dot vsub vscale
        simp only
        ring
      rw [e1, e2, hc]
      ring
    obtain ⟨hn0, hnn⟩ := norm_mul_self sqrt hsqrt (vsub t (vscale (dot t c) c))
    generalize ht1 : vsub t (vscale (dot t c) c) = t1 at h key1 hn0 hnn
    by_cases hn1 : norm sqrt t1 < ZERO_THRES K
    · rw [if_pos hn1] at h
      exact Option.noConfusion h
    rw [if_neg hn1] at h
    have hpos1 : 0 < norm sqrt t1 := lt_of_lt_of_le hz (not_lt.mp hn1)
    have hu1 : dot (vdiv t1 (norm sqrt t1)) (vdiv t1 (norm sqrt t1)) = 1 :=
      unit_vdiv_norm sqrt hsqrt t1 hpos1
    have hd1 : dot (vdiv t1 (norm sqrt t1)) t = norm sqrt t1 := by
      rw [dot_vdiv_left, key1, ← hnn]
      field_simp
    generalize hu1def : vdiv t1 (norm sqrt t1) = u1 at h hu1 hd1
    by_cases hB3 : (boundaryOf cs u1).length = 3
    · rw [if_pos hB3] at h
      exact Option.noConfusion h
    rw [if_neg hB3] at h
    have hsubset : ∀ (d : Vector3 K), ∀ x ∈ boundaryOf cs d, x ∈ cs :=
      fun d x hx => List.mem_of_mem_filter hx
    by_cases hB2 : (boundaryOf cs u1).length = 2
    · simp only [hB2, if_true] at h
      have hB : boundaryOf cs u1
          = [(boundaryOf cs u1).getD 0 (0, 0, 0), (boundaryOf cs u1).getD 1 (0, 0, 0)] := by
        match hBl : boundaryOf cs u1, hB2 with
        | [a, b], _ => rfl
      generalize hb0 : (boundaryOf cs u1).getD 0 (0, 0, 0) = b0 at h hB
      generalize hb1 : (boundaryOf cs u1).getD 1 (0, 0, 0) = b1 at h hB
      have hx : dot b0 (if dot (cross b0 b1) t < 0 then vneg (cross b0 b1) else cross b0 b1) = 0 ∧
          dot b1 (if dot (cross b0 b1) t < 0 then vneg (cross b0 b1) else cross b0 b1) = 0 := by
        split_ifs
        · rw [dot_vneg_right, dot_vneg_right, dot_cross_left, dot_cross_right]
          simp
        · exact ⟨dot_cross_left _ _, dot_cross_right _ _⟩
      generalize (if dot (cross b0 b1) t < 0 then vneg (cross b0 b1) else cross b0 b1) = x
        at h hx
      by_cases hn2 : norm sqrt x < ZERO_THRES K
      · simp only [hn2, if_true] at h
        exact Option.noConfusion h
      simp only [hn2, if_false] at h
      have hu2 : dot b0 (vdiv x (norm sqrt x)) = 0 ∧ dot b1 (vdiv x (norm sqrt x)) = 0 := by
        rw [dot_comm b0, dot_comm b1, dot_vdiv_left, dot_vdiv_left, dot_comm x b0, dot_comm x b1,
          hx.1, hx.2]
        simp
      generalize vdiv x (norm sqrt x) = u2 at h hu2
      by_cases hK3 : (boundaryOf cs u2).length = 3
      · simp only [hK3, if_true] at h
        exact Option.noConfusion h
      simp only [hK3, if_false] at h
      have hK2 : (boundaryOf cs u2).length = 2 := by
        have h1 : (boundaryOf cs u1).filter (fun c => decide (-(1 / 1000 : K) < dot c u2))
            = boundaryOf cs u1 := by
          rw [List.filter_eq_self]
          intro a ha
          rw [hB] at ha
          rcases List.mem_cons.mp ha with e | e
          · rw [e, hu2.1]; simp
          · rw [List.mem_singleton.mp e, hu2.2]; simp
        have h2 : ((boundaryOf cs u1).filter (fun c => decide (-(1 / 1000 : K) < dot c u2))).length
            ≤ (boundaryOf cs u2).length :=
          (List.Sublist.filter _ (List.filter_sublist cs)).length_le
        rw [h1, hB2] at h2
        have h3 := boundaryOf_length cs u2
        omega
      simp only [hK2, if_true] at h
      have hd3 := normalized_unit sqrt hsqrt
        (cross ((boundaryOf cs u2).getD 0 (0, 0, 0)) ((boundaryOf cs u2).getD 1 (0, 0, 0)))
      generalize normalized sqrt
        (cross ((boundaryOf cs u2).getD 0 (0, 0, 0)) ((boundaryOf cs u2).getD 1 (0, 0, 0))) = d3
        at h hd3
      obtain ⟨hm0, hmm⟩ := norm_mul_self sqrt hsqrt (vscale (dot t d3) d3)
      rw [dot_vscale_vscale] at hmm
      by_cases hn3 : norm sqrt (vscale (dot t d3) d3) < ZERO_THRES K
      · rw [if_pos hn3] at h
        exact Option.noConfusion h
      rw [if_neg hn3] at h
      cases h
      have hpos3 : 0 < norm sqrt (vscale (dot t d3) d3) := lt_of_lt_of_le hz (not_lt.mp hn3)
      have hd3u : dot d3 d3 = 1 := by
        rcases hd3 with e | e
        · exact e
        · rw [e, mul_zero] at hmm
          have : norm sqrt (vscale (dot t d3) d3) = 0 := by
            rcases mul_self_eq_zero.mp hmm with e2
            exact e2
          rw [this] at hpos3
          exact absurd hpos3 (lt_irrefl _)
      rw [hd3u, mul_one] at hmm
      refine ⟨unit_vdiv_norm sqrt hsqrt _ hpos3, hsubset u2, _, hm0, rfl, ?_⟩
      simp only
      rw [dot_vdiv_left]
      have e : dot (vscale (dot t d3) d3) t = dot t d3 * dot t d3 := by
        unfold dot vscale
        simp only
        ring
      rw [e, ← hmm]
      field_simp
    · simp only [hB2, if_false] at h
      rw [if_neg hB3] at h
      cases h
      exact ⟨hu1, hsubset u1, _, hn0, rfl, hd1⟩

theorem attachStep_constraints {K : Type} [LinearOrderedField K] (sqrt : K → K)
    (A : List (Vector3 K)) (tar_dir : Vector3 K) (max_step : K) (csize : Nat)
    (s : AttachState K) (j : Nat) :
    ∀ c ∈ (attachStep sqrt A tar_dir max_step csize s j).constraints,
      c ∈ s.constraints ∨
        (c = A.getD j (0, 0, 0) ∧ ZERO_THRES K ≤ dot (A.getD j (0, 0, 0)) tar_dir) := by
  intro c hc
  unfold attachStep at hc
  by_cases hatt : s.attached_dimensions.getD j 0 = 0
  · simp only [hatt, ne_eq, not_true_eq_false, if_false] at hc
    split_ifs at hc with h1 h2 h3
    · simp only [List.mem_append, List.mem_singleton] at hc
      rcases hc with hc | hc
      · exact Or.inl hc
      · exact Or.inr ⟨hc, h1.2⟩
    · exact Or.inl hc
    · exact Or.inl hc
    · exact Or.inl hc
  · rw [if_pos hatt] at hc
    exact Or.inl hc

/-- The last loop of a pass only adds constraints `A[j]` whose slope along the step direction
is at least `ZERO_THRES`. -/
theorem attachLoop_constraints {K : Type} [LinearOrderedField K] (sqrt : K → K)
    (A : List (Vector3 K)) (tar_dir : Vector3 K) (max_step : K) (csize : Nat)
    (s0 : AttachState K) (l : List Nat) :
    ∀ c ∈ (l.foldl (attachStep sqrt A tar_dir max_step csize) s0).constraints,
      c ∈ s0.constraints ∨ ∃ j, c = A.getD j (0, 0, 0) ∧ ZERO_THRES K ≤ dot c tar_dir := by
  induction l generalizing s0 with
  | nil => intro c hc; exact Or.inl hc
  | cons j l ih =>
    intro c hc
    rw [List.foldl_cons] at hc
    rcases ih _ c hc with h | h
    · rcases attachStep_constraints sqrt A tar_dir max_step csize s0 j c h with h2 | h2
      · exact Or.inl h2
      · exact Or.inr ⟨j, h2.1, by rw [h2.1]; exact h2.2⟩
    · exact Or.inr h

/-- The arithmetic of one step towards the target: `o` is the offset before the step, `N` its
length, `dir` the unit step direction, `n` its dot product with the unit offset, and `ms` the
step length. -/
theorem step_closer {K : Type} [LinearOrderedField K] (o dir : Vector3 K) (N n ms : K)
    (hN : 0 < N) (hdir : dot dir dir = 1)
    (hdn : dot dir (vdiv o N) = n) (h0 : 0 ≤ ms) (hle : ms ≤ N * n) :
    dot (vsub o (vscale ms dir)) (vsub o (vscale ms dir)) ≤ dot o o := by
  have e1 : dot (vsub o (vscale ms dir)) (vsub o (vscale ms dir))
      = dot o o - 2 * ms * dot dir o + ms * ms * dot dir dir := by
    unfold dot vsub vscale
    simp only
    ring
  have e2 : dot dir o = N * n := by
    rw [dot_comm, dot_vdiv_left, dot_comm] at hdn
    rw [← hdn]
    field_simp
  rw [e1, e2, hdir]
  nlinarith

theorem vsub_vadd_right {K : Type} [LinearOrderedField K] (p pos w : Vector3 K) :
    vsub p (vadd pos w) = vsub (vsub p pos) w := by
  unfold vsub vadd
  simp only [Prod.mk.injEq]
  refine ⟨by ring, by ring, by ring⟩

/-- A pass through the main loop does not increase the distance to the target and keeps the
invariant. -/
theorem positionPass_closer {K : Type} [LinearOrderedField K] (sqrt : K → K)
    (hsqrt : ∀ x, 0 ≤ x → 0 ≤ sqrt x ∧ sqrt x * sqrt x = x)
    (A : List (Vector3 K)) (hA : ∀ j, dot (A.getD j (0, 0, 0)) (A.getD j (0, 0, 0)) = 1 ∨
      dot (A.getD j (0, 0, 0)) (A.getD j (0, 0, 0)) = 0)
    (p : Vector3 K) (s s1 : PosState K) (inv : UnitInv A s)
    (h : positionPass sqrt A p s = Flow.ret s1 ∨ positionPass sqrt A p s = Flow.next s1) :
    dot (vsub p s1.pos) (vsub p s1.pos) ≤ dot (vsub p s.pos) (vsub p s.pos) ∧ UnitInv A s1 := by
  have hz := ZERO_THRES_pos K
  by_cases h1 : norm sqrt (vsub p s.pos) < ZERO_THRES K
  · have hp : positionPass sqrt A p s = Flow.ret s := by
      unfold positionPass
      simp only [h1, if_true]
    rw [hp] at h
    rcases h with h | h
    · cases h; exact ⟨le_refl _, inv⟩
    · exact Flow.noConfusion h
  cases hproj : projectStep sqrt s.constraints (vdiv (vsub p s.pos) (norm sqrt (vsub p s.pos)))
      (norm sqrt (vsub p s.pos)) with
  | none =>
    have hp : positionPass sqrt A p s = Flow.ret s := by
      unfold positionPass
      simp only [h1, if_false, hproj]
    rw [hp] at h
    rcases h with h | h
    · cases h; exact ⟨le_refl _, inv⟩
    · exact Flow.noConfusion h
  | some r =>
    obtain ⟨cs, dir, ts⟩ := r
    have hN0 := (norm_mul_self sqrt hsqrt (vsub p s.pos)).1
    have hNpos : 0 < norm sqrt (vsub p s.pos) := lt_of_lt_of_le hz (not_lt.mp h1)
    obtain ⟨hdir, hsub, n, hn, hts, hdn⟩ := projectStep_geom sqrt hsqrt _ _ _ _ hproj inv.few
      inv.unit (unit_vdiv_norm sqrt hsqrt _ hNpos)
    simp only at hdir hsub hts hdn
    have hcs : cs.length ≤ 2 := projectStep_length sqrt _ _ _ _ hproj inv.few
    have hle := (limitStep_le A s.B s.attached_dimensions dir ts).1
    have hts0 : 0 ≤ ts := by rw [hts]; exact mul_nonneg hN0 hn
    have hpass : positionPass sqrt A p s =
        if (if limitStep A s.B s.attached_dimensions dir ts < 1 / 1000000 then 0
            else limitStep A s.B s.attached_dimensions dir ts) = ts then
          Flow.ret ⟨vadd s.pos (vscale (if limitStep A s.B s.attached_dimensions dir ts
              < 1 / 1000000 then 0 else limitStep A s.B s.attached_dimensions dir ts) dir),
            s.B, s.attached_dimensions, cs,
            s.steps ++ [(dir, if limitStep A s.B s.attached_dimensions dir ts < 1 / 1000000
              then 0 else limitStep A s.B s.attached_dimensions dir ts)]⟩
        else
          Flow.next ⟨vadd s.pos (vscale (if limitStep A s.B s.attached_dimensions dir ts
              < 1 / 1000000 then 0 else limitStep A s.B s.attached_dimensions dir ts) dir),
            ((List.range A.length).foldl
              (attachStep sqrt A dir (if limitStep A s.B s.attached_dimensions dir ts
                < 1 / 1000000 then 0 else limitStep A s.B s.attached_dimensions dir ts)
                cs.length) ⟨s.B, s.attached_dimensions, cs, 0⟩).B,
            ((List.range A.length).foldl
              (attachStep sqrt A dir (if limitStep A s.B s.attached_dimensions dir ts
                < 1 / 1000000 then 0 else limitStep A s.B s.attached_dimensions dir ts)
                cs.length) ⟨s.B, s.attached_dimensions, cs, 0⟩).attached_dimensions,
            ((List.range A.length).foldl
              (attachStep sqrt A dir (if limitStep A s.B s.attached_dimensions dir ts
                < 1 / 1000000 then 0 else limitStep A s.B s.attached_dimensions dir ts)
                cs.length) ⟨s.B, s.attached_dimensions, cs, 0⟩).constraints,
            s.steps ++ [(dir, if limitStep A s.B s.attached_dimensions dir ts < 1 / 1000000
              then 0 else limitStep A s.B s.attached_dimensions dir ts)]⟩ := by
      unfold positionPass
      simp only [h1, if_false, hproj]
    have hms0 : 0 ≤ (if limitStep A s.B s.attached_dimensions dir ts < 1 / 1000000 then 0
        else limitStep A s.B s.attached_dimensions dir ts) := by
      split_ifs with hc
      · exact le_refl _
      · have : (0 : K) < 1 / 1000000 := by positivity
        linarith [not_lt.mp hc]
    have hmsle : (if limitStep A s.B s.attached_dimensions dir ts < 1 / 1000000 then 0
        else limitStep A s.B s.attached_dimensions dir ts) ≤ ts := by
      split_ifs
      · exact hts0
      · exact hle
    generalize (if limitStep A s.B s.attached_dimensions dir ts < 1 / 1000000 then 0
        else limitStep A s.B s.attached_dimensions dir ts) = ms at hpass hms0 hmsle
    have hdist : dot (vsub p (vadd s.pos (vscale ms dir))) (vsub p (vadd s.pos (vscale ms dir)))
        ≤ dot (vsub p s.pos) (vsub p s.pos) := by
      rw [vsub_vadd_right]
      exact step_closer _ dir _ n ms hNpos hdir hdn hms0 (by rw [← hts]; exact hmsle)
    have hsteps : ∀ st ∈ s.steps ++ [(dir, ms)], dot st.1 st.1 = 1 ∧ 0 ≤ st.2 := by
      intro st hst
      rcases List.mem_append.mp hst with hst | hst
      · exact inv.steps st hst
      · rw [List.mem_singleton.mp hst]
        exact ⟨hdir, hms0⟩
    by_cases hret : ms = ts
    · rw [if_pos hret] at hpass
      rw [hpass] at h
      rcases h with h | h
      · cases h
        exact ⟨hdist, inv.lenB, inv.lenAtt, by simp only; omega,
          fun c hc => inv.unit c (hsub c hc), hsteps⟩
      · exact Flow.noConfusion h
    · rw [if_neg hret] at hpass
      have hnext := positionPass_next sqrt A p s _ inv.lenB inv.lenAtt inv.few hpass
      rw [hpass] at h
      rcases h with h | h
      · exact Flow.noConfusion h
      · cases h
        refine ⟨hdist, hnext.1, hnext.2.1, hnext.2.2.1, ?_, hsteps⟩
        intro c hc
        rcases attachLoop_constraints sqrt A dir ms cs.length ⟨s.B, s.attached_dimensions, cs, 0⟩
          (List.range A.length) c hc with hold | ⟨j, hj, hden⟩
        · exact inv.unit c (hsub c hold)
        · rcases hA j with e | e
          · rw [hj]; exact e
          · rw [← hj] at e
            rw [dot_eq_zero_of_self c dir e] at hden
            exact absurd hden (not_le.mpr hz)

/-- The main loop does not increase the distance to the target. -/
theorem positionLoop_closer {K : Type} [LinearOrderedField K] (sqrt : K → K)
    (hsqrt : ∀ x, 0 ≤ x → 0 ≤ sqrt x ∧ sqrt x * sqrt x = x)
    (A : List (Vector3 K)) (hA : ∀ j, dot (A.getD j (0, 0, 0)) (A.getD j (0, 0, 0)) = 1 ∨
      dot (A.getD j (0, 0, 0)) (A.getD j (0, 0, 0)) = 0)
    (p : Vector3 K) :
    ∀ count (s : PosState K), UnitInv A s →
      dot (vsub p (positionLoop sqrt A p count s).pos)
          (vsub p (positionLoop sqrt A p count s).pos)
        ≤ dot (vsub p s.pos) (vsub p s.pos) ∧
      UnitInv A (positionLoop sqrt A p count s) := by
  intro count
  induction count with
  | zero => intro s inv; exact ⟨le_refl _, inv⟩
  | succ count ih =>
    intro s inv
    unfold positionLoop
    cases hpass : positionPass sqrt A p s with
    | ret s1 =>
      simp only
      exact positionPass_closer sqrt hsqrt A hA p s s1 inv (Or.inl hpass)
    | next s1 =>
      simp only
      obtain ⟨q1, q2⟩ := positionPass_closer sqrt hsqrt A hA p s s1 inv (Or.inr hpass)
      obtain ⟨r1, r2⟩ := ih s1 q2
      exact ⟨le_trans r1 q1, r2⟩

/-- A property of the state that the body keeps holds when the ring loop returns. -/
theorem ringFold_invariant {σ : Type} (E2E : List Int) (deid0 : Int) (body : σ → Int → σ)
    (P : σ → Prop) (hbody : ∀ s d, P s → P (body s d)) :
    ∀ fuel deid s r, P s → ringFold E2E deid0 body fuel deid s = some r → P r := by
  intro fuel
  induction fuel with
  | zero => intro deid s r _ h; exact Option.noConfusion h
  | succ fuel ih =>
    intro deid s r hs h
    rw [ringFold_succ] at h
    split at h
    · exact Option.noConfusion h
    · split_ifs at h
      · exact ih _ _ _ (hbody s deid hs) h
      · cases h
        exact hbody s deid hs

/-- Every constraint direction generated on entry is a unit vector or has squared norm
zero. -/
theorem positionConstraints_unit {K : Type} [LinearOrderedField K] (sqrt : K → K)
    (hsqrt : ∀ x, 0 ≤ x → 0 ≤ sqrt x ∧ sqrt x * sqrt x = x) (fuel : Nat) (m : Projector K)
    (v : Nat) (AB : List (Vector3 K × K)) (h : positionConstraints sqrt fuel m v = some AB) :
    ∀ j, dot ((AB.map Prod.fst).getD j (0, 0, 0)) ((AB.map Prod.fst).getD j (0, 0, 0)) = 1 ∨
      dot ((AB.map Prod.fst).getD j (0, 0, 0)) ((AB.map Prod.fst).getD j (0, 0, 0)) = 0 := by
  have hall : ∀ e ∈ AB, dot e.1 e.1 = 1 ∨ dot e.1 e.1 = 0 := by
    unfold positionConstraints at h
    split at h
    · exact Option.noConfusion h
    · refine ringFold_invariant _ _ _ (fun AB => ∀ e ∈ AB, dot e.1 e.1 = 1 ∨ dot e.1 e.1 = 0)
        ?_ _ _ _ _ (fun e he => by simp at he) h
      intro s d hs e he
      unfold constraintStep at he
      simp only [List.mem_append, List.mem_cons, List.mem_singleton, List.mem_nil_iff,
        or_false] at he
      rcases he with he | he | he | he
      · exact hs e he
      · rw [he]; exact normalized_unit sqrt hsqrt _
      · rw [he]; exact normalized_unit sqrt hsqrt _
      · rw [he]; exact normalized_unit sqrt hsqrt _
  intro j
  by_cases hj : j < (AB.map Prod.fst).length
  · rw [List.getD_eq_getElem _ _ hj]
    have hmem : (AB.map Prod.fst)[j] ∈ AB.map Prod.fst := List.getElem_mem hj
    obtain ⟨e, he, heq⟩ := List.mem_map.mp hmem
    rw [← heq]
    exact hall e he
  · rw [List.getD_eq_default _ _ (not_lt.mp hj)]
    right
    simp [dot]

/-- C24: with an exact square root, on valid half-edge arrays, for every vertex `v` and every
target `p`, `OptimizePosition` returns, and the distance of `out_V_[v]` to `p` after the
call is not larger than before; every applied step has a unit direction and a non-negative
length. -/
theorem OptimizePosition_not_farther {K : Type} [LinearOrderedField K] (sqrt : K → K)
    (hsqrt : ∀ x, 0 ≤ x → 0 ≤ sqrt x ∧ sqrt x * sqrt x = x)
    (m : Projector K) (hval : ValidE2E m.out_F_ (m.num_F_ * 3) m.E2E_)
    (v d0 : Nat) (hd0 : d0 < m.num_F_ * 3) (hget : m.V2E_[v]? = some (d0 : Int))
    (p : Vector3 K) (fuel : Nat) (hfuel : m.num_F_ * 3 ≤ fuel) :
    ∃ s, OptimizePosition sqrt fuel m v p = some s ∧
      norm sqrt (vsub s.pos p) ≤ norm sqrt (vsub (m.out_V_.getD v (0, 0, 0)) p) ∧
      ∀ st ∈ s.steps, dot st.1 st.1 = 1 ∧ 0 ≤ st.2 := by
  have hfold := ringFold_eq hval hd0 (constraintStep sqrt m.out_F_ m.out_V_ m.out_N_) fuel
    hfuel []
  have hAB : ∃ AB, positionConstraints sqrt fuel m v = some AB := by
    unfold positionConstraints
    simp only [hget, hfold]
    exact ⟨_, rfl⟩
  obtain ⟨AB, hAB⟩ := hAB
  have hA := positionConstraints_unit sqrt hsqrt fuel m v AB hAB
  have init : UnitInv (AB.map Prod.fst)
      ⟨m.out_V_.getD v (0, 0, 0), AB.map Prod.snd, List.replicate AB.length 0, [], []⟩ :=
    ⟨by simp, by simp, by simp, fun c hc => by simp at hc, fun st hst => by simp at hst⟩
  obtain ⟨hdist, hinv⟩ := positionLoop_closer sqrt hsqrt (AB.map Prod.fst) hA p AB.length _ init
  refine ⟨_, by simp only [OptimizePosition, hAB], ?_, hinv.steps⟩
  have hswap : ∀ a b : Vector3 K, dot (vsub a b) (vsub a b) = dot (vsub b a) (vsub b a) := by
    intro a b
    unfold dot vsub
    simp only
    ring
  unfold norm
  rw [hswap _ p, hswap _ p]
  exact sqrt_le_sqrt sqrt hsqrt _ _ (dot_self_nonneg _) hdist

theorem tetraK_valid (K : Type) [LinearOrderedField K] :
    ValidE2E (tetraK K).out_F_ ((tetraK K).num_F_ * 3) (tetraK K).E2E_ :=
  tetraQ_manifold.valid

/-- C24 over the real numbers with the real square root, on the tetrahedron, vertex `0` and
the target `(-1, -1, -1)`. -/
theorem OptimizePosition_not_farther_witness :
    (∀ x : ℝ, 0 ≤ x → 0 ≤ Real.sqrt x ∧ Real.sqrt x * Real.sqrt x = x) ∧
    ValidE2E (tetraK ℝ).out_F_ ((tetraK ℝ).num_F_ * 3) (tetraK ℝ).E2E_ ∧
    6 < (tetraK ℝ).num_F_ * 3 ∧ (tetraK ℝ).V2E_[0]? = some ((6 : Nat) : Int) ∧
    (tetraK ℝ).num_F_ * 3 ≤ 12 ∧
    ∃ s, OptimizePosition Real.sqrt 12 (tetraK ℝ) 0 (-1, -1, -1) = some s ∧
      norm Real.sqrt (vsub s.pos (-1, -1, -1))
        ≤ norm Real.sqrt (vsub ((tetraK ℝ).out_V_.getD 0 (0, 0, 0)) (-1, -1, -1)) ∧
      ∀ st ∈ s.steps, dot st.1 st.1 = 1 ∧ 0 ≤ st.2 :=
  ⟨fun x hx => ⟨Real.sqrt_nonneg x, Real.mul_self_sqrt hx⟩, tetraK_valid ℝ,
    (by decide : 6 < 4 * 3), rfl, (by decide : 4 * 3 ≤ 12),
    OptimizePosition_not_farther Real.sqrt
      (fun x hx => ⟨Real.sqrt_nonneg x, Real.mul_self_sqrt hx⟩) (tetraK ℝ) (tetraK_valid ℝ) 0 6
      (by decide : 6 < 4 * 3) rfl (-1, -1, -1) 12 (by decide : 4 * 3 ≤ 12)⟩

/-! ## C11: the counts after a refinement round -/

/-- The round is its part before the call of `IterativeOptimize` followed by that call. -/
theorem refineRound_eq {K : Type} [LinearOrderedField K] (sqrt asin : K → K)
    (query : Vector3 K → K × Int × Vector3 K) (order : List Nat → List Nat) (J : Junk K)
    (len ratio : K) (fuel passes : Nat) (s : RefineState K) :
    refineRound sqrt asin query order J len ratio fuel passes s
      = (refineSplit sqrt query J len ratio s).bind (fun x =>
          (optimizeLoop sqrt asin query order fuel passes x.m).map
            (fun m4 => { m := m4, candidates := x.candidates })) := by
  unfold refineRound refineSplit
  simp only
  generalize refineTopology _ _ _ _ _ = a
  generalize List.foldlM (insertVertex s.m.E2E_) _ _ = b
  cases a with
  | none => rfl
  | some t2 =>
    cases b with
    | none => rfl
    | some vs =>
      simp only [Option.some_bind]
      split
      · rename_i h; rw [h]; rfl
      · rename_i m4 h; rw [h]; rfl

theorem survivors_sublist {K : Type} [LinearOrderedField K] (sqrt : K → K)
    (query : Vector3 K → K × Int × Vector3 K) (len ratio : K) (s : RefineState K) :
    (survivors sqrt query len ratio s).Sublist s.candidates := by
  unfold survivors
  simp only
  have hz : ((s.candidates.zip ((s.candidates.map (midpoint s.m)).zip
      ((s.candidates.map (midpoint s.m)).map query))).map Prod.fst) = s.candidates := by
    apply List.map_fst_zip
    simp only [List.length_zip, List.length_map, min_self, le_refl]
  have h0 : ((s.candidates.zip ((s.candidates.map (midpoint s.m)).zip
      ((s.candidates.map (midpoint s.m)).map query))).filter
        (fun r => decide (len * ratio < sqrt r.2.2.1))).Sublist
      (s.candidates.zip ((s.candidates.map (midpoint s.m)).zip
        ((s.candidates.map (midpoint s.m)).map query))) := List.filter_sublist _
  have h1 := h0.map Prod.fst
  rw [hz] at h1
  exact h1

/-- A sequence of rounds that returns does not decrease `num_F_`. -/
theorem rounds_num_F {K : Type} [LinearOrderedField K] (sqrt asin : K → K)
    (query : Vector3 K → K × Int × Vector3 K) (order : List Nat → List Nat) (J : Junk K)
    (len ratio : K) (fuel passes : Nat) :
    ∀ (l : List Nat) (s r : RefineState K),
      l.foldlM (fun s _ => refineRound sqrt asin query order J len ratio fuel passes s) s
        = some r → s.m.num_F_ ≤ r.m.num_F_ := by
  intro l
  induction l with
  | nil => intro s r h; simp only [List.foldlM_nil] at h; cases h; exact le_refl _
  | cons a l ih =>
    intro s r h
    simp only [List.foldlM_cons] at h
    cases h1 : refineRound sqrt asin query order J len ratio fuel passes s with
    | none => rw [h1] at h; exact Option.noConfusion h
    | some s1 =>
      rw [h1] at h
      exact le_trans (refineRound_num_F _ _ _ _ _ _ _ _ _ _ _ h1) (ih s1 r h)

/-- C11: on a mesh whose `E2E_` is an involution with the opposite-edge property and whose
`V2E_` is not empty, take a refinement round that starts with a list of different candidate
directed edges `c < E2E_[c]`, of which `k` survive the midpoint test.  The part of the round
before the call of `IterativeOptimize` returns, with `num_V_` increased by exactly `k` and
`num_F_` by exactly `2 k`; the round is that part followed by `IterativeOptimize`, which keeps
both counts, so a round that returns has exactly these counts; when the candidates are the
ones that `AdaptiveRefine` collects on entry and `AdaptiveRefine` returns, its `num_F_` is at
least `num_F_ + 2 k`; and whatever the mesh, `AdaptiveRefine` does not decrease `num_F_`. -/
theorem refineRound_growth {K : Type} [LinearOrderedField K] (sqrt asin : K → K)
    (query : Vector3 K → K × Int × Vector3 K) (order : List Nat → List Nat) (J : Junk K)
    (len ratio : K) (fuel passes : Nat) (s : RefineState K)
    (hv : ValidE2E s.m.out_F_ (s.m.num_F_ * 3) s.m.E2E_)
    (hcap : s.m.num_F_ * 3 ≤ s.m.out_F_.length) (hV : 0 < s.m.V2E_.length)
    (hc : ∀ c ∈ s.candidates, c < s.m.num_F_ * 3 ∧ c < e2eN s.m.E2E_ c)
    (hnd : s.candidates.Nodup) :
    ∃ x, refineSplit sqrt query J len ratio s = some x ∧
      x.m.num_V_ = s.m.num_V_ + (survivors sqrt query len ratio s).length ∧
      x.m.num_F_ = s.m.num_F_ + 2 * (survivors sqrt query len ratio s).length ∧
      refineRound sqrt asin query order J len ratio fuel passes s
        = (optimizeLoop sqrt asin query order fuel passes x.m).map
            (fun m4 => { m := m4, candidates := x.candidates }) ∧
      (∀ r, refineRound sqrt asin query order J len ratio fuel passes s = some r →
        r.m.num_V_ = s.m.num_V_ + (survivors sqrt query len ratio s).length ∧
        r.m.num_F_ = s.m.num_F_ + 2 * (survivors sqrt query len ratio s).length) ∧
      (∀ m2, s.candidates = (List.range (s.m.num_F_ * 3)).filter
          (fun (i : Nat) => ((i : Nat) : Int) < s.m.E2E_.getD i 0) →
        AdaptiveRefine sqrt asin query order J len ratio fuel passes s.m = some m2 →
        s.m.num_F_ + 2 * (survivors sqrt query len ratio s).length ≤ m2.num_F_) ∧
      ∀ m m2 : Solver K,
        AdaptiveRefine sqrt asin query order J len ratio fuel passes m = some m2 →
        m.num_F_ ≤ m2.num_F_ := by
  have hsub := survivors_sublist sqrt query len ratio s
  have hc2 : ∀ c ∈ survivors sqrt query len ratio s,
      c < s.m.num_F_ * 3 ∧ c < e2eN s.m.E2E_ c := fun c h => hc c (hsub.subset h)
  have hnd2 : (survivors sqrt query len ratio s).Nodup := hnd.sublist hsub
  obtain ⟨t2, ht2, hnV, hnF⟩ := refineTopology_counts J.out_F J.V2E J.E2E
    { num_V_ := s.m.num_V_, num_F_ := s.m.num_F_, out_F_ := s.m.out_F_, V2E_ := s.m.V2E_,
      E2E_ := s.m.E2E_ } (survivors sqrt query len ratio s) hv hcap hV hc2 hnd2
  obtain ⟨fs, _, hvs, _⟩ := refine_loops J.out_F
    { num_V_ := s.m.num_V_, num_F_ := s.m.num_F_, out_F_ := s.m.out_F_, V2E_ := s.m.V2E_,
      E2E_ := s.m.E2E_ } (survivors sqrt query len ratio s) hv hcap hc2 hnd2
  simp only at ht2 hnV hnF hvs
  have hx : ∃ x, refineSplit sqrt query J len ratio s = some x ∧ x.m.num_V_ = t2.num_V_ ∧
      x.m.num_F_ = t2.num_F_ := by
    unfold survivors at ht2 hvs
    simp only at ht2 hvs
    unfold refineSplit
    simp only [ht2, hvs]
    exact ⟨_, rfl, rfl, rfl⟩
  obtain ⟨x, hx, hxV, hxF⟩ := hx
  have hround : refineRound sqrt asin query order J len ratio fuel passes s
      = (optimizeLoop sqrt asin query order fuel passes x.m).map
          (fun m4 => { m := m4, candidates := x.candidates }) := by
    rw [refineRound_eq, hx]
    rfl
  have hcount : ∀ r, refineRound sqrt asin query order J len ratio fuel passes s = some r →
      r.m.num_V_ = s.m.num_V_ + (survivors sqrt query len ratio s).length ∧
      r.m.num_F_ = s.m.num_F_ + 2 * (survivors sqrt query len ratio s).length := by
    intro r hr
    rw [hround, Option.map_eq_some'] at hr
    obtain ⟨m4, hm4, rfl⟩ := hr
    have e1 := optimizeLoop_num_V _ _ _ _ _ _ _ _ hm4
    have e2 := optimizeLoop_num_F _ _ _ _ _ _ _ _ hm4
    simp only
    omega
  refine ⟨x, hx, by omega, by omega, hround, hcount, ?_, fun m m2 h =>
    AdaptiveRefine_num_F sqrt asin query order J len ratio fuel passes m m2 h⟩
  intro m2 hcand h
  unfold AdaptiveRefine at h
  simp only [Option.map_eq_some'] at h
  obtain ⟨r, hr, rfl⟩ := h
  have hs : (⟨s.m, (List.range (s.m.num_F_ * 3)).filter
      (fun (i : Nat) => ((i : Nat) : Int) < s.m.E2E_.getD i 0)⟩ : RefineState K) = s := by
    rw [← hcand]
  rw [hs, show List.range 4 = 0 :: [1, 2, 3] from rfl, List.foldlM_cons] at hr
  cases h1 : refineRound sqrt asin query order J len ratio fuel passes s with
  | none => rw [h1] at hr; exact Option.noConfusion hr
  | some r1 =>
    rw [h1] at hr
    have := rounds_num_F sqrt asin query order J len ratio fuel passes _ _ _ hr
    have := (hcount r1 h1).2
    omega

theorem survivors_far :
    survivors unitSqrt farSurface 1 1 ⟨flatOcta, [0]⟩ = [0] := by
  simp only [survivors, farSurface, List.map_cons, List.map_nil, List.zip_cons_cons,
    List.zip_nil_right, List.filter_cons, List.filter_nil, unitSqrt_16]
  norm_num

/-- C11 applied to the octahedron `flatOcta` with the candidate directed edge `0`, a target
surface at distance `4` from every point and the tolerance `len * ratio = 1`: the candidate
survives the midpoint test, so `k = 1`. -/
theorem refineRound_growth_witness :
    ValidE2E flatOcta.out_F_ (flatOcta.num_F_ * 3) flatOcta.E2E_ ∧
    flatOcta.num_F_ * 3 ≤ flatOcta.out_F_.length ∧ 0 < flatOcta.V2E_.length ∧
    (∀ c ∈ [0], c < flatOcta.num_F_ * 3 ∧ c < e2eN flatOcta.E2E_ c) ∧ [0].Nodup ∧
    survivors unitSqrt farSurface 1 1 ⟨flatOcta, [0]⟩ = [0] ∧
    ∃ x, refineSplit unitSqrt farSurface zeroJunk 1 1 ⟨flatOcta, [0]⟩ = some x ∧
      x.m.num_V_ = flatOcta.num_V_
        + (survivors unitSqrt farSurface 1 1 ⟨flatOcta, [0]⟩).length ∧
      x.m.num_F_ = flatOcta.num_F_
        + 2 * (survivors unitSqrt farSurface 1 1 ⟨flatOcta, [0]⟩).length ∧
      refineRound unitSqrt id farSurface id zeroJunk 1 1 25 8 ⟨flatOcta, [0]⟩
        = (optimizeLoop unitSqrt id farSurface id 25 8 x.m).map
            (fun m4 => { m := m4, candidates := x.candidates }) ∧
      (∀ r, refineRound unitSqrt id farSurface id zeroJunk 1 1 25 8 ⟨flatOcta, [0]⟩ = some r →
        r.m.num_V_ = flatOcta.num_V_
          + (survivors unitSqrt farSurface 1 1 ⟨flatOcta, [0]⟩).length ∧
        r.m.num_F_ = flatOcta.num_F_
          + 2 * (survivors unitSqrt farSurface 1 1 ⟨flatOcta, [0]⟩).length) ∧
      (∀ m2, [0] = (List.range (flatOcta.num_F_ * 3)).filter
          (fun (i : Nat) => ((i : Nat) : Int) < flatOcta.E2E_.getD i 0) →
        AdaptiveRefine unitSqrt id farSurface id zeroJunk 1 1 25 8 flatOcta = some m2 →
        flatOcta.num_F_ + 2 * (survivors unitSqrt farSurface 1 1 ⟨flatOcta, [0]⟩).length
          ≤ m2.num_F_) ∧
      ∀ m m2 : Solver ℚ,
        AdaptiveRefine unitSqrt id farSurface id zeroJunk 1 1 25 8 m = some m2 →
        m.num_F_ ≤ m2.num_F_ :=
  ⟨⟨by decide, by decide⟩, by decide, by decide, by decide, by decide, survivors_far,
    refineRound_growth unitSqrt id farSurface id zeroJunk 1 1 25 8 ⟨flatOcta, [0]⟩
      ⟨by decide, by decide⟩ (by decide) (by decide) (by decide) (by decide)⟩

/-! ## C7: a constraint that was attached and released is crossed -/

theorem ratSqrt_sq (r : ℚ) (h : 0 ≤ r) : ratSqrt (r * r) = r := by
  unfold ratSqrt
  have hn : 0 ≤ r.num := Rat.num_nonneg.mpr h
  obtain ⟨n, hn2⟩ := Int.eq_ofNat_of_zero_le hn
  rw [Rat.mul_self_num, Rat.mul_self_den, hn2]
  have h1 : ((n : Int) * (n : Int)).toNat = n * n := by
    rw [← Int.natCast_mul, Int.toNat_ofNat]
  rw [h1, Nat.sqrt_eq, Nat.sqrt_eq]
  have h2 := Rat.num_div_den r
  rw [hn2, Int.cast_natCast] at h2
  exact h2

theorem norm_of_sq (sqrt : ℚ → ℚ) (hsqrt : ∀ r : ℚ, 0 ≤ r → sqrt (r * r) = r) (a : Vector3 ℚ)
    (r : ℚ) (hr : 0 ≤ r) (h : dot a a = r * r) : norm sqrt a = r := by
  unfold norm
  rw [h]
  exact hsqrt r hr

theorem normalized_of_sq (sqrt : ℚ → ℚ) (hsqrt : ∀ r : ℚ, 0 ≤ r → sqrt (r * r) = r)
    (a : Vector3 ℚ) (r : ℚ) (hr : 0 < r) (h : dot a a = r * r) :
    normalized sqrt a = vdiv a r := by
  unfold normalized
  rw [if_pos (by rw [h]; exact mul_pos hr hr), h, hsqrt r (le_of_lt hr)]

theorem skew_constraints (sqrt : ℚ → ℚ) (hsqrt : ∀ r : ℚ, 0 ≤ r → sqrt (r * r) = r) :
    positionConstraints sqrt 13 skewQ 0 = some (skewA.zip skewB) := by
  have hV : skewQ.V2E_[0]? = some 6 := by decide
  have h1 : next_out skewQ.E2E_ 6 = some 3 := by decide
  have h2 : next_out skewQ.E2E_ 3 = some 0 := by decide
  have h3 : next_out skewQ.E2E_ 0 = some 6 := by decide
  have f60 : faceI skewQ.out_F_ 6 0 = 0 := by decide
  have f61 : faceI skewQ.out_F_ 6 1 = 2 := by decide
  have f62 : faceI skewQ.out_F_ 6 2 = 3 := by decide
  have f30 : faceI skewQ.out_F_ 3 0 = 0 := by decide
  have f31 : faceI skewQ.out_F_ 3 1 = 3 := by decide
  have f32 : faceI skewQ.out_F_ 3 2 = 1 := by decide
  have f00 : faceI skewQ.out_F_ 0 0 = 0 := by decide
  have f01 : faceI skewQ.out_F_ 0 1 = 1 := by decide
  have f02 : faceI skewQ.out_F_ 0 2 = 2 := by decide
  have c0 : constraintOf sqrt skewQ.out_V_ 0 2 3 (-(4 / 5), 3 / 5, 0)
      = ((0, 0, 1), 46 / 113) := by
    have hc : cross (vsub ((-(1172 / 759), -(29 / 253), -1) : Vector3 ℚ)
        (-(2552 / 207), 367 / 276, -1)) (-(4 / 5), 3 / 5, 0)
        = (0, 0, 877 / 165) := by
      simp only [vsub, cross]
      norm_num
    have hn := normalized_of_sq sqrt hsqrt (0, 0, 877 / 165)
      (877 / 165) (by norm_num) (by simp only [dot]; norm_num)
    simp only [constraintOf, skewQ, List.getD_cons_zero, List.getD_cons_succ, hc, hn]
    simp only [vdiv, vsub, dot]
    norm_num
  have c1 : constraintOf sqrt skewQ.out_V_ 0 2 3 (-(5189209 / 3284433), 414821 / 1094811, 80684 / 364937)
      = ((-(12 / 113), -(448 / 565), 3 / 5), 13 / 339) := by
    have hc : cross (vsub ((-(1172 / 759), -(29 / 253), -1) : Vector3 ℚ)
        (-(2552 / 207), 367 / 276, -1)) (-(5189209 / 3284433), 414821 / 1094811, 80684 / 364937)
        = (-(3845645 / 12042921), -(86142448 / 36128763), 86911577 / 48171684) := by
      simp only [vsub, cross]
      norm_num
    have hn := normalized_of_sq sqrt hsqrt (-(3845645 / 12042921), -(86142448 / 36128763), 86911577 / 48171684)
      (434557885 / 144515052) (by norm_num) (by simp only [dot]; norm_num)
    simp only [constraintOf, skewQ, List.getD_cons_zero, List.getD_cons_succ, hc, hn]
    simp only [vdiv, vsub, dot]
    norm_num
  have c2 : constraintOf sqrt skewQ.out_V_ 0 2 3 (-(4 / 5), 3 / 5, 0)
      = ((0, 0, 1), 46 / 113) := by
    have hc : cross (vsub ((-(1172 / 759), -(29 / 253), -1) : Vector3 ℚ)
        (-(2552 / 207), 367 / 276, -1)) (-(4 / 5), 3 / 5, 0)
        = (0, 0, 877 / 165) := by
      simp only [vsub, cross]
      norm_num
    have hn := normalized_of_sq sqrt hsqrt (0, 0, 877 / 165)
      (877 / 165) (by norm_num) (by simp only [dot]; norm_num)
    simp only [constraintOf, skewQ, List.getD_cons_zero, List.getD_cons_succ, hc, hn]
    simp only [vdiv, vsub, dot]
    norm_num
  have c3 : constraintOf sqrt skewQ.out_V_ 0 3 1 (-(4 / 5), 3 / 5, 0)
      = ((12 / 29, 16 / 29, 21 / 29), 13793177 / 12219933) := by
    have hc : cross (vsub ((-(6029 / 2640), 919 / 220, -(1185 / 308)) : Vector3 ℚ)
        (-(1172 / 759), -(29 / 253), -1)) (-(4 / 5), 3 / 5, 0)
        = (2631 / 1540, 877 / 385, 2631 / 880) := by
      simp only [vsub, cross]
      norm_num
    have hn := normalized_of_sq sqrt hsqrt (2631 / 1540, 877 / 385, 2631 / 880)
      (25433 / 6160) (by norm_num) (by simp only [dot]; norm_num)
    simp only [constraintOf, skewQ, List.getD_cons_zero, List.getD_cons_succ, hc, hn]
    simp only [vdiv, vsub, dot]
    norm_num
  have c4 : constraintOf sqrt skewQ.out_V_ 0 3 1 (-(4 / 5), 3 / 5, 0)
      = ((12 / 29, 16 / 29, 21 / 29), 13793177 / 12219933) := by
    have hc : cross (vsub ((-(6029 / 2640), 919 / 220, -(1185 / 308)) : Vector3 ℚ)
        (-(1172 / 759), -(29 / 253), -1)) (-(4 / 5), 3 / 5, 0)
        = (2631 / 1540, 877 / 385, 2631 / 880) := by
      simp only [vsub, cross]
      norm_num
    have hn := normalized_of_sq sqrt hsqrt (2631 / 1540, 877 / 385, 2631 / 880)
      (25433 / 6160) (by norm_num) (by simp only [dot]; norm_num)
    simp only [constraintOf, skewQ, List.getD_cons_zero, List.getD_cons_succ, hc, hn]
    simp only [vdiv, vsub, dot]
    norm_num
  have c5 : constraintOf sqrt skewQ.out_V_ 0 3 1 (-(4 / 5), 3 / 5, 0)
      = ((12 / 29, 16 / 29, 21 / 29), 13793177 / 12219933) := by
    have hc : cross (vsub ((-(6029 / 2640), 919 / 220, -(1185 / 308)) : Vector3 ℚ)
        (-(1172 / 759), -(29 / 253), -1)) (-(4 / 5), 3 / 5, 0)
        = (2631 / 1540, 877 / 385, 2631 / 880) := by
      simp only [vsub, cross]
      norm_num
    have hn := normalized_of_sq sqrt hsqrt (2631 / 1540, 877 / 385, 2631 / 880)
      (25433 / 6160) (by norm_num) (by simp only [dot]; norm_num)
    simp only [constraintOf, skewQ, List.getD_cons_zero, List.getD_cons_succ, hc, hn]
    simp only [vdiv, vsub, dot]
    norm_num
  have c6 : constraintOf sqrt skewQ.out_V_ 0 1 2 (-(4 / 5), 3 / 5, 0)
      = ((-(36 / 185), -(48 / 185), -(35 / 37)), 2236049 / 2362265) := by
    have hc : cross (vsub ((-(2552 / 207), 367 / 276, -1) : Vector3 ℚ)
        (-(6029 / 2640), 919 / 220, -(1185 / 308))) (-(4 / 5), 3 / 5, 0)
        = (-(2631 / 1540), -(877 / 385), -(4385 / 528)) := by
      simp only [vsub, cross]
      norm_num
    have hn := normalized_of_sq sqrt hsqrt (-(2631 / 1540), -(877 / 385), -(4385 / 528))
      (32449 / 3696) (by norm_num) (by simp only [dot]; norm_num)
    simp only [constraintOf, skewQ, List.getD_cons_zero, List.getD_cons_succ, hc, hn]
    simp only [vdiv, vsub, dot]
    norm_num
  have c7 : constraintOf sqrt skewQ.out_V_ 0 1 2 (-(4 / 5), 3 / 5, 0)
      = ((-(36 / 185), -(48 / 185), -(35 / 37)), 2236049 / 2362265) := by
    have hc : cross (vsub ((-(2552 / 207), 367 / 276, -1) : Vector3 ℚ)
        (-(6029 / 2640), 919 / 220, -(1185 / 308))) (-(4 / 5), 3 / 5, 0)
        = (-(2631 / 1540), -(877 / 385), -(4385 / 528)) := by
      simp only [vsub, cross]
      norm_num
    have hn := normalized_of_sq sqrt hsqrt (-(2631 / 1540), -(877 / 385), -(4385 / 528))
      (32449 / 3696) (by norm_num) (by simp only [dot]; norm_num)
    simp only [constraintOf, skewQ, List.getD_cons_zero, List.getD_cons_succ, hc, hn]
    simp only [vdiv, vsub, dot]
    norm_num
  have c8 : constraintOf sqrt skewQ.out_V_ 0 1 2 (-(5189209 / 3284433), 414821 / 1094811, 80684 / 364937)
      = ((-(36 / 185), -(48 / 185), -(35 / 37)), 2236049 / 2362265) := by
    have hc : cross (vsub ((-(2552 / 207), 367 / 276, -1) : Vector3 ℚ)
        (-(6029 / 2640), 919 / 220, -(1185 / 308))) (-(5189209 / 3284433), 414821 / 1094811,
        80684 / 364937)
        = (-(2631 / 1540), -(877 / 385), -(4385 / 528)) := by
      simp only [vsub, cross]
      norm_num
    have hn := normalized_of_sq sqrt hsqrt (-(2631 / 1540), -(877 / 385), -(4385 / 528))
      (32449 / 3696) (by norm_num) (by simp only [dot]; norm_num)
    simp only [constraintOf, skewQ, List.getD_cons_zero, List.getD_cons_succ, hc, hn]
    simp only [vdiv, vsub, dot]
    norm_num
  have hN0 : skewQ.out_N_.getD 0 (0, 0, 0) = (-(4 / 5), 3 / 5, 0) := rfl
  have hN1 : skewQ.out_N_.getD 1 (0, 0, 0) = (-(4 / 5), 3 / 5, 0) := rfl
  have hN2 : skewQ.out_N_.getD 2 (0, 0, 0) = (-(5189209 / 3284433), 414821 / 1094811, 80684 / 364937) := rfl
  have hN3 : skewQ.out_N_.getD 3 (0, 0, 0) = (-(4 / 5), 3 / 5, 0) := rfl
  simp only [positionConstraints, hV, ringFold, h1, h2, h3, constraintStep, f60, f61, f62, f30,
    f31, f32, f00, f01, f02, hN0, hN1, hN2, hN3, c0, c1, c2, c3, c4, c5, c6, c7, c8]
  simp [skewA, skewB]

/-! ### One step of the loops of a pass, case by case -/

theorem attachStep_skip {K : Type} [LinearOrderedField K] (sqrt : K → K) (A : List (Vector3 K))
    (tar_dir : Vector3 K) (max_step : K) (csize : Nat) (s : AttachState K) (j : Nat)
    (h : s.attached_dimensions.getD j 0 ≠ 0) :
    attachStep sqrt A tar_dir max_step csize s j = s := by
  unfold attachStep
  rw [if_pos h]

theorem attachStep_free {K : Type} [LinearOrderedField K] (sqrt : K → K) (A : List (Vector3 K))
    (tar_dir : Vector3 K) (max_step : K) (csize : Nat) (s : AttachState K) (j : Nat)
    (h : s.attached_dimensions.getD j 0 = 0)
    (hfree : ¬ (s.B.getD j 0 - dot (A.getD j (0, 0, 0)) tar_dir * max_step < ZERO_THRES K ∧
      ZERO_THRES K ≤ dot (A.getD j (0, 0, 0)) tar_dir)) :
    attachStep sqrt A tar_dir max_step csize s j
      = ⟨s.B.set j (s.B.getD j 0 - dot (A.getD j (0, 0, 0)) tar_dir * max_step),
          s.attached_dimensions, s.constraints, s.new_element⟩ := by
  unfold attachStep
  simp only [h, ne_eq, not_true_eq_false, if_false, hfree]

theorem attachStep_hit {K : Type} [LinearOrderedField K] (sqrt : K → K) (A : List (Vector3 K))
    (tar_dir : Vector3 K) (max_step : K) (csize : Nat) (s : AttachState K) (j : Nat)
    (h : s.attached_dimensions.getD j 0 = 0)
    (hb : s.B.getD j 0 - dot (A.getD j (0, 0, 0)) tar_dir * max_step < ZERO_THRES K)
    (hden : ZERO_THRES K ≤ dot (A.getD j (0, 0, 0)) tar_dir)
    (hdep1 : ¬ (csize = 1 ∧
      norm sqrt (cross (s.constraints.getD 0 (0, 0, 0)) (A.getD j (0, 0, 0))) < ZERO_THRES K))
    (hdep2 : csize ≠ 2) (hnew : s.new_element = 0) :
    attachStep sqrt A tar_dir max_step csize s j
      = ⟨s.B.set j (s.B.getD j 0 - dot (A.getD j (0, 0, 0)) tar_dir * max_step),
          s.attached_dimensions.set j 1, s.constraints ++ [A.getD j (0, 0, 0)], 1⟩ := by
  unfold attachStep
  simp only [h, ne_eq, not_true_eq_false, if_false, hb, hden, and_self, if_true, hdep1, hdep2,
    false_and, decide_False, hnew]

theorem attachStep_late {K : Type} [LinearOrderedField K] (sqrt : K → K) (A : List (Vector3 K))
    (tar_dir : Vector3 K) (max_step : K) (csize : Nat) (s : AttachState K) (j : Nat)
    (h : s.attached_dimensions.getD j 0 = 0)
    (hdep1 : ¬ (csize = 1 ∧
      norm sqrt (cross (s.constraints.getD 0 (0, 0, 0)) (A.getD j (0, 0, 0))) < ZERO_THRES K))
    (hdep2 : csize ≠ 2) (hnew : s.new_element ≠ 0) :
    attachStep sqrt A tar_dir max_step csize s j
      = ⟨s.B.set j (s.B.getD j 0 - dot (A.getD j (0, 0, 0)) tar_dir * max_step),
          s.attached_dimensions, s.constraints, s.new_element⟩ := by
  unfold attachStep
  simp only [h, ne_eq, not_true_eq_false, if_false, hdep1, hdep2, false_and, decide_False,
    and_self, if_true, hnew]
  split_ifs <;> rfl

/-- The projection block when one constraint `c2` of the active set stays on the boundary. -/
theorem projectStep_one {K : Type} [LinearOrderedField K] (sqrt : K → K)
    (constraints : List (Vector3 K)) (c c2 tar_dir t d : Vector3 K) (tar_step n : K)
    (hlast : constraints.getLast? = some c)
    (ht : vsub tar_dir (vscale (dot tar_dir c) c) = t) (hn : norm sqrt t = n)
    (hZ : ¬ n < ZERO_THRES K) (hd : vdiv t n = d) (hb : boundaryOf constraints d = [c2]) :
    projectStep sqrt constraints tar_dir tar_step = some ([c2], d, tar_step * n) := by
  unfold projectStep
  simp only [hlast, ht, hn, hZ, if_false, hd, hb, List.length_singleton, OfNat.one_ne_ofNat]

/-- A pass that applies a step shorter than the target step and goes on. -/
theorem positionPass_eval_next {K : Type} [LinearOrderedField K] (sqrt : K → K)
    (A : List (Vector3 K)) (p : Vector3 K) (s : PosState K) (ts0 : K)
    (cs : List (Vector3 K)) (dir : Vector3 K) (ts ms : K) (t : AttachState K)
    (hn : norm sqrt (vsub p s.pos) = ts0) (hZ : ¬ ts0 < ZERO_THRES K)
    (hproj : projectStep sqrt s.constraints (vdiv (vsub p s.pos) ts0) ts0 = some (cs, dir, ts))
    (hlim : limitStep A s.B s.attached_dimensions dir ts = ms) (hc : ¬ ms < 1 / 1000000)
    (hne : ms ≠ ts)
    (hatt : (List.range A.length).foldl (attachStep sqrt A dir ms cs.length)
      ⟨s.B, s.attached_dimensions, cs, 0⟩ = t) :
    positionPass sqrt A p s = Flow.next ⟨vadd s.pos (vscale ms dir), t.B, t.attached_dimensions,
      t.constraints, s.steps ++ [(dir, ms)]⟩ := by
  unfold positionPass
  simp only [hn, hZ, if_false, hproj, hlim, hc, hne, hatt]

/-- A pass that applies the whole target step and returns. -/
theorem positionPass_eval_ret {K : Type} [LinearOrderedField K] (sqrt : K → K)
    (A : List (Vector3 K)) (p : Vector3 K) (s : PosState K) (ts0 : K)
    (cs : List (Vector3 K)) (dir : Vector3 K) (ts : K)
    (hn : norm sqrt (vsub p s.pos) = ts0) (hZ : ¬ ts0 < ZERO_THRES K)
    (hproj : projectStep sqrt s.constraints (vdiv (vsub p s.pos) ts0) ts0 = some (cs, dir, ts))
    (hlim : limitStep A s.B s.attached_dimensions dir ts = ts) (hc : ¬ ts < 1 / 1000000) :
    positionPass sqrt A p s = Flow.ret ⟨vadd s.pos (vscale ts dir), s.B, s.attached_dimensions,
      cs, s.steps ++ [(dir, ts)]⟩ := by
  unfold positionPass
  simp only [hn, hZ, if_false, hproj, hlim, hc, if_true]

/-- A loop over nine indices, step by step. -/
theorem foldl_range_nine {σ : Type} (f : σ → Nat → σ) (s0 s1 s2 s3 s4 s5 s6 s7 s8 s9 : σ)
    (h0 : f s0 0 = s1) (h1 : f s1 1 = s2) (h2 : f s2 2 = s3) (h3 : f s3 3 = s4)
    (h4 : f s4 4 = s5) (h5 : f s5 5 = s6) (h6 : f s6 6 = s7) (h7 : f s7 7 = s8)
    (h8 : f s8 8 = s9) : (List.range 9).foldl f s0 = s9 := by
  subst h0 h1 h2 h3 h4 h5 h6 h7 h8
  simp only [List.range_succ, List.range_zero, List.nil_append, List.cons_append,
    List.foldl_cons, List.foldl_nil]

theorem positionLoop_ret {K : Type} [LinearOrderedField K] (sqrt : K → K)
    (A : List (Vector3 K)) (p : Vector3 K) (count : Nat) (s s1 : PosState K)
    (h : positionPass sqrt A p s = Flow.ret s1) :
    positionLoop sqrt A p (count + 1) s = s1 := by
  show (match positionPass sqrt A p s with
    | Flow.ret s1 => s1
    | Flow.next s1 => positionLoop sqrt A p count s1) = _
  rw [h]

/-! ### The four passes on vertex `0` of `skewQ` -/

theorem skew_attach0 (sqrt : ℚ → ℚ) :
    (List.range 9).foldl (attachStep sqrt skewA (547971 / 589069, 1204 / 45313,
      1908 / 5213) (5213 / 13560) 0)
      ⟨[46 / 113, 13 / 339, 46 / 113, 13793177 / 12219933, 13793177 / 12219933,
        13793177 / 12219933, 2236049 / 2362265, 2236049 / 2362265, 2236049 / 2362265], [0, 0, 0,
        0, 0, 0, 0, 0, 0], [], 0⟩
      = ⟨[301 / 1130, 0, 301 / 1130, 17784818 / 20366555, 17784818 / 20366555,
        17784818 / 20366555, 13605618 / 11811325, 13605618 / 11811325, 13605618 / 11811325], [0,
        1, 0, 0, 0, 0, 0, 0, 0], [(-(12 / 113), -(448 / 565), 3 / 5)], 1⟩ := by
  have e0 : attachStep sqrt skewA (547971 / 589069, 1204 / 45313, 1908 / 5213) (5213 / 13560) 0
      ⟨[46 / 113, 13 / 339, 46 / 113, 13793177 / 12219933, 13793177 / 12219933,
        13793177 / 12219933, 2236049 / 2362265, 2236049 / 2362265, 2236049 / 2362265], [0, 0, 0,
        0, 0, 0, 0, 0, 0], [], 0⟩ 0
      = ⟨[301 / 1130, 13 / 339, 46 / 113, 13793177 / 12219933, 13793177 / 12219933,
        13793177 / 12219933, 2236049 / 2362265, 2236049 / 2362265, 2236049 / 2362265], [0, 0, 0,
        0, 0, 0, 0, 0, 0], [], 0⟩ := by
    rw [attachStep_free sqrt skewA (547971 / 589069, 1204 / 45313, 1908 / 5213) (5213 / 13560) 0
      ⟨[46 / 113, 13 / 339, 46 / 113, 13793177 / 12219933, 13793177 / 12219933,
        13793177 / 12219933, 2236049 / 2362265, 2236049 / 2362265, 2236049 / 2362265], [0, 0, 0,
        0, 0, 0, 0, 0, 0], [], 0⟩ 0 rfl
      (by norm_num [skewA, dot, ZERO_THRES])]
    simp only [skewA, dot, List.getD_cons_zero, List.getD_cons_succ, List.set_cons_zero,
      List.set_cons_succ, List.cons_append, List.nil_append]
    norm_num
  have e1 : attachStep sqrt skewA (547971 / 589069, 1204 / 45313, 1908 / 5213) (5213 / 13560) 0
      ⟨[301 / 1130, 13 / 339, 46 / 113, 13793177 / 12219933, 13793177 / 12219933,
        13793177 / 12219933, 2236049 / 2362265, 2236049 / 2362265, 2236049 / 2362265], [0, 0, 0,
        0, 0, 0, 0, 0, 0], [], 0⟩ 1
      = ⟨[301 / 1130, 0, 46 / 113, 13793177 / 12219933, 13793177 / 12219933, 13793177 / 12219933,
        2236049 / 2362265, 2236049 / 2362265, 2236049 / 2362265], [0, 1, 0, 0, 0, 0, 0, 0, 0],
        [(-(12 / 113), -(448 / 565), 3 / 5)], 1⟩ := by
    rw [attachStep_hit sqrt skewA (547971 / 589069, 1204 / 45313, 1908 / 5213) (5213 / 13560) 0
      ⟨[301 / 1130, 13 / 339, 46 / 113, 13793177 / 12219933, 13793177 / 12219933,
        13793177 / 12219933, 2236049 / 2362265, 2236049 / 2362265, 2236049 / 2362265], [0, 0, 0,
        0, 0, 0, 0, 0, 0], [], 0⟩ 1 rfl
      (by norm_num [skewA, dot, ZERO_THRES])
      (by norm_num [skewA, dot, ZERO_THRES])
      (fun h => absurd h.1 (by decide)) (by decide) rfl]
    simp only [skewA, dot, List.getD_cons_zero, List.getD_cons_succ, List.set_cons_zero,
      List.set_cons_succ, List.cons_append, List.nil_append]
    norm_num
  have e2 : attachStep sqrt skewA (547971 / 589069, 1204 / 45313, 1908 / 5213) (5213 / 13560) 0
      ⟨[301 / 1130, 0, 46 / 113, 13793177 / 12219933, 13793177 / 12219933, 13793177 / 12219933,
        2236049 / 2362265, 2236049 / 2362265, 2236049 / 2362265], [0, 1, 0, 0, 0, 0, 0, 0, 0],
        [(-(12 / 113), -(448 / 565), 3 / 5)], 1⟩ 2
      = ⟨[301 / 1130, 0, 301 / 1130, 13793177 / 12219933, 13793177 / 12219933,
        13793177 / 12219933, 2236049 / 2362265, 2236049 / 2362265, 2236049 / 2362265], [0, 1, 0,
        0, 0, 0, 0, 0, 0], [(-(12 / 113), -(448 / 565), 3 / 5)], 1⟩ := by
    rw [attachStep_free sqrt skewA (547971 / 589069, 1204 / 45313, 1908 / 5213) (5213 / 13560) 0
      ⟨[301 / 1130, 0, 46 / 113, 13793177 / 12219933, 13793177 / 12219933, 13793177 / 12219933,
        2236049 / 2362265, 2236049 / 2362265, 2236049 / 2362265], [0, 1, 0, 0, 0, 0, 0, 0, 0],
        [(-(12 / 113), -(448 / 565), 3 / 5)], 1⟩ 2 rfl
      (by norm_num [skewA, dot, ZERO_THRES])]
    simp only [skewA, dot, List.getD_cons_zero, List.getD_cons_succ, List.set_cons_zero,
      List.set_cons_succ, List.cons_append, List.nil_append]
    norm_num
  have e3 : attachStep sqrt skewA (547971 / 589069, 1204 / 45313, 1908 / 5213) (5213 / 13560) 0
      ⟨[301 / 1130, 0, 301 / 1130, 13793177 / 12219933, 13793177 / 12219933, 13793177 / 12219933,
        2236049 / 2362265, 2236049 / 2362265, 2236049 / 2362265], [0, 1, 0, 0, 0, 0, 0, 0, 0],
        [(-(12 / 113), -(448 / 565), 3 / 5)], 1⟩ 3
      = ⟨[301 / 1130, 0, 301 / 1130, 17784818 / 20366555, 13793177 / 12219933,
        13793177 / 12219933, 2236049 / 2362265, 2236049 / 2362265, 2236049 / 2362265], [0, 1, 0,
        0, 0, 0, 0, 0, 0], [(-(12 / 113), -(448 / 565), 3 / 5)], 1⟩ := by
    rw [attachStep_free sqrt skewA (547971 / 589069, 1204 / 45313, 1908 / 5213) (5213 / 13560) 0
      ⟨[301 / 1130, 0, 301 / 1130, 13793177 / 12219933, 13793177 / 12219933, 13793177 / 12219933,
        2236049 / 2362265, 2236049 / 2362265, 2236049 / 2362265], [0, 1, 0, 0, 0, 0, 0, 0, 0],
        [(-(12 / 113), -(448 / 565), 3 / 5)], 1⟩ 3 rfl
      (by norm_num [skewA, dot, ZERO_THRES])]
    simp only [skewA, dot, List.getD_cons_zero, List.getD_cons_succ, List.set_cons_zero,
      List.set_cons_succ, List.cons_append, List.nil_append]
    norm_num
  have e4 : attachStep sqrt skewA (547971 / 589069, 1204 / 45313, 1908 / 5213) (5213 / 13560) 0
      ⟨[301 / 1130, 0, 301 / 1130, 17784818 / 20366555, 13793177 / 12219933, 13793177 / 12219933,
        2236049 / 2362265, 2236049 / 2362265, 2236049 / 2362265], [0, 1, 0, 0, 0, 0, 0, 0, 0],
        [(-(12 / 113), -(448 / 565), 3 / 5)], 1⟩ 4
      = ⟨[301 / 1130, 0, 301 / 1130, 17784818 / 20366555, 17784818 / 20366555,
        13793177 / 12219933, 2236049 / 2362265, 2236049 / 2362265, 2236049 / 2362265], [0, 1, 0,
        0, 0, 0, 0, 0, 0], [(-(12 / 113), -(448 / 565), 3 / 5)], 1⟩ := by
    rw [attachStep_free sqrt skewA (547971 / 589069, 1204 / 45313, 1908 / 5213) (5213 / 13560) 0
      ⟨[301 / 1130, 0, 301 / 1130, 17784818 / 20366555, 13793177 / 12219933, 13793177 / 12219933,
        2236049 / 2362265, 2236049 / 2362265, 2236049 / 2362265], [0, 1, 0, 0, 0, 0, 0, 0, 0],
        [(-(12 / 113), -(448 / 565), 3 / 5)], 1⟩ 4 rfl
      (by norm_num [skewA, dot, ZERO_THRES])]
    simp only [skewA, dot, List.getD_cons_zero, List.getD_cons_succ, List.set_cons_zero,
      List.set_cons_succ, List.cons_append, List.nil_append]
    norm_num
  have e5 : attachStep sqrt skewA (547971 / 589069, 1204 / 45313, 1908 / 5213) (5213 / 13560) 0
      ⟨[301 / 1130, 0, 301 / 1130, 17784818 / 20366555, 17784818 / 20366555, 13793177 / 12219933,
        2236049 / 2362265, 2236049 / 2362265, 2236049 / 2362265], [0, 1, 0, 0, 0, 0, 0, 0, 0],
        [(-(12 / 113), -(448 / 565), 3 / 5)], 1⟩ 5
      = ⟨[301 / 1130, 0, 301 / 1130, 17784818 / 20366555, 17784818 / 20366555,
        17784818 / 20366555, 2236049 / 2362265, 2236049 / 2362265, 2236049 / 2362265], [0, 1, 0,
        0, 0, 0, 0, 0, 0], [(-(12 / 113), -(448 / 565), 3 / 5)], 1⟩ := by
    rw [attachStep_free sqrt skewA (547971 / 589069, 1204 / 45313, 1908 / 5213) (5213 / 13560) 0
      ⟨[301 / 1130, 0, 301 / 1130, 17784818 / 20366555, 17784818 / 20366555, 13793177 / 12219933,
        2236049 / 2362265, 2236049 / 2362265, 2236049 / 2362265], [0, 1, 0, 0, 0, 0, 0, 0, 0],
        [(-(12 / 113), -(448 / 565), 3 / 5)], 1⟩ 5 rfl
      (by norm_num [skewA, dot, ZERO_THRES])]
    simp only [skewA, dot, List.getD_cons_zero, List.getD_cons_succ, List.set_cons_zero,
      List.set_cons_succ, List.cons_append, List.nil_append]
    norm_num
  have e6 : attachStep sqrt skewA (547971 / 589069, 1204 / 45313, 1908 / 5213) (5213 / 13560) 0
      ⟨[301 / 1130, 0, 301 / 1130, 17784818 / 20366555, 17784818 / 20366555, 17784818 / 20366555,
        2236049 / 2362265, 2236049 / 2362265, 2236049 / 2362265], [0, 1, 0, 0, 0, 0, 0, 0, 0],
        [(-(12 / 113), -(448 / 565), 3 / 5)], 1⟩ 6
      = ⟨[301 / 1130, 0, 301 / 1130, 17784818 / 20366555, 17784818 / 20366555,
        17784818 / 20366555, 13605618 / 11811325, 2236049 / 2362265, 2236049 / 2362265], [0, 1, 0,
        0, 0, 0, 0, 0, 0], [(-(12 / 113), -(448 / 565), 3 / 5)], 1⟩ := by
    rw [attachStep_free sqrt skewA (547971 / 589069, 1204 / 45313, 1908 / 5213) (5213 / 13560) 0
      ⟨[301 / 1130, 0, 301 / 1130, 17784818 / 20366555, 17784818 / 20366555, 17784818 / 20366555,
        2236049 / 2362265, 2236049 / 2362265, 2236049 / 2362265], [0, 1, 0, 0, 0, 0, 0, 0, 0],
        [(-(12 / 113), -(448 / 565), 3 / 5)], 1⟩ 6 rfl
      (by norm_num [skewA, dot, ZERO_THRES])]
    simp only [skewA, dot, List.getD_cons_zero, List.getD_cons_succ, List.set_cons_zero,
      List.set_cons_succ, List.cons_append, List.nil_append]
    norm_num
  have e7 : attachStep sqrt skewA (547971 / 589069, 1204 / 45313, 1908 / 5213) (5213 / 13560) 0
      ⟨[301 / 1130, 0, 301 / 1130, 17784818 / 20366555, 17784818 / 20366555, 17784818 / 20366555,
        13605618 / 11811325, 2236049 / 2362265, 2236049 / 2362265], [0, 1, 0, 0, 0, 0, 0, 0, 0],
        [(-(12 / 113), -(448 / 565), 3 / 5)], 1⟩ 7
      = ⟨[301 / 1130, 0, 301 / 1130, 17784818 / 20366555, 17784818 / 20366555,
        17784818 / 20366555, 13605618 / 11811325, 13605618 / 11811325, 2236049 / 2362265], [0, 1,
        0, 0, 0, 0, 0, 0, 0], [(-(12 / 113), -(448 / 565), 3 / 5)], 1⟩ := by
    rw [attachStep_free sqrt skewA (547971 / 589069, 1204 / 45313, 1908 / 5213) (5213 / 13560) 0
      ⟨[301 / 1130, 0, 301 / 1130, 17784818 / 20366555, 17784818 / 20366555, 17784818 / 20366555,
        13605618 / 11811325, 2236049 / 2362265, 2236049 / 2362265], [0, 1, 0, 0, 0, 0, 0, 0, 0],
        [(-(12 / 113), -(448 / 565), 3 / 5)], 1⟩ 7 rfl
      (by norm_num [skewA, dot, ZERO_THRES])]
    simp only [skewA, dot, List.getD_cons_zero, List.getD_cons_succ, List.set_cons_zero,
      List.set_cons_succ, List.cons_append, List.nil_append]
    norm_num
  have e8 : attachStep sqrt skewA (547971 / 589069, 1204 / 45313, 1908 / 5213) (5213 / 13560) 0
      ⟨[301 / 1130, 0, 301 / 1130, 17784818 / 20366555, 17784818 / 20366555, 17784818 / 20366555,
        13605618 / 11811325, 13605618 / 11811325, 2236049 / 2362265], [0, 1, 0, 0, 0, 0, 0, 0, 0],
        [(-(12 / 113), -(448 / 565), 3 / 5)], 1⟩ 8
      = ⟨[301 / 1130, 0, 301 / 1130, 17784818 / 20366555, 17784818 / 20366555,
        17784818 / 20366555, 13605618 / 11811325, 13605618 / 11811325, 13605618 / 11811325], [0,
        1, 0, 0, 0, 0, 0, 0, 0], [(-(12 / 113), -(448 / 565), 3 / 5)], 1⟩ := by
    rw [attachStep_free sqrt skewA (547971 / 589069, 1204 / 45313, 1908 / 5213) (5213 / 13560) 0
      ⟨[301 / 1130, 0, 301 / 1130, 17784818 / 20366555, 17784818 / 20366555, 17784818 / 20366555,
        13605618 / 11811325, 13605618 / 11811325, 2236049 / 2362265], [0, 1, 0, 0, 0, 0, 0, 0, 0],
        [(-(12 / 113), -(448 / 565), 3 / 5)], 1⟩ 8 rfl
      (by norm_num [skewA, dot, ZERO_THRES])]
    simp only [skewA, dot, List.getD_cons_zero, List.getD_cons_succ, List.set_cons_zero,
      List.set_cons_succ, List.cons_append, List.nil_append]
    norm_num
  exact foldl_range_nine (attachStep sqrt skewA (547971 / 589069, 1204 / 45313,
    1908 / 5213) (5213 / 13560) 0)
    ⟨[46 / 113, 13 / 339, 46 / 113, 13793177 / 12219933, 13793177 / 12219933, 13793177 / 12219933,
      2236049 / 2362265, 2236049 / 2362265, 2236049 / 2362265], [0, 0, 0, 0, 0, 0, 0, 0, 0], [],
      0⟩
    ⟨[301 / 1130, 13 / 339, 46 / 113, 13793177 / 12219933, 13793177 / 12219933,
      13793177 / 12219933, 2236049 / 2362265, 2236049 / 2362265, 2236049 / 2362265], [0, 0, 0, 0,
      0, 0, 0, 0, 0], [], 0⟩
    ⟨[301 / 1130, 0, 46 / 113, 13793177 / 12219933, 13793177 / 12219933, 13793177 / 12219933,
      2236049 / 2362265, 2236049 / 2362265, 2236049 / 2362265], [0, 1, 0, 0, 0, 0, 0, 0, 0],
      [(-(12 / 113), -(448 / 565), 3 / 5)], 1⟩
    ⟨[301 / 1130, 0, 301 / 1130, 13793177 / 12219933, 13793177 / 12219933, 13793177 / 12219933,
      2236049 / 2362265, 2236049 / 2362265, 2236049 / 2362265], [0, 1, 0, 0, 0, 0, 0, 0, 0],
      [(-(12 / 113), -(448 / 565), 3 / 5)], 1⟩
    ⟨[301 / 1130, 0, 301 / 1130, 17784818 / 20366555, 13793177 / 12219933, 13793177 / 12219933,
      2236049 / 2362265, 2236049 / 2362265, 2236049 / 2362265], [0, 1, 0, 0, 0, 0, 0, 0, 0],
      [(-(12 / 113), -(448 / 565), 3 / 5)], 1⟩
    ⟨[301 / 1130, 0, 301 / 1130, 17784818 / 20366555, 17784818 / 20366555, 13793177 / 12219933,
      2236049 / 2362265, 2236049 / 2362265, 2236049 / 2362265], [0, 1, 0, 0, 0, 0, 0, 0, 0],
      [(-(12 / 113), -(448 / 565), 3 / 5)], 1⟩
    ⟨[301 / 1130, 0, 301 / 1130, 17784818 / 20366555, 17784818 / 20366555, 17784818 / 20366555,
      2236049 / 2362265, 2236049 / 2362265, 2236049 / 2362265], [0, 1, 0, 0, 0, 0, 0, 0, 0],
      [(-(12 / 113), -(448 / 565), 3 / 5)], 1⟩
    ⟨[301 / 1130, 0, 301 / 1130, 17784818 / 20366555, 17784818 / 20366555, 17784818 / 20366555,
      13605618 / 11811325, 2236049 / 2362265, 2236049 / 2362265], [0, 1, 0, 0, 0, 0, 0, 0, 0],
      [(-(12 / 113), -(448 / 565), 3 / 5)], 1⟩
    ⟨[301 / 1130, 0, 301 / 1130, 17784818 / 20366555, 17784818 / 20366555, 17784818 / 20366555,
      13605618 / 11811325, 13605618 / 11811325, 2236049 / 2362265], [0, 1, 0, 0, 0, 0, 0, 0, 0],
      [(-(12 / 113), -(448 / 565), 3 / 5)], 1⟩
    ⟨[301 / 1130, 0, 301 / 1130, 17784818 / 20366555, 17784818 / 20366555, 17784818 / 20366555,
      13605618 / 11811325, 13605618 / 11811325, 13605618 / 11811325], [0, 1, 0, 0, 0, 0, 0, 0, 0],
      [(-(12 / 113), -(448 / 565), 3 / 5)], 1⟩
    e0 e1 e2 e3 e4 e5 e6 e7 e8

theorem skew_pass0 (sqrt : ℚ → ℚ) (hsqrt : ∀ r : ℚ, 0 ≤ r → sqrt (r * r) = r) :
    positionPass sqrt skewA skewTarget
      ⟨(-(182657 / 51076), -(3913 / 38307), -(159 / 113)), [46 / 113, 13 / 339, 46 / 113,
        13793177 / 12219933, 13793177 / 12219933, 13793177 / 12219933, 2236049 / 2362265,
        2236049 / 2362265, 2236049 / 2362265], [0, 0, 0, 0, 0, 0, 0, 0, 0], [], []⟩
      = Flow.next ⟨(-(1643913 / 510760), -(11739 / 127690), -(1431 / 1130)), [301 / 1130, 0,
        301 / 1130, 17784818 / 20366555, 17784818 / 20366555, 17784818 / 20366555,
        13605618 / 11811325, 13605618 / 11811325, 13605618 / 11811325], [0, 1, 0, 0, 0, 0, 0, 0,
        0], [(-(12 / 113), -(448 / 565), 3 / 5)], [((547971 / 589069, 1204 / 45313, 1908 / 5213),
        5213 / 13560)]⟩ := by
  have hoff : vsub skewTarget ((-(182657 / 51076), -(3913 / 38307),
      -(159 / 113)) : Vector3 ℚ) = (182657 / 51076, 3913 / 38307, 159 / 113) := by
    simp only [skewTarget, vsub]
    norm_num
  have hn : norm sqrt (vsub skewTarget ((-(182657 / 51076), -(3913 / 38307),
      -(159 / 113)) : Vector3 ℚ)) = 5213 / 1356 := by
    rw [hoff]
    exact norm_of_sq sqrt hsqrt _ _ (by norm_num) (by simp only [dot]; norm_num)
  have hZ : ¬ ((5213 / 1356 : ℚ) < ZERO_THRES ℚ) := by norm_num [ZERO_THRES]
  have hdir : vdiv ((182657 / 51076, 3913 / 38307,
      159 / 113) : Vector3 ℚ) (5213 / 1356) = (547971 / 589069, 1204 / 45313, 1908 / 5213) := by
    simp only [vdiv]
    norm_num
  have hproj : projectStep sqrt [] (vdiv (vsub skewTarget ((-(182657 / 51076), -(3913 / 38307),
      -(159 / 113)) : Vector3 ℚ)) (5213 / 1356)) (5213 / 1356)
      = some ([], (547971 / 589069, 1204 / 45313, 1908 / 5213), 5213 / 1356) := by
    rw [hoff, hdir]
    rfl
  have hlim : limitStep skewA [46 / 113, 13 / 339, 46 / 113, 13793177 / 12219933,
      13793177 / 12219933, 13793177 / 12219933, 2236049 / 2362265, 2236049 / 2362265,
      2236049 / 2362265] [0, 0, 0, 0, 0, 0, 0, 0, 0] (547971 / 589069, 1204 / 45313,
      1908 / 5213) (5213 / 1356)
      = 5213 / 13560 := by
    norm_num [limitStep, List.range_succ, skewA, dot, ZERO_THRES]
  have hc : ¬ ((5213 / 13560 : ℚ) < 1 / 1000000) := by norm_num
  have hpos : vadd ((-(182657 / 51076), -(3913 / 38307),
      -(159 / 113)) : Vector3 ℚ) (vscale (5213 / 13560) (547971 / 589069, 1204 / 45313,
      1908 / 5213))
      = (-(1643913 / 510760), -(11739 / 127690), -(1431 / 1130)) := by
    simp only [vadd, vscale]
    norm_num
  have hne : (5213 / 13560 : ℚ) ≠ 5213 / 1356 := by norm_num
  rw [positionPass_eval_next sqrt skewA skewTarget
    ⟨(-(182657 / 51076), -(3913 / 38307), -(159 / 113)), [46 / 113, 13 / 339, 46 / 113,
      13793177 / 12219933, 13793177 / 12219933, 13793177 / 12219933, 2236049 / 2362265,
      2236049 / 2362265, 2236049 / 2362265], [0, 0, 0, 0, 0, 0, 0, 0, 0], [], []⟩
    (5213 / 1356) [] (547971 / 589069, 1204 / 45313, 1908 / 5213) (5213 / 1356) (5213 / 13560)
    ⟨[301 / 1130, 0, 301 / 1130, 17784818 / 20366555, 17784818 / 20366555, 17784818 / 20366555,
      13605618 / 11811325, 13605618 / 11811325, 13605618 / 11811325], [0, 1, 0, 0, 0, 0, 0, 0, 0],
      [(-(12 / 113), -(448 / 565), 3 / 5)], 1⟩
    hn hZ hproj hlim hc hne (skew_attach0 sqrt)]
  simp only [hpos, List.nil_append, List.cons_append]

theorem skew_attach1 (sqrt : ℚ → ℚ) (hsqrt : ∀ r : ℚ, 0 ≤ r → sqrt (r * r) = r) :
    (List.range 9).foldl (attachStep sqrt skewA (1389 / 1469, 12 / 113, 4 / 13) (3913 / 4520) 1)
      ⟨[301 / 1130, 0, 301 / 1130, 17784818 / 20366555, 17784818 / 20366555, 17784818 / 20366555,
        13605618 / 11811325, 13605618 / 11811325, 13605618 / 11811325], [0, 1, 0, 0, 0, 0, 0, 0,
        0], [(-(12 / 113), -(448 / 565), 3 / 5)], 0⟩
      = ⟨[0, 0, 0, 16 / 55, 16 / 55, 16 / 55, 1468 / 925, 1468 / 925, 1468 / 925], [1, 1, 0, 0, 0,
        0, 0, 0, 0], [(-(12 / 113), -(448 / 565), 3 / 5), (0, 0, 1)], 1⟩ := by
  have e0 : attachStep sqrt skewA (1389 / 1469, 12 / 113, 4 / 13) (3913 / 4520) 1
      ⟨[301 / 1130, 0, 301 / 1130, 17784818 / 20366555, 17784818 / 20366555, 17784818 / 20366555,
        13605618 / 11811325, 13605618 / 11811325, 13605618 / 11811325], [0, 1, 0, 0, 0, 0, 0, 0,
        0], [(-(12 / 113), -(448 / 565), 3 / 5)], 0⟩ 0
      = ⟨[0, 0, 301 / 1130, 17784818 / 20366555, 17784818 / 20366555, 17784818 / 20366555,
        13605618 / 11811325, 13605618 / 11811325, 13605618 / 11811325], [1, 1, 0, 0, 0, 0, 0, 0,
        0], [(-(12 / 113), -(448 / 565), 3 / 5), (0, 0, 1)], 1⟩ := by
    have hcr : norm sqrt (cross ((-(12 / 113), -(448 / 565), 3 / 5) : Vector3 ℚ) (0, 0,
        1)) = 4 / 5 :=
      norm_of_sq sqrt hsqrt _ _ (by norm_num) (by simp only [cross, dot]; norm_num)
    have hdep : ¬ (1 = 1 ∧ norm sqrt (cross ((-(12 / 113), -(448 / 565), 3 / 5) : Vector3 ℚ) (0,
        0, 1)) < ZERO_THRES ℚ) := by
      rw [hcr]
      norm_num [ZERO_THRES]
    rw [attachStep_hit sqrt skewA (1389 / 1469, 12 / 113, 4 / 13) (3913 / 4520) 1
      ⟨[301 / 1130, 0, 301 / 1130, 17784818 / 20366555, 17784818 / 20366555, 17784818 / 20366555,
        13605618 / 11811325, 13605618 / 11811325, 13605618 / 11811325], [0, 1, 0, 0, 0, 0, 0, 0,
        0], [(-(12 / 113), -(448 / 565), 3 / 5)], 0⟩ 0 rfl
      (by norm_num [skewA, dot, ZERO_THRES])
      (by norm_num [skewA, dot, ZERO_THRES])
      hdep (by decide) rfl]
    simp only [skewA, dot, List.getD_cons_zero, List.getD_cons_succ, List.set_cons_zero,
      List.set_cons_succ, List.cons_append, List.nil_append]
    norm_num
  have e1 : attachStep sqrt skewA (1389 / 1469, 12 / 113, 4 / 13) (3913 / 4520) 1
      ⟨[0, 0, 301 / 1130, 17784818 / 20366555, 17784818 / 20366555, 17784818 / 20366555,
        13605618 / 11811325, 13605618 / 11811325, 13605618 / 11811325], [1, 1, 0, 0, 0, 0, 0, 0,
        0], [(-(12 / 113), -(448 / 565), 3 / 5), (0, 0, 1)], 1⟩ 1
      = ⟨[0, 0, 301 / 1130, 17784818 / 20366555, 17784818 / 20366555, 17784818 / 20366555,
        13605618 / 11811325, 13605618 / 11811325, 13605618 / 11811325], [1, 1, 0, 0, 0, 0, 0, 0,
        0], [(-(12 / 113), -(448 / 565), 3 / 5), (0, 0, 1)], 1⟩ := by
    exact attachStep_skip sqrt skewA (1389 / 1469, 12 / 113, 4 / 13) (3913 / 4520) 1
      ⟨[0, 0, 301 / 1130, 17784818 / 20366555, 17784818 / 20366555, 17784818 / 20366555,
        13605618 / 11811325, 13605618 / 11811325, 13605618 / 11811325], [1, 1, 0, 0, 0, 0, 0, 0,
        0], [(-(12 / 113), -(448 / 565), 3 / 5), (0, 0, 1)], 1⟩ 1 (by decide)
  have e2 : attachStep sqrt skewA (1389 / 1469, 12 / 113, 4 / 13) (3913 / 4520) 1
      ⟨[0, 0, 301 / 1130, 17784818 / 20366555, 17784818 / 20366555, 17784818 / 20366555,
        13605618 / 11811325, 13605618 / 11811325, 13605618 / 11811325], [1, 1, 0, 0, 0, 0, 0, 0,
        0], [(-(12 / 113), -(448 / 565), 3 / 5), (0, 0, 1)], 1⟩ 2
      = ⟨[0, 0, 0, 17784818 / 20366555, 17784818 / 20366555, 17784818 / 20366555,
        13605618 / 11811325, 13605618 / 11811325, 13605618 / 11811325], [1, 1, 0, 0, 0, 0, 0, 0,
        0], [(-(12 / 113), -(448 / 565), 3 / 5), (0, 0, 1)], 1⟩ := by
    have hcr : norm sqrt (cross ((-(12 / 113), -(448 / 565), 3 / 5) : Vector3 ℚ) (0, 0,
        1)) = 4 / 5 :=
      norm_of_sq sqrt hsqrt _ _ (by norm_num) (by simp only [cross, dot]; norm_num)
    have hdep : ¬ (1 = 1 ∧ norm sqrt (cross ((-(12 / 113), -(448 / 565), 3 / 5) : Vector3 ℚ) (0,
        0, 1)) < ZERO_THRES ℚ) := by
      rw [hcr]
      norm_num [ZERO_THRES]
    rw [attachStep_late sqrt skewA (1389 / 1469, 12 / 113, 4 / 13) (3913 / 4520) 1
      ⟨[0, 0, 301 / 1130, 17784818 / 20366555, 17784818 / 20366555, 17784818 / 20366555,
        13605618 / 11811325, 13605618 / 11811325, 13605618 / 11811325], [1, 1, 0, 0, 0, 0, 0, 0,
        0], [(-(12 / 113), -(448 / 565), 3 / 5), (0, 0, 1)], 1⟩ 2 rfl
      hdep (by decide) (by decide)]
    simp only [skewA, dot, List.getD_cons_zero, List.getD_cons_succ, List.set_cons_zero,
      List.set_cons_succ, List.cons_append, List.nil_append]
    norm_num
  have e3 : attachStep sqrt skewA (1389 / 1469, 12 / 113, 4 / 13) (3913 / 4520) 1
      ⟨[0, 0, 0, 17784818 / 20366555, 17784818 / 20366555, 17784818 / 20366555,
        13605618 / 11811325, 13605618 / 11811325, 13605618 / 11811325], [1, 1, 0, 0, 0, 0, 0, 0,
        0], [(-(12 / 113), -(448 / 565), 3 / 5), (0, 0, 1)], 1⟩ 3
      = ⟨[0, 0, 0, 16 / 55, 17784818 / 20366555, 17784818 / 20366555, 13605618 / 11811325,
        13605618 / 11811325, 13605618 / 11811325], [1, 1, 0, 0, 0, 0, 0, 0, 0], [(-(12 / 113),
        -(448 / 565), 3 / 5), (0, 0, 1)], 1⟩ := by
    rw [attachStep_free sqrt skewA (1389 / 1469, 12 / 113, 4 / 13) (3913 / 4520) 1
      ⟨[0, 0, 0, 17784818 / 20366555, 17784818 / 20366555, 17784818 / 20366555,
        13605618 / 11811325, 13605618 / 11811325, 13605618 / 11811325], [1, 1, 0, 0, 0, 0, 0, 0,
        0], [(-(12 / 113), -(448 / 565), 3 / 5), (0, 0, 1)], 1⟩ 3 rfl
      (by norm_num [skewA, dot, ZERO_THRES])]
    simp only [skewA, dot, List.getD_cons_zero, List.getD_cons_succ, List.set_cons_zero,
      List.set_cons_succ, List.cons_append, List.nil_append]
    norm_num
  have e4 : attachStep sqrt skewA (1389 / 1469, 12 / 113, 4 / 13) (3913 / 4520) 1
      ⟨[0, 0, 0, 16 / 55, 17784818 / 20366555, 17784818 / 20366555, 13605618 / 11811325,
        13605618 / 11811325, 13605618 / 11811325], [1, 1, 0, 0, 0, 0, 0, 0, 0], [(-(12 / 113),
        -(448 / 565), 3 / 5), (0, 0, 1)], 1⟩ 4
      = ⟨[0, 0, 0, 16 / 55, 16 / 55, 17784818 / 20366555, 13605618 / 11811325,
        13605618 / 11811325, 13605618 / 11811325], [1, 1, 0, 0, 0, 0, 0, 0, 0], [(-(12 / 113),
        -(448 / 565), 3 / 5), (0, 0, 1)], 1⟩ := by
    rw [attachStep_free sqrt skewA (1389 / 1469, 12 / 113, 4 / 13) (3913 / 4520) 1
      ⟨[0, 0, 0, 16 / 55, 17784818 / 20366555, 17784818 / 20366555, 13605618 / 11811325,
        13605618 / 11811325, 13605618 / 11811325], [1, 1, 0, 0, 0, 0, 0, 0, 0], [(-(12 / 113),
        -(448 / 565), 3 / 5), (0, 0, 1)], 1⟩ 4 rfl
      (by norm_num [skewA, dot, ZERO_THRES])]
    simp only [skewA, dot, List.getD_cons_zero, List.getD_cons_succ, List.set_cons_zero,
      List.set_cons_succ, List.cons_append, List.nil_append]
    norm_num
  have e5 : attachStep sqrt skewA (1389 / 1469, 12 / 113, 4 / 13) (3913 / 4520) 1
      ⟨[0, 0, 0, 16 / 55, 16 / 55, 17784818 / 20366555, 13605618 / 11811325, 13605618 / 11811325,
        13605618 / 11811325], [1, 1, 0, 0, 0, 0, 0, 0, 0], [(-(12 / 113), -(448 / 565), 3 / 5),
        (0, 0, 1)], 1⟩ 5
      = ⟨[0, 0, 0, 16 / 55, 16 / 55, 16 / 55, 13605618 / 11811325, 13605618 / 11811325,
        13605618 / 11811325], [1, 1, 0, 0, 0, 0, 0, 0, 0], [(-(12 / 113), -(448 / 565), 3 / 5),
        (0, 0, 1)], 1⟩ := by
    rw [attachStep_free sqrt skewA (1389 / 1469, 12 / 113, 4 / 13) (3913 / 4520) 1
      ⟨[0, 0, 0, 16 / 55, 16 / 55, 17784818 / 20366555, 13605618 / 11811325, 13605618 / 11811325,
        13605618 / 11811325], [1, 1, 0, 0, 0, 0, 0, 0, 0], [(-(12 / 113), -(448 / 565), 3 / 5),
        (0, 0, 1)], 1⟩ 5 rfl
      (by norm_num [skewA, dot, ZERO_THRES])]
    simp only [skewA, dot, List.getD_cons_zero, List.getD_cons_succ, List.set_cons_zero,
      List.set_cons_succ, List.cons_append, List.nil_append]
    norm_num
  have e6 : attachStep sqrt skewA (1389 / 1469, 12 / 113, 4 / 13) (3913 / 4520) 1
      ⟨[0, 0, 0, 16 / 55, 16 / 55, 16 / 55, 13605618 / 11811325, 13605618 / 11811325,
        13605618 / 11811325], [1, 1, 0, 0, 0, 0, 0, 0, 0], [(-(12 / 113), -(448 / 565), 3 / 5),
        (0, 0, 1)], 1⟩ 6
      = ⟨[0, 0, 0, 16 / 55, 16 / 55, 16 / 55, 1468 / 925, 13605618 / 11811325,
        13605618 / 11811325], [1, 1, 0, 0, 0, 0, 0, 0, 0], [(-(12 / 113), -(448 / 565), 3 / 5),
        (0, 0, 1)], 1⟩ := by
    rw [attachStep_free sqrt skewA (1389 / 1469, 12 / 113, 4 / 13) (3913 / 4520) 1
      ⟨[0, 0, 0, 16 / 55, 16 / 55, 16 / 55, 13605618 / 11811325, 13605618 / 11811325,
        13605618 / 11811325], [1, 1, 0, 0, 0, 0, 0, 0, 0], [(-(12 / 113), -(448 / 565), 3 / 5),
        (0, 0, 1)], 1⟩ 6 rfl
      (by norm_num [skewA, dot, ZERO_THRES])]
    simp only [skewA, dot, List.getD_cons_zero, List.getD_cons_succ, List.set_cons_zero,
      List.set_cons_succ, List.cons_append, List.nil_append]
    norm_num
  have e7 : attachStep sqrt skewA (1389 / 1469, 12 / 113, 4 / 13) (3913 / 4520) 1
      ⟨[0, 0, 0, 16 / 55, 16 / 55, 16 / 55, 1468 / 925, 13605618 / 11811325, 13605618 / 11811325],
        [1, 1, 0, 0, 0, 0, 0, 0, 0], [(-(12 / 113), -(448 / 565), 3 / 5), (0, 0, 1)], 1⟩ 7
      = ⟨[0, 0, 0, 16 / 55, 16 / 55, 16 / 55, 1468 / 925, 1468 / 925, 13605618 / 11811325], [1, 1,
        0, 0, 0, 0, 0, 0, 0], [(-(12 / 113), -(448 / 565), 3 / 5), (0, 0, 1)], 1⟩ := by
    rw [attachStep_free sqrt skewA (1389 / 1469, 12 / 113, 4 / 13) (3913 / 4520) 1
      ⟨[0, 0, 0, 16 / 55, 16 / 55, 16 / 55, 1468 / 925, 13605618 / 11811325, 13605618 / 11811325],
        [1, 1, 0, 0, 0, 0, 0, 0, 0], [(-(12 / 113), -(448 / 565), 3 / 5), (0, 0, 1)], 1⟩ 7 rfl
      (by norm_num [skewA, dot, ZERO_THRES])]
    simp only [skewA, dot, List.getD_cons_zero, List.getD_cons_succ, List.set_cons_zero,
      List.set_cons_succ, List.cons_append, List.nil_append]
    norm_num
  have e8 : attachStep sqrt skewA (1389 / 1469, 12 / 113, 4 / 13) (3913 / 4520) 1
      ⟨[0, 0, 0, 16 / 55, 16 / 55, 16 / 55, 1468 / 925, 1468 / 925, 13605618 / 11811325], [1, 1,
        0, 0, 0, 0, 0, 0, 0], [(-(12 / 113), -(448 / 565), 3 / 5), (0, 0, 1)], 1⟩ 8
      = ⟨[0, 0, 0, 16 / 55, 16 / 55, 16 / 55, 1468 / 925, 1468 / 925, 1468 / 925], [1, 1, 0, 0, 0,
        0, 0, 0, 0], [(-(12 / 113), -(448 / 565), 3 / 5), (0, 0, 1)], 1⟩ := by
    rw [attachStep_free sqrt skewA (1389 / 1469, 12 / 113, 4 / 13) (3913 / 4520) 1
      ⟨[0, 0, 0, 16 / 55, 16 / 55, 16 / 55, 1468 / 925, 1468 / 925, 13605618 / 11811325], [1, 1,
        0, 0, 0, 0, 0, 0, 0], [(-(12 / 113), -(448 / 565), 3 / 5), (0, 0, 1)], 1⟩ 8 rfl
      (by norm_num [skewA, dot, ZERO_THRES])]
    simp only [skewA, dot, List.getD_cons_zero, List.getD_cons_succ, List.set_cons_zero,
      List.set_cons_succ, List.cons_append, List.nil_append]
    norm_num
  exact foldl_range_nine (attachStep sqrt skewA (1389 / 1469, 12 / 113, 4 / 13) (3913 / 4520) 1)
    ⟨[301 / 1130, 0, 301 / 1130, 17784818 / 20366555, 17784818 / 20366555, 17784818 / 20366555,
      13605618 / 11811325, 13605618 / 11811325, 13605618 / 11811325], [0, 1, 0, 0, 0, 0, 0, 0, 0],
      [(-(12 / 113), -(448 / 565), 3 / 5)], 0⟩
    ⟨[0, 0, 301 / 1130, 17784818 / 20366555, 17784818 / 20366555, 17784818 / 20366555,
      13605618 / 11811325, 13605618 / 11811325, 13605618 / 11811325], [1, 1, 0, 0, 0, 0, 0, 0, 0],
      [(-(12 / 113), -(448 / 565), 3 / 5), (0, 0, 1)], 1⟩
    ⟨[0, 0, 301 / 1130, 17784818 / 20366555, 17784818 / 20366555, 17784818 / 20366555,
      13605618 / 11811325, 13605618 / 11811325, 13605618 / 11811325], [1, 1, 0, 0, 0, 0, 0, 0, 0],
      [(-(12 / 113), -(448 / 565), 3 / 5), (0, 0, 1)], 1⟩
    ⟨[0, 0, 0, 17784818 / 20366555, 17784818 / 20366555, 17784818 / 20366555, 13605618 / 11811325,
      13605618 / 11811325, 13605618 / 11811325], [1, 1, 0, 0, 0, 0, 0, 0, 0], [(-(12 / 113),
      -(448 / 565), 3 / 5), (0, 0, 1)], 1⟩
    ⟨[0, 0, 0, 16 / 55, 17784818 / 20366555, 17784818 / 20366555, 13605618 / 11811325,
      13605618 / 11811325, 13605618 / 11811325], [1, 1, 0, 0, 0, 0, 0, 0, 0], [(-(12 / 113),
      -(448 / 565), 3 / 5), (0, 0, 1)], 1⟩
    ⟨[0, 0, 0, 16 / 55, 16 / 55, 17784818 / 20366555, 13605618 / 11811325, 13605618 / 11811325,
      13605618 / 11811325], [1, 1, 0, 0, 0, 0, 0, 0, 0], [(-(12 / 113), -(448 / 565), 3 / 5), (0,
      0, 1)], 1⟩
    ⟨[0, 0, 0, 16 / 55, 16 / 55, 16 / 55, 13605618 / 11811325, 13605618 / 11811325,
      13605618 / 11811325], [1, 1, 0, 0, 0, 0, 0, 0, 0], [(-(12 / 113), -(448 / 565), 3 / 5), (0,
      0, 1)], 1⟩
    ⟨[0, 0, 0, 16 / 55, 16 / 55, 16 / 55, 1468 / 925, 13605618 / 11811325, 13605618 / 11811325],
      [1, 1, 0, 0, 0, 0, 0, 0, 0], [(-(12 / 113), -(448 / 565), 3 / 5), (0, 0, 1)], 1⟩
    ⟨[0, 0, 0, 16 / 55, 16 / 55, 16 / 55, 1468 / 925, 1468 / 925, 13605618 / 11811325], [1, 1, 0,
      0, 0, 0, 0, 0, 0], [(-(12 / 113), -(448 / 565), 3 / 5), (0, 0, 1)], 1⟩
    ⟨[0, 0, 0, 16 / 55, 16 / 55, 16 / 55, 1468 / 925, 1468 / 925, 1468 / 925], [1, 1, 0, 0, 0, 0,
      0, 0, 0], [(-(12 / 113), -(448 / 565), 3 / 5), (0, 0, 1)], 1⟩
    e0 e1 e2 e3 e4 e5 e6 e7 e8

theorem skew_pass1 (sqrt : ℚ → ℚ) (hsqrt : ∀ r : ℚ, 0 ≤ r → sqrt (r * r) = r) :
    positionPass sqrt skewA skewTarget
      ⟨(-(1643913 / 510760), -(11739 / 127690), -(1431 / 1130)), [301 / 1130, 0, 301 / 1130,
        17784818 / 20366555, 17784818 / 20366555, 17784818 / 20366555, 13605618 / 11811325,
        13605618 / 11811325, 13605618 / 11811325], [0, 1, 0, 0, 0, 0, 0, 0, 0], [(-(12 / 113),
        -(448 / 565), 3 / 5)], [((547971 / 589069, 1204 / 45313, 1908 / 5213), 5213 / 13560)]⟩
      = Flow.next ⟨(-(12 / 5), 0, -1), [0, 0, 0, 16 / 55, 16 / 55, 16 / 55, 1468 / 925,
        1468 / 925, 1468 / 925], [1, 1, 0, 0, 0, 0, 0, 0, 0], [(-(12 / 113), -(448 / 565), 3 / 5),
        (0, 0, 1)], [((547971 / 589069, 1204 / 45313, 1908 / 5213), 5213 / 13560), ((1389 / 1469,
        12 / 113, 4 / 13), 3913 / 4520)]⟩ := by
  have hoff : vsub skewTarget ((-(1643913 / 510760), -(11739 / 127690),
      -(1431 / 1130)) : Vector3 ℚ) = (1643913 / 510760, 11739 / 127690, 1431 / 1130) := by
    simp only [skewTarget, vsub]
    norm_num
  have hn : norm sqrt (vsub skewTarget ((-(1643913 / 510760), -(11739 / 127690),
      -(1431 / 1130)) : Vector3 ℚ)) = 15639 / 4520 := by
    rw [hoff]
    exact norm_of_sq sqrt hsqrt _ _ (by norm_num) (by simp only [dot]; norm_num)
  have hZ : ¬ ((15639 / 4520 : ℚ) < ZERO_THRES ℚ) := by norm_num [ZERO_THRES]
  have hdir : vdiv ((1643913 / 510760, 11739 / 127690,
      1431 / 1130) : Vector3 ℚ) (15639 / 4520) = (547971 / 589069, 1204 / 45313,
      1908 / 5213) := by
    simp only [vdiv]
    norm_num
  have hproj : projectStep sqrt [(-(12 / 113), -(448 / 565),
      3 / 5)] (vdiv (vsub skewTarget ((-(1643913 / 510760), -(11739 / 127690),
      -(1431 / 1130)) : Vector3 ℚ)) (15639 / 4520)) (15639 / 4520)
      = some ([(-(12 / 113), -(448 / 565), 3 / 5)], (1389 / 1469, 12 / 113, 4 / 13),
        15561 / 4520) := by
    rw [hoff, hdir]
    have ht : vsub ((547971 / 589069, 1204 / 45313,
        1908 / 5213) : Vector3 ℚ) (vscale (dot ((547971 / 589069, 1204 / 45313,
        1908 / 5213) : Vector3 ℚ) (-(12 / 113), -(448 / 565), 3 / 5)) (-(12 / 113), -(448 / 565),
        3 / 5))
        = (554211 / 589069, 4788 / 45313, 1596 / 5213) := by
      simp only [dot, vscale, vsub]
      norm_num
    have hn1 : norm sqrt ((554211 / 589069, 4788 / 45313, 1596 / 5213) : Vector3 ℚ) = 399 / 401 :=
      norm_of_sq sqrt hsqrt _ _ (by norm_num) (by simp only [dot]; norm_num)
    have hZ1 : ¬ ((399 / 401 : ℚ) < ZERO_THRES ℚ) := by norm_num [ZERO_THRES]
    have hd1 : vdiv ((554211 / 589069, 4788 / 45313,
        1596 / 5213) : Vector3 ℚ) (399 / 401) = (1389 / 1469, 12 / 113, 4 / 13) := by
      simp only [vdiv]
      norm_num
    have hb : boundaryOf [((-(12 / 113), -(448 / 565), 3 / 5) : Vector3 ℚ)] (1389 / 1469,
        12 / 113, 4 / 13) = [(-(12 / 113), -(448 / 565), 3 / 5)] := by
      simp only [boundaryOf, List.filter_cons, List.filter_nil, dot]
      norm_num
    rw [projectStep_one sqrt [(-(12 / 113), -(448 / 565), 3 / 5)] (-(12 / 113), -(448 / 565),
        3 / 5) (-(12 / 113), -(448 / 565), 3 / 5) (547971 / 589069, 1204 / 45313,
        1908 / 5213) (554211 / 589069, 4788 / 45313, 1596 / 5213) (1389 / 1469, 12 / 113,
        4 / 13) (15639 / 4520) (399 / 401) rfl ht hn1 hZ1 hd1 hb]
    norm_num
  have hlim : limitStep skewA [301 / 1130, 0, 301 / 1130, 17784818 / 20366555,
      17784818 / 20366555, 17784818 / 20366555, 13605618 / 11811325, 13605618 / 11811325,
      13605618 / 11811325] [0, 1, 0, 0, 0, 0, 0, 0, 0] (1389 / 1469, 12 / 113,
      4 / 13) (15561 / 4520)
      = 3913 / 4520 := by
    norm_num [limitStep, List.range_succ, skewA, dot, ZERO_THRES]
  have hc : ¬ ((3913 / 4520 : ℚ) < 1 / 1000000) := by norm_num
  have hpos : vadd ((-(1643913 / 510760), -(11739 / 127690),
      -(1431 / 1130)) : Vector3 ℚ) (vscale (3913 / 4520) (1389 / 1469, 12 / 113, 4 / 13))
      = (-(12 / 5), 0, -1) := by
    simp only [vadd, vscale]
    norm_num
  have hne : (3913 / 4520 : ℚ) ≠ 15561 / 4520 := by norm_num
  rw [positionPass_eval_next sqrt skewA skewTarget
    ⟨(-(1643913 / 510760), -(11739 / 127690), -(1431 / 1130)), [301 / 1130, 0, 301 / 1130,
      17784818 / 20366555, 17784818 / 20366555, 17784818 / 20366555, 13605618 / 11811325,
      13605618 / 11811325, 13605618 / 11811325], [0, 1, 0, 0, 0, 0, 0, 0, 0], [(-(12 / 113),
      -(448 / 565), 3 / 5)], [((547971 / 589069, 1204 / 45313, 1908 / 5213), 5213 / 13560)]⟩
    (15639 / 4520) [(-(12 / 113), -(448 / 565), 3 / 5)] (1389 / 1469, 12 / 113,
      4 / 13) (15561 / 4520) (3913 / 4520)
    ⟨[0, 0, 0, 16 / 55, 16 / 55, 16 / 55, 1468 / 925, 1468 / 925, 1468 / 925], [1, 1, 0, 0, 0, 0,
      0, 0, 0], [(-(12 / 113), -(448 / 565), 3 / 5), (0, 0, 1)], 1⟩
    hn hZ hproj hlim hc hne (skew_attach1 sqrt hsqrt)]
  simp only [hpos, List.nil_append, List.cons_append]

theorem skew_attach2 (sqrt : ℚ → ℚ) (hsqrt : ∀ r : ℚ, 0 ≤ r → sqrt (r * r) = r) :
    (List.range 9).foldl (attachStep sqrt skewA (1, 0, 0) (116 / 165) 1)
      ⟨[0, 0, 0, 16 / 55, 16 / 55, 16 / 55, 1468 / 925, 1468 / 925, 1468 / 925], [1, 1, 0, 0, 0,
        0, 0, 0, 0], [(0, 0, 1)], 0⟩
      = ⟨[0, 0, 0, 0, 0, 0, 3508 / 2035, 3508 / 2035, 3508 / 2035], [1, 1, 0, 1, 0, 0, 0, 0, 0],
        [(0, 0, 1), (12 / 29, 16 / 29, 21 / 29)], 1⟩ := by
  have e0 : attachStep sqrt skewA (1, 0, 0) (116 / 165) 1
      ⟨[0, 0, 0, 16 / 55, 16 / 55, 16 / 55, 1468 / 925, 1468 / 925, 1468 / 925], [1, 1, 0, 0, 0,
        0, 0, 0, 0], [(0, 0, 1)], 0⟩ 0
      = ⟨[0, 0, 0, 16 / 55, 16 / 55, 16 / 55, 1468 / 925, 1468 / 925, 1468 / 925], [1, 1, 0, 0, 0,
        0, 0, 0, 0], [(0, 0, 1)], 0⟩ := by
    exact attachStep_skip sqrt skewA (1, 0, 0) (116 / 165) 1
      ⟨[0, 0, 0, 16 / 55, 16 / 55, 16 / 55, 1468 / 925, 1468 / 925, 1468 / 925], [1, 1, 0, 0, 0,
        0, 0, 0, 0], [(0, 0, 1)], 0⟩ 0 (by decide)
  have e1 : attachStep sqrt skewA (1, 0, 0) (116 / 165) 1
      ⟨[0, 0, 0, 16 / 55, 16 / 55, 16 / 55, 1468 / 925, 1468 / 925, 1468 / 925], [1, 1, 0, 0, 0,
        0, 0, 0, 0], [(0, 0, 1)], 0⟩ 1
      = ⟨[0, 0, 0, 16 / 55, 16 / 55, 16 / 55, 1468 / 925, 1468 / 925, 1468 / 925], [1, 1, 0, 0, 0,
        0, 0, 0, 0], [(0, 0, 1)], 0⟩ := by
    exact attachStep_skip sqrt skewA (1, 0, 0) (116 / 165) 1
      ⟨[0, 0, 0, 16 / 55, 16 / 55, 16 / 55, 1468 / 925, 1468 / 925, 1468 / 925], [1, 1, 0, 0, 0,
        0, 0, 0, 0], [(0, 0, 1)], 0⟩ 1 (by decide)
  have e2 : attachStep sqrt skewA (1, 0, 0) (116 / 165) 1
      ⟨[0, 0, 0, 16 / 55, 16 / 55, 16 / 55, 1468 / 925, 1468 / 925, 1468 / 925], [1, 1, 0, 0, 0,
        0, 0, 0, 0], [(0, 0, 1)], 0⟩ 2
      = ⟨[0, 0, 0, 16 / 55, 16 / 55, 16 / 55, 1468 / 925, 1468 / 925, 1468 / 925], [1, 1, 0, 0, 0,
        0, 0, 0, 0], [(0, 0, 1)], 0⟩ := by
    rw [attachStep_free sqrt skewA (1, 0, 0) (116 / 165) 1
      ⟨[0, 0, 0, 16 / 55, 16 / 55, 16 / 55, 1468 / 925, 1468 / 925, 1468 / 925], [1, 1, 0, 0, 0,
        0, 0, 0, 0], [(0, 0, 1)], 0⟩ 2 rfl
      (by norm_num [skewA, dot, ZERO_THRES])]
    simp only [skewA, dot, List.getD_cons_zero, List.getD_cons_succ, List.set_cons_zero,
      List.set_cons_succ, List.cons_append, List.nil_append]
    norm_num
  have e3 : attachStep sqrt skewA (1, 0, 0) (116 / 165) 1
      ⟨[0, 0, 0, 16 / 55, 16 / 55, 16 / 55, 1468 / 925, 1468 / 925, 1468 / 925], [1, 1, 0, 0, 0,
        0, 0, 0, 0], [(0, 0, 1)], 0⟩ 3
      = ⟨[0, 0, 0, 0, 16 / 55, 16 / 55, 1468 / 925, 1468 / 925, 1468 / 925], [1, 1, 0, 1, 0, 0, 0,
        0, 0], [(0, 0, 1), (12 / 29, 16 / 29, 21 / 29)], 1⟩ := by
    have hcr : norm sqrt (cross ((0, 0, 1) : Vector3 ℚ) (12 / 29, 16 / 29, 21 / 29)) = 20 / 29 :=
      norm_of_sq sqrt hsqrt _ _ (by norm_num) (by simp only [cross, dot]; norm_num)
    have hdep : ¬ (1 = 1 ∧ norm sqrt (cross ((0, 0, 1) : Vector3 ℚ) (12 / 29, 16 / 29,
        21 / 29)) < ZERO_THRES ℚ) := by
      rw [hcr]
      norm_num [ZERO_THRES]
    rw [attachStep_hit sqrt skewA (1, 0, 0) (116 / 165) 1
      ⟨[0, 0, 0, 16 / 55, 16 / 55, 16 / 55, 1468 / 925, 1468 / 925, 1468 / 925], [1, 1, 0, 0, 0,
        0, 0, 0, 0], [(0, 0, 1)], 0⟩ 3 rfl
      (by norm_num [skewA, dot, ZERO_THRES])
      (by norm_num [skewA, dot, ZERO_THRES])
      hdep (by decide) rfl]
    simp only [skewA, dot, List.getD_cons_zero, List.getD_cons_succ, List.set_cons_zero,
      List.set_cons_succ, List.cons_append, List.nil_append]
    norm_num
  have e4 : attachStep sqrt skewA (1, 0, 0) (116 / 165) 1
      ⟨[0, 0, 0, 0, 16 / 55, 16 / 55, 1468 / 925, 1468 / 925, 1468 / 925], [1, 1, 0, 1, 0, 0, 0,
        0, 0], [(0, 0, 1), (12 / 29, 16 / 29, 21 / 29)], 1⟩ 4
      = ⟨[0, 0, 0, 0, 0, 16 / 55, 1468 / 925, 1468 / 925, 1468 / 925], [1, 1, 0, 1, 0, 0, 0, 0,
        0], [(0, 0, 1), (12 / 29, 16 / 29, 21 / 29)], 1⟩ := by
    have hcr : norm sqrt (cross ((0, 0, 1) : Vector3 ℚ) (12 / 29, 16 / 29, 21 / 29)) = 20 / 29 :=
      norm_of_sq sqrt hsqrt _ _ (by norm_num) (by simp only [cross, dot]; norm_num)
    have hdep : ¬ (1 = 1 ∧ norm sqrt (cross ((0, 0, 1) : Vector3 ℚ) (12 / 29, 16 / 29,
        21 / 29)) < ZERO_THRES ℚ) := by
      rw [hcr]
      norm_num [ZERO_THRES]
    rw [attachStep_late sqrt skewA (1, 0, 0) (116 / 165) 1
      ⟨[0, 0, 0, 0, 16 / 55, 16 / 55, 1468 / 925, 1468 / 925, 1468 / 925], [1, 1, 0, 1, 0, 0, 0,
        0, 0], [(0, 0, 1), (12 / 29, 16 / 29, 21 / 29)], 1⟩ 4 rfl
      hdep (by decide) (by decide)]
    simp only [skewA, dot, List.getD_cons_zero, List.getD_cons_succ, List.set_cons_zero,
      List.set_cons_succ, List.cons_append, List.nil_append]
    norm_num
  have e5 : attachStep sqrt skewA (1, 0, 0) (116 / 165) 1
      ⟨[0, 0, 0, 0, 0, 16 / 55, 1468 / 925, 1468 / 925, 1468 / 925], [1, 1, 0, 1, 0, 0, 0, 0, 0],
        [(0, 0, 1), (12 / 29, 16 / 29, 21 / 29)], 1⟩ 5
      = ⟨[0, 0, 0, 0, 0, 0, 1468 / 925, 1468 / 925, 1468 / 925], [1, 1, 0, 1, 0, 0, 0, 0, 0], [(0,
        0, 1), (12 / 29, 16 / 29, 21 / 29)], 1⟩ := by
    have hcr : norm sqrt (cross ((0, 0, 1) : Vector3 ℚ) (12 / 29, 16 / 29, 21 / 29)) = 20 / 29 :=
      norm_of_sq sqrt hsqrt _ _ (by norm_num) (by simp only [cross, dot]; norm_num)
    have hdep : ¬ (1 = 1 ∧ norm sqrt (cross ((0, 0, 1) : Vector3 ℚ) (12 / 29, 16 / 29,
        21 / 29)) < ZERO_THRES ℚ) := by
      rw [hcr]
      norm_num [ZERO_THRES]
    rw [attachStep_late sqrt skewA (1, 0, 0) (116 / 165) 1
      ⟨[0, 0, 0, 0, 0, 16 / 55, 1468 / 925, 1468 / 925, 1468 / 925], [1, 1, 0, 1, 0, 0, 0, 0, 0],
        [(0, 0, 1), (12 / 29, 16 / 29, 21 / 29)], 1⟩ 5 rfl
      hdep (by decide) (by decide)]
    simp only [skewA, dot, List.getD_cons_zero, List.getD_cons_succ, List.set_cons_zero,
      List.set_cons_succ, List.cons_append, List.nil_append]
    norm_num
  have e6 : attachStep sqrt skewA (1, 0, 0) (116 / 165) 1
      ⟨[0, 0, 0, 0, 0, 0, 1468 / 925, 1468 / 925, 1468 / 925], [1, 1, 0, 1, 0, 0, 0, 0, 0], [(0,
        0, 1), (12 / 29, 16 / 29, 21 / 29)], 1⟩ 6
      = ⟨[0, 0, 0, 0, 0, 0, 3508 / 2035, 1468 / 925, 1468 / 925], [1, 1, 0, 1, 0, 0, 0, 0, 0],
        [(0, 0, 1), (12 / 29, 16 / 29, 21 / 29)], 1⟩ := by
    rw [attachStep_free sqrt skewA (1, 0, 0) (116 / 165) 1
      ⟨[0, 0, 0, 0, 0, 0, 1468 / 925, 1468 / 925, 1468 / 925], [1, 1, 0, 1, 0, 0, 0, 0, 0], [(0,
        0, 1), (12 / 29, 16 / 29, 21 / 29)], 1⟩ 6 rfl
      (by norm_num [skewA, dot, ZERO_THRES])]
    simp only [skewA, dot, List.getD_cons_zero, List.getD_cons_succ, List.set_cons_zero,
      List.set_cons_succ, List.cons_append, List.nil_append]
    norm_num
  have e7 : attachStep sqrt skewA (1, 0, 0) (116 / 165) 1
      ⟨[0, 0, 0, 0, 0, 0, 3508 / 2035, 1468 / 925, 1468 / 925], [1, 1, 0, 1, 0, 0, 0, 0, 0], [(0,
        0, 1), (12 / 29, 16 / 29, 21 / 29)], 1⟩ 7
      = ⟨[0, 0, 0, 0, 0, 0, 3508 / 2035, 3508 / 2035, 1468 / 925], [1, 1, 0, 1, 0, 0, 0, 0, 0],
        [(0, 0, 1), (12 / 29, 16 / 29, 21 / 29)], 1⟩ := by
    rw [attachStep_free sqrt skewA (1, 0, 0) (116 / 165) 1
      ⟨[0, 0, 0, 0, 0, 0, 3508 / 2035, 1468 / 925, 1468 / 925], [1, 1, 0, 1, 0, 0, 0, 0, 0], [(0,
        0, 1), (12 / 29, 16 / 29, 21 / 29)], 1⟩ 7 rfl
      (by norm_num [skewA, dot, ZERO_THRES])]
    simp only [skewA, dot, List.getD_cons_zero, List.getD_cons_succ, List.set_cons_zero,
      List.set_cons_succ, List.cons_append, List.nil_append]
    norm_num
  have e8 : attachStep sqrt skewA (1, 0, 0) (116 / 165) 1
      ⟨[0, 0, 0, 0, 0, 0, 3508 / 2035, 3508 / 2035, 1468 / 925], [1, 1, 0, 1, 0, 0, 0, 0, 0], [(0,
        0, 1), (12 / 29, 16 / 29, 21 / 29)], 1⟩ 8
      = ⟨[0, 0, 0, 0, 0, 0, 3508 / 2035, 3508 / 2035, 3508 / 2035], [1, 1, 0, 1, 0, 0, 0, 0, 0],
        [(0, 0, 1), (12 / 29, 16 / 29, 21 / 29)], 1⟩ := by
    rw [attachStep_free sqrt skewA (1, 0, 0) (116 / 165) 1
      ⟨[0, 0, 0, 0, 0, 0, 3508 / 2035, 3508 / 2035, 1468 / 925], [1, 1, 0, 1, 0, 0, 0, 0, 0], [(0,
        0, 1), (12 / 29, 16 / 29, 21 / 29)], 1⟩ 8 rfl
      (by norm_num [skewA, dot, ZERO_THRES])]
    simp only [skewA, dot, List.getD_cons_zero, List.getD_cons_succ, List.set_cons_zero,
      List.set_cons_succ, List.cons_append, List.nil_append]
    norm_num
  exact foldl_range_nine (attachStep sqrt skewA (1, 0, 0) (116 / 165) 1)
    ⟨[0, 0, 0, 16 / 55, 16 / 55, 16 / 55, 1468 / 925, 1468 / 925, 1468 / 925], [1, 1, 0, 0, 0, 0,
      0, 0, 0], [(0, 0, 1)], 0⟩
    ⟨[0, 0, 0, 16 / 55, 16 / 55, 16 / 55, 1468 / 925, 1468 / 925, 1468 / 925], [1, 1, 0, 0, 0, 0,
      0, 0, 0], [(0, 0, 1)], 0⟩
    ⟨[0, 0, 0, 16 / 55, 16 / 55, 16 / 55, 1468 / 925, 1468 / 925, 1468 / 925], [1, 1, 0, 0, 0, 0,
      0, 0, 0], [(0, 0, 1)], 0⟩
    ⟨[0, 0, 0, 16 / 55, 16 / 55, 16 / 55, 1468 / 925, 1468 / 925, 1468 / 925], [1, 1, 0, 0, 0, 0,
      0, 0, 0], [(0, 0, 1)], 0⟩
    ⟨[0, 0, 0, 0, 16 / 55, 16 / 55, 1468 / 925, 1468 / 925, 1468 / 925], [1, 1, 0, 1, 0, 0, 0, 0,
      0], [(0, 0, 1), (12 / 29, 16 / 29, 21 / 29)], 1⟩
    ⟨[0, 0, 0, 0, 0, 16 / 55, 1468 / 925, 1468 / 925, 1468 / 925], [1, 1, 0, 1, 0, 0, 0, 0, 0],
      [(0, 0, 1), (12 / 29, 16 / 29, 21 / 29)], 1⟩
    ⟨[0, 0, 0, 0, 0, 0, 1468 / 925, 1468 / 925, 1468 / 925], [1, 1, 0, 1, 0, 0, 0, 0, 0], [(0, 0,
      1), (12 / 29, 16 / 29, 21 / 29)], 1⟩
    ⟨[0, 0, 0, 0, 0, 0, 3508 / 2035, 1468 / 925, 1468 / 925], [1, 1, 0, 1, 0, 0, 0, 0, 0], [(0, 0,
      1), (12 / 29, 16 / 29, 21 / 29)], 1⟩
    ⟨[0, 0, 0, 0, 0, 0, 3508 / 2035, 3508 / 2035, 1468 / 925], [1, 1, 0, 1, 0, 0, 0, 0, 0], [(0,
      0, 1), (12 / 29, 16 / 29, 21 / 29)], 1⟩
    ⟨[0, 0, 0, 0, 0, 0, 3508 / 2035, 3508 / 2035, 3508 / 2035], [1, 1, 0, 1, 0, 0, 0, 0, 0], [(0,
      0, 1), (12 / 29, 16 / 29, 21 / 29)], 1⟩
    e0 e1 e2 e3 e4 e5 e6 e7 e8

theorem skew_pass2 (sqrt : ℚ → ℚ) (hsqrt : ∀ r : ℚ, 0 ≤ r → sqrt (r * r) = r) :
    positionPass sqrt skewA skewTarget
      ⟨(-(12 / 5), 0, -1), [0, 0, 0, 16 / 55, 16 / 55, 16 / 55, 1468 / 925, 1468 / 925,
        1468 / 925], [1, 1, 0, 0, 0, 0, 0, 0, 0], [(-(12 / 113), -(448 / 565), 3 / 5), (0, 0, 1)],
        [((547971 / 589069, 1204 / 45313, 1908 / 5213), 5213 / 13560), ((1389 / 1469, 12 / 113,
        4 / 13), 3913 / 4520)]⟩
      = Flow.next ⟨(-(56 / 33), 0, -1), [0, 0, 0, 0, 0, 0, 3508 / 2035, 3508 / 2035, 3508 / 2035],
        [1, 1, 0, 1, 0, 0, 0, 0, 0], [(0, 0, 1), (12 / 29, 16 / 29, 21 / 29)], [((547971 / 589069,
        1204 / 45313, 1908 / 5213), 5213 / 13560), ((1389 / 1469, 12 / 113, 4 / 13), 3913 / 4520),
        ((1, 0, 0), 116 / 165)]⟩ := by
  have hoff : vsub skewTarget ((-(12 / 5), 0, -1) : Vector3 ℚ) = (12 / 5, 0, 1) := by
    simp only [skewTarget, vsub]
    norm_num
  have hn : norm sqrt (vsub skewTarget ((-(12 / 5), 0, -1) : Vector3 ℚ)) = 13 / 5 := by
    rw [hoff]
    exact norm_of_sq sqrt hsqrt _ _ (by norm_num) (by simp only [dot]; norm_num)
  have hZ : ¬ ((13 / 5 : ℚ) < ZERO_THRES ℚ) := by norm_num [ZERO_THRES]
  have hdir : vdiv ((12 / 5, 0, 1) : Vector3 ℚ) (13 / 5) = (12 / 13, 0, 5 / 13) := by
    simp only [vdiv]
    norm_num
  have hproj : projectStep sqrt [(-(12 / 113), -(448 / 565), 3 / 5), (0, 0,
      1)] (vdiv (vsub skewTarget ((-(12 / 5), 0, -1) : Vector3 ℚ)) (13 / 5)) (13 / 5)
      = some ([(0, 0, 1)], (1, 0, 0), 12 / 5) := by
    rw [hoff, hdir]
    have ht : vsub ((12 / 13, 0, 5 / 13) : Vector3 ℚ) (vscale (dot ((12 / 13, 0,
        5 / 13) : Vector3 ℚ) (0, 0, 1)) (0, 0, 1))
        = (12 / 13, 0, 0) := by
      simp only [dot, vscale, vsub]
      norm_num
    have hn1 : norm sqrt ((12 / 13, 0, 0) : Vector3 ℚ) = 12 / 13 :=
      norm_of_sq sqrt hsqrt _ _ (by norm_num) (by simp only [dot]; norm_num)
    have hZ1 : ¬ ((12 / 13 : ℚ) < ZERO_THRES ℚ) := by norm_num [ZERO_THRES]
    have hd1 : vdiv ((12 / 13, 0, 0) : Vector3 ℚ) (12 / 13) = (1, 0, 0) := by
      simp only [vdiv]
      norm_num
    have hb : boundaryOf [((-(12 / 113), -(448 / 565), 3 / 5) : Vector3 ℚ), ((0, 0,
        1) : Vector3 ℚ)] (1, 0, 0) = [(0, 0, 1)] := by
      simp only [boundaryOf, List.filter_cons, List.filter_nil, dot]
      norm_num
    rw [projectStep_one sqrt [(-(12 / 113), -(448 / 565), 3 / 5), (0, 0, 1)] (0, 0, 1) (0, 0,
        1) (12 / 13, 0, 5 / 13) (12 / 13, 0, 0) (1, 0,
        0) (13 / 5) (12 / 13) rfl ht hn1 hZ1 hd1 hb]
    norm_num
  have hlim : limitStep skewA [0, 0, 0, 16 / 55, 16 / 55, 16 / 55, 1468 / 925, 1468 / 925,
      1468 / 925] [1, 1, 0, 0, 0, 0, 0, 0, 0] (1, 0, 0) (12 / 5)
      = 116 / 165 := by
    norm_num [limitStep, List.range_succ, skewA, dot, ZERO_THRES]
  have hc : ¬ ((116 / 165 : ℚ) < 1 / 1000000) := by norm_num
  have hpos : vadd ((-(12 / 5), 0, -1) : Vector3 ℚ) (vscale (116 / 165) (1, 0, 0))
      = (-(56 / 33), 0, -1) := by
    simp only [vadd, vscale]
    norm_num
  have hne : (116 / 165 : ℚ) ≠ 12 / 5 := by norm_num
  rw [positionPass_eval_next sqrt skewA skewTarget
    ⟨(-(12 / 5), 0, -1), [0, 0, 0, 16 / 55, 16 / 55, 16 / 55, 1468 / 925, 1468 / 925, 1468 / 925],
      [1, 1, 0, 0, 0, 0, 0, 0, 0], [(-(12 / 113), -(448 / 565), 3 / 5), (0, 0, 1)],
      [((547971 / 589069, 1204 / 45313, 1908 / 5213), 5213 / 13560), ((1389 / 1469, 12 / 113,
      4 / 13), 3913 / 4520)]⟩
    (13 / 5) [(0, 0, 1)] (1, 0, 0) (12 / 5) (116 / 165)
    ⟨[0, 0, 0, 0, 0, 0, 3508 / 2035, 3508 / 2035, 3508 / 2035], [1, 1, 0, 1, 0, 0, 0, 0, 0], [(0,
      0, 1), (12 / 29, 16 / 29, 21 / 29)], 1⟩
    hn hZ hproj hlim hc hne (skew_attach2 sqrt hsqrt)]
  simp only [hpos, List.nil_append, List.cons_append]

theorem skew_pass3 (sqrt : ℚ → ℚ) (hsqrt : ∀ r : ℚ, 0 ≤ r → sqrt (r * r) = r) :
    positionPass sqrt skewA skewTarget
      ⟨(-(56 / 33), 0, -1), [0, 0, 0, 0, 0, 0, 3508 / 2035, 3508 / 2035, 3508 / 2035], [1, 1, 0,
        1, 0, 0, 0, 0, 0], [(0, 0, 1), (12 / 29, 16 / 29, 21 / 29)], [((547971 / 589069,
        1204 / 45313, 1908 / 5213), 5213 / 13560), ((1389 / 1469, 12 / 113, 4 / 13), 3913 / 4520),
        ((1, 0, 0), 116 / 165)]⟩
      = Flow.ret ⟨(-(5460 / 9251), -(7280 / 9251), -(9555 / 9251)), [0, 0, 0, 0, 0, 0,
        3508 / 2035, 3508 / 2035, 3508 / 2035], [1, 1, 0, 1, 0, 0, 0, 0, 0], [(12 / 29, 16 / 29,
        21 / 29)], [((547971 / 589069, 1204 / 45313, 1908 / 5213), 5213 / 13560), ((1389 / 1469,
        12 / 113, 4 / 13), 3913 / 4520), ((1, 0, 0), 116 / 165), ((7679 / 9425, -(84 / 145),
        -(228 / 9425)), 1300 / 957)]⟩ := by
  have hoff : vsub skewTarget ((-(56 / 33), 0, -1) : Vector3 ℚ) = (56 / 33, 0, 1) := by
    simp only [skewTarget, vsub]
    norm_num
  have hn : norm sqrt (vsub skewTarget ((-(56 / 33), 0, -1) : Vector3 ℚ)) = 65 / 33 := by
    rw [hoff]
    exact norm_of_sq sqrt hsqrt _ _ (by norm_num) (by simp only [dot]; norm_num)
  have hZ : ¬ ((65 / 33 : ℚ) < ZERO_THRES ℚ) := by norm_num [ZERO_THRES]
  have hdir : vdiv ((56 / 33, 0, 1) : Vector3 ℚ) (65 / 33) = (56 / 65, 0, 33 / 65) := by
    simp only [vdiv]
    norm_num
  have hproj : projectStep sqrt [(0, 0, 1), (12 / 29, 16 / 29,
      21 / 29)] (vdiv (vsub skewTarget ((-(56 / 33), 0, -1) : Vector3 ℚ)) (65 / 33)) (65 / 33)
      = some ([(12 / 29, 16 / 29, 21 / 29)], (7679 / 9425, -(84 / 145), -(228 / 9425)),
        1300 / 957) := by
    rw [hoff, hdir]
    have ht : vsub ((56 / 65, 0, 33 / 65) : Vector3 ℚ) (vscale (dot ((56 / 65, 0,
        33 / 65) : Vector3 ℚ) (12 / 29, 16 / 29, 21 / 29)) (12 / 29, 16 / 29, 21 / 29))
        = (30716 / 54665, -(336 / 841), -(912 / 54665)) := by
      simp only [dot, vscale, vsub]
      norm_num
    have hn1 : norm sqrt ((30716 / 54665, -(336 / 841), -(912 / 54665)) : Vector3 ℚ) = 20 / 29 :=
      norm_of_sq sqrt hsqrt _ _ (by norm_num) (by simp only [dot]; norm_num)
    have hZ1 : ¬ ((20 / 29 : ℚ) < ZERO_THRES ℚ) := by norm_num [ZERO_THRES]
    have hd1 : vdiv ((30716 / 54665, -(336 / 841),
        -(912 / 54665)) : Vector3 ℚ) (20 / 29) = (7679 / 9425, -(84 / 145), -(228 / 9425)) := by
      simp only [vdiv]
      norm_num
    have hb : boundaryOf [((0, 0, 1) : Vector3 ℚ), ((12 / 29, 16 / 29,
        21 / 29) : Vector3 ℚ)] (7679 / 9425, -(84 / 145), -(228 / 9425)) = [(12 / 29, 16 / 29,
        21 / 29)] := by
      simp only [boundaryOf, List.filter_cons, List.filter_nil, dot]
      norm_num
    rw [projectStep_one sqrt [(0, 0, 1), (12 / 29, 16 / 29, 21 / 29)] (12 / 29, 16 / 29,
        21 / 29) (12 / 29, 16 / 29, 21 / 29) (56 / 65, 0, 33 / 65) (30716 / 54665, -(336 / 841),
        -(912 / 54665)) (7679 / 9425, -(84 / 145),
        -(228 / 9425)) (65 / 33) (20 / 29) rfl ht hn1 hZ1 hd1 hb]
    norm_num
  have hlim : limitStep skewA [0, 0, 0, 0, 0, 0, 3508 / 2035, 3508 / 2035, 3508 / 2035] [1, 1, 0,
      1, 0, 0, 0, 0, 0] (7679 / 9425, -(84 / 145), -(228 / 9425)) (1300 / 957)
      = 1300 / 957 := by
    norm_num [limitStep, List.range_succ, skewA, dot, ZERO_THRES]
  have hc : ¬ ((1300 / 957 : ℚ) < 1 / 1000000) := by norm_num
  have hpos : vadd ((-(56 / 33), 0, -1) : Vector3 ℚ) (vscale (1300 / 957) (7679 / 9425,
      -(84 / 145), -(228 / 9425)))
      = (-(5460 / 9251), -(7280 / 9251), -(9555 / 9251)) := by
    simp only [vadd, vscale]
    norm_num
  rw [positionPass_eval_ret sqrt skewA skewTarget
    ⟨(-(56 / 33), 0, -1), [0, 0, 0, 0, 0, 0, 3508 / 2035, 3508 / 2035, 3508 / 2035], [1, 1, 0, 1,
      0, 0, 0, 0, 0], [(0, 0, 1), (12 / 29, 16 / 29, 21 / 29)], [((547971 / 589069, 1204 / 45313,
      1908 / 5213), 5213 / 13560), ((1389 / 1469, 12 / 113, 4 / 13), 3913 / 4520), ((1, 0, 0),
      116 / 165)]⟩
    (65 / 33) [(12 / 29, 16 / 29, 21 / 29)] (7679 / 9425, -(84 / 145), -(228 / 9425)) (1300 / 957)
    hn hZ hproj hlim hc]
  simp only [hpos, List.nil_append, List.cons_append]

/-- The run of `OptimizePosition` on vertex `0` of `skewQ`: four passes, the last of which
returns, for any square root that is exact on the squares of rational numbers. -/
theorem skew_run (sqrt : ℚ → ℚ) (hsqrt : ∀ r : ℚ, 0 ≤ r → sqrt (r * r) = r) :
    OptimizePosition sqrt 13 skewQ 0 skewTarget = some
      ⟨(-(5460 / 9251), -(7280 / 9251), -(9555 / 9251)), [0, 0, 0, 0, 0, 0, 3508 / 2035,
        3508 / 2035, 3508 / 2035], [1, 1, 0, 1, 0, 0, 0, 0, 0], [(12 / 29, 16 / 29, 21 / 29)],
        [((547971 / 589069, 1204 / 45313, 1908 / 5213), 5213 / 13560), ((1389 / 1469, 12 / 113,
        4 / 13), 3913 / 4520), ((1, 0, 0), 116 / 165), ((7679 / 9425, -(84 / 145), -(228 / 9425)),
        1300 / 957)]⟩ := by
  have hA : (skewA.zip skewB).map Prod.fst = skewA := rfl
  have hB : (skewA.zip skewB).map Prod.snd = skewB := rfl
  have hl : (skewA.zip skewB).length = 9 := rfl
  have hp : skewQ.out_V_.getD 0 (0, 0, 0)
      = ((-(182657 / 51076), -(3913 / 38307), -(159 / 113)) : Vector3 ℚ) := rfl
  unfold OptimizePosition
  rw [skew_constraints sqrt hsqrt]
  simp only [hA, hB, hl, hp, List.replicate, skewB]
  refine congrArg some ?_
  refine (positionLoop_next sqrt skewA skewTarget 8 _ _ (skew_pass0 sqrt hsqrt)).trans ?_
  refine (positionLoop_next sqrt skewA skewTarget 7 _ _ (skew_pass1 sqrt hsqrt)).trans ?_
  refine (positionLoop_next sqrt skewA skewTarget 6 _ _ (skew_pass2 sqrt hsqrt)).trans ?_
  exact positionLoop_ret sqrt skewA skewTarget 5 _ _ (skew_pass3 sqrt hsqrt)

/-- C7 fails in the code, for a constraint that the solver once attached and later dropped from
its active set.  On the closed manifold mesh `skewQ` the nine constraints generated for
vertex `0` all have `b_j ≥ 0`.  With the target `skewTarget` the solver makes four passes: it
reaches the wall of constraint `1` and attaches it (`attached_dimensions[1] = 1`); it slides
along that wall to the wall of constraint `0`; it projects the direction on the last
constraint, drops constraint `1` from `constraints` at source lines 767 to 773, and slides on;
and it drops constraint `0` in the same way and applies the whole last step.  Constraint `1`
keeps its flag, so the loops at source lines 797 and 826 skip it in the passes three and four,
and the vertex ends with `a_1 . D = 1412567 / 3136089`, more than `2 / 5` above
`b_1 = 13 / 339`.  The square roots are taken by `ratSqrt`; every square root that is exact on
the squares of rational numbers gives the same run. -/
theorem OptimizePosition_released_violation :
    ManifoldMesh skewQ.out_F_ (skewQ.num_F_ * 3) skewQ.num_V_ skewQ.V2E_ skewQ.E2E_ ∧
    (∀ sqrt : ℚ → ℚ, (∀ r : ℚ, 0 ≤ r → sqrt (r * r) = r) →
      OptimizePosition sqrt 13 skewQ 0 skewTarget
        = OptimizePosition ratSqrt 13 skewQ 0 skewTarget) ∧
    ∃ AB s, positionConstraints ratSqrt 13 skewQ 0 = some AB ∧
      OptimizePosition ratSqrt 13 skewQ 0 skewTarget = some s ∧
      AB.length = 9 ∧
      (∀ j, j < AB.length → 0 ≤ (AB.map Prod.snd).getD j 0) ∧
      (AB.map Prod.fst).getD 1 (0, 0, 0) = (-(12 / 113), -(448 / 565), 3 / 5) ∧
      (AB.map Prod.snd).getD 1 0 = 13 / 339 ∧
      s.steps.length = 4 ∧
      s.pos = (-(5460 / 9251), -(7280 / 9251), -(9555 / 9251)) ∧
      s.attached_dimensions.getD 1 0 = 1 ∧
      s.constraints = [(12 / 29, 16 / 29, 21 / 29)] ∧
      (AB.map Prod.fst).getD 1 (0, 0, 0) ∉ s.constraints ∧
      dot ((AB.map Prod.fst).getD 1 (0, 0, 0)) (vsub s.pos (skewQ.out_V_.getD 0 (0, 0, 0)))
        = 1412567 / 3136089 ∧
      (AB.map Prod.snd).getD 1 0 + 2 / 5
        < dot ((AB.map Prod.fst).getD 1 (0, 0, 0))
            (vsub s.pos (skewQ.out_V_.getD 0 (0, 0, 0))) := by
  have hd : dot ((-(12 / 113), -(448 / 565), 3 / 5) : Vector3 ℚ)
      (vsub ((-(5460 / 9251), -(7280 / 9251), -(9555 / 9251)) : Vector3 ℚ)
        (-(182657 / 51076), -(3913 / 38307), -(159 / 113))) = 1412567 / 3136089 := by
    simp only [vsub, dot]
    norm_num
  refine ⟨⟨⟨by decide, by decide⟩, by decide, by decide, by decide⟩, ?_, _, _,
    skew_constraints ratSqrt ratSqrt_sq, skew_run ratSqrt ratSqrt_sq, rfl, ?_, rfl, rfl, rfl,
    rfl, rfl, rfl, ?_, hd, ?_⟩
  · intro sqrt hsqrt
    rw [skew_run sqrt hsqrt, skew_run ratSqrt ratSqrt_sq]
  · intro j hj
    have hj9 : j < 9 := hj
    interval_cases j <;> norm_num [skewA, skewB]
  · intro h
    have h1 := congrArg Prod.fst (List.mem_singleton.mp h)
    norm_num [skewA, skewB] at h1
  · exact lt_of_lt_of_eq (by norm_num [skewA, skewB]) hd.symm

end MeshProjector
